import Mathlib

/-!
PuTTY-ng: SSH-2 binary packet protocol and SFTP client core.

A shallow embedding of `sftp.c`, `ssh2bpp.c` and `sshbpp.h` together with
theorems about request-id allocation, the transfer queue and packet framing.

Conventions of the embedding:
* C `unsigned` (32 bit) values are `Nat` reduced `% 4294967296` where the C
  code can wrap; 64-bit offsets are reduced `% 18446744073709551616`.
* Bytes are `Nat` values below 256; buffers are `List Nat`.
* A crash of the C program (NULL dereference, failed `assert`) is `none`.
-/

namespace Putty

/-! ## Machine integers and big-endian marshalling -/

/-- Two to the 32: the modulus of C `unsigned` arithmetic. -/
def U32 : Nat := 4294967296

/-- Two to the 64: the modulus of `uint64` offsets. -/
def U64 : Nat := 18446744073709551616

/-- C `unsigned` subtraction `a - b` of two 32-bit values (the difference
modulo two to the 32). -/
def usub32 (a b : Nat) : Nat :=
  if b ≤ a then a - b else a + 4294967296 - b

/-- `PUT_32BIT_MSB_FIRST`: the four big-endian bytes of a 32-bit value. -/
def PUT_32BIT (x : Nat) : List Nat :=
  [x / 16777216 % 256, x / 65536 % 256, x / 256 % 256, x % 256]

/-- `GET_32BIT_MSB_FIRST`: the value of the first four bytes of a buffer
(a byte that does not exist reads as 0). -/
def GET_32BIT (b : List Nat) : Nat :=
  b.getD 0 0 * 16777216 + b.getD 1 0 * 65536 + b.getD 2 0 * 256 + b.getD 3 0

/-- Modelled from the spec: the binary source of `marshal.h` (not among the
sources), a cursor-based reader over a byte buffer with a sticky error flag
that reports truncation. -/
structure BinarySource where
  data : List Nat
  pos : Nat
  err : Bool
deriving DecidableEq, Repr

/-- Modelled from the spec: `BinarySource_data_avail`, which sets the sticky
error flag when fewer than `wanted` bytes remain. -/
def BinarySource.avail (src : BinarySource) (wanted : Nat) : Bool × BinarySource :=
  if src.err then (false, src)
  else if wanted ≤ src.data.length - src.pos then (true, src)
  else (false, { src with err := true })

/-- Modelled from the spec: `get_uint32`, a big-endian 32-bit read that
returns 0 and sets the error flag on truncation. -/
def get_uint32 (src : BinarySource) : Nat × BinarySource :=
  match src.avail 4 with
  | (false, s) => (0, s)
  | (true, s) => (GET_32BIT (s.data.drop s.pos), { s with pos := s.pos + 4 })

/-- Modelled from the spec: `get_string`, a length-prefixed byte string;
the empty string and the error flag on truncation. -/
def get_string (src : BinarySource) : List Nat × BinarySource :=
  match src.avail 4 with
  | (false, s) => ([], s)
  | (true, s) =>
    let len := GET_32BIT (s.data.drop s.pos)
    let s1 : BinarySource := { s with pos := s.pos + 4 }
    match s1.avail len with
    | (false, s2) => ([], s2)
    | (true, s2) => ((s2.data.drop s2.pos).take len, { s2 with pos := s2.pos + len })

/-- `get_err`: the sticky error flag. -/
def get_err (src : BinarySource) : Bool := src.err

/-! ## SFTP request registry (`sftp.c`) -/

/-- `#define REQUEST_ID_OFFSET 256`. -/
def REQUEST_ID_OFFSET : Nat := 256

/-- `struct sftp_request`; `userdata` is the address of a transfer node, or
`none` for `NULL`. -/
structure sftp_request where
  id : Nat
  registered : Nat
  userdata : Option Nat
deriving DecidableEq, Repr

/-- `sftp_reqcmp`: the tree ordering, by id. -/
def sftp_reqcmp (a b : sftp_request) : Int :=
  if a.id < b.id then -1 else if a.id > b.id then 1 else 0

/-- `sftp_reqfind`: compare a bare id against a request. -/
def sftp_reqfind (a : Nat) (b : sftp_request) : Int :=
  if a < b.id then -1 else if a > b.id then 1 else 0

/-- Modelled from the spec: the counted 2-3-4 tree of `tree234.h` (not among
the sources), an ordered map keyed by id; represented by the list of its
elements in tree order. -/
abbrev tree234 := List sftp_request

/-- Modelled from the spec: `count234`, the number of elements. -/
def count234 (t : tree234) : Nat := t.length

/-- Modelled from the spec: `index234`, the element at a tree index or NULL. -/
def index234 (t : tree234) (i : Nat) : Option sftp_request := t[i]?

/-- Modelled from the spec: `find234` with `sftp_reqfind`, the element that
compares equal to the id, or NULL. -/
def find234 (t : tree234) (id : Nat) : Option sftp_request :=
  t.find? (fun r => sftp_reqfind id r == 0)

/-- Modelled from the spec: `add234` with `sftp_reqcmp`: insert in order; an
element that compares equal to an existing one is not inserted. -/
def add234 : tree234 → sftp_request → tree234
  | [], r => [r]
  | x :: xs, r =>
    if sftp_reqcmp r x < 0 then r :: x :: xs
    else if sftp_reqcmp r x > 0 then x :: add234 xs r
    else x :: xs

/-- Modelled from the spec: `del234`, remove the element that compares equal
to the given one. -/
def del234 (t : tree234) (r : sftp_request) : tree234 :=
  t.eraseP (fun x => sftp_reqcmp r x == 0)

/-- The process-wide state of `sftp.c`: the registry `sftp_requests` (`none`
is the NULL pointer before the first allocation), the error globals, the
packets handed to `sftp_senddata`, and the next fresh address that `snew`
hands out for a transfer node. -/
structure sftp_globals where
  sftp_requests : Option tree234
  fxp_error_message : String
  fxp_errtype : Int
  sent : List (List Nat)
  heap_next : Nat
deriving DecidableEq, Repr

/-- The binary-search loop of `sftp_alloc_request` in 32-bit unsigned
arithmetic; `none` when `index234` returns NULL (dereferenced by the C code)
or when the fuel is used up. -/
def alloc_search (t : tree234) : Nat → Nat → Nat → Option Nat
  | 0, _, _ => none
  | fuel + 1, low, high =>
    if usub32 high low > 1 then
      let mid := (high + low) % 4294967296 / 2
      match index234 t mid with
      | none => none
      | some r =>
        if r.id = (mid + REQUEST_ID_OFFSET) % 4294967296 then alloc_search t fuel mid high
        else alloc_search t fuel low mid
    else some low

/-- `sftp_alloc_request`: first-fit allocation of a request id. The result is
the new request and the new globals; `none` is a crash (NULL dereference or
the failed assertion that the id is unused). At most 32 halvings are needed
for a 32-bit interval. -/
def sftp_alloc_request (g : sftp_globals) : Option (sftp_request × sftp_globals) :=
  let t := match g.sftp_requests with
    | none => ([] : tree234)
    | some t => t
  let tsize := count234 t
  match alloc_search t 33 4294967295 (tsize % 4294967296) with
  | none => none
  | some low =>
    let i := (low + 1 + REQUEST_ID_OFFSET) % 4294967296
    if (find234 t i).isSome then none
    else
      let r : sftp_request := { id := i, registered := 0, userdata := none }
      some (r, { g with sftp_requests := some (add234 t r) })

/-- `sftp_cleanup_request`. -/
def sftp_cleanup_request (g : sftp_globals) : sftp_globals :=
  { g with sftp_requests := none }

/-- Update, inside the registry, the request object with the given id (the C
code writes through a pointer to the object the tree refers to). -/
def update_request (t : tree234) (id : Nat) (f : sftp_request → sftp_request) : tree234 :=
  t.map (fun r => if r.id = id then f r else r)

/-- `sftp_register`: set the `registered` flag of a request. -/
def sftp_register (g : sftp_globals) (id : Nat) : sftp_globals :=
  { g with sftp_requests :=
      g.sftp_requests.map (fun t => update_request t id (fun r => { r with registered := 1 })) }

/-- `fxp_set_userdata`. -/
def fxp_set_userdata (g : sftp_globals) (id : Nat) (data : Option Nat) : sftp_globals :=
  { g with sftp_requests :=
      g.sftp_requests.map (fun t => update_request t id (fun r => { r with userdata := data })) }

/-- `fxp_get_userdata`. -/
def fxp_get_userdata (req : sftp_request) : Option Nat := req.userdata

/-- `fxp_internal_error`. -/
def fxp_internal_error (g : sftp_globals) (msg : String) : sftp_globals :=
  { g with fxp_error_message := msg, fxp_errtype := -1 }

/-- `struct sftp_packet` as seen by the receive side: the type byte taken by
`sftp_recv` and the binary source over the packet data. -/
structure sftp_packet where
  type : Nat
  src : BinarySource
deriving DecidableEq, Repr

/-- `sftp_find_request`: match a response to its request and remove the
request from the registry. The result is the request (or `none` for NULL),
the packet with its cursor advanced, and the globals; the outer `none` is a
crash (`find234` on a NULL tree). -/
def sftp_find_request (g : sftp_globals) (pktin : Option sftp_packet) :
    Option (Option sftp_request × Option sftp_packet × sftp_globals) :=
  match pktin with
  | none => some (none, none, fxp_internal_error g "did not receive a valid SFTP packet\n")
  | some pkt =>
    let (id, src1) := get_uint32 pkt.src
    let pkt1 : sftp_packet := { pkt with src := src1 }
    if get_err src1 then
      some (none, some pkt1, fxp_internal_error g "did not receive a valid SFTP packet\n")
    else
      match g.sftp_requests with
      | none => none
      | some t =>
        match find234 t id with
        | none => some (none, some pkt1, fxp_internal_error g "request ID mismatch\n")
        | some req =>
          if req.registered = 0 then
            some (none, some pkt1, fxp_internal_error g "request ID mismatch\n")
          else
            some (some req, some pkt1, { g with sftp_requests := some (del234 t req) })

/-- The globals at program start. -/
def sftp_globals_init : sftp_globals :=
  { sftp_requests := none, fxp_error_message := "", fxp_errtype := 0, sent := [],
    heap_next := 1 }

/-- A response packet body that starts with the given request id. -/
def packet_with_id (type id : Nat) (body : List Nat) : sftp_packet :=
  { type := type, src := { data := type :: (PUT_32BIT id ++ body), pos := 1, err := false } }

/-- The claim's "longest prefix of the sorted registry whose i-th entry has id
i + 256", written after the specification: its length, counting indices from
`i`. -/
def contiguous_run : tree234 → Nat → Nat
  | [], _ => 0
  | x :: xs, i => if x.id = i + 256 then contiguous_run xs (i + 1) + 1 else 0

/-- A registry holding requests with exactly the given ids, unregistered. -/
def registry_of_ids (ids : List Nat) : tree234 :=
  ids.map (fun i => { id := i, registered := 0, userdata := none })

/-- Globals whose registry holds unregistered requests with the given ids. -/
def globals_of_ids (ids : List Nat) : sftp_globals :=
  { sftp_globals_init with sftp_requests := some (registry_of_ids ids) }

/-- A registry with a registered request 256 and an unregistered request 257. -/
def find_example_registry : tree234 :=
  [{ id := 256, registered := 1, userdata := none },
   { id := 257, registered := 0, userdata := none }]

/-- Globals holding `find_example_registry`. -/
def find_example_globals : sftp_globals :=
  { sftp_globals_init with sftp_requests := some find_example_registry }

/-- `n` consecutive calls of `sftp_alloc_request`; the ids in call order. -/
def alloc_many : Nat → sftp_globals → Option (List Nat × sftp_globals)
  | 0, g => some ([], g)
  | n + 1, g =>
    match sftp_alloc_request g with
    | none => none
    | some (r, g1) =>
      match alloc_many n g1 with
      | none => none
      | some (ids, g2) => some (r.id :: ids, g2)

/-- Free the request with id `k`: it is registered (as every `*_send` caller
does before waiting) and then removed by `sftp_find_request` on the arrival of
a response that carries its id. -/
def free_request (g : sftp_globals) (k : Nat) : Option sftp_globals :=
  match sftp_find_request (sftp_register g k) (some (packet_with_id 101 k [])) with
  | some (some _, _, g1) => some g1
  | _ => none

/-- The scenario of the specification: three allocations, request 257 freed,
two more allocations; the five ids handed out, in order. -/
def alloc_scenario : Option (List Nat) :=
  match alloc_many 3 sftp_globals_init with
  | none => none
  | some (ids, g) =>
    match free_request g 257 with
    | none => none
    | some g1 =>
      match alloc_many 2 g1 with
      | none => none
      | some (ids2, _) => some (ids ++ ids2)

/-! ## The transfer queue (`sftp.c`) -/

/-- `struct req`: one queued read or write. `addr` is the address of the node
(what `userdata` points at); `buffer` is `none` for NULL and otherwise the
bytes written into the buffer so far; `next`/`prev` are the list structure. -/
structure req where
  addr : Nat
  buffer : Option (List Nat)
  len : Int
  retlen : Int
  complete : Int
  offset : Nat
deriving DecidableEq, Repr

/-- `struct fxp_xfer`; `queue` is the linked list from `head` to `tail`. -/
structure fxp_xfer where
  offset : Nat
  furthestdata : Nat
  filesize : Nat
  req_totalsize : Int
  req_maxsize : Int
  eof : Bool
  err : Bool
  fh : List Nat
  queue : List req
deriving DecidableEq, Repr

/-- `xfer_init`; the C code leaves `eof` unset, the callers set it. -/
def xfer_init (fh : List Nat) (offset : Nat) (eof0 : Bool) : fxp_xfer :=
  { fh := fh, offset := offset, queue := [], req_totalsize := 0, req_maxsize := 1048576,
    err := false, filesize := 18446744073709551615, furthestdata := 0, eof := eof0 }

/-- `xfer_done`. -/
def xfer_done (xfer : fxp_xfer) : Bool :=
  (xfer.eof || xfer.err) && xfer.queue.isEmpty

/-- `xfer_set_error`. -/
def xfer_set_error (xfer : fxp_xfer) : fxp_xfer := { xfer with err := true }

/-- The loop of `xfer_download_data` over the queue, carrying
`req_totalsize`, `retbuf` (`none` is NULL) and `retlen`. -/
def xfer_download_data_loop :
    List req → Int → Option (List Nat) → Int → List req × Int × Option (List Nat) × Int
  | [], tot, retbuf, retlen => ([], tot, retbuf, retlen)
  | rr :: rest, tot, retbuf, retlen =>
    if rr.complete ≠ 0 ∧ retbuf = none then
      if rr.complete > 0 then
        xfer_download_data_loop rest (tot - rr.len) rr.buffer rr.retlen
      else
        xfer_download_data_loop rest (tot - rr.len) retbuf retlen
    else (rr :: rest, tot, retbuf, retlen)

/-- `xfer_download_data`: the new transfer, the return value, and the buffer
and length stored through `buf` and `len` when the return value is 1. -/
def xfer_download_data (xfer : fxp_xfer) : fxp_xfer × Int × Option (List Nat × Int) :=
  match xfer_download_data_loop xfer.queue xfer.req_totalsize none 0 with
  | (q, tot, some retbuf, retlen) =>
    ({ xfer with queue := q, req_totalsize := tot }, 1, some (retbuf, retlen))
  | (q, tot, none, _) =>
    ({ xfer with queue := q, req_totalsize := tot }, 0, none)

/-- The sum of the `len` fields of a list of nodes. -/
def total_len (q : List req) : Int := (q.map (fun rr => rr.len)).sum

/-- A queue for examples: a failed node, a completed node holding `[7, 8, 9]`,
a node still in flight and a later node that completed early. -/
def data_example_queue : List req :=
  [{ addr := 0, buffer := some [], len := 32768, retlen := 0, complete := -1, offset := 0 },
   { addr := 1, buffer := some [7, 8, 9], len := 32768, retlen := 3, complete := 1,
     offset := 32768 },
   { addr := 2, buffer := some [], len := 32768, retlen := 0, complete := 0, offset := 65536 },
   { addr := 3, buffer := some [5], len := 32768, retlen := 1, complete := 1, offset := 98304 }]

/-! ## SFTP packets and the read primitive (`sftp.c`) -/

/-- SFTP message and status codes of the IETF draft (`sftp.h`). -/
def SSH_FXP_READ : Nat := 5
/-- `SSH_FXP_STATUS`. -/
def SSH_FXP_STATUS : Nat := 101
/-- `SSH_FXP_DATA`. -/
def SSH_FXP_DATA : Nat := 103
/-- `SSH_FX_OK`. -/
def SSH_FX_OK : Int := 0
/-- `SSH_FX_EOF`. -/
def SSH_FX_EOF : Int := 1
/-- `INT_MIN` of a 32-bit `int`. -/
def INT_MIN : Int := -2147483648

/-- Conversion of a 32-bit unsigned value to `int`. -/
def toint32 (v : Nat) : Int :=
  if v < 2147483648 then (v : Int) else (v : Int) - 4294967296

/-- Modelled from the spec: `get_byte` of the binary source. -/
def get_byte (src : BinarySource) : Nat × BinarySource :=
  match src.avail 1 with
  | (false, s) => (0, s)
  | (true, s) => (s.data.getD s.pos 0, { s with pos := s.pos + 1 })

/-- Modelled from the spec: `get_uint64`, two big-endian 32-bit halves. -/
def get_uint64 (src : BinarySource) : Nat × BinarySource :=
  match src.avail 8 with
  | (false, s) => (0, s)
  | (true, s) =>
    (GET_32BIT (s.data.drop s.pos) * 4294967296 + GET_32BIT (s.data.drop (s.pos + 4)),
      { s with pos := s.pos + 8 })

/-- Modelled from the spec: `put_uint32` of the binary sink, appending four
big-endian bytes of the value reduced to 32 bits. -/
def put_uint32 (data : List Nat) (x : Nat) : List Nat := data ++ PUT_32BIT (x % 4294967296)

/-- Modelled from the spec: `put_byte`. -/
def put_byte (data : List Nat) (x : Nat) : List Nat := data ++ [x % 256]

/-- Modelled from the spec: `put_uint64`, the high then the low 32 bits. -/
def put_uint64 (data : List Nat) (x : Nat) : List Nat :=
  data ++ PUT_32BIT (x / 4294967296 % 4294967296) ++ PUT_32BIT (x % 4294967296)

/-- Modelled from the spec: `put_string`, a 32-bit length and the bytes. -/
def put_string (data : List Nat) (s : List Nat) : List Nat :=
  data ++ PUT_32BIT (s.length % 4294967296) ++ s

/-- `sftp_pkt_init`: a length placeholder and the type byte. -/
def sftp_pkt_init (pkt_type : Nat) : List Nat :=
  put_byte (put_uint32 [] 0) pkt_type

/-- `sftp_send`: fill in the length field and hand the packet to
`sftp_senddata` (recorded in `sent`). -/
def sftp_send (g : sftp_globals) (pkt : List Nat) : sftp_globals :=
  { g with sent := g.sent ++ [PUT_32BIT (usub32 (pkt.length % 4294967296) 4) ++ pkt.drop 4] }

/-- `fxp_got_status`: the return value and the globals with the status
recorded. -/
def fxp_got_status (g : sftp_globals) (pktin : sftp_packet) : Int × sftp_globals :=
  let messages : List String :=
    ["unexpected OK response", "end of file", "no such file or directory",
     "permission denied", "failure", "bad message", "no connection",
     "connection lost", "operation unsupported"]
  let g1 : sftp_globals :=
    if pktin.type ≠ SSH_FXP_STATUS then
      { g with fxp_error_message := "expected FXP_STATUS packet", fxp_errtype := -1 }
    else
      let (v, src1) := get_uint32 pktin.src
      if get_err src1 then
        { g with fxp_error_message := "malformed FXP_STATUS packet", fxp_errtype := -1 }
      else if toint32 v < 0 ∨ v ≥ messages.length then
        { g with fxp_error_message := "unknown error code", fxp_errtype := toint32 v }
      else
        { g with fxp_error_message := messages.getD v "", fxp_errtype := toint32 v }
  (if g1.fxp_errtype = SSH_FX_OK then 1 else if g1.fxp_errtype = SSH_FX_EOF then 0 else -1, g1)

/-- `fxp_error_type`. -/
def fxp_error_type (g : sftp_globals) : Int := g.fxp_errtype

/-- `fxp_read_send`: allocate a request, build and send the READ packet. -/
def fxp_read_send (g : sftp_globals) (handle : List Nat) (offset : Nat) (len : Int) :
    Option (sftp_request × sftp_globals) :=
  match sftp_alloc_request g with
  | none => none
  | some (req, g1) =>
    let pktout := sftp_pkt_init SSH_FXP_READ
    let pktout := put_uint32 pktout req.id
    let pktout := put_string pktout handle
    let pktout := put_uint64 pktout offset
    let pktout := put_uint32 pktout (len % 4294967296).toNat
    some (req, sftp_send g1 pktout)

/-- `fxp_read_recv`: the return value, the bytes copied to the start of the
caller's buffer (`none` when nothing is copied) and the globals. The
comparison `data.len > len` is made in `size_t`, and the count is returned
as an `int`. -/
def fxp_read_recv (g : sftp_globals) (pktin : sftp_packet) (len : Int) :
    Int × Option (List Nat) × sftp_globals :=
  if pktin.type = SSH_FXP_DATA then
    let (data, src1) := get_string pktin.src
    if get_err src1 then
      (-1, none, fxp_internal_error g "READ returned malformed SSH_FXP_DATA packet")
    else if (data.length : Int) > len % 18446744073709551616 then
      (-1, none, fxp_internal_error g "READ returned more bytes than requested")
    else
      (toint32 (data.length % 4294967296), some data, g)
  else
    (-1, none, (fxp_got_status g pktin).2)

/-! ## Pipelined download (`sftp.c`) -/

/-- `uint64_add32`: 64-bit addition of a 32-bit quantity. -/
def uint64_add32 (x : Nat) (y : Nat) : Nat := (x + y) % 18446744073709551616

/-- One pass of the body of the loop of `xfer_download_queue`: queue a read
request of 32768 bytes at `xfer.offset`. -/
def xfer_download_queue_body (g : sftp_globals) (xfer : fxp_xfer) :
    Option (sftp_globals × fxp_xfer) :=
  let rr : req :=
    { addr := g.heap_next, offset := xfer.offset, complete := 0, len := 32768,
      buffer := some [], retlen := 0 }
  let g0 : sftp_globals := { g with heap_next := g.heap_next + 1 }
  match fxp_read_send g0 xfer.fh rr.offset rr.len with
  | none => none
  | some (req, g1) =>
    let g2 := sftp_register g1 req.id
    let g3 := fxp_set_userdata g2 req.id (some rr.addr)
    some (g3, { xfer with
      queue := xfer.queue ++ [rr],
      offset := uint64_add32 xfer.offset rr.len.toNat,
      req_totalsize := xfer.req_totalsize + rr.len })

/-- The loop of `xfer_download_queue`; the fuel bounds the number of passes
(every pass adds 32768 to `req_totalsize`). -/
def xfer_download_queue_loop :
    Nat → sftp_globals → fxp_xfer → Option (sftp_globals × fxp_xfer)
  | 0, _, _ => none
  | fuel + 1, g, xfer =>
    if xfer.req_totalsize < xfer.req_maxsize ∧ xfer.eof = false ∧ xfer.err = false then
      match xfer_download_queue_body g xfer with
      | none => none
      | some (g1, xfer1) => xfer_download_queue_loop fuel g1 xfer1
    else some (g, xfer)

/-- `xfer_download_queue`. The number of passes is at most the number of
bytes by which `req_totalsize` is short of `req_maxsize`. -/
def xfer_download_queue (g : sftp_globals) (xfer : fxp_xfer) :
    Option (sftp_globals × fxp_xfer) :=
  xfer_download_queue_loop ((xfer.req_maxsize - xfer.req_totalsize).toNat + 1) g xfer

/-- `xfer_download_init`. -/
def xfer_download_init (g : sftp_globals) (fh : List Nat) (offset : Nat) :
    Option (sftp_globals × fxp_xfer) :=
  xfer_download_queue g { xfer_init fh offset false with eof := false }

/-- Write through the node pointer `addr`: replace the node of the queue that
lives at this address. -/
def update_node (q : List req) (addr : Nat) (f : req → req) : List req :=
  q.map (fun rr => if rr.addr = addr then f rr else rr)

/-- The part of `xfer_download_gotpkt` from `rr->complete = 1` to the end:
mark the node complete, update `furthestdata` and the tentative `filesize`,
and flag a short read that is not at the end of the file. -/
def xfer_download_gotpkt_tail (g : sftp_globals) (xfer : fxp_xfer) (rr : req) :
    Int × sftp_globals × fxp_xfer :=
  let rr1 : req := { rr with complete := 1 }
  let xfer1 : fxp_xfer := { xfer with queue := update_node xfer.queue rr.addr (fun _ => rr1) }
  let xfer2 : fxp_xfer :=
    if rr1.retlen > 0 ∧ xfer1.furthestdata < rr1.offset then
      { xfer1 with furthestdata := rr1.offset }
    else xfer1
  let xfer3 : fxp_xfer :=
    if rr1.retlen < rr1.len then
      let filesize := uint64_add32 rr1.offset (if rr1.retlen < 0 then 0 else rr1.retlen.toNat)
      if xfer2.filesize > filesize then { xfer2 with filesize := filesize } else xfer2
    else xfer2
  if xfer3.furthestdata > xfer3.filesize then
    (-1,
      { g with
        fxp_error_message := "received a short buffer from FXP_READ, but not at EOF",
        fxp_errtype := -1 },
      xfer_set_error xfer3)
  else (1, g, xfer3)

/-- The caller's buffer after `fxp_read_recv`: the bytes copied by `memcpy`
when it ran, else the buffer as it was. -/
def buffer_after (old copied : Option (List Nat)) : Option (List Nat) :=
  match copied with
  | none => old
  | some data => some data

/-- `xfer_download_gotpkt`: the return value, the globals and the transfer.
`none` is a crash: `find234` on a NULL tree, or a `userdata` pointer that is
not a node of this transfer's queue. -/
def xfer_download_gotpkt (g : sftp_globals) (xfer : fxp_xfer) (pktin : sftp_packet) :
    Option (Int × sftp_globals × fxp_xfer) :=
  match sftp_find_request g (some pktin) with
  | none => none
  | some (none, _, g1) => some (INT_MIN, g1, xfer)
  | some (some _, none, _) => none
  | some (some rreq, some pkt1, g1) =>
    match fxp_get_userdata rreq with
    | none =>
      some (INT_MIN,
        fxp_internal_error g1 "request ID is not part of the current download", xfer)
    | some addr =>
      match xfer.queue.find? (fun rr => rr.addr = addr) with
      | none => none
      | some rr =>
        let (retlen, copied, g2) := fxp_read_recv g1 pkt1 rr.len
        let rr0 : req := { rr with buffer := buffer_after rr.buffer copied, retlen := retlen }
        if (rr0.retlen < 0 ∧ fxp_error_type g2 = SSH_FX_EOF) ∨ rr0.retlen = 0 then
          xfer_download_gotpkt_tail g2 { xfer with eof := true }
            { rr0 with retlen := 0, complete := -1 }
        else if rr0.retlen < 0 then
          some (-1, g2,
            { xfer_set_error xfer with
              queue := update_node xfer.queue addr (fun _ => { rr0 with complete := -1 }) })
        else
          xfer_download_gotpkt_tail g2 xfer rr0

/-! ## A download session against a server that answers reads truthfully -/

/-- The server's reading of a request packet: its request id, offset and
length when it is a READ. -/
def parse_read_request (pkt : List Nat) : Option (Nat × Nat × Nat) :=
  let s0 : BinarySource := { data := pkt, pos := 0, err := false }
  let r1 := get_uint32 s0
  let r2 := get_byte r1.2
  let r3 := get_uint32 r2.2
  let r4 := get_string r3.2
  let r5 := get_uint64 r4.2
  let r6 := get_uint32 r5.2
  if r6.2.err = true ∨ r2.1 ≠ SSH_FXP_READ then none else some (r3.1, r5.1, r6.1)

/-- The answer of the claim's server to a READ of `len` bytes at offset `off`:
the file bytes from `off` to `min (off + len) size` in an `SSH_FXP_DATA`
packet; at or past the end of the file either empty data or a status
`SSH_FX_EOF`, as the flag says. -/
def server_reply (file : List Nat) (request : List Nat) (eof_as_status : Bool) :
    Option sftp_packet :=
  match parse_read_request request with
  | none => none
  | some (id, off, len) =>
    if off < file.length then
      some (packet_with_id SSH_FXP_DATA id (put_string [] ((file.drop off).take len)))
    else if eof_as_status then
      some (packet_with_id SSH_FXP_STATUS id
        (put_string (put_string (put_uint32 [] 1) []) []))
    else
      some (packet_with_id SSH_FXP_DATA id (put_string [] []))

/-- A download in progress: the client state, the indices of the requests (in
the order sent) that have been answered, and the bytes handed to the caller
so far. -/
structure download_world where
  g : sftp_globals
  xfer : fxp_xfer
  answered : List Nat
  output : List Nat
deriving DecidableEq, Repr

/-- The moves of a download session: the client calls `xfer_download_queue`,
or `xfer_download_data`, or the response to the `i`-th request sent arrives
and is given to `xfer_download_gotpkt`. -/
inductive download_event where
  | queue : download_event
  | data : download_event
  | gotpkt (i : Nat) (eof_as_status : Bool) : download_event
deriving DecidableEq, Repr

/-- One move. A response to a request that was never sent or that has been
answered already does not exist, so such a move changes nothing; `none` is a
crash of the client. -/
def download_step (file : List Nat) (w : download_world) :
    download_event → Option download_world
  | .queue =>
    match xfer_download_queue w.g w.xfer with
    | none => none
    | some (g1, x1) => some { w with g := g1, xfer := x1 }
  | .data =>
    match xfer_download_data w.xfer with
    | (x1, _, none) => some { w with xfer := x1 }
    | (x1, _, some (buf, len)) =>
      some { w with xfer := x1, output := w.output ++ buf.take len.toNat }
  | .gotpkt i eof_as_status =>
    if i ∈ w.answered then some w
    else
      match w.g.sent[i]? with
      | none => some w
      | some request =>
        match server_reply file request eof_as_status with
        | none => none
        | some pkt =>
          match xfer_download_gotpkt w.g w.xfer pkt with
          | none => none
          | some (_, g1, x1) => some { w with g := g1, xfer := x1, answered := i :: w.answered }

/-- A sequence of moves. -/
def download_run (file : List Nat) : List download_event → download_world →
    Option download_world
  | [], w => some w
  | e :: es, w =>
    match download_step file w e with
    | none => none
    | some w1 => download_run file es w1

/-- The start of a download in a fresh SFTP session: `xfer_download_init`. -/
def download_start (fh : List Nat) (start : Nat) : Option download_world :=
  (xfer_download_init sftp_globals_init fh start).map
    (fun r => { g := r.1, xfer := r.2, answered := [], output := [] })

/-- The moves of a session that answers the 32 initial requests from the last
to the first and then lets the caller collect the data. -/
def download_example_events : List download_event :=
  ((List.range 32).reverse.map (fun i => download_event.gotpkt i (i % 2 == 0))) ++
    List.replicate 32 download_event.data

/-- The outcome of the example session on a three-byte file. -/
def download_example : Option (Bool × Bool × List Nat) :=
  match download_start [1, 2] 0 with
  | none => none
  | some w0 =>
    match download_run [10, 20, 30] download_example_events w0 with
    | none => none
    | some w => some (xfer_done w.xfer, w.xfer.err, w.output)

/-- The source is in good standing and what is left to read is `rest`. -/
def reads (s : BinarySource) (rest : List Nat) : Prop :=
  s.err = false ∧ s.data.drop s.pos = rest

/-- The READ packet that `fxp_read_send` builds, as sent. -/
def read_request_bytes (fh : List Nat) (id off : Nat) (len : Int) : List Nat :=
  PUT_32BIT (usub32 ((put_uint32 (put_uint64 (put_string (put_uint32
      (sftp_pkt_init SSH_FXP_READ) id) fh) off) (len % 4294967296).toNat).length % 4294967296) 4) ++
    (put_uint32 (put_uint64 (put_string (put_uint32
      (sftp_pkt_init SSH_FXP_READ) id) fh) off) (len % 4294967296).toNat).drop 4

/-- The file offset of the `i`-th read request of a download that starts at
`start`. -/
def chunk_offset (start i : Nat) : Nat := start + 32768 * i

/-- The file bytes that the `i`-th read request asks for. -/
def chunk (file : List Nat) (start i : Nat) : List Nat :=
  (file.drop (chunk_offset start i)).take 32768

/-- The state of the queue node of the `i`-th read request: still in flight,
or completed and holding the bytes of its chunk. Node addresses are handed out
consecutively from 1 on. -/
def node_ok (file : List Nat) (start : Nat) (answered : List Nat) (i : Nat) (rr : req) : Prop :=
  rr.addr = 1 + i ∧ rr.offset = chunk_offset start i ∧ rr.len = 32768 ∧
  ((rr.complete = 0 ∧ i ∉ answered ∧ rr.buffer ≠ none) ∨
   (rr.complete = 1 ∧ i ∈ answered ∧ 0 ≤ rr.retlen ∧
     ∃ b, rr.buffer = some b ∧ b.take rr.retlen.toNat = chunk file start i))

/-- The invariant of a download session: `ids` are the request ids given to
the read requests in the order sent and `d` is the number of nodes that
`xfer_download_data` has taken off the queue. -/
structure download_inv (file fh : List Nat) (start : Nat) (w : download_world)
    (ids : List Nat) (d : Nat) : Prop where
  d_le : d ≤ ids.length
  window : ids.length - d ≤ 32
  bound : 32768 * ids.length ≤ file.length + 33 * 32768
  sent_len : w.g.sent.length = ids.length
  sent_ok : ∀ i, i < ids.length →
    w.g.sent[i]? = some (read_request_bytes fh (ids.getD i 0) (chunk_offset start i) 32768)
  ids_ok : ∀ i, i < ids.length → 256 ≤ ids.getD i 0 ∧ ids.getD i 0 < 4294967296
  heap : w.g.heap_next = 1 + ids.length
  queue_len : w.xfer.queue.length = ids.length - d
  queue_ok : ∀ k rr, w.xfer.queue[k]? = some rr → node_ok file start w.answered (d + k) rr
  drained : ∀ i, i < d → i ∈ w.answered
  answered_lt : ∀ i ∈ w.answered, i < ids.length
  reg_sorted : (w.g.sftp_requests.getD []).Pairwise (fun a b => a.id < b.id)
  reg_mem : ∀ r, r ∈ w.g.sftp_requests.getD [] ↔
    ∃ i, i < ids.length ∧ i ∉ w.answered ∧
      r = { id := ids.getD i 0, registered := 1, userdata := some (1 + i) }
  reg_some : ids.length ≠ 0 → w.g.sftp_requests ≠ none
  offset : w.xfer.offset = chunk_offset start ids.length
  totalsize : w.xfer.req_totalsize = 32768 * ((ids.length - d : Nat) : Int)
  maxsize : w.xfer.req_maxsize = 1048576
  err : w.xfer.err = false
  fh_eq : w.xfer.fh = fh
  filesize : file.length ≤ w.xfer.filesize
  furthest : w.xfer.furthestdata = 0 ∨ w.xfer.furthestdata < file.length
  not_eof : w.xfer.eof = false → ∀ i ∈ w.answered, chunk_offset start i < file.length
  eof : w.xfer.eof = true → ∃ i ∈ w.answered, file.length ≤ chunk_offset start i
  output : w.output = (file.drop start).take (32768 * d)

/-- The packet after `sftp_find_request` has read the request id. -/
def after_id (pkt : sftp_packet) : sftp_packet :=
  { pkt with src := { pkt.src with pos := pkt.src.pos + 4 } }

/-! ## SSH-2 binary packet protocol: data model (`ssh2bpp.c`, `sshbpp.h`) -/

/-- Modelled from the spec: `OUR_V2_PACKETLIMIT` of `ssh.h` (not among the
sources), the sanity bound 262,144 on a packet length. -/
def OUR_V2_PACKETLIMIT : Nat := 262144

/-- Modelled from the spec: the cipher flag `SSH_CIPHER_IS_CBC`. -/
def SSH_CIPHER_IS_CBC : Nat := 1
/-- Modelled from the spec: the cipher flag `SSH_CIPHER_SEPARATE_LENGTH`. -/
def SSH_CIPHER_SEPARATE_LENGTH : Nat := 2
/-- `SSH2_MSG_IGNORE` of RFC 4253. -/
def SSH2_MSG_IGNORE : Nat := 2
/-- `SSH2_MSG_UNIMPLEMENTED` of RFC 4253. -/
def SSH2_MSG_UNIMPLEMENTED : Nat := 3
/-- `SSH2_MSG_NEWKEYS` of RFC 4253. -/
def SSH2_MSG_NEWKEYS : Nat := 21
/-- Modelled from the spec: `SSH_MSG_NO_TYPE_CODE`, a sentinel above 0xFF for
a packet without a type byte. -/
def SSH_MSG_NO_TYPE_CODE : Nat := 256
/-- Modelled from the spec: the remote-bug flag `BUG_CHOKES_ON_SSH2_IGNORE`. -/
def BUG_CHOKES_ON_SSH2_IGNORE : Nat := 512

/-- Modelled from the spec: a cipher handle (section 4.1): block size, flag
bits, the context (key, IV, stream position) and the operations, each
returning the new context and the transformed bytes. -/
structure ssh2_cipher where
  blksize : Nat
  flags : Nat
  ctx : List Nat
  encrypt : List Nat → List Nat → List Nat × List Nat
  decrypt : List Nat → List Nat → List Nat × List Nat
  encrypt_length : List Nat → List Nat → Nat → List Nat × List Nat
  decrypt_length : List Nat → List Nat → Nat → List Nat × List Nat

/-- Modelled from the spec: a MAC handle (section 4.1): the tag length, the
key and the keyed function from the bytes fed in to the tag. -/
structure ssh2_mac where
  len : Nat
  key : List Nat
  compute : List Nat → List Nat → List Nat

/-- Modelled from the spec: a compressor handle; `compress` takes the context,
the data and the minimum output length. -/
structure ssh_compressor where
  ctx : List Nat
  compress : List Nat → List Nat → Int → List Nat × List Nat

/-- Modelled from the spec: a decompressor handle; `decompress` returns `none`
for "false: pass the payload through unchanged". -/
structure ssh_decompressor where
  ctx : List Nat
  decompress : List Nat → List Nat → List Nat × Option (List Nat)

/-- The tag of the bytes fed to a MAC, as the `len` bytes the handle
produces. -/
def mac_result (mac : ssh2_mac) (fed : List Nat) : List Nat :=
  (mac.compute mac.key fed ++ List.replicate mac.len 0).take mac.len

/-- Modelled from the spec: `ssh2_mac_generate`, the one-shot MAC of the
sequence number and the first `n` bytes, stored behind them. -/
def ssh2_mac_generate (mac : ssh2_mac) (data : List Nat) (n : Nat) (seq : Nat) : List Nat :=
  data.take n ++ mac_result mac (PUT_32BIT (seq % 4294967296) ++ data.take n) ++
    data.drop (n + mac.len)

/-- Modelled from the spec: `ssh2_mac_verify`, comparing the tag stored
behind the first `n` bytes. -/
def ssh2_mac_verify (mac : ssh2_mac) (data : List Nat) (n : Nat) (seq : Nat) : Bool :=
  (data.drop n).take mac.len == mac_result mac (PUT_32BIT (seq % 4294967296) ++ data.take n)

/-- Modelled from the spec: `ssh2_mac_verresult` of the incremental API,
comparing a candidate tag with the MAC of everything fed in so far. -/
def ssh2_mac_verresult (mac : ssh2_mac) (fed : List Nat) (candidate : List Nat) : Bool :=
  candidate.take mac.len == mac_result mac fed

/-- `PktIn`: a decoded inbound packet; `payload` is what its binary source
ranges over. -/
structure PktIn where
  type : Nat
  sequence : Nat
  payload : List Nat
deriving DecidableEq, Repr

/-- `PktOut`: an outbound packet under construction; `length` is the length
of `data`. -/
structure PktOut where
  data : List Nat
  minlen : Int
  type : Nat
deriving DecidableEq, Repr

/-- One direction of `ssh2_bpp_state`. -/
structure ssh2_bpp_direction where
  sequence : Nat
  cipher : Option ssh2_cipher
  mac : Option ssh2_mac
  etm_mode : Bool

/-- One direction of `struct DataTransferStats`. -/
structure dts_direction where
  running : Bool
  remaining : Nat
deriving DecidableEq, Repr

/-- `struct DataTransferStats`. -/
structure DataTransferStats where
  inp : dts_direction
  out : dts_direction
deriving DecidableEq, Repr

/-- `DTS_CONSUME` on one direction: the new counters and the value of the
macro. -/
def DTS_CONSUME (d : dts_direction) (size : Nat) : dts_direction × Bool :=
  if d.running ∧ d.remaining ≤ size then ({ d with running := false }, true)
  else ({ d with remaining := usub32 d.remaining (size % 4294967296) }, false)

/-- The resume points of the coroutine `ssh2_bpp_handle_input`: the top of
the loop (`crState = 0`), each `BPP_READ`, and the wait for new keys; and
`tail`, the point where the three paths join, at which the run is cut into
stretches as well although the coroutine never returns there. -/
inductive cr_label where
  | top
  | a_mac
  | a_block
  | b_len
  | b_rest
  | c_first
  | c_rest
  | tail
  | newkeys
deriving DecidableEq, Repr

/-- The callbacks through which the engine ends a session. -/
inductive bpp_signal where
  | sw_abort (msg : String)
  | remote_error (msg : String)
  | remote_eof (msg : String)
deriving DecidableEq, Repr

/-- `struct ssh2_bpp_state` with the fields of its `BinaryPacketProtocol`:
`in_raw`/`out_raw` are the byte chains, `in_pq`/`out_pq` the packet queues,
`fed` what has been fed to the incoming MAC since `ssh2_mac_start`, `random`
and `random_pos` the stream behind `random_byte`. -/
structure ssh2_bpp_state where
  crState : cr_label
  len : Int
  pad : Int
  payload : Int
  packetlen : Int
  maclen : Int
  length : Int
  maxlen : Int
  buf : List Nat
  data : List Nat
  cipherblk : Nat
  stats : DataTransferStats
  cbc_ignore_workaround : Bool
  inp : ssh2_bpp_direction
  out : ssh2_bpp_direction
  in_decomp : Option ssh_decompressor
  out_comp : Option ssh_compressor
  pending_newkeys : Bool
  fed : List Nat
  in_raw : List Nat
  out_raw : List Nat
  input_eof : Bool
  in_pq : List PktIn
  out_pq : List PktOut
  remote_bugs : Nat
  expect_close : Bool
  random : Nat → Nat
  random_pos : Nat

/-- Modelled from the spec: `toint` of `misc.h`, the conversion of a 32-bit
unsigned value to a signed one. -/
def toint (u : Nat) : Int := toint32 (u % 4294967296)

/-- Whether a flag bit is set in a flags word. -/
def has_flag (flags bit : Nat) : Bool := flags / bit % 2 == 1

/-! ## SSH-2 binary packet protocol: the output formatter (`ssh2bpp.c`) -/

/-- An operation on a buffer in place leaves exactly `n` bytes: the bytes
produced, as many as fit. -/
def in_place (n : Nat) (out : List Nat) : List Nat :=
  (out ++ List.replicate n 0).take n

/-- A cipher operation in place on `n` bytes of `data` from offset `lo`: the
handle with its new context and the buffer. -/
def cipher_apply (op : List Nat → List Nat → List Nat × List Nat) (c : ssh2_cipher)
    (data : List Nat) (lo n : Nat) : ssh2_cipher × List Nat :=
  ({ c with ctx := (op c.ctx ((data.drop lo).take n)).1 },
    data.take lo ++ in_place ((data.drop lo).take n).length (op c.ctx ((data.drop lo).take n)).2 ++
      data.drop (lo + n))

/-- `ssh2_cipher_encrypt(c, data + lo, n)`. -/
def ssh2_cipher_encrypt (c : ssh2_cipher) (data : List Nat) (lo n : Nat) :
    ssh2_cipher × List Nat :=
  cipher_apply c.encrypt c data lo n

/-- `ssh2_cipher_decrypt(c, data + lo, n)`. -/
def ssh2_cipher_decrypt (c : ssh2_cipher) (data : List Nat) (lo n : Nat) :
    ssh2_cipher × List Nat :=
  cipher_apply c.decrypt c data lo n

/-- `ssh2_cipher_encrypt_length(c, data, 4, seq)` on the first four bytes. -/
def ssh2_cipher_encrypt_length (c : ssh2_cipher) (data : List Nat) (seq : Nat) :
    ssh2_cipher × List Nat :=
  cipher_apply (fun ctx b => c.encrypt_length ctx b seq) c data 0 4

/-- `ssh2_cipher_decrypt_length(c, data, 4, seq)` on the first four bytes. -/
def ssh2_cipher_decrypt_length (c : ssh2_cipher) (data : List Nat) (seq : Nat) :
    ssh2_cipher × List Nat :=
  cipher_apply (fun ctx b => c.decrypt_length ctx b seq) c data 0 4

/-- `n` calls of `random_byte`: the bytes and the state with the stream
advanced. -/
def random_bytes (s : ssh2_bpp_state) (n : Nat) : List Nat × ssh2_bpp_state :=
  ((List.range n).map (fun i => s.random (s.random_pos + i) % 256),
    { s with random_pos := s.random_pos + n })

/-- `ssh2_bpp_new_pktout`: five bytes of room for the length and padding
fields, then the type byte. -/
def ssh2_bpp_new_pktout (pkt_type : Nat) : PktOut :=
  { data := put_byte [0, 0, 0, 0, 0] pkt_type, minlen := 0, type := pkt_type }

/-- The effective block size: the cipher's, or 8 without a cipher or when it
is below 8. -/
def out_cipherblk (s : ssh2_bpp_state) : Nat :=
  if (match s.out.cipher with
      | some c => c.blksize
      | none => 8) < 8 then 8
  else (match s.out.cipher with
        | some c => c.blksize
        | none => 8)

/-- The length of the outgoing MAC, 0 without one. -/
def out_maclen (s : ssh2_bpp_state) : Nat :=
  match s.out.mac with
  | some m => m.len
  | none => 0

/-- The minimum output length handed to the compressor: `minlen` less the MAC
and the 8 bytes of length field and minimum padding, or 0 without `minlen`. -/
def compress_minlen (s : ssh2_bpp_state) (pkt : PktOut) : Int :=
  if pkt.minlen ≠ 0 then pkt.minlen - (out_maclen s : Int) - 8 else pkt.minlen

/-- The compression step of `ssh2_bpp_format_packet_inner`: with a compressor
the bytes from offset 5 are replaced by their compressed form. -/
def format_compress (s : ssh2_bpp_state) (pkt : PktOut) : ssh2_bpp_state × List Nat :=
  match s.out_comp with
  | some comp =>
    let r := comp.compress comp.ctx (pkt.data.drop 5) (compress_minlen s pkt)
    ({ s with out_comp := some { comp with ctx := r.1 } }, pkt.data.take 5 ++ r.2)
  | none => (s, pkt.data)

/-- The number of bytes left in the clear in front of the encrypted part: 4
with a MAC in encrypt-then-MAC mode, else 0. -/
def out_unencrypted (s : ssh2_bpp_state) : Nat :=
  if s.out.mac.isSome ∧ s.out.etm_mode = true then 4 else 0

/-- The padding length that `ssh2_bpp_format_packet_inner` chooses for a
packet of `length` bytes. -/
def out_padding (s : ssh2_bpp_state) (length : Nat) : Nat :=
  4 + (out_cipherblk s - (length - out_unencrypted s + 4) % out_cipherblk s) % out_cipherblk s

/-- The length-encryption step: with a cipher that has
`SSH_CIPHER_SEPARATE_LENGTH` the first four bytes are encrypted with the
sequence number. -/
def format_encrypt_length (s : ssh2_bpp_state) (data : List Nat) : ssh2_bpp_state × List Nat :=
  match s.out.cipher with
  | some c =>
    if has_flag c.flags SSH_CIPHER_SEPARATE_LENGTH then
      let r := ssh2_cipher_encrypt_length c data s.out.sequence
      ({ s with out := { s.out with cipher := some r.1 } }, r.2)
    else (s, data)
  | none => (s, data)

/-- The framing step on the `n = origlen + padding` bytes in front of the MAC
room: encrypt-then-MAC, or MAC-then-encrypt. -/
def format_crypt (s : ssh2_bpp_state) (data : List Nat) (n : Nat) : ssh2_bpp_state × List Nat :=
  match s.out.mac with
  | some m =>
    if s.out.etm_mode then
      match s.out.cipher with
      | some c =>
        let r := ssh2_cipher_encrypt c data 4 (n - 4)
        ({ s with out := { s.out with cipher := some r.1 } },
          ssh2_mac_generate m r.2 n s.out.sequence)
      | none => (s, ssh2_mac_generate m data n s.out.sequence)
    else
      match s.out.cipher with
      | some c =>
        let r := ssh2_cipher_encrypt c (ssh2_mac_generate m data n s.out.sequence) 0 n
        ({ s with out := { s.out with cipher := some r.1 } }, r.2)
      | none => (s, ssh2_mac_generate m data n s.out.sequence)
  | none =>
    match s.out.cipher with
    | some c =>
      let r := ssh2_cipher_encrypt c data 0 n
      ({ s with out := { s.out with cipher := some r.1 } }, r.2)
    | none => (s, data)

/-- `ssh2_bpp_format_packet_inner` (logging left out): the state and the
packet holding the frame; `none` is the failed assertion `padding <= 255`. -/
def ssh2_bpp_format_packet_inner (s : ssh2_bpp_state) (pkt : PktOut) :
    Option (ssh2_bpp_state × PktOut) :=
  let s1 := (format_compress s pkt).1
  let data1 := (format_compress s pkt).2
  let padding := out_padding s1 data1.length
  if padding > 255 then none
  else
    let origlen := data1.length
    let s2 := (random_bytes s1 padding).2
    let data2 := data1 ++ (random_bytes s1 padding).1
    let data3 := PUT_32BIT (origlen + padding - 4) ++ [padding % 256] ++ data2.drop 5
    let s3 := (format_encrypt_length s2 data3).1
    let data4 := (format_encrypt_length s2 data3).2
    let data5 := data4 ++ List.replicate (out_maclen s3) 0
    let s4 := (format_crypt s3 data5 (origlen + padding)).1
    let data6 := (format_crypt s3 data5 (origlen + padding)).2
    let out1 : ssh2_bpp_direction :=
      { s4.out with sequence := (s4.out.sequence + 1) % 4294967296 }
    let stats1 : DataTransferStats :=
      { s4.stats with out := (DTS_CONSUME s4.stats.out (origlen + padding)).1 }
    some ({ s4 with out := out1, stats := stats1 }, { pkt with data := data6 })

/-- `bufchain_add(s->bpp.out_raw, ...)`. -/
def out_raw_add (s : ssh2_bpp_state) (bytes : List Nat) : ssh2_bpp_state :=
  { s with out_raw := s.out_raw ++ bytes }

/-- The length that `ssh2_bpp_format_packet` expects the real packet to have
on the wire. -/
def expected_length (s : ssh2_bpp_state) (pkt : PktOut) : Int :=
  (((pkt.data.length + 4 + (out_cipherblk s - 1)) -
    (pkt.data.length + 4 + (out_cipherblk s - 1)) % out_cipherblk s + out_maclen s : Nat) : Int)

/-- The length of the string inside the `SSH_MSG_IGNORE` that makes the
packet up to `minlen`. -/
def ignore_length (s : ssh2_bpp_state) (pkt : PktOut) : Nat :=
  (pkt.minlen - expected_length s pkt - (out_maclen s : Int) - 8 - 5).toNat

/-- The `SSH_MSG_IGNORE` packet of `ssh2_bpp_format_packet` before framing: a
string of `n` random bytes. -/
def ignore_pktout (s : ssh2_bpp_state) (n : Nat) : PktOut :=
  { ssh2_bpp_new_pktout SSH2_MSG_IGNORE with
    data := put_uint32 (ssh2_bpp_new_pktout SSH2_MSG_IGNORE).data n ++ (random_bytes s n).1 }

/-- `ssh2_bpp_format_packet`: when `minlen` asks for more than the expected
length and there is no compressor, an `SSH_MSG_IGNORE` is framed and appended
to `out_raw` first; then the packet itself. -/
def ssh2_bpp_format_packet (s : ssh2_bpp_state) (pkt : PktOut) : Option ssh2_bpp_state :=
  if pkt.minlen > 0 ∧ s.out_comp.isNone ∧ expected_length s pkt < pkt.minlen then
    match ssh2_bpp_format_packet_inner (random_bytes s (ignore_length s pkt)).2
        (ignore_pktout s (ignore_length s pkt)) with
    | none => none
    | some (s1, ignore_pkt) =>
      match ssh2_bpp_format_packet_inner (out_raw_add s1 ignore_pkt.data) pkt with
      | none => none
      | some (s2, pkt2) => some (out_raw_add s2 pkt2.data)
  else
    match ssh2_bpp_format_packet_inner s pkt with
    | none => none
    | some (s2, pkt2) => some (out_raw_add s2 pkt2.data)

/-- The `SSH_MSG_IGNORE` with an empty string that the CBC workaround of
`ssh2_bpp_handle_output` inserts. -/
def cbc_ignore_pktout : PktOut :=
  { ssh2_bpp_new_pktout SSH2_MSG_IGNORE with
    data := put_string (ssh2_bpp_new_pktout SSH2_MSG_IGNORE).data [] }

/-- The loop of `ssh2_bpp_handle_output` over the queued packets. -/
def handle_output_loop : List PktOut → ssh2_bpp_state → Option ssh2_bpp_state
  | [], s => some s
  | pkt :: rest, s =>
    match ssh2_bpp_format_packet { s with out_pq := rest } pkt with
    | none => none
    | some s1 => handle_output_loop rest s1

/-- `ssh2_bpp_handle_output`; `none` is a crash: a failed assertion, or the
CBC workaround flag set without an outgoing cipher and MAC to take the sizes
from. -/
def ssh2_bpp_handle_output (s : ssh2_bpp_state) : Option ssh2_bpp_state :=
  if s.cbc_ignore_workaround then
    match s.out.cipher, s.out.mac with
    | some c, some m =>
      if s.out_raw.length < c.blksize + m.len then
        match ssh2_bpp_format_packet s cbc_ignore_pktout with
        | none => none
        | some s1 => handle_output_loop s1.out_pq s1
      else handle_output_loop s.out_pq s
    | _, _ => none
  else handle_output_loop s.out_pq s

/-- `ssh2_bpp_new`: the state zeroed by `memset`, with the statistics and the
random stream it is given. -/
def ssh2_bpp_new (stats : DataTransferStats) (random : Nat → Nat) : ssh2_bpp_state :=
  { crState := cr_label.top, len := 0, pad := 0, payload := 0, packetlen := 0, maclen := 0,
    length := 0, maxlen := 0, buf := [], data := [], cipherblk := 0, stats := stats,
    cbc_ignore_workaround := false,
    inp := { sequence := 0, cipher := none, mac := none, etm_mode := false },
    out := { sequence := 0, cipher := none, mac := none, etm_mode := false },
    in_decomp := none, out_comp := none, pending_newkeys := false, fed := [],
    in_raw := [], out_raw := [], input_eof := false, in_pq := [], out_pq := [],
    remote_bugs := 0, expect_close := false, random := random, random_pos := 0 }

/-- Statistics with both directions running and a large allowance. -/
def stats_example : DataTransferStats :=
  { inp := { running := true, remaining := 1000000 },
    out := { running := true, remaining := 1000000 } }

/-- A toy MAC for examples: `n` copies of the sum of key and data bytes
modulo 256. -/
def mac_example (n : Nat) : ssh2_mac :=
  { len := n, key := [7],
    compute := fun key data => List.replicate n ((key.sum + data.sum) % 256) }

/-- The key stream of the toy cipher added to the bytes: byte `i` is shifted
by `k + i`. -/
def shift_stream (k : Nat) : List Nat → List Nat
  | [] => []
  | b :: rest => (b + k) % 256 :: shift_stream (k + 1) rest

/-- The key stream of the toy cipher taken off the bytes again. -/
def unshift_stream (k : Nat) : List Nat → List Nat
  | [] => []
  | b :: rest => (b + 256 - k % 256) % 256 :: unshift_stream (k + 1) rest

/-- A toy stream cipher for examples: the context is the stream position, byte
`i` of the stream is shifted by its position; `decrypt` undoes `encrypt` and
the length field is shifted by the sequence number. -/
def cipher_example (blksize flags : Nat) : ssh2_cipher :=
  { blksize := blksize, flags := flags, ctx := [1],
    encrypt := fun ctx d => ([ctx.headD 0 + d.length], shift_stream (ctx.headD 0) d),
    decrypt := fun ctx d => ([ctx.headD 0 + d.length], unshift_stream (ctx.headD 0) d),
    encrypt_length := fun ctx d seq => (ctx, d.map (fun b => (b + seq) % 256)),
    decrypt_length := fun ctx d seq => (ctx, d.map (fun b => (b + 256 - seq % 256) % 256)) }

/-- A toy compressor for examples: the data behind a marker byte, and a
second marker byte when `minlen` asks for more than that. -/
def comp_example : ssh_compressor :=
  { ctx := [],
    compress := fun ctx d minlen =>
      (ctx, if minlen > (d.length : Int) + 1 then 201 :: 200 :: d else 200 :: d) }

/-- The decompressor undoing `comp_example`. -/
def decomp_example : ssh_decompressor :=
  { ctx := [],
    decompress := fun ctx d =>
      (ctx, some (if d.headD 0 = 201 then d.drop 2 else d.drop 1)) }

/-! ## SSH-2 binary packet protocol: the input coroutine (`ssh2bpp.c`) -/

/-- How a stretch of the coroutine between two resume points ends: it goes on
at the next resume point, it returns to wait for more input (`crReturnV`), it
calls one of the session-ending callbacks, or the C program crashes (a NULL
cipher or MAC dereferenced). -/
inductive step_result where
  | next (s : ssh2_bpp_state)
  | yield (s : ssh2_bpp_state)
  | signal (s : ssh2_bpp_state) (sig : bpp_signal)
  | crash

/-- The effective incoming block size, as computed at the top of the loop. -/
def in_cipherblk (s : ssh2_bpp_state) : Nat :=
  if (match s.inp.cipher with
      | some c => c.blksize
      | none => 8) < 8 then 8
  else (match s.inp.cipher with
        | some c => c.blksize
        | none => 8)

/-- The length of the incoming MAC, 0 without one. -/
def in_maclen (s : ssh2_bpp_state) : Nat :=
  match s.inp.mac with
  | some m => m.len
  | none => 0

/-- The `eof:` exit of `ssh2_bpp_handle_input`. -/
def input_eof_signal (s : ssh2_bpp_state) : step_result :=
  if s.expect_close = false then
    step_result.signal s (bpp_signal.remote_error "Server unexpectedly closed network connection")
  else
    step_result.signal s (bpp_signal.remote_eof "Server closed network connection")

/-- `ssh_sw_abort` followed by `crStopV`: the coroutine is back at its start. -/
def input_abort (s : ssh2_bpp_state) (msg : String) : step_result :=
  step_result.signal { s with crState := cr_label.top } (bpp_signal.sw_abort msg)

/-- `BPP_READ(ptr, n)` at the resume point the state is at: on `input_eof`
the `eof:` exit; with `n` bytes in `in_raw` they are consumed and the
coroutine goes on with `k`; otherwise it returns to wait. -/
def BPP_READ (s : ssh2_bpp_state) (n : Nat)
    (k : List Nat → ssh2_bpp_state → step_result) : step_result :=
  if s.input_eof then input_eof_signal s
  else if n ≤ s.in_raw.length then k (s.in_raw.take n) { s with in_raw := s.in_raw.drop n }
  else step_result.yield s

/-- Decrypt `n` bytes of a buffer from offset `lo` with the incoming cipher,
when there is one. -/
def in_decrypt (s : ssh2_bpp_state) (data : List Nat) (lo n : Nat) :
    ssh2_bpp_state × List Nat :=
  match s.inp.cipher with
  | some c =>
    let r := ssh2_cipher_decrypt c data lo n
    ({ s with inp := { s.inp with cipher := some r.1 } }, r.2)
  | none => (s, data)

/-- Modelled from the spec: the effect of `ssh2_bpp_check_unimplemented`
(`sshcommon.c`, not among the sources) on a packet it consumes: an
`SSH_MSG_UNIMPLEMENTED` carrying the sequence number is queued for output. -/
def unimplemented_reply (pktin : PktIn) : PktOut :=
  { ssh2_bpp_new_pktout SSH2_MSG_UNIMPLEMENTED with
    data := put_uint32 (ssh2_bpp_new_pktout SSH2_MSG_UNIMPLEMENTED).data pktin.sequence }

/-- The decompression step of the common tail: the state, the data buffer and
the length after it. -/
def in_decompress (s : ssh2_bpp_state) (data : List Nat) (length : Int) :
    ssh2_bpp_state × List Nat × Int :=
  match s.in_decomp with
  | some dc =>
    let r := dc.decompress dc.ctx ((data.drop 5).take (length - 5).toNat)
    match r.2 with
    | some newpayload =>
      ({ s with in_decomp := some { dc with ctx := r.1 },
                maxlen := if s.maxlen < (newpayload.length : Int) + 5
                          then (newpayload.length : Int) + 5 else s.maxlen },
        data.take 5 ++ newpayload, 5 + (newpayload.length : Int))
    | none => ({ s with in_decomp := some { dc with ctx := r.1 } }, data, length)
  | none => (s, data, length)

/-- The common tail of all three paths, from "Get and sanity-check the amount
of random padding" to the end of the loop body; `unimpl` stands for
`ssh2_bpp_check_unimplemented`. The state holds `data`, `len` and
`packetlen`. -/
def input_tail (unimpl : PktIn → Bool) (s : ssh2_bpp_state) : step_result :=
  let pad : Int := (s.data.getD 4 0 : Nat)
  if pad < 4 ∨ s.len - pad < 1 then
    input_abort { s with pad := pad } "Invalid padding length on received packet"
  else
    let seq := s.inp.sequence
    let s1 : ssh2_bpp_state :=
      { s with pad := pad, payload := s.len - pad - 1,
               stats := { s.stats with inp := (DTS_CONSUME s.stats.inp s.packetlen.toNat).1 },
               inp := { s.inp with sequence := (s.inp.sequence + 1) % 4294967296 } }
    let r := in_decompress s1 s1.data (s1.packetlen - pad)
    let s2 := r.1
    let data := r.2.1
    let length := r.2.2
    let pktin : PktIn :=
      if length ≤ 5 then { type := SSH_MSG_NO_TYPE_CODE, sequence := seq, payload := [] }
      else { type := data.getD 5 0, sequence := seq,
             payload := (data.drop 6).take (length - 6).toNat }
    let s3 : ssh2_bpp_state :=
      { s2 with data := if length ≤ 5 then data.drop 5 else data.drop 6,
                length := if length ≤ 5 then 0 else length - 6 }
    if unimpl pktin then
      step_result.next { s3 with out_pq := s3.out_pq ++ [unimplemented_reply pktin],
                                 crState := cr_label.top }
    else if pktin.type = SSH2_MSG_NEWKEYS then
      step_result.yield { s3 with in_pq := s3.in_pq ++ [pktin], pending_newkeys := true,
                                  crState := cr_label.newkeys }
    else
      step_result.next { s3 with in_pq := s3.in_pq ++ [pktin], crState := cr_label.top }

/-- The MAC check of the second and third path,
`s->in.mac && !ssh2_mac_verify(s->in.mac, s->data, s->len + 4, s->in.sequence)`:
whether there is a MAC and the one behind the packet in `data` is wrong. -/
def in_mac_fails (s : ssh2_bpp_state) (data : List Nat) : Bool :=
  match s.inp.mac with
  | some m => !ssh2_mac_verify m data (s.len + 4).toNat s.inp.sequence
  | none => false

/-- The state at the head of one of the three paths: what the top of the loop
of `ssh2_bpp_handle_input` sets before it branches. -/
def input_path (s : ssh2_bpp_state) (l : cr_label) : ssh2_bpp_state :=
  { s with maxlen := 0, length := 0, cipherblk := in_cipherblk s,
           maclen := (in_maclen s : Int), crState := l }

/-- The branch at the top of the loop of `ssh2_bpp_handle_input`: the
resume point of the first read of the path taken. A CBC cipher with a MAC
outside encrypt-then-MAC mode takes the first path; a MAC in
encrypt-then-MAC mode the second; everything else the third. -/
def input_select (s : ssh2_bpp_state) : cr_label :=
  match s.inp.cipher, s.inp.mac with
  | some c, some _ =>
    if has_flag c.flags SSH_CIPHER_IS_CBC ∧ s.inp.etm_mode = false then cr_label.a_mac
    else if s.inp.etm_mode then cr_label.b_len
    else cr_label.c_first
  | none, some _ => if s.inp.etm_mode then cr_label.b_len else cr_label.c_first
  | _, none => cr_label.c_first

/-- The stretch of `ssh2_bpp_handle_input` from the resume point the state is
at to the next one. -/
def ssh2_bpp_handle_input_step (unimpl : PktIn → Bool) (s : ssh2_bpp_state) : step_result :=
  match s.crState with
  | cr_label.top => step_result.next (input_path s (input_select s))
  | cr_label.a_mac =>
    BPP_READ s s.maclen.toNat (fun bytes s1 =>
      step_result.next { s1 with buf := bytes, packetlen := 0,
                                 fed := PUT_32BIT (s1.inp.sequence % 4294967296),
                                 crState := cr_label.a_block })
  | cr_label.a_block =>
    BPP_READ s s.cipherblk (fun bytes s1 =>
      match s1.inp.cipher, s1.inp.mac with
      | some c, some m =>
        let r := ssh2_cipher_decrypt c (s1.buf.take (s1.packetlen + s1.maclen).toNat ++ bytes)
          s1.packetlen.toNat s1.cipherblk
        let buf := r.2
        let fed := s1.fed ++ (buf.drop s1.packetlen.toNat).take s1.cipherblk
        let packetlen := s1.packetlen + (s1.cipherblk : Int)
        let macok := ssh2_mac_verresult m fed (buf.drop packetlen.toNat)
        let s2 : ssh2_bpp_state :=
          { s1 with inp := { s1.inp with cipher := some r.1 }, buf := buf, fed := fed,
                    packetlen := packetlen,
                    len := if macok then toint (GET_32BIT buf) else s1.len }
        if macok = true ∧ toint (GET_32BIT buf) = packetlen - 4 then
          step_result.next
            { s2 with maxlen := packetlen + s2.maclen,
                      data := buf.take (packetlen + s2.maclen).toNat,
                      crState := cr_label.tail }
        else if packetlen ≥ (OUR_V2_PACKETLIMIT : Int) then
          input_abort s2 "No valid incoming packet found"
        else step_result.next s2
      | _, _ => step_result.crash)
  | cr_label.b_len =>
    BPP_READ s 4 (fun bytes s1 =>
      let r : ssh2_bpp_state × Int :=
        match s1.inp.cipher with
        | some c =>
          if has_flag c.flags SSH_CIPHER_SEPARATE_LENGTH then
            let d := ssh2_cipher_decrypt_length c bytes s1.inp.sequence
            ({ s1 with inp := { s1.inp with cipher := some d.1 } }, toint (GET_32BIT d.2))
          else (s1, toint (GET_32BIT bytes))
        | none => (s1, toint (GET_32BIT bytes))
      let s2 : ssh2_bpp_state := { r.1 with buf := bytes, len := r.2 }
      if r.2 < 0 ∨ r.2 > (OUR_V2_PACKETLIMIT : Int) ∨ r.2 % (s2.cipherblk : Int) ≠ 0 then
        input_abort s2 "Incoming packet length field was garbled"
      else
        step_result.next { s2 with packetlen := r.2 + 4, data := bytes,
                                   crState := cr_label.b_rest })
  | cr_label.b_rest =>
    BPP_READ s (s.packetlen + s.maclen - 4).toNat (fun bytes s1 =>
      let data := s1.data.take 4 ++ bytes
      if in_mac_fails s1 data then
        input_abort { s1 with data := data } "Incorrect MAC received on packet"
      else
        let r := in_decrypt s1 data 4 (s1.packetlen - 4).toNat
        step_result.next { r.1 with data := r.2, crState := cr_label.tail })
  | cr_label.c_first =>
    BPP_READ s s.cipherblk (fun bytes s1 =>
      let r := in_decrypt s1 bytes 0 s1.cipherblk
      let len := toint (GET_32BIT r.2)
      let s2 : ssh2_bpp_state := { r.1 with buf := r.2, len := len }
      if len < 0 ∨ len > (OUR_V2_PACKETLIMIT : Int) ∨ (len + 4) % (s2.cipherblk : Int) ≠ 0 then
        input_abort s2 "Incoming packet was garbled on decryption"
      else
        step_result.next { s2 with packetlen := len + 4, maxlen := len + 4 + s2.maclen,
                                   data := r.2.take s2.cipherblk,
                                   crState := cr_label.c_rest })
  | cr_label.c_rest =>
    BPP_READ s (s.packetlen + s.maclen - (s.cipherblk : Int)).toNat (fun bytes s1 =>
      let r := in_decrypt s1 (s1.data.take s1.cipherblk ++ bytes) s1.cipherblk
        (s1.packetlen - (s1.cipherblk : Int)).toNat
      if in_mac_fails r.1 r.2 then
        input_abort { r.1 with data := r.2 } "Incorrect MAC received on packet"
      else step_result.next { r.1 with data := r.2, crState := cr_label.tail })
  | cr_label.tail => input_tail unimpl s
  | cr_label.newkeys =>
    if s.pending_newkeys then step_result.yield s
    else step_result.next { s with crState := cr_label.top }

/-- The run of the coroutine through its resume points until it returns. -/
def ssh2_bpp_handle_input_run (unimpl : PktIn → Bool) :
    Nat → ssh2_bpp_state → Option (ssh2_bpp_state × Option bpp_signal)
  | 0, _ => none
  | fuel + 1, s =>
    match ssh2_bpp_handle_input_step unimpl s with
    | step_result.next s1 => ssh2_bpp_handle_input_run unimpl fuel s1
    | step_result.yield s1 => some (s1, none)
    | step_result.signal s1 sig => some (s1, some sig)
    | step_result.crash => none

/-- `ssh2_bpp_handle_input`: one call of the coroutine, run for at most twice
the input length plus four stretches (a packet takes at least eight bytes
and, with `k` cipher blocks, at most `k + 3` stretches). The result is the
state on return and the session-ending callback made, if any; `none` is a
crash, or a run that did not return within these stretches. -/
def ssh2_bpp_handle_input (unimpl : PktIn → Bool) (s : ssh2_bpp_state) :
    Option (ssh2_bpp_state × Option bpp_signal) :=
  ssh2_bpp_handle_input_run unimpl (2 * s.in_raw.length + 4) s

/-- `ssh2_bpp_new_incoming_crypto` with the handles already keyed. -/
def ssh2_bpp_new_incoming_crypto (s : ssh2_bpp_state) (cipher : Option ssh2_cipher)
    (mac : Option ssh2_mac) (etm_mode : Bool) (decomp : Option ssh_decompressor) :
    ssh2_bpp_state :=
  { s with inp := { s.inp with cipher := cipher, mac := mac, etm_mode := etm_mode },
           in_decomp := decomp, pending_newkeys := false }

/-- `ssh2_bpp_new_outgoing_crypto` with the handles already keyed. -/
def ssh2_bpp_new_outgoing_crypto (s : ssh2_bpp_state) (cipher : Option ssh2_cipher)
    (mac : Option ssh2_mac) (etm_mode : Bool) (comp : Option ssh_compressor) :
    ssh2_bpp_state :=
  { s with out := { s.out with cipher := cipher, mac := mac, etm_mode := etm_mode },
           out_comp := comp,
           cbc_ignore_workaround :=
             match cipher with
             | some c => has_flag c.flags SSH_CIPHER_IS_CBC &&
                           !has_flag s.remote_bugs BUG_CHOKES_ON_SSH2_IGNORE
             | none => false }

/-! ## Output side: the frames of one call, and examples -/

/-- One frame on the wire as the ordering law speaks of it: the packet that
was framed, the outgoing sequence number it was framed under, and its
bytes. -/
structure out_frame where
  pkt : PktOut
  seq : Nat
  bytes : List Nat

/-- The frame `f` is the one the engine makes in the state `st`: its number is
the outgoing sequence number of `st`, its bytes are what
`ssh2_bpp_format_packet_inner` returns for `f.pkt` when run in `st` itself
(the cipher, MAC and compressor contexts, the random source and the counters
as they stand in `st`), and `st1` is the engine right after, with these bytes
added at the end of `out_raw`. -/
def out_frame.framed_in (f : out_frame) (st st1 : ssh2_bpp_state) : Prop :=
  f.seq = st.out.sequence ∧
    ∃ r : ssh2_bpp_state × PktOut, ssh2_bpp_format_packet_inner st f.pkt = some r ∧
      f.bytes = r.2.data ∧ st1 = out_raw_add r.1 r.2.data

/-- The condition of `ssh2_bpp_format_packet` under which an
`SSH_MSG_IGNORE` goes in front of a packet. -/
def minlen_ignore_needed (s : ssh2_bpp_state) (pkt : PktOut) : Bool :=
  decide (pkt.minlen > 0 ∧ s.out_comp.isNone ∧ expected_length s pkt < pkt.minlen)

/-- As the ordering law words it: the CBC workaround inserts its
`SSH_MSG_IGNORE` when the flag is set and `out_raw` holds fewer than
`blksize + maclen` bytes. -/
def cbc_ignore_needed (s : ssh2_bpp_state) : Bool :=
  s.cbc_ignore_workaround &&
    decide (s.out_raw.length <
      (match s.out.cipher with
       | some c => c.blksize
       | none => 0) + out_maclen s)

/-- The frames that belong to one queued packet `pkt`, taken up by the engine
in the state `t` and leaving it in the state `t1`. Without need for an
`SSH_MSG_IGNORE` (judged by the sizes of `s0`, the state at the start of the
call) the group is the packet's own frame, made in `t`. Otherwise it is two
frames: first the `SSH_MSG_IGNORE` that holds the random string drawn in `t`,
made in `t` with that string drawn, then the packet's own frame, made in the
state the engine is in once the first frame is in `out_raw`. -/
def packet_frames (s0 t : ssh2_bpp_state) (g : List out_frame) (pkt : PktOut)
    (t1 : ssh2_bpp_state) : Prop :=
  (minlen_ignore_needed s0 pkt = false ∧ ∃ f : out_frame, g = [f] ∧ f.pkt = pkt ∧
    f.framed_in t t1) ∨
  (minlen_ignore_needed s0 pkt = true ∧ ∃ (ign f : out_frame) (tm : ssh2_bpp_state),
    g = [ign, f] ∧ ign.pkt = ignore_pktout t (ignore_length t pkt) ∧
    ign.pkt.type = SSH2_MSG_IGNORE ∧ ign.pkt.data.getD 5 0 = SSH2_MSG_IGNORE ∧
    ign.framed_in (random_bytes t (ignore_length t pkt)).2 tm ∧
    f.pkt = pkt ∧ f.framed_in tm t1)

/-- The groups of frames of a queue of packets, in queue order: the engine,
in the state `t`, pops the first packet and makes its group, and goes on with
the rest of the queue from the state that this group has left. -/
def queue_frames (s0 : ssh2_bpp_state) :
    ssh2_bpp_state → List (List out_frame) → List PktOut → ssh2_bpp_state → Prop
  | t, [], [], t1 => t1 = t
  | t, g :: gs, pkt :: q, t1 =>
    ∃ tm : ssh2_bpp_state, packet_frames s0 { t with out_pq := q } g pkt tm ∧
      queue_frames s0 tm gs q t1
  | _, _, _, _ => False

/-- The frames of one output call as the ordering law describes them: `cbc`
is the frame of the CBC-workaround `SSH_MSG_IGNORE`, made in the state `s` at
the start of the call and present exactly when the flag is set and `out_raw`
is short; `groups` are the groups of the queued packets, in queue order, made
from the state that `cbc` has left; `s1` is the engine after the last frame. -/
def output_frames (s : ssh2_bpp_state) (cbc : List out_frame) (groups : List (List out_frame))
    (s1 : ssh2_bpp_state) : Prop :=
  ∃ t : ssh2_bpp_state,
    ((cbc_ignore_needed s = true ∧
        ∃ f : out_frame, cbc = [f] ∧ f.pkt = cbc_ignore_pktout ∧ f.framed_in s t) ∨
      (cbc_ignore_needed s = false ∧ cbc = [] ∧ t = s)) ∧
    queue_frames s t groups s.out_pq s1

/-- An outgoing direction as negotiated with an encrypt-then-MAC algorithm: a
cipher with 16-byte blocks and a 32-byte MAC. -/
def minlen_example_state : ssh2_bpp_state :=
  ssh2_bpp_new_outgoing_crypto (ssh2_bpp_new stats_example (fun n => n))
    (some (cipher_example 16 0)) (some (mac_example 32)) true none

/-- A packet of 64 bytes before padding (type byte 50 and 58 payload bytes)
that asks for at least 256 bytes on the wire. -/
def minlen_example_pkt : PktOut :=
  { ssh2_bpp_new_pktout 50 with
    data := (ssh2_bpp_new_pktout 50).data ++ List.replicate 58 65, minlen := 256 }

/-- An output call with the CBC workaround on, an empty `out_raw` and two
queued packets, the second with a `minlen`. -/
def output_example_state : ssh2_bpp_state :=
  { ssh2_bpp_new_outgoing_crypto (ssh2_bpp_new stats_example (fun n => n))
      (some (cipher_example 8 SSH_CIPHER_IS_CBC)) (some (mac_example 2)) false none with
    out_pq := [{ ssh2_bpp_new_pktout 94 with data := (ssh2_bpp_new_pktout 94).data ++ [1, 2] },
               { ssh2_bpp_new_pktout 50 with minlen := 40 }] }

/-- The frames are numbered consecutively modulo 2^32 from `a`, and `b` is
the number after the last one. -/
def seq_run : Nat → List out_frame → Nat → Prop
  | a, [], b => b = a
  | a, f :: rest, b => f.seq = a ∧ seq_run ((a + 1) % 4294967296) rest b

/-- The bytes of a list of frames, one frame after the other. -/
def frames_bytes (fs : List out_frame) : List Nat :=
  (fs.map out_frame.bytes).flatten

/-- A state `S` at the point where the three paths join, reached from `s` by
reading one frame: the cleartext frame `data` of `n` bytes (the MAC behind
it) is in place, the input is used up, and the queues, the sequence number
and the decompressor are those of `s`. -/
structure at_tail (s S : ssh2_bpp_state) (data : List Nat) (n : Nat) : Prop where
  crState : S.crState = cr_label.tail
  data : S.data.take n = data
  len : S.len = (n : Int) - 4
  packetlen : S.packetlen = (n : Int)
  in_raw : S.in_raw = []
  input_eof : S.input_eof = false
  in_pq : S.in_pq = s.in_pq
  sequence : S.inp.sequence = s.inp.sequence
  mac : S.inp.mac = s.inp.mac
  etm_mode : S.inp.etm_mode = s.inp.etm_mode
  in_decomp : S.in_decomp = s.in_decomp
  out_pq : S.out_pq = s.out_pq

/-- A fresh engine (no cipher, no MAC, sequence number 0) that has received
the plaintext frame with length field 12 and padding-length byte 3. -/
def padding_example_state : ssh2_bpp_state :=
  { ssh2_bpp_new stats_example (fun n => n) with
    in_raw := [0, 0, 0, 12, 3, 94, 1, 2, 3, 4, 5, 6, 7, 0, 0, 0] }

/-- A fresh engine that has received the plaintext frame with length field
12, padding length 4, type byte 94 and the six payload bytes 1 to 6. -/
def pktin_example_state : ssh2_bpp_state :=
  { ssh2_bpp_new stats_example (fun n => n) with
    in_raw := [0, 0, 0, 12, 4, 94, 1, 2, 3, 4, 5, 6, 0, 0, 0, 0] }

/-- A fresh engine that has received the plaintext frame with length field 12
and padding length 11: one byte that is not padding, the padding-length byte
itself. -/
def no_type_example_state : ssh2_bpp_state :=
  { ssh2_bpp_new stats_example (fun n => n) with
    in_raw := [0, 0, 0, 12, 11, 94, 1, 2, 3, 4, 5, 6, 7, 8, 9, 10] }

/-! ## The round trip: what it asks of the crypto handles -/

/-- All elements of the list are bytes. -/
def is_bytes (l : List Nat) : Prop := ∀ b ∈ l, b < 256

/-- The receiving cipher handle `dec` undoes the sending handle `enc`. `R`
relates the contexts of the two handles when they are in step, as they are
now; on byte strings of whole blocks (`blk` is the effective block size)
decrypting what was encrypted gives the input back and leaves the handles in
step, and so does the pair of length operations on the four bytes of a
length field. Decryption keeps the length and works block by block: a
string cut at a block boundary can be decrypted in two calls. -/
structure cipher_inverse (R : List Nat → List Nat → Prop) (enc dec : ssh2_cipher)
    (blk : Nat) : Prop where
  blksize : dec.blksize = enc.blksize
  flags : dec.flags = enc.flags
  in_step : R enc.ctx dec.ctx
  dec_length : ∀ d a, (dec.decrypt d a).2.length = a.length
  stream : ∀ d a b, blk ∣ a.length →
    (dec.decrypt d (a ++ b)).2 = (dec.decrypt d a).2 ++ (dec.decrypt (dec.decrypt d a).1 b).2 ∧
    (dec.decrypt d (a ++ b)).1 = (dec.decrypt (dec.decrypt d a).1 b).1
  inverse : ∀ e d P, R e d → blk ∣ P.length → is_bytes P →
    (enc.encrypt e P).2.length = P.length ∧ (dec.decrypt d (enc.encrypt e P).2).2 = P ∧
    R (enc.encrypt e P).1 (dec.decrypt d (enc.encrypt e P).2).1
  inverse_length : ∀ e d l seq, R e d → l.length = 4 → is_bytes l →
    (enc.encrypt_length e l seq).2.length = 4 ∧
    (dec.decrypt_length d (enc.encrypt_length e l seq).2 seq).2 = l ∧
    R (enc.encrypt_length e l seq).1 (dec.decrypt_length d (enc.encrypt_length e l seq).2 seq).1

/-- The decompressor `dc` undoes the compressor `comp`: with the contexts in
step (`Rc`), decompressing what was compressed succeeds, gives the input back
and leaves the contexts in step; the compressor turns bytes into bytes. -/
structure comp_inverse (Rc : List Nat → List Nat → Prop) (comp : ssh_compressor)
    (dc : ssh_decompressor) : Prop where
  in_step : Rc comp.ctx dc.ctx
  inverse : ∀ c d x minlen, Rc c d → is_bytes x →
    is_bytes (comp.compress c x minlen).2 ∧
    (dc.decompress d (comp.compress c x minlen).2).2 = some x ∧
    Rc (comp.compress c x minlen).1 (dc.decompress d (comp.compress c x minlen).2).1

/-- Both directions have a cipher or neither has, and the receiving one
undoes the sending one. -/
def ciphers_inverse (R : List Nat → List Nat → Prop) (enc dec : Option ssh2_cipher)
    (blk : Nat) : Prop :=
  (enc = none ∧ dec = none) ∨
    ∃ e d, enc = some e ∧ dec = some d ∧ cipher_inverse R e d blk

/-- Both directions have compression or neither has, and the decompressor
undoes the compressor. -/
def comps_inverse (Rc : List Nat → List Nat → Prop) (comp : Option ssh_compressor)
    (dc : Option ssh_decompressor) : Prop :=
  (comp = none ∧ dc = none) ∨
    ∃ c d, comp = some c ∧ dc = some d ∧ comp_inverse Rc c d

/-- The incoming direction of the engine `i` is the inverse of the outgoing
direction of the engine `o`: the incoming cipher undoes the outgoing one, the
MAC and the mode are the same, the decompressor undoes the compressor and the
sequence numbers agree. -/
structure crypto_inverse (R Rc : List Nat → List Nat → Prop) (o i : ssh2_bpp_state) :
    Prop where
  cipher : ciphers_inverse R o.out.cipher i.inp.cipher (out_cipherblk o)
  mac : i.inp.mac = o.out.mac
  etm_mode : i.inp.etm_mode = o.out.etm_mode
  comp : comps_inverse Rc o.out_comp i.in_decomp
  sequence : i.inp.sequence = o.out.sequence

/-- The cleartext image of a packet that `ssh2_bpp_format_packet_inner`
builds before it encrypts: the length field, the padding length, the type
byte and payload (compressed, with a compressor) and the random padding. -/
def out_cleartext (s : ssh2_bpp_state) (pkt : PktOut) : List Nat :=
  PUT_32BIT ((format_compress s pkt).2.length +
      out_padding (format_compress s pkt).1 (format_compress s pkt).2.length - 4) ++
    [out_padding (format_compress s pkt).1 (format_compress s pkt).2.length % 256] ++
    ((format_compress s pkt).2 ++
      (random_bytes (format_compress s pkt).1
        (out_padding (format_compress s pkt).1 (format_compress s pkt).2.length)).1).drop 5

/-- A state `S` of the first path (CBC cipher with a MAC) waiting for the
next cipher block, reached from `s` on the frame `F` after `k` bytes of the
cleartext `P` have been recovered: the buffer holds them and the `maclen`
bytes behind, the MAC has been fed the sequence number and them, and the
cipher context is `ctx`. -/
structure at_block (s S : ssh2_bpp_state) (dec : ssh2_cipher) (P F : List Nat) (k : Nat)
    (ctx : List Nat) : Prop where
  crState : S.crState = cr_label.a_block
  buf : S.buf = P.take k ++ (F.drop k).take (in_maclen s)
  in_raw : S.in_raw = F.drop (k + in_maclen s)
  packetlen : S.packetlen = (k : Int)
  fed : S.fed = PUT_32BIT (s.inp.sequence % 4294967296) ++ P.take k
  inp : S.inp = { s.inp with cipher := some { dec with ctx := ctx } }
  cipherblk : S.cipherblk = in_cipherblk s
  maclen : S.maclen = (in_maclen s : Int)
  input_eof : S.input_eof = false
  in_pq : S.in_pq = s.in_pq
  in_decomp : S.in_decomp = s.in_decomp
  out_pq : S.out_pq = s.out_pq

/-- The MAC that the outgoing direction puts behind the bytes `X` it
authenticates, nothing without a MAC. -/
def out_tag (s : ssh2_bpp_state) (X : List Nat) : List Nat :=
  match s.out.mac with
  | some m => mac_result m (PUT_32BIT (s.out.sequence % 4294967296) ++ X)
  | none => []

/-- The cleartext image of a packet behind the length field: the padding
length, the type byte and payload (compressed, with a compressor) and the
random padding. -/
def out_body (s : ssh2_bpp_state) (pkt : PktOut) : List Nat :=
  out_padding s (format_compress s pkt).2.length % 256 ::
    ((format_compress s pkt).2.drop 5 ++
      (random_bytes (format_compress s pkt).1
        (out_padding s (format_compress s pkt).2.length)).1)

/-- The receiving engine `i` with the bytes `frame` in its input chain. -/
def with_input (i : ssh2_bpp_state) (frame : List Nat) : ssh2_bpp_state :=
  { i with in_raw := frame }

/-- A sending engine for examples: fresh, with the given outgoing cipher, MAC,
mode and compressor and the outgoing sequence number 5. -/
def example_out (c : Option ssh2_cipher) (m : Option ssh2_mac) (etm : Bool)
    (comp : Option ssh_compressor) : ssh2_bpp_state :=
  { ssh2_bpp_new stats_example (fun n => n) with
    out := { sequence := 5, cipher := c, mac := m, etm_mode := etm }, out_comp := comp }

/-- A receiving engine for examples: fresh, with the given incoming cipher,
MAC, mode and decompressor and the incoming sequence number 5. -/
def example_in (c : Option ssh2_cipher) (m : Option ssh2_mac) (etm : Bool)
    (decomp : Option ssh_decompressor) : ssh2_bpp_state :=
  { ssh2_bpp_new stats_example (fun n => n) with
    inp := { sequence := 5, cipher := c, mac := m, etm_mode := etm }, in_decomp := decomp }

/-- A packet for examples: type 94 and the eight payload bytes of the string
"test" with its length. -/
def example_pkt : PktOut :=
  { ssh2_bpp_new_pktout 94 with
    data := (ssh2_bpp_new_pktout 94).data ++ [0, 0, 0, 4, 116, 101, 115, 116] }

/-- The state of the binary search: with `L = (low + 1) mod 2^32` the number
of entries known to sit at their own index, every index below `L` holds the id
`index + 256` and the entry at `high`, when there is one, does not. -/
def search_inv (t : tree234) (low high : Nat) : Prop :=
  low < 4294967296 ∧ (low + 1) % 4294967296 ≤ high ∧ high ≤ t.length ∧
  (∀ i, i < (low + 1) % 4294967296 → ∃ r, t[i]? = some r ∧ r.id = i + 256) ∧
  (high < t.length → ∃ r, t[high]? = some r ∧ r.id ≠ high + 256)

/-- What the framing steps leave alone in the state: the byte chain, the
queue, the sequence number, the MAC, the mode, the cipher's block size and
flags, and whether a compressor is installed. -/
structure out_keeps (s s1 : ssh2_bpp_state) : Prop where
  out_raw : s1.out_raw = s.out_raw
  out_pq : s1.out_pq = s.out_pq
  seq : s1.out.sequence = s.out.sequence
  mac : s1.out.mac = s.out.mac
  etm : s1.out.etm_mode = s.out.etm_mode
  blk : s1.out.cipher.map (fun c => (c.blksize, c.flags)) =
    s.out.cipher.map (fun c => (c.blksize, c.flags))
  comp : s1.out_comp.isNone = s.out_comp.isNone
  cbc : s1.cbc_ignore_workaround = s.cbc_ignore_workaround

/-! ## SFTP primitives: packets on the wire (`sftp.c`) -/

/-- `SSH_FXP_INIT` and the other request codes of the IETF draft (`sftp.h`). -/
def SSH_FXP_INIT : Nat := 1
/-- `SSH_FXP_VERSION`. -/
def SSH_FXP_VERSION : Nat := 2
/-- `SSH_FXP_OPEN`. -/
def SSH_FXP_OPEN : Nat := 3
/-- `SSH_FXP_CLOSE`. -/
def SSH_FXP_CLOSE : Nat := 4
/-- `SSH_FXP_WRITE`. -/
def SSH_FXP_WRITE : Nat := 6
/-- `SSH_FXP_FSTAT`. -/
def SSH_FXP_FSTAT : Nat := 8
/-- `SSH_FXP_SETSTAT`. -/
def SSH_FXP_SETSTAT : Nat := 9
/-- `SSH_FXP_FSETSTAT`. -/
def SSH_FXP_FSETSTAT : Nat := 10
/-- `SSH_FXP_OPENDIR`. -/
def SSH_FXP_OPENDIR : Nat := 11
/-- `SSH_FXP_READDIR`. -/
def SSH_FXP_READDIR : Nat := 12
/-- `SSH_FXP_REMOVE`. -/
def SSH_FXP_REMOVE : Nat := 13
/-- `SSH_FXP_MKDIR`. -/
def SSH_FXP_MKDIR : Nat := 14
/-- `SSH_FXP_RMDIR`. -/
def SSH_FXP_RMDIR : Nat := 15
/-- `SSH_FXP_REALPATH`. -/
def SSH_FXP_REALPATH : Nat := 16
/-- `SSH_FXP_STAT`. -/
def SSH_FXP_STAT : Nat := 17
/-- `SSH_FXP_RENAME`. -/
def SSH_FXP_RENAME : Nat := 18
/-- `SSH_FXP_NAME`. -/
def SSH_FXP_NAME : Nat := 104
/-- `SFTP_PROTO_VERSION`, the protocol version this client advertises. -/
def SFTP_PROTO_VERSION : Nat := 3

/-- `SSH_FILEXFER_ATTR_SIZE` and the other bits of the attribute flags word
(`sftp.h`). -/
def SSH_FILEXFER_ATTR_SIZE : Nat := 1
/-- `SSH_FILEXFER_ATTR_UIDGID`. -/
def SSH_FILEXFER_ATTR_UIDGID : Nat := 2
/-- `SSH_FILEXFER_ATTR_PERMISSIONS`. -/
def SSH_FILEXFER_ATTR_PERMISSIONS : Nat := 4
/-- `SSH_FILEXFER_ATTR_ACMODTIME`. -/
def SSH_FILEXFER_ATTR_ACMODTIME : Nat := 8
/-- `SSH_FILEXFER_ATTR_EXTENDED`, the bit 0x80000000. -/
def SSH_FILEXFER_ATTR_EXTENDED : Nat := 2147483648

/-- Modelled from the spec: `struct fxp_attrs` of `sftp.h` (not among the
sources): the flags word, the 64-bit size and the 32-bit fields. -/
structure fxp_attrs where
  flags : Nat
  size : Nat
  uid : Nat
  gid : Nat
  permissions : Nat
  atime : Nat
  mtime : Nat
deriving DecidableEq, Repr

/-- Modelled from the spec: `put_stringz`, the C string up to its terminating
NUL written as a length-prefixed string. -/
def put_stringz (data : List Nat) (s : List Nat) : List Nat :=
  put_string data (s.takeWhile (fun b => b != 0))

/-- Modelled from the spec: `mkstr`, the C string made of a counted string;
read as a C string it ends at the first NUL byte. -/
def mkstr (s : List Nat) : List Nat := s.takeWhile (fun b => b != 0)

/-- `BinarySink_put_fxp_attrs`: the flags word and the fields it selects;
nothing is written for the extended bit. -/
def put_fxp_attrs (data : List Nat) (attrs : fxp_attrs) : List Nat :=
  let d0 := put_uint32 data attrs.flags
  let d1 := if has_flag attrs.flags SSH_FILEXFER_ATTR_SIZE then put_uint64 d0 attrs.size else d0
  let d2 := if has_flag attrs.flags SSH_FILEXFER_ATTR_UIDGID
    then put_uint32 (put_uint32 d1 attrs.uid) attrs.gid else d1
  let d3 := if has_flag attrs.flags SSH_FILEXFER_ATTR_PERMISSIONS
    then put_uint32 d2 attrs.permissions else d2
  let d4 := if has_flag attrs.flags SSH_FILEXFER_ATTR_ACMODTIME
    then put_uint32 (put_uint32 d3 attrs.atime) attrs.mtime else d3
  d4

/-- The loop `while (count--)` of `BinarySource_get_fxp_attrs` over the
extended pairs: two strings are read and dropped per pair. -/
def get_extended_pairs : Nat → BinarySource → BinarySource
  | 0, src => src
  | count + 1, src => get_extended_pairs count (get_string (get_string src).2).2

/-- `BinarySource_get_fxp_attrs`: the fields selected by the flags word are
stored into `attrs`, the others stay as they were; extended pairs are read and
ignored. The C function always returns 1. -/
def get_fxp_attrs (src : BinarySource) (attrs : fxp_attrs) : fxp_attrs × BinarySource :=
  let r0 := get_uint32 src
  let a0 : fxp_attrs := { attrs with flags := r0.1 }
  let r1 : fxp_attrs × BinarySource :=
    if has_flag a0.flags SSH_FILEXFER_ATTR_SIZE then
      ({ a0 with size := (get_uint64 r0.2).1 }, (get_uint64 r0.2).2)
    else (a0, r0.2)
  let r2 : fxp_attrs × BinarySource :=
    if has_flag a0.flags SSH_FILEXFER_ATTR_UIDGID then
      ({ r1.1 with uid := (get_uint32 r1.2).1, gid := (get_uint32 (get_uint32 r1.2).2).1 },
        (get_uint32 (get_uint32 r1.2).2).2)
    else r1
  let r3 : fxp_attrs × BinarySource :=
    if has_flag a0.flags SSH_FILEXFER_ATTR_PERMISSIONS then
      ({ r2.1 with permissions := (get_uint32 r2.2).1 }, (get_uint32 r2.2).2)
    else r2
  let r4 : fxp_attrs × BinarySource :=
    if has_flag a0.flags SSH_FILEXFER_ATTR_ACMODTIME then
      ({ r3.1 with atime := (get_uint32 r3.2).1, mtime := (get_uint32 (get_uint32 r3.2).2).1 },
        (get_uint32 (get_uint32 r3.2).2).2)
    else r3
  if has_flag a0.flags SSH_FILEXFER_ATTR_EXTENDED then
    (r4.1, get_extended_pairs (get_uint32 r4.2).1 (get_uint32 r4.2).2)
  else r4

/-- Modelled from the spec: `sftp_recvdata`, the injected byte source: exactly
`len` bytes are taken from the incoming stream, and the call fails when the
stream ends before that. -/
def sftp_recvdata (inp : List Nat) (len : Nat) : Option (List Nat × List Nat) :=
  if len ≤ inp.length then some (inp.take len, inp.drop len) else none

/-- `sftp_recv`: read one packet from the incoming stream; the result is the
packet with its type byte taken (`none` for NULL) and the stream that is
left. -/
def sftp_recv (inp : List Nat) : Option sftp_packet × List Nat :=
  match sftp_recvdata inp 4 with
  | none => (none, inp)
  | some (x, inp1) =>
    match sftp_recvdata inp1 (GET_32BIT x) with
    | none => (none, inp1)
    | some (data, inp2) =>
      let r := get_byte { data := data, pos := 0, err := false }
      if get_err r.2 then (none, inp2)
      else (some { type := r.1, src := r.2 }, inp2)

/-- `fxp_init`: send INIT with our version and read the VERSION reply from
the incoming stream; the return value, the globals and the stream left. -/
def fxp_init (g : sftp_globals) (inp : List Nat) : Int × sftp_globals × List Nat :=
  let pktout := put_uint32 (sftp_pkt_init SSH_FXP_INIT) SFTP_PROTO_VERSION
  let g1 := sftp_send g pktout
  match sftp_recv inp with
  | (none, inp1) => (0, fxp_internal_error g1 "could not connect", inp1)
  | (some pktin, inp1) =>
    if pktin.type ≠ SSH_FXP_VERSION then
      (0, fxp_internal_error g1 "did not receive FXP_VERSION", inp1)
    else
      let r := get_uint32 pktin.src
      if get_err r.2 then
        (0, fxp_internal_error g1 "malformed FXP_VERSION packet", inp1)
      else if r.1 > SFTP_PROTO_VERSION then
        (0, fxp_internal_error g1 "remote protocol is more advanced than we support", inp1)
      else (1, g1, inp1)

/-- `fxp_realpath_send`. -/
def fxp_realpath_send (g : sftp_globals) (path : List Nat) :
    Option (sftp_request × sftp_globals) :=
  match sftp_alloc_request g with
  | none => none
  | some (req, g1) =>
    let pktout := sftp_pkt_init SSH_FXP_REALPATH
    let pktout := put_uint32 pktout req.id
    let pktout := put_stringz pktout path
    some (req, sftp_send g1 pktout)

/-- `fxp_realpath_recv`: the path returned (`none` for NULL) and the
globals. -/
def fxp_realpath_recv (g : sftp_globals) (pktin : sftp_packet) :
    Option (List Nat) × sftp_globals :=
  if pktin.type = SSH_FXP_NAME then
    let r := get_uint32 pktin.src
    if get_err r.2 ∨ r.1 ≠ 1 then
      (none, fxp_internal_error g "REALPATH did not return name count of 1\n")
    else
      let n := get_string r.2
      if get_err n.2 then
        (none, fxp_internal_error g "REALPATH returned malformed FXP_NAME\n")
      else (some (mkstr n.1), g)
  else
    (none, (fxp_got_status g pktin).2)

/-- `fxp_open_send`; `attrs` is `none` for a NULL pointer. -/
def fxp_open_send (g : sftp_globals) (path : List Nat) (type : Nat) (attrs : Option fxp_attrs) :
    Option (sftp_request × sftp_globals) :=
  match sftp_alloc_request g with
  | none => none
  | some (req, g1) =>
    let pktout := sftp_pkt_init SSH_FXP_OPEN
    let pktout := put_uint32 pktout req.id
    let pktout := put_stringz pktout path
    let pktout := put_uint32 pktout type
    let pktout := match attrs with
      | some a => put_fxp_attrs pktout a
      | none => put_uint32 pktout 0
    some (req, sftp_send g1 pktout)

/-- `fxp_opendir_send`. -/
def fxp_opendir_send (g : sftp_globals) (path : List Nat) :
    Option (sftp_request × sftp_globals) :=
  match sftp_alloc_request g with
  | none => none
  | some (req, g1) =>
    let pktout := sftp_pkt_init SSH_FXP_OPENDIR
    let pktout := put_uint32 pktout req.id
    let pktout := put_stringz pktout path
    some (req, sftp_send g1 pktout)

/-- `fxp_close_send`. -/
def fxp_close_send (g : sftp_globals) (handle : List Nat) :
    Option (sftp_request × sftp_globals) :=
  match sftp_alloc_request g with
  | none => none
  | some (req, g1) =>
    let pktout := sftp_pkt_init SSH_FXP_CLOSE
    let pktout := put_uint32 pktout req.id
    let pktout := put_string pktout handle
    some (req, sftp_send g1 pktout)

/-- `fxp_mkdir_send`. -/
def fxp_mkdir_send (g : sftp_globals) (path : List Nat) :
    Option (sftp_request × sftp_globals) :=
  match sftp_alloc_request g with
  | none => none
  | some (req, g1) =>
    let pktout := sftp_pkt_init SSH_FXP_MKDIR
    let pktout := put_uint32 pktout req.id
    let pktout := put_stringz pktout path
    let pktout := put_uint32 pktout 0
    some (req, sftp_send g1 pktout)

/-- `fxp_rmdir_send`. -/
def fxp_rmdir_send (g : sftp_globals) (path : List Nat) :
    Option (sftp_request × sftp_globals) :=
  match sftp_alloc_request g with
  | none => none
  | some (req, g1) =>
    let pktout := sftp_pkt_init SSH_FXP_RMDIR
    let pktout := put_uint32 pktout req.id
    let pktout := put_stringz pktout path
    some (req, sftp_send g1 pktout)

/-- `fxp_remove_send`. -/
def fxp_remove_send (g : sftp_globals) (fname : List Nat) :
    Option (sftp_request × sftp_globals) :=
  match sftp_alloc_request g with
  | none => none
  | some (req, g1) =>
    let pktout := sftp_pkt_init SSH_FXP_REMOVE
    let pktout := put_uint32 pktout req.id
    let pktout := put_stringz pktout fname
    some (req, sftp_send g1 pktout)

/-- `fxp_rename_send`. -/
def fxp_rename_send (g : sftp_globals) (srcfname dstfname : List Nat) :
    Option (sftp_request × sftp_globals) :=
  match sftp_alloc_request g with
  | none => none
  | some (req, g1) =>
    let pktout := sftp_pkt_init SSH_FXP_RENAME
    let pktout := put_uint32 pktout req.id
    let pktout := put_stringz pktout srcfname
    let pktout := put_stringz pktout dstfname
    some (req, sftp_send g1 pktout)

/-- `fxp_stat_send`. -/
def fxp_stat_send (g : sftp_globals) (fname : List Nat) :
    Option (sftp_request × sftp_globals) :=
  match sftp_alloc_request g with
  | none => none
  | some (req, g1) =>
    let pktout := sftp_pkt_init SSH_FXP_STAT
    let pktout := put_uint32 pktout req.id
    let pktout := put_stringz pktout fname
    some (req, sftp_send g1 pktout)

/-- `fxp_fstat_send`. -/
def fxp_fstat_send (g : sftp_globals) (handle : List Nat) :
    Option (sftp_request × sftp_globals) :=
  match sftp_alloc_request g with
  | none => none
  | some (req, g1) =>
    let pktout := sftp_pkt_init SSH_FXP_FSTAT
    let pktout := put_uint32 pktout req.id
    let pktout := put_string pktout handle
    some (req, sftp_send g1 pktout)

/-- `fxp_setstat_send`. -/
def fxp_setstat_send (g : sftp_globals) (fname : List Nat) (attrs : fxp_attrs) :
    Option (sftp_request × sftp_globals) :=
  match sftp_alloc_request g with
  | none => none
  | some (req, g1) =>
    let pktout := sftp_pkt_init SSH_FXP_SETSTAT
    let pktout := put_uint32 pktout req.id
    let pktout := put_stringz pktout fname
    let pktout := put_fxp_attrs pktout attrs
    some (req, sftp_send g1 pktout)

/-- `fxp_fsetstat_send`. -/
def fxp_fsetstat_send (g : sftp_globals) (handle : List Nat) (attrs : fxp_attrs) :
    Option (sftp_request × sftp_globals) :=
  match sftp_alloc_request g with
  | none => none
  | some (req, g1) =>
    let pktout := sftp_pkt_init SSH_FXP_FSETSTAT
    let pktout := put_uint32 pktout req.id
    let pktout := put_string pktout handle
    let pktout := put_fxp_attrs pktout attrs
    some (req, sftp_send g1 pktout)

/-- `fxp_readdir_send`. -/
def fxp_readdir_send (g : sftp_globals) (handle : List Nat) :
    Option (sftp_request × sftp_globals) :=
  match sftp_alloc_request g with
  | none => none
  | some (req, g1) =>
    let pktout := sftp_pkt_init SSH_FXP_READDIR
    let pktout := put_uint32 pktout req.id
    let pktout := put_string pktout handle
    some (req, sftp_send g1 pktout)

/-- `fxp_write_send`; `buffer` holds the `len` bytes to write. -/
def fxp_write_send (g : sftp_globals) (handle : List Nat) (buffer : List Nat) (offset : Nat) :
    Option (sftp_request × sftp_globals) :=
  match sftp_alloc_request g with
  | none => none
  | some (req, g1) =>
    let pktout := sftp_pkt_init SSH_FXP_WRITE
    let pktout := put_uint32 pktout req.id
    let pktout := put_string pktout handle
    let pktout := put_uint64 pktout offset
    let pktout := put_string pktout buffer
    some (req, sftp_send g1 pktout)

/-- `fxp_write_recv`: the return value `fxp_errtype == SSH_FX_OK` and the
globals. -/
def fxp_write_recv (g : sftp_globals) (pktin : sftp_packet) : Int × sftp_globals :=
  let g1 := (fxp_got_status g pktin).2
  (if g1.fxp_errtype = SSH_FX_OK then 1 else 0, g1)

/-- The frame of an SFTP packet of the given type and body as the claim
describes it: the length of what follows, the type byte, the body. -/
def sftp_frame (type : Nat) (body : List Nat) : List Nat :=
  PUT_32BIT (body.length + 1) ++ type :: body

/-- What the claim says of the result of a `*_send` function called with the
globals `g`: a request is allocated as `sftp_alloc_request` does and returned,
and one packet is handed to `sftp_senddata`: the frame of the given type whose
body is the request id followed by `rest`. -/
def sends_request (g : sftp_globals) (type : Nat) (rest : List Nat)
    (result : Option (sftp_request × sftp_globals)) : Prop :=
  ∃ req g1 g2, sftp_alloc_request g = some (req, g1) ∧ result = some (req, g2) ∧
    g2.sftp_requests = g1.sftp_requests ∧
    g2.sent = g.sent ++ [sftp_frame type (PUT_32BIT req.id ++ rest)]

/-! ## The upload queue as a linked structure in memory (`sftp.c`) -/

/-- `struct req` as it lies in memory, with its links: `next` and `prev` are
addresses of nodes, `none` for NULL. -/
structure req_cell where
  next : Option Nat
  prev : Option Nat
  buffer : Option (List Nat)
  len : Int
  retlen : Int
  complete : Int
  offset : Nat
deriving DecidableEq, Repr

/-- `struct fxp_xfer` with the queue as the C code holds it: the `head` and
`tail` pointers and the memory `cells` in which the nodes live (`none` at an
address that holds no node). -/
structure fxp_xfer_mem where
  offset : Nat
  furthestdata : Nat
  filesize : Nat
  req_totalsize : Int
  req_maxsize : Int
  eof : Bool
  err : Bool
  fh : List Nat
  head : Option Nat
  tail : Option Nat
  cells : Nat → Option req_cell

/-- A write through a node pointer: the node at address `a` is replaced by
`f` of it; `none` when no node lives there. -/
def cell_write (cells : Nat → Option req_cell) (a : Nat) (f : req_cell → req_cell) :
    Option (Nat → Option req_cell) :=
  match cells a with
  | none => none
  | some c => some (fun b => if b = a then some (f c) else cells b)

/-- `xfer_upload_init`: `xfer_init` followed by `xfer->eof = 1`. -/
def xfer_upload_init (fh : List Nat) (offset : Nat) : fxp_xfer_mem :=
  { fh := fh, offset := offset, head := none, tail := none, req_totalsize := 0,
    req_maxsize := 1048576, err := false, filesize := 18446744073709551615,
    furthestdata := 0, eof := true, cells := fun _ => none }

/-- `xfer_upload_data`: a new node for the `len` bytes of `buffer` is put at
the tail of the queue and the write request is sent; `none` is a crash. -/
def xfer_upload_data (g : sftp_globals) (xfer : fxp_xfer_mem) (buffer : List Nat) :
    Option (sftp_globals × fxp_xfer_mem) :=
  let a := g.heap_next
  let g0 : sftp_globals := { g with heap_next := g.heap_next + 1 }
  let rr : req_cell :=
    { offset := xfer.offset, complete := 0, prev := xfer.tail, next := none,
      len := (buffer.length : Int), buffer := none, retlen := 0 }
  match (match xfer.tail with
         | some t =>
           (cell_write xfer.cells t (fun c => { c with next := some a })).map
             (fun cells => { xfer with cells := cells })
         | none => some { xfer with head := some a }) with
  | none => none
  | some x1 =>
    let x2 : fxp_xfer_mem :=
      { x1 with tail := some a, cells := fun b => if b = a then some rr else x1.cells b }
    match fxp_write_send g0 x2.fh buffer rr.offset with
    | none => none
    | some (req, g1) =>
      let g2 := sftp_register g1 req.id
      let g3 := fxp_set_userdata g2 req.id (some a)
      some (g3, { x2 with offset := uint64_add32 x2.offset rr.len.toNat,
                          req_totalsize := x2.req_totalsize + rr.len })

/-- The statement `if (prev) prev->next = next; else xfer->head = next;` of
`xfer_upload_gotpkt`; `none` when `prev` points at no node. -/
def unlink_prev (xfer : fxp_xfer_mem) (prev next : Option Nat) : Option fxp_xfer_mem :=
  match prev with
  | some p =>
    (cell_write xfer.cells p (fun c => { c with next := next })).map
      (fun cells => { xfer with cells := cells })
  | none => some { xfer with head := next }

/-- The statement `if (next) next->prev = prev; else xfer->tail = prev;` of
`xfer_upload_gotpkt`; `none` when `next` points at no node. -/
def unlink_next (xfer : fxp_xfer_mem) (prev next : Option Nat) : Option fxp_xfer_mem :=
  match next with
  | some n =>
    (cell_write xfer.cells n (fun c => { c with prev := prev })).map
      (fun cells => { xfer with cells := cells })
  | none => some { xfer with tail := prev }

/-- The part of `xfer_upload_gotpkt` under "Remove this one from the queue":
the node `rr` at address `addr` is unlinked, its length is taken off
`req_totalsize` and it is freed; `none` when a link points at no node. -/
def xfer_upload_unlink (xfer : fxp_xfer_mem) (addr : Nat) (rr : req_cell) :
    Option fxp_xfer_mem :=
  match unlink_prev xfer rr.prev rr.next with
  | none => none
  | some x1 =>
    match unlink_next x1 rr.prev rr.next with
    | none => none
    | some x2 =>
      some { x2 with req_totalsize := x2.req_totalsize - rr.len,
                     cells := fun b => if b = addr then none else x2.cells b }

/-- `xfer_upload_gotpkt`: the return value, the globals and the transfer;
`none` is a crash (`find234` on a NULL tree, or a pointer at no node). -/
def xfer_upload_gotpkt (g : sftp_globals) (xfer : fxp_xfer_mem) (pktin : sftp_packet) :
    Option (Int × sftp_globals × fxp_xfer_mem) :=
  match sftp_find_request g (some pktin) with
  | none => none
  | some (none, _, g1) => some (INT_MIN, g1, xfer)
  | some (some _, none, _) => none
  | some (some rreq, some pkt1, g1) =>
    match fxp_get_userdata rreq with
    | none =>
      some (INT_MIN,
        fxp_internal_error g1 "request ID is not part of the current upload", xfer)
    | some addr =>
      match xfer.cells addr with
      | none => none
      | some rr =>
        let r := fxp_write_recv g1 pkt1
        match xfer_upload_unlink xfer addr rr with
        | none => none
        | some x3 => some (if r.1 = 0 then -1 else 1, r.2, x3)

/-- The nodes at the addresses `l`, in this order, are a piece of a
doubly-linked list in memory: the `prev` pointer of the first is `p`, the
`next` pointer of each is the address behind it and its `prev` pointer the
address before it, and the `next` pointer of the last is `n`. -/
def linked (cells : Nat → Option req_cell) : Option Nat → List Nat → Option Nat → Prop
  | _, [], _ => True
  | p, a :: rest, n =>
    (∃ c, cells a = some c ∧ c.prev = p ∧ c.next = (rest.head?).or n) ∧
      linked cells (some a) rest n

/-- The queue of the transfer is made of the nodes at the addresses `l`, from
head to tail: `head` and `tail` point at the first and the last of them (NULL
for an empty queue), the addresses are distinct and the `next` and `prev`
pointers chain them in this order, NULL at both ends. -/
def is_queue (xfer : fxp_xfer_mem) (l : List Nat) : Prop :=
  xfer.head = l.head? ∧ xfer.tail = l.getLast? ∧ l.Nodup ∧ linked xfer.cells none l none

/-- The fields of a node other than its links. -/
def req_cell.fields (c : req_cell) : Option (List Nat) × Int × Int × Int × Nat :=
  (c.buffer, c.len, c.retlen, c.complete, c.offset)

/-- An upload for examples: three writes of 2, 3 and 1 bytes queued on a
fresh transfer at offset 0 with handle `[104]`. -/
def upload_example : Option (sftp_globals × fxp_xfer_mem) :=
  match xfer_upload_data sftp_globals_init (xfer_upload_init [104] 0) [1, 2] with
  | none => none
  | some (g1, x1) =>
    match xfer_upload_data g1 x1 [3, 4, 5] with
    | none => none
    | some (g2, x2) => xfer_upload_data g2 x2 [6]

/-- A status response to the request with the given id. -/
def status_packet (id : Nat) (code : Nat) : sftp_packet :=
  packet_with_id SSH_FXP_STATUS id (PUT_32BIT code)

/-! ## Waiting for new keys: examples -/

/-- The plaintext frame of an `SSH2_MSG_NEWKEYS` packet: length field 12,
padding length 10, the type byte 21 and ten bytes of padding. -/
def newkeys_frame : List Nat := [0, 0, 0, 12, 10, 21, 0, 0, 0, 0, 0, 0, 0, 0, 0, 0]

/-- The frame of `example_pkt` as a peer sends it with sequence number 6
under the toy cipher and MAC. -/
def newkeys_example_next : List Nat :=
  match ssh2_bpp_format_packet_inner
      { example_out (some (cipher_example 16 0)) (some (mac_example 3)) false none with
        out := { sequence := 6, cipher := some (cipher_example 16 0),
                 mac := some (mac_example 3), etm_mode := false } } example_pkt with
  | some r => r.2.data
  | none => []

/-- A receiving engine without cipher and MAC at sequence number 5 that has
received the NEWKEYS frame and, behind it, the first frame under the new
keys. -/
def newkeys_example_state : ssh2_bpp_state :=
  with_input (example_in none none false none) (newkeys_frame ++ newkeys_example_next)

/-- The claim's "well-formed `SSH_FXP_VERSION` packet whose version is `v`",
written after the specification, at the head of the incoming stream: a length
field, at least as many bytes behind it as it announces, the first of them the
type byte `SSH_FXP_VERSION` and the next four the version. -/
def version_reply (inp : List Nat) (v : Nat) : Prop :=
  4 ≤ inp.length ∧ GET_32BIT inp + 4 ≤ inp.length ∧ 5 ≤ GET_32BIT inp ∧
    inp.getD 4 0 = SSH_FXP_VERSION ∧ GET_32BIT (inp.drop 5) = v

/-- The claim's attribute bytes, written after the specification: the flags
word, then the fields selected by bits 0 to 3 in the order size (64 bit), uid
and gid, permissions, atime and mtime (32 bit each), and nothing else. -/
def attrs_bytes (a : fxp_attrs) : List Nat :=
  PUT_32BIT a.flags ++
    ((if has_flag a.flags 1 then
        PUT_32BIT (a.size / 4294967296) ++ PUT_32BIT (a.size % 4294967296) else []) ++
     ((if has_flag a.flags 2 then PUT_32BIT a.uid ++ PUT_32BIT a.gid else []) ++
      ((if has_flag a.flags 4 then PUT_32BIT a.permissions else []) ++
       (if has_flag a.flags 8 then PUT_32BIT a.atime ++ PUT_32BIT a.mtime else []))))

/-- The step of `BinarySource_get_fxp_attrs` for the size. -/
def get_attr_size (flags : Nat) (r : fxp_attrs × BinarySource) : fxp_attrs × BinarySource :=
  if has_flag flags SSH_FILEXFER_ATTR_SIZE then
    ({ r.1 with size := (get_uint64 r.2).1 }, (get_uint64 r.2).2)
  else r

/-- The step of `BinarySource_get_fxp_attrs` for uid and gid. -/
def get_attr_uidgid (flags : Nat) (r : fxp_attrs × BinarySource) : fxp_attrs × BinarySource :=
  if has_flag flags SSH_FILEXFER_ATTR_UIDGID then
    ({ r.1 with uid := (get_uint32 r.2).1, gid := (get_uint32 (get_uint32 r.2).2).1 },
      (get_uint32 (get_uint32 r.2).2).2)
  else r

/-- The step of `BinarySource_get_fxp_attrs` for the permissions. -/
def get_attr_permissions (flags : Nat) (r : fxp_attrs × BinarySource) :
    fxp_attrs × BinarySource :=
  if has_flag flags SSH_FILEXFER_ATTR_PERMISSIONS then
    ({ r.1 with permissions := (get_uint32 r.2).1 }, (get_uint32 r.2).2)
  else r

/-- The step of `BinarySource_get_fxp_attrs` for atime and mtime. -/
def get_attr_acmodtime (flags : Nat) (r : fxp_attrs × BinarySource) :
    fxp_attrs × BinarySource :=
  if has_flag flags SSH_FILEXFER_ATTR_ACMODTIME then
    ({ r.1 with atime := (get_uint32 r.2).1, mtime := (get_uint32 (get_uint32 r.2).2).1 },
      (get_uint32 (get_uint32 r.2).2).2)
  else r

/-- The globals of `upload_example`. -/
def upload_example_globals : sftp_globals :=
  (upload_example.map (fun r => r.1)).getD sftp_globals_init

/-- The transfer of `upload_example`. -/
def upload_example_xfer : fxp_xfer_mem :=
  (upload_example.map (fun r => r.2)).getD (xfer_upload_init [] 0)

/-- What a stretch of the input coroutine that starts in `s` may do to the
input queue, by the way it ends: nothing, or one packet pushed. A stretch
after which the coroutine goes on has pushed no `SSH2_MSG_NEWKEYS`; a stretch
that returns after a push has pushed an `SSH2_MSG_NEWKEYS`, set
`pending_newkeys` and waits at the resume point for new keys; a stretch that
ends the session pushes nothing. -/
def queue_step (s : ssh2_bpp_state) : step_result → Prop
  | step_result.next S =>
    S.in_pq = s.in_pq ∨ ∃ p : PktIn, S.in_pq = s.in_pq ++ [p] ∧ p.type ≠ SSH2_MSG_NEWKEYS
  | step_result.yield S =>
    S.in_pq = s.in_pq ∨
      ((∃ p : PktIn, S.in_pq = s.in_pq ++ [p] ∧ p.type = SSH2_MSG_NEWKEYS) ∧
        S.pending_newkeys = true ∧ S.crState = cr_label.newkeys)
  | step_result.signal S _ => S.in_pq = s.in_pq
  | step_result.crash => True

/-- The state in which the first call of `ssh2_bpp_handle_input` on
`newkeys_example_state` returns. -/
def newkeys_example_waiting : ssh2_bpp_state :=
  ((ssh2_bpp_handle_input (fun _ => false) newkeys_example_state).map (fun x => x.1)).getD
    newkeys_example_state

/-- A sending engine for examples: a cipher of block size 16, a MAC of 2
bytes, encrypt-then-MAC mode and no compressor. -/
def padding_example : ssh2_bpp_state :=
  example_out (some (cipher_example 16 0)) (some (mac_example 2)) true none

/-- The length field that the third path of `ssh2_bpp_handle_input` finds at
the head of the input: the first cipher block, decrypted when there is a
cipher, and its first four bytes as a signed number. -/
def first_block_len (s : ssh2_bpp_state) : Int :=
  toint (GET_32BIT (in_decrypt s (s.in_raw.take (in_cipherblk s)) 0 (in_cipherblk s)).2)

/-- A receiving engine for examples without cipher and MAC, with a first
block whose length field is 5. -/
def garbled_example : ssh2_bpp_state :=
  with_input (example_in none none false none) [0, 0, 0, 5, 4, 94, 0, 0, 0, 0]

/-- The first response of a download in a fresh session reports the end of
the file, as a status `SSH_FX_EOF` or as empty data: the return value of
`xfer_download_gotpkt`, the `eof` flag of the transfer and the `retlen` and
`complete` fields of the node of the request answered (request 256, whose node
is the first allocated, at address 1). -/
def eof_example (eof_as_status : Bool) : Option (Int × Bool × Option (Int × Int)) :=
  match xfer_download_init sftp_globals_init [1, 2] 0 with
  | none => none
  | some (g, x) =>
    match xfer_download_gotpkt g x
        (if eof_as_status then status_packet 256 1
         else packet_with_id SSH_FXP_DATA 256 (put_string [] [])) with
    | none => none
    | some (ret, _, x1) =>
      some (ret, x1.eof,
        (x1.queue.find? (fun rr => rr.addr = 1)).map (fun rr => (rr.retlen, rr.complete)))

/-- The globals after one pass of the loop of `xfer_download_queue` in a fresh
session: request 256 registered, pointing at the node at address 1. -/
def short_read_globals : sftp_globals :=
  { sftp_globals_init with
    sftp_requests := some [{ id := 256, registered := 1, userdata := some 1 }],
    sent := [read_request_bytes [1, 2] 256 98304 32768], heap_next := 2 }

/-- The node of a read of 32768 bytes at offset 98304, at address 1. -/
def short_read_node : req :=
  { addr := 1, offset := 98304, complete := 0, len := 32768, buffer := some [], retlen := 0 }

/-- The transfer on the file handle 1, 2 after one pass of the loop of
`xfer_download_queue` from offset 98304. -/
def short_read_xfer : fxp_xfer :=
  { xfer_init [1, 2] 98304 false with
    queue := [short_read_node], offset := 131072, req_totalsize := 32768 }

/-- The 4096 bytes of a short read. -/
def short_read_data : List Nat := List.replicate 4096 7

/-! ## The first input path (CBC cipher with a MAC): invariants -/

/-- The coroutine goes on from the resume point `a` to the resume point `b`
without returning. -/
def input_goes_on (unimpl : PktIn → Bool) (a b : ssh2_bpp_state) : Prop :=
  ssh2_bpp_handle_input_step unimpl a = step_result.next b

/-- The resume points that the coroutine passes through from `s` on without
returning in between. -/
def input_reaches (unimpl : PktIn → Bool) (s a : ssh2_bpp_state) : Prop :=
  Relation.ReflTransGen (input_goes_on unimpl) s a

/-- The configuration that takes the first path: a CBC cipher and a MAC
outside encrypt-then-MAC mode. -/
structure path_a_config (s : ssh2_bpp_state) : Prop where
  cipher : ∃ c, s.inp.cipher = some c ∧ has_flag c.flags SSH_CIPHER_IS_CBC = true
  mac : ∃ m, s.inp.mac = some m
  etm : s.inp.etm_mode = false

/-- The scratch buffer after the next turn of the loop of the first path: the
next cipher block is read behind the `packetlen + maclen` bytes held and the
block at offset `packetlen` is decrypted in place. -/
def a_block_buf (s : ssh2_bpp_state) (c : ssh2_cipher) : List Nat :=
  (ssh2_cipher_decrypt c (s.buf.take (s.packetlen + s.maclen).toNat ++ s.in_raw.take s.cipherblk)
    s.packetlen.toNat s.cipherblk).2

/-- The acceptance test at a block boundary in the words of the
specification: the MAC over the sequence number followed by all blocks
decrypted so far (the first `packetlen` bytes of the scratch buffer) verifies
against the next received bytes (the ones behind them), and the decrypted
big-endian length field equals `packetlen - 4`. -/
def boundary_accepts (m : ssh2_mac) (seq : Nat) (buf : List Nat) (packetlen : Nat) : Prop :=
  ssh2_mac_verresult m (PUT_32BIT (seq % 4294967296) ++ buf.take packetlen)
      (buf.drop packetlen) = true ∧
    toint (GET_32BIT buf) = (packetlen : Int) - 4

/-- What a turn of the loop of the first path in the state `s` leaves in the
state `T`: the buffer with the block decrypted, `packetlen` advanced by a
block, the block consumed from the input, and the rest as it was (the cipher
with a new context). -/
structure a_block_after (s T : ssh2_bpp_state) (c : ssh2_cipher) : Prop where
  buf : T.buf = a_block_buf s c
  packetlen : T.packetlen = s.packetlen + (s.cipherblk : Int)
  in_pq : T.in_pq = s.in_pq
  in_raw : T.in_raw = s.in_raw.drop s.cipherblk
  cipherblk : T.cipherblk = s.cipherblk
  maclen : T.maclen = s.maclen
  mac : T.inp.mac = s.inp.mac
  etm : T.inp.etm_mode = s.inp.etm_mode
  sequence : T.inp.sequence = s.inp.sequence
  cipher : ∃ c1, T.inp.cipher = some c1 ∧ c1.blksize = c.blksize ∧ c1.flags = c.flags
  input_eof : T.input_eof = false

/-- The invariant of the first path at the resume points: the path is in
force; past the top of the loop the block size and MAC length are the ones of
the handles; and in the loop over the cipher blocks `packetlen` is a
non-negative multiple of the block size, the buffer holds `packetlen + maclen`
bytes and the MAC has been fed the sequence number and the first `packetlen`
bytes of the buffer. -/
structure path_a_inv (s : ssh2_bpp_state) : Prop where
  config : path_a_config s
  label : s.crState = cr_label.top ∨ s.crState = cr_label.a_mac ∨
    s.crState = cr_label.a_block ∨ s.crState = cr_label.tail
  sizes : s.crState ≠ cr_label.top →
    s.cipherblk = in_cipherblk s ∧ s.maclen = (in_maclen s : Int)
  block : s.crState = cr_label.a_block →
    0 ≤ s.packetlen ∧ s.packetlen % (s.cipherblk : Int) = 0 ∧
    (s.buf.length : Int) = s.packetlen + s.maclen ∧
    s.fed = PUT_32BIT (s.inp.sequence % 4294967296) ++ s.buf.take s.packetlen.toNat

/-- What the common tail of the input paths leaves alone: the handles of the
incoming direction, the mode and `packetlen`. -/
structure tail_keeps (s T : ssh2_bpp_state) : Prop where
  cipher : T.inp.cipher = s.inp.cipher
  mac : T.inp.mac = s.inp.mac
  etm : T.inp.etm_mode = s.inp.etm_mode
  packetlen : T.packetlen = s.packetlen

/-- How the common tail of the input paths ends: never in a crash, going on at
the top of the loop only, and leaving the handles and `packetlen`. -/
def tail_result (s : ssh2_bpp_state) : step_result → Prop
  | step_result.next T => T.crState = cr_label.top ∧ tail_keeps s T
  | step_result.yield T => tail_keeps s T
  | step_result.signal T _ => tail_keeps s T
  | step_result.crash => False

/-- A receiving engine for examples on the first path: a CBC cipher of block
size 8, a MAC of 2 bytes outside encrypt-then-MAC mode, and 18 bytes of
input. -/
def cbc_example : ssh2_bpp_state :=
  with_input (example_in (some (cipher_example 8 SSH_CIPHER_IS_CBC)) (some (mac_example 2))
    false none) [9, 8, 7, 6, 5, 4, 3, 2, 1, 0, 9, 8, 7, 6, 5, 4, 3, 2]

/-- The state of `cbc_example` on entry to the loop over the cipher blocks:
the first two bytes are in the buffer. -/
def cbc_example_block : ssh2_bpp_state :=
  { input_path cbc_example cr_label.a_mac with
    in_raw := [7, 6, 5, 4, 3, 2, 1, 0, 9, 8, 7, 6, 5, 4, 3, 2], buf := [9, 8], packetlen := 0,
    fed := PUT_32BIT 5, crState := cr_label.a_block }

/-- An acceptance on the first path in a run from `s`: the coroutine reaches
the loop over the cipher blocks in the state `a` with nothing queued since
`s`, the MAC fed with the sequence number and the `packetlen` bytes decrypted
so far; the turn of the loop in `a` decrypts one more block, passes the
acceptance test of the specification on the buffer it leaves, and goes on to
the point `T` where the paths join. -/
structure path_a_accepted (unimpl : PktIn → Bool) (s : ssh2_bpp_state) (m : ssh2_mac)
    (a T : ssh2_bpp_state) (c : ssh2_cipher) : Prop where
  reach : input_reaches unimpl s a
  quiet : a.in_pq = s.in_pq
  label : a.crState = cr_label.a_block
  cipher : a.inp.cipher = some c
  mac : a.inp.mac = some m
  fed : a.fed = PUT_32BIT (a.inp.sequence % 4294967296) ++ a.buf.take a.packetlen.toNat
  held : (a.buf.length : Int) = a.packetlen + a.maclen
  goes : input_goes_on unimpl a T
  tail : T.crState = cr_label.tail
  after : a_block_after a T c
  accepts : boundary_accepts m a.inp.sequence (a_block_buf a c)
    (a.packetlen + (a.cipherblk : Int)).toNat


/-! ## Encrypt-then-MAC with a cipher that encrypts the length field -/

/-- The length that the second input path frames by: the first four received
bytes are copied and the copy is decrypted with the sequence number. -/
def etm_length (dec : ssh2_cipher) (seq : Nat) (F : List Nat) : Int :=
  toint (GET_32BIT (ssh2_cipher_decrypt_length dec (F.take 4) seq).2)

/-- The MAC check of the second input path in the words of the
specification: the tag behind the first `len + 4` received bytes is the MAC
of the sequence number and these bytes as they were received. -/
def etm_mac_ok (m : ssh2_mac) (seq : Nat) (F : List Nat) (len : Nat) : Prop :=
  (F.drop (len + 4)).take m.len = mac_result m (PUT_32BIT (seq % 4294967296) ++ F.take (len + 4))

/-- The length field as it goes on the wire in encrypt-then-MAC mode with a
cipher that has `SSH_CIPHER_SEPARATE_LENGTH`: the first four bytes of the
cleartext image, encrypted with the sequence number. -/
def etm_wire_length (enc : ssh2_cipher) (seq : Nat) (clear : List Nat) : List Nat :=
  in_place 4 (enc.encrypt_length enc.ctx (clear.take 4) seq).2

/-- The body as it goes on the wire in encrypt-then-MAC mode: the cleartext
image behind the length field, encrypted with the cipher as the length
encryption left it. -/
def etm_wire_body (enc : ssh2_cipher) (seq : Nat) (clear : List Nat) : List Nat :=
  in_place (clear.length - 4)
    (enc.encrypt (enc.encrypt_length enc.ctx (clear.take 4) seq).1 (clear.drop 4)).2

/-- A sending engine for examples in encrypt-then-MAC mode with a cipher of
block size 8 that encrypts the length field and a MAC of 2 bytes. -/
def etm_example_out : ssh2_bpp_state :=
  example_out (some (cipher_example 8 SSH_CIPHER_SEPARATE_LENGTH)) (some (mac_example 2)) true none

/-- The receiving engine that matches `etm_example_out`, with four bytes of
input. -/
def etm_example_in : ssh2_bpp_state :=
  with_input (example_in (some (cipher_example 8 SSH_CIPHER_SEPARATE_LENGTH))
    (some (mac_example 2)) true none) [5, 5, 5, 21]

/-! ## The buffer of an outgoing SFTP packet (`sftp.c`) -/

/-- `struct sftp_packet` on the sending side: the bytes written so far, their
number `length` and the capacity `maxlen` of the allocation behind `data`. -/
structure sftp_pktout where
  data : List Nat
  length : Nat
  maxlen : Nat
deriving DecidableEq, Repr

/-- The new capacity `newlen * 5 / 4 + 256` that `sftp_pkt_BinarySink_write`
computes, in 32-bit unsigned arithmetic. -/
def sftp_pkt_grow (newlen : Nat) : Nat :=
  (newlen * 5 % 4294967296 / 4 + 256) % 4294967296

/-- `sftp_pkt_BinarySink_write`: `none` is the failed assertion; `sresize`
gives the buffer the capacity `maxlen` and `memcpy` puts the bytes behind the
`length` bytes already there. -/
def sftp_pkt_BinarySink_write (pkt : sftp_pktout) (data : List Nat) : Option sftp_pktout :=
  if data.length ≤ 4294967295 - pkt.length then
    let newlen := (pkt.length + data.length) % 4294967296
    let pkt1 : sftp_pktout :=
      if pkt.maxlen < newlen then { pkt with maxlen := sftp_pkt_grow newlen } else pkt
    some { pkt1 with data := pkt1.data ++ data, length := newlen }
  else none

/-- A fresh packet as `sftp_pkt_init` sets it up before its first write: no
data, `length = 0`, `maxlen = 0`. -/
def sftp_pktout_empty : sftp_pktout := { data := [], length := 0, maxlen := 0 }

/-- A run of 858,993,460 zero bytes, the least number of bytes whose fivefold
does not fit 32 bits. -/
def overflow_example_data : List Nat := List.replicate 858993460 0

/-! ## The packet buffer of the second input path (`ssh2bpp.c`) -/

/-- The size of the data area that the second input path allocates for the
packet: `snew_plus(PktIn, OUR_V2_PACKETLIMIT + s->maclen)`. -/
def path_b_alloc (s : ssh2_bpp_state) : Int := (OUR_V2_PACKETLIMIT : Int) + s.maclen

/-- The number of bytes that the second input path stores into the data area:
the four bytes of `memcpy(s->data, s->buf, 4)` and the
`s->packetlen + s->maclen - 4` bytes of `BPP_READ(s->data + 4, ...)`. -/
def path_b_stored (s : ssh2_bpp_state) : Int := 4 + (s.packetlen + s.maclen - 4)

/-- The bytes behind the length field of `path_b_example`: 262,144 bytes of
packet and 2 bytes in place of the MAC. -/
def path_b_example_rest : List Nat := List.replicate 262146 0

/-- A fresh receiving engine in encrypt-then-MAC mode without a cipher and
with a MAC of 2 bytes, whose input is a length field of
262,144 = `OUR_V2_PACKETLIMIT` and the 262,146 bytes that this length
announces. -/
def path_b_start : ssh2_bpp_state :=
  with_input (example_in none (some (mac_example 2)) true none)
    (PUT_32BIT 262144 ++ path_b_example_rest)

/-- The engine `path_b_start` at the head of the second path, where the top of
the loop takes it (block size 8, `maclen = 2`). -/
def path_b_example : ssh2_bpp_state := input_path path_b_start cr_label.b_len

/-! ## The CBC workaround without a MAC (`ssh2bpp.c`) -/

/-- A fresh engine after `ssh2_bpp_new_outgoing_crypto` with a CBC cipher of
block size 16 and no MAC (`mac == NULL`), for a peer without
`BUG_CHOKES_ON_SSH2_IGNORE`. -/
def cbc_no_mac_example : ssh2_bpp_state :=
  ssh2_bpp_new_outgoing_crypto (ssh2_bpp_new stats_example (fun n => n))
    (some (cipher_example 16 SSH_CIPHER_IS_CBC)) none false none

/-! ## The probes of the binary search (`sftp.c`) -/

/-- The loop of `sftp_alloc_request` once more, returning what it does on the
way instead of its result: for every pass through the body the values of
`low` and `high` on entry and the index `mid` handed to `index234`. -/
def alloc_probes (t : tree234) : Nat → Nat → Nat → List (Nat × Nat × Nat)
  | 0, _, _ => []
  | fuel + 1, low, high =>
    if usub32 high low > 1 then
      let mid := (high + low) % 4294967296 / 2
      (low, high, mid) ::
        (match index234 t mid with
         | none => []
         | some r =>
           if r.id = (mid + REQUEST_ID_OFFSET) % 4294967296 then alloc_probes t fuel mid high
           else alloc_probes t fuel low mid)
    else []

/-- What the claim says of one probe `mid` computed from `low` and `high` in
a registry of `n` entries: it is an index of the registry, it lies strictly
between `low` and `high` with `low = 2^32 - 1` read as -1, and both
intervals the loop may go on with are narrower than the one it came from. -/
def probe_ok (n : Nat) (p : Nat × Nat × Nat) : Prop :=
  p.2.2 < n ∧ (p.1 = 4294967295 ∨ p.1 < p.2.2) ∧ p.2.2 < p.2.1 ∧
    usub32 p.2.1 p.2.2 < usub32 p.2.1 p.1 ∧ usub32 p.2.2 p.1 < usub32 p.2.1 p.1

/-- A registry of five requests, two of them out of the initial sequence. -/
def probe_example_registry : tree234 := registry_of_ids [256, 257, 258, 300, 301]

/-! ## Sequences of calls on the request registry (`sftp.c`) -/

/-- The calls of `sftp.c` that touch the registry or the requests in it. -/
inductive registry_call where
  | alloc : registry_call
  | register (id : Nat) : registry_call
  | set_userdata (id : Nat) (data : Option Nat) : registry_call
  | find (pktin : Option sftp_packet) : registry_call
deriving DecidableEq, Repr

/-- One call: `sftp_alloc_request`, `sftp_register` or `fxp_set_userdata` on
the request with the given id, or `sftp_find_request` on a packet; `none` is a
crash. -/
def registry_step (g : sftp_globals) : registry_call → Option sftp_globals
  | .alloc => (sftp_alloc_request g).map (fun r => r.2)
  | .register id => some (sftp_register g id)
  | .set_userdata id data => some (fxp_set_userdata g id data)
  | .find pktin => (sftp_find_request g pktin).map (fun r => r.2.2)

/-- A sequence of calls, in order. -/
def registry_run : List registry_call → sftp_globals → Option sftp_globals
  | [], g => some g
  | c :: cs, g =>
    match registry_step g c with
    | none => none
    | some g1 => registry_run cs g1

/-- The ids in the registry, in tree order. -/
def registry_ids (g : sftp_globals) : List Nat :=
  (g.sftp_requests.getD []).map (fun r => r.id)

/-- A sequence for examples: three allocations, the second request is
registered and answered, two more allocations. -/
def registry_example_calls : List registry_call :=
  [.alloc, .alloc, .alloc, .register 257, .find (some (packet_with_id 101 257 [])), .alloc,
   .alloc]

/-! ## The end of an upload (`sftp.c`) -/

/-- `xfer_done` on the transfer as it lies in memory:
`(xfer->eof || xfer->err) && !xfer->head`. -/
def xfer_done_mem (xfer : fxp_xfer_mem) : Bool :=
  (xfer.eof || xfer.err) && xfer.head.isNone

/-! ## Arcfour (`ssharcf.c`) -/

/-- `ArcfourContext`: the indices `i` and `j` and the array `s` of 256
bytes. -/
structure ArcfourContext where
  i : Nat
  j : Nat
  s : List Nat
deriving DecidableEq, Repr

/-- The exchange `tmp = s[i]; s[i] = s[j]; s[j] = tmp`. -/
def arcfour_swap (s : List Nat) (i j : Nat) : List Nat :=
  (s.set i (s.getD j 0)).set j (s.getD i 0)

/-- One pass of the loop of `arcfour_block`, on the byte `b` of the block:
the context with the indices moved on and the two entries exchanged, and the
byte with the key stream byte `s[(s[i] + s[j]) & 0xff]` XORed on. -/
def arcfour_byte (ctx : ArcfourContext) (b : Nat) : ArcfourContext × Nat :=
  let i := (ctx.i + 1) % 256
  let j := (ctx.j + ctx.s.getD i 0) % 256
  let s := arcfour_swap ctx.s i j
  ({ i := i, j := j, s := s }, b ^^^ s.getD ((s.getD i 0 + s.getD j 0) % 256) 0)

/-- `arcfour_block` on a block of `len` bytes: the context and the block
afterwards. -/
def arcfour_block : ArcfourContext → List Nat → ArcfourContext × List Nat
  | ctx, [] => (ctx, [])
  | ctx, b :: rest =>
    ((arcfour_block (arcfour_byte ctx b).1 rest).1,
      (arcfour_byte ctx b).2 :: (arcfour_block (arcfour_byte ctx b).1 rest).2)

/-- The second loop of `arcfour_setkey`, with `n` passes to go from the index
`i` on: `j = (j + s[i] + k[i]) & 0xff` and the exchange of `s[i]` and
`s[j]`. -/
def arcfour_setkey_loop (k : List Nat) : Nat → Nat → Nat → List Nat → List Nat
  | 0, _, _, s => s
  | n + 1, i, j, s =>
    arcfour_setkey_loop k n (i + 1) ((j + s.getD i 0 + k.getD i 0) % 256)
      (arcfour_swap s i ((j + s.getD i 0 + k.getD i 0) % 256))

/-- `arcfour_setkey`: `none` is the failed assertion `keybytes <= 256` or the
division by zero in `i % keybytes`. The first loop sets `s[i] = i` and
`k[i] = key[i % keybytes]`. -/
def arcfour_setkey (key : List Nat) (keybytes : Nat) : Option ArcfourContext :=
  if keybytes ≤ 256 ∧ keybytes ≠ 0 then
    some { i := 0, j := 0,
           s := arcfour_setkey_loop ((List.range 256).map (fun i => key.getD (i % keybytes) 0))
             256 0 0 (List.range 256) }
  else none

/-- `arcfour_stir`: 1536 bytes of key stream are thrown away. -/
def arcfour_stir (ctx : ArcfourContext) : ArcfourContext :=
  (arcfour_block ctx (List.replicate 1536 0)).1

/-- Modelled from the spec: the numbers in `struct ssh2_cipheralg` of `ssh.h`
(not among the sources), in the order of the initialisers in `ssharcf.c`:
block size, key bits, key bytes and flags. -/
structure ssh2_cipheralg where
  blksize : Nat
  real_keybits : Nat
  padded_keybytes : Nat
  flags : Nat
deriving DecidableEq, Repr

/-- `ssh_arcfour128_ssh2`. -/
def ssh_arcfour128_ssh2 : ssh2_cipheralg :=
  { blksize := 1, real_keybits := 128, padded_keybytes := 16, flags := 0 }

/-- `ssh_arcfour256_ssh2`. -/
def ssh_arcfour256_ssh2 : ssh2_cipheralg :=
  { blksize := 1, real_keybits := 256, padded_keybytes := 32, flags := 0 }

/-- `arcfour_ssh2_setkey` for a context of the algorithm `vt`: the key
schedule over `padded_keybytes` bytes of the key, and the stir. -/
def arcfour_ssh2_setkey (vt : ssh2_cipheralg) (key : List Nat) : Option ArcfourContext :=
  (arcfour_setkey key vt.padded_keybytes).map arcfour_stir

/-- `arcfour_ssh2_block`, which both algorithms have as `encrypt` and as
`decrypt`. -/
def arcfour_ssh2_block (ctx : ArcfourContext) (blk : List Nat) : ArcfourContext × List Nat :=
  arcfour_block ctx blk

/-- Consecutive calls of `arcfour_ssh2_block` on the buffers of a list, in
order: the context after the last and the buffers as the calls leave them. -/
def arcfour_blocks : ArcfourContext → List (List Nat) → ArcfourContext × List (List Nat)
  | ctx, [] => (ctx, [])
  | ctx, m :: rest =>
    ((arcfour_blocks (arcfour_ssh2_block ctx m).1 rest).1,
      (arcfour_ssh2_block ctx m).2 :: (arcfour_blocks (arcfour_ssh2_block ctx m).1 rest).2)

/-! ## Directory listings (`sftp.c`) -/

/-- `struct fxp_name`: the two names as C strings and the attributes. -/
structure fxp_name where
  filename : List Nat
  longname : List Nat
  attrs : fxp_attrs
deriving DecidableEq, Repr

/-- Modelled from the spec: `get_avail` of the binary source, the number of
bytes behind the cursor. -/
def get_avail (src : BinarySource) : Nat := src.data.length - src.pos

/-- `INT_MAX` of a 32-bit `int`. -/
def INT_MAX : Nat := 2147483647

/-- The loop of `fxp_readdir_recv` that fills the entries `i`, `i + 1`, ... of
`ret->names`, `n` of them: two strings and the attributes per entry. `fresh i`
is what the memory from `snewn` holds in the attributes of entry `i` before
`get_fxp_attrs` stores the selected fields. -/
def fxp_readdir_loop (fresh : Nat → fxp_attrs) :
    Nat → Nat → BinarySource → List fxp_name × BinarySource
  | 0, _, src => ([], src)
  | n + 1, i, src =>
    ({ filename := mkstr (get_string src).1,
       longname := mkstr (get_string (get_string src).2).1,
       attrs := (get_fxp_attrs (get_string (get_string src).2).2 (fresh i)).1 } ::
      (fxp_readdir_loop fresh n (i + 1)
        (get_fxp_attrs (get_string (get_string src).2).2 (fresh i)).2).1,
     (fxp_readdir_loop fresh n (i + 1)
        (get_fxp_attrs (get_string (get_string src).2).2 (fresh i)).2).2)

/-- `fxp_readdir_recv`: the entries returned (`none` for NULL) and the
globals. `sizeof_fxp_name` is `sizeof(struct fxp_name)` on the platform. -/
def fxp_readdir_recv (sizeof_fxp_name : Nat) (fresh : Nat → fxp_attrs) (g : sftp_globals)
    (pktin : sftp_packet) : Option (List fxp_name) × sftp_globals :=
  if pktin.type = SSH_FXP_NAME then
    let r := get_uint32 pktin.src
    if get_err r.2 ∨ r.1 > get_avail r.2 / 12 then
      (none, fxp_internal_error g "malformed FXP_NAME packet")
    else if r.1 > INT_MAX / sizeof_fxp_name then
      (none, fxp_internal_error g "unreasonably large FXP_NAME packet")
    else
      let e := fxp_readdir_loop fresh r.1 0 r.2
      if get_err e.2 then
        (none, fxp_internal_error g "malformed FXP_NAME packet")
      else (some e.1, g)
  else
    (none, (fxp_got_status g pktin).2)

/-- The bytes of one entry of an `SSH_FXP_NAME` response, written after the
protocol: the file name and the long name as counted strings, and the
attributes. -/
def name_bytes (e : fxp_name) : List Nat :=
  PUT_32BIT e.filename.length ++ e.filename ++
    (PUT_32BIT e.longname.length ++ e.longname ++ attrs_bytes e.attrs)

/-- The bytes of the entries of a response, one behind the other. -/
def names_bytes (es : List fxp_name) : List Nat := (es.map name_bytes).flatten

/-- An entry that can go over the wire and come back as a pair of C strings:
names without NUL bytes and shorter than 2^32, attributes with 32-bit fields,
a 64-bit size and no extended pairs. -/
def name_ok (e : fxp_name) : Prop :=
  (∀ b ∈ e.filename, b ≠ 0) ∧ e.filename.length < 4294967296 ∧
  (∀ b ∈ e.longname, b ≠ 0) ∧ e.longname.length < 4294967296 ∧
  e.attrs.flags < 4294967296 ∧ e.attrs.size < 18446744073709551616 ∧
  e.attrs.uid < 4294967296 ∧ e.attrs.gid < 4294967296 ∧
  e.attrs.permissions < 4294967296 ∧ e.attrs.atime < 4294967296 ∧
  e.attrs.mtime < 4294967296 ∧ has_flag e.attrs.flags SSH_FILEXFER_ATTR_EXTENDED = false

/-- The attributes `a` as read from the wire image of `b`: the flags and every
field that the flags select are those of `b`. -/
def attrs_read (a b : fxp_attrs) : Prop :=
  a.flags = b.flags ∧
  (has_flag b.flags SSH_FILEXFER_ATTR_SIZE = true → a.size = b.size) ∧
  (has_flag b.flags SSH_FILEXFER_ATTR_UIDGID = true → a.uid = b.uid ∧ a.gid = b.gid) ∧
  (has_flag b.flags SSH_FILEXFER_ATTR_PERMISSIONS = true → a.permissions = b.permissions) ∧
  (has_flag b.flags SSH_FILEXFER_ATTR_ACMODTIME = true → a.atime = b.atime ∧ a.mtime = b.mtime)

/-- The entry `a` as read from the wire image of `b`. -/
def name_read (a b : fxp_name) : Prop :=
  a.filename = b.filename ∧ a.longname = b.longname ∧ attrs_read a.attrs b.attrs

/-- A listing for examples: "a" with size 5, and "bc" with no attributes. -/
def readdir_example_names : List fxp_name :=
  [{ filename := [97], longname := [45, 97],
     attrs := { flags := 1, size := 5, uid := 0, gid := 0, permissions := 0, atime := 0,
                mtime := 0 } },
   { filename := [98, 99], longname := [],
     attrs := { flags := 0, size := 0, uid := 0, gid := 0, permissions := 0, atime := 0,
                mtime := 0 } }]

/-- The `SSH_FXP_NAME` response with the entries of `readdir_example_names`,
after `sftp_find_request` has taken the request id 256. -/
def readdir_example_packet : sftp_packet :=
  after_id (packet_with_id SSH_FXP_NAME 256
    (PUT_32BIT 2 ++ names_bytes readdir_example_names))

/-! ## Download and upload on the transfer as it lies in memory (`sftp.c`) -/

/-- `xfer_init` on the transfer in memory; the C code leaves `eof` unset, the
callers set it. -/
def xfer_init_mem (fh : List Nat) (offset : Nat) (eof0 : Bool) : fxp_xfer_mem :=
  { fh := fh, offset := offset, head := none, tail := none, req_totalsize := 0,
    req_maxsize := 1048576, err := false, filesize := 18446744073709551615,
    furthestdata := 0, eof := eof0, cells := fun _ => none }

/-- The statements by which `xfer_download_queue` and `xfer_upload_data` put
the new node `rr`, allocated at the address `a`, at the tail of the queue:
`if (xfer->tail) { xfer->tail->next = rr; rr->prev = xfer->tail; } else
{ xfer->head = rr; rr->prev = NULL; } xfer->tail = rr; rr->next = NULL;`.
`none` when `tail` points at no node. -/
def xfer_link_tail (xfer : fxp_xfer_mem) (a : Nat) (rr : req_cell) : Option fxp_xfer_mem :=
  match (match xfer.tail with
         | some t =>
           (cell_write xfer.cells t (fun c => { c with next := some a })).map
             (fun cells => { xfer with cells := cells })
         | none => some { xfer with head := some a }) with
  | none => none
  | some x1 =>
    some { x1 with tail := some a,
                   cells := fun b => if b = a then some { rr with prev := xfer.tail, next := none }
                                     else x1.cells b }

/-- One pass of the body of the loop of `xfer_download_queue` on the transfer
in memory: a node for a read of 32768 bytes at `xfer.offset` is put at the
tail and the request is sent. -/
def xfer_download_queue_body_mem (g : sftp_globals) (xfer : fxp_xfer_mem) :
    Option (sftp_globals × fxp_xfer_mem) :=
  let a := g.heap_next
  let g0 : sftp_globals := { g with heap_next := g.heap_next + 1 }
  let rr : req_cell :=
    { offset := xfer.offset, complete := 0, prev := xfer.tail, next := none, len := 32768,
      buffer := some [], retlen := 0 }
  match xfer_link_tail xfer a rr with
  | none => none
  | some x2 =>
    match fxp_read_send g0 x2.fh rr.offset rr.len with
    | none => none
    | some (req, g1) =>
      let g2 := sftp_register g1 req.id
      let g3 := fxp_set_userdata g2 req.id (some a)
      some (g3, { x2 with offset := uint64_add32 x2.offset rr.len.toNat,
                          req_totalsize := x2.req_totalsize + rr.len })

/-- The loop of `xfer_download_queue` on the transfer in memory; the fuel
bounds the number of passes (every pass adds 32768 to `req_totalsize`). -/
def xfer_download_queue_loop_mem :
    Nat → sftp_globals → fxp_xfer_mem → Option (sftp_globals × fxp_xfer_mem)
  | 0, _, _ => none
  | fuel + 1, g, xfer =>
    if xfer.req_totalsize < xfer.req_maxsize ∧ xfer.eof = false ∧ xfer.err = false then
      match xfer_download_queue_body_mem g xfer with
      | none => none
      | some (g1, xfer1) => xfer_download_queue_loop_mem fuel g1 xfer1
    else some (g, xfer)

/-- `xfer_download_queue` on the transfer in memory. -/
def xfer_download_queue_mem (g : sftp_globals) (xfer : fxp_xfer_mem) :
    Option (sftp_globals × fxp_xfer_mem) :=
  xfer_download_queue_loop_mem ((xfer.req_maxsize - xfer.req_totalsize).toNat + 1) g xfer

/-- The part of `xfer_download_gotpkt` from `rr->complete = 1` to the end, on
the transfer in memory; `addr` is the address of the node `rr`. -/
def xfer_download_gotpkt_tail_mem (g : sftp_globals) (xfer : fxp_xfer_mem) (addr : Nat)
    (rr : req_cell) : Int × sftp_globals × fxp_xfer_mem :=
  let rr1 : req_cell := { rr with complete := 1 }
  let xfer1 : fxp_xfer_mem :=
    { xfer with cells := fun b => if b = addr then some rr1 else xfer.cells b }
  let xfer2 : fxp_xfer_mem :=
    if rr1.retlen > 0 ∧ xfer1.furthestdata < rr1.offset then
      { xfer1 with furthestdata := rr1.offset }
    else xfer1
  let xfer3 : fxp_xfer_mem :=
    if rr1.retlen < rr1.len then
      if xfer2.filesize >
          uint64_add32 rr1.offset (if rr1.retlen < 0 then 0 else rr1.retlen.toNat) then
        { xfer2 with
          filesize := uint64_add32 rr1.offset (if rr1.retlen < 0 then 0 else rr1.retlen.toNat) }
      else xfer2
    else xfer2
  if xfer3.furthestdata > xfer3.filesize then
    (-1,
      { g with
        fxp_error_message := "received a short buffer from FXP_READ, but not at EOF",
        fxp_errtype := -1 },
      { xfer3 with err := true })
  else (1, g, xfer3)

/-- `xfer_download_gotpkt` on the transfer in memory: the return value, the
globals and the transfer. `none` is a crash: `find234` on a NULL tree, a
`userdata` pointer at no node, or `memcpy` of received bytes into a NULL
buffer. -/
def xfer_download_gotpkt_mem (g : sftp_globals) (xfer : fxp_xfer_mem) (pktin : sftp_packet) :
    Option (Int × sftp_globals × fxp_xfer_mem) :=
  match sftp_find_request g (some pktin) with
  | none => none
  | some (none, _, g1) => some (INT_MIN, g1, xfer)
  | some (some _, none, _) => none
  | some (some rreq, some pkt1, g1) =>
    match fxp_get_userdata rreq with
    | none =>
      some (INT_MIN,
        fxp_internal_error g1 "request ID is not part of the current download", xfer)
    | some addr =>
      match xfer.cells addr with
      | none => none
      | some rr =>
        if rr.buffer = none ∧ ((fxp_read_recv g1 pkt1 rr.len).2.1.getD []).length ≠ 0 then none
        else
          let rr0 : req_cell :=
            { rr with buffer := buffer_after rr.buffer (fxp_read_recv g1 pkt1 rr.len).2.1,
                      retlen := (fxp_read_recv g1 pkt1 rr.len).1 }
          let g2 := (fxp_read_recv g1 pkt1 rr.len).2.2
          if (rr0.retlen < 0 ∧ fxp_error_type g2 = SSH_FX_EOF) ∨ rr0.retlen = 0 then
            some (xfer_download_gotpkt_tail_mem g2 { xfer with eof := true } addr
              { rr0 with retlen := 0, complete := -1 })
          else if rr0.retlen < 0 then
            some (-1, g2,
              { xfer with err := true,
                          cells := fun b => if b = addr then some { rr0 with complete := -1 }
                                            else xfer.cells b })
          else
            some (xfer_download_gotpkt_tail_mem g2 xfer addr rr0)

/-- The body of the loop of `xfer_download_data` on the head node `rr` at the
address `h`: `xfer->head = xfer->head->next; if (xfer->head)
xfer->head->prev = NULL; else xfer->tail = NULL;`, the length of the node is
taken off `req_totalsize` and the node is freed. `none` when `next` points at
no node. -/
def xfer_download_data_pop (xfer : fxp_xfer_mem) (h : Nat) (rr : req_cell) :
    Option fxp_xfer_mem :=
  match unlink_next { xfer with head := rr.next } none rr.next with
  | none => none
  | some x1 =>
    some { x1 with req_totalsize := x1.req_totalsize - rr.len,
                   cells := fun b => if b = h then none else x1.cells b }

/-- The loop of `xfer_download_data` on the transfer in memory, carrying
`retbuf` (`none` is NULL) and `retlen`; `none` is a pointer at no node, or the
fuel used up. -/
def xfer_download_data_loop_mem :
    Nat → fxp_xfer_mem → Option (List Nat) → Int →
      Option (fxp_xfer_mem × Option (List Nat) × Int)
  | 0, _, _, _ => none
  | fuel + 1, xfer, retbuf, retlen =>
    match xfer.head with
    | none => some (xfer, retbuf, retlen)
    | some h =>
      match xfer.cells h with
      | none => none
      | some rr =>
        if rr.complete ≠ 0 ∧ retbuf = none then
          match xfer_download_data_pop xfer h rr with
          | none => none
          | some x1 =>
            if rr.complete > 0 then xfer_download_data_loop_mem fuel x1 rr.buffer rr.retlen
            else xfer_download_data_loop_mem fuel x1 retbuf retlen
        else some (xfer, retbuf, retlen)

/-- `xfer_download_data` on the transfer in memory: the transfer, the return
value, and the buffer and length stored through `buf` and `len` when the
return value is 1. Every pass of the loop frees a node, and no more nodes are
queued than `heap_next` addresses have been handed out. -/
def xfer_download_data_mem (g : sftp_globals) (xfer : fxp_xfer_mem) :
    Option (fxp_xfer_mem × Int × Option (List Nat × Int)) :=
  match xfer_download_data_loop_mem (g.heap_next + 1) xfer none 0 with
  | none => none
  | some (x1, some retbuf, retlen) => some (x1, 1, some (retbuf, retlen))
  | some (x1, none, _) => some (x1, 0, none)

/-- The calls of the transfer engine on one transfer. -/
inductive xfer_call where
  | download_queue : xfer_call
  | download_gotpkt (pktin : sftp_packet) : xfer_call
  | download_data : xfer_call
  | upload_data (buffer : List Nat) : xfer_call
  | upload_gotpkt (pktin : sftp_packet) : xfer_call
deriving DecidableEq, Repr

/-- One call on the globals and the transfer; `none` is a crash. -/
def xfer_step (s : sftp_globals × fxp_xfer_mem) : xfer_call →
    Option (sftp_globals × fxp_xfer_mem)
  | .download_queue => xfer_download_queue_mem s.1 s.2
  | .download_gotpkt pktin => (xfer_download_gotpkt_mem s.1 s.2 pktin).map (fun r => r.2)
  | .download_data => (xfer_download_data_mem s.1 s.2).map (fun r => (s.1, r.1))
  | .upload_data buffer => xfer_upload_data s.1 s.2 buffer
  | .upload_gotpkt pktin => (xfer_upload_gotpkt s.1 s.2 pktin).map (fun r => r.2)

/-- A sequence of calls, in order. -/
def xfer_run : List xfer_call → sftp_globals × fxp_xfer_mem →
    Option (sftp_globals × fxp_xfer_mem)
  | [], s => some s
  | c :: cs, s =>
    match xfer_step s c with
    | none => none
    | some s1 => xfer_run cs s1

/-- The sum of the `len` fields of the nodes at the addresses `l`. -/
def queue_total (cells : Nat → Option req_cell) (l : List Nat) : Int :=
  (l.map (fun a => ((cells a).map (fun c => c.len)).getD 0)).sum

/-- The window accounting invariant for the queue `l` of node addresses: the
queue is well formed, `req_totalsize` is the sum of the lengths of its nodes,
memory holds no other nodes, and the addresses have all been handed out. -/
structure window_inv (g : sftp_globals) (x : fxp_xfer_mem) (l : List Nat) : Prop where
  queue : is_queue x l
  total : x.req_totalsize = queue_total x.cells l
  live : ∀ a, (x.cells a).isSome = true → a ∈ l
  heap : ∀ a ∈ l, a < g.heap_next
/-- A session for examples on one transfer: the download queue is filled
(32 reads), one write of three bytes is queued behind them, the second read
is answered with two bytes, the write is acknowledged, the first read is
answered with one byte, and the caller collects data twice. -/
def window_example_calls : List xfer_call :=
  [.download_queue, .upload_data [1, 2, 3],
   .download_gotpkt (packet_with_id SSH_FXP_DATA 257 (put_string [] [9, 9])),
   .upload_gotpkt (status_packet 288 0),
   .download_gotpkt (packet_with_id SSH_FXP_DATA 256 (put_string [] [7])),
   .download_data, .download_data]

/-! # Theorems -/

/-! ## Request-id allocation -/

/-- On 32-bit values `usub32` is subtraction modulo two to the 32. -/
theorem usub32_eq (a b : Nat) (ha : a < 4294967296) (hb : b < 4294967296) :
    usub32 a b = (a + 4294967296 - b) % 4294967296 := by
  unfold usub32
  split_ifs <;> omega

/-- In a list ordered strictly by id whose ids are all at least `base`, the
element at index `i` has id at least `base + i`. -/
theorem sorted_index_ge (t : tree234) :
    ∀ (base i : Nat) (r : sftp_request), t.Pairwise (fun a b => a.id < b.id) →
      (∀ x ∈ t, base ≤ x.id) → t[i]? = some r → base + i ≤ r.id := by
  induction t with
  | nil => intro base i r _ _ h; simp at h
  | cons x xs ih =>
    intro base i r hs hmin h
    rw [List.pairwise_cons] at hs
    cases i with
    | zero =>
      simp at h
      subst h
      have := hmin x (List.mem_cons_self _ _)
      omega
    | succ j =>
      simp at h
      have h1 : ∀ y ∈ xs, base + 1 ≤ y.id := by
        intro y hy
        have := hs.1 y hy
        have := hmin x (List.mem_cons_self _ _)
        omega
      have := ih (base + 1) j r hs.2 h1 h
      omega

/-- Ids grow at least as fast as indices in a strictly ordered list. -/
theorem sorted_index_gap (t : tree234) (hs : t.Pairwise (fun a b => a.id < b.id))
    (i j : Nat) (a b : sftp_request) (hij : i ≤ j)
    (ha : t[i]? = some a) (hb : t[j]? = some b) : a.id + (j - i) ≤ b.id := by
  have hs2 : (t.drop i).Pairwise (fun a b => a.id < b.id) :=
    hs.sublist (List.drop_sublist i t)
  have hb2 : (t.drop i)[j - i]? = some b := by
    rw [List.getElem?_drop]
    have : i + (j - i) = j := by omega
    rw [this]; exact hb
  have ha2 : (t.drop i)[0]? = some a := by
    rw [List.getElem?_drop]; simpa using ha
  have hmin : ∀ x ∈ t.drop i, a.id ≤ x.id := by
    intro x hx
    cases hd : t.drop i with
    | nil => rw [hd] at hx; simp at hx
    | cons y ys =>
      rw [hd] at ha2 hx hs2
      simp at ha2
      subst ha2
      rw [List.pairwise_cons] at hs2
      rcases List.mem_cons.mp hx with h | h
      · subst h; exact le_refl _
      · exact le_of_lt (hs2.1 x h)
  exact sorted_index_ge (t.drop i) a.id (j - i) b hs2 hmin hb2

/-- The binary search returns, within the fuel, the index just below the first
entry that does not hold the id `index + 256`. -/
theorem alloc_search_spec (t : tree234) (hs : t.Pairwise (fun a b => a.id < b.id))
    (hmin : ∀ x ∈ t, 256 ≤ x.id) (hn : t.length < 2147483648) :
    ∀ (fuel low high : Nat), search_inv t low high →
      high - (low + 1) % 4294967296 + 1 ≤ 2 ^ fuel →
      ∃ low2, alloc_search t (fuel + 1) low high = some low2 ∧
        search_inv t low2 ((low2 + 1) % 4294967296) := by
  intro fuel
  induction fuel with
  | zero =>
    intro low high hinv hd
    obtain ⟨h1, h2, h3, h4, h5⟩ := hinv
    have hhl : high = (low + 1) % 4294967296 := by
      simp at hd; omega
    refine ⟨low, ?_, ?_⟩
    · unfold alloc_search
      have : ¬ usub32 high low > 1 := by
        rw [usub32_eq high low (by omega) h1]; omega
      simp [this]
    · rw [← hhl]; exact ⟨h1, by omega, h3, h4, h5⟩
  | succ f ih =>
    intro low high hinv hd
    obtain ⟨h1, h2, h3, h4, h5⟩ := hinv
    have hsub := usub32_eq high low (by omega) h1
    by_cases hc : usub32 high low > 1
    · -- one more probe
      rw [hsub] at hc
      have hmidlt : (high + low) % 4294967296 / 2 < high := by omega
      have hmidge : (low + 1) % 4294967296 ≤ (high + low) % 4294967296 / 2 := by omega
      have hmidn : (high + low) % 4294967296 / 2 < t.length := by omega
      obtain ⟨r, hr⟩ : ∃ r, t[(high + low) % 4294967296 / 2]? = some r :=
        ⟨t[(high + low) % 4294967296 / 2], List.getElem?_eq_getElem hmidn⟩
      have hpow : 2 ^ (f + 1) = 2 * 2 ^ f := by rw [pow_succ]; ring
      rw [alloc_search]
      simp only [hsub, hc, if_true, index234, hr, REQUEST_ID_OFFSET]
      by_cases hid : r.id = ((high + low) % 4294967296 / 2 + 256) % 4294967296
      · simp only [hid, if_true]
        have hid2 : r.id = (high + low) % 4294967296 / 2 + 256 := by omega
        apply ih ((high + low) % 4294967296 / 2) high
        · refine ⟨by omega, by omega, h3, ?_, h5⟩
          intro i hi
          have hi2 : i ≤ (high + low) % 4294967296 / 2 := by omega
          have hin : i < t.length := by omega
          refine ⟨t[i], List.getElem?_eq_getElem hin, ?_⟩
          have hge := sorted_index_ge t 256 i t[i] hs hmin (List.getElem?_eq_getElem hin)
          have hgap := sorted_index_gap t hs i _ t[i] r hi2 (List.getElem?_eq_getElem hin) hr
          omega
        · omega
      · simp only [hid, if_false]
        have hid2 : r.id ≠ (high + low) % 4294967296 / 2 + 256 := by omega
        apply ih low ((high + low) % 4294967296 / 2)
        · exact ⟨h1, hmidge, by omega, h4, fun _ => ⟨r, hr, hid2⟩⟩
        · clear h4 h5 ih hid hid2 hr
          omega
    · have hhl : high = (low + 1) % 4294967296 := by omega
      refine ⟨low, ?_, ?_⟩
      · rw [alloc_search]; simp [hc]
      · rw [← hhl]; exact ⟨h1, by omega, h3, h4, h5⟩

/-- The index found by the search is the length of the contiguous prefix. -/
theorem contiguous_run_eq (t : tree234) :
    ∀ (o k : Nat), k ≤ t.length →
      (∀ i, i < k → ∃ r, t[i]? = some r ∧ r.id = i + o + 256) →
      (k < t.length → ∃ r, t[k]? = some r ∧ r.id ≠ k + o + 256) →
      contiguous_run t o = k := by
  induction t with
  | nil => intro o k hk _ _; simp at hk; simp [contiguous_run, hk]
  | cons x xs ih =>
    intro o k hk hgood hbad
    cases k with
    | zero =>
      obtain ⟨r, hr, hne⟩ := hbad (by simp)
      simp at hr; subst hr
      simp only [contiguous_run]
      rw [if_neg]; omega
    | succ j =>
      obtain ⟨r, hr, he⟩ := hgood 0 (by omega)
      simp at hr; subst hr
      simp only [contiguous_run]
      rw [if_pos (by omega)]
      congr 1
      apply ih (o + 1) j (by simpa using hk)
      · intro i hi
        obtain ⟨r, hr, he⟩ := hgood (i + 1) (by omega)
        simp at hr
        exact ⟨r, hr, by omega⟩
      · intro hj
        obtain ⟨r, hr, he⟩ := hbad (by simpa using hj)
        simp at hr
        exact ⟨r, hr, by omega⟩

/-- Inserting a request whose id lies between those of the first `k` entries
and those of the remaining ones puts it at index `k`. -/
theorem add234_eq (t : tree234) (r : sftp_request) :
    ∀ k : Nat, k ≤ t.length → (∀ x ∈ t.take k, x.id < r.id) →
      (∀ x ∈ t.drop k, r.id < x.id) → add234 t r = t.take k ++ r :: t.drop k := by
  induction t with
  | nil => intro k _ _ _; simp [add234]
  | cons x xs ih =>
    intro k hk hlo hhi
    cases k with
    | zero =>
      have := hhi x (by simp)
      simp [add234, sftp_reqcmp, this]
    | succ j =>
      have h1 := hlo x (by simp)
      have h2 : ¬ r.id < x.id := by omega
      have h3 := ih j (by simpa using hk)
        (fun y hy => hlo y (by simp [hy])) (fun y hy => hhi y (by simpa using hy))
      simp [add234, sftp_reqcmp, h2, h1, h3]

/-- An id carried by no entry is not found. -/
theorem find234_none (t : tree234) (i : Nat) (h : ∀ x ∈ t, x.id ≠ i) :
    find234 t i = none := by
  unfold find234
  rw [List.find?_eq_none]
  intro x hx
  have := h x hx
  by_cases h1 : i < x.id
  · simp [sftp_reqfind, h1]
  · by_cases h2 : i > x.id
    · simp [sftp_reqfind, h1, h2]
    · omega

/-- What `sftp_alloc_request` does on a well-formed registry: it allocates
`k + 256` with `k` the length of the contiguous prefix, which is the least
unused id from 256 on, and inserts the new request at index `k`. -/
theorem sftp_alloc_request_spec (g : sftp_globals) (t : tree234)
    (ht : g.sftp_requests.getD [] = t)
    (hs : t.Pairwise (fun a b => a.id < b.id))
    (hmin : ∀ x ∈ t, 256 ≤ x.id) (hn : t.length < 2147483648) :
    ∃ k, k = contiguous_run t 0 ∧ k ≤ t.length ∧
      sftp_alloc_request g =
        some ({ id := k + 256, registered := 0, userdata := none },
              { g with sftp_requests := some (t.take k ++
                  { id := k + 256, registered := 0, userdata := none } :: t.drop k) }) ∧
      (∀ x ∈ t.take k, x.id < k + 256) ∧ (∀ x ∈ t.drop k, k + 256 < x.id) ∧
      (∀ m, 256 ≤ m → m < k + 256 → ∃ x ∈ t, x.id = m) := by
  have hinv0 : search_inv t 4294967295 (t.length % 4294967296) := by
    refine ⟨by omega, by omega, by omega, ?_, ?_⟩
    · intro i hi; omega
    · intro h; omega
  obtain ⟨low, hlow, h1, h2, h3, h4, h5⟩ :=
    alloc_search_spec t hs hmin hn 32 4294967295 (t.length % 4294967296) hinv0 (by
      have : (2:Nat) ^ 32 = 4294967296 := by norm_num
      omega)
  have hlow : alloc_search t 33 4294967295 (t.length % 4294967296) = some low := hlow
  have hk : contiguous_run t 0 = (low + 1) % 4294967296 :=
    contiguous_run_eq t 0 _ h3 (by simpa using h4) (by simpa using h5)
  have hlo : ∀ x ∈ t.take ((low + 1) % 4294967296), x.id < (low + 1) % 4294967296 + 256 := by
    intro x hx
    obtain ⟨i, hi, hxi⟩ := List.getElem_of_mem hx
    have hi2 : i < (low + 1) % 4294967296 := by
      have := List.length_take_le ((low + 1) % 4294967296) t; omega
    obtain ⟨r, hr, he⟩ := h4 i hi2
    rw [List.getElem_take] at hxi
    have hin : i < t.length := by omega
    rw [List.getElem?_eq_getElem hin] at hr
    simp at hr
    rw [← hxi, hr, he]; omega
  have hhi : ∀ x ∈ t.drop ((low + 1) % 4294967296), (low + 1) % 4294967296 + 256 < x.id := by
    intro x hx
    obtain ⟨i, hi, hxi⟩ := List.getElem_of_mem hx
    rw [List.length_drop] at hi
    have hlt : (low + 1) % 4294967296 < t.length := by omega
    obtain ⟨r, hr, hne⟩ := h5 hlt
    have hge := sorted_index_ge t 256 _ r hs hmin hr
    rw [List.getElem_drop] at hxi
    have hxi2 : t[(low + 1) % 4294967296 + i]? = some x := by
      rw [List.getElem?_eq_getElem (by omega)]; simp [hxi]
    have hgap := sorted_index_gap t hs _ _ r x (by omega) hr hxi2
    omega
  refine ⟨(low + 1) % 4294967296, hk.symm, h3, ?_, hlo, hhi, ?_⟩
  · have hfind : find234 t ((low + 1 + 256) % 4294967296) = none := by
      apply find234_none
      intro x hx
      rw [← List.take_append_drop ((low + 1) % 4294967296) t] at hx
      rcases List.mem_append.mp hx with h | h
      · have := hlo x h; omega
      · have := hhi x h; omega
    have hid : (low + 1 + 256) % 4294967296 = (low + 1) % 4294967296 + 256 := by omega
    have htt : (match g.sftp_requests with
        | none => ([] : tree234)
        | some t => t) = t := by
      rw [← ht]; cases g.sftp_requests <;> rfl
    unfold sftp_alloc_request
    simp only [htt, count234, hlow, REQUEST_ID_OFFSET, hfind, Option.isSome_none]
    rw [hid, add234_eq t _ ((low + 1) % 4294967296) h3 hlo hhi]
    simp
  · intro m hm1 hm2
    obtain ⟨r, hr, he⟩ := h4 (m - 256) (by omega)
    refine ⟨r, ?_, by omega⟩
    exact List.getElem?_mem hr

/-- C3 (first-fit lowest allocation). On every registry whose entries are in
tree order with pairwise distinct ids (strictly increasing ids), all at least
256, and whose size fits the `int` that `count234` returns,
`sftp_alloc_request` returns a request whose id is the least integer from 256
on that no registry entry uses; that id is `k + 256` with `k` the length of
the longest prefix whose `i`-th entry has id `i + 256`; the request has
`registered = 0` and is added to the registry (at index `k`), nothing else
changing. -/
theorem C3_alloc_first_fit_lowest (g : sftp_globals) (t : tree234)
    (ht : g.sftp_requests.getD [] = t)
    (hs : t.Pairwise (fun a b => a.id < b.id))
    (hmin : ∀ x ∈ t, 256 ≤ x.id) (hn : t.length < 2147483648) :
    ∃ r g2, sftp_alloc_request g = some (r, g2) ∧
      256 ≤ r.id ∧ (∀ x ∈ t, x.id ≠ r.id) ∧
      (∀ m, 256 ≤ m → m < r.id → ∃ x ∈ t, x.id = m) ∧
      r.id = contiguous_run t 0 + 256 ∧
      r.registered = 0 ∧ r.userdata = none ∧
      g2 = { g with
              sftp_requests := some (t.take (contiguous_run t 0) ++
                r :: t.drop (contiguous_run t 0)) } ∧
      (∀ x, x ∈ g2.sftp_requests.getD [] ↔ x = r ∨ x ∈ t) := by
  obtain ⟨k, hk, hkn, halloc, hlo, hhi, hall⟩ := sftp_alloc_request_spec g t ht hs hmin hn
  subst hk
  refine ⟨_, _, halloc, by simp, ?_, hall, rfl, rfl, rfl, rfl, ?_⟩
  · intro x hx
    rw [← List.take_append_drop (contiguous_run t 0) t] at hx
    rcases List.mem_append.mp hx with h | h
    · have := hlo x h; simp; omega
    · have := hhi x h; simp; omega
  · intro x
    simp only [Option.getD_some, List.mem_append, List.mem_cons]
    constructor
    · rintro (h | h | h)
      · exact Or.inr (List.mem_of_mem_take h)
      · exact Or.inl h
      · exact Or.inr (List.mem_of_mem_drop h)
    · rintro (h | h)
      · exact Or.inr (Or.inl h)
      · rw [← List.take_append_drop (contiguous_run t 0) t] at h
        rcases List.mem_append.mp h with h | h
        · exact Or.inl h
        · exact Or.inr (Or.inr h)

/-- C3 at the registry {256, 257, 259}: the hypotheses hold and the allocated
id is 258. -/
theorem C3_alloc_first_fit_lowest_witness :
    ∃ r g2, sftp_alloc_request (globals_of_ids [256, 257, 259]) = some (r, g2) ∧
      256 ≤ r.id ∧ (∀ x ∈ registry_of_ids [256, 257, 259], x.id ≠ r.id) ∧
      (∀ m, 256 ≤ m → m < r.id → ∃ x ∈ registry_of_ids [256, 257, 259], x.id = m) ∧
      r.id = contiguous_run (registry_of_ids [256, 257, 259]) 0 + 256 ∧
      r.registered = 0 ∧ r.userdata = none ∧
      g2 = { globals_of_ids [256, 257, 259] with
              sftp_requests := some ((registry_of_ids [256, 257, 259]).take
                (contiguous_run (registry_of_ids [256, 257, 259]) 0) ++
                r :: (registry_of_ids [256, 257, 259]).drop
                  (contiguous_run (registry_of_ids [256, 257, 259]) 0)) } ∧
      (∀ x, x ∈ g2.sftp_requests.getD [] ↔ x = r ∨ x ∈ registry_of_ids [256, 257, 259]) :=
  C3_alloc_first_fit_lowest (globals_of_ids [256, 257, 259])
    (registry_of_ids [256, 257, 259]) rfl (by decide) (by decide) (by decide)

/-! ## Matching responses to requests -/

/-- `sftp_reqfind` is zero exactly on equal ids. -/
theorem sftp_reqfind_zero (x : Nat) (r : sftp_request) :
    (sftp_reqfind x r == 0) = decide (r.id = x) := by
  unfold sftp_reqfind
  by_cases h1 : x < r.id
  · have : r.id ≠ x := by omega
    simp [h1, this]
  · by_cases h2 : x > r.id
    · have : r.id ≠ x := by omega
      simp [h1, h2, this]
    · have : r.id = x := by omega
      simp [h1, h2, this]

/-- `sftp_reqcmp` is zero exactly on equal ids. -/
theorem sftp_reqcmp_zero (a r : sftp_request) :
    (sftp_reqcmp a r == 0) = decide (r.id = a.id) := by
  unfold sftp_reqcmp
  by_cases h1 : a.id < r.id
  · have : r.id ≠ a.id := by omega
    simp [h1, this]
  · by_cases h2 : a.id > r.id
    · have : r.id ≠ a.id := by omega
      simp [h1, h2, this]
    · have : r.id = a.id := by omega
      simp [h1, h2, this]

/-- What `find234` returns is an entry of the tree with the id looked for. -/
theorem find234_some (t : tree234) (x : Nat) (r : sftp_request)
    (h : find234 t x = some r) : r ∈ t ∧ r.id = x := by
  unfold find234 at h
  refine ⟨List.mem_of_find?_eq_some h, ?_⟩
  have := List.find?_some h
  rw [sftp_reqfind_zero] at this
  simpa using this

/-- In a tree with distinct ids every entry is found by its id. -/
theorem find234_of_mem (t : tree234) (hs : t.Pairwise (fun a b => a.id < b.id))
    (r : sftp_request) (hr : r ∈ t) : find234 t r.id = some r := by
  induction t with
  | nil => simp at hr
  | cons y ys ih =>
    rw [List.pairwise_cons] at hs
    unfold find234
    rw [List.find?_cons, sftp_reqfind_zero]
    rcases List.mem_cons.mp hr with h | h
    · subst h; simp
    · have hlt := hs.1 r h
      have hne : y.id ≠ r.id := by omega
      simp only [hne, decide_False]
      exact ih hs.2 h

/-- Deleting the entry that `find234` returned erases exactly that entry. -/
theorem del234_eq_erase (t : tree234) (x : Nat) (r : sftp_request)
    (h : find234 t x = some r) : del234 t r = t.erase r := by
  induction t with
  | nil => simp [find234] at h
  | cons y ys ih =>
    unfold find234 at h
    rw [List.find?_cons, sftp_reqfind_zero] at h
    unfold del234
    rw [List.eraseP_cons, sftp_reqcmp_zero, List.erase_cons]
    by_cases hy : y.id = x
    · simp only [hy, decide_True] at h
      simp at h
      subst h
      simp
    · simp only [hy, decide_False] at h
      have hr := find234_some ys x r h
      have hne : y.id ≠ r.id := by rw [hr.2]; exact hy
      have hne2 : ¬ (y == r) = true := by
        intro hc
        have := eq_of_beq hc
        rw [this] at hne
        exact hne rfl
      simp only [hne, decide_False, cond_false, hne2]
      congr 1
      exact ih h

/-- Reading a 32-bit field that is present. -/
theorem get_uint32_ok (src : BinarySource) (he : src.err = false)
    (hl : 4 ≤ src.data.length - src.pos) :
    get_uint32 src = (GET_32BIT (src.data.drop src.pos), { src with pos := src.pos + 4 }) := by
  simp [get_uint32, BinarySource.avail, he, hl]

/-- Reading a 32-bit field that is truncated sets the error flag. -/
theorem get_uint32_err (src : BinarySource)
    (h : src.err = true ∨ src.data.length - src.pos < 4) :
    (get_uint32 src).2.err = true := by
  unfold get_uint32 BinarySource.avail
  by_cases he : src.err = true
  · simp [he]
  · rcases h with h | h
    · exact absurd h he
    · have : ¬ 4 ≤ src.data.length - src.pos := by omega
      simp [he, this]

/-- C7 (`sftp_find_request`). For a packet whose next field is the request id
`x`: (1) if the registry holds a request with id `x` whose `registered` flag
is set, that request is returned and erased from the registry, every other
entry staying; (2) if no entry has id `x`, (3) if the entry with id `x` is not
registered, or (4) if the id field is truncated, the result is NULL, the
internal error is recorded (error type -1) and the registry is unchanged;
(5) a NULL packet is answered the same way. -/
theorem C7_find_request (g : sftp_globals) (t : tree234) (pkt : sftp_packet)
    (ht : g.sftp_requests = some t) (hs : t.Pairwise (fun a b => a.id < b.id)) :
    (∀ req ∈ t, pkt.src.err = false → 4 ≤ pkt.src.data.length - pkt.src.pos →
      req.id = GET_32BIT (pkt.src.data.drop pkt.src.pos) → req.registered ≠ 0 →
      sftp_find_request g (some pkt) =
        some (some req, some { pkt with src := { pkt.src with pos := pkt.src.pos + 4 } },
              { g with sftp_requests := some (t.erase req) }) ∧
      (∀ y, y ∈ t.erase req ↔ y ∈ t ∧ y ≠ req)) ∧
    (pkt.src.err = false → 4 ≤ pkt.src.data.length - pkt.src.pos →
      (∀ r ∈ t, r.id ≠ GET_32BIT (pkt.src.data.drop pkt.src.pos)) →
      sftp_find_request g (some pkt) =
        some (none, some { pkt with src := { pkt.src with pos := pkt.src.pos + 4 } },
              fxp_internal_error g "request ID mismatch\n")) ∧
    (∀ req ∈ t, pkt.src.err = false → 4 ≤ pkt.src.data.length - pkt.src.pos →
      req.id = GET_32BIT (pkt.src.data.drop pkt.src.pos) → req.registered = 0 →
      sftp_find_request g (some pkt) =
        some (none, some { pkt with src := { pkt.src with pos := pkt.src.pos + 4 } },
              fxp_internal_error g "request ID mismatch\n")) ∧
    (pkt.src.err = true ∨ pkt.src.data.length - pkt.src.pos < 4 →
      sftp_find_request g (some pkt) =
        some (none, some { pkt with src := (get_uint32 pkt.src).2 },
              fxp_internal_error g "did not receive a valid SFTP packet\n")) ∧
    sftp_find_request g none =
      some (none, none, fxp_internal_error g "did not receive a valid SFTP packet\n") ∧
    (∀ msg, (fxp_internal_error g msg).fxp_errtype = -1 ∧
      (fxp_internal_error g msg).fxp_error_message = msg ∧
      (fxp_internal_error g msg).sftp_requests = some t) := by
  refine ⟨?_, ?_, ?_, ?_, rfl, ?_⟩
  · intro req hreq he hl hid hreg
    have hfind : find234 t (GET_32BIT (pkt.src.data.drop pkt.src.pos)) = some req := by
      rw [← hid]; exact find234_of_mem t hs req hreq
    constructor
    · simp only [sftp_find_request, get_uint32_ok pkt.src he hl, get_err, ht, hfind, hreg,
        if_false, del234_eq_erase t _ req hfind]
      simp [he]
    · intro y
      have hnd : t.Nodup := hs.imp (fun h heq => by rw [heq] at h; exact lt_irrefl _ h)
      rw [hnd.mem_erase_iff]
      tauto
  · intro he hl hno
    have hfind := find234_none t _ hno
    simp only [sftp_find_request, get_uint32_ok pkt.src he hl, get_err, ht, hfind]
    simp [he]
  · intro req hreq he hl hid hreg
    have hfind : find234 t (GET_32BIT (pkt.src.data.drop pkt.src.pos)) = some req := by
      rw [← hid]; exact find234_of_mem t hs req hreq
    simp only [sftp_find_request, get_uint32_ok pkt.src he hl, get_err, ht, hfind, hreg]
    simp [he]
  · intro h
    have herr := get_uint32_err pkt.src h
    simp only [sftp_find_request, get_err, herr]
    simp
  · intro msg
    exact ⟨rfl, rfl, ht⟩

/-- C7 at a registry holding a registered request 256 and an unregistered
request 257, for a response carrying id 256: the request is returned and only
request 257 stays in the registry. -/
theorem C7_find_request_witness :
    sftp_find_request find_example_globals (some (packet_with_id 101 256 [0, 0, 0, 0])) =
      some (some { id := 256, registered := 1, userdata := none },
            some { packet_with_id 101 256 [0, 0, 0, 0] with
                    src := { (packet_with_id 101 256 [0, 0, 0, 0]).src with pos := 1 + 4 } },
            { find_example_globals with
                sftp_requests := some (find_example_registry.erase
                  { id := 256, registered := 1, userdata := none }) }) :=
  ((C7_find_request find_example_globals find_example_registry
      (packet_with_id 101 256 [0, 0, 0, 0]) rfl (by decide)).1
    { id := 256, registered := 1, userdata := none } (by decide) rfl (by decide)
    (by decide) (by decide)).1

/-! ## Consecutive allocations -/

/-- The ids of `registry_of_ids`. -/
theorem registry_of_ids_mem (ids : List Nat) (x : sftp_request) :
    x ∈ registry_of_ids ids ↔
      ∃ i ∈ ids, x = { id := i, registered := 0, userdata := none } := by
  simp only [registry_of_ids, List.mem_map]
  constructor
  · rintro ⟨i, hi, rfl⟩; exact ⟨i, hi, rfl⟩
  · rintro ⟨i, hi, rfl⟩; exact ⟨i, hi, rfl⟩

/-- A registry built from increasing ids is in tree order. -/
theorem registry_of_ids_pairwise (ids : List Nat) (h : ids.Pairwise (fun a b => a < b)) :
    (registry_of_ids ids).Pairwise (fun a b => a.id < b.id) := by
  unfold registry_of_ids
  rw [List.pairwise_map]
  exact h

/-- Allocation on the registry holding exactly the ids 256 .. 256 + m - 1
returns 256 + m and yields the registry holding 256 .. 256 + m. -/
theorem alloc_contiguous (g : sftp_globals) (m : Nat) (hm : m < 2147483648)
    (hg : g.sftp_requests.getD [] = registry_of_ids (List.range' 256 m)) :
    sftp_alloc_request g =
      some ({ id := m + 256, registered := 0, userdata := none },
            { g with sftp_requests := some (registry_of_ids (List.range' 256 (m + 1))) }) := by
  have hs : (registry_of_ids (List.range' 256 m)).Pairwise (fun a b => a.id < b.id) :=
    registry_of_ids_pairwise _ (List.pairwise_lt_range' 256 m)
  have hmin : ∀ x ∈ registry_of_ids (List.range' 256 m), 256 ≤ x.id := by
    intro x hx
    obtain ⟨i, hi, rfl⟩ := (registry_of_ids_mem _ x).mp hx
    rw [List.mem_range'_1] at hi
    exact hi.1
  have hlen : (registry_of_ids (List.range' 256 m)).length = m := by
    simp [registry_of_ids]
  obtain ⟨k, hk, hkn, halloc, hlo, hhi, hall⟩ :=
    sftp_alloc_request_spec g _ hg hs hmin (by rw [hlen]; exact hm)
  have hkm : k = m := by
    rw [hlen] at hkn
    by_contra hne
    have hlt : k < m := by omega
    have hmem : ({ id := 256 + k, registered := 0, userdata := none } : sftp_request) ∈
        (registry_of_ids (List.range' 256 m)).drop k := by
      apply List.getElem?_mem (n := 0)
      rw [List.getElem?_drop]
      unfold registry_of_ids
      rw [List.getElem?_map, Nat.add_zero, List.getElem?_range' 256 1 hlt]
      simp
    have := hhi _ hmem
    simp at this
    omega
  rw [halloc, hkm]
  have h1 : (registry_of_ids (List.range' 256 m)).take m = registry_of_ids (List.range' 256 m) := by
    apply List.take_of_length_le; rw [hlen]
  have h2 : (registry_of_ids (List.range' 256 m)).drop m = [] := by
    apply List.drop_of_length_le; rw [hlen]
  rw [h1, h2]
  have h3 : registry_of_ids (List.range' 256 (m + 1)) =
      registry_of_ids (List.range' 256 m) ++
        [{ id := m + 256, registered := 0, userdata := none }] := by
    unfold registry_of_ids
    rw [List.range'_1_concat, List.map_append]
    simp [Nat.add_comm]
  rw [h3]

/-- From a registry holding 256 .. 256 + m - 1, `n` consecutive allocations
return 256 + m, ..., 256 + m + n - 1 in that order. -/
theorem alloc_many_contiguous (n : Nat) :
    ∀ (m : Nat) (g : sftp_globals), m + n ≤ 2147483648 →
      g.sftp_requests.getD [] = registry_of_ids (List.range' 256 m) →
      alloc_many n g = some (List.range' (256 + m) n,
        if n = 0 then g
        else { g with sftp_requests := some (registry_of_ids (List.range' 256 (m + n))) }) := by
  induction n with
  | zero => intro m g _ _; simp [alloc_many]
  | succ n ih =>
    intro m g hmn hg
    have h1 := alloc_contiguous g m (by omega) hg
    have h2 := ih (m + 1) { g with sftp_requests := some (registry_of_ids (List.range' 256 (m + 1))) }
      (by omega) rfl
    simp only [alloc_many, h1, h2]
    have h3 : 256 + (m + 1) = 256 + m + 1 := by omega
    have h4 : m + 1 + n = m + (n + 1) := by omega
    have h5 : m + 256 = 256 + m := by omega
    rw [h3, h4, h5, List.range'_succ (256 + m) n 1]
    cases n with
    | zero => simp
    | succ j => simp

/-- The big-endian encoding of a 32-bit value reads back as that value. -/
theorem GET_PUT_32BIT (x : Nat) (rest : List Nat) (hx : x < 4294967296) :
    GET_32BIT (PUT_32BIT x ++ rest) = x := by
  simp only [GET_32BIT, PUT_32BIT, List.cons_append, List.getD_cons_zero, List.getD_cons_succ]
  omega

/-- A registered request whose id the packet carries is returned and erased. -/
theorem sftp_find_request_found (g : sftp_globals) (t : tree234) (pkt : sftp_packet)
    (ht : g.sftp_requests = some t) (hs : t.Pairwise (fun a b => a.id < b.id))
    (req : sftp_request) (hreq : req ∈ t) (he : pkt.src.err = false)
    (hl : 4 ≤ pkt.src.data.length - pkt.src.pos)
    (hid : req.id = GET_32BIT (pkt.src.data.drop pkt.src.pos)) (hreg : req.registered ≠ 0) :
    sftp_find_request g (some pkt) =
      some (some req, some { pkt with src := { pkt.src with pos := pkt.src.pos + 4 } },
            { g with sftp_requests := some (t.erase req) }) := by
  have hfind : find234 t (GET_32BIT (pkt.src.data.drop pkt.src.pos)) = some req := by
    rw [← hid]; exact find234_of_mem t hs req hreq
  simp only [sftp_find_request, get_uint32_ok pkt.src he hl, get_err, ht, hfind, hreg,
    if_false, del234_eq_erase t _ req hfind]
  simp [he]

/-- Updating request objects in place keeps the tree order. -/
theorem update_request_pairwise (t : tree234) (id : Nat) (f : sftp_request → sftp_request)
    (hf : ∀ r, (f r).id = r.id) (hs : t.Pairwise (fun a b => a.id < b.id)) :
    (update_request t id f).Pairwise (fun a b => a.id < b.id) := by
  unfold update_request
  rw [List.pairwise_map]
  refine hs.imp ?_
  intro a b hab
  by_cases ha : a.id = id <;> by_cases hb : b.id = id <;> simp [ha, hb, hf] <;> omega

/-- Freeing one of the ids 256 .. 256 + n - 1 of a full registry and
allocating again returns the freed id. -/
theorem free_then_alloc (g : sftp_globals) (n k : Nat) (hn : n < 2147483648)
    (hg : g.sftp_requests = some (registry_of_ids (List.range' 256 n)))
    (hk1 : 256 ≤ k) (hk2 : k < 256 + n) :
    ∃ g1 r g2, free_request g k = some g1 ∧ sftp_alloc_request g1 = some (r, g2) ∧
      r.id = k := by
  have hsT : (registry_of_ids (List.range' 256 n)).Pairwise (fun a b => a.id < b.id) :=
    registry_of_ids_pairwise _ (List.pairwise_lt_range' 256 n)
  have hsU := update_request_pairwise (registry_of_ids (List.range' 256 n)) k
    (fun r => { r with registered := 1 }) (fun _ => rfl) hsT
  have hlenU : (update_request (registry_of_ids (List.range' 256 n)) k
      (fun r => { r with registered := 1 })).length = n := by
    simp [update_request, registry_of_ids]
  have hmemU : ∀ x, x ∈ update_request (registry_of_ids (List.range' 256 n)) k
      (fun r => { r with registered := 1 }) ↔
      ∃ i, 256 ≤ i ∧ i < 256 + n ∧
        x = { id := i, registered := if i = k then 1 else 0, userdata := none } := by
    intro x
    simp only [update_request, registry_of_ids, List.map_map, List.mem_map, List.mem_range'_1,
      Function.comp]
    constructor
    · rintro ⟨i, ⟨h1, h2⟩, rfl⟩
      refine ⟨i, h1, h2, ?_⟩
      by_cases h : i = k <;> simp [h]
    · rintro ⟨i, h1, h2, rfl⟩
      refine ⟨i, ⟨h1, h2⟩, ?_⟩
      by_cases h : i = k <;> simp [h]
  have hreq : ({ id := k, registered := 1, userdata := none } : sftp_request) ∈
      update_request (registry_of_ids (List.range' 256 n)) k
        (fun r => { r with registered := 1 }) :=
    (hmemU _).mpr ⟨k, hk1, hk2, by simp⟩
  have hfound := sftp_find_request_found (sftp_register g k) _ (packet_with_id 101 k [])
    (by simp [sftp_register, hg]) hsU _ hreq rfl (by simp [packet_with_id, PUT_32BIT])
    (by
      simp only [packet_with_id, List.drop_succ_cons, List.drop_zero]
      rw [GET_PUT_32BIT k [] (by omega)])
    (by simp)
  have hfree : free_request g k = some { sftp_register g k with
      sftp_requests := some ((update_request (registry_of_ids (List.range' 256 n)) k
        (fun r => { r with registered := 1 })).erase
          { id := k, registered := 1, userdata := none }) } := by
    unfold free_request
    rw [hfound]
  have hnd : (update_request (registry_of_ids (List.range' 256 n)) k
      (fun r => { r with registered := 1 })).Nodup :=
    hsU.imp (fun h heq => by rw [heq] at h; exact lt_irrefl _ h)
  have hs2 := hsU.sublist (List.erase_sublist { id := k, registered := 1, userdata := none }
    (update_request (registry_of_ids (List.range' 256 n)) k (fun r => { r with registered := 1 })))
  have hmin2 : ∀ x ∈ (update_request (registry_of_ids (List.range' 256 n)) k
      (fun r => { r with registered := 1 })).erase
        { id := k, registered := 1, userdata := none }, 256 ≤ x.id := by
    intro x hx
    obtain ⟨i, h1, _, rfl⟩ := (hmemU x).mp (List.mem_of_mem_erase hx)
    exact h1
  have hlen2 : ((update_request (registry_of_ids (List.range' 256 n)) k
      (fun r => { r with registered := 1 })).erase
        { id := k, registered := 1, userdata := none }).length < 2147483648 := by
    have := List.length_erase_le { id := k, registered := 1, userdata := none }
      (update_request (registry_of_ids (List.range' 256 n)) k (fun r => { r with registered := 1 }))
    omega
  obtain ⟨j, _, _, halloc, hlo, hhi, hall⟩ := sftp_alloc_request_spec
    { sftp_register g k with
      sftp_requests := some ((update_request (registry_of_ids (List.range' 256 n)) k
        (fun r => { r with registered := 1 })).erase
          { id := k, registered := 1, userdata := none }) } _ rfl hs2 hmin2 hlen2
  refine ⟨_, _, _, hfree, halloc, ?_⟩
  show j + 256 = k
  have hnotk : ∀ x ∈ (update_request (registry_of_ids (List.range' 256 n)) k
      (fun r => { r with registered := 1 })).erase
        { id := k, registered := 1, userdata := none }, x.id ≠ k := by
    intro x hx hxk
    rw [hnd.mem_erase_iff] at hx
    obtain ⟨i, _, _, rfl⟩ := (hmemU x).mp hx.2
    simp at hxk
    subst hxk
    simp at hx
  have hothers : ∀ i, 256 ≤ i → i < 256 + n → i ≠ k →
      ∃ x ∈ (update_request (registry_of_ids (List.range' 256 n)) k
        (fun r => { r with registered := 1 })).erase
          { id := k, registered := 1, userdata := none }, x.id = i := by
    intro i h1 h2 h3
    refine ⟨{ id := i, registered := if i = k then 1 else 0, userdata := none }, ?_, rfl⟩
    rw [hnd.mem_erase_iff]
    refine ⟨?_, (hmemU _).mpr ⟨i, h1, h2, rfl⟩⟩
    simp [h3]
  by_contra hne
  rcases Nat.lt_or_gt_of_ne hne with h | h
  · obtain ⟨x, hx, hxi⟩ := hothers (j + 256) (by omega) (by omega) (by omega)
    rw [← List.take_append_drop j ((update_request (registry_of_ids (List.range' 256 n)) k
        (fun r => { r with registered := 1 })).erase
          { id := k, registered := 1, userdata := none })] at hx
    rcases List.mem_append.mp hx with hx | hx
    · have := hlo x hx; omega
    · have := hhi x hx; omega
  · obtain ⟨x, hx, hxi⟩ := hall k hk1 h
    exact hnotk x hx hxi

/-- C4 (allocation order). For every `N` (within the `int` range of the
registry size), `N` consecutive `sftp_alloc_request` calls on the empty
registry return exactly 256, 257, ..., 256 + N - 1 in that order; if any single
id `k` among them is then freed (registered, then removed by
`sftp_find_request`), the next allocation returns `k`; and the scenario
alloc, alloc, alloc, free 257, alloc, alloc hands out 256, 257, 258, 257, 259. -/
theorem C4_alloc_order (N : Nat) (hN : N < 2147483648) :
    ∃ g, alloc_many N sftp_globals_init = some (List.range' 256 N, g) ∧
      (∀ k, 256 ≤ k → k < 256 + N →
        ∃ g1 r g2, free_request g k = some g1 ∧
          sftp_alloc_request g1 = some (r, g2) ∧ r.id = k) ∧
      alloc_scenario = some [256, 257, 258, 257, 259] := by
  have h := alloc_many_contiguous N 0 sftp_globals_init (by omega) rfl
  rw [Nat.add_zero, Nat.zero_add] at h
  refine ⟨_, h, ?_, by decide⟩
  intro k hk1 hk2
  have hN0 : N ≠ 0 := by omega
  rw [if_neg hN0]
  exact free_then_alloc _ N k hN rfl hk1 hk2

/-- C4 at `N = 3`. -/
theorem C4_alloc_order_witness :
    ∃ g, alloc_many 3 sftp_globals_init = some (List.range' 256 3, g) ∧
      (∀ k, 256 ≤ k → k < 256 + 3 →
        ∃ g1 r g2, free_request g k = some g1 ∧
          sftp_alloc_request g1 = some (r, g2) ∧ r.id = k) ∧
      alloc_scenario = some [256, 257, 258, 257, 259] :=
  C4_alloc_order 3 (by decide)

/-! ## Delivery order of downloaded data -/

/-- Once a buffer has been picked the loop of `xfer_download_data` stops. -/
theorem xfer_download_data_loop_some (q : List req) (tot : Int) (b : List Nat) (r : Int) :
    xfer_download_data_loop q tot (some b) r = (q, tot, some b, r) := by
  cases q with
  | nil => rfl
  | cons rr rest => simp [xfer_download_data_loop]

/-- The head of what `dropWhile` leaves does not satisfy the predicate. -/
theorem dropWhile_head_not {α : Type} (p : α → Bool) (l : List α) (y : α) (tl : List α)
    (h : l.dropWhile p = y :: tl) : p y = false := by
  induction l with
  | nil => simp at h
  | cons x xs ih =>
    rw [List.dropWhile_cons] at h
    by_cases hx : p x = true
    · rw [if_pos hx] at h; exact ih h
    · rw [if_neg hx] at h
      simp at h
      rw [← h.1]
      simpa using hx

/-- When the front part holds an element failing the predicate, `dropWhile`
and `takeWhile` of an append only look at the front part. -/
theorem dropWhile_append_of_exists {α : Type} (p : α → Bool) (l1 l2 : List α)
    (h : ∃ x ∈ l1, p x = false) :
    (l1 ++ l2).dropWhile p = l1.dropWhile p ++ l2 ∧
      (l1 ++ l2).takeWhile p = l1.takeWhile p ∧ l1.dropWhile p ≠ [] := by
  induction l1 with
  | nil => obtain ⟨x, hx, _⟩ := h; simp at hx
  | cons a as ih =>
    by_cases ha : p a = true
    · obtain ⟨x, hx, hpx⟩ := h
      have hx2 : x ∈ as := by
        rcases List.mem_cons.mp hx with h1 | h1
        · subst h1; rw [ha] at hpx; simp at hpx
        · exact h1
      obtain ⟨h1, h2, h3⟩ := ih ⟨x, hx2, hpx⟩
      simp [List.dropWhile_cons, List.takeWhile_cons, ha, h1, h2, h3]
    · simp [List.dropWhile_cons, List.takeWhile_cons, ha]

/-- The loop of `xfer_download_data` discards the leading failed nodes and then
stops at an empty queue, stops at a node still in flight, or removes one
completed node and hands out its buffer. -/
theorem xfer_download_data_loop_spec (q : List req)
    (hbuf : ∀ rr ∈ q, 0 < rr.complete → rr.buffer ≠ none) (tot : Int) :
    xfer_download_data_loop q tot none 0 =
      match q.dropWhile (fun rr => decide (rr.complete < 0)) with
      | [] => ([], tot - total_len (q.takeWhile (fun rr => decide (rr.complete < 0))), none, 0)
      | rr :: tl =>
        if rr.complete = 0 then
          (rr :: tl, tot - total_len (q.takeWhile (fun rr => decide (rr.complete < 0))), none, 0)
        else
          (tl, tot - total_len (q.takeWhile (fun rr => decide (rr.complete < 0))) - rr.len,
            rr.buffer, rr.retlen) := by
  induction q generalizing tot with
  | nil => simp [xfer_download_data_loop, total_len]
  | cons x xs ih =>
    have hbuf2 : ∀ rr ∈ xs, 0 < rr.complete → rr.buffer ≠ none :=
      fun rr hrr => hbuf rr (List.mem_cons_of_mem _ hrr)
    by_cases hneg : x.complete < 0
    · have h1 : x.complete ≠ 0 := by omega
      have h2 : ¬ x.complete > 0 := by omega
      simp only [xfer_download_data_loop, h1, ne_eq, not_false_eq_true, and_self, if_true, h2,
        if_false, List.dropWhile_cons, List.takeWhile_cons, hneg, decide_True]
      rw [ih hbuf2]
      have h3 : ∀ l : List req, total_len (x :: l) = x.len + total_len l := by
        intro l; simp [total_len]
      cases hd : xs.dropWhile (fun rr => decide (rr.complete < 0)) with
      | nil => simp only [h3]; congr 2; omega
      | cons y ys =>
        simp only [h3]
        by_cases hy : y.complete = 0
        · simp only [hy, if_true]; congr 2; omega
        · simp only [hy, if_false]; congr 2; omega
    · simp only [List.dropWhile_cons, List.takeWhile_cons, hneg, decide_False]
      by_cases hz : x.complete = 0
      · simp [xfer_download_data_loop, hz, total_len]
      · have hpos : x.complete > 0 := by omega
        obtain ⟨b, hb⟩ := Option.ne_none_iff_exists'.mp (hbuf x (List.mem_cons_self _ _) hpos)
        simp [xfer_download_data_loop, hz, hpos, hb, xfer_download_data_loop_some, total_len]

/-- C6 (completion order equals issue order). On a queue whose completed nodes
own a buffer (every download node does), `xfer_download_data` removes every
leading node with `complete < 0`, then: on an empty rest or a head with
`complete = 0` it returns 0 and hands back no buffer, leaving that head
queued; on a head with `complete > 0` it returns 1 with that node's buffer and
`retlen` and removes it; `req_totalsize` drops by the `len` of the removed
nodes. Hence a node queued behind a node still in flight stays queued: it is
never delivered before an earlier-issued one. -/
theorem C6_download_data_order (xfer : fxp_xfer)
    (hbuf : ∀ rr ∈ xfer.queue, 0 < rr.complete → rr.buffer ≠ none) :
    (xfer.queue.dropWhile (fun rr => decide (rr.complete < 0)) = [] →
      xfer_download_data xfer =
        ({ xfer with queue := [], req_totalsize := xfer.req_totalsize -
            total_len (xfer.queue.takeWhile (fun rr => decide (rr.complete < 0))) }, 0, none)) ∧
    (∀ rr tl, xfer.queue.dropWhile (fun rr => decide (rr.complete < 0)) = rr :: tl →
      rr.complete = 0 →
      xfer_download_data xfer =
        ({ xfer with queue := rr :: tl, req_totalsize := xfer.req_totalsize -
            total_len (xfer.queue.takeWhile (fun rr => decide (rr.complete < 0))) }, 0, none)) ∧
    (∀ rr tl, xfer.queue.dropWhile (fun rr => decide (rr.complete < 0)) = rr :: tl →
      0 < rr.complete →
      ∃ b, rr.buffer = some b ∧ xfer_download_data xfer =
        ({ xfer with queue := tl, req_totalsize := xfer.req_totalsize -
            total_len (xfer.queue.takeWhile (fun rr => decide (rr.complete < 0))) - rr.len },
          1, some (b, rr.retlen))) ∧
    (∀ early rr late, xfer.queue = early ++ rr :: late → (∃ x ∈ early, x.complete = 0) →
      ∃ kept, (xfer_download_data xfer).1.queue = kept ++ rr :: late) := by
  have hloop := xfer_download_data_loop_spec xfer.queue hbuf xfer.req_totalsize
  have hnil : xfer.queue.dropWhile (fun rr => decide (rr.complete < 0)) = [] →
      xfer_download_data xfer =
        ({ xfer with queue := [], req_totalsize := xfer.req_totalsize -
            total_len (xfer.queue.takeWhile (fun rr => decide (rr.complete < 0))) }, 0, none) := by
    intro h
    rw [h] at hloop
    simp only [xfer_download_data, hloop]
  have hzero : ∀ rr tl, xfer.queue.dropWhile (fun rr => decide (rr.complete < 0)) = rr :: tl →
      rr.complete = 0 →
      xfer_download_data xfer =
        ({ xfer with queue := rr :: tl, req_totalsize := xfer.req_totalsize -
            total_len (xfer.queue.takeWhile (fun rr => decide (rr.complete < 0))) }, 0, none) := by
    intro rr tl h hz
    rw [h] at hloop
    simp only [hz, if_true] at hloop
    simp only [xfer_download_data, hloop]
  have hpos : ∀ rr tl, xfer.queue.dropWhile (fun rr => decide (rr.complete < 0)) = rr :: tl →
      0 < rr.complete →
      ∃ b, rr.buffer = some b ∧ xfer_download_data xfer =
        ({ xfer with queue := tl, req_totalsize := xfer.req_totalsize -
            total_len (xfer.queue.takeWhile (fun rr => decide (rr.complete < 0))) - rr.len },
          1, some (b, rr.retlen)) := by
    intro rr tl h hp
    have hmem : rr ∈ xfer.queue := by
      have : rr ∈ xfer.queue.dropWhile (fun rr => decide (rr.complete < 0)) := by
        rw [h]; exact List.mem_cons_self _ _
      exact (List.dropWhile_sublist _).subset this
    obtain ⟨b, hb⟩ := Option.ne_none_iff_exists'.mp (hbuf rr hmem hp)
    refine ⟨b, hb, ?_⟩
    rw [h] at hloop
    have hz : rr.complete ≠ 0 := by omega
    simp only [hz, if_false, hb] at hloop
    simp only [xfer_download_data, hloop]
  refine ⟨hnil, hzero, hpos, ?_⟩
  intro early rr late hq hex
  obtain ⟨x, hx, hxz⟩ := hex
  obtain ⟨hd, _, hne⟩ := dropWhile_append_of_exists (fun rr : req => decide (rr.complete < 0))
    early (rr :: late) ⟨x, hx, by simp [hxz]⟩
  rw [← hq] at hd
  cases he : early.dropWhile (fun rr => decide (rr.complete < 0)) with
  | nil => exact absurd he hne
  | cons y ys =>
    rw [he] at hd
    have hy := dropWhile_head_not _ _ _ _ he
    simp at hy
    by_cases hyz : y.complete = 0
    · rw [hzero y (ys ++ rr :: late) hd hyz]
      exact ⟨y :: ys, rfl⟩
    · obtain ⟨b, _, hres⟩ := hpos y (ys ++ rr :: late) hd (by omega)
      rw [hres]
      exact ⟨ys, rfl⟩

/-- C6 at a queue of a failed node, a completed node, a node in flight and a
later completed node: the first call returns the completed node's buffer and
leaves the last two nodes queued. -/
theorem C6_download_data_order_witness :
    ∃ b, (data_example_queue.get ⟨1, by decide⟩).buffer = some b ∧
      xfer_download_data { xfer_init [] 0 false with queue := data_example_queue } =
        ({ xfer_init [] 0 false with
            queue := data_example_queue.drop 2,
            req_totalsize := 0 - total_len (data_example_queue.take 1) - 32768 },
          1, some (b, 3)) :=
  (C6_download_data_order { xfer_init [] 0 false with queue := data_example_queue }
    (by decide)).2.2.1 (data_example_queue.get ⟨1, by decide⟩) (data_example_queue.drop 2)
    (by decide) (by decide)

/-! ## Marshalling -/


/-- The encoding has four bytes. -/
theorem PUT_32BIT_length (x : Nat) : (PUT_32BIT x).length = 4 := rfl

/-- What is left to read is what lies behind the cursor. -/
theorem reads_length (s : BinarySource) (rest : List Nat) (h : reads s rest) :
    s.data.length - s.pos = rest.length := by
  rw [← h.2, List.length_drop]

/-- Reading a 32-bit value that was written. -/
theorem get_uint32_reads (s : BinarySource) (x : Nat) (rest : List Nat)
    (h : reads s (PUT_32BIT x ++ rest)) (hx : x < 4294967296) :
    (get_uint32 s).1 = x ∧ reads (get_uint32 s).2 rest ∧
      (get_uint32 s).2 = { s with pos := s.pos + 4 } := by
  have hl := reads_length s _ h
  rw [List.length_append, PUT_32BIT_length] at hl
  rw [get_uint32_ok s h.1 (by omega)]
  refine ⟨?_, ⟨h.1, ?_⟩, rfl⟩
  · show GET_32BIT (s.data.drop s.pos) = x
    rw [h.2, GET_PUT_32BIT x rest hx]
  · show s.data.drop (s.pos + 4) = rest
    rw [← List.drop_drop, h.2]
    rfl

/-- Reading a byte that was written. -/
theorem get_byte_reads (s : BinarySource) (x : Nat) (rest : List Nat)
    (h : reads s (x :: rest)) :
    (get_byte s).1 = x ∧ reads (get_byte s).2 rest := by
  have hl := reads_length s _ h
  rw [List.length_cons] at hl
  have hav : (1 : Nat) ≤ s.data.length - s.pos := by omega
  have h1 : get_byte s = (s.data.getD s.pos 0, { s with pos := s.pos + 1 }) := by
    simp [get_byte, BinarySource.avail, h.1, hav]
  rw [h1]
  refine ⟨?_, h.1, ?_⟩
  · show s.data.getD s.pos 0 = x
    have := congrArg (fun l => l.getD 0 0) h.2
    simp only [List.getD_cons_zero] at this
    rw [← this, List.getD_eq_getElem?_getD, List.getD_eq_getElem?_getD, List.getElem?_drop]
    simp
  · show s.data.drop (s.pos + 1) = rest
    rw [← List.drop_drop, h.2]
    rfl

/-- Reading a string that was written. -/
theorem get_string_reads (s : BinarySource) (str rest : List Nat)
    (h : reads s (PUT_32BIT str.length ++ str ++ rest)) (hx : str.length < 4294967296) :
    (get_string s).1 = str ∧ reads (get_string s).2 rest := by
  have hl := reads_length s _ h
  rw [List.length_append, List.length_append, PUT_32BIT_length] at hl
  have hav : (4 : Nat) ≤ s.data.length - s.pos := by omega
  have hg : GET_32BIT (s.data.drop s.pos) = str.length := by
    rw [h.2, List.append_assoc, GET_PUT_32BIT _ _ hx]
  have hav2 : str.length ≤ s.data.length - (s.pos + 4) := by omega
  have h1 : get_string s = ((s.data.drop (s.pos + 4)).take str.length,
      { s with pos := s.pos + 4 + str.length }) := by
    simp [get_string, BinarySource.avail, h.1, hav, hg, hav2]
  have hd : s.data.drop (s.pos + 4) = str ++ rest := by
    rw [← List.drop_drop, h.2, List.append_assoc]
    rfl
  rw [h1]
  refine ⟨?_, h.1, ?_⟩
  · show (s.data.drop (s.pos + 4)).take str.length = str
    rw [hd, List.take_left']
    rfl
  · show s.data.drop (s.pos + 4 + str.length) = rest
    rw [← List.drop_drop, hd, List.drop_left']
    rfl

/-- Reading a 64-bit value that was written as two halves. -/
theorem get_uint64_reads (s : BinarySource) (hi lo : Nat) (rest : List Nat)
    (h : reads s (PUT_32BIT hi ++ PUT_32BIT lo ++ rest))
    (hhi : hi < 4294967296) (hlo : lo < 4294967296) :
    (get_uint64 s).1 = hi * 4294967296 + lo ∧ reads (get_uint64 s).2 rest := by
  have hl := reads_length s _ h
  rw [List.length_append, List.length_append, PUT_32BIT_length, PUT_32BIT_length] at hl
  have hav : (8 : Nat) ≤ s.data.length - s.pos := by omega
  have h1 : get_uint64 s = (GET_32BIT (s.data.drop s.pos) * 4294967296 +
      GET_32BIT (s.data.drop (s.pos + 4)), { s with pos := s.pos + 8 }) := by
    simp [get_uint64, BinarySource.avail, h.1, hav]
  have hd : s.data.drop (s.pos + 4) = PUT_32BIT lo ++ rest := by
    rw [← List.drop_drop, h.2, List.append_assoc]
    rfl
  rw [h1]
  refine ⟨?_, h.1, ?_⟩
  · show GET_32BIT (s.data.drop s.pos) * 4294967296 + GET_32BIT (s.data.drop (s.pos + 4)) = _
    rw [hd, h.2, List.append_assoc, GET_PUT_32BIT _ _ hhi, GET_PUT_32BIT _ _ hlo]
  · show s.data.drop (s.pos + 8) = rest
    have : s.pos + 8 = s.pos + 4 + 4 := by omega
    rw [this, ← List.drop_drop, hd]
    rfl

/-- Unsigned subtraction stays within 32 bits. -/
theorem usub32_lt (a b : Nat) (ha : a < 4294967296) (hb : b < 4294967296) :
    usub32 a b < 4294967296 := by
  unfold usub32; split_ifs <;> omega

/-- The server reads back the id, offset and length of a READ request. -/
theorem parse_read_request_bytes (fh : List Nat) (id off : Nat)
    (hid : id < 4294967296) (hfh : fh.length < 4294967296)
    (hoff : off < 18446744073709551616) :
    parse_read_request (read_request_bytes fh id off 32768) = some (id, off, 32768) := by
  have hshape : read_request_bytes fh id off 32768 =
      PUT_32BIT (usub32 ((put_uint32 (put_uint64 (put_string (put_uint32
        (sftp_pkt_init SSH_FXP_READ) id) fh) off) 32768).length % 4294967296) 4) ++
      (5 :: (PUT_32BIT id ++ (PUT_32BIT fh.length ++ fh ++
        (PUT_32BIT (off / 4294967296) ++ PUT_32BIT (off % 4294967296) ++
          (PUT_32BIT 32768 ++ []))))) := by
    have h1 : id % 4294967296 = id := Nat.mod_eq_of_lt hid
    have h2 : fh.length % 4294967296 = fh.length := Nat.mod_eq_of_lt hfh
    have h3 : off / 4294967296 % 4294967296 = off / 4294967296 := by omega
    have h4 : ((32768 : Int) % 4294967296).toNat = 32768 := by decide
    simp only [read_request_bytes, h4]
    congr 1
    simp only [put_uint32, put_uint64, put_string, sftp_pkt_init, put_byte, SSH_FXP_READ, h1, h2,
      h3]
    simp [PUT_32BIT]
  rw [hshape]
  have hn0 := usub32_lt ((put_uint32 (put_uint64 (put_string (put_uint32
        (sftp_pkt_init SSH_FXP_READ) id) fh) off) 32768).length % 4294967296) 4
        (Nat.mod_lt _ (by norm_num)) (by norm_num)
  generalize (usub32 ((put_uint32 (put_uint64 (put_string (put_uint32
        (sftp_pkt_init SSH_FXP_READ) id) fh) off) 32768).length % 4294967296) 4) = n0 at hn0
  have hr0 : reads { data := PUT_32BIT n0 ++ (5 :: (PUT_32BIT id ++ (PUT_32BIT fh.length ++ fh ++
        (PUT_32BIT (off / 4294967296) ++ PUT_32BIT (off % 4294967296) ++
          (PUT_32BIT 32768 ++ []))))), pos := 0, err := false }
      (PUT_32BIT n0 ++ (5 :: (PUT_32BIT id ++ (PUT_32BIT fh.length ++ fh ++
        (PUT_32BIT (off / 4294967296) ++ PUT_32BIT (off % 4294967296) ++
          (PUT_32BIT 32768 ++ [])))))) := ⟨rfl, rfl⟩
  obtain ⟨_, hr1, _⟩ := get_uint32_reads _ _ _ hr0 hn0
  obtain ⟨hv2, hr2⟩ := get_byte_reads _ _ _ hr1
  obtain ⟨hv3, hr3, _⟩ := get_uint32_reads _ _ _ hr2 hid
  obtain ⟨_, hr4⟩ := get_string_reads _ _ _ hr3 hfh
  obtain ⟨hv5, hr5⟩ := get_uint64_reads _ _ _ _ hr4 (by omega) (by omega)
  obtain ⟨hv6, hr6, _⟩ := get_uint32_reads _ _ _ hr5 (by omega)
  have hoff2 : off / 4294967296 * 4294967296 + off % 4294967296 = off := by omega
  unfold parse_read_request
  simp only [hv2, hv3, hv5, hv6, hr6.1, hoff2, SSH_FXP_READ]
  simp

/-! ## Download correctness -/

/-- The registry of a download holds at most as many requests as the queue
holds nodes. -/
theorem download_registry_length (file fh : List Nat) (start : Nat) (w : download_world)
    (ids : List Nat) (d : Nat) (h : download_inv file fh start w ids d) :
    (w.g.sftp_requests.getD []).length ≤ ids.length - d := by
  have hsub : (w.g.sftp_requests.getD []).map (fun r => r.userdata.getD 0) ⊆
      List.range' (1 + d) (ids.length - d) := by
    intro a ha
    rw [List.mem_map] at ha
    obtain ⟨r, hr, rfl⟩ := ha
    obtain ⟨i, hi, hna, rfl⟩ := (h.reg_mem r).mp hr
    have hid : d ≤ i := by
      by_contra hlt
      exact hna (h.drained i (by omega))
    rw [List.mem_range'_1]
    simp only [Option.getD_some]
    omega
  have hnd : ((w.g.sftp_requests.getD []).map (fun r => r.userdata.getD 0)).Nodup := by
    unfold List.Nodup
    rw [List.pairwise_map]
    refine h.reg_sorted.imp_of_mem ?_
    intro a b ha hb hab heq
    obtain ⟨i, _, _, rfl⟩ := (h.reg_mem a).mp ha
    obtain ⟨j, _, _, rfl⟩ := (h.reg_mem b).mp hb
    simp only [Option.getD_some] at heq
    have : i = j := by omega
    subst this
    exact lt_irrefl _ hab
  have := (hnd.subperm hsub).length_le
  simpa using this

/-- Writing through the pointer to a request that was just inserted. -/
theorem update_request_insert (t : tree234) (k : Nat) (r : sftp_request)
    (f : sftp_request → sftp_request)
    (hlo : ∀ x ∈ t.take k, x.id < r.id) (hhi : ∀ x ∈ t.drop k, r.id < x.id) :
    update_request (t.take k ++ r :: t.drop k) r.id f = t.take k ++ f r :: t.drop k := by
  unfold update_request
  rw [List.map_append, List.map_cons]
  have h1 : (t.take k).map (fun x => if x.id = r.id then f x else x) = t.take k := by
    conv_rhs => rw [← List.map_id (t.take k)]
    apply List.map_congr_left
    intro x hx
    have := hlo x hx
    rw [if_neg (by omega)]; rfl
  have h2 : (t.drop k).map (fun x => if x.id = r.id then f x else x) = t.drop k := by
    conv_rhs => rw [← List.map_id (t.drop k)]
    apply List.map_congr_left
    intro x hx
    have := hhi x hx
    rw [if_neg (by omega)]; rfl
  rw [h1, h2]
  simp

/-- Inserting between the smaller and the larger ids keeps the tree order. -/
theorem pairwise_insert (t : tree234) (k : Nat) (r : sftp_request)
    (hs : t.Pairwise (fun a b => a.id < b.id))
    (hlo : ∀ x ∈ t.take k, x.id < r.id) (hhi : ∀ x ∈ t.drop k, r.id < x.id) :
    (t.take k ++ r :: t.drop k).Pairwise (fun a b => a.id < b.id) := by
  rw [List.pairwise_append]
  refine ⟨hs.sublist (List.take_sublist k t), ?_, ?_⟩
  · rw [List.pairwise_cons]
    exact ⟨hhi, hs.sublist (List.drop_sublist k t)⟩
  · intro a ha b hb
    rcases List.mem_cons.mp hb with h | h
    · subst h; exact hlo a ha
    · exact lt_trans (hlo a ha) (hhi b h)

/-- The entries after an insertion. -/
theorem mem_insert (t : tree234) (k : Nat) (r x : sftp_request) :
    x ∈ t.take k ++ r :: t.drop k ↔ x = r ∨ x ∈ t := by
  conv_rhs => rw [← List.take_append_drop k t]
  simp only [List.mem_append, List.mem_cons]
  tauto

/-- One pass of the queueing loop, spelled out. -/
theorem xfer_download_queue_body_eq (g : sftp_globals) (xfer : fxp_xfer) (t : tree234)
    (ht : g.sftp_requests.getD [] = t)
    (hs : t.Pairwise (fun a b => a.id < b.id))
    (hmin : ∀ x ∈ t, 256 ≤ x.id) (hn : t.length < 2147483648) :
    ∃ k, k ≤ t.length ∧
      (∀ x ∈ t.take k, x.id < k + 256) ∧ (∀ x ∈ t.drop k, k + 256 < x.id) ∧
      xfer_download_queue_body g xfer = some (
        { g with
          heap_next := g.heap_next + 1,
          sent := g.sent ++ [read_request_bytes xfer.fh (k + 256) xfer.offset 32768],
          sftp_requests := some (t.take k ++
            { id := k + 256, registered := 1, userdata := some g.heap_next } :: t.drop k) },
        { xfer with
          queue := xfer.queue ++ [{ addr := g.heap_next, buffer := some [], len := 32768,
                                    retlen := 0, complete := 0, offset := xfer.offset }],
          offset := uint64_add32 xfer.offset 32768,
          req_totalsize := xfer.req_totalsize + 32768 }) := by
  obtain ⟨k, _, hk, halloc, hlo, hhi, _⟩ :=
    sftp_alloc_request_spec { g with heap_next := g.heap_next + 1 } t ht hs hmin hn
  refine ⟨k, hk, hlo, hhi, ?_⟩
  have hu1 := update_request_insert t k { id := k + 256, registered := 0, userdata := none }
    (fun r => { r with registered := 1 }) hlo hhi
  have hu2 := update_request_insert t k { id := k + 256, registered := 1, userdata := none }
    (fun r => { r with userdata := some g.heap_next }) hlo hhi
  simp only at hu1 hu2
  simp only [xfer_download_queue_body, fxp_read_send, halloc, sftp_register, fxp_set_userdata,
    sftp_send, Option.map_some', hu1, hu2, read_request_bytes]
  rfl

/-- `getD` on a list extended at the end. -/
theorem getD_append_last (l : List Nat) (x : Nat) (i : Nat) :
    (l ++ [x]).getD i 0 = if i < l.length then l.getD i 0 else if i = l.length then x else 0 := by
  rw [List.getD_eq_getElem?_getD, List.getD_eq_getElem?_getD]
  by_cases h1 : i < l.length
  · rw [if_pos h1, List.getElem?_append_left h1]
  · rw [if_neg h1]
    by_cases h2 : i = l.length
    · subst h2; simp
    · rw [if_neg h2, List.getElem?_eq_none (by simp; omega)]
      rfl

/-- Queueing one read request keeps the invariant of the download. -/
theorem download_queue_body_inv (file fh : List Nat) (start : Nat) (w : download_world)
    (ids : List Nat) (d : Nat) (h : download_inv file fh start w ids d)
    (hwrap : start + file.length + 2097152 ≤ 18446744073709551616)
    (hlt : w.xfer.req_totalsize < w.xfer.req_maxsize) (heof : w.xfer.eof = false) :
    ∃ g1 x1 id, xfer_download_queue_body w.g w.xfer = some (g1, x1) ∧
      download_inv file fh start { w with g := g1, xfer := x1 } (ids ++ [id]) d ∧
      x1.req_totalsize = w.xfer.req_totalsize + 32768 ∧ x1.req_maxsize = w.xfer.req_maxsize := by
  have hlen := download_registry_length file fh start w ids d h
  have hmin : ∀ x ∈ w.g.sftp_requests.getD [], 256 ≤ x.id := by
    intro x hx
    obtain ⟨i, hi, _, rfl⟩ := (h.reg_mem x).mp hx
    exact (h.ids_ok i hi).1
  have hwin := h.window
  obtain ⟨k, hk, hlo, hhi, hbody⟩ := xfer_download_queue_body_eq w.g w.xfer _ rfl
    h.reg_sorted hmin (by omega)
  have hM : ids.length - d < 32 := by
    have h1 := h.totalsize
    have h2 := h.maxsize
    rw [h1, h2] at hlt
    omega
  have hbound : 32768 * (ids.length + 1) ≤ file.length + 33 * 32768 := by
    by_cases hd : d = 0
    · omega
    · have h1 := h.not_eof heof (d - 1) (h.drained (d - 1) (by omega))
      unfold chunk_offset at h1
      have := h.d_le
      omega
  refine ⟨_, _, k + 256, hbody, ?_, rfl, rfl⟩
  have hnotM : ids.length ∉ w.answered := fun hc => lt_irrefl _ (h.answered_lt _ hc)
  constructor
  · simp; have := h.d_le; omega
  · simp; omega
  · simp; omega
  · simp [h.sent_len]
  · intro i hi
    simp only [List.length_append, List.length_singleton] at hi
    simp only [getD_append_last]
    by_cases h1 : i < ids.length
    · rw [if_pos h1, List.getElem?_append_left (by rw [h.sent_len]; exact h1)]
      exact h.sent_ok i h1
    · have h2 : i = ids.length := by omega
      rw [if_neg h1, if_pos h2, h2, ← h.sent_len]
      simp [h.fh_eq, h.offset, h.sent_len]
  · intro i hi
    simp only [List.length_append, List.length_singleton] at hi
    simp only [getD_append_last]
    by_cases h1 : i < ids.length
    · rw [if_pos h1]; exact h.ids_ok i h1
    · have h2 : i = ids.length := by omega
      rw [if_neg h1, if_pos h2]
      omega
  · simp [h.heap]; omega
  · simp [h.queue_len]; have := h.d_le; omega
  · intro j rr hj
    simp only at hj
    by_cases h1 : j < w.xfer.queue.length
    · rw [List.getElem?_append_left h1] at hj
      exact h.queue_ok j rr hj
    · have hql := h.queue_len
      have h2 : j = w.xfer.queue.length := by
        by_contra hne
        rw [List.getElem?_eq_none (by simp; omega)] at hj
        simp at hj
      subst h2
      simp at hj
      subst hj
      have hdle := h.d_le
      have hidx : d + w.xfer.queue.length = ids.length := by omega
      rw [hidx]
      refine ⟨by simp [h.heap], by simp [h.offset], rfl, Or.inl ⟨rfl, hnotM, by simp⟩⟩
  · exact h.drained
  · intro i hi
    have := h.answered_lt i hi
    simp; omega
  · simp only [Option.getD_some]
    exact pairwise_insert _ k _ h.reg_sorted hlo hhi
  · intro r
    simp only [Option.getD_some, mem_insert, List.length_append, List.length_singleton]
    rw [h.reg_mem r]
    constructor
    · rintro (h1 | ⟨i, hi, hna, rfl⟩)
      · refine ⟨ids.length, by omega, hnotM, ?_⟩
        rw [h1, getD_append_last, if_neg (lt_irrefl _), if_pos rfl, h.heap]
      · refine ⟨i, by omega, hna, ?_⟩
        rw [getD_append_last, if_pos hi]
    · rintro ⟨i, hi, hna, rfl⟩
      by_cases h1 : i < ids.length
      · right
        refine ⟨i, h1, hna, ?_⟩
        rw [getD_append_last, if_pos h1]
      · left
        have h2 : i = ids.length := by omega
        rw [getD_append_last, if_neg h1, if_pos h2, h2, h.heap]
  · intro _; simp
  · simp only [List.length_append, List.length_singleton]
    rw [h.offset]
    unfold uint64_add32 chunk_offset
    rw [Nat.mod_eq_of_lt (by omega)]
    ring
  · simp only [List.length_append, List.length_singleton]
    rw [h.totalsize]
    have := h.d_le
    have : ids.length + 1 - d = (ids.length - d) + 1 := by omega
    rw [this]
    push_cast
    ring
  · exact h.maxsize
  · exact h.err
  · exact h.fh_eq
  · exact h.filesize
  · exact h.furthest
  · exact h.not_eof
  · exact h.eof
  · exact h.output

/-- A pass that adds a positive amount to the total uses up fuel. -/
theorem fuel_step (tot max b : Int) (f : Nat) (hlt : tot < max)
    (hf : (max - tot).toNat < f + 1) (hb : 0 < b) : (max - (tot + b)).toNat < f := by
  omega

/-- The queueing loop ends within its fuel and keeps the invariant. -/
theorem download_queue_loop_inv (file fh : List Nat) (start : Nat)
    (hwrap : start + file.length + 2097152 ≤ 18446744073709551616) (d : Nat) :
    ∀ (fuel : Nat) (w : download_world) (ids : List Nat),
      download_inv file fh start w ids d →
      (w.xfer.req_maxsize - w.xfer.req_totalsize).toNat < fuel →
      ∃ g1 x1 ids1, xfer_download_queue_loop fuel w.g w.xfer = some (g1, x1) ∧
        download_inv file fh start { w with g := g1, xfer := x1 } ids1 d := by
  intro fuel
  induction fuel with
  | zero => intro w ids _ hf; omega
  | succ f ih =>
    intro w ids h hf
    by_cases hc : w.xfer.req_totalsize < w.xfer.req_maxsize ∧ w.xfer.eof = false ∧
        w.xfer.err = false
    · obtain ⟨g1, x1, id, hbody, hinv, ht1, hm1⟩ :=
        download_queue_body_inv file fh start w ids d h hwrap hc.1 hc.2.1
      have hfuel : (x1.req_maxsize - x1.req_totalsize).toNat < f := by
        rw [ht1, hm1]
        exact fuel_step _ _ 32768 f hc.1 hf (by norm_num)
      obtain ⟨g2, x2, ids2, hloop, hinv2⟩ :=
        ih { w with g := g1, xfer := x1 } (ids ++ [id]) hinv hfuel
      refine ⟨g2, x2, ids2, ?_, hinv2⟩
      rw [xfer_download_queue_loop, if_pos hc, hbody]
      exact hloop
    · refine ⟨w.g, w.xfer, ids, ?_, h⟩
      rw [xfer_download_queue_loop, if_neg hc]

/-- `xfer_download_queue` keeps the invariant of the download. -/
theorem download_queue_inv (file fh : List Nat) (start : Nat)
    (hwrap : start + file.length + 2097152 ≤ 18446744073709551616)
    (w : download_world) (ids : List Nat) (d : Nat)
    (h : download_inv file fh start w ids d) :
    ∃ g1 x1 ids1, xfer_download_queue w.g w.xfer = some (g1, x1) ∧
      download_inv file fh start { w with g := g1, xfer := x1 } ids1 d :=
  download_queue_loop_inv file fh start hwrap d _ w ids h (Nat.lt_succ_self _)

/-- The invariant holds when the download starts. -/
theorem download_start_inv (file fh : List Nat) (start : Nat)
    (hwrap : start + file.length + 2097152 ≤ 18446744073709551616) :
    ∃ w0 ids, download_start fh start = some w0 ∧ download_inv file fh start w0 ids 0 := by
  have h0 : download_inv file fh start
      { g := sftp_globals_init, xfer := { xfer_init fh start false with eof := false },
        answered := [], output := [] } [] 0 := by
    constructor <;> simp [sftp_globals_init, xfer_init, chunk_offset]
    omega
  obtain ⟨g1, x1, ids1, hq, hinv⟩ := download_queue_inv file fh start hwrap _ [] 0 h0
  have hinit : xfer_download_init sftp_globals_init fh start = some (g1, x1) := hq
  refine ⟨{ g := g1, xfer := x1, answered := [], output := [] }, ids1, ?_, hinv⟩
  unfold download_start
  rw [hinit]
  rfl

/-- The bytes up to the end of one more chunk. -/
theorem take_chunk (file : List Nat) (start d : Nat) :
    (file.drop start).take (32768 * d) ++ chunk file start d =
      (file.drop start).take (32768 * (d + 1)) := by
  unfold chunk chunk_offset
  have h1 : 32768 * (d + 1) = 32768 * d + 32768 := by ring
  rw [h1, List.take_add, List.drop_drop]

/-- On an empty queue or a head still in flight `xfer_download_data` changes
nothing and returns 0. -/
theorem xfer_download_data_idle (x : fxp_xfer)
    (h : x.queue = [] ∨ ∃ rr tl, x.queue = rr :: tl ∧ rr.complete = 0) :
    xfer_download_data x = (x, 0, none) := by
  cases x with
  | mk offset furthestdata filesize req_totalsize req_maxsize eof err fh queue =>
    rcases h with h | ⟨rr, tl, h, hc⟩
    · simp only at h
      subst h
      simp [xfer_download_data, xfer_download_data_loop]
    · simp only at h
      subst h
      simp [xfer_download_data, xfer_download_data_loop, hc]

/-- A completed head is taken off the queue and its buffer handed out. -/
theorem xfer_download_data_take (x : fxp_xfer) (rr : req) (tl : List req) (b : List Nat)
    (hq : x.queue = rr :: tl) (hc : rr.complete = 1) (hb : rr.buffer = some b) :
    xfer_download_data x =
      ({ x with queue := tl, req_totalsize := x.req_totalsize - rr.len }, 1,
        some (b, rr.retlen)) := by
  simp [xfer_download_data, hq, xfer_download_data_loop, hc, hb, xfer_download_data_loop_some]

/-- `xfer_download_data` keeps the invariant of the download; a node taken off
the queue adds its chunk to the output. -/
theorem download_data_inv (file fh : List Nat) (start : Nat) (w : download_world)
    (ids : List Nat) (d : Nat) (h : download_inv file fh start w ids d) :
    ∃ w1 d1, download_step file w download_event.data = some w1 ∧
      download_inv file fh start w1 ids d1 := by
  have hql := h.queue_len
  have hdle := h.d_le
  have hidle : (w.xfer.queue = [] ∨ ∃ rr tl, w.xfer.queue = rr :: tl ∧ rr.complete = 0) →
      ∃ w1 d1, download_step file w download_event.data = some w1 ∧
        download_inv file fh start w1 ids d1 := by
    intro hi
    refine ⟨w, d, ?_, h⟩
    simp only [download_step, xfer_download_data_idle w.xfer hi]
  cases hq : w.xfer.queue with
  | nil => exact hidle (Or.inl hq)
  | cons rr tl =>
    have hnode := h.queue_ok 0 rr (by rw [hq]; simp)
    obtain ⟨haddr, hoff, hlen, hstate⟩ := hnode
    rcases hstate with ⟨hc, hna, hb⟩ | ⟨hc, ha, hret, b, hb, htake⟩
    · exact hidle (Or.inr ⟨rr, tl, hq, hc⟩)
    · have hstep : download_step file w download_event.data = some
          { w with
            xfer := { w.xfer with queue := tl, req_totalsize := w.xfer.req_totalsize - rr.len },
            output := w.output ++ b.take rr.retlen.toNat } := by
        simp only [download_step, xfer_download_data_take w.xfer rr tl b hq hc hb]
      refine ⟨_, d + 1, hstep, ?_⟩
      · rw [hq, List.length_cons] at hql
        constructor
        · show d + 1 ≤ ids.length
          omega
        · have := h.window; omega
        · exact h.bound
        · exact h.sent_len
        · exact h.sent_ok
        · exact h.ids_ok
        · exact h.heap
        · show tl.length = ids.length - (d + 1)
          omega
        · intro k r hk
          have := h.queue_ok (k + 1) r (by rw [hq]; simpa using hk)
          have he : d + 1 + k = d + (k + 1) := by omega
          rw [he]; exact this
        · intro i hi
          by_cases h1 : i < d
          · exact h.drained i h1
          · have h2 : i = d := by omega
            rw [h2]; simpa using ha
        · exact h.answered_lt
        · exact h.reg_sorted
        · exact h.reg_mem
        · exact h.reg_some
        · exact h.offset
        · show w.xfer.req_totalsize - rr.len = 32768 * ((ids.length - (d + 1) : Nat) : Int)
          rw [h.totalsize, hlen]
          have : ids.length - d = (ids.length - (d + 1)) + 1 := by omega
          rw [this]; push_cast; ring
        · exact h.maxsize
        · exact h.err
        · exact h.fh_eq
        · exact h.filesize
        · exact h.furthest
        · exact h.not_eof
        · exact h.eof
        · show w.output ++ b.take rr.retlen.toNat = _
          rw [h.output, htake]
          have := take_chunk file start d
          simpa using this

/-- The part of `xfer_download_gotpkt` after `rr->complete = 1`, for a node
whose read returned file data short only at the end of the file, or nothing
at or past the end of the file: no error is flagged, the tentative file size
stays at or above the real size and `furthestdata` below it. -/
theorem xfer_download_gotpkt_tail_ok (g : sftp_globals) (x : fxp_xfer) (rr : req) (size : Nat)
    (hfs : size ≤ x.filesize) (hfd : x.furthestdata = 0 ∨ x.furthestdata < size)
    (hlen : rr.len = 32768) (hret : 0 ≤ rr.retlen) (hret2 : rr.retlen ≤ 32768)
    (hoff : rr.offset + 32768 < 18446744073709551616)
    (hcase : (0 < rr.retlen ∧ rr.offset < size ∧
        (rr.retlen < 32768 → rr.offset + rr.retlen.toNat = size)) ∨
      (rr.retlen = 0 ∧ size ≤ rr.offset)) :
    ∃ fd fs, xfer_download_gotpkt_tail g x rr =
        (1, g, { x with queue := update_node x.queue rr.addr (fun _ => { rr with complete := 1 }),
                        furthestdata := fd, filesize := fs }) ∧
      size ≤ fs ∧ (fd = 0 ∨ fd < size) := by
  have hmod : ∀ n : Nat, n ≤ 32768 → uint64_add32 rr.offset n = rr.offset + n := by
    intro n hn
    unfold uint64_add32
    exact Nat.mod_eq_of_lt (by omega)
  have hneg : ¬ rr.retlen < 0 := by omega
  have htn : rr.retlen.toNat ≤ 32768 := by omega
  unfold xfer_download_gotpkt_tail
  simp only [hlen, hneg, if_false, hmod _ htn]
  by_cases h1 : rr.retlen > 0 ∧ x.furthestdata < rr.offset
  · simp only [h1, and_self, if_true]
    have hoffs : rr.offset < size := by
      rcases hcase with hc | hc
      · exact hc.2.1
      · omega
    by_cases h2 : rr.retlen < 32768
    · simp only [h2, if_true]
      have hsz : rr.offset + rr.retlen.toNat = size := by
        rcases hcase with hc | hc
        · exact hc.2.2 h2
        · omega
      by_cases h3 : x.filesize > rr.offset + rr.retlen.toNat
      · simp only [h3, if_true]
        rw [if_neg (by simp only [gt_iff_lt, not_lt]; omega)]
        exact ⟨_, _, rfl, by omega, Or.inr hoffs⟩
      · simp only [h3, if_false]
        rw [if_neg (by simp only [gt_iff_lt, not_lt]; omega)]
        exact ⟨_, _, rfl, hfs, Or.inr hoffs⟩
    · simp only [h2, if_false]
      rw [if_neg (by simp only [gt_iff_lt, not_lt]; omega)]
      exact ⟨_, _, rfl, hfs, Or.inr hoffs⟩
  · simp only [h1, if_false]
    by_cases h2 : rr.retlen < 32768
    · simp only [h2, if_true]
      have hsz : size ≤ rr.offset + rr.retlen.toNat := by
        rcases hcase with hc | hc
        · exact le_of_eq (hc.2.2 h2).symm
        · omega
      by_cases h3 : x.filesize > rr.offset + rr.retlen.toNat
      · simp only [h3, if_true]
        rw [if_neg (by simp only [gt_iff_lt, not_lt]; omega)]
        exact ⟨_, _, rfl, hsz, hfd⟩
      · simp only [h3, if_false]
        rw [if_neg (by simp only [gt_iff_lt, not_lt]; omega)]
        exact ⟨_, _, rfl, hfs, hfd⟩
    · simp only [h2, if_false]
      rw [if_neg (by simp only [gt_iff_lt, not_lt]; omega)]
      exact ⟨_, _, rfl, hfs, hfd⟩


/-- What is left to read of a response once the request id has been read. -/
theorem after_id_reads (type id : Nat) (body : List Nat) :
    reads (after_id (packet_with_id type id body)).src body := by
  refine ⟨rfl, ?_⟩
  simp [after_id, packet_with_id, PUT_32BIT]

/-- `fxp_read_recv` on a DATA response of at most 32768 bytes returns the
number of bytes and copies them. -/
theorem fxp_read_recv_data (g : sftp_globals) (id : Nat) (c : List Nat)
    (hc : c.length ≤ 32768) :
    fxp_read_recv g (after_id (packet_with_id SSH_FXP_DATA id (put_string [] c))) 32768 =
      ((c.length : Int), some c, g) := by
  have hps : put_string [] c = PUT_32BIT c.length ++ c ++ [] := by
    simp [put_string, Nat.mod_eq_of_lt (show c.length < 4294967296 by omega)]
  rw [hps]
  have hr := after_id_reads SSH_FXP_DATA id (PUT_32BIT c.length ++ c ++ [])
  obtain ⟨h1, h2⟩ := get_string_reads _ c [] hr (by omega)
  have htype : (after_id (packet_with_id SSH_FXP_DATA id (PUT_32BIT c.length ++ c ++ []))).type =
      SSH_FXP_DATA := rfl
  unfold fxp_read_recv
  rw [if_pos htype]
  have hsplit : get_string
      (after_id (packet_with_id SSH_FXP_DATA id (PUT_32BIT c.length ++ c ++ []))).src =
      (c, (get_string
        (after_id (packet_with_id SSH_FXP_DATA id (PUT_32BIT c.length ++ c ++ []))).src).2) :=
    Prod.ext h1 rfl
  rw [hsplit]
  have hle : ¬ ((c.length : Int) > 32768 % 18446744073709551616) := by
    have : (32768 : Int) % 18446744073709551616 = 32768 := by decide
    rw [this]; omega
  simp only [get_err, h2.1, hle, if_false]
  have hret : toint32 (c.length % 4294967296) = (c.length : Int) := by
    rw [Nat.mod_eq_of_lt (by omega)]
    unfold toint32
    rw [if_pos (by omega)]
  simp [hret]

/-- `fxp_got_status` only touches the error globals. -/
theorem fxp_got_status_frame (g : sftp_globals) (p : sftp_packet) :
    (fxp_got_status g p).2.sftp_requests = g.sftp_requests ∧
      (fxp_got_status g p).2.sent = g.sent ∧
      (fxp_got_status g p).2.heap_next = g.heap_next := by
  unfold fxp_got_status
  simp only
  split_ifs <;> exact ⟨rfl, rfl, rfl⟩

/-- `fxp_read_recv` on a status response `SSH_FX_EOF` returns -1 and records
the error type `SSH_FX_EOF`. -/
theorem fxp_read_recv_eof (g : sftp_globals) (id : Nat) (rest : List Nat) :
    ∃ g2, fxp_read_recv g
        (after_id (packet_with_id SSH_FXP_STATUS id (put_uint32 [] 1 ++ rest))) 32768 =
        (-1, none, g2) ∧ g2.fxp_errtype = SSH_FX_EOF ∧
      g2.sftp_requests = g.sftp_requests ∧ g2.sent = g.sent ∧ g2.heap_next = g.heap_next := by
  have hps : put_uint32 [] 1 ++ rest = PUT_32BIT 1 ++ rest := by
    simp [put_uint32]
  rw [hps]
  have hr := after_id_reads SSH_FXP_STATUS id (PUT_32BIT 1 ++ rest)
  obtain ⟨h1, h2, _⟩ := get_uint32_reads _ 1 rest hr (by norm_num)
  have htype : (after_id (packet_with_id SSH_FXP_STATUS id (PUT_32BIT 1 ++ rest))).type =
      SSH_FXP_STATUS := rfl
  have hne : ¬ (after_id (packet_with_id SSH_FXP_STATUS id (PUT_32BIT 1 ++ rest))).type =
      SSH_FXP_DATA := by rw [htype]; decide
  refine ⟨(fxp_got_status g (after_id (packet_with_id SSH_FXP_STATUS id
    (PUT_32BIT 1 ++ rest)))).2, ?_, ?_, (fxp_got_status_frame g _).1,
    (fxp_got_status_frame g _).2.1, (fxp_got_status_frame g _).2.2⟩
  · unfold fxp_read_recv
    rw [if_neg hne]
  · unfold fxp_got_status
    have hsplit : get_uint32
        (after_id (packet_with_id SSH_FXP_STATUS id (PUT_32BIT 1 ++ rest))).src =
        (1, (get_uint32
          (after_id (packet_with_id SSH_FXP_STATUS id (PUT_32BIT 1 ++ rest))).src).2) :=
      Prod.ext h1 rfl
    simp only [htype, ne_eq, not_true_eq_false, if_false]
    rw [hsplit]
    simp only [get_err, h2.1]
    simp [toint32, SSH_FX_EOF]

/-- Looking a node up by its address finds the node at index `k` when the
nodes before it live elsewhere. -/
theorem find_node (q : List req) (a : Nat) :
    ∀ (k : Nat) (rr : req), q[k]? = some rr → rr.addr = a →
      (∀ j r, j < k → q[j]? = some r → r.addr ≠ a) →
      q.find? (fun r => decide (r.addr = a)) = some rr := by
  induction q with
  | nil => intro k rr h; simp at h
  | cons x xs ih =>
    intro k rr h ha hbefore
    cases k with
    | zero =>
      simp at h
      subst h
      simp [ha]
    | succ j =>
      have hx : x.addr ≠ a := hbefore 0 x (by omega) (by simp)
      rw [List.find?_cons]
      simp only [hx, decide_False]
      apply ih j rr (by simpa using h) ha
      intro j2 r hj2 hr
      exact hbefore (j2 + 1) r (by omega) (by simpa using hr)

/-- `xfer_download_gotpkt` once the request and its node have been found and
`fxp_read_recv` has returned. -/
theorem xfer_download_gotpkt_eq (g g1 g2 : sftp_globals) (x : fxp_xfer) (pkt : sftp_packet)
    (e : sftp_request) (a : Nat) (rr : req) (retlen : Int) (copied : Option (List Nat))
    (hfind : sftp_find_request g (some pkt) = some (some e, some (after_id pkt), g1))
    (hud : e.userdata = some a)
    (hnode : x.queue.find? (fun r => decide (r.addr = a)) = some rr)
    (hrecv : fxp_read_recv g1 (after_id pkt) rr.len = (retlen, copied, g2)) :
    xfer_download_gotpkt g x pkt =
      if (retlen < 0 ∧ fxp_error_type g2 = SSH_FX_EOF) ∨ retlen = 0 then
        some (xfer_download_gotpkt_tail g2 { x with eof := true }
          { rr with buffer := buffer_after rr.buffer copied, retlen := 0, complete := -1 })
      else if retlen < 0 then
        some (-1, g2,
          { xfer_set_error x with
            queue := update_node x.queue a (fun _ =>
              { rr with buffer := buffer_after rr.buffer copied, retlen := retlen,
                        complete := -1 }) })
      else
        some (xfer_download_gotpkt_tail g2 x
          { rr with buffer := buffer_after rr.buffer copied, retlen := retlen }) := by
  unfold xfer_download_gotpkt
  simp only [hfind, fxp_get_userdata, hud, hnode, hrecv]

/-- The invariant after a response has been processed, from what the
processing did to the globals and to the transfer. -/
theorem download_inv_answer (file fh : List Nat) (start : Nat) (w : download_world)
    (ids : List Nat) (d : Nat) (h : download_inv file fh start w ids d)
    (i : Nat) (hi : i < ids.length)
    (t : tree234) (ht : w.g.sftp_requests = some t)
    (g1 : sftp_globals) (rr1 : req) (fd fs : Nat) (eof1 : Bool)
    (hg1 : g1.sftp_requests = some (t.erase
      { id := ids.getD i 0, registered := 1, userdata := some (1 + i) }))
    (hg2 : g1.sent = w.g.sent) (hg3 : g1.heap_next = w.g.heap_next)
    (hrr : node_ok file start (i :: w.answered) i rr1)
    (hfs : file.length ≤ fs) (hfd : fd = 0 ∨ fd < file.length)
    (heof1 : eof1 = false → w.xfer.eof = false ∧ chunk_offset start i < file.length)
    (heof2 : eof1 = true → w.xfer.eof = true ∨ file.length ≤ chunk_offset start i) :
    download_inv file fh start
      { w with
        g := g1,
        xfer := { w.xfer with queue := update_node w.xfer.queue (1 + i) (fun _ => rr1),
                              furthestdata := fd, filesize := fs, eof := eof1 },
        answered := i :: w.answered } ids d := by
  have hnd : t.Nodup := by
    have := h.reg_sorted
    rw [ht] at this
    exact this.imp (fun hab heq => by rw [heq] at hab; exact lt_irrefl _ hab)
  constructor
  · exact h.d_le
  · exact h.window
  · exact h.bound
  · show g1.sent.length = ids.length
    rw [hg2]; exact h.sent_len
  · show ∀ j, j < ids.length → g1.sent[j]? = _
    rw [hg2]; exact h.sent_ok
  · exact h.ids_ok
  · show g1.heap_next = 1 + ids.length
    rw [hg3]; exact h.heap
  · show (update_node w.xfer.queue (1 + i) (fun _ => rr1)).length = ids.length - d
    simp [update_node, h.queue_len]
  · intro k r hk
    simp only [update_node, List.getElem?_map, Option.map_eq_some'] at hk
    obtain ⟨r0, hr0, hr⟩ := hk
    have hn0 := h.queue_ok k r0 hr0
    by_cases ha : r0.addr = 1 + i
    · rw [if_pos ha] at hr
      have hki : d + k = i := by have := hn0.1; omega
      rw [← hr, hki]; exact hrr
    · rw [if_neg ha] at hr
      have hki : d + k ≠ i := by
        intro hc; apply ha; rw [hn0.1, hc]
      rw [← hr]
      obtain ⟨h1, h2, h3, h4⟩ := hn0
      refine ⟨h1, h2, h3, ?_⟩
      rcases h4 with ⟨hc, hn, hb⟩ | ⟨hc, hm, hrest⟩
      · left
        refine ⟨hc, ?_, hb⟩
        simp only [List.mem_cons, not_or]
        exact ⟨hki, hn⟩
      · right
        exact ⟨hc, List.mem_cons_of_mem _ hm, hrest⟩
  · intro j hj
    exact List.mem_cons_of_mem _ (h.drained j hj)
  · intro j hj
    rcases List.mem_cons.mp hj with h1 | h1
    · rw [h1]; exact hi
    · exact h.answered_lt j h1
  · show (g1.sftp_requests.getD []).Pairwise _
    rw [hg1]
    have := h.reg_sorted
    rw [ht] at this
    exact this.sublist (List.erase_sublist _ _)
  · intro r
    show r ∈ g1.sftp_requests.getD [] ↔ _
    rw [hg1]
    simp only [Option.getD_some]
    rw [hnd.mem_erase_iff]
    have hm := h.reg_mem r
    rw [ht] at hm
    simp only [Option.getD_some] at hm
    rw [hm]
    constructor
    · rintro ⟨hne, j, hj, hnj, rfl⟩
      refine ⟨j, hj, ?_, rfl⟩
      simp only [List.mem_cons, not_or]
      refine ⟨?_, hnj⟩
      intro hc
      apply hne
      rw [hc]
    · rintro ⟨j, hj, hnj, rfl⟩
      simp only [List.mem_cons, not_or] at hnj
      refine ⟨?_, j, hj, hnj.2, rfl⟩
      intro hc
      have : (1 + j : Nat) = 1 + i := by
        have := congrArg (fun r => r.userdata) hc
        simpa using this
      omega
  · intro _
    show g1.sftp_requests ≠ none
    rw [hg1]; simp
  · exact h.offset
  · exact h.totalsize
  · exact h.maxsize
  · exact h.err
  · exact h.fh_eq
  · exact hfs
  · exact hfd
  · intro he j hj
    obtain ⟨he1, he2⟩ := heof1 he
    rcases List.mem_cons.mp hj with h1 | h1
    · rw [h1]; exact he2
    · exact h.not_eof he1 j h1
  · intro he
    rcases heof2 he with h1 | h1
    · obtain ⟨j, hj, hjs⟩ := h.eof h1
      exact ⟨j, List.mem_cons_of_mem _ hj, hjs⟩
    · exact ⟨i, List.mem_cons_self _ _, h1⟩
  · exact h.output

/-- What `xfer_download_gotpkt` does with the response to the `i`-th request
when the node completes: the shape of the new state for a given outcome of
`fxp_read_recv`. -/
theorem download_gotpkt_complete (file fh : List Nat) (start : Nat) (w : download_world)
    (ids : List Nat) (d : Nat) (h : download_inv file fh start w ids d)
    (hwrap : start + file.length + 2097152 ≤ 18446744073709551616)
    (i : Nat) (hi : i < ids.length) (hna : i ∉ w.answered)
    (ty : Nat) (body : List Nat)
    (hrecv : ∀ g1 : sftp_globals, ∃ (retlen : Int) (copied : Option (List Nat))
      (g2 : sftp_globals),
      fxp_read_recv g1 (after_id (packet_with_id ty (ids.getD i 0) body)) 32768 =
        (retlen, copied, g2) ∧
      g2.sftp_requests = g1.sftp_requests ∧ g2.sent = g1.sent ∧ g2.heap_next = g1.heap_next ∧
      ((chunk_offset start i < file.length ∧ retlen = (chunk file start i).length ∧
          copied = some (chunk file start i)) ∨
       (file.length ≤ chunk_offset start i ∧
          ((retlen = 0 ∧ copied = some []) ∨
           (retlen = -1 ∧ copied = none ∧ fxp_error_type g2 = SSH_FX_EOF))))) :
    ∃ ret g1 x1, xfer_download_gotpkt w.g w.xfer (packet_with_id ty (ids.getD i 0) body) =
        some (ret, g1, x1) ∧
      download_inv file fh start { w with g := g1, xfer := x1, answered := i :: w.answered }
        ids d := by
  have hdi : d ≤ i := by
    by_contra hlt
    exact hna (h.drained i (by omega))
  have hbound := h.bound
  have hoffb : chunk_offset start i + 32768 < 18446744073709551616 := by
    unfold chunk_offset; omega
  obtain ⟨t, ht⟩ : ∃ t, w.g.sftp_requests = some t := by
    have := h.reg_some (by omega)
    exact Option.ne_none_iff_exists'.mp this
  have hsorted : t.Pairwise (fun a b => a.id < b.id) := by
    have := h.reg_sorted; rw [ht] at this; exact this
  have he : ({ id := ids.getD i 0, registered := 1, userdata := some (1 + i) } : sftp_request)
      ∈ t := by
    have := (h.reg_mem { id := ids.getD i 0, registered := 1, userdata := some (1 + i) }).mpr
      ⟨i, hi, hna, rfl⟩
    rw [ht] at this; exact this
  have hqi : i - d < w.xfer.queue.length := by rw [h.queue_len]; omega
  obtain ⟨rr, hrr⟩ : ∃ rr, w.xfer.queue[i - d]? = some rr :=
    ⟨w.xfer.queue[i - d], List.getElem?_eq_getElem hqi⟩
  have hnode := h.queue_ok (i - d) rr hrr
  have hidx : d + (i - d) = i := by omega
  rw [hidx] at hnode
  obtain ⟨haddr, hoff, hlen, hstate⟩ := hnode
  have hstate0 : rr.complete = 0 ∧ rr.buffer ≠ none := by
    rcases hstate with ⟨hc, _, hb⟩ | ⟨_, hm, _⟩
    · exact ⟨hc, hb⟩
    · exact absurd hm hna
  have hfindnode : w.xfer.queue.find? (fun r => decide (r.addr = 1 + i)) = some rr := by
    apply find_node w.xfer.queue (1 + i) (i - d) rr hrr haddr
    intro j r hj hr
    have := (h.queue_ok j r hr).1
    omega
  have hfr := sftp_find_request_found w.g t (packet_with_id ty (ids.getD i 0) body) ht hsorted
    { id := ids.getD i 0, registered := 1, userdata := some (1 + i) } he rfl
    (by simp [packet_with_id, PUT_32BIT])
    (by
      simp only [packet_with_id, List.drop_succ_cons, List.drop_zero]
      rw [GET_PUT_32BIT _ _ (h.ids_ok i hi).2])
    (by simp)
  obtain ⟨retlen, copied, g2, hrv, hgr, hgs, hgh, hcases⟩ :=
    hrecv { w.g with sftp_requests := some (t.erase
      { id := ids.getD i 0, registered := 1, userdata := some (1 + i) }) }
  rw [← hlen] at hrv
  have heq := xfer_download_gotpkt_eq w.g _ g2 w.xfer _ _ (1 + i) rr retlen copied hfr rfl
    hfindnode hrv
  rw [heq]
  rcases hcases with ⟨hlt, hret, hcop⟩ | ⟨hge, hcase⟩
  · -- file data
    have hclen : (chunk file start i).length ≤ 32768 := by
      unfold chunk; exact List.length_take_le _ _
    have hcpos : 0 < (chunk file start i).length := by
      unfold chunk
      rw [List.length_take, List.length_drop]
      omega
    have hc1 : ¬ ((retlen < 0 ∧ fxp_error_type g2 = SSH_FX_EOF) ∨ retlen = 0) := by
      rw [hret]; omega
    have hc2 : ¬ retlen < 0 := by rw [hret]; omega
    rw [if_neg hc1, if_neg hc2]
    obtain ⟨fd, fs, htail, hfs, hfd⟩ := xfer_download_gotpkt_tail_ok g2 w.xfer
      { rr with buffer := buffer_after rr.buffer copied, retlen := retlen } file.length
      h.filesize h.furthest hlen (by simp only; rw [hret]; omega)
      (by simp only; rw [hret]; omega) (by simp only; rw [hoff]; exact hoffb)
      (Or.inl ⟨by simp only; rw [hret]; omega, by simp only; rw [hoff]; exact hlt, by
        simp only
        rw [hret, hoff]
        intro hshort
        have hl : (chunk file start i).length = file.length - chunk_offset start i := by
          unfold chunk
          rw [List.length_take, List.length_drop]
          unfold chunk at hshort
          rw [List.length_take, List.length_drop] at hshort
          omega
        rw [Int.toNat_ofNat, hl]
        omega⟩)
    rw [htail]
    refine ⟨1, g2, _, rfl, ?_⟩
    have hinv := download_inv_answer file fh start w ids d h i hi t ht g2
      { rr with buffer := buffer_after rr.buffer copied, retlen := retlen, complete := 1 }
      fd fs w.xfer.eof (by rw [hgr]) (by rw [hgs]) (by rw [hgh])
      ⟨haddr, hoff, hlen, Or.inr ⟨rfl, List.mem_cons_self _ _, by simp only; rw [hret]; omega,
        chunk file start i, by simp only; rw [hcop]; rfl, by
          simp only
          rw [hret, Int.toNat_ofNat, List.take_length]⟩⟩
      hfs hfd (fun he => ⟨he, hlt⟩) (fun he => Or.inl he)
    rw [← haddr] at hinv
    exact hinv
  · -- at or past the end of the file
    have hc1 : (retlen < 0 ∧ fxp_error_type g2 = SSH_FX_EOF) ∨ retlen = 0 := by
      rcases hcase with ⟨h1, _⟩ | ⟨h1, _, h3⟩
      · exact Or.inr h1
      · exact Or.inl ⟨by omega, h3⟩
    rw [if_pos hc1]
    obtain ⟨b0, hb0⟩ : ∃ b0, buffer_after rr.buffer copied = some b0 := by
      rcases hcase with ⟨_, h2⟩ | ⟨_, h2, _⟩
      · exact ⟨[], by rw [h2]; rfl⟩
      · rw [h2]
        exact Option.ne_none_iff_exists'.mp hstate0.2
    obtain ⟨fd, fs, htail, hfs, hfd⟩ := xfer_download_gotpkt_tail_ok g2
      { w.xfer with eof := true }
      { rr with buffer := buffer_after rr.buffer copied, retlen := 0, complete := -1 }
      file.length h.filesize h.furthest hlen (le_refl _) (by norm_num)
      (by simp only; rw [hoff]; exact hoffb)
      (Or.inr ⟨rfl, by simp only; rw [hoff]; exact hge⟩)
    rw [htail]
    refine ⟨1, g2, _, rfl, ?_⟩
    have hchunk : chunk file start i = [] := by
      unfold chunk
      rw [List.drop_eq_nil_of_le hge]
      rfl
    have hinv := download_inv_answer file fh start w ids d h i hi t ht g2
      { rr with buffer := buffer_after rr.buffer copied, retlen := 0, complete := 1 }
      fd fs true (by rw [hgr]) (by rw [hgs]) (by rw [hgh])
      ⟨haddr, hoff, hlen, Or.inr ⟨rfl, List.mem_cons_self _ _, le_refl _,
        b0, hb0, by simp [hchunk]⟩⟩
      hfs hfd (fun he => by simp at he) (fun _ => Or.inr hge)
    rw [← haddr] at hinv
    exact hinv

/-- The arrival of a response keeps the invariant of the download. -/
theorem download_gotpkt_inv (file fh : List Nat) (start : Nat) (w : download_world)
    (ids : List Nat) (d : Nat) (h : download_inv file fh start w ids d)
    (hfh : fh.length < 4294967296)
    (hwrap : start + file.length + 2097152 ≤ 18446744073709551616)
    (i : Nat) (style : Bool) :
    ∃ w1, download_step file w (download_event.gotpkt i style) = some w1 ∧
      download_inv file fh start w1 ids d := by
  by_cases hmem : i ∈ w.answered
  · exact ⟨w, by simp [download_step, hmem], h⟩
  by_cases hi : i < ids.length
  swap
  · refine ⟨w, ?_, h⟩
    have hnone : w.g.sent[i]? = none := by
      apply List.getElem?_eq_none
      rw [h.sent_len]; omega
    simp [download_step, hmem, hnone]
  have hsent := h.sent_ok i hi
  have hbound := h.bound
  have hparse := parse_read_request_bytes fh (ids.getD i 0) (chunk_offset start i)
    (h.ids_ok i hi).2 hfh (by unfold chunk_offset; omega)
  have hstep : ∀ pkt, server_reply file
        (read_request_bytes fh (ids.getD i 0) (chunk_offset start i) 32768) style = some pkt →
      (∃ ret g1 x1, xfer_download_gotpkt w.g w.xfer pkt = some (ret, g1, x1) ∧
        download_inv file fh start { w with g := g1, xfer := x1, answered := i :: w.answered }
          ids d) →
      ∃ w1, download_step file w (download_event.gotpkt i style) = some w1 ∧
        download_inv file fh start w1 ids d := by
    intro pkt hreply ⟨ret, g1, x1, hgot, hinv⟩
    refine ⟨_, ?_, hinv⟩
    simp only [download_step, hmem, if_false, hsent, hreply, hgot]
  by_cases hlt : chunk_offset start i < file.length
  · -- the server sends the chunk
    have hclen : (chunk file start i).length ≤ 32768 := by
      unfold chunk; exact List.length_take_le _ _
    have hreply : server_reply file
        (read_request_bytes fh (ids.getD i 0) (chunk_offset start i) 32768) style =
        some (packet_with_id SSH_FXP_DATA (ids.getD i 0)
          (put_string [] (chunk file start i))) := by
      unfold server_reply
      rw [hparse]
      simp only [hlt, if_true]
      rfl
    exact hstep _ hreply
      (download_gotpkt_complete file fh start w ids d h hwrap i hi hmem SSH_FXP_DATA
        (put_string [] (chunk file start i))
        (fun g1 => ⟨((chunk file start i).length : Int), some (chunk file start i), g1,
          fxp_read_recv_data g1 (ids.getD i 0) (chunk file start i) hclen, rfl, rfl, rfl,
          Or.inl ⟨hlt, rfl, rfl⟩⟩))
  · have hge : file.length ≤ chunk_offset start i := by omega
    cases style with
    | false =>
      have hreply : server_reply file
          (read_request_bytes fh (ids.getD i 0) (chunk_offset start i) 32768) false =
          some (packet_with_id SSH_FXP_DATA (ids.getD i 0) (put_string [] [])) := by
        unfold server_reply
        rw [hparse]
        simp only [hlt, if_false]
        rfl
      exact hstep _ hreply
        (download_gotpkt_complete file fh start w ids d h hwrap i hi hmem SSH_FXP_DATA
          (put_string [] [])
          (fun g1 => ⟨(([] : List Nat).length : Int), some [], g1,
            fxp_read_recv_data g1 (ids.getD i 0) [] (by simp), rfl, rfl, rfl,
            Or.inr ⟨hge, Or.inl ⟨rfl, rfl⟩⟩⟩))
    | true =>
      have hbody : put_string (put_string (put_uint32 [] 1) []) [] =
          put_uint32 [] 1 ++ (PUT_32BIT 0 ++ PUT_32BIT 0) := by
        simp [put_string, put_uint32]
      have hreply : server_reply file
          (read_request_bytes fh (ids.getD i 0) (chunk_offset start i) 32768) true =
          some (packet_with_id SSH_FXP_STATUS (ids.getD i 0)
            (put_uint32 [] 1 ++ (PUT_32BIT 0 ++ PUT_32BIT 0))) := by
        unfold server_reply
        rw [hparse]
        simp only [hlt, if_false, if_true, hbody]
      exact hstep _ hreply
        (download_gotpkt_complete file fh start w ids d h hwrap i hi hmem SSH_FXP_STATUS
          (put_uint32 [] 1 ++ (PUT_32BIT 0 ++ PUT_32BIT 0))
          (fun g1 => by
            obtain ⟨g2, hr, he, h1, h2, h3⟩ := fxp_read_recv_eof g1 (ids.getD i 0)
              (PUT_32BIT 0 ++ PUT_32BIT 0)
            exact ⟨-1, none, g2, hr, h1, h2, h3, Or.inr ⟨hge, Or.inr ⟨rfl, rfl, he⟩⟩⟩))

/-- Every move of a download session succeeds and keeps the invariant. -/
theorem download_step_inv (file fh : List Nat) (start : Nat)
    (hfh : fh.length < 4294967296)
    (hwrap : start + file.length + 2097152 ≤ 18446744073709551616)
    (w : download_world) (ids : List Nat) (d : Nat)
    (h : download_inv file fh start w ids d) (e : download_event) :
    ∃ w1 ids1 d1, download_step file w e = some w1 ∧
      download_inv file fh start w1 ids1 d1 := by
  cases e with
  | queue =>
    obtain ⟨g1, x1, ids1, hq, hinv⟩ := download_queue_inv file fh start hwrap w ids d h
    refine ⟨_, ids1, d, ?_, hinv⟩
    simp only [download_step, hq]
  | data =>
    obtain ⟨w1, d1, hs, hinv⟩ := download_data_inv file fh start w ids d h
    exact ⟨w1, ids, d1, hs, hinv⟩
  | gotpkt i style =>
    obtain ⟨w1, hs, hinv⟩ := download_gotpkt_inv file fh start w ids d h hfh hwrap i style
    exact ⟨w1, ids, d, hs, hinv⟩

/-- Every session runs to its end and keeps the invariant. -/
theorem download_run_inv (file fh : List Nat) (start : Nat)
    (hfh : fh.length < 4294967296)
    (hwrap : start + file.length + 2097152 ≤ 18446744073709551616)
    (events : List download_event) :
    ∀ (w : download_world) (ids : List Nat) (d : Nat),
      download_inv file fh start w ids d →
      ∃ w1 ids1 d1, download_run file events w = some w1 ∧
        download_inv file fh start w1 ids1 d1 := by
  induction events with
  | nil => intro w ids d h; exact ⟨w, ids, d, rfl, h⟩
  | cons e es ih =>
    intro w ids d h
    obtain ⟨w1, ids1, d1, hs, hinv⟩ := download_step_inv file fh start hfh hwrap w ids d h e
    obtain ⟨w2, ids2, d2, hr, hinv2⟩ := ih w1 ids1 d1 hinv
    refine ⟨w2, ids2, d2, ?_, hinv2⟩
    simp only [download_run, hs, hr]

/-- When the transfer is done the output is the file from the start offset. -/
theorem download_inv_done (file fh : List Nat) (start : Nat) (w : download_world)
    (ids : List Nat) (d : Nat) (h : download_inv file fh start w ids d)
    (hdone : xfer_done w.xfer = true) : w.output = file.drop start := by
  have herr := h.err
  have hql := h.queue_len
  have hdle := h.d_le
  simp only [xfer_done, herr, Bool.or_false, Bool.and_eq_true, List.isEmpty_iff] at hdone
  obtain ⟨heof, hq⟩ := hdone
  rw [hq] at hql
  simp only [List.length_nil] at hql
  obtain ⟨i, hi, hsz⟩ := h.eof heof
  have hiM := h.answered_lt i hi
  rw [h.output]
  apply List.take_of_length_le
  rw [List.length_drop]
  unfold chunk_offset at hsz
  omega

/-- C5 (download correctness). For every file content, handle and start offset
(with offsets and handle length inside their 64- and 32-bit fields), in a
fresh SFTP session against a server that answers each READ of 32768 bytes at
offset `o` with the file bytes from `o` to `min (o + 32768) size`, or at and
past the end of the file with empty data or a status `SSH_FX_EOF`, and for
every interleaving of `xfer_download_queue` calls, `xfer_download_data` calls
and response arrivals in any order: the client never crashes and never flags
an error, and once `xfer_done` holds the concatenation of the buffers returned
by `xfer_download_data`, in return order, is the file from the start offset
to its end. -/
theorem C5_download_correct (file fh : List Nat) (start : Nat)
    (events : List download_event)
    (hfh : fh.length < 4294967296)
    (hwrap : start + file.length + 2097152 ≤ 18446744073709551616) :
    ∃ w0 w, download_start fh start = some w0 ∧ download_run file events w0 = some w ∧
      w.xfer.err = false ∧ (xfer_done w.xfer = true → w.output = file.drop start) := by
  obtain ⟨w0, ids0, hstart, hinv0⟩ := download_start_inv file fh start hwrap
  obtain ⟨w, ids, d, hrun, hinv⟩ :=
    download_run_inv file fh start hfh hwrap events w0 ids0 0 hinv0
  exact ⟨w0, w, hstart, hrun, hinv.err, download_inv_done file fh start w ids d hinv⟩

set_option maxRecDepth 100000 in
/-- C5 on a three-byte file whose 32 initial requests are answered from the
last to the first, alternating between the two ways of reporting the end of
the file, before the caller collects the data: the session ends done, without
error, with the output 10, 20, 30. -/
theorem C5_download_correct_witness :
    (∃ w0 w, download_start [1, 2] 0 = some w0 ∧
      download_run [10, 20, 30] download_example_events w0 = some w ∧
      w.xfer.err = false ∧ (xfer_done w.xfer = true → w.output = [10, 20, 30].drop 0)) ∧
    download_example = some (true, false, [10, 20, 30]) :=
  ⟨C5_download_correct [10, 20, 30] [1, 2] 0 download_example_events (by decide) (by decide),
   by decide⟩

theorem out_keeps.refl (s : ssh2_bpp_state) : out_keeps s s :=
  ⟨rfl, rfl, rfl, rfl, rfl, rfl, rfl, rfl⟩

theorem out_keeps.trans {s s1 s2 : ssh2_bpp_state} (h1 : out_keeps s s1) (h2 : out_keeps s1 s2) :
    out_keeps s s2 :=
  ⟨h2.out_raw.trans h1.out_raw, h2.out_pq.trans h1.out_pq, h2.seq.trans h1.seq,
   h2.mac.trans h1.mac, h2.etm.trans h1.etm, h2.blk.trans h1.blk, h2.comp.trans h1.comp,
   h2.cbc.trans h1.cbc⟩

theorem out_keeps.cipherblk {s s1 : ssh2_bpp_state} (h : out_keeps s s1) :
    out_cipherblk s1 = out_cipherblk s := by
  have hb := h.blk
  unfold out_cipherblk
  cases h1 : s1.out.cipher <;> cases h0 : s.out.cipher <;> simp [h1, h0] at hb ⊢
  rw [hb.1]

theorem out_keeps.maclen {s s1 : ssh2_bpp_state} (h : out_keeps s s1) :
    out_maclen s1 = out_maclen s := by
  unfold out_maclen; rw [h.mac]

theorem format_compress_keeps (s : ssh2_bpp_state) (pkt : PktOut) :
    out_keeps s (format_compress s pkt).1 := by
  unfold format_compress
  cases h : s.out_comp with
  | none => exact out_keeps.refl s
  | some comp => exact ⟨rfl, rfl, rfl, rfl, rfl, rfl, by simp [h], rfl⟩

theorem random_bytes_keeps (s : ssh2_bpp_state) (n : Nat) : out_keeps s (random_bytes s n).2 :=
  ⟨rfl, rfl, rfl, rfl, rfl, rfl, rfl, rfl⟩

theorem format_encrypt_length_keeps (s : ssh2_bpp_state) (data : List Nat) :
    out_keeps s (format_encrypt_length s data).1 := by
  unfold format_encrypt_length
  cases h : s.out.cipher with
  | none => exact out_keeps.refl s
  | some c =>
    by_cases hf : has_flag c.flags SSH_CIPHER_SEPARATE_LENGTH = true
    · simp only [hf, if_true]
      exact ⟨rfl, rfl, rfl, rfl, rfl, by simp [h, ssh2_cipher_encrypt_length, cipher_apply], rfl, rfl⟩
    · simp only [hf, if_false]
      exact out_keeps.refl s

theorem format_crypt_keeps (s : ssh2_bpp_state) (data : List Nat) (n : Nat) :
    out_keeps s (format_crypt s data n).1 := by
  unfold format_crypt
  cases hm : s.out.mac <;> cases hc : s.out.cipher <;> cases he : s.out.etm_mode <;>
    simp only [if_true, if_false, Bool.false_eq_true] <;>
    first
      | exact out_keeps.refl s
      | exact ⟨rfl, rfl, rfl, by simp [hm], by simp [he],
          by simp [hc, ssh2_cipher_encrypt, cipher_apply], rfl, rfl⟩

/-- Framing a packet leaves the byte chain and the queue alone, keeps the
parameters of the outgoing direction and advances the sequence number by
one. -/
theorem format_packet_inner_keeps (s : ssh2_bpp_state) (pkt : PktOut)
    (r : ssh2_bpp_state × PktOut) (h : ssh2_bpp_format_packet_inner s pkt = some r) :
    r.1.out_raw = s.out_raw ∧ r.1.out_pq = s.out_pq ∧
      r.1.out.sequence = (s.out.sequence + 1) % 4294967296 ∧
      out_cipherblk r.1 = out_cipherblk s ∧ out_maclen r.1 = out_maclen s ∧
      r.1.out_comp.isNone = s.out_comp.isNone ∧
      r.1.out.cipher.map (fun c => (c.blksize, c.flags)) =
        s.out.cipher.map (fun c => (c.blksize, c.flags)) ∧
      r.1.out.mac = s.out.mac ∧ r.1.cbc_ignore_workaround = s.cbc_ignore_workaround := by
  have key : ∀ (a : Nat) (b c : List Nat) (d : Nat), out_keeps s
      (format_crypt (format_encrypt_length (random_bytes (format_compress s pkt).1 a).2 b).1
        c d).1 := fun a b c d =>
    ((format_compress_keeps s pkt).trans (random_bytes_keeps _ a)).trans
      ((format_encrypt_length_keeps _ b).trans (format_crypt_keeps _ c d))
  unfold ssh2_bpp_format_packet_inner at h
  simp only at h
  split_ifs at h with hp
  simp only [Option.some.injEq] at h
  subst h
  refine ⟨(key _ _ _ _).out_raw, (key _ _ _ _).out_pq, ?_, ?_, ?_, (key _ _ _ _).comp,
    (key _ _ _ _).blk, (key _ _ _ _).mac, (key _ _ _ _).cbc⟩
  · simp only; rw [(key _ _ _ _).seq]
  · rw [← (key _ _ _ _).cipherblk]; rfl
  · rw [← (key _ _ _ _).maclen]; rfl

theorem seq_run_append (a c : Nat) (x y : List out_frame) :
    seq_run a (x ++ y) c ↔ ∃ b, seq_run a x b ∧ seq_run b y c := by
  induction x generalizing a with
  | nil => simp [seq_run]
  | cons f x ih =>
    show (f.seq = a ∧ seq_run ((a + 1) % 4294967296) (x ++ y) c) ↔
      ∃ b, (f.seq = a ∧ seq_run ((a + 1) % 4294967296) x b) ∧ seq_run b y c
    rw [ih]
    constructor
    · rintro ⟨h1, b, h2, h3⟩; exact ⟨b, ⟨h1, h2⟩, h3⟩
    · rintro ⟨b, ⟨h1, h2⟩, h3⟩; exact ⟨h1, b, h2, h3⟩

theorem seq_run_length (a b : Nat) (fs : List out_frame) (ha : a < 4294967296)
    (h : seq_run a fs b) : b = (a + fs.length) % 4294967296 := by
  induction fs generalizing a with
  | nil => simp only [seq_run] at h; simp only [List.length_nil, Nat.add_zero]; omega
  | cons f fs ih =>
    simp only [seq_run] at h
    rw [ih _ (Nat.mod_lt _ (by decide)) h.2, List.length_cons]
    omega

theorem frames_bytes_append (x y : List out_frame) :
    frames_bytes (x ++ y) = frames_bytes x ++ frames_bytes y := by
  simp [frames_bytes]

/-- Whether an `SSH_MSG_IGNORE` is needed depends on the state only through
the block size, the MAC length and the presence of a compressor. -/
theorem minlen_ignore_needed_congr (s s1 : ssh2_bpp_state) (pkt : PktOut)
    (hb : out_cipherblk s1 = out_cipherblk s) (hm : out_maclen s1 = out_maclen s)
    (hc : s1.out_comp.isNone = s.out_comp.isNone) :
    minlen_ignore_needed s1 pkt = minlen_ignore_needed s pkt := by
  unfold minlen_ignore_needed expected_length
  rw [hb, hm, hc]

/-- In a given state the formatter makes one frame of a packet, and leaves
one state. -/
theorem framed_in_unique (f g : out_frame) (st a b : ssh2_bpp_state) (hp : f.pkt = g.pkt)
    (hf : f.framed_in st a) (hg : g.framed_in st b) : f = g ∧ a = b := by
  obtain ⟨fp, fs, fb⟩ := f
  obtain ⟨gp, gs, gb⟩ := g
  obtain ⟨h1, r, h2, h3, h4⟩ := hf
  obtain ⟨k1, r2, k2, k3, k4⟩ := hg
  simp only at hp h1 h2 h3 k1 k2 k3
  subst hp
  rw [h2, Option.some.injEq] at k2
  subst k2
  subst h1 k1 h3 k3 h4 k4
  exact ⟨rfl, rfl⟩

/-- The group of a packet taken up in a given state is determined. -/
theorem packet_frames_unique (s0 t a b : ssh2_bpp_state) (g g2 : List out_frame) (pkt : PktOut)
    (h : packet_frames s0 t g pkt a) (h2 : packet_frames s0 t g2 pkt b) : g = g2 ∧ a = b := by
  rcases h with ⟨hn, f, rfl, hp, hf⟩ | ⟨hn, ign, f, tm, rfl, hip, _, _, hif, hp, hf⟩
  · rcases h2 with ⟨_, f2, rfl, hp2, hf2⟩ | ⟨hn2, _⟩
    · obtain ⟨e1, e2⟩ := framed_in_unique f f2 _ _ _ (hp.trans hp2.symm) hf hf2
      exact ⟨by rw [e1], e2⟩
    · rw [hn] at hn2; exact absurd hn2 (by simp)
  · rcases h2 with ⟨hn2, _⟩ | ⟨_, ign2, f2, tm2, rfl, hip2, _, _, hif2, hp2, hf2⟩
    · rw [hn] at hn2; exact absurd hn2 (by simp)
    · obtain ⟨e1, e2⟩ := framed_in_unique ign ign2 _ _ _ (hip.trans hip2.symm) hif hif2
      subst e2
      obtain ⟨e3, e4⟩ := framed_in_unique f f2 _ _ _ (hp.trans hp2.symm) hf hf2
      exact ⟨by rw [e1, e3], e4⟩

/-- The groups of a queue taken up in a given state are determined. -/
theorem queue_frames_unique (s0 : ssh2_bpp_state) (q : List PktOut) :
    ∀ (t a b : ssh2_bpp_state) (gs gs2 : List (List out_frame)),
      queue_frames s0 t gs q a → queue_frames s0 t gs2 q b → gs = gs2 ∧ a = b := by
  induction q with
  | nil =>
    intro t a b gs gs2 h h2
    cases gs with
    | cons g gs => exact absurd h (by simp [queue_frames])
    | nil =>
      cases gs2 with
      | cons g gs => exact absurd h2 (by simp [queue_frames])
      | nil =>
        simp only [queue_frames] at h h2
        exact ⟨rfl, h.trans h2.symm⟩
  | cons pkt q ih =>
    intro t a b gs gs2 h h2
    cases gs with
    | nil => exact absurd h (by simp [queue_frames])
    | cons g gs =>
      cases gs2 with
      | nil => exact absurd h2 (by simp [queue_frames])
      | cons g2 gs2 =>
        simp only [queue_frames] at h h2
        obtain ⟨tm, hg, hr⟩ := h
        obtain ⟨tm2, hg2, hr2⟩ := h2
        obtain ⟨e1, e2⟩ := packet_frames_unique _ _ _ _ _ _ _ hg hg2
        subst e2
        obtain ⟨e3, e4⟩ := ih _ _ _ _ _ hr hr2
        exact ⟨by rw [e1, e3], e4⟩

/-- The frames of one output call are determined by the state at its start. -/
theorem output_frames_unique (s a b : ssh2_bpp_state) (cbc cbc2 : List out_frame)
    (gs gs2 : List (List out_frame)) (h : output_frames s cbc gs a)
    (h2 : output_frames s cbc2 gs2 b) : cbc = cbc2 ∧ gs = gs2 ∧ a = b := by
  obtain ⟨t, hc, hq⟩ := h
  obtain ⟨t2, hc2, hq2⟩ := h2
  have key : cbc = cbc2 ∧ t = t2 := by
    rcases hc with ⟨hn, f, rfl, hp, hf⟩ | ⟨hn, rfl, rfl⟩
    · rcases hc2 with ⟨_, f2, rfl, hp2, hf2⟩ | ⟨hn2, _⟩
      · obtain ⟨e1, e2⟩ := framed_in_unique f f2 _ _ _ (hp.trans hp2.symm) hf hf2
        exact ⟨by rw [e1], e2⟩
      · rw [hn] at hn2; exact absurd hn2 (by simp)
    · rcases hc2 with ⟨hn2, _⟩ | ⟨_, rfl, rfl⟩
      · rw [hn] at hn2; exact absurd hn2 (by simp)
      · exact ⟨rfl, rfl⟩
  obtain ⟨e1, e2⟩ := key
  subst e2
  obtain ⟨e3, e4⟩ := queue_frames_unique _ _ _ _ _ _ _ hq hq2
  exact ⟨e1, e3, e4⟩

/-- The frames that `ssh2_bpp_format_packet` appends for one packet. -/
theorem format_packet_group (s0 s s1 : ssh2_bpp_state) (pkt : PktOut)
    (hb0 : out_cipherblk s = out_cipherblk s0) (hm0 : out_maclen s = out_maclen s0)
    (hc0 : s.out_comp.isNone = s0.out_comp.isNone)
    (h : ssh2_bpp_format_packet s pkt = some s1) :
    ∃ g : List out_frame, packet_frames s0 s g pkt s1 ∧
      s1.out_raw = s.out_raw ++ frames_bytes g ∧
      seq_run s.out.sequence g s1.out.sequence ∧
      s1.out_pq = s.out_pq ∧ out_cipherblk s1 = out_cipherblk s ∧
      out_maclen s1 = out_maclen s ∧ s1.out_comp.isNone = s.out_comp.isNone := by
  have hcond := minlen_ignore_needed_congr s0 s pkt hb0 hm0 hc0
  unfold ssh2_bpp_format_packet at h
  by_cases hn : pkt.minlen > 0 ∧ s.out_comp.isNone ∧ expected_length s pkt < pkt.minlen
  · rw [if_pos hn] at h
    cases hi : ssh2_bpp_format_packet_inner (random_bytes s (ignore_length s pkt)).2
        (ignore_pktout s (ignore_length s pkt)) with
    | none => rw [hi] at h; exact absurd h (by simp)
    | some r1 =>
      obtain ⟨sa, pa⟩ := r1
      rw [hi] at h
      simp only at h
      cases hj : ssh2_bpp_format_packet_inner (out_raw_add sa pa.data) pkt with
      | none => rw [hj] at h; exact absurd h (by simp)
      | some r2 =>
        obtain ⟨sb, pb⟩ := r2
        rw [hj] at h
        simp only [Option.some.injEq] at h
        subst h
        have k1 := format_packet_inner_keeps _ _ _ hi
        have k2 := format_packet_inner_keeps _ _ _ hj
        simp only at k1 k2
        refine ⟨[⟨ignore_pktout s (ignore_length s pkt), s.out.sequence, pa.data⟩,
          ⟨pkt, sa.out.sequence, pb.data⟩],
          Or.inr ⟨?_, _, _, out_raw_add sa pa.data, rfl, rfl, rfl, rfl,
            ⟨rfl, _, hi, rfl, rfl⟩, rfl, ⟨rfl, _, hj, rfl, rfl⟩⟩, ?_, ?_, ?_, ?_, ?_, ?_⟩
        · rw [← hcond]
          simp only [minlen_ignore_needed, decide_eq_true_eq]; exact hn
        · simp only [out_raw_add, frames_bytes, List.map_cons, List.map_nil, List.flatten_cons,
            List.flatten_nil, List.append_nil]
          rw [k2.1]; simp only [out_raw_add]; rw [k1.1]
          simp [random_bytes, List.append_assoc]
        · simp only [seq_run]
          refine ⟨trivial, k1.2.2.1, ?_⟩
          show sb.out.sequence = _
          rw [k2.2.2.1]
          show (sa.out.sequence + 1) % 4294967296 = _
          rw [k1.2.2.1]; rfl
        · simp only [out_raw_add]; rw [k2.2.1]; simp only [out_raw_add]; rw [k1.2.1]; rfl
        · simp only [out_raw_add]
          have e2 := k2.2.2.2.1
          have e1 := k1.2.2.2.1
          unfold out_cipherblk at e1 e2 ⊢
          simp only [out_raw_add, random_bytes] at e1 e2 ⊢
          rw [e2, e1]
        · have e2 := k2.2.2.2.2.1
          have e1 := k1.2.2.2.2.1
          unfold out_maclen at e1 e2 ⊢
          simp only [out_raw_add, random_bytes] at e1 e2 ⊢
          rw [e2, e1]
        · have e2 := k2.2.2.2.2.2.1
          have e1 := k1.2.2.2.2.2.1
          simp only [out_raw_add, random_bytes] at e1 e2 ⊢
          rw [e2, e1]
  · rw [if_neg hn] at h
    cases hj : ssh2_bpp_format_packet_inner s pkt with
    | none => rw [hj] at h; exact absurd h (by simp)
    | some r2 =>
      obtain ⟨sb, pb⟩ := r2
      rw [hj] at h
      simp only [Option.some.injEq] at h
      subst h
      have k2 := format_packet_inner_keeps _ _ _ hj
      simp only at k2
      refine ⟨[⟨pkt, s.out.sequence, pb.data⟩],
        Or.inl ⟨?_, _, rfl, rfl, ⟨rfl, _, hj, rfl, rfl⟩⟩, ?_, ?_, ?_, ?_, ?_, ?_⟩
      · rw [← hcond]
        simp only [minlen_ignore_needed, decide_eq_false_iff_not]; exact hn
      · simp only [out_raw_add, frames_bytes, List.map_cons, List.map_nil, List.flatten_cons,
          List.flatten_nil, List.append_nil]
        rw [k2.1]
      · simp only [seq_run]
        exact ⟨trivial, k2.2.2.1⟩
      · exact k2.2.1
      · exact k2.2.2.2.1
      · exact k2.2.2.2.2.1
      · exact k2.2.2.2.2.2.1

/-- The frames that the loop of `ssh2_bpp_handle_output` appends: one group
per queued packet, in queue order, each frame made in the state the engine
is in when the frame before it has been appended. -/
theorem handle_output_loop_chain (s0 : ssh2_bpp_state) (q : List PktOut) :
    ∀ s s1 : ssh2_bpp_state, s.out_pq = q → out_cipherblk s = out_cipherblk s0 →
      out_maclen s = out_maclen s0 → s.out_comp.isNone = s0.out_comp.isNone →
      handle_output_loop q s = some s1 →
      ∃ groups : List (List out_frame), queue_frames s0 s groups q s1 ∧
        s1.out_raw = s.out_raw ++ frames_bytes groups.flatten ∧
        seq_run s.out.sequence groups.flatten s1.out.sequence ∧ s1.out_pq = [] := by
  induction q with
  | nil =>
    intro s s1 hq _ _ _ h
    simp only [handle_output_loop, Option.some.injEq] at h
    subst h
    exact ⟨[], rfl, by simp [frames_bytes], rfl, hq⟩
  | cons pkt rest ih =>
    intro s s1 hq hb0 hm0 hc0 h
    simp only [handle_output_loop] at h
    cases hf : ssh2_bpp_format_packet { s with out_pq := rest } pkt with
    | none => rw [hf] at h; exact absurd h (by simp)
    | some sa =>
      rw [hf] at h
      simp only at h
      obtain ⟨g, hg, hraw, hseq, hpq, hb, hm, hc⟩ :=
        format_packet_group s0 { s with out_pq := rest } sa pkt hb0 hm0 hc0 hf
      have hraw0 : sa.out_raw = s.out_raw ++ frames_bytes g := hraw
      have hseq0 : seq_run s.out.sequence g sa.out.sequence := hseq
      obtain ⟨groups, hgs, hraw2, hseq2, hpq2⟩ :=
        ih sa s1 hpq (hb.trans hb0) (hm.trans hm0) (hc.trans hc0) h
      refine ⟨g :: groups, ⟨sa, hg, hgs⟩, ?_, ?_, hpq2⟩
      · rw [hraw2, hraw0, List.flatten_cons, frames_bytes_append, List.append_assoc]
      · rw [List.flatten_cons, seq_run_append]
        exact ⟨_, hseq0, hseq2⟩

/-- One call of `ssh2_bpp_handle_output` that returns: its frames. -/
theorem handle_output_frames (s s1 : ssh2_bpp_state) (h : ssh2_bpp_handle_output s = some s1) :
    ∃ (cbc : List out_frame) (groups : List (List out_frame)),
      output_frames s cbc groups s1 ∧
      s1.out_raw = s.out_raw ++ frames_bytes (cbc ++ groups.flatten) ∧
      seq_run s.out.sequence (cbc ++ groups.flatten) s1.out.sequence ∧ s1.out_pq = [] := by
  unfold ssh2_bpp_handle_output at h
  by_cases hw : s.cbc_ignore_workaround = true
  · rw [if_pos hw] at h
    cases hc : s.out.cipher with
    | none => rw [hc] at h; exact absurd h (by simp)
    | some c =>
      cases hm : s.out.mac with
      | none => rw [hc, hm] at h; exact absurd h (by simp)
      | some m =>
        rw [hc, hm] at h
        simp only at h
        by_cases hl : s.out_raw.length < c.blksize + m.len
        · rw [if_pos hl] at h
          cases hf : ssh2_bpp_format_packet s cbc_ignore_pktout with
          | none => rw [hf] at h; exact absurd h (by simp)
          | some sa =>
            rw [hf] at h
            simp only at h
            obtain ⟨g, hg, hraw, hseq, hpq, hb, hmm, hcc⟩ :=
              format_packet_group s _ _ _ rfl rfl rfl hf
            obtain ⟨groups, hgs, hraw2, hseq2, hpq2⟩ :=
              handle_output_loop_chain s _ sa s1 rfl hb hmm hcc h
            have hno : minlen_ignore_needed s cbc_ignore_pktout = false := by
              simp [minlen_ignore_needed, cbc_ignore_pktout, ssh2_bpp_new_pktout]
            rcases hg with ⟨_, f, rfl, hfp, hff⟩ | ⟨hyes, _⟩
            · refine ⟨[f], groups, ⟨sa, Or.inl ⟨?_, f, rfl, hfp, hff⟩, ?_⟩, ?_, ?_, hpq2⟩
              · simp [cbc_ignore_needed, hw, hc, hm, out_maclen, hl]
              · rw [← hpq]; exact hgs
              · rw [hraw2, hraw, frames_bytes_append, List.append_assoc]
              · rw [seq_run_append]; exact ⟨_, hseq, hseq2⟩
            · rw [hno] at hyes; exact absurd hyes (by simp)
        · rw [if_neg hl] at h
          obtain ⟨groups, hgs, hraw2, hseq2, hpq2⟩ :=
            handle_output_loop_chain s _ s s1 rfl rfl rfl rfl h
          refine ⟨[], groups, ⟨s, Or.inr ⟨?_, rfl, rfl⟩, hgs⟩, by simpa using hraw2,
            by simpa using hseq2, hpq2⟩
          simp [cbc_ignore_needed, hw, hc, hm, out_maclen, hl]
  · rw [if_neg hw] at h
    obtain ⟨groups, hgs, hraw2, hseq2, hpq2⟩ :=
      handle_output_loop_chain s _ s s1 rfl rfl rfl rfl h
    refine ⟨[], groups, ⟨s, Or.inr ⟨?_, rfl, rfl⟩, hgs⟩, by simpa using hraw2,
      by simpa using hseq2, hpq2⟩
    simp [cbc_ignore_needed, hw]

/-- C10 (outbound ordering): a call of `ssh2_bpp_handle_output` that returns
drains the queue and appends to `out_raw` nothing but the bytes of its own
frames, each in one piece and in this order: first the frame of the
CBC-workaround `SSH_MSG_IGNORE`, present exactly when `cbc_ignore_workaround`
is set and `out_raw` held fewer than `blksize + maclen` bytes, then for each
queued packet in queue order its group, namely its own frame, directly behind
the frame of its `SSH_MSG_IGNORE` exactly when `minlen` asks for one. Each
frame is the output of `ssh2_bpp_format_packet_inner` run in the very state
the engine is in at that point (the state at the start of the call for the
first frame, the state left by the frame before it for every other one), so
the frames and their order are determined by the state at the start of the
call: no other list of frames fits. The sequence numbers run consecutively
(modulo 2^32) from the outgoing sequence number before the call to the one
after it, IGNOREs included. -/
theorem C10_output_order (s s1 : ssh2_bpp_state) (h : ssh2_bpp_handle_output s = some s1) :
    ∃ (cbc : List out_frame) (groups : List (List out_frame)),
      output_frames s cbc groups s1 ∧
      s1.out_raw = s.out_raw ++ frames_bytes (cbc ++ groups.flatten) ∧
      seq_run s.out.sequence (cbc ++ groups.flatten) s1.out.sequence ∧ s1.out_pq = [] ∧
      ∀ (cbc2 : List out_frame) (groups2 : List (List out_frame)) (s2 : ssh2_bpp_state),
        output_frames s cbc2 groups2 s2 → cbc2 = cbc ∧ groups2 = groups ∧ s2 = s1 := by
  obtain ⟨cbc, groups, hof, hraw, hseq, hpq⟩ := handle_output_frames s s1 h
  exact ⟨cbc, groups, hof, hraw, hseq, hpq,
    fun cbc2 groups2 s2 h2 => output_frames_unique s s2 s1 cbc2 cbc groups2 groups h2 hof⟩

set_option maxRecDepth 100000 in
theorem C10_output_order_witness :
    cbc_ignore_needed output_example_state = true ∧
    output_example_state.out_pq.map (minlen_ignore_needed output_example_state) =
      [false, true] ∧
    ∃ s1 : ssh2_bpp_state, ssh2_bpp_handle_output output_example_state = some s1 ∧
      (s1.out_raw, s1.out.sequence) =
        ([1, 2, 3, 16, 11, 8, 7, 8, 9, 10, 11, 13, 15, 17, 19, 21, 42, 42,
          17, 18, 19, 32, 29, 116, 24, 26, 31, 33, 35, 37, 39, 41, 43, 45, 201, 201,
          33, 34, 35, 56, 44, 40, 39, 40, 41, 49, 57, 59, 61, 63, 65, 67, 69, 71, 73, 75, 77,
          79, 81, 83, 76, 76,
          57, 58, 59, 72, 71, 112, 91, 93, 95, 97, 99, 101, 103, 105, 107, 109, 151, 151], 4) ∧
      ∃ (cbc : List out_frame) (groups : List (List out_frame)),
        output_frames output_example_state cbc groups s1 ∧
        s1.out_raw = output_example_state.out_raw ++ frames_bytes (cbc ++ groups.flatten) ∧
        seq_run output_example_state.out.sequence (cbc ++ groups.flatten) s1.out.sequence ∧
        s1.out_pq = [] ∧
        ∀ (cbc2 : List out_frame) (groups2 : List (List out_frame)) (s2 : ssh2_bpp_state),
          output_frames output_example_state cbc2 groups2 s2 →
            cbc2 = cbc ∧ groups2 = groups ∧ s2 = s1 := by
  have h : (ssh2_bpp_handle_output output_example_state).map
      (fun s => (s.out_raw, s.out.sequence)) =
        some ([1, 2, 3, 16, 11, 8, 7, 8, 9, 10, 11, 13, 15, 17, 19, 21, 42, 42,
          17, 18, 19, 32, 29, 116, 24, 26, 31, 33, 35, 37, 39, 41, 43, 45, 201, 201,
          33, 34, 35, 56, 44, 40, 39, 40, 41, 49, 57, 59, 61, 63, 65, 67, 69, 71, 73, 75, 77,
          79, 81, 83, 76, 76,
          57, 58, 59, 72, 71, 112, 91, 93, 95, 97, 99, 101, 103, 105, 107, 109, 151, 151],
          4) := by decide
  cases hs : ssh2_bpp_handle_output output_example_state with
  | none => rw [hs] at h; exact absurd h (by simp)
  | some s1 =>
    rw [hs] at h
    simp only [Option.map_some', Option.some.injEq] at h
    exact ⟨by decide, by decide, s1, rfl, h, C10_output_order _ _ hs⟩

set_option maxRecDepth 100000 in
/-- C9 (failing input): with a 16-byte block cipher and a 32-byte MAC in
encrypt-then-MAC mode and no compressor, a packet of 64 bytes before padding
with `minlen = 256` makes `ssh2_bpp_format_packet` append two frames (the
`SSH_MSG_IGNORE` and the packet) that total 248 bytes, fewer than `minlen`. -/
theorem C9_minlen_not_reached :
    minlen_example_pkt.minlen = 256 ∧ minlen_example_state.out_comp.isNone = true ∧
    minlen_example_state.out_raw = [] ∧
    (ssh2_bpp_format_packet minlen_example_state minlen_example_pkt).map
      (fun s => (s.out_raw.length, s.out.sequence)) = some (248, 2) := by
  decide

theorem handle_input_run_next (unimpl : PktIn → Bool) (fuel : Nat) (s s1 : ssh2_bpp_state)
    (h : ssh2_bpp_handle_input_step unimpl s = step_result.next s1) :
    ssh2_bpp_handle_input_run unimpl (fuel + 1) s = ssh2_bpp_handle_input_run unimpl fuel s1 := by
  simp only [ssh2_bpp_handle_input_run, h]

theorem handle_input_run_yield (unimpl : PktIn → Bool) (fuel : Nat) (s s1 : ssh2_bpp_state)
    (h : ssh2_bpp_handle_input_step unimpl s = step_result.yield s1) :
    ssh2_bpp_handle_input_run unimpl (fuel + 1) s = some (s1, none) := by
  simp only [ssh2_bpp_handle_input_run, h]

theorem handle_input_run_signal (unimpl : PktIn → Bool) (fuel : Nat) (s s1 : ssh2_bpp_state)
    (sig : bpp_signal)
    (h : ssh2_bpp_handle_input_step unimpl s = step_result.signal s1 sig) :
    ssh2_bpp_handle_input_run unimpl (fuel + 1) s = some (s1, some sig) := by
  simp only [ssh2_bpp_handle_input_run, h]

/-- The common tail on a bad padding length: the session is aborted, nothing
is queued and the sequence number stays. -/
theorem input_tail_bad_padding (unimpl : PktIn → Bool) (s : ssh2_bpp_state)
    (h : ((s.data.getD 4 0 : Nat) : Int) < 4 ∨ s.len - ((s.data.getD 4 0 : Nat) : Int) < 1) :
    input_tail unimpl s = step_result.signal
      { s with pad := ((s.data.getD 4 0 : Nat) : Int), crState := cr_label.top }
      (bpp_signal.sw_abort "Invalid padding length on received packet") := by
  unfold input_tail
  simp only [h, if_true, input_abort]

/-- The common tail on a frame that passes the padding check, without a
decompressor and for a packet that is passed on: the packet is queued with
the sequence number, which then advances; a packet without a type byte gets
`SSH_MSG_NO_TYPE_CODE`. -/
theorem input_tail_plain (unimpl : PktIn → Bool) (s : ssh2_bpp_state) (pktin : PktIn)
    (hd : s.in_decomp = none)
    (hp4 : 4 ≤ s.data.getD 4 0) (hlp : 1 ≤ s.len - ((s.data.getD 4 0 : Nat) : Int))
    (hpk : s.packetlen = s.len + 4)
    (hpkt : pktin = if s.len - ((s.data.getD 4 0 : Nat) : Int) = 1
      then { type := SSH_MSG_NO_TYPE_CODE, sequence := s.inp.sequence, payload := [] }
      else { type := s.data.getD 5 0, sequence := s.inp.sequence,
             payload := (s.data.drop 6).take (s.len - ((s.data.getD 4 0 : Nat) : Int) - 2).toNat })
    (hu : unimpl pktin = false) :
    ∃ s1 : ssh2_bpp_state,
      (input_tail unimpl s = step_result.next s1 ∧ s1.crState = cr_label.top ∨
        input_tail unimpl s = step_result.yield s1 ∧ pktin.type = SSH2_MSG_NEWKEYS ∧
          s1.crState = cr_label.newkeys ∧ s1.pending_newkeys = true) ∧
      s1.in_pq = s.in_pq ++ [pktin] ∧
      s1.inp = { s.inp with sequence := (s.inp.sequence + 1) % 4294967296 } ∧
      s1.in_raw = s.in_raw ∧ s1.input_eof = s.input_eof ∧ s1.out_pq = s.out_pq ∧
      s1.in_decomp = s.in_decomp := by
  have hnot : ¬ (((s.data.getD 4 0 : Nat) : Int) < 4 ∨
      s.len - ((s.data.getD 4 0 : Nat) : Int) < 1) := by omega
  unfold input_tail
  simp only [hnot, if_false, in_decompress, hd, hpk]
  by_cases h1 : s.len - ((s.data.getD 4 0 : Nat) : Int) = 1
  · have h5 : s.len + 4 - ((s.data.getD 4 0 : Nat) : Int) ≤ 5 := by omega
    rw [if_pos h1] at hpkt
    simp only [h5, if_true, ← hpkt, hu, Bool.false_eq_true, if_false]
    by_cases hn : pktin.type = SSH2_MSG_NEWKEYS
    · rw [if_pos hn]
      exact ⟨_, Or.inr ⟨rfl, hn, rfl, rfl⟩, rfl, rfl, rfl, rfl, rfl, rfl⟩
    · rw [if_neg hn]
      exact ⟨_, Or.inl ⟨rfl, rfl⟩, rfl, rfl, rfl, rfl, rfl, rfl⟩
  · have h5 : ¬ s.len + 4 - ((s.data.getD 4 0 : Nat) : Int) ≤ 5 := by omega
    rw [if_neg h1] at hpkt
    have h6 : s.len + 4 - ((s.data.getD 4 0 : Nat) : Int) - 6 =
        s.len - ((s.data.getD 4 0 : Nat) : Int) - 2 := by omega
    simp only [h5, if_false, h6, ← hpkt, hu, Bool.false_eq_true]
    by_cases hn : pktin.type = SSH2_MSG_NEWKEYS
    · rw [if_pos hn]
      exact ⟨_, Or.inr ⟨rfl, hn, rfl, rfl⟩, rfl, rfl, rfl, rfl, rfl, rfl⟩
    · rw [if_neg hn]
      exact ⟨_, Or.inl ⟨rfl, rfl⟩, rfl, rfl, rfl, rfl, rfl, rfl⟩

/-- With nothing left in `in_raw` the coroutine returns to wait at its next
read, leaving the queue and the sequence number as they are. -/
theorem handle_input_run_idle (unimpl : PktIn → Bool) (fuel : Nat) (s : ssh2_bpp_state)
    (hc : s.crState = cr_label.top) (hr : s.in_raw = []) (he : s.input_eof = false) :
    ∃ s1 : ssh2_bpp_state, ssh2_bpp_handle_input_run unimpl (fuel + 3) s = some (s1, none) ∧
      s1.in_pq = s.in_pq ∧ s1.inp = s.inp ∧ s1.in_raw = [] ∧
      s1.out_pq = s.out_pq ∧ s1.in_decomp = s.in_decomp := by
  have hblk : ¬ in_cipherblk s ≤ 0 := by
    unfold in_cipherblk; split_ifs <;> omega
  have key : ∀ (l : cr_label),
      (l = cr_label.a_mac ∨ l = cr_label.b_len ∨ l = cr_label.c_first) →
      ∃ s1 : ssh2_bpp_state,
        ssh2_bpp_handle_input_run unimpl (fuel + 2) (input_path s l) = some (s1, none) ∧
        s1.in_pq = s.in_pq ∧ s1.inp = s.inp ∧ s1.in_raw = [] ∧
        s1.out_pq = s.out_pq ∧ s1.in_decomp = s.in_decomp := by
    intro l hl
    rcases hl with rfl | rfl | rfl
    · by_cases hm : in_maclen s = 0
      · have h1 : ssh2_bpp_handle_input_step unimpl (input_path s cr_label.a_mac) =
            step_result.next
              { input_path s cr_label.a_mac with
                in_raw := [], buf := [], packetlen := 0,
                fed := PUT_32BIT (s.inp.sequence % 4294967296),
                crState := cr_label.a_block } := by
          simp [ssh2_bpp_handle_input_step, BPP_READ, he, hr, hm, input_path]
        rw [handle_input_run_next unimpl _ _ _ h1]
        have h2 : ssh2_bpp_handle_input_step unimpl
            { input_path s cr_label.a_mac with
              in_raw := [], buf := [], packetlen := 0,
              fed := PUT_32BIT (s.inp.sequence % 4294967296),
              crState := cr_label.a_block } = step_result.yield
            { input_path s cr_label.a_mac with
              in_raw := [], buf := [], packetlen := 0,
              fed := PUT_32BIT (s.inp.sequence % 4294967296),
              crState := cr_label.a_block } := by
          simp [ssh2_bpp_handle_input_step, BPP_READ, he, hblk, input_path]
        rw [handle_input_run_yield unimpl _ _ _ h2]
        exact ⟨_, rfl, rfl, rfl, rfl, rfl, rfl⟩
      · have h1 : ssh2_bpp_handle_input_step unimpl (input_path s cr_label.a_mac) =
            step_result.yield (input_path s cr_label.a_mac) := by
          simp [ssh2_bpp_handle_input_step, BPP_READ, he, hr, hm, input_path]
        rw [handle_input_run_yield unimpl _ _ _ h1]
        exact ⟨_, rfl, rfl, rfl, hr, rfl, rfl⟩
    · have h1 : ssh2_bpp_handle_input_step unimpl (input_path s cr_label.b_len) =
          step_result.yield (input_path s cr_label.b_len) := by
        simp [ssh2_bpp_handle_input_step, BPP_READ, he, hr, input_path]
      rw [handle_input_run_yield unimpl _ _ _ h1]
      exact ⟨_, rfl, rfl, rfl, hr, rfl, rfl⟩
    · have h1 : ssh2_bpp_handle_input_step unimpl (input_path s cr_label.c_first) =
          step_result.yield (input_path s cr_label.c_first) := by
        simp [ssh2_bpp_handle_input_step, BPP_READ, he, hr, hblk, input_path]
      rw [handle_input_run_yield unimpl _ _ _ h1]
      exact ⟨_, rfl, rfl, rfl, hr, rfl, rfl⟩
  have hstep : ssh2_bpp_handle_input_step unimpl s =
      step_result.next (input_path s (input_select s)) := by
    unfold ssh2_bpp_handle_input_step
    rw [hc]
  have hl : input_select s = cr_label.a_mac ∨ input_select s = cr_label.b_len ∨
      input_select s = cr_label.c_first := by
    unfold input_select
    cases s.inp.cipher <;> cases s.inp.mac <;> simp only <;> (try split_ifs) <;> simp
  rw [handle_input_run_next unimpl _ _ _ hstep]
  exact key _ hl

theorem toint_small (x : Nat) (h : x < 2147483648) : toint x = (x : Int) := by
  unfold toint toint32
  have h1 : x % 4294967296 = x := Nat.mod_eq_of_lt (by omega)
  rw [h1, if_pos h]

theorem GET_32BIT_take (b : List Nat) (k : Nat) (hk : 4 ≤ k) :
    GET_32BIT (b.take k) = GET_32BIT b := by
  unfold GET_32BIT
  have e : ∀ i, i < 4 → (b.take k).getD i 0 = b.getD i 0 := by
    intro i hi
    simp only [List.getD_eq_getElem?_getD]
    rw [List.getElem?_take_of_lt (by omega)]
  rw [e 0 (by omega), e 1 (by omega), e 2 (by omega), e 3 (by omega)]

theorem take_append_take_drop (F : List Nat) (k m : Nat) (hF : F.length = m) :
    F.take k ++ (F.drop k).take (m - k) = F := by
  have h : (F.drop k).take (m - k) = F.drop k :=
    List.take_of_length_le (by rw [List.length_drop, hF])
  rw [h, List.take_append_drop]

theorem in_cipherblk_ge (s : ssh2_bpp_state) : 8 ≤ in_cipherblk s := by
  unfold in_cipherblk; split_ifs <;> omega

/-- Third path without a cipher: a frame in the clear, with its MAC if there
is one, is read in two pieces and arrives at the point where the paths
join. -/
theorem recv_c_clear (unimpl : PktIn → Bool) (s : ssh2_bpp_state) (len : Nat)
    (rest tag : List Nat) (hc : s.crState = cr_label.top) (hci : s.inp.cipher = none)
    (hsel : input_select s = cr_label.c_first) (he : s.input_eof = false)
    (hr : s.in_raw = PUT_32BIT len ++ rest ++ tag) (hlen : rest.length = len)
    (htag : tag.length = in_maclen s)
    (hmac : ∀ m, s.inp.mac = some m →
      ssh2_mac_verify m (PUT_32BIT len ++ rest ++ tag) (len + 4) s.inp.sequence = true)
    (hle : len ≤ OUR_V2_PACKETLIMIT) (hblk : (len + 4) % 8 = 0) (fuel : Nat) :
    ∃ S : ssh2_bpp_state,
      ssh2_bpp_handle_input_run unimpl (fuel + 3) s = ssh2_bpp_handle_input_run unimpl fuel S ∧
      at_tail s S (PUT_32BIT len ++ rest) (len + 4) ∧ S.inp.cipher = none := by
  have h1 : ssh2_bpp_handle_input_step unimpl s =
      step_result.next (input_path s cr_label.c_first) := by
    unfold ssh2_bpp_handle_input_step; rw [hc, ← hsel]
  rw [handle_input_run_next unimpl _ _ _ h1]
  have hcb : in_cipherblk s = 8 := by unfold in_cipherblk; rw [hci]; rfl
  have hL : len < 4294967296 := by unfold OUR_V2_PACKETLIMIT at hle; omega
  have hX : (PUT_32BIT len ++ rest).length = len + 4 := by
    rw [List.length_append, PUT_32BIT_length, hlen]; omega
  have hF : (PUT_32BIT len ++ rest ++ tag).length = len + 4 + in_maclen s := by
    rw [List.length_append, hX, htag]
  have hg : toint (GET_32BIT ((PUT_32BIT len ++ rest ++ tag).take 8)) = (len : Int) := by
    rw [GET_32BIT_take _ 8 (by omega), List.append_assoc, GET_PUT_32BIT len _ hL]
    exact toint_small len (by unfold OUR_V2_PACKETLIMIT at hle; omega)
  have h2 : ∃ S2 : ssh2_bpp_state,
      ssh2_bpp_handle_input_step unimpl (input_path s cr_label.c_first) = step_result.next S2 ∧
      S2.crState = cr_label.c_rest ∧ S2.in_raw = (PUT_32BIT len ++ rest ++ tag).drop 8 ∧
      S2.data = (PUT_32BIT len ++ rest ++ tag).take 8 ∧ S2.packetlen = (len : Int) + 4 ∧
      S2.len = (len : Int) ∧
      S2.maclen = (in_maclen s : Int) ∧ S2.cipherblk = 8 ∧ S2.inp = s.inp ∧
      S2.input_eof = false ∧
      S2.in_pq = s.in_pq ∧ S2.out_pq = s.out_pq ∧ S2.in_decomp = s.in_decomp := by
    have hnot : ¬ ((len : Int) < 0 ∨ (len : Int) > (OUR_V2_PACKETLIMIT : Int) ∨
        ((len : Int) + 4) % ((8 : Nat) : Int) ≠ 0) := by
      unfold OUR_V2_PACKETLIMIT at hle ⊢; omega
    simp only [ssh2_bpp_handle_input_step, input_path, BPP_READ, he, hr, hcb, in_decrypt,
      hci, hF, hg, hnot, Bool.false_eq_true, if_false, if_true]
    have h8 : 8 ≤ len + 4 + in_maclen s := by omega
    simp only [h8, if_true]
    exact ⟨_, rfl, rfl, rfl, by simp, rfl, rfl, rfl, rfl, rfl, rfl, rfl, rfl, rfl⟩
  obtain ⟨S2, hS2, p1, p2, p3, p4, p5, p6, p7, p8, p9, p10, p11, p12⟩ := h2
  rw [handle_input_run_next unimpl _ _ _ hS2]
  have h3 : ∃ S3 : ssh2_bpp_state,
      ssh2_bpp_handle_input_step unimpl S2 = step_result.next S3 ∧
      at_tail s S3 (PUT_32BIT len ++ rest) (len + 4) ∧ S3.inp.cipher = none := by
    have hn : ((len : Int) + 4 + (in_maclen s : Int) - ((8 : Nat) : Int)).toNat =
        len + 4 + in_maclen s - 8 := by omega
    have hci2 : S2.inp.cipher = none := by rw [p8]; exact hci
    have hl4 : ((len : Int) + 4).toNat = len + 4 := by omega
    have hdata : (PUT_32BIT len ++ rest ++ tag).take 8 ++
        ((PUT_32BIT len ++ rest ++ tag).drop 8).take (len + 4 + in_maclen s - 8) =
        PUT_32BIT len ++ rest ++ tag := take_append_take_drop _ 8 _ hF
    have hmacok : ∀ (S : ssh2_bpp_state), S.inp = S2.inp → S.len = (len : Int) →
        in_mac_fails S (PUT_32BIT len ++ rest ++ tag) = false := by
      intro S hS hSl
      unfold in_mac_fails
      rw [hS, p8, hSl, hl4]
      cases hm : s.inp.mac with
      | none => rfl
      | some m => simp only [hmac m hm, Bool.not_true]
    unfold ssh2_bpp_handle_input_step
    rw [p1]
    simp only [BPP_READ, p9, p2, p3, p4, p6, p7, hn, List.length_drop, hF, in_decrypt, hci2,
      le_refl, if_true, Bool.false_eq_true, if_false, List.take_take, Nat.min_self, hdata]
    rw [hmacok]
    rotate_left
    · rfl
    · exact p5
    simp only [Bool.false_eq_true, if_false]
    refine ⟨_, rfl, ⟨rfl, ?_, ?_, ?_, ?_, rfl, p10, ?_, ?_, ?_, p12, p11⟩, ?_⟩
    · exact List.take_left' hX
    · simp only [p5]; omega
    · simp only [p4]; push_cast; ring
    · exact List.drop_of_length_le (by rw [List.length_drop, hF])
    · simp only [p8]
    · simp only [p8]
    · simp only [p8]
    · simp only [hci2]
  obtain ⟨S3, hS3, hat, hci3⟩ := h3
  rw [handle_input_run_next unimpl _ _ _ hS3]
  exact ⟨S3, rfl, hat, hci3⟩

/-- A plaintext frame (no cipher, no MAC) is read in two pieces and arrives
whole at the point where the paths join. -/
theorem recv_plaintext (unimpl : PktIn → Bool) (s : ssh2_bpp_state) (len : Nat)
    (rest : List Nat) (hc : s.crState = cr_label.top) (hci : s.inp.cipher = none)
    (hm : s.inp.mac = none) (he : s.input_eof = false)
    (hr : s.in_raw = PUT_32BIT len ++ rest) (hlen : rest.length = len)
    (hle : len ≤ OUR_V2_PACKETLIMIT) (hblk : (len + 4) % 8 = 0) (fuel : Nat) :
    ∃ S : ssh2_bpp_state,
      ssh2_bpp_handle_input_run unimpl (fuel + 3) s = ssh2_bpp_handle_input_run unimpl fuel S ∧
      at_tail s S (PUT_32BIT len ++ rest) (len + 4) := by
  have hsel : input_select s = cr_label.c_first := by
    unfold input_select; rw [hci, hm]
  obtain ⟨S, h1, h2, _⟩ := recv_c_clear unimpl s len rest [] hc hci hsel he
    (by rw [hr, List.append_nil]) hlen (by unfold in_maclen; rw [hm]; rfl)
    (by intro m hm2; rw [hm] at hm2; exact absurd hm2 (by simp)) hle hblk fuel
  exact ⟨S, h1, h2⟩

theorem getD_take (l : List Nat) (n i : Nat) (h : i < n) : (l.take n).getD i 0 = l.getD i 0 := by
  simp only [List.getD_eq_getElem?_getD]
  rw [List.getElem?_take_of_lt h]

theorem drop_take_take (l : List Nat) (n j k : Nat) (h : k + j ≤ n) :
    ((l.take n).drop j).take k = (l.drop j).take k := by
  rw [List.drop_take, List.take_take]
  congr 1
  omega

/-- From the point where the paths join, a frame with a bad padding length
ends the call with the abort, nothing queued. -/
theorem finish_bad_padding (unimpl : PktIn → Bool) (s S : ssh2_bpp_state) (data : List Nat)
    (n : Nat) (hat : at_tail s S data n) (hn : 5 ≤ n)
    (h : data.getD 4 0 < 4 ∨ (n : Int) - 4 - ((data.getD 4 0 : Nat) : Int) < 1) (fuel : Nat) :
    ∃ s1 : ssh2_bpp_state, ssh2_bpp_handle_input_run unimpl (fuel + 1) S =
        some (s1, some (bpp_signal.sw_abort "Invalid padding length on received packet")) ∧
      s1.in_pq = s.in_pq ∧ s1.inp.sequence = s.inp.sequence ∧ s1.crState = cr_label.top ∧
      s1.out_pq = s.out_pq := by
  have hd : S.data.getD 4 0 = data.getD 4 0 := by
    rw [← hat.data, getD_take _ _ _ (by omega)]
  have hb : ((S.data.getD 4 0 : Nat) : Int) < 4 ∨
      S.len - ((S.data.getD 4 0 : Nat) : Int) < 1 := by
    rw [hd, hat.len]; omega
  have hstep : ssh2_bpp_handle_input_step unimpl S = step_result.signal
      { S with pad := ((S.data.getD 4 0 : Nat) : Int), crState := cr_label.top }
      (bpp_signal.sw_abort "Invalid padding length on received packet") := by
    unfold ssh2_bpp_handle_input_step
    rw [hat.crState]
    exact input_tail_bad_padding unimpl S hb
  rw [handle_input_run_signal unimpl _ _ _ _ hstep]
  exact ⟨_, rfl, hat.in_pq, hat.sequence, rfl, hat.out_pq⟩

/-- From the point where the paths join, a frame that passes the padding
check is queued (without a decompressor, and unless it is consumed as
unimplemented), and the call returns to wait for more input. -/
theorem finish_plain (unimpl : PktIn → Bool) (s S : ssh2_bpp_state) (data : List Nat)
    (n : Nat) (pktin : PktIn) (hat : at_tail s S data n) (hdc : s.in_decomp = none)
    (hp4 : 4 ≤ data.getD 4 0) (hlp : data.getD 4 0 + 5 ≤ n)
    (hpkt : pktin = if n = data.getD 4 0 + 5
      then { type := SSH_MSG_NO_TYPE_CODE, sequence := s.inp.sequence, payload := [] }
      else { type := data.getD 5 0, sequence := s.inp.sequence,
             payload := (data.drop 6).take (n - data.getD 4 0 - 6) })
    (hu : unimpl pktin = false) (fuel : Nat) :
    ∃ s1 : ssh2_bpp_state, ssh2_bpp_handle_input_run unimpl (fuel + 4) S = some (s1, none) ∧
      s1.in_pq = s.in_pq ++ [pktin] ∧
      s1.inp.sequence = (s.inp.sequence + 1) % 4294967296 ∧ s1.in_raw = [] ∧
      s1.out_pq = s.out_pq ∧ s1.inp.cipher = S.inp.cipher ∧ s1.inp.mac = s.inp.mac ∧
      s1.inp.etm_mode = s.inp.etm_mode ∧ s1.in_decomp = s.in_decomp := by
  have hd : S.data.getD 4 0 = data.getD 4 0 := by
    rw [← hat.data, getD_take _ _ _ (by omega)]
  have hpkt2 : pktin = if S.len - ((S.data.getD 4 0 : Nat) : Int) = 1
      then { type := SSH_MSG_NO_TYPE_CODE, sequence := S.inp.sequence, payload := [] }
      else { type := S.data.getD 5 0, sequence := S.inp.sequence,
             payload := (S.data.drop 6).take
               (S.len - ((S.data.getD 4 0 : Nat) : Int) - 2).toNat } := by
    rw [hpkt, hd, hat.len, hat.sequence]
    by_cases h1 : n = data.getD 4 0 + 5
    · rw [if_pos h1, if_pos (by omega)]
    · rw [if_neg h1, if_neg (by omega)]
      have e1 : ((n : Int) - 4 - ((data.getD 4 0 : Nat) : Int) - 2).toNat =
          n - data.getD 4 0 - 6 := by omega
      rw [e1, ← hat.data, getD_take _ _ _ (by omega), drop_take_take _ _ _ _ (by omega)]
  obtain ⟨s1, hres, hq, hseq, hraw, heof, hout, hdec⟩ := input_tail_plain unimpl S pktin
    (by rw [hat.in_decomp]; exact hdc) (by rw [hd]; exact hp4)
    (by rw [hd, hat.len]; omega) (by rw [hat.packetlen, hat.len]; ring) hpkt2 hu
  have hstep : ssh2_bpp_handle_input_step unimpl S = input_tail unimpl S := by
    unfold ssh2_bpp_handle_input_step
    rw [hat.crState]
  rcases hres with ⟨hnext, hcr⟩ | ⟨hy, _, _, _⟩
  · rw [handle_input_run_next unimpl _ _ _ (hstep.trans hnext)]
    obtain ⟨s2, hrun, h1, h2, h3, h4, h5⟩ := handle_input_run_idle unimpl fuel s1 hcr
      (by rw [hraw, hat.in_raw]) (by rw [heof, hat.input_eof])
    exact ⟨s2, hrun, by rw [h1, hq, hat.in_pq], by rw [h2, hseq, hat.sequence], h3,
      by rw [h4, hout, hat.out_pq], by rw [h2, hseq], by rw [h2, hseq]; exact hat.mac,
      by rw [h2, hseq]; exact hat.etm_mode, by rw [h5, hdec, hat.in_decomp]⟩
  · rw [handle_input_run_yield unimpl _ _ _ (hstep.trans hy)]
    exact ⟨s1, rfl, by rw [hq, hat.in_pq], by rw [hseq, hat.sequence],
      by rw [hraw, hat.in_raw], by rw [hout, hat.out_pq], by rw [hseq],
      by rw [hseq]; exact hat.mac, by rw [hseq]; exact hat.etm_mode,
      by rw [hdec, hat.in_decomp]⟩

theorem getD_append_PUT_32BIT (len : Nat) (rest : List Nat) (i : Nat) :
    (PUT_32BIT len ++ rest).getD (i + 4) 0 = rest.getD i 0 := by
  simp only [List.getD_eq_getElem?_getD]
  rw [List.getElem?_append_right (by rw [PUT_32BIT_length]; omega), PUT_32BIT_length]
  simp

theorem drop_append_PUT_32BIT (len : Nat) (rest : List Nat) (i : Nat) :
    (PUT_32BIT len ++ rest).drop (i + 4) = rest.drop i := by
  rw [List.drop_append_eq_append_drop, PUT_32BIT_length,
    List.drop_of_length_le (by rw [PUT_32BIT_length]; omega)]
  simp

/-- C8 (padding violation): at the point where the three paths join, that is
for every frame that has passed the framing and MAC checks, a padding-length
byte `data[4]` below 4 or a length field with `len - pad < 1` makes
`ssh2_bpp_handle_input` abort with "Invalid padding length on received
packet", the input queue left as it was. And end to end: a whole plaintext
frame (no cipher, no MAC) with such a padding-length byte, fed to
`ssh2_bpp_handle_input` at the start of a packet, ends the call with that
abort, no `PktIn` queued and the sequence number not advanced. -/
theorem C8_padding_violation :
    (∀ (unimpl : PktIn → Bool) (s : ssh2_bpp_state), s.crState = cr_label.tail →
      (((s.data.getD 4 0 : Nat) : Int) < 4 ∨ s.len - ((s.data.getD 4 0 : Nat) : Int) < 1) →
      ∃ s1 : ssh2_bpp_state, ssh2_bpp_handle_input_step unimpl s = step_result.signal s1
          (bpp_signal.sw_abort "Invalid padding length on received packet") ∧
        s1.in_pq = s.in_pq ∧ s1.inp.sequence = s.inp.sequence ∧
        s1.crState = cr_label.top) ∧
    (∀ (unimpl : PktIn → Bool) (s : ssh2_bpp_state) (len : Nat) (rest : List Nat),
      s.crState = cr_label.top → s.inp.cipher = none → s.inp.mac = none →
      s.input_eof = false → s.in_raw = PUT_32BIT len ++ rest → rest.length = len →
      len ≤ OUR_V2_PACKETLIMIT → (len + 4) % 8 = 0 →
      (rest.getD 0 0 < 4 ∨ len < rest.getD 0 0 + 1) →
      ∃ s1 : ssh2_bpp_state, ssh2_bpp_handle_input unimpl s = some (s1,
          some (bpp_signal.sw_abort "Invalid padding length on received packet")) ∧
        s1.in_pq = s.in_pq ∧ s1.inp.sequence = s.inp.sequence ∧
        s1.crState = cr_label.top) := by
  constructor
  · intro unimpl s hc h
    refine ⟨{ s with pad := ((s.data.getD 4 0 : Nat) : Int), crState := cr_label.top },
      ?_, rfl, rfl, rfl⟩
    unfold ssh2_bpp_handle_input_step
    rw [hc]
    exact input_tail_bad_padding unimpl s h
  · intro unimpl s len rest hc hci hm he hr hlen hle hblk hbad
    have hF : s.in_raw.length = len + 4 := by
      rw [hr, List.length_append, PUT_32BIT_length, hlen]; omega
    have hfuel : 2 * s.in_raw.length + 4 = (2 * len + 8 + 1) + 3 := by rw [hF]; omega
    obtain ⟨S, hrun, hat⟩ := recv_plaintext unimpl s len rest hc hci hm he hr hlen hle hblk
      (2 * len + 8 + 1)
    have h4 : (PUT_32BIT len ++ rest).getD 4 0 = rest.getD 0 0 :=
      getD_append_PUT_32BIT len rest 0
    obtain ⟨s1, hfin, h1, h2, h3, _⟩ := finish_bad_padding unimpl s S _ _ hat (by omega)
      (by rw [h4]; omega) (2 * len + 8)
    refine ⟨s1, ?_, h1, h2, h3⟩
    unfold ssh2_bpp_handle_input
    rw [hfuel, hrun, hfin]

theorem C8_padding_violation_witness :
    (∃ s1 : ssh2_bpp_state,
      ssh2_bpp_handle_input_step (fun _ => false)
          { padding_example_state with
            crState := cr_label.tail, data := padding_example_state.in_raw, len := 12 } =
        step_result.signal s1
          (bpp_signal.sw_abort "Invalid padding length on received packet") ∧
      s1.in_pq = [] ∧ s1.inp.sequence = 0 ∧ s1.crState = cr_label.top) ∧
    (∃ s1 : ssh2_bpp_state, ssh2_bpp_handle_input (fun _ => false) padding_example_state =
        some (s1, some (bpp_signal.sw_abort "Invalid padding length on received packet")) ∧
      s1.in_pq = [] ∧ s1.inp.sequence = 0 ∧ s1.crState = cr_label.top) :=
  ⟨C8_padding_violation.1 (fun _ => false)
      { padding_example_state with
        crState := cr_label.tail, data := padding_example_state.in_raw, len := 12 }
      rfl (Or.inl (by decide)),
    C8_padding_violation.2 (fun _ => false) padding_example_state 12
      [3, 94, 1, 2, 3, 4, 5, 6, 7, 0, 0, 0] rfl rfl rfl rfl rfl rfl (by decide) (by decide)
      (Or.inl (by decide))⟩

/-- C2 (amended): at the point where the three paths join, for every frame
that has passed the framing, MAC and padding checks (`pad >= 4`,
`len - pad >= 1`), without a decompressor and unless the packet is consumed
as unimplemented, exactly one `PktIn` is added to the input queue. Its
sequence field is the incoming sequence number `s`, which becomes `s + 1`
modulo 2^32. With `len - pad >= 2` its type is the cleartext byte `data[5]`
and its payload the `len - pad - 2` bytes behind it; with `len - pad = 1`
there is no type byte, the type is `SSH_MSG_NO_TYPE_CODE` and the payload is
empty. And end to end: a whole plaintext frame (no cipher, no MAC) fed to
`ssh2_bpp_handle_input` at the start of a packet is delivered so, and the
call returns without ending the session. -/
theorem C2_pktin_fields :
    (∀ (unimpl : PktIn → Bool) (s : ssh2_bpp_state) (pktin : PktIn),
      s.crState = cr_label.tail → s.in_decomp = none → s.packetlen = s.len + 4 →
      4 ≤ s.data.getD 4 0 → 1 ≤ s.len - ((s.data.getD 4 0 : Nat) : Int) →
      (pktin = if s.len - ((s.data.getD 4 0 : Nat) : Int) = 1
        then { type := SSH_MSG_NO_TYPE_CODE, sequence := s.inp.sequence, payload := [] }
        else { type := s.data.getD 5 0, sequence := s.inp.sequence,
               payload := (s.data.drop 6).take
                 (s.len - ((s.data.getD 4 0 : Nat) : Int) - 2).toNat }) →
      unimpl pktin = false →
      ∃ s1 : ssh2_bpp_state,
        (ssh2_bpp_handle_input_step unimpl s = step_result.next s1 ∨
          ssh2_bpp_handle_input_step unimpl s = step_result.yield s1) ∧
        s1.in_pq = s.in_pq ++ [pktin] ∧
        s1.inp.sequence = (s.inp.sequence + 1) % 4294967296) ∧
    (∀ (unimpl : PktIn → Bool) (s : ssh2_bpp_state) (len : Nat) (rest : List Nat)
      (pktin : PktIn),
      s.crState = cr_label.top → s.inp.cipher = none → s.inp.mac = none →
      s.in_decomp = none → s.input_eof = false → s.in_raw = PUT_32BIT len ++ rest →
      rest.length = len → len ≤ OUR_V2_PACKETLIMIT → (len + 4) % 8 = 0 →
      4 ≤ rest.getD 0 0 → rest.getD 0 0 + 1 ≤ len →
      (pktin = if len = rest.getD 0 0 + 1
        then { type := SSH_MSG_NO_TYPE_CODE, sequence := s.inp.sequence, payload := [] }
        else { type := rest.getD 1 0, sequence := s.inp.sequence,
               payload := (rest.drop 2).take (len - rest.getD 0 0 - 2) }) →
      unimpl pktin = false →
      ∃ s1 : ssh2_bpp_state, ssh2_bpp_handle_input unimpl s = some (s1, none) ∧
        s1.in_pq = s.in_pq ++ [pktin] ∧
        s1.inp.sequence = (s.inp.sequence + 1) % 4294967296 ∧ s1.in_raw = []) := by
  constructor
  · intro unimpl s pktin hc hd hpk hp4 hlp hpkt hu
    obtain ⟨s1, hres, hq, hseq, _, _, _, _⟩ :=
      input_tail_plain unimpl s pktin hd hp4 hlp hpk hpkt hu
    have hstep : ssh2_bpp_handle_input_step unimpl s = input_tail unimpl s := by
      unfold ssh2_bpp_handle_input_step
      rw [hc]
    refine ⟨s1, ?_, hq, by rw [hseq]⟩
    rcases hres with ⟨h, _⟩ | ⟨h, _⟩
    · exact Or.inl (hstep.trans h)
    · exact Or.inr (hstep.trans h)
  · intro unimpl s len rest pktin hc hci hm hd he hr hlen hle hblk hp4 hlp hpkt hu
    have hF : s.in_raw.length = len + 4 := by
      rw [hr, List.length_append, PUT_32BIT_length, hlen]; omega
    have hfuel : 2 * s.in_raw.length + 4 = (2 * len + 5 + 4) + 3 := by rw [hF]; omega
    obtain ⟨S, hrun, hat⟩ := recv_plaintext unimpl s len rest hc hci hm he hr hlen hle hblk
      (2 * len + 5 + 4)
    have h4 : (PUT_32BIT len ++ rest).getD 4 0 = rest.getD 0 0 :=
      getD_append_PUT_32BIT len rest 0
    have h5 : (PUT_32BIT len ++ rest).getD 5 0 = rest.getD 1 0 :=
      getD_append_PUT_32BIT len rest 1
    have h6 : (PUT_32BIT len ++ rest).drop 6 = rest.drop 2 :=
      drop_append_PUT_32BIT len rest 2
    obtain ⟨s1, hfin, h1, h2, h3, _, _, _, _, _⟩ := finish_plain unimpl s S _ _ pktin hat hd
      (by rw [h4]; exact hp4) (by rw [h4]; omega)
      (by
        rw [hpkt, h4, h5, h6]
        by_cases hx : len = rest.getD 0 0 + 1
        · rw [if_pos hx, if_pos (by omega)]
        · rw [if_neg hx, if_neg (by omega)]
          have e : len + 4 - rest.getD 0 0 - 6 = len - rest.getD 0 0 - 2 := by omega
          rw [e])
      hu (2 * len + 5)
    refine ⟨s1, ?_, h1, h2, h3⟩
    unfold ssh2_bpp_handle_input
    rw [hfuel, hrun, hfin]

theorem C2_pktin_fields_witness :
    (∃ s1 : ssh2_bpp_state,
      (ssh2_bpp_handle_input_step (fun _ => false)
          { pktin_example_state with
            crState := cr_label.tail, data := pktin_example_state.in_raw, len := 12,
            packetlen := 16 } = step_result.next s1 ∨
        ssh2_bpp_handle_input_step (fun _ => false)
          { pktin_example_state with
            crState := cr_label.tail, data := pktin_example_state.in_raw, len := 12,
            packetlen := 16 } = step_result.yield s1) ∧
      s1.in_pq = [] ++ [{ type := 94, sequence := 0, payload := [1, 2, 3, 4, 5, 6] }] ∧
      s1.inp.sequence = (0 + 1) % 4294967296) ∧
    (∃ s1 : ssh2_bpp_state,
      ssh2_bpp_handle_input (fun _ => false) pktin_example_state = some (s1, none) ∧
      s1.in_pq = [] ++ [{ type := 94, sequence := 0, payload := [1, 2, 3, 4, 5, 6] }] ∧
      s1.inp.sequence = (0 + 1) % 4294967296 ∧ s1.in_raw = []) :=
  ⟨C2_pktin_fields.1 (fun _ => false)
      { pktin_example_state with
        crState := cr_label.tail, data := pktin_example_state.in_raw, len := 12,
        packetlen := 16 }
      { type := 94, sequence := 0, payload := [1, 2, 3, 4, 5, 6] }
      rfl rfl rfl (by decide) (by decide) (by decide) rfl,
    C2_pktin_fields.2 (fun _ => false) pktin_example_state 12
      [4, 94, 1, 2, 3, 4, 5, 6, 0, 0, 0, 0]
      { type := 94, sequence := 0, payload := [1, 2, 3, 4, 5, 6] }
      rfl rfl rfl rfl rfl rfl rfl (by decide) (by decide) (by decide) (by decide)
      (by decide) rfl⟩

set_option maxRecDepth 100000 in
/-- C2 (counterexample): the plaintext frame with length field 12 and padding
length 11 passes every check of `ssh2_bpp_handle_input` and one `PktIn` is
queued, but its type is `SSH_MSG_NO_TYPE_CODE` (256) and not the byte at
offset 5 of the frame (94). -/
theorem C2_no_type_byte_counterexample :
    no_type_example_state.in_raw.getD 5 0 = 94 ∧
    (ssh2_bpp_handle_input (fun _ => false) no_type_example_state).map
        (fun r => (r.1.in_pq, r.2, r.1.inp.sequence)) =
      some ([{ type := 256, sequence := 0, payload := [] }], none, 1) := by
  decide

theorem in_place_eq (n : Nat) (out : List Nat) (h : out.length = n) : in_place n out = out := by
  unfold in_place
  exact List.take_left' h

theorem mac_result_length (m : ssh2_mac) (fed : List Nat) : (mac_result m fed).length = m.len := by
  unfold mac_result
  simp

/-- Decrypting the first `k` bytes of what was encrypted, `k` a whole number
of blocks, gives the first `k` bytes of the input; decrypting the rest after
that gives the rest and the context of decrypting all of it at once. -/
theorem decrypt_take (R : List Nat → List Nat → Prop) (enc dec : ssh2_cipher) (blk : Nat)
    (h : cipher_inverse R enc dec blk) (e d P : List Nat) (hR : R e d)
    (hP : blk ∣ P.length) (hb : is_bytes P) (k : Nat) (hk : blk ∣ k) (hkn : k ≤ P.length) :
    (dec.decrypt d ((enc.encrypt e P).2.take k)).2 = P.take k ∧
    dec.decrypt (dec.decrypt d ((enc.encrypt e P).2.take k)).1 ((enc.encrypt e P).2.drop k) =
      ((dec.decrypt d (enc.encrypt e P).2).1, P.drop k) := by
  obtain ⟨hlen, hinv, _⟩ := h.inverse e d P hR hP hb
  have htl : ((enc.encrypt e P).2.take k).length = k := by
    rw [List.length_take, hlen]; omega
  have hs := h.stream d ((enc.encrypt e P).2.take k) ((enc.encrypt e P).2.drop k)
    (by rw [htl]; exact hk)
  rw [List.take_append_drop, hinv] at hs
  have hA : (dec.decrypt d ((enc.encrypt e P).2.take k)).2.length = k := by
    rw [h.dec_length, htl]
  have h1 : P.take k = (dec.decrypt d ((enc.encrypt e P).2.take k)).2 := by
    have h0 := congrArg (List.take k) hs.1
    rwa [List.take_left' hA] at h0
  have h2 : P.drop k = (dec.decrypt (dec.decrypt d ((enc.encrypt e P).2.take k)).1
      ((enc.encrypt e P).2.drop k)).2 := by
    have h0 := congrArg (List.drop k) hs.1
    rwa [List.drop_left' hA] at h0
  exact ⟨h1.symm, Prod.ext hs.2.symm h2.symm⟩

/-- Decrypting the next block after the first `k` bytes gives the next block
of the input and the context of decrypting the first `k + blk` bytes. -/
theorem decrypt_block (R : List Nat → List Nat → Prop) (enc dec : ssh2_cipher) (blk : Nat)
    (h : cipher_inverse R enc dec blk) (e d P : List Nat) (hR : R e d)
    (hP : blk ∣ P.length) (hb : is_bytes P) (k : Nat) (hk : blk ∣ k)
    (hkn : k + blk ≤ P.length) :
    dec.decrypt (dec.decrypt d ((enc.encrypt e P).2.take k)).1
        (((enc.encrypt e P).2.drop k).take blk) =
      ((dec.decrypt d ((enc.encrypt e P).2.take (k + blk))).1, (P.drop k).take blk) := by
  obtain ⟨hlen, hinv, _⟩ := h.inverse e d P hR hP hb
  have htl : ((enc.encrypt e P).2.take k).length = k := by
    rw [List.length_take, hlen]; omega
  have hs := h.stream d ((enc.encrypt e P).2.take k) (((enc.encrypt e P).2.drop k).take blk)
    (by rw [htl]; exact hk)
  rw [← List.take_add] at hs
  have t1 := (decrypt_take R enc dec blk h e d P hR hP hb k hk (by omega)).1
  have t2 := (decrypt_take R enc dec blk h e d P hR hP hb (k + blk)
    (Dvd.dvd.add hk (dvd_refl blk)) hkn).1
  rw [t2, t1, List.take_add] at hs
  exact Prod.ext hs.2.symm (List.append_cancel_left hs.1).symm

/-- A cipher operation in place on the middle part `b` of a buffer
`a ++ b ++ t`, when the operation keeps the length. -/
theorem cipher_apply_mid (op : List Nat → List Nat → List Nat × List Nat) (c : ssh2_cipher)
    (a b t : List Nat) (lo n : Nat) (ctx1 out : List Nat) (ha : a.length = lo)
    (hb : b.length = n) (hop : op c.ctx b = (ctx1, out)) (hout : out.length = n) :
    cipher_apply op c (a ++ b ++ t) lo n = ({ c with ctx := ctx1 }, a ++ out ++ t) := by
  have h1 : ((a ++ b ++ t).drop lo).take n = b := by
    rw [List.append_assoc, List.drop_left' ha, List.take_left' hb]
  have h2 : (a ++ b ++ t).take lo = a := by
    rw [List.append_assoc, List.take_left' ha]
  have h3 : (a ++ b ++ t).drop (lo + n) = t := by
    rw [List.drop_left' (by rw [List.length_append, ha, hb])]
  unfold cipher_apply
  rw [h1, h2, h3, hop, in_place_eq _ _ (by rw [hout, hb])]

/-- Decryption in place with the incoming cipher on the middle part of a
buffer. -/
theorem in_decrypt_some (s : ssh2_bpp_state) (c : ssh2_cipher) (a b t : List Nat) (lo n : Nat)
    (ctx1 out : List Nat) (ha : a.length = lo)
    (hb : b.length = n) (hop : c.decrypt c.ctx b = (ctx1, out)) (hout : out.length = n)
    (hc : s.inp.cipher = some c) :
    in_decrypt s (a ++ b ++ t) lo n =
      ({ s with inp := { s.inp with cipher := some { c with ctx := ctx1 } } }, a ++ out ++ t) := by
  unfold in_decrypt
  rw [hc]
  simp only [ssh2_cipher_decrypt]
  rw [cipher_apply_mid c.decrypt c a b t lo n ctx1 out ha hb hop hout]

/-- Third path with a cipher: the first block is decrypted to learn the
length, then the rest; the cleartext frame arrives at the point where the
paths join. -/
theorem recv_c_cipher (unimpl : PktIn → Bool) (s : ssh2_bpp_state) (dec : ssh2_cipher)
    (len : Nat) (rest E tag d1 d2 : List Nat) (hc : s.crState = cr_label.top)
    (hci : s.inp.cipher = some dec)
    (hsel : input_select s = cr_label.c_first) (he : s.input_eof = false)
    (hr : s.in_raw = E ++ tag) (hlen : rest.length = len) (hE : E.length = len + 4)
    (htag : tag.length = in_maclen s)
    (hd1 : dec.decrypt dec.ctx (E.take (in_cipherblk s)) =
      (d1, (PUT_32BIT len ++ rest).take (in_cipherblk s)))
    (hd2 : dec.decrypt d1 (E.drop (in_cipherblk s)) =
      (d2, (PUT_32BIT len ++ rest).drop (in_cipherblk s)))
    (hmac : ∀ m, s.inp.mac = some m →
      ssh2_mac_verify m (PUT_32BIT len ++ rest ++ tag) (len + 4) s.inp.sequence = true)
    (hle : len ≤ OUR_V2_PACKETLIMIT) (hblk : (len + 4) % in_cipherblk s = 0) (fuel : Nat) :
    ∃ S : ssh2_bpp_state,
      ssh2_bpp_handle_input_run unimpl (fuel + 3) s = ssh2_bpp_handle_input_run unimpl fuel S ∧
      at_tail s S (PUT_32BIT len ++ rest) (len + 4) ∧
      S.inp.cipher = some { dec with ctx := d2 } := by
  have h1 : ssh2_bpp_handle_input_step unimpl s =
      step_result.next (input_path s cr_label.c_first) := by
    unfold ssh2_bpp_handle_input_step; rw [hc, ← hsel]
  rw [handle_input_run_next unimpl _ _ _ h1]
  have hcb8 := in_cipherblk_ge s
  generalize hcbdef : in_cipherblk s = cb at *
  have hL : len < 4294967296 := by unfold OUR_V2_PACKETLIMIT at hle; omega
  have hcbn : cb ≤ len + 4 := Nat.le_of_dvd (by omega) (Nat.dvd_of_mod_eq_zero hblk)
  have hX : (PUT_32BIT len ++ rest).length = len + 4 := by
    rw [List.length_append, PUT_32BIT_length, hlen]; omega
  have hF : (E ++ tag).length = len + 4 + in_maclen s := by
    rw [List.length_append, hE, htag]
  have hg : toint (GET_32BIT ((PUT_32BIT len ++ rest).take cb)) = (len : Int) := by
    rw [GET_32BIT_take _ cb (by omega), GET_PUT_32BIT len _ hL]
    exact toint_small len (by unfold OUR_V2_PACKETLIMIT at hle; omega)
  have htk : (E ++ tag).take cb = E.take cb := by
    rw [List.take_append_of_le_length (by omega)]
  have hPt : ((PUT_32BIT len ++ rest).take cb).length = cb := by
    rw [List.length_take, hX]; omega
  have hEt : (E.take cb).length = cb := by
    rw [List.length_take, hE]; omega
  have h2 : ∃ S2 : ssh2_bpp_state,
      ssh2_bpp_handle_input_step unimpl (input_path s cr_label.c_first) = step_result.next S2 ∧
      S2.crState = cr_label.c_rest ∧ S2.in_raw = (E ++ tag).drop cb ∧
      S2.data = (PUT_32BIT len ++ rest).take cb ∧ S2.packetlen = (len : Int) + 4 ∧
      S2.len = (len : Int) ∧
      S2.maclen = (in_maclen s : Int) ∧ S2.cipherblk = cb ∧
      S2.inp = { s.inp with cipher := some { dec with ctx := d1 } } ∧
      S2.input_eof = false ∧
      S2.in_pq = s.in_pq ∧ S2.out_pq = s.out_pq ∧ S2.in_decomp = s.in_decomp := by
    have hnot : ¬ ((len : Int) < 0 ∨ (len : Int) > (OUR_V2_PACKETLIMIT : Int) ∨
        ((len : Int) + 4) % ((cb : Nat) : Int) ≠ 0) := by
      have : (((len + 4 : Nat) : Int)) % ((cb : Nat) : Int) = 0 := by
        exact_mod_cast congrArg (Nat.cast : Nat → Int) hblk
      unfold OUR_V2_PACKETLIMIT at hle ⊢
      push_cast at this
      omega
    have hcb' : cb ≤ len + 4 + in_maclen s := by omega
    simp only [ssh2_bpp_handle_input_step, input_path, BPP_READ, he, hr, hcbdef, hF, hcb',
      Bool.false_eq_true, if_false, if_true, htk]
    rw [show E.take cb = [] ++ E.take cb ++ [] by simp]
    rw [in_decrypt_some _ dec [] (E.take cb) [] 0 cb d1 _ rfl hEt hd1 hPt]
    swap
    · exact hci
    simp only [List.nil_append, List.append_nil, hg, hnot, if_false]
    exact ⟨_, rfl, rfl, rfl, by rw [List.take_take, Nat.min_self], rfl, rfl, rfl, rfl, rfl, rfl,
      rfl, rfl, rfl⟩
  obtain ⟨S2, hS2, p1, p2, p3, p4, p5, p6, p7, p8, p9, p10, p11, p12⟩ := h2
  rw [handle_input_run_next unimpl _ _ _ hS2]
  have h3 : ∃ S3 : ssh2_bpp_state,
      ssh2_bpp_handle_input_step unimpl S2 = step_result.next S3 ∧
      at_tail s S3 (PUT_32BIT len ++ rest) (len + 4) ∧
      S3.inp.cipher = some { dec with ctx := d2 } := by
    have hn : ((len : Int) + 4 + (in_maclen s : Int) - ((cb : Nat) : Int)).toNat =
        len + 4 + in_maclen s - cb := by omega
    have hn2 : ((len : Int) + 4 - ((cb : Nat) : Int)).toNat = len + 4 - cb := by omega
    have hci2 : S2.inp.cipher = some { dec with ctx := d1 } := by rw [p8]
    have hl4 : ((len : Int) + 4).toNat = len + 4 := by omega
    have hrd : ((E ++ tag).drop cb).take (len + 4 + in_maclen s - cb) = E.drop cb ++ tag := by
      rw [List.take_of_length_le (by rw [List.length_drop, hF]),
        List.drop_append_of_le_length (by omega)]
    have hmacok : ∀ (S : ssh2_bpp_state), S.inp.mac = s.inp.mac →
        S.inp.sequence = s.inp.sequence → S.len = (len : Int) →
        in_mac_fails S (PUT_32BIT len ++ rest ++ tag) = false := by
      intro S hS hSs hSl
      unfold in_mac_fails
      rw [hS, hSs, hSl, hl4]
      cases hm : s.inp.mac with
      | none => rfl
      | some m => simp only [hmac m hm, Bool.not_true]
    unfold ssh2_bpp_handle_input_step
    rw [p1]
    simp only [BPP_READ, p9, p2, p3, p4, p6, p7, hn, hn2, List.length_drop, hF,
      le_refl, if_true, Bool.false_eq_true, if_false, List.take_take, Nat.min_self, hrd]
    rw [← List.append_assoc]
    rw [in_decrypt_some _ { dec with ctx := d1 } _ (E.drop cb) tag cb (len + 4 - cb) d2
      ((PUT_32BIT len ++ rest).drop cb) hPt (by rw [List.length_drop, hE]) hd2
      (by rw [List.length_drop, hX])]
    swap
    · exact hci2
    simp only [List.take_append_drop]
    rw [hmacok]
    rotate_left
    · simp only [p8]
    · simp only [p8]
    · exact p5
    simp only [Bool.false_eq_true, if_false]
    refine ⟨_, rfl, ⟨rfl, ?_, ?_, ?_, ?_, rfl, p10, ?_, ?_, ?_, p12, p11⟩, ?_⟩
    · exact List.take_left' hX
    · simp only [p5]; omega
    · simp only [p4]; push_cast; ring
    · exact List.drop_of_length_le (by rw [List.length_drop, hF])
    · simp only [p8]
    · simp only [p8]
    · simp only [p8]
    · rfl
  obtain ⟨S3, hS3, hat, hci3⟩ := h3
  rw [handle_input_run_next unimpl _ _ _ hS3]
  exact ⟨S3, rfl, hat, hci3⟩

/-- Second path (encrypt-then-MAC) with a cipher: the length field is read
(and decrypted on a copy when the cipher has `SSH_CIPHER_SEPARATE_LENGTH`),
the rest is read, the MAC over the bytes as received is checked and the part
behind the length field is decrypted. -/
theorem recv_b_cipher (unimpl : PktIn → Bool) (s : ssh2_bpp_state) (dec : ssh2_cipher)
    (len : Nat) (L Y Q tag d1 d2 : List Nat) (hc : s.crState = cr_label.top)
    (hci : s.inp.cipher = some dec)
    (hsel : input_select s = cr_label.b_len) (he : s.input_eof = false)
    (hr : s.in_raw = L ++ Y ++ tag) (hL4 : L.length = 4) (hY : Y.length = len)
    (hQ : Q.length = len) (htag : tag.length = in_maclen s)
    (hdl : if has_flag dec.flags SSH_CIPHER_SEPARATE_LENGTH = true
      then dec.decrypt_length dec.ctx L s.inp.sequence = (d1, PUT_32BIT len)
      else L = PUT_32BIT len ∧ d1 = dec.ctx)
    (hd2 : dec.decrypt d1 Y = (d2, Q))
    (hmac : in_mac_fails { s with len := (len : Int) } (L ++ Y ++ tag) = false)
    (hle : len ≤ OUR_V2_PACKETLIMIT) (hblk : len % in_cipherblk s = 0) (fuel : Nat) :
    ∃ S : ssh2_bpp_state,
      ssh2_bpp_handle_input_run unimpl (fuel + 3) s = ssh2_bpp_handle_input_run unimpl fuel S ∧
      at_tail s S (L ++ Q) (len + 4) ∧
      S.inp.cipher = some { dec with ctx := d2 } := by
  have h1 : ssh2_bpp_handle_input_step unimpl s =
      step_result.next (input_path s cr_label.b_len) := by
    unfold ssh2_bpp_handle_input_step; rw [hc, ← hsel]
  rw [handle_input_run_next unimpl _ _ _ h1]
  have hcb8 := in_cipherblk_ge s
  generalize hcbdef : in_cipherblk s = cb at *
  have hL : len < 4294967296 := by unfold OUR_V2_PACKETLIMIT at hle; omega
  have hF : (L ++ Y ++ tag).length = len + 4 + in_maclen s := by
    rw [List.length_append, List.length_append, hL4, hY, htag]; omega
  have hg : toint (GET_32BIT (PUT_32BIT len)) = (len : Int) := by
    have := GET_PUT_32BIT len [] hL
    rw [List.append_nil] at this
    rw [this]
    exact toint_small len (by unfold OUR_V2_PACKETLIMIT at hle; omega)
  have htk : (L ++ Y ++ tag).take 4 = L := by
    rw [List.append_assoc, List.take_left' hL4]
  have hdk : (L ++ Y ++ tag).drop 4 = Y ++ tag := by
    rw [List.append_assoc, List.drop_left' hL4]
  have hnot : ¬ ((len : Int) < 0 ∨ (len : Int) > (OUR_V2_PACKETLIMIT : Int) ∨
      (len : Int) % ((cb : Nat) : Int) ≠ 0) := by
    have : (((len : Nat) : Int)) % ((cb : Nat) : Int) = 0 := by
      exact_mod_cast congrArg (Nat.cast : Nat → Int) hblk
    unfold OUR_V2_PACKETLIMIT at hle ⊢
    omega
  have h2 : ∃ S2 : ssh2_bpp_state,
      ssh2_bpp_handle_input_step unimpl (input_path s cr_label.b_len) = step_result.next S2 ∧
      S2.crState = cr_label.b_rest ∧ S2.in_raw = Y ++ tag ∧
      S2.data = L ∧ S2.packetlen = (len : Int) + 4 ∧
      S2.len = (len : Int) ∧
      S2.maclen = (in_maclen s : Int) ∧ S2.cipherblk = cb ∧
      S2.inp = { s.inp with cipher := some { dec with ctx := d1 } } ∧
      S2.input_eof = false ∧
      S2.in_pq = s.in_pq ∧ S2.out_pq = s.out_pq ∧ S2.in_decomp = s.in_decomp := by
    have h4 : 4 ≤ len + 4 + in_maclen s := by omega
    simp only [ssh2_bpp_handle_input_step, input_path, BPP_READ, he, hr, hcbdef, hF, h4,
      Bool.false_eq_true, if_false, if_true, htk, hdk, hci]
    by_cases hf : has_flag dec.flags SSH_CIPHER_SEPARATE_LENGTH = true
    · rw [if_pos hf] at hdl
      simp only [hf, if_true, ssh2_cipher_decrypt_length]
      rw [show L = [] ++ L ++ [] by simp]
      rw [cipher_apply_mid (fun ctx b => dec.decrypt_length ctx b s.inp.sequence) dec [] L []
        0 4 d1 (PUT_32BIT len) rfl hL4 hdl (PUT_32BIT_length len)]
      simp only [List.nil_append, List.append_nil, hg, hnot, if_false]
      exact ⟨_, rfl, rfl, rfl, rfl, rfl, rfl, rfl, rfl, rfl, rfl, rfl, rfl, rfl⟩
    · rw [if_neg hf] at hdl
      obtain ⟨hLe, hd1e⟩ := hdl
      simp only [hf, Bool.false_eq_true, if_false, hLe, hg, hnot]
      refine ⟨_, rfl, rfl, rfl, rfl, rfl, rfl, rfl, rfl, ?_, rfl, rfl, rfl, rfl⟩
      subst hd1e
      calc s.inp = { s.inp with cipher := s.inp.cipher } := rfl
        _ = _ := by rw [hci]
  obtain ⟨S2, hS2, p1, p2, p3, p4, p5, p6, p7, p8, p9, p10, p11, p12⟩ := h2
  rw [handle_input_run_next unimpl _ _ _ hS2]
  have h3 : ∃ S3 : ssh2_bpp_state,
      ssh2_bpp_handle_input_step unimpl S2 = step_result.next S3 ∧
      at_tail s S3 (L ++ Q) (len + 4) ∧
      S3.inp.cipher = some { dec with ctx := d2 } := by
    have hn : ((len : Int) + 4 + (in_maclen s : Int) - 4).toNat = len + in_maclen s := by omega
    have hn2 : ((len : Int) + 4 - 4).toNat = len := by omega
    have hci2 : S2.inp.cipher = some { dec with ctx := d1 } := by rw [p8]
    have hYt : (Y ++ tag).length = len + in_maclen s := by
      rw [List.length_append, hY, htag]
    have hmacok : ∀ (S : ssh2_bpp_state), S.inp.mac = s.inp.mac →
        S.inp.sequence = s.inp.sequence → S.len = (len : Int) →
        in_mac_fails S (L ++ Y ++ tag) = false := by
      intro S hS hSs hSl
      rw [← hmac]
      unfold in_mac_fails
      rw [hS, hSs, hSl]
    unfold ssh2_bpp_handle_input_step
    rw [p1]
    simp only [BPP_READ, p9, p2, p3, p4, p6, p7, hn, hn2, hYt,
      le_refl, if_true, Bool.false_eq_true, if_false, List.take_of_length_le (Nat.le_of_eq hYt),
      List.take_of_length_le (Nat.le_of_eq hL4), ← List.append_assoc]
    rw [hmacok]
    rotate_left
    · simp only [p8]
    · simp only [p8]
    · exact p5
    simp only [Bool.false_eq_true, if_false]
    rw [in_decrypt_some _ { dec with ctx := d1 } L Y tag 4 len d2 Q hL4 hY hd2 hQ]
    swap
    · exact hci2
    refine ⟨_, rfl, ⟨rfl, ?_, ?_, ?_, ?_, rfl, p10, ?_, ?_, ?_, p12, p11⟩, ?_⟩
    · exact List.take_left' (by rw [List.length_append, hL4, hQ]; omega)
    · simp only [p5]; omega
    · simp only [p4]; push_cast; ring
    · exact List.drop_of_length_le (by rw [hYt])
    · simp only [p8]
    · simp only [p8]
    · simp only [p8]
    · rfl
  obtain ⟨S3, hS3, hat, hci3⟩ := h3
  rw [handle_input_run_next unimpl _ _ _ hS3]
  exact ⟨S3, rfl, hat, hci3⟩

/-- Second path (encrypt-then-MAC) without a cipher: the length field is
read, then the rest, and the MAC is checked. -/
theorem recv_b_clear (unimpl : PktIn → Bool) (s : ssh2_bpp_state)
    (len : Nat) (Y tag : List Nat) (hc : s.crState = cr_label.top)
    (hci : s.inp.cipher = none)
    (hsel : input_select s = cr_label.b_len) (he : s.input_eof = false)
    (hr : s.in_raw = PUT_32BIT len ++ Y ++ tag) (hY : Y.length = len)
    (htag : tag.length = in_maclen s)
    (hmac : in_mac_fails { s with len := (len : Int) } (PUT_32BIT len ++ Y ++ tag) = false)
    (hle : len ≤ OUR_V2_PACKETLIMIT) (hblk : len % 8 = 0) (fuel : Nat) :
    ∃ S : ssh2_bpp_state,
      ssh2_bpp_handle_input_run unimpl (fuel + 3) s = ssh2_bpp_handle_input_run unimpl fuel S ∧
      at_tail s S (PUT_32BIT len ++ Y) (len + 4) ∧ S.inp.cipher = none := by
  have h1 : ssh2_bpp_handle_input_step unimpl s =
      step_result.next (input_path s cr_label.b_len) := by
    unfold ssh2_bpp_handle_input_step; rw [hc, ← hsel]
  rw [handle_input_run_next unimpl _ _ _ h1]
  have hcb : in_cipherblk s = 8 := by unfold in_cipherblk; rw [hci]; rfl
  have hL : len < 4294967296 := by unfold OUR_V2_PACKETLIMIT at hle; omega
  have hL4 : (PUT_32BIT len).length = 4 := PUT_32BIT_length len
  have hF : (PUT_32BIT len ++ Y ++ tag).length = len + 4 + in_maclen s := by
    rw [List.length_append, List.length_append, hL4, hY, htag]; omega
  have hg : toint (GET_32BIT (PUT_32BIT len)) = (len : Int) := by
    have := GET_PUT_32BIT len [] hL
    rw [List.append_nil] at this
    rw [this]
    exact toint_small len (by unfold OUR_V2_PACKETLIMIT at hle; omega)
  have htk : (PUT_32BIT len ++ Y ++ tag).take 4 = PUT_32BIT len := by
    rw [List.append_assoc, List.take_left' hL4]
  have hdk : (PUT_32BIT len ++ Y ++ tag).drop 4 = Y ++ tag := by
    rw [List.append_assoc, List.drop_left' hL4]
  have hnot : ¬ ((len : Int) < 0 ∨ (len : Int) > (OUR_V2_PACKETLIMIT : Int) ∨
      (len : Int) % ((8 : Nat) : Int) ≠ 0) := by
    unfold OUR_V2_PACKETLIMIT at hle ⊢
    omega
  have h2 : ∃ S2 : ssh2_bpp_state,
      ssh2_bpp_handle_input_step unimpl (input_path s cr_label.b_len) = step_result.next S2 ∧
      S2.crState = cr_label.b_rest ∧ S2.in_raw = Y ++ tag ∧
      S2.data = PUT_32BIT len ∧ S2.packetlen = (len : Int) + 4 ∧
      S2.len = (len : Int) ∧
      S2.maclen = (in_maclen s : Int) ∧ S2.cipherblk = 8 ∧
      S2.inp = s.inp ∧
      S2.input_eof = false ∧
      S2.in_pq = s.in_pq ∧ S2.out_pq = s.out_pq ∧ S2.in_decomp = s.in_decomp := by
    have h4 : 4 ≤ len + 4 + in_maclen s := by omega
    simp only [ssh2_bpp_handle_input_step, input_path, BPP_READ, he, hr, hcb, hF, h4,
      Bool.false_eq_true, if_false, if_true, htk, hdk, hci, hg, hnot]
    exact ⟨_, rfl, rfl, rfl, rfl, rfl, rfl, rfl, rfl, rfl, rfl, rfl, rfl, rfl⟩
  obtain ⟨S2, hS2, p1, p2, p3, p4, p5, p6, p7, p8, p9, p10, p11, p12⟩ := h2
  rw [handle_input_run_next unimpl _ _ _ hS2]
  have h3 : ∃ S3 : ssh2_bpp_state,
      ssh2_bpp_handle_input_step unimpl S2 = step_result.next S3 ∧
      at_tail s S3 (PUT_32BIT len ++ Y) (len + 4) ∧ S3.inp.cipher = none := by
    have hn : ((len : Int) + 4 + (in_maclen s : Int) - 4).toNat = len + in_maclen s := by omega
    have hn2 : ((len : Int) + 4 - 4).toNat = len := by omega
    have hci2 : S2.inp.cipher = none := by rw [p8]; exact hci
    have hYt : (Y ++ tag).length = len + in_maclen s := by
      rw [List.length_append, hY, htag]
    have hmacok : ∀ (S : ssh2_bpp_state), S.inp.mac = s.inp.mac →
        S.inp.sequence = s.inp.sequence → S.len = (len : Int) →
        in_mac_fails S (PUT_32BIT len ++ Y ++ tag) = false := by
      intro S hS hSs hSl
      rw [← hmac]
      unfold in_mac_fails
      rw [hS, hSs, hSl]
    unfold ssh2_bpp_handle_input_step
    rw [p1]
    simp only [BPP_READ, p9, p2, p3, p4, p6, p7, hn, hn2, hYt,
      le_refl, if_true, Bool.false_eq_true, if_false, List.take_of_length_le (Nat.le_of_eq hYt),
      List.take_of_length_le (Nat.le_of_eq hL4), ← List.append_assoc, in_decrypt, hci2]
    rw [hmacok]
    rotate_left
    · simp only [p8]
    · simp only [p8]
    · exact p5
    simp only [Bool.false_eq_true, if_false]
    refine ⟨_, rfl, ⟨rfl, ?_, ?_, ?_, ?_, rfl, p10, ?_, ?_, ?_, p12, p11⟩, ?_⟩
    · exact List.take_left' (by rw [List.length_append, hL4, hY]; omega)
    · simp only [p5]; omega
    · simp only [p4]; push_cast; ring
    · exact List.drop_of_length_le (by rw [hYt])
    · simp only [p8]
    · simp only [p8]
    · simp only [p8]
    · exact hci2
  obtain ⟨S3, hS3, hat, hci3⟩ := h3
  rw [handle_input_run_next unimpl _ _ _ hS3]
  exact ⟨S3, rfl, hat, hci3⟩

theorem GET_32BIT_take_append (P t : List Nat) (j : Nat) (hj : 4 ≤ j) (hP : j ≤ P.length) :
    GET_32BIT (P.take j ++ t) = GET_32BIT P := by
  rw [← GET_32BIT_take (P.take j ++ t) 4 (le_refl 4),
    List.take_append_of_le_length (by rw [List.length_take]; omega), List.take_take,
    Nat.min_eq_left hj, GET_32BIT_take P 4 (le_refl 4)]

/-- First path, one turn of the loop over the cipher blocks: the next block
is read behind the buffer and decrypted "a little further back"; on the last
block of the frame the MAC and the length field match and the frame goes on
to the point where the paths join, before that the loop goes round. -/
theorem recv_a_block (unimpl : PktIn → Bool) (s S : ssh2_bpp_state) (dec : ssh2_cipher)
    (m : ssh2_mac) (len : Nat) (rest E tag ctx ctx1 : List Nat) (k : Nat)
    (hinv : at_block s S dec (PUT_32BIT len ++ rest) (E ++ tag) k ctx)
    (hm : s.inp.mac = some m) (hlen : rest.length = len) (hE : E.length = len + 4)
    (htag : tag.length = in_maclen s)
    (hk : in_cipherblk s ∣ k) (hkn : k + in_cipherblk s ≤ len + 4)
    (hblk : in_cipherblk s ∣ len + 4)
    (hdec : dec.decrypt ctx ((E.drop k).take (in_cipherblk s)) =
      (ctx1, ((PUT_32BIT len ++ rest).drop k).take (in_cipherblk s)))
    (hver : k + in_cipherblk s = len + 4 →
      ssh2_mac_verresult m (PUT_32BIT (s.inp.sequence % 4294967296) ++ (PUT_32BIT len ++ rest))
        tag = true)
    (hle : len ≤ OUR_V2_PACKETLIMIT) :
    ∃ S1 : ssh2_bpp_state, ssh2_bpp_handle_input_step unimpl S = step_result.next S1 ∧
      (if k + in_cipherblk s = len + 4
        then at_tail s S1 (PUT_32BIT len ++ rest) (len + 4) ∧
          S1.inp.cipher = some { dec with ctx := ctx1 }
        else at_block s S1 dec (PUT_32BIT len ++ rest) (E ++ tag) (k + in_cipherblk s)
          ctx1) := by
  have hcb8 := in_cipherblk_ge s
  generalize hcbdef : in_cipherblk s = cb at *
  generalize hMdef : in_maclen s = M at *
  generalize hPdef : PUT_32BIT len ++ rest = P at *
  have hL : len < 4294967296 := by unfold OUR_V2_PACKETLIMIT at hle; omega
  have hP : P.length = len + 4 := by
    rw [← hPdef, List.length_append, PUT_32BIT_length, hlen]; omega
  have hF : (E ++ tag).length = len + 4 + M := by
    rw [List.length_append, hE, htag]
  have hPk : (P.take k).length = k := by rw [List.length_take, hP]; omega
  have hFk : (((E ++ tag).drop k).take M).length = M := by
    rw [List.length_take, List.length_drop, hF]; omega
  have hread : cb ≤ ((E ++ tag).drop (k + M)).length := by
    rw [List.length_drop, hF]; omega
  have hbuf0 : (P.take k ++ ((E ++ tag).drop k).take M).take (k + M) ++
      ((E ++ tag).drop (k + M)).take cb =
      P.take k ++ (E.drop k).take cb ++ ((E ++ tag).drop (k + cb)).take M := by
    rw [List.take_of_length_le (by rw [List.length_append, hPk, hFk]), List.append_assoc,
      List.append_assoc]
    congr 1
    have e1 : (E ++ tag).drop (k + M) = ((E ++ tag).drop k).drop M := by
      rw [List.drop_drop, Nat.add_comm]
    have e2 : (E ++ tag).drop (k + cb) = ((E ++ tag).drop k).drop cb := by
      rw [List.drop_drop, Nat.add_comm]
    have e3 : (E.drop k).take cb = ((E ++ tag).drop k).take cb := by
      rw [List.drop_append_of_le_length (by omega),
        List.take_append_of_le_length (by rw [List.length_drop]; omega)]
    rw [e1, e2, e3, ← List.take_add, ← List.take_add, Nat.add_comm]
  have hbl : ((E.drop k).take cb).length = cb := by
    rw [List.length_take, List.length_drop, hE]; omega
  have hpl : ((P.drop k).take cb).length = cb := by
    rw [List.length_take, List.length_drop, hP]; omega
  have hdecr : ssh2_cipher_decrypt { dec with ctx := ctx }
      (P.take k ++ (E.drop k).take cb ++ ((E ++ tag).drop (k + cb)).take M) k cb =
      ({ dec with ctx := ctx1 }, P.take k ++ (P.drop k).take cb ++
        ((E ++ tag).drop (k + cb)).take M) := by
    unfold ssh2_cipher_decrypt
    exact cipher_apply_mid dec.decrypt { dec with ctx := ctx } _ _ _ k cb ctx1 _ hPk hbl hdec hpl
  have hdk : (P.take k ++ (P.drop k).take cb ++ ((E ++ tag).drop (k + cb)).take M).drop k =
      (P.drop k).take cb ++ ((E ++ tag).drop (k + cb)).take M := by
    rw [List.append_assoc, List.drop_left' hPk]
  have hdk2 : (P.take k ++ (P.drop k).take cb ++ ((E ++ tag).drop (k + cb)).take M).drop
      (k + cb) = ((E ++ tag).drop (k + cb)).take M := by
    rw [List.drop_left' (by rw [List.length_append, hPk, hpl])]
  have hg : toint (GET_32BIT (P.take k ++ (P.drop k).take cb ++
      ((E ++ tag).drop (k + cb)).take M)) = (len : Int) := by
    rw [← List.take_add, GET_32BIT_take_append P _ (k + cb) (by omega) (by omega), ← hPdef,
      GET_PUT_32BIT len rest hL]
    exact toint_small len (by unfold OUR_V2_PACKETLIMIT at hle; omega)
  have hci : S.inp.cipher = some { dec with ctx := ctx } := by rw [hinv.inp]
  have hmi : S.inp.mac = some m := by rw [hinv.inp]; exact hm
  have hkM : ((k : Int) + (M : Int)).toNat = k + M := by omega
  have hkcb : ((k : Int) + (cb : Int)).toNat = k + cb := by omega
  have hkk : ((k : Int)).toNat = k := by omega
  unfold ssh2_bpp_handle_input_step
  rw [hinv.crState]
  simp only [BPP_READ, hinv.input_eof, hinv.in_raw, hinv.cipherblk, hinv.buf, hinv.packetlen,
    hinv.maclen, hinv.fed, hcbdef, hMdef, hread, if_true, Bool.false_eq_true, if_false, hci, hmi, hkM, hkcb,
    hkk, hbuf0, hdecr, hdk, hdk2, hg, List.take_left' hpl]
  by_cases hlast : k + cb = len + 4
  · have htl : ((E ++ tag).drop (len + 4)).take M = tag := by
      rw [List.drop_left' hE, List.take_of_length_le (Nat.le_of_eq htag)]
    have hfed : PUT_32BIT (s.inp.sequence % 4294967296) ++ P.take k ++ (P.drop k).take cb =
        PUT_32BIT (s.inp.sequence % 4294967296) ++ P := by
      rw [List.append_assoc, ← List.take_add, hlast, List.take_of_length_le (Nat.le_of_eq hP)]
    have hPP : P.take k ++ (P.drop k).take cb = P := by
      rw [← List.take_add, hlast, List.take_of_length_le (Nat.le_of_eq hP)]
    have hcond : ((k : Int) + (cb : Int) - 4 = (len : Int)) := by omega
    have hc2 : ((len : Int) = (k : Int) + (cb : Int) - 4) := by omega
    simp only [hfed, hPP, hlast, htl, hver hlast, if_true, true_and, hc2]
    refine ⟨_, rfl, ⟨rfl, ?_, ?_, ?_, ?_, rfl, hinv.in_pq, ?_, ?_, ?_, hinv.in_decomp,
      hinv.out_pq⟩, rfl⟩
    · have e : ((k : Int) + (cb : Int) + (M : Int)).toNat = len + 4 + M := by omega
      rw [e, List.take_of_length_le
        (show (P ++ tag).length ≤ len + 4 + M by rw [List.length_append, hP, htag]),
        List.take_left' hP]
    · show (k : Int) + (cb : Int) - 4 = ((len + 4 : Nat) : Int) - 4
      push_cast; omega
    · show (k : Int) + (cb : Int) = ((len + 4 : Nat) : Int)
      push_cast; omega
    · exact List.drop_of_length_le (by rw [List.length_drop, hF]; omega)
    · show S.inp.sequence = s.inp.sequence
      rw [hinv.inp]
    · show some m = s.inp.mac
      exact hm.symm
    · show S.inp.etm_mode = s.inp.etm_mode
      rw [hinv.inp]
  · have hc2 : ¬ ((len : Int) = (k : Int) + (cb : Int) - 4) := by omega
    have hlt : k + cb + cb ≤ len + 4 := by
      obtain ⟨a, ha⟩ := hk
      obtain ⟨b, hb⟩ := hblk
      have h1 : cb * (a + 1) < cb * b := by rw [Nat.mul_add, Nat.mul_one, ← ha, ← hb]; omega
      have h2 : a + 1 < b := Nat.lt_of_mul_lt_mul_left h1
      have h3 : cb * (a + 2) ≤ cb * b := Nat.mul_le_mul_left cb (by omega)
      rw [Nat.mul_add, ← ha, ← hb] at h3
      omega
    have hnl : ¬ ((k : Int) + (cb : Int) ≥ (OUR_V2_PACKETLIMIT : Int)) := by
      unfold OUR_V2_PACKETLIMIT at hle ⊢; omega
    simp only [hc2, and_false, if_false, hnl, hlast]
    refine ⟨_, rfl, ⟨hinv.crState, ?_, ?_, ?_, ?_, ?_, hcbdef.symm, by rw [hMdef], rfl,
      hinv.in_pq, hinv.in_decomp, hinv.out_pq⟩⟩
    · show P.take k ++ (P.drop k).take cb ++ ((E ++ tag).drop (k + cb)).take M = _
      rw [← List.take_add, hMdef]
    · show ((E ++ tag).drop (k + M)).drop cb = _
      rw [List.drop_drop, hMdef]; congr 1; omega
    · show (k : Int) + (cb : Int) = ((k + cb : Nat) : Int)
      push_cast; rfl
    · show PUT_32BIT (s.inp.sequence % 4294967296) ++ P.take k ++ (P.drop k).take cb = _
      rw [List.append_assoc, ← List.take_add]
    · show ({ S.inp with cipher := some { dec with ctx := ctx1 }, mac := some m } :
        ssh2_bpp_direction) = _
      rw [hinv.inp]
      simp only [hm]

/-- First path, the loop over the cipher blocks: from `k` bytes recovered to
the end of the frame. -/
theorem recv_a_loop (unimpl : PktIn → Bool) (s : ssh2_bpp_state) (dec : ssh2_cipher)
    (m : ssh2_mac) (len : Nat) (rest E tag : List Nat) (ctxAt : Nat → List Nat)
    (hm : s.inp.mac = some m) (hlen : rest.length = len) (hE : E.length = len + 4)
    (htag : tag.length = in_maclen s) (hblk : in_cipherblk s ∣ len + 4)
    (hdec : ∀ k, in_cipherblk s ∣ k → k + in_cipherblk s ≤ len + 4 →
      dec.decrypt (ctxAt k) ((E.drop k).take (in_cipherblk s)) =
        (ctxAt (k + in_cipherblk s), ((PUT_32BIT len ++ rest).drop k).take (in_cipherblk s)))
    (hver : ssh2_mac_verresult m
      (PUT_32BIT (s.inp.sequence % 4294967296) ++ (PUT_32BIT len ++ rest)) tag = true)
    (hle : len ≤ OUR_V2_PACKETLIMIT) (fuel : Nat) :
    ∀ (r k : Nat) (S : ssh2_bpp_state), k + (r + 1) * in_cipherblk s = len + 4 →
      in_cipherblk s ∣ k →
      at_block s S dec (PUT_32BIT len ++ rest) (E ++ tag) k (ctxAt k) →
      ∃ S1 : ssh2_bpp_state,
        ssh2_bpp_handle_input_run unimpl (fuel + (r + 1)) S =
          ssh2_bpp_handle_input_run unimpl fuel S1 ∧
        at_tail s S1 (PUT_32BIT len ++ rest) (len + 4) ∧
        S1.inp.cipher = some { dec with ctx := ctxAt (len + 4) } := by
  intro r
  induction r with
  | zero =>
    intro k S hkr hk hinv
    have hlast : k + in_cipherblk s = len + 4 := by omega
    obtain ⟨S1, hstep, hres⟩ := recv_a_block unimpl s S dec m len rest E tag (ctxAt k)
      (ctxAt (k + in_cipherblk s)) k hinv hm hlen hE htag hk (by omega) hblk
      (hdec k hk (by omega)) (fun _ => hver) hle
    rw [if_pos hlast] at hres
    refine ⟨S1, ?_, hres.1, ?_⟩
    · rw [show fuel + (0 + 1) = fuel + 1 by rfl, handle_input_run_next unimpl _ _ _ hstep]
    · rw [hres.2, hlast]
  | succ r ih =>
    intro k S hkr hk hinv
    have hcb8 := in_cipherblk_ge s
    have hmul : (r + 1 + 1) * in_cipherblk s = (r + 1) * in_cipherblk s + in_cipherblk s := by
      ring
    have hpos : 0 < (r + 1) * in_cipherblk s := Nat.mul_pos (by omega) (by omega)
    have hnl : ¬ k + in_cipherblk s = len + 4 := by omega
    obtain ⟨S1, hstep, hres⟩ := recv_a_block unimpl s S dec m len rest E tag (ctxAt k)
      (ctxAt (k + in_cipherblk s)) k hinv hm hlen hE htag hk (by omega) hblk
      (hdec k hk (by omega)) (fun _ => hver) hle
    rw [if_neg hnl] at hres
    obtain ⟨S2, hrun, hat, hci⟩ := ih (k + in_cipherblk s) S1 (by omega)
      (Dvd.dvd.add hk (dvd_refl _)) hres
    refine ⟨S2, ?_, hat, hci⟩
    rw [show fuel + (r + 1 + 1) = (fuel + (r + 1)) + 1 by omega,
      handle_input_run_next unimpl _ _ _ hstep, hrun]

/-- First path (CBC cipher with a MAC, not encrypt-then-MAC): the bytes of
the MAC length are read, then block after block until the MAC matches; the
cleartext frame arrives at the point where the paths join. -/
theorem recv_a (unimpl : PktIn → Bool) (s : ssh2_bpp_state) (dec : ssh2_cipher)
    (m : ssh2_mac) (len : Nat) (rest E tag : List Nat) (ctxAt : Nat → List Nat)
    (hc : s.crState = cr_label.top) (hci : s.inp.cipher = some dec)
    (hm : s.inp.mac = some m) (hsel : input_select s = cr_label.a_mac)
    (he : s.input_eof = false) (hr : s.in_raw = E ++ tag)
    (hlen : rest.length = len) (hE : E.length = len + 4)
    (htag : tag.length = in_maclen s) (hblk : in_cipherblk s ∣ len + 4)
    (hctx0 : ctxAt 0 = dec.ctx)
    (hdec : ∀ k, in_cipherblk s ∣ k → k + in_cipherblk s ≤ len + 4 →
      dec.decrypt (ctxAt k) ((E.drop k).take (in_cipherblk s)) =
        (ctxAt (k + in_cipherblk s), ((PUT_32BIT len ++ rest).drop k).take (in_cipherblk s)))
    (hver : ssh2_mac_verresult m
      (PUT_32BIT (s.inp.sequence % 4294967296) ++ (PUT_32BIT len ++ rest)) tag = true)
    (hle : len ≤ OUR_V2_PACKETLIMIT) (fuel : Nat) :
    ∃ S : ssh2_bpp_state,
      ssh2_bpp_handle_input_run unimpl (fuel + (len + 4) / in_cipherblk s + 2) s =
        ssh2_bpp_handle_input_run unimpl fuel S ∧
      at_tail s S (PUT_32BIT len ++ rest) (len + 4) ∧
      S.inp.cipher = some { dec with ctx := ctxAt (len + 4) } := by
  have hcb8 := in_cipherblk_ge s
  have h1 : ssh2_bpp_handle_input_step unimpl s =
      step_result.next (input_path s cr_label.a_mac) := by
    unfold ssh2_bpp_handle_input_step; rw [hc, ← hsel]
  have hF : (E ++ tag).length = len + 4 + in_maclen s := by
    rw [List.length_append, hE, htag]
  have h2 : ∃ S1 : ssh2_bpp_state,
      ssh2_bpp_handle_input_step unimpl (input_path s cr_label.a_mac) = step_result.next S1 ∧
      at_block s S1 dec (PUT_32BIT len ++ rest) (E ++ tag) 0 (ctxAt 0) := by
    have hM : in_maclen s ≤ len + 4 + in_maclen s := by omega
    simp only [ssh2_bpp_handle_input_step, input_path, BPP_READ, he, hr, hF, hM,
      Int.toNat_ofNat, Bool.false_eq_true, if_false, if_true]
    refine ⟨_, rfl, ⟨rfl, ?_, ?_, rfl, ?_, ?_, rfl, rfl, rfl, rfl, rfl, rfl⟩⟩
    · simp
    · simp
    · simp
    · show s.inp = _
      rw [hctx0]
      calc s.inp = { s.inp with cipher := s.inp.cipher } := rfl
        _ = _ := by rw [hci]
  obtain ⟨S1, hS1, hinv⟩ := h2
  obtain ⟨q, hq⟩ := hblk
  have hqpos : 0 < q := by
    rcases Nat.eq_zero_or_pos q with h0 | h0
    · rw [h0] at hq; omega
    · exact h0
  have hdiv : (len + 4) / in_cipherblk s = (q - 1) + 1 := by
    rw [hq, Nat.mul_div_cancel_left q (by omega)]; omega
  obtain ⟨S2, hrun, hat, hci2⟩ := recv_a_loop unimpl s dec m len rest E tag ctxAt hm hlen hE
    htag ⟨q, hq⟩ hdec hver hle fuel (q - 1) 0 S1
    (by rw [Nat.zero_add, Nat.sub_add_cancel hqpos, Nat.mul_comm]; exact hq.symm)
    (dvd_zero _) hinv
  refine ⟨S2, ?_, hat, hci2⟩
  rw [hdiv, show fuel + (q - 1 + 1) + 2 = (fuel + (q - 1 + 1) + 1) + 1 by omega,
    handle_input_run_next unimpl _ _ _ h1, handle_input_run_next unimpl _ _ _ hS1, hrun]

/-- The common tail with a decompressor that succeeds: the packet is built
from the decompressed bytes, the first of them the type. -/
theorem input_tail_decomp (unimpl : PktIn → Bool) (s : ssh2_bpp_state) (dc : ssh_decompressor)
    (c1 : List Nat) (t : Nat) (p : List Nat) (pktin : PktIn)
    (hd : s.in_decomp = some dc) (hdl : 5 ≤ s.data.length)
    (hp4 : 4 ≤ s.data.getD 4 0) (hlp : 1 ≤ s.len - ((s.data.getD 4 0 : Nat) : Int))
    (hpk : s.packetlen = s.len + 4)
    (hres : dc.decompress dc.ctx ((s.data.drop 5).take
      (s.len + 4 - ((s.data.getD 4 0 : Nat) : Int) - 5).toNat) = (c1, some (t :: p)))
    (hpkt : pktin = { type := t, sequence := s.inp.sequence, payload := p })
    (hu : unimpl pktin = false) :
    ∃ s1 : ssh2_bpp_state,
      (input_tail unimpl s = step_result.next s1 ∧ s1.crState = cr_label.top ∨
        input_tail unimpl s = step_result.yield s1 ∧ pktin.type = SSH2_MSG_NEWKEYS ∧
          s1.crState = cr_label.newkeys ∧ s1.pending_newkeys = true) ∧
      s1.in_pq = s.in_pq ++ [pktin] ∧
      s1.inp = { s.inp with sequence := (s.inp.sequence + 1) % 4294967296 } ∧
      s1.in_raw = s.in_raw ∧ s1.input_eof = s.input_eof ∧ s1.out_pq = s.out_pq ∧
      s1.in_decomp = some { dc with ctx := c1 } := by
  have hnot : ¬ (((s.data.getD 4 0 : Nat) : Int) < 4 ∨
      s.len - ((s.data.getD 4 0 : Nat) : Int) < 1) := by omega
  have h5 : ¬ (5 + (((p.length + 1 : Nat)) : Int) ≤ 5) := by omega
  have h6 : (5 + (((p.length + 1 : Nat)) : Int) - 6).toNat = p.length := by omega
  have ht5 : (s.data.take 5).length = 5 := by rw [List.length_take]; omega
  have hty : (s.data.take 5 ++ t :: p).getD 5 0 = t := by
    simp only [List.getD_eq_getElem?_getD]
    rw [List.getElem?_append_right (by rw [ht5]), ht5]
    simp
  have hpl : ((s.data.take 5 ++ t :: p).drop 6).take p.length = p := by
    rw [show 6 = 5 + 1 by rfl, ← List.drop_drop, List.drop_left' ht5]
    simp
  unfold input_tail
  simp only [hnot, if_false, in_decompress, hd, hpk, hres, List.length_cons, h5, h6, hty, hpl,
    ← hpkt, hu, Bool.false_eq_true]
  by_cases hn : pktin.type = SSH2_MSG_NEWKEYS
  · rw [if_pos hn]
    exact ⟨_, Or.inr ⟨rfl, hn, rfl, rfl⟩, rfl, rfl, rfl, rfl, rfl, rfl⟩
  · rw [if_neg hn]
    exact ⟨_, Or.inl ⟨rfl, rfl⟩, rfl, rfl, rfl, rfl, rfl, rfl⟩

/-- From the point where the paths join, the run after a tail that has
queued a packet: the call returns to wait for more input. -/
theorem finish_run (unimpl : PktIn → Bool) (S s1 : ssh2_bpp_state) (hS : S.crState = cr_label.tail)
    (hres : input_tail unimpl S = step_result.next s1 ∧ s1.crState = cr_label.top ∨
      input_tail unimpl S = step_result.yield s1)
    (hraw : s1.in_raw = []) (heof : s1.input_eof = false) (fuel : Nat) :
    ∃ s2 : ssh2_bpp_state, ssh2_bpp_handle_input_run unimpl (fuel + 4) S = some (s2, none) ∧
      s2.in_pq = s1.in_pq ∧ s2.inp = s1.inp ∧ s2.in_raw = [] ∧ s2.out_pq = s1.out_pq ∧
      s2.in_decomp = s1.in_decomp := by
  have hstep : ssh2_bpp_handle_input_step unimpl S = input_tail unimpl S := by
    unfold ssh2_bpp_handle_input_step
    rw [hS]
  rcases hres with ⟨hnext, hcr⟩ | hy
  · rw [handle_input_run_next unimpl _ _ _ (hstep.trans hnext)]
    exact handle_input_run_idle unimpl fuel s1 hcr hraw heof
  · rw [handle_input_run_yield unimpl _ _ _ (hstep.trans hy)]
    exact ⟨s1, rfl, rfl, rfl, hraw, rfl, rfl⟩

/-- From the point where the paths join, with a decompressor that gives back
the type byte `t` and the payload `p`: the packet is queued and the call
returns to wait for more input. -/
theorem finish_decomp (unimpl : PktIn → Bool) (s S : ssh2_bpp_state) (data : List Nat)
    (n : Nat) (dc : ssh_decompressor) (c1 : List Nat) (t : Nat) (p : List Nat)
    (hat : at_tail s S data n) (hdn : data.length = n) (hdc : s.in_decomp = some dc)
    (hp4 : 4 ≤ data.getD 4 0) (hlp : data.getD 4 0 + 5 ≤ n)
    (hres : dc.decompress dc.ctx ((data.drop 5).take (n - data.getD 4 0 - 5)) =
      (c1, some (t :: p)))
    (hu : unimpl { type := t, sequence := s.inp.sequence, payload := p } = false)
    (fuel : Nat) :
    ∃ s1 : ssh2_bpp_state, ssh2_bpp_handle_input_run unimpl (fuel + 4) S = some (s1, none) ∧
      s1.in_pq = s.in_pq ++ [{ type := t, sequence := s.inp.sequence, payload := p }] ∧
      s1.inp.sequence = (s.inp.sequence + 1) % 4294967296 ∧ s1.in_raw = [] ∧
      s1.out_pq = s.out_pq ∧ s1.inp.cipher = S.inp.cipher ∧ s1.inp.mac = s.inp.mac ∧
      s1.inp.etm_mode = s.inp.etm_mode ∧ s1.in_decomp = some { dc with ctx := c1 } := by
  have hd : S.data.getD 4 0 = data.getD 4 0 := by
    rw [← hat.data, getD_take _ _ _ (by omega)]
  have hSl : 5 ≤ S.data.length := by
    have h0 : (S.data.take n).length = n := by rw [hat.data, hdn]
    rw [List.length_take] at h0
    omega
  have hreg : (S.data.drop 5).take (S.len + 4 - ((S.data.getD 4 0 : Nat) : Int) - 5).toNat =
      (data.drop 5).take (n - data.getD 4 0 - 5) := by
    have e1 : (S.len + 4 - ((S.data.getD 4 0 : Nat) : Int) - 5).toNat = n - data.getD 4 0 - 5 := by
      rw [hd, hat.len]; omega
    rw [e1, ← hat.data, drop_take_take _ _ _ _ (by omega)]
  obtain ⟨s1, hres1, hq, hseq, hraw, heof, hout, hdec⟩ := input_tail_decomp unimpl S dc c1 t p
    { type := t, sequence := s.inp.sequence, payload := p }
    (by rw [hat.in_decomp]; exact hdc) hSl (by rw [hd]; exact hp4)
    (by rw [hd, hat.len]; omega) (by rw [hat.packetlen, hat.len]; ring)
    (by rw [hreg]; exact hres) (by rw [hat.sequence]) hu
  obtain ⟨s2, hrun, h1, h2, h3, h4, h5⟩ := finish_run unimpl S s1 hat.crState
    (by
      rcases hres1 with h | ⟨h, _⟩
      · exact Or.inl h
      · exact Or.inr h)
    (by rw [hraw, hat.in_raw]) (by rw [heof, hat.input_eof]) fuel
  exact ⟨s2, hrun, by rw [h1, hq, hat.in_pq], by rw [h2, hseq, hat.sequence], h3,
    by rw [h4, hout, hat.out_pq], by rw [h2, hseq], by rw [h2, hseq]; exact hat.mac,
    by rw [h2, hseq]; exact hat.etm_mode, by rw [h5, hdec]⟩

theorem format_compress_out (s : ssh2_bpp_state) (pkt : PktOut) :
    (format_compress s pkt).1.out = s.out := by
  unfold format_compress
  cases s.out_comp <;> rfl

theorem random_bytes_length (s : ssh2_bpp_state) (n : Nat) : (random_bytes s n).1.length = n := by
  simp [random_bytes]

theorem random_bytes_is_bytes (s : ssh2_bpp_state) (n : Nat) : is_bytes (random_bytes s n).1 := by
  intro b hb
  simp only [random_bytes, List.mem_map] at hb
  obtain ⟨i, _, rfl⟩ := hb
  exact Nat.mod_lt _ (by decide)

theorem PUT_32BIT_is_bytes (x : Nat) : is_bytes (PUT_32BIT x) := by
  intro b hb
  simp only [PUT_32BIT, List.mem_cons, List.mem_singleton, List.not_mem_nil, or_false] at hb
  rcases hb with rfl | rfl | rfl | rfl <;> exact Nat.mod_lt _ (by decide)

theorem is_bytes_append (a b : List Nat) (ha : is_bytes a) (hb : is_bytes b) :
    is_bytes (a ++ b) := by
  intro x hx
  rcases List.mem_append.mp hx with h | h
  · exact ha x h
  · exact hb x h

theorem is_bytes_drop (a : List Nat) (k : Nat) (ha : is_bytes a) : is_bytes (a.drop k) :=
  fun x hx => ha x (List.mem_of_mem_drop hx)

theorem is_bytes_take (a : List Nat) (k : Nat) (ha : is_bytes a) : is_bytes (a.take k) :=
  fun x hx => ha x (List.mem_of_mem_take hx)

theorem out_cipherblk_ge (s : ssh2_bpp_state) : 8 ≤ out_cipherblk s := by
  unfold out_cipherblk; split_ifs <;> omega

/-- The padding chosen is between 4 and block size plus 3 and fills the
packet, less the part left in the clear, up to whole blocks. -/
theorem out_padding_spec (s : ssh2_bpp_state) (length : Nat) (h : out_unencrypted s ≤ length) :
    4 ≤ out_padding s length ∧ out_padding s length < out_cipherblk s + 4 ∧
      (length + out_padding s length - out_unencrypted s) % out_cipherblk s = 0 := by
  have h8 := out_cipherblk_ge s
  unfold out_padding
  generalize out_cipherblk s = cb at *
  generalize out_unencrypted s = u at *
  have hlt : (cb - (length - u + 4) % cb) % cb < cb := Nat.mod_lt _ (by omega)
  refine ⟨by omega, by omega, ?_⟩
  have hm : (length - u + 4) % cb < cb := Nat.mod_lt _ (by omega)
  have e : length + (4 + (cb - (length - u + 4) % cb) % cb) - u =
      (length - u + 4) + (cb - (length - u + 4) % cb) % cb := by omega
  rw [e]
  by_cases h0 : (length - u + 4) % cb = 0
  · rw [h0, Nat.sub_zero, Nat.mod_self, Nat.add_zero, h0]
  · have e2 : (cb - (length - u + 4) % cb) % cb = cb - (length - u + 4) % cb :=
      Nat.mod_eq_of_lt (by omega)
    rw [e2]
    have e3 := Nat.div_add_mod (length - u + 4) cb
    have e4 : length - u + 4 + (cb - (length - u + 4) % cb) =
        cb * ((length - u + 4) / cb + 1) := by
      rw [Nat.mul_add, Nat.mul_one]; omega
    rw [e4, Nat.mul_mod_right]

/-- The cleartext image of a packet: its length, its parts and that it
consists of bytes. -/
theorem out_cleartext_spec (s : ssh2_bpp_state) (pkt : PktOut)
    (h5 : 5 ≤ (format_compress s pkt).2.length)
    (hb : is_bytes ((format_compress s pkt).2.drop 5)) :
    (out_cleartext s pkt).length = (format_compress s pkt).2.length +
        out_padding s (format_compress s pkt).2.length ∧
      out_cleartext s pkt = PUT_32BIT ((format_compress s pkt).2.length +
          out_padding s (format_compress s pkt).2.length - 4) ++
        (out_padding s (format_compress s pkt).2.length % 256 ::
          ((format_compress s pkt).2.drop 5 ++
            (random_bytes (format_compress s pkt).1
              (out_padding s (format_compress s pkt).2.length)).1)) ∧
      is_bytes (out_cleartext s pkt) := by
  have hpe : out_padding (format_compress s pkt).1 (format_compress s pkt).2.length =
      out_padding s (format_compress s pkt).2.length := by
    unfold out_padding out_cipherblk out_unencrypted
    rw [format_compress_out]
  have hshape : out_cleartext s pkt = PUT_32BIT ((format_compress s pkt).2.length +
          out_padding s (format_compress s pkt).2.length - 4) ++
        (out_padding s (format_compress s pkt).2.length % 256 ::
          ((format_compress s pkt).2.drop 5 ++
            (random_bytes (format_compress s pkt).1
              (out_padding s (format_compress s pkt).2.length)).1)) := by
    unfold out_cleartext
    rw [hpe, List.drop_append_of_le_length h5]
    simp
  refine ⟨?_, hshape, ?_⟩
  · rw [hshape]
    simp only [List.length_append, PUT_32BIT_length, List.length_cons, List.length_drop,
      random_bytes_length]
    omega
  · rw [hshape]
    apply is_bytes_append _ _ (PUT_32BIT_is_bytes _)
    intro x hx
    rcases List.mem_cons.mp hx with rfl | hx
    · exact Nat.mod_lt _ (by decide)
    · exact is_bytes_append _ _ hb (random_bytes_is_bytes _ _) x hx

theorem format_encrypt_length_congr (s s1 : ssh2_bpp_state) (data : List Nat)
    (h : s.out = s1.out) :
    (format_encrypt_length s data).2 = (format_encrypt_length s1 data).2 ∧
      (format_encrypt_length s data).1.out = (format_encrypt_length s1 data).1.out := by
  unfold format_encrypt_length
  rw [h]
  cases s1.out.cipher with
  | none => exact ⟨rfl, h⟩
  | some c =>
    by_cases hf : has_flag c.flags SSH_CIPHER_SEPARATE_LENGTH = true
    · simp only [hf, if_true, h, and_self]
    · simp only [hf, if_false]
      exact ⟨rfl, h⟩

theorem format_crypt_congr (s s1 : ssh2_bpp_state) (data : List Nat) (n : Nat)
    (h : s.out = s1.out) :
    (format_crypt s data n).2 = (format_crypt s1 data n).2 ∧
      (format_crypt s data n).1.out = (format_crypt s1 data n).1.out := by
  unfold format_crypt
  rw [h]
  cases s1.out.mac <;> cases s1.out.cipher <;> cases s1.out.etm_mode <;>
    simp only [Bool.false_eq_true, if_false, if_true, h, and_self]

theorem format_encrypt_length_comp (s : ssh2_bpp_state) (data : List Nat) :
    (format_encrypt_length s data).1.out_comp = s.out_comp := by
  unfold format_encrypt_length
  cases s.out.cipher with
  | none => rfl
  | some c => by_cases hf : has_flag c.flags SSH_CIPHER_SEPARATE_LENGTH = true <;> simp [hf]

theorem format_crypt_comp (s : ssh2_bpp_state) (data : List Nat) (n : Nat) :
    (format_crypt s data n).1.out_comp = s.out_comp := by
  unfold format_crypt
  cases s.out.mac <;> cases s.out.cipher <;> cases s.out.etm_mode <;> rfl

/-- The frame that `ssh2_bpp_format_packet_inner` returns: the cleartext
image with room for the MAC, through the length encryption and the
encryption and MAC step of the outgoing direction. -/
theorem format_packet_inner_frame (o : ssh2_bpp_state) (pkt : PktOut)
    (r : ssh2_bpp_state × PktOut) (h : ssh2_bpp_format_packet_inner o pkt = some r) :
    out_padding o (format_compress o pkt).2.length ≤ 255 ∧
    r.2.data = (format_crypt (format_encrypt_length o (out_cleartext o pkt)).1
      ((format_encrypt_length o (out_cleartext o pkt)).2 ++ List.replicate (out_maclen o) 0)
      ((format_compress o pkt).2.length + out_padding o (format_compress o pkt).2.length)).2 ∧
    r.1.out.cipher = (format_crypt (format_encrypt_length o (out_cleartext o pkt)).1
      ((format_encrypt_length o (out_cleartext o pkt)).2 ++ List.replicate (out_maclen o) 0)
      ((format_compress o pkt).2.length +
        out_padding o (format_compress o pkt).2.length)).1.out.cipher ∧
    r.1.out_comp = (format_compress o pkt).1.out_comp := by
  have hpe : out_padding (format_compress o pkt).1 (format_compress o pkt).2.length =
      out_padding o (format_compress o pkt).2.length := by
    unfold out_padding out_cipherblk out_unencrypted
    rw [format_compress_out]
  have ho2 : (random_bytes (format_compress o pkt).1
      (out_padding (format_compress o pkt).1 (format_compress o pkt).2.length)).2.out =
      o.out := by
    show (format_compress o pkt).1.out = o.out
    exact format_compress_out o pkt
  have hel := format_encrypt_length_congr _ o (out_cleartext o pkt) ho2
  have hml : out_maclen (format_encrypt_length (random_bytes (format_compress o pkt).1
      (out_padding (format_compress o pkt).1 (format_compress o pkt).2.length)).2
      (out_cleartext o pkt)).1 = out_maclen o := by
    have hk := (format_encrypt_length_keeps (random_bytes (format_compress o pkt).1
      (out_padding (format_compress o pkt).1 (format_compress o pkt).2.length)).2
      (out_cleartext o pkt)).mac
    unfold out_maclen
    rw [hk, ho2]
  have hcr := format_crypt_congr _ (format_encrypt_length o (out_cleartext o pkt)).1
    ((format_encrypt_length o (out_cleartext o pkt)).2 ++ List.replicate (out_maclen o) 0)
    ((format_compress o pkt).2.length +
      out_padding (format_compress o pkt).1 (format_compress o pkt).2.length) hel.2
  rw [← hpe]
  unfold ssh2_bpp_format_packet_inner at h
  simp only at h
  split_ifs at h with hp
  simp only [Option.some.injEq] at h
  subst h
  refine ⟨by omega, ?_, ?_, ?_⟩
  · show (format_crypt _ _ _).2 = _
    rw [← hcr.1, ← hel.1, ← hml]
    rfl
  · show (format_crypt _ _ _).1.out.cipher = _
    rw [← hcr.2, ← hel.1, ← hml]
    rfl
  · show (format_crypt _ _ _).1.out_comp = _
    rw [format_crypt_comp, format_encrypt_length_comp]
    rfl

theorem mac_generate_eq (m : ssh2_mac) (X : List Nat) (seq : Nat) :
    ssh2_mac_generate m (X ++ List.replicate m.len 0) X.length seq =
      X ++ mac_result m (PUT_32BIT (seq % 4294967296) ++ X) := by
  unfold ssh2_mac_generate
  rw [List.take_left' rfl, List.drop_of_length_le (by simp), List.append_nil]

theorem out_tag_length (s : ssh2_bpp_state) (X : List Nat) :
    (out_tag s X).length = out_maclen s := by
  unfold out_tag out_maclen
  cases s.out.mac with
  | none => rfl
  | some m => exact mac_result_length m _

/-- The encryption and MAC step without a cipher: the bytes and their
MAC. -/
theorem format_crypt_clear (s : ssh2_bpp_state) (X : List Nat) (hc : s.out.cipher = none) :
    format_crypt s (X ++ List.replicate (out_maclen s) 0) X.length = (s, X ++ out_tag s X) := by
  unfold format_crypt out_tag out_maclen
  rw [hc]
  cases hm : s.out.mac with
  | none => simp
  | some m =>
    simp only [mac_generate_eq]
    cases s.out.etm_mode <;> simp

/-- The encryption and MAC step with a cipher outside encrypt-then-MAC mode:
the MAC of the cleartext goes behind it, then the cleartext is encrypted. -/
theorem format_crypt_mte (s : ssh2_bpp_state) (c : ssh2_cipher) (X E e1 : List Nat)
    (hc : s.out.cipher = some c) (hne : ¬ (s.out.mac.isSome = true ∧ s.out.etm_mode = true))
    (henc : c.encrypt c.ctx X = (e1, E)) (hE : E.length = X.length) :
    format_crypt s (X ++ List.replicate (out_maclen s) 0) X.length =
      ({ s with out := { s.out with cipher := some { c with ctx := e1 } } },
        E ++ out_tag s X) := by
  have hap : ∀ t : List Nat, ssh2_cipher_encrypt c (X ++ t) 0 X.length =
      ({ c with ctx := e1 }, E ++ t) := by
    intro t
    unfold ssh2_cipher_encrypt
    have := cipher_apply_mid c.encrypt c [] X t 0 X.length e1 E rfl rfl henc hE
    simpa using this
  unfold format_crypt out_tag out_maclen
  rw [hc]
  cases hm : s.out.mac with
  | none =>
    simp only [List.replicate_zero]
    rw [hap []]
  | some m =>
    have het : s.out.etm_mode = false := by
      cases h : s.out.etm_mode
      · rfl
      · exact absurd ⟨by rw [hm]; rfl, h⟩ hne
    simp only [het, Bool.false_eq_true, if_false, mac_generate_eq]
    rw [hap]

/-- The encryption and MAC step in encrypt-then-MAC mode with a cipher: the
part behind the length field is encrypted, then the MAC of the bytes as they
go on the wire is put behind them. -/
theorem format_crypt_etm (s : ssh2_bpp_state) (c : ssh2_cipher) (m : ssh2_mac)
    (L Y0 Y e2 : List Nat) (hc : s.out.cipher = some c) (hm : s.out.mac = some m)
    (he : s.out.etm_mode = true) (hL : L.length = 4)
    (henc : c.encrypt c.ctx Y0 = (e2, Y)) (hY : Y.length = Y0.length) :
    format_crypt s (L ++ Y0 ++ List.replicate (out_maclen s) 0) (4 + Y0.length) =
      ({ s with out := { s.out with cipher := some { c with ctx := e2 } } },
        L ++ Y ++ out_tag s (L ++ Y)) := by
  have hap : ssh2_cipher_encrypt c (L ++ Y0 ++ List.replicate m.len 0) 4 (4 + Y0.length - 4) =
      ({ c with ctx := e2 }, L ++ Y ++ List.replicate m.len 0) := by
    unfold ssh2_cipher_encrypt
    rw [Nat.add_sub_cancel_left]
    exact cipher_apply_mid c.encrypt c L Y0 _ 4 Y0.length e2 Y hL rfl henc hY
  have hlen : 4 + Y0.length = (L ++ Y).length := by
    rw [List.length_append, hL, hY]
  unfold format_crypt out_tag out_maclen
  rw [hc, hm]
  simp only [he, if_true, hap]
  rw [hlen, mac_generate_eq]

theorem mac_verify_ok (m : ssh2_mac) (X : List Nat) (seq : Nat) :
    ssh2_mac_verify m (X ++ mac_result m (PUT_32BIT (seq % 4294967296) ++ X)) X.length seq =
      true := by
  unfold ssh2_mac_verify
  rw [List.drop_left' rfl, List.take_left' rfl,
    List.take_of_length_le (Nat.le_of_eq (mac_result_length m _))]
  exact beq_self_eq_true _

theorem mac_verresult_ok (m : ssh2_mac) (fed : List Nat) :
    ssh2_mac_verresult m fed (mac_result m fed) = true := by
  unfold ssh2_mac_verresult
  rw [List.take_of_length_le (Nat.le_of_eq (mac_result_length m _))]
  exact beq_self_eq_true _

/-- The receiver's MAC check passes on bytes followed by the MAC that the
sender computed over them with the same MAC and sequence number. -/
theorem in_mac_ok (S o : ssh2_bpp_state) (X : List Nat) (hmac : S.inp.mac = o.out.mac)
    (hseq : S.inp.sequence = o.out.sequence) (hlen : (S.len + 4).toNat = X.length) :
    in_mac_fails S (X ++ out_tag o X) = false := by
  unfold in_mac_fails out_tag
  rw [hmac, hseq, hlen]
  cases o.out.mac with
  | none => rfl
  | some m => simp only [mac_verify_ok, Bool.not_true]

theorem format_encrypt_length_clear (s : ssh2_bpp_state) (data : List Nat)
    (hc : s.out.cipher = none) : format_encrypt_length s data = (s, data) := by
  unfold format_encrypt_length
  rw [hc]

theorem format_encrypt_length_plain (s : ssh2_bpp_state) (c : ssh2_cipher) (data : List Nat)
    (hc : s.out.cipher = some c) (hf : ¬ has_flag c.flags SSH_CIPHER_SEPARATE_LENGTH = true) :
    format_encrypt_length s data = (s, data) := by
  unfold format_encrypt_length
  rw [hc]
  simp only [hf, Bool.false_eq_true, if_false]

theorem format_encrypt_length_separate (s : ssh2_bpp_state) (c : ssh2_cipher)
    (data e1 L : List Nat) (hc : s.out.cipher = some c)
    (hf : has_flag c.flags SSH_CIPHER_SEPARATE_LENGTH = true) (hd : 4 ≤ data.length)
    (henc : c.encrypt_length c.ctx (data.take 4) s.out.sequence = (e1, L))
    (hL : L.length = 4) :
    format_encrypt_length s data =
      ({ s with out := { s.out with cipher := some { c with ctx := e1 } } },
        L ++ data.drop 4) := by
  unfold format_encrypt_length
  rw [hc]
  simp only [hf, if_true, ssh2_cipher_encrypt_length]
  have h4 : (data.take 4).length = 4 := by rw [List.length_take]; omega
  have := cipher_apply_mid (fun ctx b => c.encrypt_length ctx b s.out.sequence) c []
    (data.take 4) (data.drop 4) 0 4 e1 L rfl h4 henc hL
  rw [List.nil_append, List.take_append_drop, List.nil_append] at this
  rw [this]

/-- Keeping the handles and moving their contexts on, in step, keeps the
inverse relation. -/
theorem cipher_inverse_step (R : List Nat → List Nat → Prop) (enc dec : ssh2_cipher) (blk : Nat)
    (h : cipher_inverse R enc dec blk) (e d : List Nat) (hR : R e d) :
    cipher_inverse R { enc with ctx := e } { dec with ctx := d } blk :=
  ⟨h.blksize, h.flags, hR, h.dec_length, h.stream, h.inverse, h.inverse_length⟩

theorem in_cipherblk_eq (o i : ssh2_bpp_state)
    (h : i.inp.cipher.map (fun c => c.blksize) = o.out.cipher.map (fun c => c.blksize)) :
    in_cipherblk i = out_cipherblk o := by
  unfold in_cipherblk out_cipherblk
  cases hi : i.inp.cipher <;> cases ho : o.out.cipher <;> simp [hi, ho] at h ⊢
  rw [h]

/-- What the sender's cleartext image looks like: the length field in front
of the body, the sizes, the alignment to the block size and the bytes. -/
theorem out_cleartext_facts (o : ssh2_bpp_state) (pkt : PktOut)
    (h5 : 5 ≤ (format_compress o pkt).2.length)
    (hb : is_bytes ((format_compress o pkt).2.drop 5))
    (hp : out_padding o (format_compress o pkt).2.length ≤ 255) :
    ∃ len : Nat, out_cleartext o pkt = PUT_32BIT len ++ out_body o pkt ∧
      (out_body o pkt).length = len ∧
      len + 4 = (format_compress o pkt).2.length + out_padding o (format_compress o pkt).2.length ∧
      (len + 4 - out_unencrypted o) % out_cipherblk o = 0 ∧
      is_bytes (out_body o pkt) ∧
      (out_body o pkt).getD 0 0 = out_padding o (format_compress o pkt).2.length ∧
      4 ≤ out_padding o (format_compress o pkt).2.length ∧
      out_padding o (format_compress o pkt).2.length + 5 ≤ len + 4 ∧
      ((out_body o pkt).drop 1).take
          (len + 4 - out_padding o (format_compress o pkt).2.length - 5) =
        (format_compress o pkt).2.drop 5 := by
  obtain ⟨hlen, hshape, hbytes⟩ := out_cleartext_spec o pkt h5 hb
  have hu : out_unencrypted o ≤ (format_compress o pkt).2.length := by
    unfold out_unencrypted; split_ifs <;> omega
  obtain ⟨hp4, _, hal⟩ := out_padding_spec o (format_compress o pkt).2.length hu
  have hbl : (out_body o pkt).length = (format_compress o pkt).2.length +
      out_padding o (format_compress o pkt).2.length - 4 := by
    have := hlen
    rw [hshape, List.length_append, PUT_32BIT_length] at this
    show (out_padding o (format_compress o pkt).2.length % 256 :: _).length = _
    omega
  refine ⟨(format_compress o pkt).2.length + out_padding o (format_compress o pkt).2.length - 4,
    hshape, hbl, by omega, ?_, ?_, ?_, hp4, by omega, ?_⟩
  · rw [show (format_compress o pkt).2.length + out_padding o (format_compress o pkt).2.length
      - 4 + 4 = (format_compress o pkt).2.length +
        out_padding o (format_compress o pkt).2.length by omega]
    exact hal
  · intro x hx
    apply hbytes x
    rw [hshape]
    exact List.mem_append_right _ hx
  · show out_padding o (format_compress o pkt).2.length % 256 = _
    exact Nat.mod_eq_of_lt (by omega)
  · show (((format_compress o pkt).2.drop 5 ++ _)).take _ = _
    rw [List.take_left' (by rw [List.length_drop]; omega)]

/-- The round trip up to the point where the paths join, without a cipher:
the frame the sender made is read by the receiver on the second or third
path and its cleartext arrives. -/
theorem reach_clear (R : List Nat → List Nat → Prop) (unimpl : PktIn → Bool)
    (o i : ssh2_bpp_state) (pkt : PktOut) (r : ssh2_bpp_state × PktOut)
    (hoc : o.out.cipher = none) (hic : i.inp.cipher = none) (hmac : i.inp.mac = o.out.mac)
    (hetm : i.inp.etm_mode = o.out.etm_mode) (hseq : i.inp.sequence = o.out.sequence)
    (h5 : 5 ≤ (format_compress o pkt).2.length)
    (hb : is_bytes ((format_compress o pkt).2.drop 5))
    (hfmt : ssh2_bpp_format_packet_inner o pkt = some r)
    (hlim : r.2.data.length ≤ OUR_V2_PACKETLIMIT)
    (hc : i.crState = cr_label.top) (he : i.input_eof = false) :
    ∃ (L4 : List Nat) (len k : Nat), L4.length = 4 ∧ k ≤ len + 4 ∧
      (out_body o pkt).length = len ∧ len + 4 ≤ r.2.data.length ∧
      ∀ fuel : Nat, ∃ S : ssh2_bpp_state,
        ssh2_bpp_handle_input_run unimpl (fuel + k) (with_input i r.2.data) =
          ssh2_bpp_handle_input_run unimpl fuel S ∧
        at_tail (with_input i r.2.data) S (L4 ++ out_body o pkt) (len + 4) ∧
        ciphers_inverse R r.1.out.cipher S.inp.cipher (out_cipherblk o) := by
  obtain ⟨hp, hdata, hciph, _⟩ := format_packet_inner_frame o pkt r hfmt
  obtain ⟨len, hshape, hbl, hn, hal, hbytes, _⟩ := out_cleartext_facts o pkt h5 hb hp
  have hX : (PUT_32BIT len ++ out_body o pkt).length = len + 4 := by
    rw [List.length_append, PUT_32BIT_length, hbl]; omega
  rw [format_encrypt_length_clear o _ hoc, ← hn, ← hX, ← hshape,
    format_crypt_clear o _ hoc] at hdata hciph
  simp only at hdata hciph
  rw [hshape] at hdata
  have hcb : out_cipherblk o = 8 := by unfold out_cipherblk; rw [hoc]; rfl
  have hil : in_maclen (with_input i r.2.data) = out_maclen o := by
    unfold in_maclen out_maclen with_input
    simp only [hmac]
  have hfl : r.2.data.length = len + 4 + out_maclen o := by
    rw [hdata, List.length_append, hX, out_tag_length]
  have hle : len ≤ OUR_V2_PACKETLIMIT := by omega
  have hres : ciphers_inverse R r.1.out.cipher none (out_cipherblk o) :=
    Or.inl ⟨by rw [hciph, hoc], rfl⟩
  by_cases hpath : o.out.mac.isSome = true ∧ o.out.etm_mode = true
  · have hsel : input_select (with_input i r.2.data) = cr_label.b_len := by
      unfold input_select with_input
      simp only [hic, hmac, hetm]
      obtain ⟨m, hm⟩ := Option.isSome_iff_exists.mp hpath.1
      simp only [hm, hpath.2, if_true]
    have hu : out_unencrypted o = 4 := by
      unfold out_unencrypted; rw [if_pos hpath]
    refine ⟨PUT_32BIT len, len, 3, PUT_32BIT_length len, by omega, hbl, by omega,
      fun fuel => ?_⟩
    obtain ⟨S, hrun, hat, hsc⟩ := recv_b_clear unimpl (with_input i r.2.data) len
      (out_body o pkt) (out_tag o (PUT_32BIT len ++ out_body o pkt)) hc hic hsel he hdata hbl
      (by rw [out_tag_length, hil])
      (in_mac_ok _ o _ hmac hseq (by rw [hX]; show ((len : Int) + 4).toNat = _; omega)) hle
      (by rw [hu, hcb] at hal; omega) fuel
    exact ⟨S, hrun, hat, by rw [hsc]; exact hres⟩
  · have hsel : input_select (with_input i r.2.data) = cr_label.c_first := by
      unfold input_select with_input
      simp only [hic, hmac, hetm]
      cases hm : o.out.mac with
      | none => rfl
      | some m =>
        have : o.out.etm_mode = false := by
          cases h : o.out.etm_mode
          · rfl
          · exact absurd ⟨by rw [hm]; rfl, h⟩ hpath
        simp only [this, Bool.false_eq_true, if_false]
    have hu : out_unencrypted o = 0 := by
      unfold out_unencrypted; rw [if_neg hpath]
    refine ⟨PUT_32BIT len, len, 3, PUT_32BIT_length len, by omega, hbl, by omega,
      fun fuel => ?_⟩
    obtain ⟨S, hrun, hat, hsc⟩ := recv_c_clear unimpl (with_input i r.2.data) len
      (out_body o pkt) (out_tag o (PUT_32BIT len ++ out_body o pkt)) hc hic hsel he hdata hbl
      (by rw [out_tag_length, hil])
      (by
        intro m hm
        have hom : o.out.mac = some m := by rw [← hmac]; exact hm
        have e : out_tag o (PUT_32BIT len ++ out_body o pkt) = mac_result m
            (PUT_32BIT (o.out.sequence % 4294967296) ++ (PUT_32BIT len ++ out_body o pkt)) := by
          unfold out_tag; rw [hom]
        rw [e, ← hX]
        show ssh2_mac_verify m _ _ i.inp.sequence = true
        rw [hseq]
        exact mac_verify_ok m _ _) hle
      (by rw [hu, hcb] at hal; omega) fuel
    exact ⟨S, hrun, hat, by rw [hsc]; exact hres⟩

theorem out_tag_congr (s s1 : ssh2_bpp_state) (X : List Nat) (hm : s1.out.mac = s.out.mac)
    (hs : s1.out.sequence = s.out.sequence) : out_tag s1 X = out_tag s X := by
  unfold out_tag; rw [hm, hs]

/-- The round trip up to the point where the paths join, with a cipher in
encrypt-then-MAC mode (second path), with or without length encryption. -/
theorem reach_etm (R : List Nat → List Nat → Prop) (unimpl : PktIn → Bool)
    (o i : ssh2_bpp_state) (pkt : PktOut) (r : ssh2_bpp_state × PktOut)
    (enc dec : ssh2_cipher) (m : ssh2_mac)
    (hoc : o.out.cipher = some enc) (hic : i.inp.cipher = some dec)
    (hci : cipher_inverse R enc dec (out_cipherblk o))
    (hom : o.out.mac = some m) (hoe : o.out.etm_mode = true)
    (hmac : i.inp.mac = o.out.mac)
    (hetm : i.inp.etm_mode = o.out.etm_mode) (hseq : i.inp.sequence = o.out.sequence)
    (h5 : 5 ≤ (format_compress o pkt).2.length)
    (hb : is_bytes ((format_compress o pkt).2.drop 5))
    (hfmt : ssh2_bpp_format_packet_inner o pkt = some r)
    (hlim : r.2.data.length ≤ OUR_V2_PACKETLIMIT)
    (hc : i.crState = cr_label.top) (he : i.input_eof = false) :
    ∃ (L4 : List Nat) (len k : Nat), L4.length = 4 ∧ k ≤ len + 4 ∧
      (out_body o pkt).length = len ∧ len + 4 ≤ r.2.data.length ∧
      ∀ fuel : Nat, ∃ S : ssh2_bpp_state,
        ssh2_bpp_handle_input_run unimpl (fuel + k) (with_input i r.2.data) =
          ssh2_bpp_handle_input_run unimpl fuel S ∧
        at_tail (with_input i r.2.data) S (L4 ++ out_body o pkt) (len + 4) ∧
        ciphers_inverse R r.1.out.cipher S.inp.cipher (out_cipherblk o) := by
  obtain ⟨hp, hdata, hciph, _⟩ := format_packet_inner_frame o pkt r hfmt
  obtain ⟨len, hshape, hbl, hn, hal, hbytes, _⟩ := out_cleartext_facts o pkt h5 hb hp
  have hX : (PUT_32BIT len ++ out_body o pkt).length = len + 4 := by
    rw [List.length_append, PUT_32BIT_length, hbl]; omega
  have hu : out_unencrypted o = 4 := by
    unfold out_unencrypted; rw [if_pos ⟨by rw [hom]; rfl, hoe⟩]
  have hdvd : out_cipherblk o ∣ (out_body o pkt).length := by
    rw [hbl]; rw [hu] at hal
    exact Nat.dvd_of_mod_eq_zero (by rw [← hal]; congr 1)
  have hcbe : in_cipherblk (with_input i r.2.data) = out_cipherblk o := by
    apply in_cipherblk_eq
    show i.inp.cipher.map _ = _
    rw [hic, hoc]
    simp only [Option.map_some']
    rw [hci.blksize]
  have hil : in_maclen (with_input i r.2.data) = out_maclen o := by
    unfold in_maclen out_maclen with_input
    simp only [hmac]
  have hsel : input_select (with_input i r.2.data) = cr_label.b_len := by
    unfold input_select with_input
    simp only [hic, hmac, hetm, hom, hoe, Bool.true_eq_false, and_false, if_false, if_true]
  -- the length field, encrypted or not
  have hlenc : ∃ (o1 : ssh2_bpp_state) (L e1 d1 : List Nat),
      format_encrypt_length o (out_cleartext o pkt) = (o1, L ++ out_body o pkt) ∧
      o1.out = { o.out with cipher := some { enc with ctx := e1 } } ∧ L.length = 4 ∧
      R e1 d1 ∧
      (if has_flag dec.flags SSH_CIPHER_SEPARATE_LENGTH = true
        then dec.decrypt_length dec.ctx L i.inp.sequence = (d1, PUT_32BIT len)
        else L = PUT_32BIT len ∧ d1 = dec.ctx) := by
    by_cases hf : has_flag enc.flags SSH_CIPHER_SEPARATE_LENGTH = true
    · obtain ⟨hl4, hdl, hR1⟩ := hci.inverse_length enc.ctx dec.ctx (PUT_32BIT len)
        o.out.sequence hci.in_step (PUT_32BIT_length len) (PUT_32BIT_is_bytes len)
      refine ⟨{ o with out := { o.out with cipher := some { enc with
          ctx := (enc.encrypt_length enc.ctx (PUT_32BIT len) o.out.sequence).1 } } },
        (enc.encrypt_length enc.ctx (PUT_32BIT len) o.out.sequence).2,
        (enc.encrypt_length enc.ctx (PUT_32BIT len) o.out.sequence).1,
        (dec.decrypt_length dec.ctx (enc.encrypt_length enc.ctx (PUT_32BIT len)
          o.out.sequence).2 o.out.sequence).1, ?_, rfl, hl4, hR1, ?_⟩
      · rw [format_encrypt_length_separate o enc (out_cleartext o pkt) _ _ hoc hf
          (by rw [hshape, hX]; omega)
          (by rw [hshape, List.take_left' (PUT_32BIT_length len)]) hl4]
        rw [hshape, List.drop_left' (PUT_32BIT_length len)]
      · rw [hci.flags, if_pos hf, hseq]
        exact Prod.ext rfl hdl
    · refine ⟨o, PUT_32BIT len, enc.ctx, dec.ctx, ?_, ?_, PUT_32BIT_length len, hci.in_step, ?_⟩
      · rw [format_encrypt_length_plain o enc _ hoc hf, hshape]
      · calc o.out = { o.out with cipher := o.out.cipher } := rfl
          _ = _ := by rw [hoc]
      · rw [hci.flags, if_neg hf]
        exact ⟨rfl, rfl⟩
  obtain ⟨o1, L, e1, d1, hfel, ho1, hL4, hR1, hdl⟩ := hlenc
  obtain ⟨hYl, hYd, hR2⟩ := hci.inverse e1 d1 (out_body o pkt) hR1 hdvd hbytes
  have ho1c : o1.out.cipher = some { enc with ctx := e1 } := by rw [ho1]
  have ho1m : o1.out.mac = some m := by rw [ho1]; exact hom
  have ho1e : o1.out.etm_mode = true := by rw [ho1]; exact hoe
  have ho1s : o1.out.sequence = o.out.sequence := by rw [ho1]
  have hml1 : out_maclen o = out_maclen o1 := by
    unfold out_maclen; rw [ho1m, hom]
  have hnn : (format_compress o pkt).2.length +
      out_padding o (format_compress o pkt).2.length = 4 + (out_body o pkt).length := by
    rw [hbl]; omega
  rw [hfel] at hdata hciph
  simp only at hdata hciph
  rw [hnn, hml1, format_crypt_etm o1 { enc with ctx := e1 } m L (out_body o pkt)
    (enc.encrypt e1 (out_body o pkt)).2 (enc.encrypt e1 (out_body o pkt)).1 ho1c ho1m ho1e hL4
    rfl hYl] at hdata hciph
  simp only at hdata hciph
  rw [out_tag_congr o o1 _ (by rw [ho1m, hom]) ho1s] at hdata
  have hLY : (L ++ (enc.encrypt e1 (out_body o pkt)).2).length = len + 4 := by
    rw [List.length_append, hL4, hYl, hbl]; omega
  have hfl : r.2.data.length = len + 4 + out_maclen o := by
    rw [hdata, List.length_append, hLY, out_tag_length]
  have hle : len ≤ OUR_V2_PACKETLIMIT := by omega
  refine ⟨L, len, 3, hL4, by omega, hbl, by omega, fun fuel => ?_⟩
  obtain ⟨S, hrun, hat, hsc⟩ := recv_b_cipher unimpl (with_input i r.2.data) dec len L
    (enc.encrypt e1 (out_body o pkt)).2 (out_body o pkt)
    (out_tag o (L ++ (enc.encrypt e1 (out_body o pkt)).2)) d1
    (dec.decrypt d1 (enc.encrypt e1 (out_body o pkt)).2).1 hc hic hsel he hdata hL4
    (by rw [hYl, hbl]) hbl (by rw [out_tag_length, hil]) hdl (Prod.ext rfl hYd)
    (in_mac_ok _ o _ hmac hseq (by rw [hLY]; show ((len : Int) + 4).toNat = _; omega)) hle
    (by rw [hcbe]; rw [hbl] at hdvd; exact Nat.mod_eq_zero_of_dvd hdvd) fuel
  exact ⟨S, hrun, hat, Or.inr ⟨_, _, hciph, hsc, cipher_inverse_step R enc dec _ hci _ _ hR2⟩⟩

/-- The round trip up to the point where the paths join, with a cipher
outside encrypt-then-MAC mode: the first path for a CBC cipher with a MAC,
else the third. -/
theorem reach_mte (R : List Nat → List Nat → Prop) (unimpl : PktIn → Bool)
    (o i : ssh2_bpp_state) (pkt : PktOut) (r : ssh2_bpp_state × PktOut)
    (enc dec : ssh2_cipher)
    (hoc : o.out.cipher = some enc) (hic : i.inp.cipher = some dec)
    (hci : cipher_inverse R enc dec (out_cipherblk o))
    (hne : ¬ (o.out.mac.isSome = true ∧ o.out.etm_mode = true))
    (hf : ¬ has_flag enc.flags SSH_CIPHER_SEPARATE_LENGTH = true)
    (hmac : i.inp.mac = o.out.mac)
    (hetm : i.inp.etm_mode = o.out.etm_mode) (hseq : i.inp.sequence = o.out.sequence)
    (h5 : 5 ≤ (format_compress o pkt).2.length)
    (hb : is_bytes ((format_compress o pkt).2.drop 5))
    (hfmt : ssh2_bpp_format_packet_inner o pkt = some r)
    (hlim : r.2.data.length ≤ OUR_V2_PACKETLIMIT)
    (hc : i.crState = cr_label.top) (he : i.input_eof = false) :
    ∃ (L4 : List Nat) (len k : Nat), L4.length = 4 ∧ k ≤ len + 4 ∧
      (out_body o pkt).length = len ∧ len + 4 ≤ r.2.data.length ∧
      ∀ fuel : Nat, ∃ S : ssh2_bpp_state,
        ssh2_bpp_handle_input_run unimpl (fuel + k) (with_input i r.2.data) =
          ssh2_bpp_handle_input_run unimpl fuel S ∧
        at_tail (with_input i r.2.data) S (L4 ++ out_body o pkt) (len + 4) ∧
        ciphers_inverse R r.1.out.cipher S.inp.cipher (out_cipherblk o) := by
  obtain ⟨hp, hdata, hciph, _⟩ := format_packet_inner_frame o pkt r hfmt
  obtain ⟨len, hshape, hbl, hn, hal, hbytes, _⟩ := out_cleartext_facts o pkt h5 hb hp
  have hcb8 := out_cipherblk_ge o
  have hX : (PUT_32BIT len ++ out_body o pkt).length = len + 4 := by
    rw [List.length_append, PUT_32BIT_length, hbl]; omega
  have hXb : is_bytes (PUT_32BIT len ++ out_body o pkt) :=
    is_bytes_append _ _ (PUT_32BIT_is_bytes len) hbytes
  have hu : out_unencrypted o = 0 := by
    unfold out_unencrypted; rw [if_neg hne]
  have hdvd : out_cipherblk o ∣ (PUT_32BIT len ++ out_body o pkt).length := by
    rw [hX]; rw [hu] at hal
    exact Nat.dvd_of_mod_eq_zero hal
  have hcbe : in_cipherblk (with_input i r.2.data) = out_cipherblk o := by
    apply in_cipherblk_eq
    show i.inp.cipher.map _ = _
    rw [hic, hoc]
    simp only [Option.map_some']
    rw [hci.blksize]
  have hil : in_maclen (with_input i r.2.data) = out_maclen o := by
    unfold in_maclen out_maclen with_input
    simp only [hmac]
  obtain ⟨hEl, hEd, hR1⟩ := hci.inverse enc.ctx dec.ctx (PUT_32BIT len ++ out_body o pkt)
    hci.in_step hdvd hXb
  rw [format_encrypt_length_plain o enc _ hoc hf, ← hn, ← hX, ← hshape] at hdata hciph
  simp only at hdata hciph
  rw [format_crypt_mte o enc (out_cleartext o pkt) (enc.encrypt enc.ctx (out_cleartext o pkt)).2
    (enc.encrypt enc.ctx (out_cleartext o pkt)).1 hoc hne rfl (by rw [hshape]; exact hEl)]
    at hdata hciph
  simp only at hdata hciph
  rw [hshape] at hdata hciph
  generalize hEdef : (enc.encrypt enc.ctx (PUT_32BIT len ++ out_body o pkt)).2 = E at *
  generalize hPdef : PUT_32BIT len ++ out_body o pkt = P at *
  have hE : E.length = len + 4 := by rw [hEl, hX]
  have hfl : r.2.data.length = len + 4 + out_maclen o := by
    rw [hdata, List.length_append, hE, out_tag_length]
  have hle : len ≤ OUR_V2_PACKETLIMIT := by omega
  have hcbn : out_cipherblk o ≤ len + 4 := by
    rw [hX] at hdvd
    exact Nat.le_of_dvd (by omega) hdvd
  have hres : ciphers_inverse R r.1.out.cipher
      (some { dec with ctx := (dec.decrypt dec.ctx E).1 }) (out_cipherblk o) :=
    Or.inr ⟨_, _, hciph, rfl, cipher_inverse_step R enc dec _ hci _ _ hR1⟩
  have htake := fun k hk hkn => decrypt_take R enc dec (out_cipherblk o) hci enc.ctx dec.ctx
    (PUT_32BIT len ++ out_body o pkt) hci.in_step (by rw [hPdef]; exact hdvd)
    (by rw [hPdef]; exact hXb) k hk (by rw [hPdef, hX]; exact hkn)
  have hblock := fun k hk hkn => decrypt_block R enc dec (out_cipherblk o) hci enc.ctx dec.ctx
    (PUT_32BIT len ++ out_body o pkt) hci.in_step (by rw [hPdef]; exact hdvd)
    (by rw [hPdef]; exact hXb) k hk (by rw [hPdef, hX]; exact hkn)
  rw [hPdef] at htake hblock
  simp only [hEdef] at htake hblock
  by_cases hpath : has_flag dec.flags SSH_CIPHER_IS_CBC = true ∧ o.out.mac.isSome = true
  · -- first path
    obtain ⟨m, hom⟩ := Option.isSome_iff_exists.mp hpath.2
    have hoe : o.out.etm_mode = false := by
      cases h : o.out.etm_mode
      · rfl
      · exact absurd ⟨hpath.2, h⟩ hne
    have hsel : input_select (with_input i r.2.data) = cr_label.a_mac := by
      unfold input_select with_input
      simp only [hic, hmac, hetm, hom, hoe, hpath.1, and_self, if_true]
    have htag : out_tag o P = mac_result m (PUT_32BIT (o.out.sequence % 4294967296) ++ P) := by
      unfold out_tag; rw [hom]
    have hk : (len + 4) / out_cipherblk o + 2 ≤ len + 4 := by
      have : (len + 4) / out_cipherblk o ≤ (len + 4) / 8 :=
        Nat.div_le_div_left hcb8 (by omega)
      omega
    refine ⟨PUT_32BIT len, len, (len + 4) / out_cipherblk o + 2, PUT_32BIT_length len, hk,
      hbl, by omega, fun fuel => ?_⟩
    obtain ⟨S, hrun, hat, hsc⟩ := recv_a unimpl (with_input i r.2.data) dec m len
      (out_body o pkt) E (out_tag o P)
      (fun k => if k = 0 then dec.ctx else (dec.decrypt dec.ctx (E.take k)).1)
      hc hic (by show i.inp.mac = some m; rw [hmac, hom]) hsel he hdata hbl hE
      (by rw [out_tag_length, hil]) (by rw [hcbe]; rw [hX] at hdvd; exact hdvd)
      (by simp)
      (by
        intro k hk hkn
        rw [hcbe] at hk hkn ⊢
        rw [hPdef]
        have hne0 : k + out_cipherblk o ≠ 0 := by omega
        beta_reduce
        rw [if_neg hne0]
        by_cases h0 : k = 0
        · subst h0
          simp only [if_true, List.drop_zero, Nat.zero_add]
          exact Prod.ext rfl (htake (out_cipherblk o) (dvd_refl _) (by omega)).1
        · rw [if_neg h0]
          exact hblock k hk hkn)
      (by
        rw [hPdef, htag]
        show ssh2_mac_verresult m (PUT_32BIT (i.inp.sequence % 4294967296) ++ P) _ = true
        rw [hseq]
        exact mac_verresult_ok m _) hle fuel
    rw [hcbe] at hrun
    refine ⟨S, ?_, hat, ?_⟩
    · rw [← hrun]; rfl
    · rw [hsc, if_neg (by omega), ← hE, List.take_of_length_le (le_refl _)]
      exact hres
  · -- third path
    have hsel : input_select (with_input i r.2.data) = cr_label.c_first := by
      unfold input_select with_input
      simp only [hic, hmac, hetm]
      cases hom : o.out.mac with
      | none => rfl
      | some m =>
        have hoe : o.out.etm_mode = false := by
          cases h : o.out.etm_mode
          · rfl
          · exact absurd ⟨by rw [hom]; rfl, h⟩ hne
        have hcbc : ¬ has_flag dec.flags SSH_CIPHER_IS_CBC = true := by
          intro h
          exact hpath ⟨h, by rw [hom]; rfl⟩
        simp only [hoe, hcbc, Bool.false_eq_true, and_true, if_false]
    refine ⟨PUT_32BIT len, len, 3, PUT_32BIT_length len, by omega, hbl, by omega,
      fun fuel => ?_⟩
    obtain ⟨S, hrun, hat, hsc⟩ := recv_c_cipher unimpl (with_input i r.2.data) dec len
      (out_body o pkt) E (out_tag o P)
      (dec.decrypt dec.ctx (E.take (out_cipherblk o))).1 (dec.decrypt dec.ctx E).1
      hc hic hsel he hdata hbl hE (by rw [out_tag_length, hil])
      (by
        rw [hcbe, hPdef]
        exact Prod.ext rfl (htake (out_cipherblk o) (dvd_refl _) hcbn).1)
      (by
        rw [hcbe, hPdef]
        exact (htake (out_cipherblk o) (dvd_refl _) hcbn).2)
      (by
        intro m hm
        have hom : o.out.mac = some m := by rw [← hmac]; exact hm
        have e : out_tag o P = mac_result m (PUT_32BIT (o.out.sequence % 4294967296) ++ P) := by
          unfold out_tag; rw [hom]
        rw [hPdef, e]
        have hPl : P.length = len + 4 := hX
        rw [← hPl]
        show ssh2_mac_verify m _ _ i.inp.sequence = true
        rw [hseq]
        exact mac_verify_ok m _ _) hle
      (by rw [hcbe]; rw [hX] at hdvd; exact Nat.mod_eq_zero_of_dvd hdvd) fuel
    exact ⟨S, hrun, hat, by rw [hsc]; exact hres⟩

theorem format_packet_inner_etm (s : ssh2_bpp_state) (pkt : PktOut)
    (r : ssh2_bpp_state × PktOut) (h : ssh2_bpp_format_packet_inner s pkt = some r) :
    r.1.out.etm_mode = s.out.etm_mode := by
  have key : ∀ (a : Nat) (b c : List Nat) (d : Nat), out_keeps s
      (format_crypt (format_encrypt_length (random_bytes (format_compress s pkt).1 a).2 b).1
        c d).1 := fun a b c d =>
    ((format_compress_keeps s pkt).trans (random_bytes_keeps _ a)).trans
      ((format_encrypt_length_keeps _ b).trans (format_crypt_keeps _ c d))
  unfold ssh2_bpp_format_packet_inner at h
  simp only at h
  split_ifs at h with hp
  simp only [Option.some.injEq] at h
  subst h
  exact (key _ _ _ _).etm

theorem take_cons_parts (l : List Nat) (k t : Nat) (p : List Nat)
    (h : (l.drop 1).take (k + 1) = t :: p) :
    l.getD 1 0 = t ∧ (l.drop 2).take k = p := by
  cases l with
  | nil => simp at h
  | cons a l1 =>
    cases l1 with
    | nil => simp at h
    | cons b l2 =>
      simp only [List.drop_succ_cons, List.drop_zero, List.take_succ_cons, List.cons.injEq] at h
      exact ⟨by simp [h.1], by simpa using h.2⟩

/-- The round trip from the point where the paths join: the receiver builds
the packet with the sender's type byte and payload and returns, and the two
compression contexts are in step again. -/
theorem round_trip_finish (Rc : List Nat → List Nat → Prop) (unimpl : PktIn → Bool)
    (o i S : ssh2_bpp_state) (t : Nat) (p : List Nat) (pkt : PktOut) (frame L4 : List Nat)
    (len : Nat) (hcomp : comps_inverse Rc o.out_comp i.in_decomp)
    (ht : t < 256) (hp : is_bytes p)
    (hpkt : pkt.data = (ssh2_bpp_new_pktout t).data ++ p)
    (hpad : out_padding o (format_compress o pkt).2.length ≤ 255)
    (hL4 : L4.length = 4)
    (hat : at_tail (with_input i frame) S (L4 ++ out_body o pkt) (len + 4))
    (hbl : (out_body o pkt).length = len)
    (hu : unimpl { type := t, sequence := i.inp.sequence, payload := p } = false)
    (fuel : Nat) :
    5 ≤ (format_compress o pkt).2.length ∧ is_bytes ((format_compress o pkt).2.drop 5) ∧
    ∃ i1 : ssh2_bpp_state, ssh2_bpp_handle_input_run unimpl (fuel + 4) S = some (i1, none) ∧
      i1.in_pq = i.in_pq ++ [{ type := t, sequence := i.inp.sequence, payload := p }] ∧
      i1.inp.sequence = (i.inp.sequence + 1) % 4294967296 ∧ i1.in_raw = [] ∧
      i1.inp.cipher = S.inp.cipher ∧ i1.inp.mac = i.inp.mac ∧
      i1.inp.etm_mode = i.inp.etm_mode ∧
      comps_inverse Rc (format_compress o pkt).1.out_comp i1.in_decomp := by
  have hd5 : pkt.data.drop 5 = t :: p := by
    rw [hpkt]
    simp only [ssh2_bpp_new_pktout, put_byte, List.cons_append, List.nil_append,
      List.drop_succ_cons, List.drop_zero, Nat.mod_eq_of_lt ht]
  have hdl : 6 ≤ pkt.data.length := by
    rw [hpkt]; simp [ssh2_bpp_new_pktout, put_byte]
  have htp : is_bytes (t :: p) := by
    intro x hx
    rcases List.mem_cons.mp hx with rfl | hx
    · exact ht
    · exact hp x hx
  have hg4 : (L4 ++ out_body o pkt).getD 4 0 = (out_body o pkt).getD 0 0 := by
    simp only [List.getD_eq_getElem?_getD]
    rw [List.getElem?_append_right (by rw [hL4]), hL4]
  have hg5 : (L4 ++ out_body o pkt).getD 5 0 = (out_body o pkt).getD 1 0 := by
    simp only [List.getD_eq_getElem?_getD]
    rw [List.getElem?_append_right (by rw [hL4]; omega), hL4]
  have hdr : ∀ j, (L4 ++ out_body o pkt).drop (j + 4) = (out_body o pkt).drop j := by
    intro j
    rw [Nat.add_comm, ← List.drop_drop, List.drop_left' hL4]
  have hdn : (L4 ++ out_body o pkt).length = len + 4 := by
    rw [List.length_append, hL4, hbl]; omega
  rcases hcomp with ⟨hoc, hic⟩ | ⟨comp, dc, hoc, hic, hci⟩
  · have hfc : format_compress o pkt = (o, pkt.data) := by
      unfold format_compress; rw [hoc]
    have h5 : 5 ≤ (format_compress o pkt).2.length := by rw [hfc]; simp only; omega
    have hb : is_bytes ((format_compress o pkt).2.drop 5) := by
      rw [hfc]; simp only; rw [hd5]; exact htp
    refine ⟨h5, hb, ?_⟩
    obtain ⟨len1, hshape, hbl1, hn, _, _, hg0, hp4, hp5, hbody⟩ :=
      out_cleartext_facts o pkt h5 hb hpad
    have hll : len1 = len := by rw [← hbl1, hbl]
    subst hll
    rw [hfc] at hbody hn hg0 hp4 hp5
    simp only at hbody hn hg0 hp4 hp5
    rw [hd5] at hbody
    have hk : len1 + 4 - out_padding o pkt.data.length - 5 =
        (len1 + 4 - out_padding o pkt.data.length - 6) + 1 := by omega
    rw [hk] at hbody
    obtain ⟨hty, hpl⟩ := take_cons_parts _ _ _ _ hbody
    obtain ⟨i1, hrun, h1, h2, h3, _, h5c, h6, h7, h8⟩ := finish_plain unimpl
      (with_input i frame) S (L4 ++ out_body o pkt) (len1 + 4)
      { type := t, sequence := i.inp.sequence, payload := p } hat hic
      (by rw [hg4, hg0]; exact hp4) (by rw [hg4, hg0]; exact hp5)
      (by
        rw [hg4, hg0, hg5, hty, if_neg (by omega), hdr 2, hpl]
        rfl) hu fuel
    exact ⟨i1, hrun, h1, h2, h3, h5c, h6, h7, Or.inl ⟨by rw [hfc]; exact hoc, by rw [h8]; exact hic⟩⟩
  · have hfc : format_compress o pkt = ({ o with out_comp := some { comp with
        ctx := (comp.compress comp.ctx (pkt.data.drop 5) (compress_minlen o pkt)).1 } },
        pkt.data.take 5 ++
          (comp.compress comp.ctx (pkt.data.drop 5) (compress_minlen o pkt)).2) := by
      unfold format_compress; rw [hoc]
    obtain ⟨hcb, hcinv, hcR⟩ := hci.inverse comp.ctx dc.ctx (pkt.data.drop 5)
      (compress_minlen o pkt) hci.in_step (by rw [hd5]; exact htp)
    have ht5 : (pkt.data.take 5).length = 5 := by rw [List.length_take]; omega
    have h5 : 5 ≤ (format_compress o pkt).2.length := by
      rw [hfc]; simp only; rw [List.length_append, ht5]; omega
    have hdrop : (format_compress o pkt).2.drop 5 =
        (comp.compress comp.ctx (pkt.data.drop 5) (compress_minlen o pkt)).2 := by
      rw [hfc]; simp only; rw [List.drop_left' ht5]
    have hb : is_bytes ((format_compress o pkt).2.drop 5) := by
      rw [hdrop]; exact hcb
    refine ⟨h5, hb, ?_⟩
    obtain ⟨len1, hshape, hbl1, hn, _, _, hg0, hp4, hp5, hbody⟩ :=
      out_cleartext_facts o pkt h5 hb hpad
    have hll : len1 = len := by rw [← hbl1, hbl]
    subst hll
    rw [hdrop] at hbody
    obtain ⟨i1, hrun, h1, h2, h3, _, h5c, h6, h7, h8⟩ := finish_decomp unimpl
      (with_input i frame) S (L4 ++ out_body o pkt) (len1 + 4) dc
      (dc.decompress dc.ctx (comp.compress comp.ctx (pkt.data.drop 5)
        (compress_minlen o pkt)).2).1 t p hat hdn hic
      (by rw [hg4, hg0]; exact hp4) (by rw [hg4, hg0]; exact hp5)
      (by
        rw [hg4, hg0, hdr 1, hbody]
        exact Prod.ext rfl (by rw [hcinv, hd5])) hu fuel
    refine ⟨i1, hrun, h1, h2, h3, h5c, h6, h7, Or.inr ⟨{ comp with
      ctx := (comp.compress comp.ctx (pkt.data.drop 5) (compress_minlen o pkt)).1 }, _, ?_, h8,
      ?_⟩⟩
    · rw [hfc]
    · exact ⟨hcR, hci.inverse⟩

/-- The bytes that the sender compresses and frames come from a packet made
of a type byte and payload bytes: there are at least the five bytes of
header room and the rest are bytes. -/
theorem format_compress_facts (Rc : List Nat → List Nat → Prop) (o i : ssh2_bpp_state)
    (t : Nat) (p : List Nat) (pkt : PktOut)
    (hcomp : comps_inverse Rc o.out_comp i.in_decomp) (ht : t < 256) (hp : is_bytes p)
    (hpkt : pkt.data = (ssh2_bpp_new_pktout t).data ++ p) :
    5 ≤ (format_compress o pkt).2.length ∧ is_bytes ((format_compress o pkt).2.drop 5) := by
  have hd5 : pkt.data.drop 5 = t :: p := by
    rw [hpkt]
    simp only [ssh2_bpp_new_pktout, put_byte, List.cons_append, List.nil_append,
      List.drop_succ_cons, List.drop_zero, Nat.mod_eq_of_lt ht]
  have hdl : 6 ≤ pkt.data.length := by
    rw [hpkt]; simp [ssh2_bpp_new_pktout, put_byte]
  have htp : is_bytes (t :: p) := by
    intro x hx
    rcases List.mem_cons.mp hx with rfl | hx
    · exact ht
    · exact hp x hx
  rcases hcomp with ⟨hoc, _⟩ | ⟨comp, dc, hoc, _, hci⟩
  · have hfc : format_compress o pkt = (o, pkt.data) := by
      unfold format_compress; rw [hoc]
    rw [hfc]
    exact ⟨by simp only; omega, by simp only; rw [hd5]; exact htp⟩
  · have hfc : format_compress o pkt = ({ o with out_comp := some { comp with
        ctx := (comp.compress comp.ctx (pkt.data.drop 5) (compress_minlen o pkt)).1 } },
        pkt.data.take 5 ++
          (comp.compress comp.ctx (pkt.data.drop 5) (compress_minlen o pkt)).2) := by
      unfold format_compress; rw [hoc]
    obtain ⟨hcb, _, _⟩ := hci.inverse comp.ctx dc.ctx (pkt.data.drop 5)
      (compress_minlen o pkt) hci.in_step (by rw [hd5]; exact htp)
    have ht5 : (pkt.data.take 5).length = 5 := by rw [List.length_take]; omega
    rw [hfc]
    refine ⟨by simp only; rw [List.length_append, ht5]; omega, ?_⟩
    simp only
    rw [List.drop_left' ht5]
    exact hcb

/-- C1 (amended round-trip law): let the incoming direction of the receiving
engine be the inverse of the outgoing direction of the sending engine (the
receiving cipher undoes the sending one block-wise, same MAC and mode, the
decompressor undoes the compressor, same sequence number), with a cipher
that has `SSH_CIPHER_SEPARATE_LENGTH` used only with a MAC in
encrypt-then-MAC mode. Then for every packet with a type byte `t` and
payload bytes `p` that `ssh2_bpp_format_packet_inner` frames within
`OUR_V2_PACKETLIMIT` bytes, and that is not consumed as unimplemented,
`ssh2_bpp_handle_input` fed with the frame at the start of a packet returns
without ending the session, has queued exactly one `PktIn`, of type `t`,
payload `p` and the common sequence number, has used up the frame, and the
two directions are inverses of each other again. -/
theorem C1_round_trip (R Rc : List Nat → List Nat → Prop) (unimpl : PktIn → Bool)
    (o i : ssh2_bpp_state) (t : Nat) (p : List Nat) (pkt : PktOut)
    (r : ssh2_bpp_state × PktOut)
    (hinv : crypto_inverse R Rc o i)
    (hsep : ∀ enc, o.out.cipher = some enc →
      has_flag enc.flags SSH_CIPHER_SEPARATE_LENGTH = true →
      o.out.mac.isSome = true ∧ o.out.etm_mode = true)
    (ht : t < 256) (hp : is_bytes p)
    (hpkt : pkt.data = (ssh2_bpp_new_pktout t).data ++ p)
    (hfmt : ssh2_bpp_format_packet_inner o pkt = some r)
    (hlim : r.2.data.length ≤ OUR_V2_PACKETLIMIT)
    (hc : i.crState = cr_label.top) (he : i.input_eof = false)
    (hu : unimpl { type := t, sequence := i.inp.sequence, payload := p } = false) :
    ∃ i1 : ssh2_bpp_state,
      ssh2_bpp_handle_input unimpl (with_input i r.2.data) = some (i1, none) ∧
      i1.in_pq = i.in_pq ++ [{ type := t, sequence := i.inp.sequence, payload := p }] ∧
      i1.in_raw = [] ∧ crypto_inverse R Rc r.1 i1 := by
  obtain ⟨h5, hb⟩ := format_compress_facts Rc o i t p pkt hinv.comp ht hp hpkt
  obtain ⟨hpad, _, _, hrcomp⟩ := format_packet_inner_frame o pkt r hfmt
  obtain ⟨_, _, hrseq, hrblk, _, _, _, hrmac, _⟩ := format_packet_inner_keeps o pkt r hfmt
  have hretm := format_packet_inner_etm o pkt r hfmt
  have hreach : ∃ (L4 : List Nat) (len k : Nat), L4.length = 4 ∧ k ≤ len + 4 ∧
      (out_body o pkt).length = len ∧ len + 4 ≤ r.2.data.length ∧
      ∀ fuel : Nat, ∃ S : ssh2_bpp_state,
        ssh2_bpp_handle_input_run unimpl (fuel + k) (with_input i r.2.data) =
          ssh2_bpp_handle_input_run unimpl fuel S ∧
        at_tail (with_input i r.2.data) S (L4 ++ out_body o pkt) (len + 4) ∧
        ciphers_inverse R r.1.out.cipher S.inp.cipher (out_cipherblk o) := by
    rcases hinv.cipher with ⟨hoc, hic⟩ | ⟨enc, dec, hoc, hic, hci⟩
    · exact reach_clear R unimpl o i pkt r hoc hic hinv.mac hinv.etm_mode hinv.sequence h5 hb
        hfmt hlim hc he
    · by_cases hpath : o.out.mac.isSome = true ∧ o.out.etm_mode = true
      · obtain ⟨m, hom⟩ := Option.isSome_iff_exists.mp hpath.1
        exact reach_etm R unimpl o i pkt r enc dec m hoc hic hci hom hpath.2 hinv.mac
          hinv.etm_mode hinv.sequence h5 hb hfmt hlim hc he
      · exact reach_mte R unimpl o i pkt r enc dec hoc hic hci hpath
          (fun hflag => hpath (hsep enc hoc hflag)) hinv.mac hinv.etm_mode hinv.sequence h5 hb
          hfmt hlim hc he
  obtain ⟨L4, len, k, hL4, hk, hbl, hfl, hrun⟩ := hreach
  obtain ⟨S, hrunS, hat, hciph⟩ := hrun (2 * r.2.data.length - k + 4)
  obtain ⟨_, _, i1, hfin, hq, hseq, hraw, hic1, him1, hie1, hcomp1⟩ := round_trip_finish Rc
    unimpl o i S t p pkt r.2.data L4 len hinv.comp ht hp hpkt hpad hL4 hat hbl hu
    (2 * r.2.data.length - k)
  refine ⟨i1, ?_, hq, hraw, ⟨?_, ?_, ?_, ?_, ?_⟩⟩
  · unfold ssh2_bpp_handle_input
    have hf : 2 * (with_input i r.2.data).in_raw.length + 4 =
        (2 * r.2.data.length - k + 4) + k := by
      show 2 * r.2.data.length + 4 = _
      omega
    rw [hf, hrunS, hfin]
  · rw [hrblk, hic1]; exact hciph
  · rw [him1, hrmac]; exact hinv.mac
  · rw [hie1, hretm]; exact hinv.etm_mode
  · rw [hrcomp]; exact hcomp1
  · rw [hseq, hrseq, hinv.sequence]

theorem shift_stream_length (k : Nat) (l : List Nat) : (shift_stream k l).length = l.length := by
  induction l generalizing k with
  | nil => rfl
  | cons b rest ih => simp only [shift_stream, List.length_cons, ih]

theorem unshift_stream_length (k : Nat) (l : List Nat) :
    (unshift_stream k l).length = l.length := by
  induction l generalizing k with
  | nil => rfl
  | cons b rest ih => simp only [unshift_stream, List.length_cons, ih]

theorem unshift_shift_stream (k : Nat) (l : List Nat) (h : is_bytes l) :
    unshift_stream k (shift_stream k l) = l := by
  induction l generalizing k with
  | nil => rfl
  | cons b rest ih =>
    have hb : b < 256 := h b (List.mem_cons_self _ _)
    simp only [shift_stream, unshift_stream]
    rw [ih (k + 1) (fun x hx => h x (List.mem_cons_of_mem _ hx))]
    congr 1
    omega

theorem unshift_stream_append (k : Nat) (a b : List Nat) :
    unshift_stream k (a ++ b) = unshift_stream k a ++ unshift_stream (k + a.length) b := by
  induction a generalizing k with
  | nil => rfl
  | cons x rest ih =>
    have e : k + (rest.length + 1) = k + 1 + rest.length := by omega
    show (x + 256 - k % 256) % 256 :: unshift_stream (k + 1) (rest ++ b) =
      (x + 256 - k % 256) % 256 :: unshift_stream (k + 1) rest ++
        unshift_stream (k + (rest.length + 1)) b
    rw [ih, e]
    rfl

/-- The toy cipher is its own inverse in the sense of `cipher_inverse`, the
two contexts being in step when they are equal. -/
theorem cipher_example_inverse (blksize flags blk : Nat) :
    cipher_inverse (fun e d => e = d) (cipher_example blksize flags)
      (cipher_example blksize flags) blk := by
  refine ⟨rfl, rfl, rfl, ?_, ?_, ?_, ?_⟩
  · intro d a
    exact unshift_stream_length _ a
  · intro d a b _
    refine ⟨unshift_stream_append _ a b, ?_⟩
    show [d.headD 0 + (a ++ b).length] = [([d.headD 0 + a.length] : List Nat).headD 0 + b.length]
    rw [List.length_append]
    simp only [List.headD_cons, Nat.add_assoc]
  · intro e d P hR _ hP
    subst hR
    refine ⟨shift_stream_length _ P, unshift_shift_stream _ P hP, ?_⟩
    show [e.headD 0 + P.length] = [e.headD 0 + (shift_stream (e.headD 0) P).length]
    rw [shift_stream_length]
  · intro e d l seq hR hl hP
    subst hR
    refine ⟨by show (l.map _).length = 4; rw [List.length_map, hl], ?_, rfl⟩
    show (l.map (fun b => (b + seq) % 256)).map (fun b => (b + 256 - seq % 256) % 256) = l
    rw [List.map_map]
    conv_rhs => rw [← List.map_id l]
    apply List.map_congr_left
    intro b hb
    have := hP b hb
    simp only [Function.comp, id]
    omega

/-- The toy decompressor undoes the toy compressor. -/
theorem comp_example_inverse :
    comp_inverse (fun _ _ => True) comp_example decomp_example := by
  refine ⟨trivial, ?_⟩
  intro c d x minlen _ hx
  refine ⟨?_, ?_, trivial⟩
  · intro b hb
    simp only [comp_example] at hb
    split_ifs at hb
    · rcases List.mem_cons.mp hb with rfl | hb
      · decide
      · rcases List.mem_cons.mp hb with rfl | hb
        · decide
        · exact hx b hb
    · rcases List.mem_cons.mp hb with rfl | hb
      · decide
      · exact hx b hb
  · simp only [comp_example, decomp_example]
    by_cases hm : minlen > (x.length : Int) + 1
    · simp only [hm, if_true, List.headD_cons, List.drop_succ_cons, List.drop_zero]
    · simp only [hm, if_false, List.headD_cons, List.drop_succ_cons, List.drop_zero]
      rfl

set_option maxRecDepth 100000 in
theorem C1_round_trip_witness :
    ∃ (r : ssh2_bpp_state × PktOut) (i1 : ssh2_bpp_state),
      ssh2_bpp_format_packet_inner
          (example_out (some (cipher_example 16 SSH_CIPHER_SEPARATE_LENGTH))
            (some (mac_example 3)) true (some comp_example)) example_pkt = some r ∧
      ssh2_bpp_handle_input (fun _ => false)
          (with_input (example_in (some (cipher_example 16 SSH_CIPHER_SEPARATE_LENGTH))
            (some (mac_example 3)) true (some decomp_example)) r.2.data) = some (i1, none) ∧
      i1.in_pq = [] ++
        [{ type := 94, sequence := 5, payload := [0, 0, 0, 4, 116, 101, 115, 116] }] ∧
      i1.in_raw = [] := by
  have h : (ssh2_bpp_format_packet_inner
      (example_out (some (cipher_example 16 SSH_CIPHER_SEPARATE_LENGTH))
        (some (mac_example 3)) true (some comp_example)) example_pkt).isSome = true := by
    decide
  obtain ⟨r, hr⟩ := Option.isSome_iff_exists.mp h
  have hlen : (ssh2_bpp_format_packet_inner
      (example_out (some (cipher_example 16 SSH_CIPHER_SEPARATE_LENGTH))
        (some (mac_example 3)) true (some comp_example)) example_pkt).map
      (fun x => decide (x.2.data.length ≤ OUR_V2_PACKETLIMIT)) = some true := by
    decide
  rw [hr] at hlen
  simp only [Option.map_some', Option.some.injEq, decide_eq_true_eq] at hlen
  obtain ⟨i1, h1, h2, h3, _⟩ := C1_round_trip (fun e d => e = d) (fun _ _ => True)
    (fun _ => false)
    (example_out (some (cipher_example 16 SSH_CIPHER_SEPARATE_LENGTH))
      (some (mac_example 3)) true (some comp_example))
    (example_in (some (cipher_example 16 SSH_CIPHER_SEPARATE_LENGTH))
      (some (mac_example 3)) true (some decomp_example))
    94 [0, 0, 0, 4, 116, 101, 115, 116] example_pkt r
    ⟨Or.inr ⟨_, _, rfl, rfl, cipher_example_inverse 16 SSH_CIPHER_SEPARATE_LENGTH _⟩, rfl, rfl,
      Or.inr ⟨_, _, rfl, rfl, comp_example_inverse⟩, rfl⟩
    (fun enc _ _ => ⟨rfl, rfl⟩) (by decide) (by unfold is_bytes; decide) rfl hr hlen rfl rfl rfl
  exact ⟨r, i1, hr, h1, h2, h3⟩

set_option maxRecDepth 100000 in
/-- C1 (counterexample): a cipher with `SSH_CIPHER_SEPARATE_LENGTH` and no
MAC. The receiving handle undoes the sending one and the sequence numbers
agree, but the sender encrypts the length field with `encrypt_length` and
the receiver, on the third path, never calls `decrypt_length`: the frame of
a packet of type 94 is rejected as garbled and no `PktIn` is queued. -/
theorem C1_separate_length_counterexample :
    crypto_inverse (fun e d => e = d) (fun _ _ => True)
      (example_out (some (cipher_example 16 SSH_CIPHER_SEPARATE_LENGTH)) none false none)
      (example_in (some (cipher_example 16 SSH_CIPHER_SEPARATE_LENGTH)) none false none) ∧
    ((ssh2_bpp_format_packet_inner
        (example_out (some (cipher_example 16 SSH_CIPHER_SEPARATE_LENGTH)) none false none)
        example_pkt).bind (fun r => ssh2_bpp_handle_input (fun _ => false)
          (with_input (example_in (some (cipher_example 16 SSH_CIPHER_SEPARATE_LENGTH))
            none false none) r.2.data))).map (fun x => (x.1.in_pq, x.2)) =
      some ([], some (bpp_signal.sw_abort "Incoming packet was garbled on decryption")) := by
  refine ⟨⟨Or.inr ⟨_, _, rfl, rfl, cipher_example_inverse 16 SSH_CIPHER_SEPARATE_LENGTH _⟩,
    rfl, rfl, Or.inl ⟨rfl, rfl⟩, rfl⟩, ?_⟩
  decide

theorem in_place_length (n : Nat) (out : List Nat) : (in_place n out).length = n := by
  unfold in_place
  rw [List.length_take, List.length_append, List.length_replicate]
  omega

theorem cipher_apply_length (op : List Nat → List Nat → List Nat × List Nat) (c : ssh2_cipher)
    (data : List Nat) (lo n : Nat) : (cipher_apply op c data lo n).2.length = data.length := by
  unfold cipher_apply
  simp only [List.length_append, in_place_length, List.length_take, List.length_drop]
  omega

theorem mac_generate_length (m : ssh2_mac) (data : List Nat) (n seq : Nat)
    (h : n + m.len ≤ data.length) : (ssh2_mac_generate m data n seq).length = data.length := by
  unfold ssh2_mac_generate
  simp only [List.length_append, mac_result_length, List.length_take, List.length_drop]
  omega

theorem format_encrypt_length_length (s : ssh2_bpp_state) (data : List Nat) :
    (format_encrypt_length s data).2.length = data.length := by
  unfold format_encrypt_length
  cases s.out.cipher with
  | none => rfl
  | some c =>
    by_cases hf : has_flag c.flags SSH_CIPHER_SEPARATE_LENGTH = true
    · simp only [hf, if_true, ssh2_cipher_encrypt_length, cipher_apply_length]
    · simp only [hf, Bool.false_eq_true, if_false]

theorem format_crypt_length (s : ssh2_bpp_state) (data : List Nat) (n : Nat)
    (h : n + out_maclen s ≤ data.length) : (format_crypt s data n).2.length = data.length := by
  unfold format_crypt
  unfold out_maclen at h
  cases hm : s.out.mac with
  | none =>
    cases s.out.cipher with
    | none => rfl
    | some c => simp only [ssh2_cipher_encrypt, cipher_apply_length]
  | some m =>
    rw [hm] at h
    simp only at h
    cases s.out.cipher with
    | none =>
      cases s.out.etm_mode <;>
        simp only [Bool.false_eq_true, if_false, if_true] <;>
        exact mac_generate_length m _ _ _ h
    | some c =>
      cases s.out.etm_mode
      · simp only [Bool.false_eq_true, if_false, ssh2_cipher_encrypt, cipher_apply_length]
        exact mac_generate_length m _ _ _ h
      · simp only [if_true, ssh2_cipher_encrypt]
        rw [mac_generate_length m _ _ _ (by rw [cipher_apply_length]; exact h),
          cipher_apply_length]

theorem out_padding_congr (s s1 : ssh2_bpp_state) (length : Nat)
    (hb : out_cipherblk s1 = out_cipherblk s) (hm : s1.out.mac = s.out.mac)
    (he : s1.out.etm_mode = s.out.etm_mode) : out_padding s1 length = out_padding s length := by
  unfold out_padding out_unencrypted
  rw [hb, hm, he]

/-- The length of a frame: the packet, its padding and the MAC, whatever the
cipher does. -/
theorem format_packet_inner_length (s : ssh2_bpp_state) (pkt : PktOut)
    (r : ssh2_bpp_state × PktOut) (hc : s.out_comp = none) (h5 : 5 ≤ pkt.data.length)
    (h : ssh2_bpp_format_packet_inner s pkt = some r) :
    r.2.data.length = pkt.data.length + out_padding s pkt.data.length + out_maclen s := by
  have hfc : format_compress s pkt = (s, pkt.data) := by
    unfold format_compress; rw [hc]
  obtain ⟨_, hdata, _, _⟩ := format_packet_inner_frame s pkt r h
  have hml : out_maclen (format_encrypt_length s (out_cleartext s pkt)).1 = out_maclen s :=
    (format_encrypt_length_keeps s _).maclen
  have hcl : (out_cleartext s pkt).length = pkt.data.length + out_padding s pkt.data.length := by
    unfold out_cleartext
    rw [hfc]
    simp only [List.length_append, PUT_32BIT_length, List.length_cons, List.length_nil,
      List.length_drop, random_bytes_length]
    omega
  rw [hdata, format_crypt_length _ _ _ (by
    rw [hml, List.length_append, format_encrypt_length_length, List.length_replicate, hfc, hcl]),
    List.length_append, format_encrypt_length_length, List.length_replicate, hcl]

/-- Outside encrypt-then-MAC mode the length that `ssh2_bpp_format_packet`
expects is the length of the frame. -/
theorem expected_length_exact (s : ssh2_bpp_state) (pkt : PktOut)
    (hne : ¬ (s.out.mac.isSome = true ∧ s.out.etm_mode = true)) :
    expected_length s pkt =
      ((pkt.data.length + out_padding s pkt.data.length + out_maclen s : Nat) : Int) := by
  have hu : out_unencrypted s = 0 := by unfold out_unencrypted; rw [if_neg hne]
  obtain ⟨h4, hlt, hal⟩ := out_padding_spec s pkt.data.length (by rw [hu]; omega)
  rw [hu, Nat.sub_zero] at hal
  have h8 := out_cipherblk_ge s
  unfold expected_length
  generalize out_cipherblk s = cb at *
  generalize out_padding s pkt.data.length = pad at *
  generalize pkt.data.length = L at *
  obtain ⟨q, hq⟩ := Nat.dvd_of_mod_eq_zero hal
  have hdiv : (L + 4 + (cb - 1)) / cb = q := by
    apply Nat.div_eq_of_lt_le
    · rw [Nat.mul_comm, ← hq]; omega
    · rw [Nat.add_mul, Nat.one_mul, Nat.mul_comm, ← hq]; omega
  have hdm := Nat.div_add_mod (L + 4 + (cb - 1)) cb
  rw [hdiv, ← hq] at hdm
  congr 1
  omega

/-- Outside encrypt-then-MAC mode (no MAC, or a MAC that is computed before
encryption) and without a compressor, `minlen` is a lower bound on what goes
on the wire: the bytes that `ssh2_bpp_format_packet` appends to `out_raw` for
a packet total at least `minlen`. -/
theorem minlen_reached_without_etm (s s1 : ssh2_bpp_state) (pkt : PktOut)
    (hc : s.out_comp = none) (hne : ¬ (s.out.mac.isSome = true ∧ s.out.etm_mode = true))
    (h5 : 5 ≤ pkt.data.length) (h : ssh2_bpp_format_packet s pkt = some s1) :
    (s.out_raw.length : Int) + pkt.minlen ≤ (s1.out_raw.length : Int) := by
  unfold ssh2_bpp_format_packet at h
  by_cases hn : pkt.minlen > 0 ∧ s.out_comp.isNone = true ∧ expected_length s pkt < pkt.minlen
  · rw [if_pos hn] at h
    cases hi : ssh2_bpp_format_packet_inner (random_bytes s (ignore_length s pkt)).2
        (ignore_pktout s (ignore_length s pkt)) with
    | none => rw [hi] at h; exact absurd h (by simp)
    | some r1 =>
      obtain ⟨sa, pa⟩ := r1
      rw [hi] at h
      simp only at h
      cases hj : ssh2_bpp_format_packet_inner (out_raw_add sa pa.data) pkt with
      | none => rw [hj] at h; exact absurd h (by simp)
      | some r2 =>
        obtain ⟨sb, pb⟩ := r2
        rw [hj] at h
        simp only [Option.some.injEq] at h
        subst h
        have k1 := format_packet_inner_keeps _ _ _ hi
        have k2 := format_packet_inner_keeps _ _ _ hj
        have e1 := format_packet_inner_etm _ _ _ hi
        simp only at k1 k2 e1
        have hil : (ignore_pktout s (ignore_length s pkt)).data.length =
            10 + ignore_length s pkt := by
          simp [ignore_pktout, ssh2_bpp_new_pktout, put_byte, put_uint32, PUT_32BIT,
            random_bytes]
          omega
        have l1 := format_packet_inner_length _ _ _ (show (random_bytes s
          (ignore_length s pkt)).2.out_comp = none from hc) (by rw [hil]; omega) hi
        have hca : (out_raw_add sa pa.data).out_comp = none := by
          have := k1.2.2.2.2.2.1
          show sa.out_comp = none
          rw [show (random_bytes s (ignore_length s pkt)).2.out_comp = s.out_comp from rfl, hc]
            at this
          cases hx : sa.out_comp with
          | none => rfl
          | some c => rw [hx] at this; simp at this
        have l2 := format_packet_inner_length _ _ _ hca h5 hj
        have hpc : out_padding (out_raw_add sa pa.data) pkt.data.length =
            out_padding s pkt.data.length :=
          out_padding_congr s _ _ k1.2.2.2.1 k1.2.2.2.2.2.2.2.1 e1
        have hmc : out_maclen (out_raw_add sa pa.data) = out_maclen s := k1.2.2.2.2.1
        have hma : out_maclen (random_bytes s (ignore_length s pkt)).2 = out_maclen s := rfl
        have x2 := expected_length_exact s pkt hne
        have hraw : (out_raw_add sb pb.data).out_raw = s.out_raw ++ pa.data ++ pb.data := by
          show sb.out_raw ++ pb.data = _
          rw [k2.1]
          show sa.out_raw ++ pa.data ++ pb.data = _
          rw [k1.1]
          rfl
        have hpad := (out_padding_spec (random_bytes s (ignore_length s pkt)).2
          (ignore_pktout s (ignore_length s pkt)).data.length (by
            unfold out_unencrypted; split_ifs <;> omega)).1
        have hA : 14 + ignore_length s pkt + out_maclen s ≤ pa.data.length := by
          show _ ≤ (sa, pa).2.data.length
          rw [l1, hma, hil]; rw [hil] at hpad; omega
        have hB : ((pb.data.length : Nat) : Int) = expected_length s pkt := by
          show (((sb, pb).2.data.length : Nat) : Int) = _
          rw [l2, hpc, hmc, x2]
        have hig : pkt.minlen - expected_length s pkt - (out_maclen s : Int) - 8 - 5 ≤
            (ignore_length s pkt : Int) := by
          unfold ignore_length
          omega
        rw [hraw, List.length_append, List.length_append]
        push_cast
        omega
  · rw [if_neg hn] at h
    cases hj : ssh2_bpp_format_packet_inner s pkt with
    | none => rw [hj] at h; exact absurd h (by simp)
    | some r2 =>
      obtain ⟨sb, pb⟩ := r2
      rw [hj] at h
      simp only [Option.some.injEq] at h
      subst h
      have k2 := format_packet_inner_keeps _ _ _ hj
      have l2 := format_packet_inner_length _ _ _ hc h5 hj
      have x2 := expected_length_exact s pkt hne
      simp only at k2 l2
      have hraw : (out_raw_add sb pb.data).out_raw = s.out_raw ++ pb.data := by
        show sb.out_raw ++ pb.data = _
        rw [k2.1]
      rw [hraw, List.length_append, l2]
      have hcn : s.out_comp.isNone = true := by rw [hc]; rfl
      push_cast
      push_cast at x2
      by_cases hmin : pkt.minlen > 0
      · have : ¬ expected_length s pkt < pkt.minlen := fun hlt => hn ⟨hmin, hcn, hlt⟩
        omega
      · omega

/-! ## Data-transfer statistics -/

/-- C12 (`DTS_CONSUME`): the limit is not sticky in the counter. Once
`running` is false the macro takes its second branch, which subtracts `size`
from `remaining` in unsigned arithmetic: for every counter value `n` and every
`size` the counter becomes `n - size` modulo 2^32, while `running` stays false
and the macro evaluates to false. With `remaining = 5` and `size = 10` the
counter wraps round to 4294967291. -/
theorem C12_remaining_still_decremented :
    (∀ n size : Nat, DTS_CONSUME { running := false, remaining := n } size =
      ({ running := false, remaining := usub32 n (size % 4294967296) }, false)) ∧
    DTS_CONSUME { running := false, remaining := 5 } 10 =
      ({ running := false, remaining := 4294967291 }, false) := by
  refine ⟨?_, by decide⟩
  intro n size
  simp [DTS_CONSUME]

/-! ## Status responses -/

/-- The value of `fxp_got_status` on a status packet with a readable code. -/
theorem fxp_got_status_code (g : sftp_globals) (pktin : sftp_packet) (c : Nat)
    (rest : List Nat) (ht : pktin.type = SSH_FXP_STATUS)
    (hr : reads pktin.src (PUT_32BIT c ++ rest)) (hc : c < 4294967296) :
    fxp_got_status g pktin =
      (if c = 0 then 1 else if c = 1 then 0 else -1,
       { g with
         fxp_error_message :=
           if c ≤ 8 then
             ["unexpected OK response", "end of file", "no such file or directory",
              "permission denied", "failure", "bad message", "no connection",
              "connection lost", "operation unsupported"].getD c ""
           else "unknown error code",
         fxp_errtype := toint32 c }) := by
  obtain ⟨h1, h2, _⟩ := get_uint32_reads pktin.src c rest hr hc
  have hsplit : get_uint32 pktin.src = (c, (get_uint32 pktin.src).2) := Prod.ext h1 rfl
  unfold fxp_got_status
  simp only [ht, ne_eq, not_true_eq_false, if_false]
  rw [hsplit]
  simp only [get_err, h2.1]
  by_cases h8 : c ≤ 8
  · have ht32 : toint32 c = (c : Int) := by
      unfold toint32
      rw [if_pos (by omega)]
    have hnot : ¬ ((c : Int) < 0 ∨ c ≥ 9) := by omega
    simp only [List.length_cons, List.length_nil, Nat.reduceAdd, Bool.false_eq_true, ht32, hnot,
      if_false, h8,
      if_true, SSH_FX_OK, SSH_FX_EOF, Nat.cast_eq_zero, Nat.cast_eq_one]
  · have hyes : toint32 c < 0 ∨ c ≥ 9 := Or.inr (by omega)
    have hn0 : ¬ toint32 c = 0 := by
      unfold toint32
      split_ifs <;> omega
    have hn1 : ¬ toint32 c = 1 := by
      unfold toint32
      split_ifs <;> omega
    have c0 : ¬ c = 0 := by omega
    have c1 : ¬ c = 1 := by omega
    simp only [List.length_cons, List.length_nil, Nat.reduceAdd, Bool.false_eq_true, hyes, if_true,
      h8, if_false,
      SSH_FX_OK, SSH_FX_EOF, hn0, hn1, c0, c1]

/-- The value of `fxp_got_status` on a packet that is no status packet or
whose code is truncated. -/
theorem fxp_got_status_bad (g : sftp_globals) (pktin : sftp_packet)
    (h : pktin.type ≠ SSH_FXP_STATUS ∨ pktin.src.err = true ∨
      pktin.src.data.length - pktin.src.pos < 4) :
    (fxp_got_status g pktin).1 = -1 ∧ (fxp_got_status g pktin).2.fxp_errtype = -1 ∧
      (fxp_got_status g pktin).2.fxp_error_message =
        (if pktin.type ≠ SSH_FXP_STATUS then "expected FXP_STATUS packet"
         else "malformed FXP_STATUS packet") := by
  unfold fxp_got_status
  by_cases ht : pktin.type = SSH_FXP_STATUS
  · have herr := get_uint32_err pktin.src (by
      rcases h with h | h | h
      · exact absurd ht h
      · exact Or.inl h
      · exact Or.inr h)
    simp only [ht, ne_eq, not_true_eq_false, if_false, get_err, herr]
    simp [SSH_FX_OK, SSH_FX_EOF]
  · simp only [ne_eq, ht, not_false_eq_true, if_true]
    simp [SSH_FX_OK, SSH_FX_EOF]

/-- C13 (`fxp_got_status`). For a packet of type `SSH_FXP_STATUS` carrying
the 32-bit status code `c`: the result is +1 for `c = SSH_FX_OK`, 0 for
`c = SSH_FX_EOF` and -1 for every other code; the error type recorded is `c`
(as an `int`: `c` itself below 2^31) and the message recorded is entry `c` of
the table of nine messages for `c` from 0 to 8 and "unknown error code" for
every other code. For a packet of another type, or with the code truncated,
the result is -1 and the error type recorded is -1. -/
theorem C13_got_status (g : sftp_globals) (pktin : sftp_packet) :
    (∀ (c : Nat) (rest : List Nat), pktin.type = SSH_FXP_STATUS →
      reads pktin.src (PUT_32BIT c ++ rest) → c < 4294967296 →
      (fxp_got_status g pktin).1 = (if c = 0 then 1 else if c = 1 then 0 else -1) ∧
      (fxp_got_status g pktin).2.fxp_errtype = toint32 c ∧
      (c < 2147483648 → (fxp_got_status g pktin).2.fxp_errtype = (c : Int)) ∧
      (fxp_got_status g pktin).2.fxp_error_message =
        (if c ≤ 8 then
           ["unexpected OK response", "end of file", "no such file or directory",
            "permission denied", "failure", "bad message", "no connection",
            "connection lost", "operation unsupported"].getD c ""
         else "unknown error code")) ∧
    (pktin.type ≠ SSH_FXP_STATUS ∨ pktin.src.err = true ∨
        pktin.src.data.length - pktin.src.pos < 4 →
      (fxp_got_status g pktin).1 = -1 ∧ (fxp_got_status g pktin).2.fxp_errtype = -1) := by
  constructor
  · intro c rest ht hr hc
    rw [fxp_got_status_code g pktin c rest ht hr hc]
    refine ⟨rfl, rfl, ?_, rfl⟩
    intro h
    show toint32 c = (c : Int)
    unfold toint32
    rw [if_pos h]
  · intro h
    exact ⟨(fxp_got_status_bad g pktin h).1, (fxp_got_status_bad g pktin h).2.1⟩

/-- C13 at a status packet carrying `SSH_FX_PERMISSION_DENIED` (3): the
result is -1, the error type is 3 and the message is "permission denied". -/
theorem C13_got_status_witness :
    (fxp_got_status sftp_globals_init (after_id (status_packet 256 3))).1 = -1 ∧
    (fxp_got_status sftp_globals_init (after_id (status_packet 256 3))).2.fxp_errtype = 3 ∧
    (fxp_got_status sftp_globals_init (after_id (status_packet 256 3))).2.fxp_error_message =
      "permission denied" := by
  have h := (C13_got_status sftp_globals_init (after_id (status_packet 256 3))).1 3 []
    rfl ⟨rfl, by decide⟩ (by decide)
  exact ⟨h.1, h.2.2.1 (by decide), h.2.2.2⟩
/-! ## The read primitive -/

/-- The DATA branch of `fxp_read_recv` on a well-formed string of `n` bytes. -/
theorem fxp_read_recv_string (g : sftp_globals) (pktin : sftp_packet) (data rest : List Nat)
    (len : Int) (ht : pktin.type = SSH_FXP_DATA)
    (hr : reads pktin.src (PUT_32BIT data.length ++ data ++ rest))
    (hn : data.length < 4294967296) :
    fxp_read_recv g pktin len =
      if (data.length : Int) > len % 18446744073709551616 then
        (-1, none, fxp_internal_error g "READ returned more bytes than requested")
      else (toint32 (data.length % 4294967296), some data, g) := by
  obtain ⟨h1, h2⟩ := get_string_reads pktin.src data rest hr hn
  have hsplit : get_string pktin.src = (data, (get_string pktin.src).2) := Prod.ext h1 rfl
  unfold fxp_read_recv
  rw [if_pos ht, hsplit]
  simp only [get_err, h2.1, Bool.false_eq_true, if_false]

/-- C14 (`fxp_read_recv` on `SSH_FXP_DATA`). For a DATA response carrying a
well-formed string of `n` bytes and a request of `len` bytes (`len` a
non-negative `int`): with `n <= len` the result is `n` and the `n` bytes are
copied to the start of the caller's buffer; with `n > len` the result is -1,
the message recorded is "READ returned more bytes than requested" and nothing
is copied; so the result never exceeds `len`. -/
theorem C14_read_recv_data (g : sftp_globals) (pktin : sftp_packet) (data rest : List Nat)
    (len : Int) (ht : pktin.type = SSH_FXP_DATA)
    (hr : reads pktin.src (PUT_32BIT data.length ++ data ++ rest))
    (hn : data.length < 4294967296) (h0 : 0 ≤ len) (h1 : len < 2147483648) :
    ((data.length : Int) ≤ len →
      fxp_read_recv g pktin len = ((data.length : Int), some data, g)) ∧
    (len < (data.length : Int) →
      fxp_read_recv g pktin len =
        (-1, none, fxp_internal_error g "READ returned more bytes than requested") ∧
      (fxp_read_recv g pktin len).2.2.fxp_error_message =
        "READ returned more bytes than requested") ∧
    (fxp_read_recv g pktin len).1 ≤ len := by
  have hmod : len % 18446744073709551616 = len := Int.emod_eq_of_lt h0 (by omega)
  rw [fxp_read_recv_string g pktin data rest len ht hr hn, hmod]
  have hret : (data.length : Int) ≤ len → toint32 (data.length % 4294967296) = data.length := by
    intro h
    rw [Nat.mod_eq_of_lt hn]
    unfold toint32
    rw [if_pos (by omega)]
  refine ⟨?_, ?_, ?_⟩
  · intro h
    rw [if_neg (by omega), hret h]
  · intro h
    rw [if_pos (by omega)]
    exact ⟨rfl, rfl⟩
  · by_cases h : (data.length : Int) > len
    · rw [if_pos h]
      show (-1 : Int) ≤ len
      omega
    · rw [if_neg h]
      show toint32 (data.length % 4294967296) ≤ len
      rw [hret (by omega)]
      omega

/-- C14 at a DATA response carrying the three bytes 7, 8, 9 for a request of
32768 bytes: the result is 3 and the three bytes are copied. -/
theorem C14_read_recv_data_witness :
    fxp_read_recv sftp_globals_init
        (after_id (packet_with_id SSH_FXP_DATA 256 (PUT_32BIT 3 ++ [7, 8, 9] ++ []))) 32768 =
      (3, some [7, 8, 9], sftp_globals_init) :=
  (C14_read_recv_data sftp_globals_init
    (after_id (packet_with_id SSH_FXP_DATA 256 (PUT_32BIT 3 ++ [7, 8, 9] ++ [])))
    [7, 8, 9] [] 32768 rfl (after_id_reads SSH_FXP_DATA 256 _) (by decide) (by decide)
    (by decide)).1 (by decide)

/-- C15 (counterexample): for the response `STATUS(SSH_FX_EOF)` to a READ
request of 32768 bytes `fxp_read_recv` returns -1, not 0; the end of file is
reported through the error type `SSH_FX_EOF`. -/
theorem C15_eof_status_counterexample :
    (fxp_read_recv sftp_globals_init (after_id (status_packet 256 1)) 32768).1 = -1 ∧
    (fxp_read_recv sftp_globals_init (after_id (status_packet 256 1)) 32768).1 ≠ 0 ∧
    (fxp_read_recv sftp_globals_init (after_id (status_packet 256 1)) 32768).2.2.fxp_errtype =
      SSH_FX_EOF := by
  decide

/-- C15 (amended): for a response `STATUS(SSH_FX_EOF)` to a READ request
`fxp_read_recv` returns -1, copies nothing and records the error type
`SSH_FX_EOF` with the message "end of file"; every response that is not of
type `SSH_FXP_DATA` gives -1; the result 0 comes from a DATA response that
carries a string of no bytes. -/
theorem C15_read_recv_eof (g : sftp_globals) (pktin : sftp_packet) (len : Int) :
    (∀ rest : List Nat, pktin.type = SSH_FXP_STATUS → reads pktin.src (PUT_32BIT 1 ++ rest) →
      fxp_read_recv g pktin len =
        (-1, none, { g with fxp_error_message := "end of file", fxp_errtype := SSH_FX_EOF })) ∧
    (pktin.type ≠ SSH_FXP_DATA →
      (fxp_read_recv g pktin len).1 = -1 ∧ (fxp_read_recv g pktin len).2.1 = none) ∧
    (∀ rest : List Nat, pktin.type = SSH_FXP_DATA → reads pktin.src (PUT_32BIT 0 ++ rest) →
      fxp_read_recv g pktin len = (0, some [], g)) := by
  refine ⟨?_, ?_, ?_⟩
  · intro rest ht hr
    have hne : ¬ pktin.type = SSH_FXP_DATA := by rw [ht]; decide
    unfold fxp_read_recv
    rw [if_neg hne, fxp_got_status_code g pktin 1 rest ht hr (by decide)]
    rfl
  · intro hne
    unfold fxp_read_recv
    rw [if_neg hne]
    exact ⟨rfl, rfl⟩
  · intro rest ht hr
    have hr2 : reads pktin.src (PUT_32BIT ([] : List Nat).length ++ [] ++ rest) := by
      simpa using hr
    rw [fxp_read_recv_string g pktin [] rest len ht hr2 (by decide)]
    have hpos : (0 : Int) ≤ len % 18446744073709551616 := Int.emod_nonneg _ (by decide)
    rw [if_neg (by simp only [List.length_nil, Nat.cast_zero, gt_iff_lt, not_lt]; exact hpos)]
    rfl

/-- C15 (amended) at the status response `SSH_FX_EOF` to the request 256. -/
theorem C15_read_recv_eof_witness :
    fxp_read_recv sftp_globals_init (after_id (status_packet 256 1)) 32768 =
      (-1, none, { sftp_globals_init with
                   fxp_error_message := "end of file", fxp_errtype := SSH_FX_EOF }) :=
  (C15_read_recv_eof sftp_globals_init (after_id (status_packet 256 1)) 32768).1 []
    rfl ⟨rfl, by decide⟩

/-! ## REALPATH -/

/-- A C string without a NUL byte is read back whole. -/
theorem mkstr_eq (f : List Nat) (h : ∀ b ∈ f, b ≠ 0) : mkstr f = f := by
  unfold mkstr
  rw [List.takeWhile_eq_self_iff]
  intro b hb
  simpa using h b hb

/-- C20 (`fxp_realpath_recv`). For a response of type `SSH_FXP_NAME`: with
count 1 and a well-formed first filename string `f` the result is `f` made
into a C string, which is `f` itself when `f` holds no NUL byte; with a count
other than 1, or a truncated count, the result is NULL and the message
recorded is "REALPATH did not return name count of 1" (stored with a newline
at its end). -/
theorem C20_realpath_recv (g : sftp_globals) (pktin : sftp_packet)
    (ht : pktin.type = SSH_FXP_NAME) :
    (∀ f rest : List Nat, reads pktin.src (PUT_32BIT 1 ++ (PUT_32BIT f.length ++ f ++ rest)) →
      f.length < 4294967296 →
      fxp_realpath_recv g pktin = (some (mkstr f), g) ∧
      ((∀ b ∈ f, b ≠ 0) → fxp_realpath_recv g pktin = (some f, g))) ∧
    (∀ (count : Nat) (rest : List Nat), reads pktin.src (PUT_32BIT count ++ rest) →
      count < 4294967296 → count ≠ 1 →
      fxp_realpath_recv g pktin =
        (none, fxp_internal_error g "REALPATH did not return name count of 1\n")) ∧
    (pktin.src.err = true ∨ pktin.src.data.length - pktin.src.pos < 4 →
      fxp_realpath_recv g pktin =
        (none, fxp_internal_error g "REALPATH did not return name count of 1\n")) := by
  refine ⟨?_, ?_, ?_⟩
  · intro f rest hr hf
    obtain ⟨h1, h2, _⟩ := get_uint32_reads pktin.src 1 _ hr (by decide)
    obtain ⟨h3, h4⟩ := get_string_reads (get_uint32 pktin.src).2 f rest h2 hf
    have key : fxp_realpath_recv g pktin = (some (mkstr f), g) := by
      unfold fxp_realpath_recv
      rw [if_pos ht]
      simp only [get_err, h1, h2.1, h3, h4.1, Bool.false_eq_true, ne_eq, not_true_eq_false,
        or_self, if_false]
    refine ⟨key, ?_⟩
    intro hz
    rw [key, mkstr_eq f hz]
  · intro count rest hr hc hne
    obtain ⟨h1, h2, _⟩ := get_uint32_reads pktin.src count rest hr hc
    unfold fxp_realpath_recv
    rw [if_pos ht]
    simp only [get_err, h1, h2.1, Bool.false_eq_true, ne_eq, hne, not_false_eq_true, or_true,
      if_true]
  · intro h
    have herr := get_uint32_err pktin.src h
    unfold fxp_realpath_recv
    rw [if_pos ht]
    simp only [get_err, herr, true_or, if_true]

/-- C20 at the scenario of the specification: the NAME response with count 1
and the filename "/home/x" gives "/home/x", and a NAME response with count 2
gives NULL with the message about the name count. -/
theorem C20_realpath_recv_witness :
    fxp_realpath_recv sftp_globals_init
        (after_id (packet_with_id SSH_FXP_NAME 256
          (PUT_32BIT 1 ++ (PUT_32BIT 7 ++ [47, 104, 111, 109, 101, 47, 120] ++ [])))) =
      (some [47, 104, 111, 109, 101, 47, 120], sftp_globals_init) ∧
    fxp_realpath_recv sftp_globals_init
        (after_id (packet_with_id SSH_FXP_NAME 256 (PUT_32BIT 2 ++ []))) =
      (none, fxp_internal_error sftp_globals_init
        "REALPATH did not return name count of 1\n") :=
  ⟨((C20_realpath_recv sftp_globals_init
      (after_id (packet_with_id SSH_FXP_NAME 256
        (PUT_32BIT 1 ++ (PUT_32BIT 7 ++ [47, 104, 111, 109, 101, 47, 120] ++ [])))) rfl).1
      [47, 104, 111, 109, 101, 47, 120] [] (after_id_reads SSH_FXP_NAME 256 _)
      (by decide)).2 (by decide),
   (C20_realpath_recv sftp_globals_init
      (after_id (packet_with_id SSH_FXP_NAME 256 (PUT_32BIT 2 ++ []))) rfl).2.1
      2 [] (after_id_reads SSH_FXP_NAME 256 _) (by decide) (by decide)⟩

/-! ## Receiving a packet; INIT and VERSION -/

/-- `sftp_recv` on a stream that starts with a whole packet of at least one
byte: the packet with its type byte taken, and the stream behind it. -/
theorem sftp_recv_ok (inp : List Nat) (h4 : 4 ≤ inp.length)
    (hL : GET_32BIT inp + 4 ≤ inp.length) (h1 : 1 ≤ GET_32BIT inp) :
    sftp_recv inp =
      (some { type := inp.getD 4 0,
              src := { data := (inp.drop 4).take (GET_32BIT inp), pos := 1, err := false } },
       inp.drop (4 + GET_32BIT inp)) := by
  have hg : GET_32BIT (inp.take 4) = GET_32BIT inp := GET_32BIT_take inp 4 (le_refl 4)
  have hl2 : GET_32BIT inp ≤ (inp.drop 4).length := by rw [List.length_drop]; omega
  have hlen : ((inp.drop 4).take (GET_32BIT inp)).length = GET_32BIT inp := by
    rw [List.length_take]; omega
  have hav : 1 ≤ ((inp.drop 4).take (GET_32BIT inp)).length - 0 := by rw [hlen]; omega
  have hb : ((inp.drop 4).take (GET_32BIT inp)).getD 0 0 = inp.getD 4 0 := by
    rw [getD_take _ _ _ (by omega)]
    simp only [List.getD_eq_getElem?_getD, List.getElem?_drop]
  simp only [sftp_recv, sftp_recvdata, h4, if_true, hg, hl2, get_byte, BinarySource.avail,
    Bool.false_eq_true, if_false, hav, get_err, hb, List.drop_drop]

/-- `sftp_recv` on a stream without a whole packet of at least one byte at its
head returns NULL. -/
theorem sftp_recv_none (inp : List Nat)
    (h : inp.length < 4 ∨ inp.length < GET_32BIT inp + 4 ∨ GET_32BIT inp = 0) :
    (sftp_recv inp).1 = none := by
  by_cases h4 : 4 ≤ inp.length
  · have hg : GET_32BIT (inp.take 4) = GET_32BIT inp := GET_32BIT_take inp 4 (le_refl 4)
    by_cases hL : GET_32BIT inp + 4 ≤ inp.length
    · have h0 : GET_32BIT inp = 0 := by
        rcases h with h | h | h
        · omega
        · omega
        · exact h
      simp [sftp_recv, sftp_recvdata, h4, hg, h0, get_byte, BinarySource.avail, get_err]
    · have hl2 : ¬ GET_32BIT inp ≤ inp.length - 4 := by omega
      simp [sftp_recv, sftp_recvdata, h4, hg, hl2]
  · simp [sftp_recv, sftp_recvdata, h4]

/-- The version field of a received packet of at least five bytes. -/
theorem get_uint32_received (inp : List Nat) (hL : 5 ≤ GET_32BIT inp)
    (hlen : GET_32BIT inp + 4 ≤ inp.length) :
    get_uint32 { data := (inp.drop 4).take (GET_32BIT inp), pos := 1, err := false } =
      (GET_32BIT (inp.drop 5),
       { data := (inp.drop 4).take (GET_32BIT inp), pos := 1 + 4, err := false }) := by
  have hl : ((inp.drop 4).take (GET_32BIT inp)).length = GET_32BIT inp := by
    rw [List.length_take, List.length_drop]; omega
  rw [get_uint32_ok _ rfl (by show 4 ≤ ((inp.drop 4).take (GET_32BIT inp)).length - 1; omega)]
  have e : ((inp.drop 4).take (GET_32BIT inp)).drop 1 = (inp.drop 5).take (GET_32BIT inp - 1) := by
    rw [List.drop_take, List.drop_drop]
  show (GET_32BIT (((inp.drop 4).take (GET_32BIT inp)).drop 1), _) = _
  rw [e, GET_32BIT_take _ _ (by omega)]

/-- The value of `fxp_init` in terms of the incoming stream. -/
theorem fxp_init_value (g : sftp_globals) (inp : List Nat) :
    ((∃ v, version_reply inp v ∧ v ≤ 3) → fxp_init g inp =
      (1, sftp_send g (put_uint32 (sftp_pkt_init SSH_FXP_INIT) SFTP_PROTO_VERSION),
        inp.drop (4 + GET_32BIT inp))) ∧
    ((∃ v, version_reply inp v ∧ 3 < v) → fxp_init g inp =
      (0, fxp_internal_error
            (sftp_send g (put_uint32 (sftp_pkt_init SSH_FXP_INIT) SFTP_PROTO_VERSION))
            "remote protocol is more advanced than we support",
        inp.drop (4 + GET_32BIT inp))) ∧
    ((¬ ∃ v, version_reply inp v) → (fxp_init g inp).1 = 0) := by
  refine ⟨?_, ?_, ?_⟩
  · rintro ⟨v, ⟨h4, hL, h5, hty, hv⟩, hle⟩
    unfold fxp_init
    rw [sftp_recv_ok inp h4 hL (by omega)]
    simp only [hty, ne_eq, not_true_eq_false, if_false]
    rw [get_uint32_received inp h5 hL]
    simp only [get_err, Bool.false_eq_true, if_false, hv, SFTP_PROTO_VERSION]
    rw [if_neg (by omega)]
  · rintro ⟨v, ⟨h4, hL, h5, hty, hv⟩, hlt⟩
    unfold fxp_init
    rw [sftp_recv_ok inp h4 hL (by omega)]
    simp only [hty, ne_eq, not_true_eq_false, if_false]
    rw [get_uint32_received inp h5 hL]
    simp only [get_err, Bool.false_eq_true, if_false, hv, SFTP_PROTO_VERSION]
    rw [if_pos (by omega)]
  · intro hno
    by_cases hok : 4 ≤ inp.length ∧ GET_32BIT inp + 4 ≤ inp.length ∧ 1 ≤ GET_32BIT inp
    · obtain ⟨h4, hL, h1⟩ := hok
      unfold fxp_init
      rw [sftp_recv_ok inp h4 hL h1]
      by_cases hty : inp.getD 4 0 = SSH_FXP_VERSION
      · have h5 : ¬ 5 ≤ GET_32BIT inp := fun h5 => hno ⟨_, h4, hL, h5, hty, rfl⟩
        have hl : ((inp.drop 4).take (GET_32BIT inp)).length = GET_32BIT inp := by
          rw [List.length_take, List.length_drop]; omega
        have herr := get_uint32_err
          { data := (inp.drop 4).take (GET_32BIT inp), pos := 1, err := false }
          (Or.inr (by show ((inp.drop 4).take (GET_32BIT inp)).length - 1 < 4; omega))
        simp only [hty, ne_eq, not_true_eq_false, if_false, get_err, herr, if_true]
      · simp only [ne_eq, hty, not_false_eq_true, if_true]
    · have hn := sftp_recv_none inp (by omega)
      unfold fxp_init
      have hsplit : sftp_recv inp = (none, (sftp_recv inp).2) := Prod.ext hn rfl
      rw [hsplit]

/-- C19 (`fxp_init`). The call sends the INIT packet with version 3 and
returns 1 exactly when the incoming stream starts with a well-formed
`SSH_FXP_VERSION` packet whose version `v` is at most 3. For `v > 3` it returns
0 and records "remote protocol is more advanced than we support"; for a
missing, wrongly typed or truncated reply it returns 0. -/
theorem C19_init (g : sftp_globals) (inp : List Nat) :
    ((fxp_init g inp).1 = 1 ↔ ∃ v, version_reply inp v ∧ v ≤ 3) ∧
    (∀ v, version_reply inp v → 3 < v →
      (fxp_init g inp).1 = 0 ∧
      (fxp_init g inp).2.1.fxp_error_message =
        "remote protocol is more advanced than we support") ∧
    ((¬ ∃ v, version_reply inp v) → (fxp_init g inp).1 = 0) ∧
    (fxp_init g inp).2.1.sent = g.sent ++ [sftp_frame SSH_FXP_INIT (PUT_32BIT 3)] := by
  obtain ⟨hok, hbig, hno⟩ := fxp_init_value g inp
  refine ⟨⟨?_, ?_⟩, ?_, hno, ?_⟩
  · intro h1
    by_cases hex : ∃ v, version_reply inp v
    · obtain ⟨v, hv⟩ := hex
      by_cases hle : v ≤ 3
      · exact ⟨v, hv, hle⟩
      · rw [hbig ⟨v, hv, by omega⟩] at h1
        have h1b : (0 : Int) = 1 := h1
        exact absurd h1b (by decide)
    · rw [hno hex] at h1
      exact absurd h1 (by decide)
  · intro h
    rw [hok h]
  · intro v hv hlt
    rw [hbig ⟨v, hv, hlt⟩]
    exact ⟨rfl, rfl⟩
  · by_cases hex : ∃ v, version_reply inp v
    · obtain ⟨v, hv⟩ := hex
      by_cases hle : v ≤ 3
      · rw [hok ⟨v, hv, hle⟩]; rfl
      · rw [hbig ⟨v, hv, by omega⟩]; rfl
    · unfold fxp_init
      cases hr : sftp_recv inp with
      | mk p rest =>
        cases p with
        | none => rfl
        | some pkt =>
          simp only
          split_ifs <;> rfl

/-- C19 at the scenario of the specification: the reply VERSION 3 makes
`fxp_init` succeed, and the reply VERSION 5 makes it fail with the message
that the remote protocol is more advanced. -/
theorem C19_init_witness :
    (fxp_init sftp_globals_init [0, 0, 0, 5, 2, 0, 0, 0, 3]).1 = 1 ∧
    ((fxp_init sftp_globals_init [0, 0, 0, 5, 2, 0, 0, 0, 5]).1 = 0 ∧
     (fxp_init sftp_globals_init [0, 0, 0, 5, 2, 0, 0, 0, 5]).2.1.fxp_error_message =
       "remote protocol is more advanced than we support") :=
  ⟨(C19_init sftp_globals_init [0, 0, 0, 5, 2, 0, 0, 0, 3]).1.2
      ⟨3, by unfold version_reply; decide, by decide⟩,
   (C19_init sftp_globals_init [0, 0, 0, 5, 2, 0, 0, 0, 5]).2.1 5
      (by unfold version_reply; decide) (by decide)⟩

/-! ## Request packets on the wire -/

/-- `put_uint32` appends. -/
theorem put_uint32_append (a b : List Nat) (x : Nat) :
    put_uint32 (a ++ b) x = a ++ put_uint32 b x := by
  simp [put_uint32]

/-- `put_uint64` appends. -/
theorem put_uint64_append (a b : List Nat) (x : Nat) :
    put_uint64 (a ++ b) x = a ++ put_uint64 b x := by
  simp [put_uint64]

/-- `put_string` appends. -/
theorem put_string_append (a b : List Nat) (s : List Nat) :
    put_string (a ++ b) s = a ++ put_string b s := by
  simp [put_string]

/-- `put_stringz` appends. -/
theorem put_stringz_append (a b : List Nat) (s : List Nat) :
    put_stringz (a ++ b) s = a ++ put_stringz b s := by
  simp [put_stringz, put_string]

/-- `put_fxp_attrs` appends. -/
theorem put_fxp_attrs_append (a b : List Nat) (attrs : fxp_attrs) :
    put_fxp_attrs (a ++ b) attrs = a ++ put_fxp_attrs b attrs := by
  unfold put_fxp_attrs
  simp only [put_uint32_append, put_uint64_append]
  split_ifs <;> simp only [put_uint32_append, put_uint64_append]

/-- A new request has a 32-bit id, and allocation leaves what was sent. -/
theorem sftp_alloc_request_facts (g g1 : sftp_globals) (req : sftp_request)
    (h : sftp_alloc_request g = some (req, g1)) :
    req.id < 4294967296 ∧ g1.sent = g.sent := by
  unfold sftp_alloc_request at h
  simp only at h
  split at h
  · exact absurd h (by simp)
  · split_ifs at h
    simp only [Option.some.injEq, Prod.mk.injEq] at h
    obtain ⟨h1, h2⟩ := h
    subst h1
    subst h2
    exact ⟨Nat.mod_lt _ (by decide), rfl⟩

/-- What `sftp_send` hands to `sftp_senddata` for a packet begun with
`sftp_pkt_init`. -/
theorem sftp_send_frame (g : sftp_globals) (type : Nat) (body : List Nat) (ht : type < 256)
    (hlen : body.length + 5 < 4294967296) :
    sftp_send g (sftp_pkt_init type ++ body) =
      { g with sent := g.sent ++ [sftp_frame type body] } := by
  have hinit : sftp_pkt_init type = [0, 0, 0, 0, type] := by
    simp [sftp_pkt_init, put_byte, put_uint32, PUT_32BIT, Nat.mod_eq_of_lt ht]
  rw [hinit]
  unfold sftp_send sftp_frame
  have hl : ([0, 0, 0, 0, type] ++ body).length = body.length + 5 := by
    simp
  rw [hl, Nat.mod_eq_of_lt hlen]
  have hsub : usub32 (body.length + 5) 4 = body.length + 1 := by
    unfold usub32
    rw [if_pos (by omega)]
    omega
  rw [hsub]
  rfl

/-- The result of a `*_send` function that has allocated the request `req` and
handed over the packet of type `type` with the id and `rest` behind it. -/
theorem sends_request_intro (g g1 : sftp_globals) (req : sftp_request) (type : Nat)
    (rest : List Nat) (ha : sftp_alloc_request g = some (req, g1)) (ht : type < 256)
    (hlen : rest.length + 9 < 4294967296) :
    sends_request g type rest
      (some (req, sftp_send g1 (sftp_pkt_init type ++ (PUT_32BIT req.id ++ rest)))) := by
  obtain ⟨_, hsent⟩ := sftp_alloc_request_facts g g1 req ha
  refine ⟨req, g1, _, ha, rfl, ?_, ?_⟩
  · rfl
  · rw [sftp_send_frame g1 type _ ht (by
      rw [List.length_append, PUT_32BIT_length]; omega)]
    show g1.sent ++ _ = _
    rw [hsent]

/-- The packet of `fxp_read_send`. -/
theorem fxp_read_send_eq (g g1 : sftp_globals) (req : sftp_request) (handle : List Nat)
    (offset : Nat) (len : Int) (ha : sftp_alloc_request g = some (req, g1)) :
    fxp_read_send g handle offset len =
      some (req, sftp_send g1 (sftp_pkt_init SSH_FXP_READ ++ (PUT_32BIT req.id ++
        put_uint32 (put_uint64 (put_string [] handle) offset) (len % 4294967296).toNat))) := by
  have hid := (sftp_alloc_request_facts g g1 req ha).1
  unfold fxp_read_send
  rw [ha]
  simp only [put_uint32, put_uint64, put_string, Nat.mod_eq_of_lt hid, List.append_assoc,
    List.nil_append]

/-- The packet of `fxp_realpath_send`. -/
theorem fxp_realpath_send_eq (g g1 : sftp_globals) (req : sftp_request) (path : List Nat)
    (ha : sftp_alloc_request g = some (req, g1)) :
    fxp_realpath_send g path =
      some (req, sftp_send g1 (sftp_pkt_init SSH_FXP_REALPATH ++ (PUT_32BIT req.id ++
        put_stringz [] path))) := by
  have hid := (sftp_alloc_request_facts g g1 req ha).1
  unfold fxp_realpath_send
  rw [ha]
  simp only [put_uint32, put_stringz, put_string, Nat.mod_eq_of_lt hid, List.append_assoc,
    List.nil_append]

/-- The packet of `fxp_open_send`. -/
theorem fxp_open_send_eq (g g1 : sftp_globals) (req : sftp_request) (path : List Nat)
    (type : Nat) (attrs : Option fxp_attrs) (ha : sftp_alloc_request g = some (req, g1)) :
    fxp_open_send g path type attrs =
      some (req, sftp_send g1 (sftp_pkt_init SSH_FXP_OPEN ++ (PUT_32BIT req.id ++
        (match attrs with
         | some a => put_fxp_attrs (put_uint32 (put_stringz [] path) type) a
         | none => put_uint32 (put_uint32 (put_stringz [] path) type) 0)))) := by
  have hid := (sftp_alloc_request_facts g g1 req ha).1
  unfold fxp_open_send
  rw [ha]
  cases attrs with
  | none =>
    simp only [put_uint32, put_stringz, put_string, Nat.mod_eq_of_lt hid, List.append_assoc,
      List.nil_append]
  | some a =>
    have e : put_uint32 (put_stringz (put_uint32 (sftp_pkt_init SSH_FXP_OPEN) req.id) path) type =
        sftp_pkt_init SSH_FXP_OPEN ++ (PUT_32BIT req.id ++
          put_uint32 (put_stringz [] path) type) := by
      simp only [put_uint32, put_stringz, put_string, Nat.mod_eq_of_lt hid, List.append_assoc,
        List.nil_append]
    simp only
    rw [e, put_fxp_attrs_append, put_fxp_attrs_append]

/-- The packet of `fxp_opendir_send`. -/
theorem fxp_opendir_send_eq (g g1 : sftp_globals) (req : sftp_request) (path : List Nat)
    (ha : sftp_alloc_request g = some (req, g1)) :
    fxp_opendir_send g path =
      some (req, sftp_send g1 (sftp_pkt_init SSH_FXP_OPENDIR ++ (PUT_32BIT req.id ++
        put_stringz [] path))) := by
  have hid := (sftp_alloc_request_facts g g1 req ha).1
  unfold fxp_opendir_send
  rw [ha]
  simp only [put_uint32, put_stringz, put_string, Nat.mod_eq_of_lt hid, List.append_assoc,
    List.nil_append]

/-- The packet of `fxp_close_send`. -/
theorem fxp_close_send_eq (g g1 : sftp_globals) (req : sftp_request) (handle : List Nat)
    (ha : sftp_alloc_request g = some (req, g1)) :
    fxp_close_send g handle =
      some (req, sftp_send g1 (sftp_pkt_init SSH_FXP_CLOSE ++ (PUT_32BIT req.id ++
        put_string [] handle))) := by
  have hid := (sftp_alloc_request_facts g g1 req ha).1
  unfold fxp_close_send
  rw [ha]
  simp only [put_uint32, put_string, Nat.mod_eq_of_lt hid, List.append_assoc,
    List.nil_append]

/-- The packet of `fxp_mkdir_send`. -/
theorem fxp_mkdir_send_eq (g g1 : sftp_globals) (req : sftp_request) (path : List Nat)
    (ha : sftp_alloc_request g = some (req, g1)) :
    fxp_mkdir_send g path =
      some (req, sftp_send g1 (sftp_pkt_init SSH_FXP_MKDIR ++ (PUT_32BIT req.id ++
        put_uint32 (put_stringz [] path) 0))) := by
  have hid := (sftp_alloc_request_facts g g1 req ha).1
  unfold fxp_mkdir_send
  rw [ha]
  simp only [put_uint32, put_stringz, put_string, Nat.mod_eq_of_lt hid, List.append_assoc,
    List.nil_append]

/-- The packet of `fxp_rmdir_send`. -/
theorem fxp_rmdir_send_eq (g g1 : sftp_globals) (req : sftp_request) (path : List Nat)
    (ha : sftp_alloc_request g = some (req, g1)) :
    fxp_rmdir_send g path =
      some (req, sftp_send g1 (sftp_pkt_init SSH_FXP_RMDIR ++ (PUT_32BIT req.id ++
        put_stringz [] path))) := by
  have hid := (sftp_alloc_request_facts g g1 req ha).1
  unfold fxp_rmdir_send
  rw [ha]
  simp only [put_uint32, put_stringz, put_string, Nat.mod_eq_of_lt hid, List.append_assoc,
    List.nil_append]

/-- The packet of `fxp_remove_send`. -/
theorem fxp_remove_send_eq (g g1 : sftp_globals) (req : sftp_request) (fname : List Nat)
    (ha : sftp_alloc_request g = some (req, g1)) :
    fxp_remove_send g fname =
      some (req, sftp_send g1 (sftp_pkt_init SSH_FXP_REMOVE ++ (PUT_32BIT req.id ++
        put_stringz [] fname))) := by
  have hid := (sftp_alloc_request_facts g g1 req ha).1
  unfold fxp_remove_send
  rw [ha]
  simp only [put_uint32, put_stringz, put_string, Nat.mod_eq_of_lt hid, List.append_assoc,
    List.nil_append]

/-- The packet of `fxp_rename_send`. -/
theorem fxp_rename_send_eq (g g1 : sftp_globals) (req : sftp_request)
    (srcfname dstfname : List Nat) (ha : sftp_alloc_request g = some (req, g1)) :
    fxp_rename_send g srcfname dstfname =
      some (req, sftp_send g1 (sftp_pkt_init SSH_FXP_RENAME ++ (PUT_32BIT req.id ++
        put_stringz (put_stringz [] srcfname) dstfname))) := by
  have hid := (sftp_alloc_request_facts g g1 req ha).1
  unfold fxp_rename_send
  rw [ha]
  simp only [put_uint32, put_stringz, put_string, Nat.mod_eq_of_lt hid, List.append_assoc,
    List.nil_append]

/-- The packet of `fxp_stat_send`. -/
theorem fxp_stat_send_eq (g g1 : sftp_globals) (req : sftp_request) (fname : List Nat)
    (ha : sftp_alloc_request g = some (req, g1)) :
    fxp_stat_send g fname =
      some (req, sftp_send g1 (sftp_pkt_init SSH_FXP_STAT ++ (PUT_32BIT req.id ++
        put_stringz [] fname))) := by
  have hid := (sftp_alloc_request_facts g g1 req ha).1
  unfold fxp_stat_send
  rw [ha]
  simp only [put_uint32, put_stringz, put_string, Nat.mod_eq_of_lt hid, List.append_assoc,
    List.nil_append]

/-- The packet of `fxp_fstat_send`. -/
theorem fxp_fstat_send_eq (g g1 : sftp_globals) (req : sftp_request) (handle : List Nat)
    (ha : sftp_alloc_request g = some (req, g1)) :
    fxp_fstat_send g handle =
      some (req, sftp_send g1 (sftp_pkt_init SSH_FXP_FSTAT ++ (PUT_32BIT req.id ++
        put_string [] handle))) := by
  have hid := (sftp_alloc_request_facts g g1 req ha).1
  unfold fxp_fstat_send
  rw [ha]
  simp only [put_uint32, put_string, Nat.mod_eq_of_lt hid, List.append_assoc,
    List.nil_append]

/-- The packet of `fxp_setstat_send`. -/
theorem fxp_setstat_send_eq (g g1 : sftp_globals) (req : sftp_request) (fname : List Nat)
    (attrs : fxp_attrs) (ha : sftp_alloc_request g = some (req, g1)) :
    fxp_setstat_send g fname attrs =
      some (req, sftp_send g1 (sftp_pkt_init SSH_FXP_SETSTAT ++ (PUT_32BIT req.id ++
        put_fxp_attrs (put_stringz [] fname) attrs))) := by
  have hid := (sftp_alloc_request_facts g g1 req ha).1
  unfold fxp_setstat_send
  rw [ha]
  have e : put_stringz (put_uint32 (sftp_pkt_init SSH_FXP_SETSTAT) req.id) fname =
      sftp_pkt_init SSH_FXP_SETSTAT ++ (PUT_32BIT req.id ++ put_stringz [] fname) := by
    simp only [put_uint32, put_stringz, put_string, Nat.mod_eq_of_lt hid, List.append_assoc,
      List.nil_append]
  simp only
  rw [e, put_fxp_attrs_append, put_fxp_attrs_append]

/-- The packet of `fxp_fsetstat_send`. -/
theorem fxp_fsetstat_send_eq (g g1 : sftp_globals) (req : sftp_request) (handle : List Nat)
    (attrs : fxp_attrs) (ha : sftp_alloc_request g = some (req, g1)) :
    fxp_fsetstat_send g handle attrs =
      some (req, sftp_send g1 (sftp_pkt_init SSH_FXP_FSETSTAT ++ (PUT_32BIT req.id ++
        put_fxp_attrs (put_string [] handle) attrs))) := by
  have hid := (sftp_alloc_request_facts g g1 req ha).1
  unfold fxp_fsetstat_send
  rw [ha]
  have e : put_string (put_uint32 (sftp_pkt_init SSH_FXP_FSETSTAT) req.id) handle =
      sftp_pkt_init SSH_FXP_FSETSTAT ++ (PUT_32BIT req.id ++ put_string [] handle) := by
    simp only [put_uint32, put_string, Nat.mod_eq_of_lt hid, List.append_assoc,
      List.nil_append]
  simp only
  rw [e, put_fxp_attrs_append, put_fxp_attrs_append]

/-- The packet of `fxp_readdir_send`. -/
theorem fxp_readdir_send_eq (g g1 : sftp_globals) (req : sftp_request) (handle : List Nat)
    (ha : sftp_alloc_request g = some (req, g1)) :
    fxp_readdir_send g handle =
      some (req, sftp_send g1 (sftp_pkt_init SSH_FXP_READDIR ++ (PUT_32BIT req.id ++
        put_string [] handle))) := by
  have hid := (sftp_alloc_request_facts g g1 req ha).1
  unfold fxp_readdir_send
  rw [ha]
  simp only [put_uint32, put_string, Nat.mod_eq_of_lt hid, List.append_assoc,
    List.nil_append]

/-- The packet of `fxp_write_send`. -/
theorem fxp_write_send_eq (g g1 : sftp_globals) (req : sftp_request) (handle buffer : List Nat)
    (offset : Nat) (ha : sftp_alloc_request g = some (req, g1)) :
    fxp_write_send g handle buffer offset =
      some (req, sftp_send g1 (sftp_pkt_init SSH_FXP_WRITE ++ (PUT_32BIT req.id ++
        put_string (put_uint64 (put_string [] handle) offset) buffer))) := by
  have hid := (sftp_alloc_request_facts g g1 req ha).1
  unfold fxp_write_send
  rw [ha]
  simp only [put_uint32, put_uint64, put_string, Nat.mod_eq_of_lt hid, List.append_assoc,
    List.nil_append]

/-- `sftp_recv` on a frame followed by more input: the packet has the type of
the frame and its body is left to read. -/
theorem sftp_recv_frame (type : Nat) (body more : List Nat)
    (hlen : body.length + 1 < 4294967296) :
    sftp_recv (sftp_frame type body ++ more) =
      (some { type := type, src := { data := type :: body, pos := 1, err := false } }, more) := by
  have hg : GET_32BIT (sftp_frame type body ++ more) = body.length + 1 := by
    unfold sftp_frame
    rw [List.append_assoc, GET_PUT_32BIT _ _ hlen]
  have hl : (sftp_frame type body ++ more).length = body.length + 5 + more.length := by
    unfold sftp_frame
    simp only [List.length_append, PUT_32BIT_length, List.length_cons]
    omega
  rw [sftp_recv_ok _ (by omega) (by omega) (by omega), hg]
  have hd : (sftp_frame type body ++ more).drop 4 = type :: body ++ more := by
    unfold sftp_frame
    rw [List.append_assoc, List.drop_left' (PUT_32BIT_length _)]
  have h4 : (sftp_frame type body ++ more).getD 4 0 = type := by
    have := congrArg (fun l => l.getD 0 0) hd
    simp only [List.getD_eq_getElem?_getD, List.getElem?_drop] at this
    simpa [List.getD_eq_getElem?_getD] using this
  have hd2 : (sftp_frame type body ++ more).drop (4 + (body.length + 1)) = more := by
    rw [← List.drop_drop, hd]
    exact List.drop_left' (by simp)
  rw [hd, h4, hd2]
  have ht : (type :: body ++ more).take (body.length + 1) = type :: body :=
    List.take_left' (by simp)
  rw [ht]
/-- C18 (SFTP wire framing). (1) A packet begun with `sftp_pkt_init` and
handed to `sftp_send` goes to `sftp_senddata` as the frame `u32_be(n - 4)`, the
type byte, the body, where `n` is the number of bytes sent. (2) Every
`fxp_*_send` function allocates a request and sends one frame whose body
starts with `u32_be(id)` of that request; for `fxp_read_send` the body is the
id, the handle as a string, the 64-bit offset and the 32-bit length. (3) The
INIT packet of `fxp_init` carries `u32_be(3)` and no request id. (4)
`sftp_recv` on a frame yields a packet of the same type of which the body is
left to read. Lengths are those the 32-bit length field can hold. -/
theorem C18_wire_framing :
    (∀ (g : sftp_globals) (type : Nat) (body : List Nat), type < 256 →
      body.length + 5 < 4294967296 →
      (sftp_send g (sftp_pkt_init type ++ body)).sent = g.sent ++ [sftp_frame type body] ∧
      sftp_frame type body =
        PUT_32BIT ((sftp_frame type body).length - 4) ++ type :: body) ∧
    (∀ (g : sftp_globals), (sftp_alloc_request g).isSome = true →
      (∀ (handle : List Nat) (offset : Nat) (len : Int), handle.length + 29 < 4294967296 →
        offset < 18446744073709551616 → 0 ≤ len → len < 4294967296 →
        sends_request g SSH_FXP_READ
          (PUT_32BIT handle.length ++ handle ++
            (PUT_32BIT (offset / 4294967296) ++ PUT_32BIT (offset % 4294967296)) ++
            PUT_32BIT len.toNat)
          (fxp_read_send g handle offset len)) ∧
      (∀ path : List Nat, (put_stringz [] path).length + 9 < 4294967296 →
        sends_request g SSH_FXP_REALPATH (put_stringz [] path) (fxp_realpath_send g path)) ∧
      (∀ (path : List Nat) (type : Nat) (attrs : Option fxp_attrs),
        (match attrs with
         | some a => put_fxp_attrs (put_uint32 (put_stringz [] path) type) a
         | none => put_uint32 (put_uint32 (put_stringz [] path) type) 0).length + 9
          < 4294967296 →
        sends_request g SSH_FXP_OPEN
          (match attrs with
           | some a => put_fxp_attrs (put_uint32 (put_stringz [] path) type) a
           | none => put_uint32 (put_uint32 (put_stringz [] path) type) 0)
          (fxp_open_send g path type attrs)) ∧
      (∀ path : List Nat, (put_stringz [] path).length + 9 < 4294967296 →
        sends_request g SSH_FXP_OPENDIR (put_stringz [] path) (fxp_opendir_send g path)) ∧
      (∀ handle : List Nat, (put_string [] handle).length + 9 < 4294967296 →
        sends_request g SSH_FXP_CLOSE (put_string [] handle) (fxp_close_send g handle)) ∧
      (∀ path : List Nat, (put_uint32 (put_stringz [] path) 0).length + 9 < 4294967296 →
        sends_request g SSH_FXP_MKDIR (put_uint32 (put_stringz [] path) 0)
          (fxp_mkdir_send g path)) ∧
      (∀ path : List Nat, (put_stringz [] path).length + 9 < 4294967296 →
        sends_request g SSH_FXP_RMDIR (put_stringz [] path) (fxp_rmdir_send g path)) ∧
      (∀ fname : List Nat, (put_stringz [] fname).length + 9 < 4294967296 →
        sends_request g SSH_FXP_REMOVE (put_stringz [] fname) (fxp_remove_send g fname)) ∧
      (∀ srcfname dstfname : List Nat,
        (put_stringz (put_stringz [] srcfname) dstfname).length + 9 < 4294967296 →
        sends_request g SSH_FXP_RENAME (put_stringz (put_stringz [] srcfname) dstfname)
          (fxp_rename_send g srcfname dstfname)) ∧
      (∀ fname : List Nat, (put_stringz [] fname).length + 9 < 4294967296 →
        sends_request g SSH_FXP_STAT (put_stringz [] fname) (fxp_stat_send g fname)) ∧
      (∀ handle : List Nat, (put_string [] handle).length + 9 < 4294967296 →
        sends_request g SSH_FXP_FSTAT (put_string [] handle) (fxp_fstat_send g handle)) ∧
      (∀ (fname : List Nat) (attrs : fxp_attrs),
        (put_fxp_attrs (put_stringz [] fname) attrs).length + 9 < 4294967296 →
        sends_request g SSH_FXP_SETSTAT (put_fxp_attrs (put_stringz [] fname) attrs)
          (fxp_setstat_send g fname attrs)) ∧
      (∀ (handle : List Nat) (attrs : fxp_attrs),
        (put_fxp_attrs (put_string [] handle) attrs).length + 9 < 4294967296 →
        sends_request g SSH_FXP_FSETSTAT (put_fxp_attrs (put_string [] handle) attrs)
          (fxp_fsetstat_send g handle attrs)) ∧
      (∀ handle : List Nat, (put_string [] handle).length + 9 < 4294967296 →
        sends_request g SSH_FXP_READDIR (put_string [] handle) (fxp_readdir_send g handle)) ∧
      (∀ (handle buffer : List Nat) (offset : Nat),
        (put_string (put_uint64 (put_string [] handle) offset) buffer).length + 9
          < 4294967296 →
        sends_request g SSH_FXP_WRITE
          (put_string (put_uint64 (put_string [] handle) offset) buffer)
          (fxp_write_send g handle buffer offset))) ∧
    (∀ (g : sftp_globals) (inp : List Nat),
      (fxp_init g inp).2.1.sent = g.sent ++ [sftp_frame SSH_FXP_INIT (PUT_32BIT 3)] ∧
      sftp_frame SSH_FXP_INIT (PUT_32BIT 3) = [0, 0, 0, 5, 1, 0, 0, 0, 3]) ∧
    (∀ (type : Nat) (body more : List Nat), body.length + 1 < 4294967296 →
      ∃ pkt : sftp_packet, sftp_recv (sftp_frame type body ++ more) = (some pkt, more) ∧
        pkt.type = type ∧ reads pkt.src body) := by
  refine ⟨?_, ?_, ?_, ?_⟩
  · intro g type body ht hlen
    constructor
    · rw [sftp_send_frame g type body ht hlen]
    · have hl : (sftp_frame type body).length = body.length + 5 := by
        unfold sftp_frame
        simp only [List.length_append, PUT_32BIT_length, List.length_cons]
        omega
      rw [hl]
      rfl
  · intro g hal
    obtain ⟨⟨req, g1⟩, ha⟩ := Option.isSome_iff_exists.mp hal
    refine ⟨?_, ?_, ?_, ?_, ?_, ?_, ?_, ?_, ?_, ?_, ?_, ?_, ?_, ?_, ?_⟩
    · intro handle offset len hh ho hl0 hl1
      rw [fxp_read_send_eq g g1 req handle offset len ha]
      have hmod : len % 4294967296 = len := Int.emod_eq_of_lt hl0 hl1
      have hlt : len.toNat < 4294967296 := by omega
      have hrest : put_uint32 (put_uint64 (put_string [] handle) offset)
          (len % 4294967296).toNat =
          PUT_32BIT handle.length ++ handle ++
            (PUT_32BIT (offset / 4294967296) ++ PUT_32BIT (offset % 4294967296)) ++
            PUT_32BIT len.toNat := by
        rw [hmod]
        have h1 : handle.length % 4294967296 = handle.length := Nat.mod_eq_of_lt (by omega)
        have h2 : offset / 4294967296 % 4294967296 = offset / 4294967296 :=
          Nat.mod_eq_of_lt (by omega)
        simp only [put_uint32, put_uint64, put_string, List.nil_append, h1, h2,
          Nat.mod_eq_of_lt hlt, List.append_assoc]
      rw [hrest]
      exact sends_request_intro g g1 req SSH_FXP_READ _ ha (by decide) (by
        simp only [List.length_append, PUT_32BIT_length]; omega)
    · intro path h
      rw [fxp_realpath_send_eq g g1 req path ha]
      exact sends_request_intro g g1 req SSH_FXP_REALPATH _ ha (by decide) h
    · intro path type attrs h
      rw [fxp_open_send_eq g g1 req path type attrs ha]
      exact sends_request_intro g g1 req SSH_FXP_OPEN _ ha (by decide) h
    · intro path h
      rw [fxp_opendir_send_eq g g1 req path ha]
      exact sends_request_intro g g1 req SSH_FXP_OPENDIR _ ha (by decide) h
    · intro handle h
      rw [fxp_close_send_eq g g1 req handle ha]
      exact sends_request_intro g g1 req SSH_FXP_CLOSE _ ha (by decide) h
    · intro path h
      rw [fxp_mkdir_send_eq g g1 req path ha]
      exact sends_request_intro g g1 req SSH_FXP_MKDIR _ ha (by decide) h
    · intro path h
      rw [fxp_rmdir_send_eq g g1 req path ha]
      exact sends_request_intro g g1 req SSH_FXP_RMDIR _ ha (by decide) h
    · intro fname h
      rw [fxp_remove_send_eq g g1 req fname ha]
      exact sends_request_intro g g1 req SSH_FXP_REMOVE _ ha (by decide) h
    · intro srcfname dstfname h
      rw [fxp_rename_send_eq g g1 req srcfname dstfname ha]
      exact sends_request_intro g g1 req SSH_FXP_RENAME _ ha (by decide) h
    · intro fname h
      rw [fxp_stat_send_eq g g1 req fname ha]
      exact sends_request_intro g g1 req SSH_FXP_STAT _ ha (by decide) h
    · intro handle h
      rw [fxp_fstat_send_eq g g1 req handle ha]
      exact sends_request_intro g g1 req SSH_FXP_FSTAT _ ha (by decide) h
    · intro fname attrs h
      rw [fxp_setstat_send_eq g g1 req fname attrs ha]
      exact sends_request_intro g g1 req SSH_FXP_SETSTAT _ ha (by decide) h
    · intro handle attrs h
      rw [fxp_fsetstat_send_eq g g1 req handle attrs ha]
      exact sends_request_intro g g1 req SSH_FXP_FSETSTAT _ ha (by decide) h
    · intro handle h
      rw [fxp_readdir_send_eq g g1 req handle ha]
      exact sends_request_intro g g1 req SSH_FXP_READDIR _ ha (by decide) h
    · intro handle buffer offset h
      rw [fxp_write_send_eq g g1 req handle buffer offset ha]
      exact sends_request_intro g g1 req SSH_FXP_WRITE _ ha (by decide) h
  · intro g inp
    refine ⟨?_, by decide⟩
    unfold fxp_init
    cases hr : sftp_recv inp with
    | mk p rest =>
      cases p with
      | none => rfl
      | some pkt =>
        simp only
        split_ifs <;> rfl
  · intro type body more hlen
    refine ⟨_, sftp_recv_frame type body more hlen, rfl, rfl, ?_⟩
    rfl

/-- C18 at the first READ request of a session: handle `[104]`, offset 0,
length 32768; the frame is 29 bytes with the length field 25, the type byte
5 and the request id 256, and `sftp_recv` reads it back. -/
theorem C18_wire_framing_witness :
    sends_request sftp_globals_init SSH_FXP_READ
      (PUT_32BIT 1 ++ [104] ++ (PUT_32BIT (0 / 4294967296) ++ PUT_32BIT (0 % 4294967296)) ++
        PUT_32BIT (32768 : Int).toNat)
      (fxp_read_send sftp_globals_init [104] 0 32768) ∧
    (∃ pkt : sftp_packet,
      sftp_recv (sftp_frame 5 [0, 0, 1, 0, 0, 0, 0, 1, 104] ++ []) = (some pkt, []) ∧
      pkt.type = 5 ∧ reads pkt.src [0, 0, 1, 0, 0, 0, 0, 1, 104]) :=
  ⟨(C18_wire_framing.2.1 sftp_globals_init (by decide)).1 [104] 0 32768 (by decide)
      (by decide) (by decide) (by decide),
   C18_wire_framing.2.2.2 5 [0, 0, 1, 0, 0, 0, 0, 1, 104] [] (by decide)⟩

/-! ## File attributes -/

/-- `BinarySource_get_fxp_attrs` as the sequence of its steps. -/
theorem get_fxp_attrs_steps (src : BinarySource) (a : fxp_attrs) :
    get_fxp_attrs src a =
      if has_flag (get_uint32 src).1 SSH_FILEXFER_ATTR_EXTENDED then
        ((get_attr_acmodtime (get_uint32 src).1 (get_attr_permissions (get_uint32 src).1
            (get_attr_uidgid (get_uint32 src).1 (get_attr_size (get_uint32 src).1
              ({ a with flags := (get_uint32 src).1 }, (get_uint32 src).2))))).1,
          get_extended_pairs
            (get_uint32 (get_attr_acmodtime (get_uint32 src).1
              (get_attr_permissions (get_uint32 src).1 (get_attr_uidgid (get_uint32 src).1
                (get_attr_size (get_uint32 src).1
                  ({ a with flags := (get_uint32 src).1 }, (get_uint32 src).2))))).2).1
            (get_uint32 (get_attr_acmodtime (get_uint32 src).1
              (get_attr_permissions (get_uint32 src).1 (get_attr_uidgid (get_uint32 src).1
                (get_attr_size (get_uint32 src).1
                  ({ a with flags := (get_uint32 src).1 }, (get_uint32 src).2))))).2).2)
      else
        get_attr_acmodtime (get_uint32 src).1 (get_attr_permissions (get_uint32 src).1
          (get_attr_uidgid (get_uint32 src).1 (get_attr_size (get_uint32 src).1
            ({ a with flags := (get_uint32 src).1 }, (get_uint32 src).2)))) := rfl

/-- The size step reads the size when it is selected and leaves the rest. -/
theorem get_attr_size_reads (flags : Nat) (r : fxp_attrs × BinarySource) (size : Nat)
    (tail : List Nat) (hs : size < 18446744073709551616)
    (hr : reads r.2 ((if has_flag flags 1 then
        PUT_32BIT (size / 4294967296) ++ PUT_32BIT (size % 4294967296) else []) ++ tail)) :
    reads (get_attr_size flags r).2 tail ∧
    (has_flag flags 1 = true → (get_attr_size flags r).1.size = size) ∧
    (get_attr_size flags r).1.flags = r.1.flags := by
  unfold get_attr_size
  by_cases h : has_flag flags 1 = true
  · rw [if_pos h] at hr
    have h' : has_flag flags SSH_FILEXFER_ATTR_SIZE = true := h
    rw [if_pos h']
    obtain ⟨h1, h2⟩ := get_uint64_reads r.2 (size / 4294967296) (size % 4294967296) tail hr
      (by omega) (by omega)
    refine ⟨h2, fun _ => ?_, rfl⟩
    show (get_uint64 r.2).1 = size
    rw [h1]
    omega
  · rw [if_neg h] at hr
    have h' : ¬ has_flag flags SSH_FILEXFER_ATTR_SIZE = true := h
    rw [if_neg h']
    exact ⟨by simpa using hr, fun hh => absurd hh h, rfl⟩

/-- The uid and gid step. -/
theorem get_attr_uidgid_reads (flags : Nat) (r : fxp_attrs × BinarySource) (uid gid : Nat)
    (tail : List Nat) (hu : uid < 4294967296) (hg : gid < 4294967296)
    (hr : reads r.2 ((if has_flag flags 2 then PUT_32BIT uid ++ PUT_32BIT gid else []) ++
      tail)) :
    reads (get_attr_uidgid flags r).2 tail ∧
    (has_flag flags 2 = true →
      (get_attr_uidgid flags r).1.uid = uid ∧ (get_attr_uidgid flags r).1.gid = gid) ∧
    (get_attr_uidgid flags r).1.flags = r.1.flags ∧
    (get_attr_uidgid flags r).1.size = r.1.size := by
  unfold get_attr_uidgid
  by_cases h : has_flag flags 2 = true
  · rw [if_pos h, List.append_assoc] at hr
    have h' : has_flag flags SSH_FILEXFER_ATTR_UIDGID = true := h
    rw [if_pos h']
    obtain ⟨h1, h2, _⟩ := get_uint32_reads r.2 uid _ hr hu
    obtain ⟨h3, h4, _⟩ := get_uint32_reads (get_uint32 r.2).2 gid tail h2 hg
    exact ⟨h4, fun _ => ⟨h1, h3⟩, rfl, rfl⟩
  · rw [if_neg h] at hr
    have h' : ¬ has_flag flags SSH_FILEXFER_ATTR_UIDGID = true := h
    rw [if_neg h']
    exact ⟨by simpa using hr, fun hh => absurd hh h, rfl, rfl⟩

/-- The permissions step. -/
theorem get_attr_permissions_reads (flags : Nat) (r : fxp_attrs × BinarySource) (perm : Nat)
    (tail : List Nat) (hp : perm < 4294967296)
    (hr : reads r.2 ((if has_flag flags 4 then PUT_32BIT perm else []) ++ tail)) :
    reads (get_attr_permissions flags r).2 tail ∧
    (has_flag flags 4 = true → (get_attr_permissions flags r).1.permissions = perm) ∧
    (get_attr_permissions flags r).1.flags = r.1.flags ∧
    (get_attr_permissions flags r).1.size = r.1.size ∧
    (get_attr_permissions flags r).1.uid = r.1.uid ∧
    (get_attr_permissions flags r).1.gid = r.1.gid := by
  unfold get_attr_permissions
  by_cases h : has_flag flags 4 = true
  · rw [if_pos h] at hr
    have h' : has_flag flags SSH_FILEXFER_ATTR_PERMISSIONS = true := h
    rw [if_pos h']
    obtain ⟨h1, h2, _⟩ := get_uint32_reads r.2 perm tail hr hp
    exact ⟨h2, fun _ => h1, rfl, rfl, rfl, rfl⟩
  · rw [if_neg h] at hr
    have h' : ¬ has_flag flags SSH_FILEXFER_ATTR_PERMISSIONS = true := h
    rw [if_neg h']
    exact ⟨by simpa using hr, fun hh => absurd hh h, rfl, rfl, rfl, rfl⟩

/-- The atime and mtime step. -/
theorem get_attr_acmodtime_reads (flags : Nat) (r : fxp_attrs × BinarySource)
    (atime mtime : Nat) (tail : List Nat) (ha : atime < 4294967296) (hm : mtime < 4294967296)
    (hr : reads r.2 ((if has_flag flags 8 then PUT_32BIT atime ++ PUT_32BIT mtime else []) ++
      tail)) :
    reads (get_attr_acmodtime flags r).2 tail ∧
    (has_flag flags 8 = true →
      (get_attr_acmodtime flags r).1.atime = atime ∧
      (get_attr_acmodtime flags r).1.mtime = mtime) ∧
    (get_attr_acmodtime flags r).1.flags = r.1.flags ∧
    (get_attr_acmodtime flags r).1.size = r.1.size ∧
    (get_attr_acmodtime flags r).1.uid = r.1.uid ∧
    (get_attr_acmodtime flags r).1.gid = r.1.gid ∧
    (get_attr_acmodtime flags r).1.permissions = r.1.permissions := by
  unfold get_attr_acmodtime
  by_cases h : has_flag flags 8 = true
  · rw [if_pos h, List.append_assoc] at hr
    have h' : has_flag flags SSH_FILEXFER_ATTR_ACMODTIME = true := h
    rw [if_pos h']
    obtain ⟨h1, h2, _⟩ := get_uint32_reads r.2 atime _ hr ha
    obtain ⟨h3, h4, _⟩ := get_uint32_reads (get_uint32 r.2).2 mtime tail h2 hm
    exact ⟨h4, fun _ => ⟨h1, h3⟩, rfl, rfl, rfl, rfl, rfl⟩
  · rw [if_neg h] at hr
    have h' : ¬ has_flag flags SSH_FILEXFER_ATTR_ACMODTIME = true := h
    rw [if_neg h']
    exact ⟨by simpa using hr, fun hh => absurd hh h, rfl, rfl, rfl, rfl, rfl⟩

/-- What `BinarySink_put_fxp_attrs` emits, for 32-bit flags and fields and a
64-bit size: the bytes the claim lists, with or without the extended bit. -/
theorem put_fxp_attrs_bytes (attrs : fxp_attrs) (hf : attrs.flags < 4294967296)
    (hs : attrs.size < 18446744073709551616) (hu : attrs.uid < 4294967296)
    (hg : attrs.gid < 4294967296) (hp : attrs.permissions < 4294967296)
    (ha : attrs.atime < 4294967296) (hm : attrs.mtime < 4294967296) :
    put_fxp_attrs [] attrs = attrs_bytes attrs := by
  have e1 : attrs.size / 4294967296 % 4294967296 = attrs.size / 4294967296 :=
    Nat.mod_eq_of_lt (by omega)
  unfold put_fxp_attrs attrs_bytes
  simp only [SSH_FILEXFER_ATTR_SIZE, SSH_FILEXFER_ATTR_UIDGID, SSH_FILEXFER_ATTR_PERMISSIONS,
    SSH_FILEXFER_ATTR_ACMODTIME, put_uint32, put_uint64, List.nil_append,
    Nat.mod_eq_of_lt hf, Nat.mod_eq_of_lt hu, Nat.mod_eq_of_lt hg, Nat.mod_eq_of_lt hp,
    Nat.mod_eq_of_lt ha, Nat.mod_eq_of_lt hm, e1]
  split_ifs <;> simp only [List.append_assoc, List.append_nil, List.nil_append]

/-- C17 (attribute round trip). For every `fxp_attrs` value with 32-bit
fields and a 64-bit size: `put_fxp_attrs` emits the flags word followed by
exactly the fields selected by bits 0 to 3, in the order size, uid, gid,
permissions, atime, mtime, and nothing for the extended bit 0x80000000; and
when the extended bit is not set, `get_fxp_attrs` on those bytes recovers the
flags and every selected field, consumes exactly those bytes and leaves the
error flag of the source clear. -/
theorem C17_attrs_round_trip (attrs : fxp_attrs) (hf : attrs.flags < 4294967296)
    (hs : attrs.size < 18446744073709551616) (hu : attrs.uid < 4294967296)
    (hg : attrs.gid < 4294967296) (hp : attrs.permissions < 4294967296)
    (ha : attrs.atime < 4294967296) (hm : attrs.mtime < 4294967296) :
    put_fxp_attrs [] attrs = attrs_bytes attrs ∧
    (has_flag attrs.flags SSH_FILEXFER_ATTR_EXTENDED = false →
      ∀ (src : BinarySource) (a0 : fxp_attrs) (rest : List Nat),
        reads src (put_fxp_attrs [] attrs ++ rest) →
        (get_fxp_attrs src a0).1.flags = attrs.flags ∧
        (has_flag attrs.flags SSH_FILEXFER_ATTR_SIZE = true →
          (get_fxp_attrs src a0).1.size = attrs.size) ∧
        (has_flag attrs.flags SSH_FILEXFER_ATTR_UIDGID = true →
          (get_fxp_attrs src a0).1.uid = attrs.uid ∧
          (get_fxp_attrs src a0).1.gid = attrs.gid) ∧
        (has_flag attrs.flags SSH_FILEXFER_ATTR_PERMISSIONS = true →
          (get_fxp_attrs src a0).1.permissions = attrs.permissions) ∧
        (has_flag attrs.flags SSH_FILEXFER_ATTR_ACMODTIME = true →
          (get_fxp_attrs src a0).1.atime = attrs.atime ∧
          (get_fxp_attrs src a0).1.mtime = attrs.mtime) ∧
        reads (get_fxp_attrs src a0).2 rest ∧
        get_err (get_fxp_attrs src a0).2 = false) := by
  have hbytes := put_fxp_attrs_bytes attrs hf hs hu hg hp ha hm
  refine ⟨hbytes, ?_⟩
  intro hext src a0 rest hr
  rw [hbytes] at hr
  unfold attrs_bytes at hr
  simp only [List.append_assoc] at hr
  obtain ⟨h0, hr0, hpos0⟩ := get_uint32_reads src attrs.flags _ hr hf
  rw [get_fxp_attrs_steps, h0, if_neg (by rw [hext]; decide)]
  obtain ⟨hr1, hs1, hf1⟩ := get_attr_size_reads attrs.flags
    ({ a0 with flags := attrs.flags }, (get_uint32 src).2) attrs.size _ hs hr0
  obtain ⟨hr2, hu2, hf2, hs2⟩ := get_attr_uidgid_reads attrs.flags _ attrs.uid attrs.gid _
    hu hg hr1
  obtain ⟨hr3, hp3, hf3, hs3, hu3, hg3⟩ := get_attr_permissions_reads attrs.flags _
    attrs.permissions _ hp hr2
  obtain ⟨hr4, ht4, hf4, hs4, hu4, hg4, hp4⟩ := get_attr_acmodtime_reads attrs.flags _
    attrs.atime attrs.mtime rest ha hm hr3
  refine ⟨?_, ?_, ?_, ?_, ht4, hr4, hr4.1⟩
  · rw [hf4, hf3, hf2, hf1]
  · intro h
    rw [hs4, hs3, hs2]
    exact hs1 h
  · intro h
    rw [hu4, hg4, hu3, hg3]
    exact hu2 h
  · intro h
    rw [hp4]
    exact hp3 h

/-- C17 at an attribute record with size, permissions and times selected
(flags 13): 24 bytes are emitted and read back, and nothing is left. -/
theorem C17_attrs_round_trip_witness :
    put_fxp_attrs []
        { flags := 13, size := 4294967301, uid := 0, gid := 0, permissions := 420,
          atime := 1000, mtime := 2000 } =
      [0, 0, 0, 13, 0, 0, 0, 1, 0, 0, 0, 5, 0, 0, 1, 164, 0, 0, 3, 232, 0, 0, 7, 208] ∧
    (get_fxp_attrs
        { data := [0, 0, 0, 13, 0, 0, 0, 1, 0, 0, 0, 5, 0, 0, 1, 164, 0, 0, 3, 232, 0, 0, 7, 208],
          pos := 0, err := false }
        { flags := 0, size := 0, uid := 0, gid := 0, permissions := 0, atime := 0,
          mtime := 0 }).1.size = 4294967301 ∧
    reads (get_fxp_attrs
        { data := [0, 0, 0, 13, 0, 0, 0, 1, 0, 0, 0, 5, 0, 0, 1, 164, 0, 0, 3, 232, 0, 0, 7, 208],
          pos := 0, err := false }
        { flags := 0, size := 0, uid := 0, gid := 0, permissions := 0, atime := 0,
          mtime := 0 }).2 [] :=
  ⟨by decide,
   (((C17_attrs_round_trip
      { flags := 13, size := 4294967301, uid := 0, gid := 0, permissions := 420,
        atime := 1000, mtime := 2000 }
      (by decide) (by decide) (by decide) (by decide) (by decide) (by decide) (by decide)).2
      (by decide)
      { data := [0, 0, 0, 13, 0, 0, 0, 1, 0, 0, 0, 5, 0, 0, 1, 164, 0, 0, 3, 232, 0, 0, 7, 208],
        pos := 0, err := false }
      { flags := 0, size := 0, uid := 0, gid := 0, permissions := 0, atime := 0, mtime := 0 }
      [] ⟨rfl, by decide⟩).2.1 (by decide)),
   (((C17_attrs_round_trip
      { flags := 13, size := 4294967301, uid := 0, gid := 0, permissions := 420,
        atime := 1000, mtime := 2000 }
      (by decide) (by decide) (by decide) (by decide) (by decide) (by decide) (by decide)).2
      (by decide)
      { data := [0, 0, 0, 13, 0, 0, 0, 1, 0, 0, 0, 5, 0, 0, 1, 164, 0, 0, 3, 232, 0, 0, 7, 208],
        pos := 0, err := false }
      { flags := 0, size := 0, uid := 0, gid := 0, permissions := 0, atime := 0, mtime := 0 }
      [] ⟨rfl, by decide⟩).2.2.2.2.2.1)⟩

/-! ## The upload queue -/

/-- A piece of list keeps its shape in a memory that agrees on its nodes. -/
theorem linked_congr (cells cells2 : Nat → Option req_cell) (l : List Nat) :
    ∀ (p n : Option Nat), (∀ a ∈ l, cells2 a = cells a) →
      linked cells p l n → linked cells2 p l n := by
  induction l with
  | nil => intro p n _ _; trivial
  | cons a rest ih =>
    intro p n hag h
    obtain ⟨⟨c, hc, hp, hn⟩, hrest⟩ := h
    refine ⟨⟨c, ?_, hp, hn⟩, ih _ _ (fun b hb => hag b (List.mem_cons_of_mem _ hb)) hrest⟩
    rw [hag a (List.mem_cons_self _ _)]
    exact hc

/-- The pointer before the second of two adjoining pieces. -/
theorem getLast_or_cons (a : Nat) (rest : List Nat) (p : Option Nat) :
    ((a :: rest).getLast?).or p = (rest.getLast?).or (some a) := by
  cases rest with
  | nil => rfl
  | cons b tl =>
    rw [List.getLast?_cons_cons]
    cases h : (b :: tl).getLast? with
    | none => simp at h
    | some v => rfl

/-- The pointer behind the first of two adjoining pieces. -/
theorem head_append_or (l1 l2 : List Nat) (n : Option Nat) :
    ((l1 ++ l2).head?).or n = (l1.head?).or ((l2.head?).or n) := by
  cases l1 with
  | nil => rfl
  | cons a tl => rfl

/-- Two pieces that adjoin make one, and one piece splits in two. -/
theorem linked_append (cells : Nat → Option req_cell) (l1 l2 : List Nat) :
    ∀ (p n : Option Nat), linked cells p (l1 ++ l2) n ↔
      linked cells p l1 ((l2.head?).or n) ∧ linked cells ((l1.getLast?).or p) l2 n := by
  induction l1 with
  | nil =>
    intro p n
    constructor
    · intro h; exact ⟨trivial, h⟩
    · intro h; exact h.2
  | cons a rest ih =>
    intro p n
    rw [getLast_or_cons]
    show ((∃ c, cells a = some c ∧ c.prev = p ∧ c.next = ((rest ++ l2).head?).or n) ∧
        linked cells (some a) (rest ++ l2) n) ↔
      ((∃ c, cells a = some c ∧ c.prev = p ∧ c.next = (rest.head?).or ((l2.head?).or n)) ∧
        linked cells (some a) rest ((l2.head?).or n)) ∧ _
    rw [ih (some a) n, head_append_or]
    constructor
    · rintro ⟨h1, h2, h3⟩; exact ⟨⟨h1, h2⟩, h3⟩
    · rintro ⟨⟨h1, h2⟩, h3⟩; exact ⟨h1, h2, h3⟩

/-- Every node of a piece of list is in memory. -/
theorem linked_mem (cells : Nat → Option req_cell) (l : List Nat) :
    ∀ (p n : Option Nat), linked cells p l n → ∀ a ∈ l, ∃ c, cells a = some c := by
  induction l with
  | nil => intro p n _ a ha; exact absurd ha (List.not_mem_nil _)
  | cons b rest ih =>
    intro p n h a ha
    obtain ⟨⟨c, hc, _, _⟩, hrest⟩ := h
    rcases List.mem_cons.mp ha with h1 | h1
    · exact ⟨c, by rw [h1]; exact hc⟩
    · exact ih _ _ hrest a h1

/-- Redirecting the `next` pointer of the last node of a piece. -/
theorem linked_set_next (cells cells2 : Nat → Option req_cell) (l : List Nat) (b : Nat)
    (cb : req_cell) (p n n2 : Option Nat) (h : linked cells p (l ++ [b]) n)
    (hb : cells b = some cb) (hag : ∀ a ∈ l, cells2 a = cells a)
    (hb2 : cells2 b = some { cb with next := n2 }) :
    linked cells2 p (l ++ [b]) n2 := by
  rw [linked_append] at h ⊢
  obtain ⟨h1, ⟨c, hc, hp, _⟩, _⟩ := h
  rw [hb] at hc
  have hcc : cb = c := Option.some.inj hc
  subst hcc
  exact ⟨linked_congr cells cells2 l _ _ hag h1, ⟨_, hb2, hp, rfl⟩, trivial⟩

/-- Redirecting the `prev` pointer of the first node of a piece. -/
theorem linked_set_prev (cells cells2 : Nat → Option req_cell) (l : List Nat) (b : Nat)
    (cb : req_cell) (p p2 n : Option Nat) (h : linked cells p (b :: l) n)
    (hb : cells b = some cb) (hag : ∀ a ∈ l, cells2 a = cells a)
    (hb2 : cells2 b = some { cb with prev := p2 }) :
    linked cells2 p2 (b :: l) n := by
  obtain ⟨⟨c, hc, _, hn⟩, hrest⟩ := h
  rw [hb] at hc
  have hcc : cb = c := Option.some.inj hc
  subst hcc
  exact ⟨⟨_, hb2, rfl, hn⟩, linked_congr cells cells2 l _ _ hag hrest⟩

/-- The alternative with NULL is the pointer itself. -/
theorem option_or_none (o : Option Nat) : o.or none = o := by
  cases o <;> rfl

/-- The last address of two adjoining pieces. -/
theorem getLast_append_or (l1 l2 : List Nat) :
    (l1 ++ l2).getLast? = (l2.getLast?).or l1.getLast? := by
  induction l1 with
  | nil => simp [option_or_none]
  | cons a rest ih =>
    have h := getLast_or_cons a (rest ++ l2) none
    rw [option_or_none] at h
    show (a :: (rest ++ l2)).getLast? = _
    rw [h, ih]
    have h2 := getLast_or_cons a rest none
    rw [option_or_none] at h2
    rw [h2]
    cases l2.getLast? <;> rfl

/-- The statement for the `prev` side, on a queue piece `l1` that ends before
the node `a`: the piece now ends at `next`. -/
theorem unlink_prev_spec (x : fxp_xfer_mem) (l1 : List Nat) (a : Nat) (next : Option Nat)
    (hl1 : linked x.cells none l1 (some a)) (hnd : l1.Nodup)
    (hhead : x.head = (l1.head?).or (some a)) :
    ∃ x1, unlink_prev x l1.getLast? next = some x1 ∧
      linked x1.cells none l1 next ∧ (∀ z, z ∉ l1 → x1.cells z = x.cells z) ∧
      (∀ z, (x1.cells z).map req_cell.fields = (x.cells z).map req_cell.fields) ∧
      x1.head = (l1.head?).or next ∧ x1.tail = x.tail ∧
      x1.req_totalsize = x.req_totalsize ∧ x1.offset = x.offset ∧ x1.eof = x.eof ∧
      x1.err = x.err ∧ x1.fh = x.fh := by
  rcases List.eq_nil_or_concat l1 with h | ⟨l, b, h⟩
  · subst h
    exact ⟨{ x with head := next }, rfl, trivial, fun _ _ => rfl, fun _ => rfl, rfl, rfl, rfl,
      rfl, rfl, rfl, rfl⟩
  · rw [List.concat_eq_append] at h
    subst h
    obtain ⟨cb, hcb⟩ := linked_mem x.cells _ _ _ hl1 b (by simp)
    have hlast : (l ++ [b]).getLast? = some b := by simp
    have hnb : ∀ z ∈ l, z ≠ b := by
      intro z hz hzb
      rw [List.nodup_append] at hnd
      exact hnd.2.2 hz (by rw [hzb]; simp)
    refine ⟨{ x with cells := fun z => if z = b then some { cb with next := next }
                                      else x.cells z }, ?_, ?_, ?_, ?_, ?_, rfl, rfl, rfl,
      rfl, rfl, rfl⟩
    · rw [hlast]
      simp only [unlink_prev, cell_write, hcb, Option.map_some']
    · apply linked_set_next x.cells _ l b cb none (some a) next hl1 hcb
      · intro z hz
        show (if z = b then _ else x.cells z) = x.cells z
        rw [if_neg (hnb z hz)]
      · show (if b = b then _ else x.cells b) = _
        rw [if_pos rfl]
    · intro z hz
      show (if z = b then _ else x.cells z) = x.cells z
      rw [if_neg (by intro hzb; apply hz; rw [hzb]; simp)]
    · intro z
      show (if z = b then _ else x.cells z).map req_cell.fields = _
      by_cases hzb : z = b
      · rw [if_pos hzb, hzb, hcb]
        rfl
      · rw [if_neg hzb]
    · show x.head = _
      rw [hhead]
      cases hh : (l ++ [b]).head? with
      | none => simp at hh
      | some v => rfl

/-- The statement for the `next` side, on a queue piece `l2` that starts
behind the node `a`: the piece now starts behind `prev`. -/
theorem unlink_next_spec (x : fxp_xfer_mem) (l2 : List Nat) (a : Nat) (prev : Option Nat)
    (hl2 : linked x.cells (some a) l2 none) (hnd : l2.Nodup)
    (htail : x.tail = (l2.getLast?).or (some a)) :
    ∃ x2, unlink_next x prev l2.head? = some x2 ∧
      linked x2.cells prev l2 none ∧ (∀ z, z ∉ l2 → x2.cells z = x.cells z) ∧
      (∀ z, (x2.cells z).map req_cell.fields = (x.cells z).map req_cell.fields) ∧
      x2.tail = (l2.getLast?).or prev ∧ x2.head = x.head ∧
      x2.req_totalsize = x.req_totalsize ∧ x2.offset = x.offset ∧ x2.eof = x.eof ∧
      x2.err = x.err ∧ x2.fh = x.fh := by
  cases l2 with
  | nil =>
    exact ⟨{ x with tail := prev }, rfl, trivial, fun _ _ => rfl, fun _ => rfl, rfl, rfl, rfl,
      rfl, rfl, rfl, rfl⟩
  | cons c l =>
    obtain ⟨cc, hcc⟩ := linked_mem x.cells _ _ _ hl2 c (by simp)
    have hnc : ∀ z ∈ l, z ≠ c := by
      intro z hz hzc
      rw [List.nodup_cons] at hnd
      exact hnd.1 (by rw [← hzc]; exact hz)
    refine ⟨{ x with cells := fun z => if z = c then some { cc with prev := prev }
                                      else x.cells z }, ?_, ?_, ?_, ?_, ?_, rfl, rfl, rfl,
      rfl, rfl, rfl⟩
    · simp only [List.head?_cons, unlink_next, cell_write, hcc, Option.map_some']
    · apply linked_set_prev x.cells _ l c cc (some a) prev none hl2 hcc
      · intro z hz
        show (if z = c then _ else x.cells z) = x.cells z
        rw [if_neg (hnc z hz)]
      · show (if c = c then _ else x.cells c) = _
        rw [if_pos rfl]
    · intro z hz
      show (if z = c then _ else x.cells z) = x.cells z
      rw [if_neg (by intro hzc; apply hz; rw [hzc]; simp)]
    · intro z
      show (if z = c then _ else x.cells z).map req_cell.fields = _
      by_cases hzc : z = c
      · rw [if_pos hzc, hzc, hcc]
        rfl
      · rw [if_neg hzc]
    · show x.tail = _
      rw [htail]
      cases hh : (c :: l).getLast? with
      | none => simp at hh
      | some v => rfl

/-- Unlinking the node at address `a` from the queue `l1 ++ a :: l2` leaves
the queue `l1 ++ l2`: head, tail and the links are those of the shorter queue,
the node is freed, every other node keeps its fields, and the length of the
node is taken off `req_totalsize`. -/
theorem xfer_upload_unlink_spec (x : fxp_xfer_mem) (l1 l2 : List Nat) (a : Nat) (rr : req_cell)
    (hq : is_queue x (l1 ++ a :: l2)) (hc : x.cells a = some rr) :
    ∃ x1, xfer_upload_unlink x a rr = some x1 ∧ is_queue x1 (l1 ++ l2) ∧
      x1.req_totalsize = x.req_totalsize - rr.len ∧ x1.cells a = none ∧
      (∀ b, b ≠ a → (x1.cells b).map req_cell.fields = (x.cells b).map req_cell.fields) ∧
      x1.offset = x.offset ∧ x1.eof = x.eof ∧ x1.err = x.err ∧ x1.fh = x.fh := by
  obtain ⟨hhead, htail, hnd, hl⟩ := hq
  rw [linked_append] at hl
  obtain ⟨hl1, ⟨c, hca, hprev, hnext⟩, hl2⟩ := hl
  rw [hc] at hca
  have hcc : rr = c := Option.some.inj hca
  subst hcc
  rw [option_or_none] at hprev hnext
  have hnd1 : l1.Nodup := (List.nodup_append.mp hnd).1
  have hnd2 : (a :: l2).Nodup := (List.nodup_append.mp hnd).2.1
  have hdis : ∀ z, z ∈ l1 → z ∉ a :: l2 := fun z hz hz2 => (List.nodup_append.mp hnd).2.2 hz hz2
  have hnd3 : l2.Nodup := (List.nodup_cons.mp hnd2).2
  have ha2 : a ∉ l2 := (List.nodup_cons.mp hnd2).1
  have ha1 : a ∉ l1 := fun h => hdis a h (List.mem_cons_self _ _)
  have hh : x.head = (l1.head?).or (some a) := by
    rw [hhead]
    have := head_append_or l1 (a :: l2) none
    rw [option_or_none] at this
    rw [this]
    rfl
  have ht : x.tail = (l2.getLast?).or (some a) := by
    rw [htail, getLast_append_or]
    have h2 := getLast_or_cons a l2 l1.getLast?
    rw [h2]
  obtain ⟨x1, e1, k1, ag1, f1, hd1, tl1, ts1, o1, eo1, er1, fh1⟩ :=
    unlink_prev_spec x l1 a rr.next hl1 hnd1 hh
  have hl2b : linked x1.cells (some a) l2 none :=
    linked_congr x.cells x1.cells l2 _ _
      (fun z hz => ag1 z (fun hz1 => hdis z hz1 (List.mem_cons_of_mem _ hz))) hl2
  obtain ⟨x2, e2, k2, ag2, f2, tl2, hd2, ts2, o2, eo2, er2, fh2⟩ :=
    unlink_next_spec x1 l2 a rr.prev hl2b hnd3 (by rw [tl1]; exact ht)
  have k1b : linked x2.cells none l1 rr.next :=
    linked_congr x1.cells x2.cells l1 _ _
      (fun z hz => ag2 z (fun hz2 => hdis z hz (List.mem_cons_of_mem _ hz2))) k1
  refine ⟨{ x2 with req_totalsize := x2.req_totalsize - rr.len,
                    cells := fun b => if b = a then none else x2.cells b }, ?_, ?_, ?_, ?_, ?_,
    ?_, ?_, ?_, ?_⟩
  · unfold xfer_upload_unlink
    rw [hprev, e1]
    simp only
    rw [← hprev, hnext, e2]
  · refine ⟨?_, ?_, ?_, ?_⟩
    · show x2.head = _
      rw [hd2, hd1, hnext]
      have := head_append_or l1 l2 none
      rw [option_or_none, option_or_none] at this
      rw [this]
    · show x2.tail = _
      rw [tl2, hprev, getLast_append_or]
    · rw [List.nodup_append]
      exact ⟨hnd1, hnd3, fun z hz hz2 => hdis z hz (List.mem_cons_of_mem _ hz2)⟩
    · rw [linked_append, option_or_none, option_or_none]
      constructor
      · apply linked_congr x2.cells _ l1 _ _ _ (by rw [← hnext]; exact k1b)
        intro z hz
        show (if z = a then none else x2.cells z) = x2.cells z
        rw [if_neg (fun h => ha1 (by rw [← h]; exact hz))]
      · apply linked_congr x2.cells _ l2 _ _ _ (by rw [← hprev]; exact k2)
        intro z hz
        show (if z = a then none else x2.cells z) = x2.cells z
        rw [if_neg (fun h => ha2 (by rw [← h]; exact hz))]
  · show x2.req_totalsize - rr.len = _
    rw [ts2, ts1]
  · show (if a = a then none else x2.cells a) = none
    rw [if_pos rfl]
  · intro b hb
    show (if b = a then none else x2.cells b).map req_cell.fields = _
    rw [if_neg hb, f2, f1]
  · show x2.offset = _
    rw [o2, o1]
  · show x2.eof = _
    rw [eo2, eo1]
  · show x2.err = _
    rw [er2, er1]
  · show x2.fh = _
    rw [fh2, fh1]
/-- `sftp_find_request` returns NULL and records an internal error for a
response whose id is truncated, unknown or that of an unregistered request. -/
theorem sftp_find_request_null (g : sftp_globals) (t : tree234) (pkt : sftp_packet)
    (ht : g.sftp_requests = some t) (hs : t.Pairwise (fun a b => a.id < b.id))
    (h : (pkt.src.err = true ∨ pkt.src.data.length - pkt.src.pos < 4) ∨
      (∀ r ∈ t, r.id ≠ GET_32BIT (pkt.src.data.drop pkt.src.pos)) ∨
      (∃ r ∈ t, r.id = GET_32BIT (pkt.src.data.drop pkt.src.pos) ∧ r.registered = 0)) :
    ∃ (p : Option sftp_packet) (msg : String),
      sftp_find_request g (some pkt) = some (none, p, fxp_internal_error g msg) := by
  by_cases hbad : pkt.src.err = true ∨ pkt.src.data.length - pkt.src.pos < 4
  · have herr := get_uint32_err pkt.src hbad
    refine ⟨some { pkt with src := (get_uint32 pkt.src).2 },
      "did not receive a valid SFTP packet\n", ?_⟩
    simp only [sftp_find_request, get_err, herr]
    simp only [if_true]
  · have he : pkt.src.err = false := by
      cases hh : pkt.src.err with
      | false => rfl
      | true => exact absurd (Or.inl hh) hbad
    have hl : 4 ≤ pkt.src.data.length - pkt.src.pos := by
      by_contra hcon
      exact hbad (Or.inr (by omega))
    rcases h with h | h | ⟨r, hr, hid, hreg⟩
    · exact absurd h hbad
    · have hfind := find234_none t _ h
      refine ⟨some { pkt with src := { pkt.src with pos := pkt.src.pos + 4 } },
        "request ID mismatch\n", ?_⟩
      simp only [sftp_find_request, get_uint32_ok pkt.src he hl, get_err, ht, hfind]
      simp only [he, Bool.false_eq_true, if_false]
    · have hfind : find234 t (GET_32BIT (pkt.src.data.drop pkt.src.pos)) = some r := by
        rw [← hid]; exact find234_of_mem t hs r hr
      refine ⟨some { pkt with src := { pkt.src with pos := pkt.src.pos + 4 } },
        "request ID mismatch\n", ?_⟩
      simp only [sftp_find_request, get_uint32_ok pkt.src he hl, get_err, ht, hfind, hreg]
      simp only [he, Bool.false_eq_true, if_false, if_true]

/-- The value `xfer_upload_gotpkt` makes of the value of `fxp_write_recv`. -/
theorem upload_result_value (g : sftp_globals) (p : sftp_packet) :
    (if (fxp_write_recv g p).1 = 0 then (-1 : Int) else 1) =
      (if (fxp_got_status g p).1 = 1 then 1 else -1) ∧
    (fxp_write_recv g p).2 = (fxp_got_status g p).2 := by
  refine ⟨?_, rfl⟩
  unfold fxp_write_recv
  have hv : (fxp_got_status g p).1 =
      if (fxp_got_status g p).2.fxp_errtype = SSH_FX_OK then 1
      else if (fxp_got_status g p).2.fxp_errtype = SSH_FX_EOF then 0 else -1 := rfl
  rw [hv]
  simp only
  by_cases h0 : (fxp_got_status g p).2.fxp_errtype = SSH_FX_OK
  · simp [h0]
  · by_cases h1 : (fxp_got_status g p).2.fxp_errtype = SSH_FX_EOF
    · simp [h0, h1]
    · simp [h0, h1]

/-- A queue without the node at `addr`, when that node is in it. -/
theorem erase_split (l : List Nat) (addr : Nat) (hn : l.Nodup) (hm : addr ∈ l) :
    ∃ l1 l2, l = l1 ++ addr :: l2 ∧ l.erase addr = l1 ++ l2 := by
  obtain ⟨l1, l2, h⟩ := List.append_of_mem hm
  refine ⟨l1, l2, h, ?_⟩
  subst h
  have hnot : addr ∉ l1 := by
    intro h1
    exact (List.nodup_append.mp hn).2.2 h1 (List.mem_cons_self _ _)
  rw [List.erase_append_right _ hnot, List.erase_cons_head]

/-- C16 (`xfer_upload_gotpkt`). With an existing registry and a well-formed
queue `l` of node addresses: (1) for a response whose id is that of a
registered request attached to the node at `addr` of the queue, the call
returns, exactly that node is unlinked and freed, the queue is `l` without
`addr` with the other nodes in their order, `head`, `tail` and the `next` and
`prev` links again form a well-formed queue, every other node keeps its
fields, `req_totalsize` goes down by the `len` of the node, and the result is
+1 for a status `SSH_FX_OK` and -1 for every other status or packet type;
(2) for a response with a truncated, unknown or unregistered id, and (3) for
one whose request has no userdata, the result is `INT_MIN` and the transfer,
queue and `req_totalsize` included, is as it was. -/
theorem C16_upload_gotpkt (g : sftp_globals) (t : tree234) (x : fxp_xfer_mem)
    (pkt : sftp_packet) (l : List Nat) (ht : g.sftp_requests = some t)
    (hs : t.Pairwise (fun a b => a.id < b.id)) (hq : is_queue x l) :
    (∀ (req : sftp_request) (addr : Nat) (rr : req_cell), req ∈ t → pkt.src.err = false →
      4 ≤ pkt.src.data.length - pkt.src.pos →
      req.id = GET_32BIT (pkt.src.data.drop pkt.src.pos) → req.registered ≠ 0 →
      req.userdata = some addr → addr ∈ l → x.cells addr = some rr →
      ∃ (ret : Int) (g1 : sftp_globals) (x1 : fxp_xfer_mem),
        xfer_upload_gotpkt g x pkt = some (ret, g1, x1) ∧
        (∀ (c : Nat) (rest : List Nat), pkt.type = SSH_FXP_STATUS →
          reads (after_id pkt).src (PUT_32BIT c ++ rest) → c < 4294967296 →
          ret = if c = 0 then 1 else -1) ∧
        (pkt.type ≠ SSH_FXP_STATUS → ret = -1) ∧
        g1.sftp_requests = some (t.erase req) ∧
        is_queue x1 (l.erase addr) ∧ (l.erase addr).Sublist l ∧
        (∀ b, b ∈ l.erase addr ↔ b ∈ l ∧ b ≠ addr) ∧
        x1.cells addr = none ∧
        (∀ b, b ≠ addr → (x1.cells b).map req_cell.fields = (x.cells b).map req_cell.fields) ∧
        x1.req_totalsize = x.req_totalsize - rr.len) ∧
    ((pkt.src.err = true ∨ pkt.src.data.length - pkt.src.pos < 4) ∨
        (∀ r ∈ t, r.id ≠ GET_32BIT (pkt.src.data.drop pkt.src.pos)) ∨
        (∃ r ∈ t, r.id = GET_32BIT (pkt.src.data.drop pkt.src.pos) ∧ r.registered = 0) →
      ∃ g1 : sftp_globals, xfer_upload_gotpkt g x pkt = some (INT_MIN, g1, x)) ∧
    (∀ req : sftp_request, req ∈ t → pkt.src.err = false →
      4 ≤ pkt.src.data.length - pkt.src.pos →
      req.id = GET_32BIT (pkt.src.data.drop pkt.src.pos) → req.registered ≠ 0 →
      req.userdata = none →
      ∃ g1 : sftp_globals, xfer_upload_gotpkt g x pkt = some (INT_MIN, g1, x)) := by
  refine ⟨?_, ?_, ?_⟩
  · intro req addr rr hreq he hl hid hreg hud hmem hcell
    have hfound := sftp_find_request_found g t pkt ht hs req hreq he hl hid hreg
    obtain ⟨l1, l2, hsplit, herase⟩ := erase_split l addr hq.2.2.1 hmem
    have hq2 : is_queue x (l1 ++ addr :: l2) := by rw [← hsplit]; exact hq
    obtain ⟨x1, hun, hq1, hts, hfree, hfields, _⟩ :=
      xfer_upload_unlink_spec x l1 l2 addr rr hq2 hcell
    have hval := upload_result_value { g with sftp_requests := some (t.erase req) } (after_id pkt)
    refine ⟨if (fxp_write_recv { g with sftp_requests := some (t.erase req) }
          (after_id pkt)).1 = 0 then -1 else 1,
      (fxp_write_recv { g with sftp_requests := some (t.erase req) } (after_id pkt)).2, x1,
      ?_, ?_, ?_, ?_, ?_, ?_, ?_, hfree, hfields, hts⟩
    · unfold xfer_upload_gotpkt
      rw [hfound]
      simp only [fxp_get_userdata, hud, hcell, hun]
      rfl
    · intro c rest hty hr hc
      rw [hval.1, fxp_got_status_code _ (after_id pkt) c rest hty hr hc]
      by_cases h0 : c = 0
      · simp [h0]
      · by_cases h1 : c = 1
        · simp [h1]
        · simp [h0, h1]
    · intro hty
      rw [hval.1, (fxp_got_status_bad _ (after_id pkt) (Or.inl hty)).1]
      decide
    · rw [hval.2]
      exact (fxp_got_status_frame _ _).1
    · rw [herase]; exact hq1
    · exact List.erase_sublist _ _
    · intro b
      rw [hq.2.2.1.mem_erase_iff]
      exact ⟨fun h => ⟨h.2, h.1⟩, fun h => ⟨h.2, h.1⟩⟩
  · intro h
    obtain ⟨p, msg, hnull⟩ := sftp_find_request_null g t pkt ht hs h
    refine ⟨fxp_internal_error g msg, ?_⟩
    unfold xfer_upload_gotpkt
    rw [hnull]
  · intro req hreq he hl hid hreg hud
    have hfound := sftp_find_request_found g t pkt ht hs req hreq he hl hid hreg
    refine ⟨fxp_internal_error { g with sftp_requests := some (t.erase req) }
      "request ID is not part of the current upload", ?_⟩
    unfold xfer_upload_gotpkt
    rw [hfound]
    simp only [fxp_get_userdata, hud]

/-- `xfer_upload_init` starts with the empty queue. -/
theorem xfer_upload_init_queue (fh : List Nat) (offset : Nat) :
    is_queue (xfer_upload_init fh offset) [] :=
  ⟨rfl, rfl, List.nodup_nil, trivial⟩

/-- `xfer_upload_data` puts the new node, at the fresh address `heap_next`,
behind the tail of a well-formed queue, and the queue stays well-formed;
`req_totalsize` goes up by the length of the buffer. -/
theorem xfer_upload_data_queue (g : sftp_globals) (x : fxp_xfer_mem) (buffer : List Nat)
    (l : List Nat) (hq : is_queue x l) (hfresh : g.heap_next ∉ l)
    (hal : (sftp_alloc_request { g with heap_next := g.heap_next + 1 }).isSome = true) :
    ∃ (g1 : sftp_globals) (x1 : fxp_xfer_mem),
      xfer_upload_data g x buffer = some (g1, x1) ∧ is_queue x1 (l ++ [g.heap_next]) ∧
      x1.req_totalsize = x.req_totalsize + (buffer.length : Int) ∧
      g1.heap_next = g.heap_next + 1 := by
  obtain ⟨⟨req, ga⟩, ha⟩ := Option.isSome_iff_exists.mp hal
  have hws := fxp_write_send_eq { g with heap_next := g.heap_next + 1 } ga req x.fh buffer
    x.offset ha
  have hga : ga.heap_next = g.heap_next + 1 := by
    unfold sftp_alloc_request at ha
    simp only at ha
    split at ha
    · exact absurd ha (by simp)
    · split_ifs at ha
      simp only [Option.some.injEq, Prod.mk.injEq] at ha
      rw [← ha.2]
  obtain ⟨hhead, htail, hnd, hl⟩ := hq
  have hnd2 : (l ++ [g.heap_next]).Nodup := by
    rw [List.nodup_append]
    refine ⟨hnd, List.nodup_singleton _, ?_⟩
    intro z hz hz2
    rw [List.mem_singleton] at hz2
    exact hfresh (hz2 ▸ hz)
  rcases List.eq_nil_or_concat l with h | ⟨l0, b, h⟩
  · subst h
    have ht : x.tail = none := htail
    simp only [xfer_upload_data, ht, hws]
    refine ⟨_, _, rfl, ?_, ?_, ?_⟩
    · refine ⟨rfl, rfl, hnd2, ?_⟩
      refine ⟨⟨(req_cell.mk none x.tail none (buffer.length : Int) 0 0 x.offset), ?_, ?_, rfl⟩, trivial⟩
      · show (if g.heap_next = g.heap_next then _ else _) = _
        rw [if_pos rfl, ht]
      · exact ht
    · rfl
    · show (fxp_set_userdata (sftp_register (sftp_send ga _) req.id) req.id _).heap_next = _
      exact hga
  · rw [List.concat_eq_append] at h
    subst h
    have ht : x.tail = some b := by rw [htail]; simp
    obtain ⟨cb, hcb⟩ := linked_mem x.cells _ _ _ hl b (by simp)
    have hbne : b ≠ g.heap_next := by
      intro hb
      exact hfresh (by rw [← hb]; simp)
    have hl0 : ∀ z ∈ l0, z ≠ b := by
      intro z hz hzb
      exact (List.nodup_append.mp hnd).2.2 hz (by rw [hzb]; simp)
    simp only [xfer_upload_data, ht, cell_write, hcb, Option.map_some', hws]
    refine ⟨_, _, rfl, ?_, ?_, ?_⟩
    · refine ⟨?_, ?_, hnd2, ?_⟩
      · show x.head = _
        rw [hhead]
        cases hh : (l0 ++ [b]).head? with
        | none => simp at hh
        | some v =>
          have := head_append_or (l0 ++ [b]) [g.heap_next] none
          rw [option_or_none, hh] at this
          rw [this]
          rfl
      · show some g.heap_next = _
        rw [getLast_append_or]
        rfl
      · rw [linked_append]
        constructor
        · apply linked_set_next x.cells _ l0 b cb none none (some g.heap_next) hl hcb
          · intro z hz
            show (if z = g.heap_next then _ else if z = b then _ else x.cells z) = x.cells z
            have hz1 : z ≠ g.heap_next := by
              intro hzz
              exact hfresh (by rw [← hzz]; simp [hz])
            rw [if_neg hz1, if_neg (hl0 z hz)]
          · show (if b = g.heap_next then _ else if b = b then _ else x.cells b) = _
            rw [if_neg hbne, if_pos rfl]
        · refine ⟨⟨(req_cell.mk none x.tail none (buffer.length : Int) 0 0 x.offset), ?_, ?_, rfl⟩, trivial⟩
          · show (if g.heap_next = g.heap_next then _ else _) = _
            rw [if_pos rfl, ht]
          · show x.tail = _
            rw [ht]
            simp
    · rfl
    · show (fxp_set_userdata (sftp_register (sftp_send ga _) req.id) req.id _).heap_next = _
      exact hga

/-- The example upload has queued its three nodes at the addresses 1, 2, 3. -/
theorem upload_example_queue : is_queue upload_example_xfer [1, 2, 3] := by
  refine ⟨by decide, by decide, by decide, ?_⟩
  refine ⟨⟨{ next := some 2, prev := none, buffer := none, len := 2, retlen := 0,
             complete := 0, offset := 0 }, by decide, rfl, rfl⟩, ?_⟩
  refine ⟨⟨{ next := some 3, prev := some 1, buffer := none, len := 3, retlen := 0,
             complete := 0, offset := 2 }, by decide, rfl, rfl⟩, ?_⟩
  exact ⟨⟨{ next := none, prev := some 2, buffer := none, len := 1, retlen := 0,
            complete := 0, offset := 5 }, by decide, rfl, rfl⟩, trivial⟩

/-- C16 at an upload of three writes of 2, 3 and 1 bytes (nodes 1, 2, 3 for
the requests 256, 257, 258), when the response `SSH_FX_OK` to the middle
request 257 arrives first: the result is 1, the interior node 2 is unlinked,
the queue is made of the nodes 1 and 3 and `req_totalsize` goes from 6 to 3. -/
theorem C16_upload_gotpkt_witness :
    ∃ (ret : Int) (g1 : sftp_globals) (x1 : fxp_xfer_mem),
      xfer_upload_gotpkt upload_example_globals upload_example_xfer (status_packet 257 0) =
        some (ret, g1, x1) ∧
      ret = 1 ∧ is_queue x1 [1, 3] ∧ x1.cells 2 = none ∧ x1.req_totalsize = 6 - 3 := by
  obtain ⟨ret, g1, x1, h1, h2, _, _, h5, _, _, h8, _, h10⟩ :=
    (C16_upload_gotpkt upload_example_globals
      [{ id := 256, registered := 1, userdata := some 1 },
       { id := 257, registered := 1, userdata := some 2 },
       { id := 258, registered := 1, userdata := some 3 }]
      upload_example_xfer (status_packet 257 0) [1, 2, 3] (by decide) (by decide)
      upload_example_queue).1
      { id := 257, registered := 1, userdata := some 2 } 2
      { next := some 3, prev := some 1, buffer := none, len := 3, retlen := 0,
        complete := 0, offset := 2 }
      (by decide) rfl (by decide) (by decide) (by decide) rfl (by decide) (by decide)
  refine ⟨ret, g1, x1, h1, ?_, h5, h8, ?_⟩
  · exact h2 0 [] rfl ⟨rfl, by decide⟩ (by decide)
  · rw [h10]
    have : upload_example_xfer.req_totalsize = 6 := by decide
    rw [this]

/-! ## Waiting for new keys -/

/-- Decryption leaves the input queue. -/
theorem in_decrypt_in_pq (s : ssh2_bpp_state) (data : List Nat) (lo n : Nat) :
    (in_decrypt s data lo n).1.in_pq = s.in_pq := by
  unfold in_decrypt
  cases s.inp.cipher <;> rfl

/-- Decompression leaves the input queue. -/
theorem in_decompress_in_pq (s : ssh2_bpp_state) (data : List Nat) (length : Int) :
    (in_decompress s data length).1.in_pq = s.in_pq := by
  unfold in_decompress
  cases s.in_decomp with
  | none => rfl
  | some dc =>
    simp only
    split <;> rfl

/-- The end of the loop body: the packet is consumed as unimplemented, or
pushed; after an `SSH2_MSG_NEWKEYS` the coroutine returns. -/
theorem queue_step_push (s : ssh2_bpp_state) (b : Bool) (P : PktIn) (A B C : ssh2_bpp_state)
    (hA : A.in_pq = s.in_pq)
    (hB : B.in_pq = s.in_pq ++ [P] ∧ B.pending_newkeys = true ∧ B.crState = cr_label.newkeys)
    (hC : C.in_pq = s.in_pq ++ [P]) :
    queue_step s (if b = true then step_result.next A
      else if P.type = SSH2_MSG_NEWKEYS then step_result.yield B else step_result.next C) := by
  by_cases hb : b = true
  · rw [if_pos hb]
    exact Or.inl hA
  · rw [if_neg hb]
    by_cases hn : P.type = SSH2_MSG_NEWKEYS
    · rw [if_pos hn]
      exact Or.inr ⟨⟨P, hB.1, hn⟩, hB.2⟩
    · rw [if_neg hn]
      exact Or.inr ⟨P, hC, hn⟩

/-- The common tail pushes at most one packet, and returns after pushing an
`SSH2_MSG_NEWKEYS`. -/
theorem input_tail_queue (unimpl : PktIn → Bool) (s : ssh2_bpp_state) :
    queue_step s (input_tail unimpl s) := by
  unfold input_tail
  simp only
  by_cases hbad : ((s.data.getD 4 0 : Nat) : Int) < 4 ∨ s.len - ((s.data.getD 4 0 : Nat) : Int) < 1
  · rw [if_pos hbad]
    exact rfl
  · rw [if_neg hbad]
    apply queue_step_push
    · show (in_decompress _ _ _).1.in_pq = _
      rw [in_decompress_in_pq]
    · refine ⟨?_, rfl, rfl⟩
      show (in_decompress _ _ _).1.in_pq ++ _ = _
      rw [in_decompress_in_pq]
    · show (in_decompress _ _ _).1.in_pq ++ _ = _
      rw [in_decompress_in_pq]

/-- `BPP_READ` leaves the input queue when its continuation does. -/
theorem BPP_READ_queue (s : ssh2_bpp_state) (n : Nat)
    (k : List Nat → ssh2_bpp_state → step_result)
    (hk : queue_step s (k (s.in_raw.take n) { s with in_raw := s.in_raw.drop n })) :
    queue_step s (BPP_READ s n k) := by
  unfold BPP_READ
  split_ifs
  · unfold input_eof_signal
    split_ifs <;> exact rfl
  · exact hk
  · exact Or.inl rfl

/-- Every stretch of the input coroutine pushes at most one packet; only the
push of an `SSH2_MSG_NEWKEYS` is followed by a return, with `pending_newkeys`
set. -/
theorem handle_input_step_queue (unimpl : PktIn → Bool) (s : ssh2_bpp_state) :
    queue_step s (ssh2_bpp_handle_input_step unimpl s) := by
  unfold ssh2_bpp_handle_input_step
  cases hc : s.crState with
  | top => exact Or.inl rfl
  | a_mac =>
    simp only
    apply BPP_READ_queue
    exact Or.inl rfl
  | a_block =>
    simp only
    apply BPP_READ_queue
    simp only
    cases s.inp.cipher with
    | none => trivial
    | some c =>
      cases s.inp.mac with
      | none => trivial
      | some m =>
        simp only
        split_ifs <;> first | exact Or.inl rfl | exact (rfl : _ = s.in_pq)
  | b_len =>
    simp only
    apply BPP_READ_queue
    simp only
    cases s.inp.cipher with
    | none =>
      simp only
      split_ifs <;> first | exact Or.inl rfl | exact (rfl : _ = s.in_pq)
    | some c =>
      simp only
      split_ifs <;> first | exact Or.inl rfl | exact (rfl : _ = s.in_pq)
  | b_rest =>
    simp only
    apply BPP_READ_queue
    simp only
    split_ifs
    · exact rfl
    · exact Or.inl (in_decrypt_in_pq _ _ _ _)
  | c_first =>
    simp only
    apply BPP_READ_queue
    simp only
    split_ifs
    · exact in_decrypt_in_pq _ _ _ _
    · exact Or.inl (in_decrypt_in_pq _ _ _ _)
  | c_rest =>
    simp only
    apply BPP_READ_queue
    simp only
    split_ifs
    · exact in_decrypt_in_pq _ _ _ _
    · exact Or.inl (in_decrypt_in_pq _ _ _ _)
  | tail => exact input_tail_queue unimpl s
  | newkeys =>
    simp only
    split_ifs
    · exact Or.inl rfl
    · exact Or.inl rfl
/-- A run of the input coroutine adds packets to the input queue, and an
`SSH2_MSG_NEWKEYS` among them is the last one: the run has returned behind
it with `pending_newkeys` set, waiting for the new keys. -/
theorem handle_input_run_queue (unimpl : PktIn → Bool) :
    ∀ (fuel : Nat) (s s1 : ssh2_bpp_state) (sig : Option bpp_signal),
      ssh2_bpp_handle_input_run unimpl fuel s = some (s1, sig) →
      ∃ l : List PktIn, s1.in_pq = s.in_pq ++ l ∧
        ∀ p ∈ l, p.type = SSH2_MSG_NEWKEYS →
          l.getLast? = some p ∧ s1.pending_newkeys = true ∧
          s1.crState = cr_label.newkeys ∧ sig = none := by
  intro fuel
  induction fuel with
  | zero =>
    intro s s1 sig h
    simp [ssh2_bpp_handle_input_run] at h
  | succ fuel ih =>
    intro s s1 sig h
    have hq := handle_input_step_queue unimpl s
    cases hstep : ssh2_bpp_handle_input_step unimpl s with
    | next S =>
      rw [hstep] at hq
      rw [handle_input_run_next unimpl fuel s S hstep] at h
      obtain ⟨l, hl, hnk⟩ := ih S s1 sig h
      rcases hq with hq | ⟨p, hp, hne⟩
      · exact ⟨l, by rw [hl, hq], hnk⟩
      · refine ⟨p :: l, by rw [hl, hp, List.append_assoc]; rfl, ?_⟩
        intro q hqm hqt
        rcases List.mem_cons.mp hqm with h1 | h1
        · rw [h1] at hqt
          exact absurd hqt hne
        · obtain ⟨h2, h3⟩ := hnk q h1 hqt
          refine ⟨?_, h3⟩
          cases l with
          | nil => exact absurd h1 (List.not_mem_nil _)
          | cons a tl =>
            rw [List.getLast?_cons_cons]
            exact h2
    | yield S =>
      rw [hstep] at hq
      rw [handle_input_run_yield unimpl fuel s S hstep] at h
      simp only [Option.some.injEq, Prod.mk.injEq] at h
      obtain ⟨h1, h2⟩ := h
      subst h1
      rcases hq with hq | ⟨⟨p, hp, hpt⟩, hpend, hcr⟩
      · exact ⟨[], by rw [hq, List.append_nil], fun q hqm => absurd hqm (List.not_mem_nil _)⟩
      · refine ⟨[p], hp, ?_⟩
        intro q hqm _
        rw [List.mem_singleton] at hqm
        subst hqm
        exact ⟨rfl, hpend, hcr, h2.symm⟩
    | signal S sg =>
      rw [hstep] at hq
      rw [handle_input_run_signal unimpl fuel s S sg hstep] at h
      simp only [Option.some.injEq, Prod.mk.injEq] at h
      obtain ⟨h1, _⟩ := h
      subst h1
      have hq2 : S.in_pq = s.in_pq := hq
      exact ⟨[], by rw [hq2, List.append_nil], fun q hqm => absurd hqm (List.not_mem_nil _)⟩
    | crash =>
      simp [ssh2_bpp_handle_input_run, hstep] at h

/-- C11 (waiting for new keys). (1) Whenever a call of
`ssh2_bpp_handle_input` has pushed a `PktIn` of type `SSH2_MSG_NEWKEYS`, that
packet is the last one the call pushed and the call has returned with
`pending_newkeys` true, waiting at its resume point for the new keys. (2) In
that state, for as long as `pending_newkeys` stays true, a call of
`ssh2_bpp_handle_input` returns at once and changes nothing: no byte of
`in_raw` is consumed and no `PktIn` is pushed, whatever `in_raw` holds. (3)
`ssh2_bpp_new_incoming_crypto` sets `pending_newkeys` to false and installs
the cipher, MAC, mode and decompressor it is given, leaving `in_raw`, the
queue and the sequence number; the next call then goes on at the top of the
loop, where the block size, the MAC length and the path are taken from the
handles just installed. -/
theorem C11_pending_newkeys (unimpl : PktIn → Bool) :
    (∀ (s s1 : ssh2_bpp_state) (sig : Option bpp_signal),
      ssh2_bpp_handle_input unimpl s = some (s1, sig) →
      ∃ l : List PktIn, s1.in_pq = s.in_pq ++ l ∧
        ∀ p ∈ l, p.type = SSH2_MSG_NEWKEYS →
          l.getLast? = some p ∧ s1.pending_newkeys = true ∧
          s1.crState = cr_label.newkeys ∧ sig = none) ∧
    (∀ s : ssh2_bpp_state, s.crState = cr_label.newkeys → s.pending_newkeys = true →
      ssh2_bpp_handle_input unimpl s = some (s, none)) ∧
    (∀ (s : ssh2_bpp_state) (cipher : Option ssh2_cipher) (mac : Option ssh2_mac)
        (etm_mode : Bool) (decomp : Option ssh_decompressor),
      (ssh2_bpp_new_incoming_crypto s cipher mac etm_mode decomp).pending_newkeys = false ∧
      (ssh2_bpp_new_incoming_crypto s cipher mac etm_mode decomp).inp.cipher = cipher ∧
      (ssh2_bpp_new_incoming_crypto s cipher mac etm_mode decomp).inp.mac = mac ∧
      (ssh2_bpp_new_incoming_crypto s cipher mac etm_mode decomp).inp.etm_mode = etm_mode ∧
      (ssh2_bpp_new_incoming_crypto s cipher mac etm_mode decomp).in_decomp = decomp ∧
      (ssh2_bpp_new_incoming_crypto s cipher mac etm_mode decomp).in_raw = s.in_raw ∧
      (ssh2_bpp_new_incoming_crypto s cipher mac etm_mode decomp).in_pq = s.in_pq ∧
      (ssh2_bpp_new_incoming_crypto s cipher mac etm_mode decomp).inp.sequence =
        s.inp.sequence ∧
      (s.crState = cr_label.newkeys → ∀ fuel : Nat,
        ssh2_bpp_handle_input_run unimpl (fuel + 2)
            (ssh2_bpp_new_incoming_crypto s cipher mac etm_mode decomp) =
          ssh2_bpp_handle_input_run unimpl fuel
            (input_path
              { ssh2_bpp_new_incoming_crypto s cipher mac etm_mode decomp with
                crState := cr_label.top }
              (input_select
                { ssh2_bpp_new_incoming_crypto s cipher mac etm_mode decomp with
                  crState := cr_label.top })))) := by
  refine ⟨?_, ?_, ?_⟩
  · intro s s1 sig h
    exact handle_input_run_queue unimpl _ s s1 sig h
  · intro s hc hp
    have hstep : ssh2_bpp_handle_input_step unimpl s = step_result.yield s := by
      unfold ssh2_bpp_handle_input_step
      rw [hc]
      simp only [hp, if_true]
    unfold ssh2_bpp_handle_input
    have hfuel : 2 * s.in_raw.length + 4 = (2 * s.in_raw.length + 3) + 1 := by omega
    rw [hfuel, handle_input_run_yield unimpl _ s s hstep]
  · intro s cipher mac etm_mode decomp
    refine ⟨rfl, rfl, rfl, rfl, rfl, rfl, rfl, rfl, ?_⟩
    intro hc fuel
    have h1 : ssh2_bpp_handle_input_step unimpl
        (ssh2_bpp_new_incoming_crypto s cipher mac etm_mode decomp) =
        step_result.next { ssh2_bpp_new_incoming_crypto s cipher mac etm_mode decomp with
          crState := cr_label.top } := by
      unfold ssh2_bpp_handle_input_step
      have hc2 : (ssh2_bpp_new_incoming_crypto s cipher mac etm_mode decomp).crState =
          cr_label.newkeys := hc
      rw [hc2]
      have hp : (ssh2_bpp_new_incoming_crypto s cipher mac etm_mode decomp).pending_newkeys =
          false := rfl
      simp only [hp, Bool.false_eq_true, if_false]
    have h2 : ssh2_bpp_handle_input_step unimpl
        { ssh2_bpp_new_incoming_crypto s cipher mac etm_mode decomp with
          crState := cr_label.top } =
        step_result.next (input_path
          { ssh2_bpp_new_incoming_crypto s cipher mac etm_mode decomp with
            crState := cr_label.top }
          (input_select
            { ssh2_bpp_new_incoming_crypto s cipher mac etm_mode decomp with
              crState := cr_label.top })) := rfl
    rw [handle_input_run_next unimpl (fuel + 1) _ _ h1, handle_input_run_next unimpl fuel _ _ h2]

set_option maxRecDepth 100000 in
/-- The first call on the example returns in `newkeys_example_waiting`. -/
theorem newkeys_example_first_call :
    ssh2_bpp_handle_input (fun _ => false) newkeys_example_state =
      some (newkeys_example_waiting, none) := by
  have h : (ssh2_bpp_handle_input (fun _ => false) newkeys_example_state).isSome = true := by
    decide
  obtain ⟨r, hr⟩ := Option.isSome_iff_exists.mp h
  have hsig : (ssh2_bpp_handle_input (fun _ => false) newkeys_example_state).map
      (fun x => x.2) = some none := by decide
  have hw : newkeys_example_waiting = r.1 := by
    unfold newkeys_example_waiting
    rw [hr]
    rfl
  rw [hr] at hsig
  simp only [Option.map_some', Option.some.injEq] at hsig
  rw [hr, hw]
  exact congrArg some (Prod.ext rfl hsig)

set_option maxRecDepth 100000 in
/-- C11 at an engine that has received a NEWKEYS frame and, behind it, a frame
under the new keys. The first call pushes the NEWKEYS packet and returns with
`pending_newkeys` set, the 35 bytes behind it still in `in_raw`; a second call
changes nothing; after `ssh2_bpp_new_incoming_crypto` the next call decrypts
the frame with the new cipher and MAC and pushes its packet of type 94. -/
theorem C11_pending_newkeys_witness :
    (newkeys_example_waiting.in_pq = [{ type := 21, sequence := 5, payload := [] }] ∧
      newkeys_example_waiting.pending_newkeys = true ∧
      newkeys_example_waiting.in_raw.length = 35) ∧
    ssh2_bpp_handle_input (fun _ => false) newkeys_example_waiting =
      some (newkeys_example_waiting, none) ∧
    (ssh2_bpp_new_incoming_crypto newkeys_example_waiting (some (cipher_example 16 0))
      (some (mac_example 3)) false none).pending_newkeys = false ∧
    (ssh2_bpp_handle_input (fun _ => false)
      (ssh2_bpp_new_incoming_crypto newkeys_example_waiting (some (cipher_example 16 0))
        (some (mac_example 3)) false none)).map (fun x => (x.1.in_pq, x.1.in_raw, x.2)) =
      some ([{ type := 21, sequence := 5, payload := [] },
             { type := 94, sequence := 6, payload := [0, 0, 0, 4, 116, 101, 115, 116] }],
            [], none) := by
  have hq : newkeys_example_waiting.in_pq = [{ type := 21, sequence := 5, payload := [] }] := by
    decide
  obtain ⟨l, hl, hnk⟩ := (C11_pending_newkeys (fun _ => false)).1 newkeys_example_state
    newkeys_example_waiting none newkeys_example_first_call
  have hl2 : l = [{ type := 21, sequence := 5, payload := [] }] := by
    rw [hq] at hl
    exact (List.nil_append l ▸ hl).symm
  obtain ⟨_, hpend, hcr, _⟩ := hnk { type := 21, sequence := 5, payload := [] }
    (by rw [hl2]; exact List.mem_singleton.mpr rfl) rfl
  refine ⟨⟨hq, hpend, by decide⟩, ?_, ?_, by decide⟩
  · exact (C11_pending_newkeys (fun _ => false)).2.1 newkeys_example_waiting hcr hpend
  · exact ((C11_pending_newkeys (fun _ => false)).2.2 newkeys_example_waiting
      (some (cipher_example 16 0)) (some (mac_example 3)) false none).1

/-! ## The plaintext echo scenario -/

/-- The frame of the echo packet on a fresh engine: length field 20, padding
length 10, the type byte, the payload and ten random bytes. -/
theorem echo_frame (stats : DataTransferStats) (random : Nat → Nat) :
    (ssh2_bpp_format_packet_inner (ssh2_bpp_new stats random) example_pkt).map
        (fun r => r.2.data) =
      some ([0, 0, 0, 20, 10, 94, 0, 0, 0, 4, 116, 101, 115, 116] ++
        (List.range 10).map (fun i => random i % 256)) := by
  have hdata : example_pkt.data = [0, 0, 0, 0, 0, 94, 0, 0, 0, 4, 116, 101, 115, 116] := by
    decide
  simp only [ssh2_bpp_format_packet_inner, format_compress, ssh2_bpp_new, hdata]
  simp [out_padding, out_cipherblk, out_unencrypted, random_bytes, format_encrypt_length,
    format_crypt, out_maclen, PUT_32BIT]

/-- C21 (counterexample): on a fresh engine without cipher, MAC and
compression the frame of the packet of type 94 with the payload
00 00 00 04 74 65 73 74 starts with 00 00 00 14 0A 5E: the length field is 20
and the padding-length byte 10, not 12 and 11, and the frame has 24 bytes. -/
theorem C21_echo_frame_counterexample :
    (ssh2_bpp_format_packet_inner (ssh2_bpp_new stats_example (fun n => n)) example_pkt).map
        (fun r => (r.2.data.take 6, r.2.data.length)) = some ([0, 0, 0, 20, 10, 94], 24) ∧
    (ssh2_bpp_format_packet_inner (ssh2_bpp_new stats_example (fun n => n)) example_pkt).map
        (fun r => r.2.data.take 6) ≠ some [0, 0, 0, 12, 11, 94] := by
  decide

/-- C21 (amended, plaintext echo). With no cipher, no MAC and no compression,
on a fresh engine with any source of random bytes, formatting the packet of
type 94 with the payload 00 00 00 04 74 65 73 74 gives the 24 wire bytes
00 00 00 14 0A 5E 00 00 00 04 74 65 73 74 followed by ten random padding
bytes: a length field of 20 and a padding-length byte of 10. Fed back to a
fresh engine that does not consume the type as unimplemented, they yield the
one `PktIn` of type 94 with the 8 payload bytes and sequence number 0, and the
call returns with the input used up. -/
theorem C21_plaintext_echo (stats : DataTransferStats) (random : Nat → Nat)
    (unimpl : PktIn → Bool)
    (hu : unimpl { type := 94, sequence := 0,
                   payload := [0, 0, 0, 4, 116, 101, 115, 116] } = false) :
    ∃ r : ssh2_bpp_state × PktOut,
      ssh2_bpp_format_packet_inner (ssh2_bpp_new stats random) example_pkt = some r ∧
      r.2.data = [0, 0, 0, 20, 10, 94, 0, 0, 0, 4, 116, 101, 115, 116] ++
        (List.range 10).map (fun i => random i % 256) ∧
      r.2.data.length = 24 ∧
      ∃ i1 : ssh2_bpp_state,
        ssh2_bpp_handle_input unimpl (with_input (ssh2_bpp_new stats random) r.2.data) =
          some (i1, none) ∧
        i1.in_pq = [{ type := 94, sequence := 0, payload := [0, 0, 0, 4, 116, 101, 115, 116] }] ∧
        i1.in_raw = [] := by
  have hf := echo_frame stats random
  cases hfmt : ssh2_bpp_format_packet_inner (ssh2_bpp_new stats random) example_pkt with
  | none => rw [hfmt] at hf; exact absurd hf (by simp)
  | some r =>
    rw [hfmt] at hf
    simp only [Option.map_some', Option.some.injEq] at hf
    have hlen : r.2.data.length = 24 := by rw [hf]; simp
    refine ⟨r, rfl, hf, hlen, ?_⟩
    have hraw : (with_input (ssh2_bpp_new stats random) r.2.data).in_raw =
        PUT_32BIT 20 ++ ([10, 94, 0, 0, 0, 4, 116, 101, 115, 116] ++
          (List.range 10).map (fun i => random i % 256)) := by
      show r.2.data = _
      rw [hf]
      rfl
    obtain ⟨S, hrun, hat⟩ := recv_plaintext unimpl
      (with_input (ssh2_bpp_new stats random) r.2.data) 20
      ([10, 94, 0, 0, 0, 4, 116, 101, 115, 116] ++ (List.range 10).map (fun i => random i % 256))
      rfl rfl rfl rfl hraw (by simp) (by decide) (by decide) 49
    obtain ⟨i1, hfin, hq, _, hr, _⟩ := finish_plain unimpl
      (with_input (ssh2_bpp_new stats random) r.2.data) S _ _
      { type := 94, sequence := 0, payload := [0, 0, 0, 4, 116, 101, 115, 116] }
      hat rfl (by simp [PUT_32BIT]) (by simp [PUT_32BIT]) (by simp [PUT_32BIT]; rfl) hu 45
    refine ⟨i1, ?_, hq, hr⟩
    unfold ssh2_bpp_handle_input
    have hfuel : 2 * (with_input (ssh2_bpp_new stats random) r.2.data).in_raw.length + 4 =
        49 + 3 := by
      show 2 * r.2.data.length + 4 = _
      rw [hlen]
    rw [hfuel, hrun, hfin]

/-- C21 (amended) with the random bytes 0, 1, 2, ... and no packet type
treated as unimplemented. -/
theorem C21_plaintext_echo_witness :
    ∃ r : ssh2_bpp_state × PktOut,
      ssh2_bpp_format_packet_inner (ssh2_bpp_new stats_example (fun n => n)) example_pkt =
        some r ∧
      r.2.data = [0, 0, 0, 20, 10, 94, 0, 0, 0, 4, 116, 101, 115, 116] ++
        (List.range 10).map (fun i => (fun n => n) i % 256) ∧
      r.2.data.length = 24 ∧
      ∃ i1 : ssh2_bpp_state,
        ssh2_bpp_handle_input (fun _ => false)
            (with_input (ssh2_bpp_new stats_example (fun n => n)) r.2.data) = some (i1, none) ∧
        i1.in_pq = [{ type := 94, sequence := 0, payload := [0, 0, 0, 4, 116, 101, 115, 116] }] ∧
        i1.in_raw = [] :=
  C21_plaintext_echo stats_example (fun n => n) (fun _ => false) rfl

/-! ## The padding of an outgoing packet -/

/-- The cleartext image of a packet: the length field, the padding length and
the rest, and its length. -/
theorem out_cleartext_shape (s : ssh2_bpp_state) (pkt : PktOut)
    (h5 : 5 ≤ (format_compress s pkt).2.length) :
    out_cleartext s pkt = PUT_32BIT ((format_compress s pkt).2.length +
          out_padding s (format_compress s pkt).2.length - 4) ++
        (out_padding s (format_compress s pkt).2.length % 256 ::
          ((format_compress s pkt).2.drop 5 ++
            (random_bytes (format_compress s pkt).1
              (out_padding s (format_compress s pkt).2.length)).1)) ∧
      (out_cleartext s pkt).length = (format_compress s pkt).2.length +
        out_padding s (format_compress s pkt).2.length := by
  have hpe : out_padding (format_compress s pkt).1 (format_compress s pkt).2.length =
      out_padding s (format_compress s pkt).2.length := by
    unfold out_padding out_cipherblk out_unencrypted
    rw [format_compress_out]
  have hshape : out_cleartext s pkt = PUT_32BIT ((format_compress s pkt).2.length +
          out_padding s (format_compress s pkt).2.length - 4) ++
        (out_padding s (format_compress s pkt).2.length % 256 ::
          ((format_compress s pkt).2.drop 5 ++
            (random_bytes (format_compress s pkt).1
              (out_padding s (format_compress s pkt).2.length)).1)) := by
    unfold out_cleartext
    rw [hpe, List.drop_append_of_le_length h5]
    simp
  refine ⟨hshape, ?_⟩
  rw [hshape]
  simp only [List.length_append, PUT_32BIT_length, List.length_cons, List.length_drop,
    random_bytes_length]
  omega

/-- The length of a frame, with or without a compressor: the packet as it is
after compression, its padding and the MAC. -/
theorem format_packet_inner_length_any (s : ssh2_bpp_state) (pkt : PktOut)
    (r : ssh2_bpp_state × PktOut) (h5 : 5 ≤ (format_compress s pkt).2.length)
    (h : ssh2_bpp_format_packet_inner s pkt = some r) :
    r.2.data.length = (format_compress s pkt).2.length +
      out_padding s (format_compress s pkt).2.length + out_maclen s := by
  obtain ⟨_, hdata, _, _⟩ := format_packet_inner_frame s pkt r h
  have hml : out_maclen (format_encrypt_length s (out_cleartext s pkt)).1 = out_maclen s :=
    (format_encrypt_length_keeps s _).maclen
  have hcl := (out_cleartext_shape s pkt h5).2
  rw [hdata, format_crypt_length _ _ _ (by
    rw [hml, List.length_append, format_encrypt_length_length, List.length_replicate, hcl]),
    List.length_append, format_encrypt_length_length, List.length_replicate, hcl]

/-- The formatter returns when the padding is at most 255. -/
theorem format_packet_inner_some (s : ssh2_bpp_state) (pkt : PktOut)
    (hp : out_padding s (format_compress s pkt).2.length ≤ 255) :
    ∃ r, ssh2_bpp_format_packet_inner s pkt = some r := by
  have hpe : out_padding (format_compress s pkt).1 (format_compress s pkt).2.length =
      out_padding s (format_compress s pkt).2.length := by
    unfold out_padding out_cipherblk out_unencrypted
    rw [format_compress_out]
  unfold ssh2_bpp_format_packet_inner
  simp only
  rw [if_neg (by rw [hpe]; omega)]
  exact ⟨_, rfl⟩

/-- The padding is the least from 4 on that fills up to whole blocks. -/
theorem out_padding_least (s : ssh2_bpp_state) (length q : Nat)
    (h : out_unencrypted s ≤ length) (hq : 4 ≤ q)
    (hm : (length - out_unencrypted s + q) % out_cipherblk s = 0) :
    out_padding s length ≤ q := by
  obtain ⟨h4, hlt, hal⟩ := out_padding_spec s length h
  have h8 := out_cipherblk_ge s
  generalize out_padding s length = p at *
  generalize out_cipherblk s = b at *
  generalize out_unencrypted s = u at *
  by_contra hcon
  have hqp : q < p := by omega
  have e1 : length + p - u = (length - u + q) + (p - q) := by omega
  rw [e1] at hal
  have hd1 : b ∣ length - u + q := Nat.dvd_of_mod_eq_zero hm
  have hd2 : b ∣ (length - u + q) + (p - q) := Nat.dvd_of_mod_eq_zero hal
  have hd3 : b ∣ p - q := (Nat.dvd_add_right hd1).mp hd2
  have := Nat.le_of_dvd (by omega) hd3
  omega

/-- C22 (output padding). For a packet whose length before padding `L` (after
compression, when there is a compressor) is at least 6 and an effective block
size `b = max(8, blksize)` of at most 252, with `u = 4` when a MAC is installed
in encrypt-then-MAC mode and `u = 0` otherwise: the padding `p` that
`ssh2_bpp_format_packet_inner` chooses is `4 + ((b - ((L - u + 4) mod b)) mod b)`,
it is the least value from 4 on making `L - u + p` a multiple of `b`, it
satisfies `4 ≤ p ≤ b + 3 ≤ 255`, so the assertion holds and the formatter
returns a frame; in the image built before encryption byte 4 is `p` and the
big-endian length field is `L + p - 4`; the frame is that image through the
length encryption and the encryption and MAC step, it has `L + p + maclen`
bytes, and without a cipher its first `L + p` bytes are the image itself. -/
theorem C22_output_padding (s : ssh2_bpp_state) (pkt : PktOut)
    (h6 : 6 ≤ (format_compress s pkt).2.length) (hb : out_cipherblk s ≤ 252)
    (hL : (format_compress s pkt).2.length + 255 < 4294967296) :
    out_cipherblk s = max 8 (match s.out.cipher with
                             | some c => c.blksize
                             | none => 8) ∧
    out_unencrypted s = (if s.out.mac.isSome ∧ s.out.etm_mode = true then 4 else 0) ∧
    out_padding s (format_compress s pkt).2.length =
      4 + (out_cipherblk s - ((format_compress s pkt).2.length - out_unencrypted s + 4) %
        out_cipherblk s) % out_cipherblk s ∧
    ((format_compress s pkt).2.length - out_unencrypted s +
      out_padding s (format_compress s pkt).2.length) % out_cipherblk s = 0 ∧
    (∀ q : Nat, 4 ≤ q →
      ((format_compress s pkt).2.length - out_unencrypted s + q) % out_cipherblk s = 0 →
      out_padding s (format_compress s pkt).2.length ≤ q) ∧
    4 ≤ out_padding s (format_compress s pkt).2.length ∧
    out_padding s (format_compress s pkt).2.length ≤ out_cipherblk s + 3 ∧
    out_cipherblk s + 3 ≤ 255 ∧
    (out_cleartext s pkt).getD 4 0 = out_padding s (format_compress s pkt).2.length ∧
    GET_32BIT (out_cleartext s pkt) =
      (format_compress s pkt).2.length + out_padding s (format_compress s pkt).2.length - 4 ∧
    ∃ r : ssh2_bpp_state × PktOut,
      ssh2_bpp_format_packet_inner s pkt = some r ∧
      r.2.data = (format_crypt (format_encrypt_length s (out_cleartext s pkt)).1
        ((format_encrypt_length s (out_cleartext s pkt)).2 ++ List.replicate (out_maclen s) 0)
        ((format_compress s pkt).2.length +
          out_padding s (format_compress s pkt).2.length)).2 ∧
      r.2.data.length = (format_compress s pkt).2.length +
        out_padding s (format_compress s pkt).2.length + out_maclen s ∧
      (s.out.cipher = none →
        r.2.data.take ((format_compress s pkt).2.length +
          out_padding s (format_compress s pkt).2.length) = out_cleartext s pkt) := by
  have hu : out_unencrypted s ≤ (format_compress s pkt).2.length := by
    have : out_unencrypted s ≤ 4 := by unfold out_unencrypted; split_ifs <;> omega
    omega
  obtain ⟨h4, hlt, hal⟩ := out_padding_spec s _ hu
  obtain ⟨hshape, hcl⟩ := out_cleartext_shape s pkt (by omega)
  obtain ⟨r, hr⟩ := format_packet_inner_some s pkt (by omega)
  obtain ⟨_, hdata, _, _⟩ := format_packet_inner_frame s pkt r hr
  refine ⟨?_, rfl, rfl, ?_, ?_, h4, by omega, by omega, ?_, ?_, r, hr, hdata,
    format_packet_inner_length_any s pkt r (by omega) hr, ?_⟩
  · unfold out_cipherblk
    cases s.out.cipher with
    | none => rfl
    | some c =>
      simp only
      split_ifs with h <;> omega
  · rw [← hal]
    congr 1
    omega
  · exact fun q hq hm => out_padding_least s _ q hu hq hm
  · rw [hshape]
    simp only [PUT_32BIT, List.cons_append, List.nil_append, List.getD_cons_succ,
      List.getD_cons_zero]
    exact Nat.mod_eq_of_lt (by omega)
  · rw [hshape]
    exact GET_PUT_32BIT _ _ (by omega)
  · intro hc
    rw [hdata]
    have hel : format_encrypt_length s (out_cleartext s pkt) = (s, out_cleartext s pkt) := by
      unfold format_encrypt_length
      rw [hc]
    rw [hel, ← hcl, format_crypt_clear s _ hc, List.take_left' rfl]

/-- C22 on the example packet of 14 bytes with a cipher of block size 16, a
MAC of 2 bytes and encrypt-then-MAC mode: padding 6 and a frame of 22
bytes. -/
theorem C22_output_padding_witness :
    6 ≤ (format_compress padding_example example_pkt).2.length ∧
    out_cipherblk padding_example ≤ 252 ∧
    out_padding padding_example (format_compress padding_example example_pkt).2.length =
      4 + (out_cipherblk padding_example -
        ((format_compress padding_example example_pkt).2.length -
          out_unencrypted padding_example + 4) % out_cipherblk padding_example) %
        out_cipherblk padding_example ∧
    out_padding padding_example (format_compress padding_example example_pkt).2.length = 6 ∧
    ∃ r : ssh2_bpp_state × PktOut,
      ssh2_bpp_format_packet_inner padding_example example_pkt = some r ∧
      r.2.data.length = 22 :=
  ⟨by decide, by decide,
    (C22_output_padding padding_example example_pkt (by decide) (by decide)
      (by decide)).2.2.1, by decide,
    (C22_output_padding padding_example example_pkt (by decide) (by decide)
      (by decide)).2.2.2.2.2.2.2.2.2.2.elim (fun r hr => ⟨r, hr.1, hr.2.2.1⟩)⟩

/-! ## The length check of the third input path -/

/-- Without a MAC, or with a MAC outside encrypt-then-MAC mode and no CBC
cipher, the top of the loop takes the third path. -/
theorem input_select_c (s : ssh2_bpp_state)
    (hsel : s.inp.mac = none ∨ (s.inp.etm_mode = false ∧
      ∀ c, s.inp.cipher = some c → has_flag c.flags SSH_CIPHER_IS_CBC = false)) :
    input_select s = cr_label.c_first := by
  unfold input_select
  rcases hsel with hm | ⟨he, hcbc⟩
  · rw [hm]
    cases s.inp.cipher <;> rfl
  · cases hc : s.inp.cipher with
    | none =>
      cases s.inp.mac with
      | none => rfl
      | some m => simp [he]
    | some c =>
      cases s.inp.mac with
      | none => rfl
      | some m => simp [he, hcbc c hc]

/-- What `in_decrypt` leaves in the buffer depends on the state through the
cipher only. -/
theorem in_decrypt_data_congr (s s1 : ssh2_bpp_state) (data : List Nat) (lo n : Nat)
    (h : s1.inp.cipher = s.inp.cipher) : (in_decrypt s1 data lo n).2 = (in_decrypt s data lo n).2 := by
  unfold in_decrypt
  rw [h]
  cases s.inp.cipher <;> rfl

/-- What `in_decrypt` leaves alone in the state. -/
theorem in_decrypt_fields (s : ssh2_bpp_state) (data : List Nat) (lo n : Nat) :
    (in_decrypt s data lo n).1.in_pq = s.in_pq ∧ (in_decrypt s data lo n).1.in_raw = s.in_raw ∧
    (in_decrypt s data lo n).1.cipherblk = s.cipherblk ∧
    (in_decrypt s data lo n).1.maclen = s.maclen := by
  unfold in_decrypt
  cases s.inp.cipher <;> exact ⟨rfl, rfl, rfl, rfl⟩

/-- A read with the bytes in the input and no end of input goes on with
them. -/
theorem BPP_READ_ok (s : ssh2_bpp_state) (n : Nat)
    (k : List Nat → ssh2_bpp_state → step_result) (he : s.input_eof = false)
    (hn : n ≤ s.in_raw.length) :
    BPP_READ s n k = k (s.in_raw.take n) { s with in_raw := s.in_raw.drop n } := by
  unfold BPP_READ
  rw [he]
  simp only [Bool.false_eq_true, if_false, if_pos hn]

/-- The first stretch of the third path on a state with the first block in
the input: a bad length field aborts, a good one goes on to the rest of the
packet. -/
theorem step_c_first (unimpl : PktIn → Bool) (p : ssh2_bpp_state) (len : Int)
    (hc : p.crState = cr_label.c_first) (he : p.input_eof = false)
    (hin : p.cipherblk ≤ p.in_raw.length)
    (hlen : len = toint (GET_32BIT (in_decrypt p (p.in_raw.take p.cipherblk) 0 p.cipherblk).2)) :
    ((len < 0 ∨ len > (OUR_V2_PACKETLIMIT : Int) ∨ (len + 4) % (p.cipherblk : Int) ≠ 0) →
      ∃ s1 : ssh2_bpp_state,
        ssh2_bpp_handle_input_step unimpl p =
          step_result.signal s1 (bpp_signal.sw_abort
            "Incoming packet was garbled on decryption") ∧
        s1.in_pq = p.in_pq ∧ s1.in_raw = p.in_raw.drop p.cipherblk) ∧
    (¬ (len < 0 ∨ len > (OUR_V2_PACKETLIMIT : Int) ∨ (len + 4) % (p.cipherblk : Int) ≠ 0) →
      ∃ S : ssh2_bpp_state,
        ssh2_bpp_handle_input_step unimpl p = step_result.next S ∧
        S.crState = cr_label.c_rest ∧ S.in_raw = p.in_raw.drop p.cipherblk ∧
        S.in_pq = p.in_pq ∧ S.cipherblk = p.cipherblk ∧ S.maclen = p.maclen ∧
        S.len = len ∧ S.packetlen = len + 4) := by
  simp only [ssh2_bpp_handle_input_step, hc]
  rw [BPP_READ_ok _ _ _ he hin]
  have f1 : ({ p with in_raw := p.in_raw.drop p.cipherblk } : ssh2_bpp_state).inp.cipher =
      p.inp.cipher := rfl
  have f2 : ({ p with in_raw := p.in_raw.drop p.cipherblk } : ssh2_bpp_state).cipherblk =
      p.cipherblk := rfl
  have f3 : ({ p with in_raw := p.in_raw.drop p.cipherblk } : ssh2_bpp_state).in_pq =
      p.in_pq := rfl
  have f4 : ({ p with in_raw := p.in_raw.drop p.cipherblk } : ssh2_bpp_state).in_raw =
      p.in_raw.drop p.cipherblk := rfl
  have f5 : ({ p with in_raw := p.in_raw.drop p.cipherblk } : ssh2_bpp_state).maclen =
      p.maclen := rfl
  generalize ({ p with in_raw := p.in_raw.drop p.cipherblk } : ssh2_bpp_state) = s1 at *
  simp only [f2]
  obtain ⟨g1, g2, g3, g4⟩ := in_decrypt_fields s1 (p.in_raw.take p.cipherblk) 0 p.cipherblk
  have g5 := in_decrypt_data_congr p s1 (p.in_raw.take p.cipherblk) 0 p.cipherblk f1
  rw [← g5] at hlen
  rw [f3] at g1
  rw [f4] at g2
  rw [f2] at g3
  rw [f5] at g4
  generalize in_decrypt s1 (p.in_raw.take p.cipherblk) 0 p.cipherblk = r at *
  simp only [g3, ← hlen]
  constructor
  · intro hbad
    rw [if_pos hbad]
    exact ⟨_, rfl, g1, g2⟩
  · intro hgood
    rw [if_neg hgood]
    exact ⟨_, rfl, rfl, g2, g1, rfl, g4, rfl, rfl⟩

/-- C26 (length check of the third path). In the standard path (no MAC, or a
MAC outside encrypt-then-MAC mode and no CBC cipher), with the first cipher
block in the input: when the length field `len` of the decrypted first block is
negative as a signed value, exceeds `OUR_V2_PACKETLIMIT`, or `(len + 4) mod
cipherblk` is not 0, the call aborts the session with "Incoming packet was
garbled on decryption", having consumed the first block and nothing more, and
queues no packet; otherwise the coroutine goes on to read the rest of the
packet with `packetlen = len + 4 ≥ cipherblk`, so the size of the remaining
read `packetlen + maclen - cipherblk` is not negative. -/
theorem C26_path_c_length (unimpl : PktIn → Bool) (s : ssh2_bpp_state)
    (hc : s.crState = cr_label.top) (he : s.input_eof = false)
    (hsel : s.inp.mac = none ∨ (s.inp.etm_mode = false ∧
      ∀ c, s.inp.cipher = some c → has_flag c.flags SSH_CIPHER_IS_CBC = false))
    (hin : in_cipherblk s ≤ s.in_raw.length) :
    ((first_block_len s < 0 ∨ first_block_len s > (OUR_V2_PACKETLIMIT : Int) ∨
        (first_block_len s + 4) % (in_cipherblk s : Int) ≠ 0) →
      ∃ s1 : ssh2_bpp_state,
        ssh2_bpp_handle_input unimpl s = some (s1, some (bpp_signal.sw_abort
          "Incoming packet was garbled on decryption")) ∧
        s1.in_pq = s.in_pq ∧ s1.in_raw = s.in_raw.drop (in_cipherblk s)) ∧
    (¬ (first_block_len s < 0 ∨ first_block_len s > (OUR_V2_PACKETLIMIT : Int) ∨
        (first_block_len s + 4) % (in_cipherblk s : Int) ≠ 0) →
      ∃ S : ssh2_bpp_state,
        (∀ fuel, ssh2_bpp_handle_input_run unimpl (fuel + 2) s =
          ssh2_bpp_handle_input_run unimpl fuel S) ∧
        S.crState = cr_label.c_rest ∧ S.in_raw = s.in_raw.drop (in_cipherblk s) ∧
        S.in_pq = s.in_pq ∧ S.cipherblk = in_cipherblk s ∧ S.maclen = (in_maclen s : Int) ∧
        S.len = first_block_len s ∧ S.packetlen = first_block_len s + 4 ∧
        (S.cipherblk : Int) ≤ S.packetlen ∧
        0 ≤ S.packetlen + S.maclen - (S.cipherblk : Int)) := by
  have htop : ssh2_bpp_handle_input_step unimpl s =
      step_result.next (input_path s cr_label.c_first) := by
    unfold ssh2_bpp_handle_input_step
    rw [hc, input_select_c s hsel]
  have hl : first_block_len s = toint (GET_32BIT (in_decrypt (input_path s cr_label.c_first)
      (s.in_raw.take (in_cipherblk s)) 0 (in_cipherblk s)).2) := by
    unfold first_block_len
    rw [in_decrypt_data_congr s (input_path s cr_label.c_first) _ _ _ rfl]
  obtain ⟨hbad, hgood⟩ := step_c_first unimpl (input_path s cr_label.c_first)
    (first_block_len s) rfl he hin hl
  constructor
  · intro hb
    obtain ⟨s1, hs1, hq, hr⟩ := hbad hb
    refine ⟨s1, ?_, hq, hr⟩
    unfold ssh2_bpp_handle_input
    have hfuel : 2 * s.in_raw.length + 4 = (2 * s.in_raw.length + 2) + 1 + 1 := by omega
    rw [hfuel, handle_input_run_next unimpl _ s _ htop,
      handle_input_run_signal unimpl _ _ s1 _ hs1]
  · intro hg
    obtain ⟨S, hS, h1, h2, h3, h4, h5, h6, h7⟩ := hgood hg
    have h4 : S.cipherblk = in_cipherblk s := h4
    have h5 : S.maclen = (in_maclen s : Int) := h5
    have h8 := in_cipherblk_ge s
    have hle : ((in_cipherblk s : Nat) : Int) ≤ first_block_len s + 4 := by
      have hmod : (first_block_len s + 4) % (in_cipherblk s : Int) = 0 := by
        by_contra hne
        exact hg (Or.inr (Or.inr hne))
      have hpos : 0 < first_block_len s + 4 := by
        have : ¬ first_block_len s < 0 := fun h => hg (Or.inl h)
        omega
      exact Int.le_of_dvd hpos (Int.dvd_of_emod_eq_zero hmod)
    refine ⟨S, ?_, h1, h2, h3, h4, h5, h6, h7, by rw [h4, h7]; exact hle, ?_⟩
    · intro fuel
      rw [handle_input_run_next unimpl (fuel + 1) s _ htop,
        handle_input_run_next unimpl fuel _ S hS]
    · rw [h4, h7, h5]
      omega

/-- C26 on an engine without cipher and MAC and ten bytes of input whose
length field is 5: 5 + 4 is no multiple of the block size 8, the call aborts
with the first eight bytes consumed and nothing queued. -/
theorem C26_path_c_length_witness :
    ∃ s1 : ssh2_bpp_state,
      ssh2_bpp_handle_input (fun _ => false) garbled_example = some (s1, some
        (bpp_signal.sw_abort "Incoming packet was garbled on decryption")) ∧
      s1.in_pq = garbled_example.in_pq ∧
      s1.in_raw = garbled_example.in_raw.drop (in_cipherblk garbled_example) :=
  (C26_path_c_length (fun _ => false) garbled_example rfl rfl (Or.inl rfl) (by decide)).1
    (Or.inr (Or.inr (by
      rw [show first_block_len garbled_example = 5 from rfl,
        show in_cipherblk garbled_example = 8 from rfl]
      decide)))

/-! ## The end of the file in `xfer_download_gotpkt` -/

/-- The part of `xfer_download_gotpkt` from `rr->complete = 1` on leaves the
node with `complete = 1`, whatever it was before, and the `eof` flag as it
is. -/
theorem xfer_download_gotpkt_tail_node (g : sftp_globals) (x : fxp_xfer) (rr : req) :
    (xfer_download_gotpkt_tail g x rr).2.2.queue =
        update_node x.queue rr.addr (fun _ => { rr with complete := 1 }) ∧
      (xfer_download_gotpkt_tail g x rr).2.2.eof = x.eof := by
  unfold xfer_download_gotpkt_tail
  simp only
  split_ifs <;> exact ⟨rfl, rfl⟩

/-- On the end of the file, reported either way, `xfer_download_gotpkt`
returns with `eof` set and the node written back with `retlen = 0` and
`complete = 1`: the `-1` stored in the branch is overwritten. -/
theorem xfer_download_gotpkt_eof (g g1 g2 : sftp_globals) (x : fxp_xfer) (pkt : sftp_packet)
    (e : sftp_request) (a : Nat) (rr : req) (retlen : Int) (copied : Option (List Nat))
    (hfind : sftp_find_request g (some pkt) = some (some e, some (after_id pkt), g1))
    (hud : e.userdata = some a)
    (hnode : x.queue.find? (fun r => decide (r.addr = a)) = some rr)
    (hrecv : fxp_read_recv g1 (after_id pkt) rr.len = (retlen, copied, g2))
    (heof : (retlen < 0 ∧ fxp_error_type g2 = SSH_FX_EOF) ∨ retlen = 0) :
    ∃ r : Int × sftp_globals × fxp_xfer, xfer_download_gotpkt g x pkt = some r ∧
      r.2.2.eof = true ∧
      r.2.2.queue = update_node x.queue a (fun _ =>
        { rr with buffer := buffer_after rr.buffer copied, retlen := 0, complete := 1 }) := by
  have ha : rr.addr = a := by
    have := List.find?_some hnode
    simpa using this
  rw [xfer_download_gotpkt_eq g g1 g2 x pkt e a rr retlen copied hfind hud hnode hrecv,
    if_pos heof]
  obtain ⟨hq, he⟩ := xfer_download_gotpkt_tail_node g2 { x with eof := true }
    { rr with buffer := buffer_after rr.buffer copied, retlen := 0, complete := -1 }
  refine ⟨_, rfl, he, ?_⟩
  rw [hq, ← ha]

set_option maxRecDepth 100000 in
/-- C27 (divergence): in a fresh download, when the response to the first
request reports the end of the file, as empty data or as a status
`SSH_FX_EOF`, `xfer_download_gotpkt` returns 1 with `eof` set and with the
node holding `retlen = 0` and `complete = 1`, not `complete = -1`. -/
theorem C27_eof_complete_overwritten :
    eof_example false = some (1, true, some (0, 1)) ∧
    eof_example true = some (1, true, some (0, 1)) := by
  decide

/-! ## Short reads in `xfer_download_gotpkt` -/

/-- The part of `xfer_download_gotpkt` from `rr->complete = 1` on, for a node
with `retlen > 0`. -/
theorem xfer_download_gotpkt_tail_short (g : sftp_globals) (x : fxp_xfer) (rr : req)
    (hpos : 0 < rr.retlen) (hwrap : rr.offset + rr.retlen.toNat < 18446744073709551616) :
    (xfer_download_gotpkt_tail g x rr).2.2.furthestdata = max x.furthestdata rr.offset ∧
    (xfer_download_gotpkt_tail g x rr).2.2.filesize =
      (if rr.retlen < rr.len then min x.filesize (rr.offset + rr.retlen.toNat)
       else x.filesize) ∧
    (xfer_download_gotpkt_tail g x rr).2.2.queue =
      update_node x.queue rr.addr (fun _ => { rr with complete := 1 }) ∧
    ((xfer_download_gotpkt_tail g x rr).2.2.furthestdata >
        (xfer_download_gotpkt_tail g x rr).2.2.filesize →
      (xfer_download_gotpkt_tail g x rr).1 = -1 ∧
      (xfer_download_gotpkt_tail g x rr).2.2.err = true ∧
      (xfer_download_gotpkt_tail g x rr).2.1.fxp_error_message =
        "received a short buffer from FXP_READ, but not at EOF" ∧
      (xfer_download_gotpkt_tail g x rr).2.1.fxp_errtype = -1) ∧
    (¬ (xfer_download_gotpkt_tail g x rr).2.2.furthestdata >
        (xfer_download_gotpkt_tail g x rr).2.2.filesize →
      (xfer_download_gotpkt_tail g x rr).1 = 1 ∧
      (xfer_download_gotpkt_tail g x rr).2.2.err = x.err ∧
      (xfer_download_gotpkt_tail g x rr).2.1 = g) := by
  have hnn : ¬ rr.retlen < 0 := by omega
  have hadd : uint64_add32 rr.offset rr.retlen.toNat = rr.offset + rr.retlen.toNat := by
    unfold uint64_add32
    exact Nat.mod_eq_of_lt hwrap
  unfold xfer_download_gotpkt_tail
  simp only [hnn, if_false, hadd, xfer_set_error]
  by_cases h1 : x.furthestdata < rr.offset <;> by_cases h2 : rr.retlen < rr.len <;>
    by_cases h3 : x.filesize > rr.offset + rr.retlen.toNat <;>
    simp only [hpos, h1, h2, h3, true_and, and_true, if_true, if_false, and_self] <;>
    split_ifs with h4 <;>
    dsimp only at h4 ⊢ <;>
    refine ⟨?_, ?_, rfl, ?_, ?_⟩ <;>
    first
      | omega
      | (intro h5; first | (exfalso; omega) | exact ⟨rfl, rfl, rfl, rfl⟩ | exact ⟨rfl, rfl, rfl⟩)

/-- C28 (short-read accounting). When `xfer_download_gotpkt` finds the request
of a response and its node, at offset `o` with requested length `len`, and
`fxp_read_recv` returns `retlen > 0` (a DATA response of `retlen` bytes; `o +
retlen` within 64 bits): `furthestdata` becomes `max(furthestdata, o)`; if
`retlen < len` then `filesize` becomes `min(filesize, o + retlen)`, otherwise
it is unchanged; the node is written back complete; if afterwards
`furthestdata > filesize` the transfer's `err` flag is set, the error message
is "received a short buffer from FXP_READ, but not at EOF" with error type -1
and the result is -1; otherwise the result is +1 with `err` and the error
globals untouched. -/
theorem C28_short_read (g g1 g2 : sftp_globals) (x : fxp_xfer) (pkt : sftp_packet)
    (e : sftp_request) (a : Nat) (rr : req) (retlen : Int) (copied : Option (List Nat))
    (hfind : sftp_find_request g (some pkt) = some (some e, some (after_id pkt), g1))
    (hud : e.userdata = some a)
    (hnode : x.queue.find? (fun r => decide (r.addr = a)) = some rr)
    (hrecv : fxp_read_recv g1 (after_id pkt) rr.len = (retlen, copied, g2))
    (hpos : 0 < retlen) (hwrap : rr.offset + retlen.toNat < 18446744073709551616) :
    ∃ r : Int × sftp_globals × fxp_xfer, xfer_download_gotpkt g x pkt = some r ∧
      r.2.2.furthestdata = max x.furthestdata rr.offset ∧
      r.2.2.filesize =
        (if retlen < rr.len then min x.filesize (rr.offset + retlen.toNat) else x.filesize) ∧
      r.2.2.queue = update_node x.queue a (fun _ =>
        { rr with buffer := buffer_after rr.buffer copied, retlen := retlen, complete := 1 }) ∧
      (r.2.2.furthestdata > r.2.2.filesize →
        r.1 = -1 ∧ r.2.2.err = true ∧
        r.2.1.fxp_error_message = "received a short buffer from FXP_READ, but not at EOF" ∧
        r.2.1.fxp_errtype = -1) ∧
      (¬ r.2.2.furthestdata > r.2.2.filesize →
        r.1 = 1 ∧ r.2.2.err = x.err ∧ r.2.1 = g2) := by
  have ha : rr.addr = a := by
    have := List.find?_some hnode
    simpa using this
  have hne : ¬ ((retlen < 0 ∧ fxp_error_type g2 = SSH_FX_EOF) ∨ retlen = 0) := by omega
  have hnn : ¬ retlen < 0 := by omega
  rw [xfer_download_gotpkt_eq g g1 g2 x pkt e a rr retlen copied hfind hud hnode hrecv,
    if_neg hne, if_neg hnn]
  obtain ⟨h1, h2, h3, h4, h5⟩ := xfer_download_gotpkt_tail_short g2 x
    { rr with buffer := buffer_after rr.buffer copied, retlen := retlen } hpos hwrap
  refine ⟨_, rfl, h1, h2, ?_, h4, h5⟩
  rw [h3, ← ha]

theorem short_read_data_length : short_read_data.length = 4096 :=
  List.length_replicate 4096 7

/-- C28 on the read of 32768 bytes at offset 98304 answered with 4096 bytes:
`filesize` becomes 102400 and the result is +1; the state is the one that a
pass of the loop of `xfer_download_queue` from offset 98304 leaves in a fresh
session. -/
theorem C28_short_read_witness :
    xfer_download_queue_body sftp_globals_init (xfer_init [1, 2] 98304 false) =
      some (short_read_globals, short_read_xfer) ∧
    ∃ r : Int × sftp_globals × fxp_xfer,
      xfer_download_gotpkt short_read_globals short_read_xfer
        (packet_with_id SSH_FXP_DATA 256 (put_string [] short_read_data)) = some r ∧
      r.2.2.furthestdata = 98304 ∧ r.2.2.filesize = 102400 ∧ r.1 = 1 := by
  refine ⟨by decide, ?_⟩
  have hl : 4 ≤ (packet_with_id SSH_FXP_DATA 256 (put_string [] short_read_data)).src.data.length -
      (packet_with_id SSH_FXP_DATA 256 (put_string [] short_read_data)).src.pos := by
    simp only [packet_with_id, List.length_cons, List.length_append, PUT_32BIT_length]
    omega
  have hfind := sftp_find_request_found short_read_globals
    [{ id := 256, registered := 1, userdata := some 1 }]
    (packet_with_id SSH_FXP_DATA 256 (put_string [] short_read_data)) rfl
    (List.pairwise_singleton _ _) { id := 256, registered := 1, userdata := some 1 }
    (List.mem_singleton.mpr rfl) rfl hl rfl (by decide)
  obtain ⟨r, hr, h1, h2, _, _, h5⟩ := C28_short_read short_read_globals
    { short_read_globals with sftp_requests := some [] }
    { short_read_globals with sftp_requests := some [] } short_read_xfer
    (packet_with_id SSH_FXP_DATA 256 (put_string [] short_read_data))
    { id := 256, registered := 1, userdata := some 1 } 1 short_read_node 4096
    (some short_read_data) hfind rfl rfl
    (by
      have h := fxp_read_recv_data { short_read_globals with sftp_requests := some [] } 256
        short_read_data (by rw [short_read_data_length]; omega)
      rw [short_read_data_length] at h
      exact h)
    (by decide) (by decide)
  have hfs : r.2.2.filesize = 102400 := by rw [h2]; decide
  have hfd : r.2.2.furthestdata = 98304 := by rw [h1]; decide
  exact ⟨r, hr, hfd, hfs, (h5 (by rw [hfd, hfs]; decide)).1⟩

/-! ## The download window -/

/-- The queueing loop, spelled out: the requests issued, in order, with the
ids `ids` that the allocator gave them. -/
theorem xfer_download_queue_loop_spec : ∀ (fuel : Nat) (g : sftp_globals) (x : fxp_xfer)
    (t : tree234),
    g.sftp_requests.getD [] = t → t.Pairwise (fun a b => a.id < b.id) →
    (∀ r ∈ t, 256 ≤ r.id) →
    (x.req_maxsize - x.req_totalsize).toNat < fuel →
    (t.length : Int) * 32768 + (x.req_maxsize - x.req_totalsize) ≤ 2147483648 * 32768 →
    (x.offset : Int) + (x.req_maxsize - x.req_totalsize) + 32768 ≤ 18446744073709551616 →
    ∃ (ids : List Nat) (g1 : sftp_globals) (x1 : fxp_xfer),
      xfer_download_queue_loop fuel g x = some (g1, x1) ∧
      x1 = { x with
        queue := x.queue ++ (List.range ids.length).map (fun i =>
          ({ addr := g.heap_next + i, buffer := some [], len := 32768, retlen := 0,
             complete := 0, offset := x.offset + 32768 * i } : req)),
        offset := x.offset + 32768 * ids.length,
        req_totalsize := x.req_totalsize + 32768 * (ids.length : Int) } ∧
      g1.sent = g.sent ++ (List.range ids.length).map (fun i =>
        read_request_bytes x.fh (ids.getD i 0) (x.offset + 32768 * i) 32768) ∧
      g1.heap_next = g.heap_next + ids.length ∧
      g1.fxp_error_message = g.fxp_error_message ∧ g1.fxp_errtype = g.fxp_errtype ∧
      (g1.sftp_requests.getD []).Pairwise (fun a b => a.id < b.id) ∧
      (g1.sftp_requests.getD []).length = t.length + ids.length ∧
      (∀ r, r ∈ g1.sftp_requests.getD [] ↔ r ∈ t ∨ ∃ i, i < ids.length ∧
        r = { id := ids.getD i 0, registered := 1, userdata := some (g.heap_next + i) }) ∧
      (∀ r ∈ t, r.id ∉ ids) ∧ ids.Nodup ∧ (∀ i ∈ ids, 256 ≤ i) ∧
      (x.eof = false → x.err = false →
        x.req_maxsize ≤ x.req_totalsize + 32768 * (ids.length : Int) ∧
        (ids ≠ [] → x.req_totalsize + 32768 * (ids.length : Int) - 32768 < x.req_maxsize)) ∧
      (x.eof = true ∨ x.err = true ∨ x.req_maxsize ≤ x.req_totalsize → ids = [] ∧ g1 = g) := by
  intro fuel
  induction fuel with
  | zero => intro g x t _ _ _ hf; omega
  | succ f ih =>
    intro g x t ht hs hmin hf hn hoff
    by_cases hc : x.req_totalsize < x.req_maxsize ∧ x.eof = false ∧ x.err = false
    · have hlen : t.length < 2147483648 := by omega
      obtain ⟨k, hk, hlo, hhi, hbody⟩ := xfer_download_queue_body_eq g x t ht hs hmin hlen
      have hadd : uint64_add32 x.offset 32768 = x.offset + 32768 := by
        unfold uint64_add32
        exact Nat.mod_eq_of_lt (by omega)
      rw [hadd] at hbody
      have hlo2 : ∀ r ∈ t.take k, r.id < (sftp_request.mk (k + 256) 1 (some g.heap_next)).id :=
        hlo
      have hhi2 : ∀ r ∈ t.drop k, (sftp_request.mk (k + 256) 1 (some g.heap_next)).id < r.id :=
        hhi
      have hs1 := pairwise_insert t k (sftp_request.mk (k + 256) 1 (some g.heap_next)) hs hlo2 hhi2
      have hmem := mem_insert t k (sftp_request.mk (k + 256) 1 (some g.heap_next))
      have hfresh : ∀ r ∈ t, r.id ≠ k + 256 := by
        intro r hr
        rw [← List.take_append_drop k t, List.mem_append] at hr
        rcases hr with h | h
        · have := hlo r h; omega
        · have := hhi r h; omega
      have hlen1 : (t.take k ++ sftp_request.mk (k + 256) 1 (some g.heap_next) ::
          t.drop k).length = t.length + 1 := by
        simp only [List.length_append, List.length_cons, List.length_take, List.length_drop]
        omega
      cases hq : xfer_download_queue_body g x with
      | none => rw [hq] at hbody; exact absurd hbody (by simp)
      | some p =>
      rw [hq] at hbody
      have hp := Option.some.inj hbody
      have hg := congrArg Prod.fst hp
      have hx := congrArg Prod.snd hp
      simp only at hg hx
      have e1 : p.1.sftp_requests.getD [] =
          t.take k ++ sftp_request.mk (k + 256) 1 (some g.heap_next) :: t.drop k := by
        rw [hg]; rfl
      have e2 : p.1.heap_next = g.heap_next + 1 := by rw [hg]
      have e3 : p.1.sent = g.sent ++ [read_request_bytes x.fh (k + 256) x.offset 32768] := by
        rw [hg]
      have e4 : p.1.fxp_error_message = g.fxp_error_message := by rw [hg]
      have e5 : p.1.fxp_errtype = g.fxp_errtype := by rw [hg]
      have f1 : p.2.req_maxsize = x.req_maxsize := by rw [hx]
      have f2 : p.2.req_totalsize = x.req_totalsize + 32768 := by rw [hx]
      have f3 : p.2.offset = x.offset + 32768 := by rw [hx]
      have f4 : p.2.eof = x.eof := by rw [hx]
      have f5 : p.2.err = x.err := by rw [hx]
      have f6 : p.2.fh = x.fh := by rw [hx]
      obtain ⟨ids, g1, x1, hloop, hx1, hsent, hheap, hmsg, herr, hsort, hrl, hreg, hfr, hnd, hge,
        hstop, _⟩ := ih p.1 p.2 _ e1 hs1
          (by
            intro r hr
            rcases (hmem r).mp hr with h | h
            · rw [h]; show 256 ≤ k + 256; omega
            · exact hmin r h)
          (by rw [f1, f2]; exact fuel_step _ _ 32768 f hc.1 hf (by norm_num))
          (by rw [hlen1, f1, f2]; push_cast; omega)
          (by rw [f1, f2, f3]; push_cast; omega)
      rw [e2, f3] at hx1
      rw [e3, f6, f3] at hsent
      rw [e2] at hheap
      rw [e4] at hmsg
      rw [e5] at herr
      simp only [e2] at hreg
      rw [f4, f5, f1, f2] at hstop
      refine ⟨(k + 256) :: ids, g1, x1, ?_, ?_, ?_, ?_, hmsg, herr, hsort,
        by rw [hrl, hlen1, List.length_cons]; omega, ?_, ?_, ?_, ?_, ?_, ?_⟩
      · rw [xfer_download_queue_loop, if_pos hc, hq]
        exact hloop
      · rw [hx1, hx]
        simp only [List.length_cons, List.range_succ_eq_map, List.map_cons, List.map_map,
          List.append_assoc, List.singleton_append, fxp_xfer.mk.injEq, true_and, and_true]
        refine ⟨by omega, by push_cast; omega, ?_⟩
        rw [List.append_cancel_left_eq, List.cons.injEq]
        refine ⟨rfl, ?_⟩
        apply List.map_congr_left
        intro i _
        simp only [Function.comp, req.mk.injEq, true_and, and_true]
        refine ⟨by omega, by omega⟩
      · rw [hsent]
        simp only [List.length_cons, List.range_succ_eq_map, List.map_cons, List.map_map,
          List.append_assoc, List.singleton_append, List.getD_cons_zero]
        rw [List.append_cancel_left_eq, List.cons.injEq]
        refine ⟨rfl, ?_⟩
        apply List.map_congr_left
        intro i _
        simp only [Function.comp, Nat.succ_eq_add_one, List.getD_cons_succ]
        rw [show x.offset + 32768 + 32768 * i = x.offset + 32768 * (i + 1) by omega]
      · rw [hheap]
        simp only [List.length_cons]
        omega
      · intro r
        rw [hreg r, hmem r]
        constructor
        · rintro ((h | h) | ⟨i, hi, h⟩)
          · exact Or.inr ⟨0, by simp, by simpa using h⟩
          · exact Or.inl h
          · refine Or.inr ⟨i + 1, by simpa using hi, ?_⟩
            rw [h]
            simp only [List.getD_cons_succ, sftp_request.mk.injEq, true_and, Option.some.injEq]
            omega
        · rintro (h | ⟨i, hi, h⟩)
          · exact Or.inl (Or.inr h)
          · cases i with
            | zero => exact Or.inl (Or.inl (by simpa using h))
            | succ j =>
              refine Or.inr ⟨j, by simpa using hi, ?_⟩
              rw [h]
              simp only [List.getD_cons_succ, sftp_request.mk.injEq, true_and,
                Option.some.injEq]
              omega
      · intro r hr hin
        rcases List.mem_cons.mp hin with h | h
        · exact hfresh r hr h
        · exact hfr r ((hmem r).mpr (Or.inr hr)) h
      · rw [List.nodup_cons]
        refine ⟨?_, hnd⟩
        intro hin
        exact hfr (sftp_request.mk (k + 256) 1 (some g.heap_next))
          ((hmem _).mpr (Or.inl rfl)) hin
      · intro i hi
        rcases List.mem_cons.mp hi with h | h
        · omega
        · exact hge i h
      · intro he hr
        obtain ⟨h1, h2⟩ := hstop he hr
        simp only [List.length_cons]
        push_cast
        constructor
        · have : x.req_maxsize ≤ x.req_totalsize + 32768 + 32768 * (ids.length : Int) := h1
          omega
        · intro _
          by_cases hnil : ids = []
          · subst hnil
            simp only [List.length_nil]
            omega
          · have : x.req_totalsize + 32768 + 32768 * (ids.length : Int) - 32768 <
                x.req_maxsize := h2 hnil
            omega
      · intro h
        exfalso
        rcases h with h | h | h
        · rw [hc.2.1] at h; exact Bool.false_ne_true h
        · rw [hc.2.2] at h; exact Bool.false_ne_true h
        · omega
    · refine ⟨[], g, x, ?_, ?_, ?_, rfl, rfl, rfl, ?_, by rw [ht]; rfl, ?_, ?_, List.nodup_nil,
        ?_, ?_, ?_⟩
      · rw [xfer_download_queue_loop, if_neg hc]
      · simp
      · simp
      · rw [ht]; exact hs
      · intro r
        rw [ht]
        simp
      · intro r _ h
        simp at h
      · intro i h
        simp at h
      · intro he hr
        refine ⟨?_, fun h => absurd rfl h⟩
        simp only [List.length_nil]
        by_contra hlt
        exact hc ⟨by omega, he, hr⟩
      · intro _
        exact ⟨rfl, rfl⟩

/-- C29 (download window). For a registry in tree order with ids from 256 on
(what the allocator maintains), as long as the number of requests stays within
31 bits and the offsets within 64 bits: `xfer_download_queue` returns, having
issued READ requests of length 32768 at the consecutive offsets `xfer.offset`,
`xfer.offset + 32768`, ... with fresh, distinct ids; each is sent, registered
with `userdata` pointing at its node, and its node is appended at the tail in
issue order; `xfer.offset` and `req_totalsize` advance by 32768 per request and
nothing else of the transfer changes; with `eof = 0` and `err = 0` the loop
stops exactly when `req_totalsize >= req_maxsize` (it holds after the last
request and not before it); and nothing is issued when `eof` or `err` is set
or when `req_totalsize >= req_maxsize` already. -/
theorem C29_download_window (g : sftp_globals) (x : fxp_xfer) (t : tree234)
    (ht : g.sftp_requests.getD [] = t) (hs : t.Pairwise (fun a b => a.id < b.id))
    (hmin : ∀ r ∈ t, 256 ≤ r.id)
    (hn : (t.length : Int) * 32768 + (x.req_maxsize - x.req_totalsize) ≤ 2147483648 * 32768)
    (hoff : (x.offset : Int) + (x.req_maxsize - x.req_totalsize) + 32768 ≤
      18446744073709551616) :
    ∃ (ids : List Nat) (g1 : sftp_globals) (x1 : fxp_xfer),
      xfer_download_queue g x = some (g1, x1) ∧
      x1 = { x with
        queue := x.queue ++ (List.range ids.length).map (fun i =>
          ({ addr := g.heap_next + i, buffer := some [], len := 32768, retlen := 0,
             complete := 0, offset := x.offset + 32768 * i } : req)),
        offset := x.offset + 32768 * ids.length,
        req_totalsize := x.req_totalsize + 32768 * (ids.length : Int) } ∧
      g1.sent = g.sent ++ (List.range ids.length).map (fun i =>
        read_request_bytes x.fh (ids.getD i 0) (x.offset + 32768 * i) 32768) ∧
      g1.heap_next = g.heap_next + ids.length ∧
      g1.fxp_error_message = g.fxp_error_message ∧ g1.fxp_errtype = g.fxp_errtype ∧
      (g1.sftp_requests.getD []).Pairwise (fun a b => a.id < b.id) ∧
      (g1.sftp_requests.getD []).length = t.length + ids.length ∧
      (∀ r, r ∈ g1.sftp_requests.getD [] ↔ r ∈ t ∨ ∃ i, i < ids.length ∧
        r = { id := ids.getD i 0, registered := 1, userdata := some (g.heap_next + i) }) ∧
      (∀ r ∈ t, r.id ∉ ids) ∧ ids.Nodup ∧ (∀ i ∈ ids, 256 ≤ i) ∧
      (x.eof = false → x.err = false →
        x.req_maxsize ≤ x.req_totalsize + 32768 * (ids.length : Int) ∧
        (ids ≠ [] → x.req_totalsize + 32768 * (ids.length : Int) - 32768 < x.req_maxsize)) ∧
      (x.eof = true ∨ x.err = true ∨ x.req_maxsize ≤ x.req_totalsize → ids = [] ∧ g1 = g) :=
  xfer_download_queue_loop_spec _ g x t ht hs hmin (by omega) hn hoff

/-- C29 in a fresh session on a new transfer from offset 0: the queue call
returns with as many nodes queued as requests sent, and with the window
full. -/
theorem C29_download_window_witness :
    ∃ (ids : List Nat) (g1 : sftp_globals) (x1 : fxp_xfer),
      xfer_download_queue sftp_globals_init (xfer_init [1, 2] 0 false) = some (g1, x1) ∧
      x1.queue.length = ids.length ∧ g1.sent.length = ids.length ∧
      g1.heap_next = 1 + ids.length ∧
      (1048576 : Int) ≤ x1.req_totalsize := by
  obtain ⟨ids, g1, x1, h, hx1, hsent, hheap, _, _, _, _, _, _, _, _, hstop, _⟩ :=
    C29_download_window sftp_globals_init (xfer_init [1, 2] 0 false) [] rfl List.Pairwise.nil
      (fun r hr => absurd hr (List.not_mem_nil r)) (by decide) (by decide)
  refine ⟨ids, g1, x1, h, ?_, ?_, hheap, ?_⟩
  · rw [hx1]
    simp [xfer_init]
  · rw [hsent]
    simp [sftp_globals_init]
  · rw [hx1]
    exact (hstop rfl rfl).1

/-! ## The initial depth of the download pipeline -/

set_option maxRecDepth 100000 in
/-- C30 (counterexample): in a fresh session `xfer_download_init` leaves 32
nodes in the queue, 32 READ packets sent and 32 requests registered, with
`req_totalsize` equal to `req_maxsize` = 1048576; not 4. -/
theorem C30_four_in_flight_counterexample :
    (xfer_download_init sftp_globals_init [1, 2] 0).map
        (fun r => (r.2.queue.length, r.1.sent.length, (r.1.sftp_requests.getD []).length,
          r.2.req_totalsize, r.2.req_maxsize)) = some (32, 32, 32, 1048576, 1048576) ∧
    (xfer_download_init sftp_globals_init [1, 2] 0).map (fun r => r.2.queue.length) ≠ some 4 := by
  decide

/-- C30 (amended, initial pipeline depth). For a registry in tree order with
ids from 256 on and fewer than 2^31 - 32 requests, and a start offset at least
1 MiB + 32768 below 2^64: `xfer_download_init`, with `req_maxsize` = 1048576
and the chunk size 32768, returns with exactly 32 READ requests in flight: 32
nodes in the queue, 32 packets sent, 32 requests added to the registry, and
`req_totalsize` = 1048576, at the offsets `offset + 32768 * i` for `i` below
32. -/
theorem C30_initial_depth (g : sftp_globals) (fh : List Nat) (offset : Nat) (t : tree234)
    (ht : g.sftp_requests.getD [] = t) (hs : t.Pairwise (fun a b => a.id < b.id))
    (hmin : ∀ r ∈ t, 256 ≤ r.id) (hn : t.length + 32 ≤ 2147483648)
    (hoff : offset + 1048576 + 32768 ≤ 18446744073709551616) :
    ∃ (g1 : sftp_globals) (x1 : fxp_xfer),
      xfer_download_init g fh offset = some (g1, x1) ∧
      x1.req_maxsize = 1048576 ∧ x1.req_totalsize = 1048576 ∧
      x1.queue = (List.range 32).map (fun i =>
        ({ addr := g.heap_next + i, buffer := some [], len := 32768, retlen := 0,
           complete := 0, offset := offset + 32768 * i } : req)) ∧
      x1.queue.length = 32 ∧
      g1.sent.length = g.sent.length + 32 ∧
      (g1.sftp_requests.getD []).length = t.length + 32 ∧
      x1.offset = offset + 1048576 ∧ x1.eof = false ∧ x1.err = false := by
  obtain ⟨ids, g1, x1, h, hx1, hsent, _, _, _, _, hrl, _, _, _, _, hstop, _⟩ :=
    xfer_download_queue_loop_spec _ g { xfer_init fh offset false with eof := false } t ht hs hmin
      (Nat.lt_succ_self _)
      (by show (t.length : Int) * 32768 + (1048576 - 0) ≤ _; omega)
      (by show (offset : Int) + (1048576 - 0) + 32768 ≤ _; omega)
  have hst := hstop rfl rfl
  have h1 : (1048576 : Int) ≤ 0 + 32768 * (ids.length : Int) := hst.1
  have h2 : ids ≠ [] → (0 : Int) + 32768 * (ids.length : Int) - 32768 < 1048576 := hst.2
  have hlen : ids.length = 32 := by
    have hne : ids ≠ [] := by
      intro h0
      rw [h0] at h1
      simp at h1
    have := h2 hne
    omega
  rw [hlen] at hx1 hsent hrl
  refine ⟨g1, x1, h, ?_, ?_, ?_, ?_, ?_, hrl, ?_, ?_, ?_⟩
  · rw [hx1]; rfl
  · rw [hx1]; rfl
  · rw [hx1]; rfl
  · rw [hx1]; rfl
  · rw [hsent, List.length_append, List.length_map, List.length_range]
  · rw [hx1]; rfl
  · rw [hx1]
  · rw [hx1]; rfl

/-- C30 (amended) in a fresh session on the file handle 1, 2 from offset 0. -/
theorem C30_initial_depth_witness :
    ∃ (g1 : sftp_globals) (x1 : fxp_xfer),
      xfer_download_init sftp_globals_init [1, 2] 0 = some (g1, x1) ∧
      x1.req_maxsize = 1048576 ∧ x1.req_totalsize = 1048576 ∧
      x1.queue = (List.range 32).map (fun i =>
        ({ addr := sftp_globals_init.heap_next + i, buffer := some [], len := 32768,
           retlen := 0, complete := 0, offset := 0 + 32768 * i } : req)) ∧
      x1.queue.length = 32 ∧
      g1.sent.length = sftp_globals_init.sent.length + 32 ∧
      (g1.sftp_requests.getD []).length = ([] : tree234).length + 32 ∧
      x1.offset = 0 + 1048576 ∧ x1.eof = false ∧ x1.err = false :=
  C30_initial_depth sftp_globals_init [1, 2] 0 [] rfl List.Pairwise.nil
    (fun r hr => absurd hr (List.not_mem_nil r)) (by decide) (by decide)

/-! ## The first input path: one stretch -/

/-- The three ways a read ends. -/
theorem BPP_READ_cases (s : ssh2_bpp_state) (n : Nat)
    (k : List Nat → ssh2_bpp_state → step_result) :
    (s.input_eof = true ∧ ∃ sig, BPP_READ s n k = step_result.signal s sig) ∨
    (s.input_eof = false ∧ ¬ n ≤ s.in_raw.length ∧ BPP_READ s n k = step_result.yield s) ∨
    (s.input_eof = false ∧ n ≤ s.in_raw.length ∧
      BPP_READ s n k = k (s.in_raw.take n) { s with in_raw := s.in_raw.drop n }) := by
  unfold BPP_READ
  cases he : s.input_eof with
  | true =>
    left
    refine ⟨rfl, ?_⟩
    simp only [if_true, input_eof_signal]
    split_ifs <;> exact ⟨_, rfl⟩
  | false =>
    right
    by_cases hn : n ≤ s.in_raw.length
    · right
      refine ⟨rfl, hn, ?_⟩
      simp only [Bool.false_eq_true, if_false, if_pos hn]
    · left
      refine ⟨rfl, hn, ?_⟩
      simp only [Bool.false_eq_true, if_false, if_neg hn]

/-- The configuration of the first path takes the first path. -/
theorem input_select_a (s : ssh2_bpp_state) (h : path_a_config s) :
    input_select s = cr_label.a_mac := by
  obtain ⟨c, hc, hf⟩ := h.cipher
  obtain ⟨m, hm⟩ := h.mac
  unfold input_select
  rw [hc, hm]
  simp [hf, h.etm]

/-- The effective block size depends on the cipher's block size only. -/
theorem in_cipherblk_congr (s s1 : ssh2_bpp_state) (c c1 : ssh2_cipher)
    (h : s.inp.cipher = some c) (h1 : s1.inp.cipher = some c1) (hb : c1.blksize = c.blksize) :
    in_cipherblk s1 = in_cipherblk s := by
  unfold in_cipherblk
  rw [h, h1]
  simp only [hb]

/-- The MAC length depends on the MAC only. -/
theorem in_maclen_congr (s s1 : ssh2_bpp_state) (h : s1.inp.mac = s.inp.mac) :
    in_maclen s1 = in_maclen s := by
  unfold in_maclen
  rw [h]

/-- A turn of the loop of the first path with the next block in the input:
on acceptance the coroutine goes on to the point where the paths join; else at
the packet limit the session is aborted; else the loop goes round. -/
theorem step_a_block (unimpl : PktIn → Bool) (s : ssh2_bpp_state) (c : ssh2_cipher)
    (m : ssh2_mac) (hc : s.crState = cr_label.a_block) (hci : s.inp.cipher = some c)
    (hmi : s.inp.mac = some m) (he : s.input_eof = false)
    (hin : s.cipherblk ≤ s.in_raw.length) :
    ((ssh2_mac_verresult m (s.fed ++ ((a_block_buf s c).drop s.packetlen.toNat).take s.cipherblk)
          ((a_block_buf s c).drop (s.packetlen + (s.cipherblk : Int)).toNat) = true ∧
        toint (GET_32BIT (a_block_buf s c)) = s.packetlen + (s.cipherblk : Int) - 4) →
      ∃ T, ssh2_bpp_handle_input_step unimpl s = step_result.next T ∧
        T.crState = cr_label.tail ∧ a_block_after s T c) ∧
    (¬ (ssh2_mac_verresult m (s.fed ++ ((a_block_buf s c).drop s.packetlen.toNat).take s.cipherblk)
          ((a_block_buf s c).drop (s.packetlen + (s.cipherblk : Int)).toNat) = true ∧
        toint (GET_32BIT (a_block_buf s c)) = s.packetlen + (s.cipherblk : Int) - 4) →
      (s.packetlen + (s.cipherblk : Int) ≥ (OUR_V2_PACKETLIMIT : Int) →
        ∃ T, ssh2_bpp_handle_input_step unimpl s =
            step_result.signal T (bpp_signal.sw_abort "No valid incoming packet found") ∧
          a_block_after s T c) ∧
      (¬ s.packetlen + (s.cipherblk : Int) ≥ (OUR_V2_PACKETLIMIT : Int) →
        ∃ T, ssh2_bpp_handle_input_step unimpl s = step_result.next T ∧
          T.crState = cr_label.a_block ∧
          T.fed = s.fed ++ ((a_block_buf s c).drop s.packetlen.toNat).take s.cipherblk ∧
          a_block_after s T c)) := by
  simp only [ssh2_bpp_handle_input_step, hc]
  rw [BPP_READ_ok _ _ _ he hin]
  simp only [hci, hmi, a_block_buf]
  constructor
  · intro hacc
    rw [if_pos hacc]
    exact ⟨_, rfl, rfl, ⟨rfl, rfl, rfl, rfl, rfl, rfl, hmi.symm, rfl, rfl,
        ⟨_, rfl, rfl, rfl⟩, he⟩⟩
  · intro hacc
    rw [if_neg hacc]
    constructor
    · intro hlim
      rw [if_pos hlim]
      exact ⟨_, rfl, ⟨rfl, rfl, rfl, rfl, rfl, rfl, hmi.symm, rfl, rfl,
        ⟨_, rfl, rfl, rfl⟩, he⟩⟩
    · intro hlim
      rw [if_neg hlim]
      exact ⟨_, rfl, hc, rfl, ⟨rfl, rfl, rfl, rfl, rfl, rfl, hmi.symm, rfl, rfl,
        ⟨_, rfl, rfl, rfl⟩, he⟩⟩

/-- Decompression leaves the handles of the incoming direction and
`packetlen`. -/
theorem in_decompress_keeps (s : ssh2_bpp_state) (data : List Nat) (length : Int) :
    (in_decompress s data length).1.inp = s.inp ∧
      (in_decompress s data length).1.packetlen = s.packetlen := by
  unfold in_decompress
  cases s.in_decomp with
  | none => exact ⟨rfl, rfl⟩
  | some dc =>
    simp only
    split <;> exact ⟨rfl, rfl⟩

/-- The end of the loop body, whichever way it goes. -/
theorem tail_result_push (s : ssh2_bpp_state) (b : Bool) (P : PktIn) (A B C : ssh2_bpp_state)
    (hA : A.crState = cr_label.top ∧ tail_keeps s A) (hB : tail_keeps s B)
    (hC : C.crState = cr_label.top ∧ tail_keeps s C) :
    tail_result s (if b = true then step_result.next A
      else if P.type = SSH2_MSG_NEWKEYS then step_result.yield B else step_result.next C) := by
  by_cases hb : b = true
  · rw [if_pos hb]
    exact hA
  · rw [if_neg hb]
    by_cases hn : P.type = SSH2_MSG_NEWKEYS
    · rw [if_pos hn]
      exact hB
    · rw [if_neg hn]
      exact hC

/-- The common tail never crashes, goes on at the top of the loop only, and
leaves the handles and `packetlen`. -/
theorem input_tail_result (unimpl : PktIn → Bool) (s : ssh2_bpp_state) :
    tail_result s (input_tail unimpl s) := by
  unfold input_tail
  simp only
  by_cases hbad : ((s.data.getD 4 0 : Nat) : Int) < 4 ∨ s.len - ((s.data.getD 4 0 : Nat) : Int) < 1
  · rw [if_pos hbad]
    exact ⟨rfl, rfl, rfl, rfl⟩
  · rw [if_neg hbad]
    apply tail_result_push
    · refine ⟨rfl, ⟨?_, ?_, ?_, ?_⟩⟩
      · show (in_decompress _ _ _).1.inp.cipher = _
        rw [(in_decompress_keeps _ _ _).1]
      · show (in_decompress _ _ _).1.inp.mac = _
        rw [(in_decompress_keeps _ _ _).1]
      · show (in_decompress _ _ _).1.inp.etm_mode = _
        rw [(in_decompress_keeps _ _ _).1]
      · show (in_decompress _ _ _).1.packetlen = _
        rw [(in_decompress_keeps _ _ _).2]
    · refine ⟨?_, ?_, ?_, ?_⟩
      · show (in_decompress _ _ _).1.inp.cipher = _
        rw [(in_decompress_keeps _ _ _).1]
      · show (in_decompress _ _ _).1.inp.mac = _
        rw [(in_decompress_keeps _ _ _).1]
      · show (in_decompress _ _ _).1.inp.etm_mode = _
        rw [(in_decompress_keeps _ _ _).1]
      · show (in_decompress _ _ _).1.packetlen = _
        rw [(in_decompress_keeps _ _ _).2]
    · refine ⟨rfl, ⟨?_, ?_, ?_, ?_⟩⟩
      · show (in_decompress _ _ _).1.inp.cipher = _
        rw [(in_decompress_keeps _ _ _).1]
      · show (in_decompress _ _ _).1.inp.mac = _
        rw [(in_decompress_keeps _ _ _).1]
      · show (in_decompress _ _ _).1.inp.etm_mode = _
        rw [(in_decompress_keeps _ _ _).1]
      · show (in_decompress _ _ _).1.packetlen = _
        rw [(in_decompress_keeps _ _ _).2]

/-- The stretch from the resume point before the loop of the first path: it
waits, or ends on the end of the input, or enters the loop with the MAC bytes
in the buffer. -/
theorem step_a_mac (unimpl : PktIn → Bool) (s : ssh2_bpp_state)
    (hc : s.crState = cr_label.a_mac) :
    (s.input_eof = true ∧ ∃ sig, ssh2_bpp_handle_input_step unimpl s = step_result.signal s sig) ∨
    (s.input_eof = false ∧ ¬ s.maclen.toNat ≤ s.in_raw.length ∧
      ssh2_bpp_handle_input_step unimpl s = step_result.yield s) ∨
    (s.input_eof = false ∧ s.maclen.toNat ≤ s.in_raw.length ∧
      ∃ T, ssh2_bpp_handle_input_step unimpl s = step_result.next T ∧
        T.crState = cr_label.a_block ∧ T.packetlen = 0 ∧
        T.buf = s.in_raw.take s.maclen.toNat ∧
        T.fed = PUT_32BIT (s.inp.sequence % 4294967296) ∧ T.inp = s.inp ∧
        T.cipherblk = s.cipherblk ∧ T.maclen = s.maclen ∧ T.in_pq = s.in_pq ∧
        T.in_raw = s.in_raw.drop s.maclen.toNat ∧ T.input_eof = false) := by
  simp only [ssh2_bpp_handle_input_step, hc]
  rcases BPP_READ_cases s s.maclen.toNat (fun bytes s1 =>
      step_result.next { s1 with buf := bytes, packetlen := 0,
                                 fed := PUT_32BIT (s1.inp.sequence % 4294967296),
                                 crState := cr_label.a_block }) with h | h | h
  · exact Or.inl h
  · exact Or.inr (Or.inl h)
  · refine Or.inr (Or.inr ⟨h.1, h.2.1, _, h.2.2, rfl, rfl, rfl, rfl, rfl, rfl, rfl, rfl, rfl, h.1⟩)

/-- The outcomes of a turn of the loop of the first path when the next block
is not there. -/
theorem step_a_block_wait (unimpl : PktIn → Bool) (s : ssh2_bpp_state)
    (hc : s.crState = cr_label.a_block)
    (h : s.input_eof = true ∨ ¬ s.cipherblk ≤ s.in_raw.length) :
    ssh2_bpp_handle_input_step unimpl s = step_result.yield s ∨
      ∃ sig, ssh2_bpp_handle_input_step unimpl s = step_result.signal s sig := by
  simp only [ssh2_bpp_handle_input_step, hc]
  generalize (fun (bytes : List Nat) (s1 : ssh2_bpp_state) => (_ : step_result)) = k
  rcases BPP_READ_cases s s.cipherblk k with h1 | h1 | h1
  · exact Or.inr h1.2
  · exact Or.inl h1.2.2
  · rcases h with h | h
    · rw [h1.1] at h; exact absurd h (by simp)
    · exact absurd h1.2.1 h

/-- The buffer after a turn of the loop of the first path: the blocks
decrypted before are untouched, the block read is decrypted behind them, and
the received bytes behind it are as they came. -/
theorem a_block_buf_spec (s : ssh2_bpp_state) (c : ssh2_cipher) (h0 : 0 ≤ s.packetlen)
    (hm0 : 0 ≤ s.maclen) (hbuf : (s.buf.length : Int) = s.packetlen + s.maclen)
    (hin : s.cipherblk ≤ s.in_raw.length) :
    ((a_block_buf s c).length : Int) = s.packetlen + (s.cipherblk : Int) + s.maclen ∧
    (a_block_buf s c).take s.packetlen.toNat = s.buf.take s.packetlen.toNat ∧
    ((a_block_buf s c).drop s.packetlen.toNat).take s.cipherblk =
      in_place s.cipherblk (c.decrypt c.ctx
        ((s.buf.drop s.packetlen.toNat ++ s.in_raw.take s.cipherblk).take s.cipherblk)).2 ∧
    (a_block_buf s c).drop (s.packetlen + (s.cipherblk : Int)).toNat =
      (s.buf.drop s.packetlen.toNat ++ s.in_raw.take s.cipherblk).drop s.cipherblk := by
  have hp : s.packetlen.toNat ≤ s.buf.length := by omega
  have hall : (s.packetlen + s.maclen).toNat = s.buf.length := by omega
  have hpc : (s.packetlen + (s.cipherblk : Int)).toNat = s.packetlen.toNat + s.cipherblk := by omega
  have hbl : (s.in_raw.take s.cipherblk).length = s.cipherblk := by
    rw [List.length_take]; omega
  have hdrop : (s.buf ++ s.in_raw.take s.cipherblk).drop s.packetlen.toNat =
      s.buf.drop s.packetlen.toNat ++ s.in_raw.take s.cipherblk :=
    List.drop_append_of_le_length hp
  have htl : ((s.buf.drop s.packetlen.toNat ++ s.in_raw.take s.cipherblk).take
      s.cipherblk).length = s.cipherblk := by
    rw [List.length_take, List.length_append, hbl]; omega
  unfold a_block_buf ssh2_cipher_decrypt cipher_apply
  rw [hall, List.take_length, hpc, hdrop, htl]
  simp only
  have htk : ((s.buf ++ s.in_raw.take s.cipherblk).take s.packetlen.toNat).length =
      s.packetlen.toNat := by
    rw [List.length_take, List.length_append]; omega
  refine ⟨?_, ?_, ?_, ?_⟩
  · simp only [List.length_append, htk, in_place_length, List.length_drop, hbl]
    omega
  · rw [List.append_assoc, List.take_left' htk, List.take_append_of_le_length hp]
  · rw [List.append_assoc, List.drop_left' htk, List.take_left' (in_place_length _ _)]
  · rw [List.drop_left' (by rw [List.length_append, htk, in_place_length]),
      ← List.drop_drop, hdrop]

/-- In the loop of the first path, the test of the code at the end of a turn
is the acceptance test of the specification on the buffer after the turn. -/
theorem a_block_test_iff (s : ssh2_bpp_state) (c : ssh2_cipher) (m : ssh2_mac)
    (h0 : 0 ≤ s.packetlen) (hm0 : 0 ≤ s.maclen)
    (hbuf : (s.buf.length : Int) = s.packetlen + s.maclen)
    (hfed : s.fed = PUT_32BIT (s.inp.sequence % 4294967296) ++ s.buf.take s.packetlen.toNat)
    (hin : s.cipherblk ≤ s.in_raw.length) :
    (ssh2_mac_verresult m (s.fed ++ ((a_block_buf s c).drop s.packetlen.toNat).take s.cipherblk)
          ((a_block_buf s c).drop (s.packetlen + (s.cipherblk : Int)).toNat) = true ∧
        toint (GET_32BIT (a_block_buf s c)) = s.packetlen + (s.cipherblk : Int) - 4) ↔
      boundary_accepts m s.inp.sequence (a_block_buf s c)
        (s.packetlen + (s.cipherblk : Int)).toNat := by
  obtain ⟨_, htk, _, _⟩ := a_block_buf_spec s c h0 hm0 hbuf hin
  have hpc : (s.packetlen + (s.cipherblk : Int)).toNat = s.packetlen.toNat + s.cipherblk := by
    omega
  have hcast : (((s.packetlen + (s.cipherblk : Int)).toNat : Nat) : Int) =
      s.packetlen + (s.cipherblk : Int) := by omega
  unfold boundary_accepts
  rw [hcast, hfed, List.append_assoc, ← htk, hpc, ← List.take_add]

/-- Whole blocks below the limit leave room for one more block. -/
theorem block_below_limit (p : Int) (cb : Nat) (hcb : 0 < cb)
    (hp : p % (cb : Int) = 0) (hl : OUR_V2_PACKETLIMIT % cb = 0)
    (hlt : p < (OUR_V2_PACKETLIMIT : Int)) : p + (cb : Int) ≤ (OUR_V2_PACKETLIMIT : Int) := by
  obtain ⟨a, ha⟩ := Int.dvd_of_emod_eq_zero hp
  obtain ⟨b, hb⟩ := Nat.dvd_of_mod_eq_zero hl
  have hb2 : (OUR_V2_PACKETLIMIT : Int) = (cb : Int) * (b : Int) := by
    rw [hb]; push_cast; rfl
  rw [hb2, ha] at hlt ⊢
  have hcb2 : (0 : Int) < (cb : Int) := by exact_mod_cast hcb
  have hab : a < (b : Int) := lt_of_mul_lt_mul_left hlt (le_of_lt hcb2)
  have : (cb : Int) * a + (cb : Int) = (cb : Int) * (a + 1) := by ring
  rw [this]
  exact mul_le_mul_of_nonneg_left (by omega) (le_of_lt hcb2)

/-- The invariant of the first path is kept from one resume point to the
next; only the common tail touches the input queue; the point where the
paths join is reached from the loop over the blocks only, on acceptance. -/
theorem path_a_next (unimpl : PktIn → Bool) (s T : ssh2_bpp_state) (hinv : path_a_inv s)
    (hstep : input_goes_on unimpl s T) :
    path_a_inv T ∧ T.inp.mac = s.inp.mac ∧ in_cipherblk T = in_cipherblk s ∧
    (s.crState ≠ cr_label.tail → T.in_pq = s.in_pq) ∧
    (s.crState = cr_label.top → T.crState = cr_label.a_mac ∧ T.packetlen = s.packetlen) ∧
    (s.crState = cr_label.tail → T.crState = cr_label.top ∧ T.packetlen = s.packetlen) ∧
    (s.crState = cr_label.a_mac → T.crState = cr_label.a_block ∧ T.packetlen = 0) ∧
    (s.crState = cr_label.a_block →
      (T.crState = cr_label.a_block ∨ T.crState = cr_label.tail) ∧
      T.packetlen = s.packetlen + (s.cipherblk : Int) ∧
      (T.crState = cr_label.a_block → T.packetlen < (OUR_V2_PACKETLIMIT : Int)) ∧
      (T.crState = cr_label.tail → ∃ c m, s.inp.cipher = some c ∧ s.inp.mac = some m ∧
        a_block_after s T c ∧
        boundary_accepts m s.inp.sequence (a_block_buf s c)
          (s.packetlen + (s.cipherblk : Int)).toNat)) := by
  unfold input_goes_on at hstep
  obtain ⟨c, hci, hflag⟩ := hinv.config.cipher
  obtain ⟨m, hmi⟩ := hinv.config.mac
  rcases hinv.label with hl | hl | hl | hl
  · -- the top of the loop
    have h1 : ssh2_bpp_handle_input_step unimpl s =
        step_result.next (input_path s (input_select s)) := by
      simp only [ssh2_bpp_handle_input_step, hl]
    rw [h1, input_select_a s hinv.config] at hstep
    cases hstep
    refine ⟨⟨⟨hinv.config.cipher, hinv.config.mac, hinv.config.etm⟩, Or.inr (Or.inl rfl),
        fun _ => ⟨rfl, rfl⟩, fun h => by cases h⟩, rfl, rfl,
      fun _ => rfl, fun _ => ⟨rfl, rfl⟩, ?_, ?_, ?_⟩
    · intro h; rw [hl] at h; cases h
    · intro h; rw [hl] at h; cases h
    · intro h; rw [hl] at h; cases h
  · -- before the loop
    obtain ⟨hcb, hml⟩ := hinv.sizes (by rw [hl]; decide)
    rcases step_a_mac unimpl s hl with h | h | h
    · obtain ⟨sig, hs⟩ := h.2
      rw [hs] at hstep; cases hstep
    · rw [h.2.2] at hstep; cases hstep
    · obtain ⟨he, hn, T1, hs, t1, t2, t3, t4, t5, t6, t7, t8, t9, t10⟩ := h
      rw [hs] at hstep
      cases hstep
      have hmac : T.inp.mac = s.inp.mac := by rw [t5]
      have hcbT : in_cipherblk T = in_cipherblk s := by unfold in_cipherblk; rw [t5]
      have hmlT : in_maclen T = in_maclen s := by unfold in_maclen; rw [t5]
      refine ⟨⟨⟨⟨c, by rw [t5]; exact hci, hflag⟩, ⟨m, by rw [t5]; exact hmi⟩,
          by rw [t5]; exact hinv.config.etm⟩, Or.inr (Or.inr (Or.inl t1)),
          fun _ => ⟨by rw [t6, hcbT]; exact hcb, by rw [t7, hmlT]; exact hml⟩, fun _ => ?_⟩,
        hmac, hcbT, fun _ => t8, ?_, ?_, fun _ => ⟨t1, t2⟩, ?_⟩
      · refine ⟨by rw [t2], by rw [t2]; simp, ?_, ?_⟩
        · rw [t3, t2, t7, List.length_take, hml]
          rw [hml] at hn
          omega
        · rw [t4, t2, t5]
          simp
      · intro h; rw [hl] at h; cases h
      · intro h; rw [hl] at h; cases h
      · intro h; rw [hl] at h; cases h
  · -- a turn of the loop
    obtain ⟨hcb, hml⟩ := hinv.sizes (by rw [hl]; decide)
    obtain ⟨h0, hmod, hbuf, hfed⟩ := hinv.block hl
    have hm0 : 0 ≤ s.maclen := by rw [hml]; omega
    by_cases hread : s.input_eof = false ∧ s.cipherblk ≤ s.in_raw.length
    · obtain ⟨he, hin⟩ := hread
      obtain ⟨hacc, hrej⟩ := step_a_block unimpl s c m hl hci hmi he hin
      obtain ⟨hlen, htk, _, _⟩ := a_block_buf_spec s c h0 hm0 hbuf hin
      have hkeep : ∀ T1 : ssh2_bpp_state, a_block_after s T1 c →
          T1.crState = cr_label.a_block ∨ T1.crState = cr_label.tail →
          (T1.crState = cr_label.a_block →
            T1.fed = s.fed ++ ((a_block_buf s c).drop s.packetlen.toNat).take s.cipherblk) →
          path_a_inv T1 ∧ T1.inp.mac = s.inp.mac ∧ in_cipherblk T1 = in_cipherblk s := by
        intro T1 ha hlab hf
        obtain ⟨c1, hc1, hb1, hf1⟩ := ha.cipher
        have hcbT : in_cipherblk T1 = in_cipherblk s := in_cipherblk_congr s T1 c c1 hci hc1 hb1
        have hmlT : in_maclen T1 = in_maclen s := in_maclen_congr s T1 ha.mac
        refine ⟨⟨⟨⟨c1, hc1, by rw [hf1]; exact hflag⟩, ⟨m, by rw [ha.mac]; exact hmi⟩,
            by rw [ha.etm]; exact hinv.config.etm⟩, Or.inr (Or.inr hlab),
            fun _ => ⟨by rw [ha.cipherblk, hcbT]; exact hcb, by rw [ha.maclen, hmlT]; exact hml⟩,
            fun hb => ?_⟩, ha.mac, hcbT⟩
        have hpc : (s.packetlen + (s.cipherblk : Int)).toNat = s.packetlen.toNat + s.cipherblk := by
          omega
        refine ⟨by rw [ha.packetlen]; omega, ?_, ?_, ?_⟩
        · rw [ha.packetlen, ha.cipherblk, Int.add_emod_self]
          exact hmod
        · rw [ha.buf, ha.packetlen, ha.maclen, hlen]
        · rw [hf hb, ha.sequence, ha.buf, ha.packetlen, hfed, List.append_assoc, ← htk, hpc,
            ← List.take_add]
      by_cases hac : ssh2_mac_verresult m
          (s.fed ++ ((a_block_buf s c).drop s.packetlen.toNat).take s.cipherblk)
          ((a_block_buf s c).drop (s.packetlen + (s.cipherblk : Int)).toNat) = true ∧
          toint (GET_32BIT (a_block_buf s c)) = s.packetlen + (s.cipherblk : Int) - 4
      · obtain ⟨T1, hs, ht, ha⟩ := hacc hac
        rw [hs] at hstep
        cases hstep
        obtain ⟨k1, k2, k3⟩ := hkeep T ha (Or.inr ht) (fun h => by rw [ht] at h; cases h)
        refine ⟨k1, k2, k3, fun _ => ha.in_pq, ?_, ?_, ?_, fun _ => ⟨Or.inr ht, ha.packetlen, ?_,
          fun _ => ⟨c, m, hci, hmi, ha,
            (a_block_test_iff s c m h0 hm0 hbuf hfed hin).mp hac⟩⟩⟩
        · intro h; rw [hl] at h; cases h
        · intro h; rw [hl] at h; cases h
        · intro h; rw [hl] at h; cases h
        · intro h; rw [ht] at h; cases h
      · obtain ⟨habort, hgo⟩ := hrej hac
        by_cases hlim : s.packetlen + (s.cipherblk : Int) ≥ (OUR_V2_PACKETLIMIT : Int)
        · obtain ⟨T1, hs, _⟩ := habort hlim
          rw [hs] at hstep; cases hstep
        · obtain ⟨T1, hs, ht, hf, ha⟩ := hgo hlim
          rw [hs] at hstep
          cases hstep
          obtain ⟨k1, k2, k3⟩ := hkeep T ha (Or.inl ht) (fun _ => hf)
          refine ⟨k1, k2, k3, fun _ => ha.in_pq, ?_, ?_, ?_, fun _ => ⟨Or.inl ht, ha.packetlen,
            fun _ => by rw [ha.packetlen]; omega, ?_⟩⟩
          · intro h; rw [hl] at h; cases h
          · intro h; rw [hl] at h; cases h
          · intro h; rw [hl] at h; cases h
          · intro h; rw [ht] at h; cases h
    · have hw : s.input_eof = true ∨ ¬ s.cipherblk ≤ s.in_raw.length := by
        by_cases he : s.input_eof = true
        · exact Or.inl he
        · right
          intro hin
          exact hread ⟨by simpa using he, hin⟩
      rcases step_a_block_wait unimpl s hl hw with h | ⟨sig, h⟩
      · rw [h] at hstep; cases hstep
      · rw [h] at hstep; cases hstep
  · -- the common tail
    have h1 : ssh2_bpp_handle_input_step unimpl s = input_tail unimpl s := by
      simp only [ssh2_bpp_handle_input_step, hl]
    have h2 := input_tail_result unimpl s
    rw [← h1, hstep] at h2
    obtain ⟨ht, hk⟩ := h2
    have hcbT : in_cipherblk T = in_cipherblk s := by
      unfold in_cipherblk; rw [hk.cipher]
    refine ⟨⟨⟨⟨c, by rw [hk.cipher]; exact hci, hflag⟩, ⟨m, by rw [hk.mac]; exact hmi⟩,
        by rw [hk.etm]; exact hinv.config.etm⟩, Or.inl ht,
        fun h => absurd ht h, fun h => by rw [ht] at h; cases h⟩, hk.mac, hcbT,
      fun h => absurd hl h, ?_, fun _ => ⟨ht, hk.packetlen⟩, ?_, ?_⟩
    · intro h; rw [hl] at h; cases h
    · intro h; rw [hl] at h; cases h
    · intro h; rw [hl] at h; cases h

/-- The first path before the point where the paths join never crashes; when
a stretch returns there, the input queue is as before, and the state too
unless the session is aborted at the packet limit with "No valid incoming
packet found". -/
theorem path_a_stop (unimpl : PktIn → Bool) (s : ssh2_bpp_state) (hinv : path_a_inv s)
    (hl : s.crState ≠ cr_label.tail) :
    (∀ T, ssh2_bpp_handle_input_step unimpl s = step_result.yield T → T = s) ∧
    (∀ T sig, ssh2_bpp_handle_input_step unimpl s = step_result.signal T sig →
      T.in_pq = s.in_pq ∧
      (T = s ∨ (s.crState = cr_label.a_block ∧
        sig = bpp_signal.sw_abort "No valid incoming packet found" ∧
        T.packetlen = s.packetlen + (s.cipherblk : Int) ∧
        T.packetlen ≥ (OUR_V2_PACKETLIMIT : Int)))) ∧
    ssh2_bpp_handle_input_step unimpl s ≠ step_result.crash := by
  obtain ⟨c, hci, hflag⟩ := hinv.config.cipher
  obtain ⟨m, hmi⟩ := hinv.config.mac
  rcases hinv.label with h | h | h | h
  · have h1 : ssh2_bpp_handle_input_step unimpl s =
        step_result.next (input_path s (input_select s)) := by
      simp only [ssh2_bpp_handle_input_step, h]
    rw [h1]
    exact ⟨fun T e => (by cases e), fun T sig e => (by cases e), fun e => (by cases e)⟩
  · rcases step_a_mac unimpl s h with h1 | h1 | h1
    · obtain ⟨sig, hs⟩ := h1.2
      rw [hs]
      refine ⟨fun T e => (by cases e), fun T sig e => ?_, fun e => (by cases e)⟩
      cases e
      exact ⟨rfl, Or.inl rfl⟩
    · rw [h1.2.2]
      refine ⟨fun T e => ?_, fun T sig e => (by cases e), fun e => (by cases e)⟩
      cases e
      rfl
    · obtain ⟨_, _, T1, hs, _⟩ := h1
      rw [hs]
      exact ⟨fun T e => (by cases e), fun T sig e => (by cases e), fun e => (by cases e)⟩
  · by_cases hread : s.input_eof = false ∧ s.cipherblk ≤ s.in_raw.length
    · obtain ⟨he, hin⟩ := hread
      obtain ⟨hacc, hrej⟩ := step_a_block unimpl s c m h hci hmi he hin
      by_cases hac : ssh2_mac_verresult m
          (s.fed ++ ((a_block_buf s c).drop s.packetlen.toNat).take s.cipherblk)
          ((a_block_buf s c).drop (s.packetlen + (s.cipherblk : Int)).toNat) = true ∧
          toint (GET_32BIT (a_block_buf s c)) = s.packetlen + (s.cipherblk : Int) - 4
      · obtain ⟨T1, hs, _⟩ := hacc hac
        rw [hs]
        exact ⟨fun T e => (by cases e), fun T sig e => (by cases e), fun e => (by cases e)⟩
      · obtain ⟨habort, hgo⟩ := hrej hac
        by_cases hlim : s.packetlen + (s.cipherblk : Int) ≥ (OUR_V2_PACKETLIMIT : Int)
        · obtain ⟨T1, hs, ha⟩ := habort hlim
          rw [hs]
          refine ⟨fun T e => (by cases e), fun T sig e => ?_, fun e => (by cases e)⟩
          cases e
          exact ⟨ha.in_pq, Or.inr ⟨h, rfl, ha.packetlen, by rw [ha.packetlen]; exact hlim⟩⟩
        · obtain ⟨T1, hs, _⟩ := hgo hlim
          rw [hs]
          exact ⟨fun T e => (by cases e), fun T sig e => (by cases e), fun e => (by cases e)⟩
    · have hw : s.input_eof = true ∨ ¬ s.cipherblk ≤ s.in_raw.length := by
        by_cases he : s.input_eof = true
        · exact Or.inl he
        · right
          intro hin
          exact hread ⟨by simpa using he, hin⟩
      rcases step_a_block_wait unimpl s h hw with h1 | ⟨sig, h1⟩
      · rw [h1]
        refine ⟨fun T e => ?_, fun T sig e => (by cases e), fun e => (by cases e)⟩
        cases e
        rfl
      · rw [h1]
        refine ⟨fun T e => (by cases e), fun T sig e => ?_, fun e => (by cases e)⟩
        cases e
        exact ⟨rfl, Or.inl rfl⟩
  · exact absurd h hl

/-- The invariant of the first path holds at the top of the loop. -/
theorem path_a_inv_top (s : ssh2_bpp_state) (hc : s.crState = cr_label.top)
    (hcfg : path_a_config s) : path_a_inv s :=
  ⟨hcfg, Or.inl hc, fun h => absurd hc h, fun h => by rw [hc] at h; cases h⟩

/-- The invariant of the first path holds at every resume point passed. -/
theorem path_a_inv_reach (unimpl : PktIn → Bool) (s a : ssh2_bpp_state)
    (hc : s.crState = cr_label.top) (hcfg : path_a_config s)
    (hreach : input_reaches unimpl s a) :
    path_a_inv a ∧ a.inp.mac = s.inp.mac ∧ in_cipherblk a = in_cipherblk s := by
  unfold input_reaches at hreach
  induction hreach with
  | refl => exact ⟨path_a_inv_top s hc hcfg, rfl, rfl⟩
  | tail _ hstep ih =>
    obtain ⟨k1, k2, k3, _⟩ := path_a_next unimpl _ _ ih.1 hstep
    exact ⟨k1, k2.trans ih.2.1, k3.trans ih.2.2⟩

/-- With the packet limit a multiple of the block size, `packetlen` stays
within the limit, and below it in the loop over the blocks. -/
theorem path_a_bound_reach (unimpl : PktIn → Bool) (s a : ssh2_bpp_state)
    (hc : s.crState = cr_label.top) (hcfg : path_a_config s)
    (hlim : OUR_V2_PACKETLIMIT % in_cipherblk s = 0)
    (hp : s.packetlen ≤ (OUR_V2_PACKETLIMIT : Int))
    (hreach : input_reaches unimpl s a) :
    a.packetlen ≤ (OUR_V2_PACKETLIMIT : Int) ∧
      (a.crState = cr_label.a_block → a.packetlen < (OUR_V2_PACKETLIMIT : Int)) := by
  unfold input_reaches at hreach
  induction hreach with
  | refl => exact ⟨hp, fun h => by rw [hc] at h; cases h⟩
  | @tail b d hsb hstep ih =>
    obtain ⟨hinv, _, hcbb⟩ := path_a_inv_reach unimpl s b hc hcfg hsb
    obtain ⟨_, _, _, _, n1, n2, n3, n4⟩ := path_a_next unimpl b d hinv hstep
    rcases hinv.label with h | h | h | h
    · obtain ⟨e1, e2⟩ := n1 h
      exact ⟨by rw [e2]; exact ih.1, fun h2 => by rw [e1] at h2; cases h2⟩
    · obtain ⟨e1, e2⟩ := n3 h
      refine ⟨by rw [e2]; unfold OUR_V2_PACKETLIMIT; decide,
        fun _ => by rw [e2]; unfold OUR_V2_PACKETLIMIT; decide⟩
    · obtain ⟨_, e2, e3, _⟩ := n4 h
      obtain ⟨hcb, _⟩ := hinv.sizes (by rw [h]; decide)
      obtain ⟨h0, hmod, _, _⟩ := hinv.block h
      have h8 := in_cipherblk_ge b
      refine ⟨?_, e3⟩
      rw [e2]
      exact block_below_limit b.packetlen b.cipherblk (by omega) hmod
        (by rw [hcb, hcbb]; exact hlim) (ih.2 h)
    · obtain ⟨e1, e2⟩ := n2 h
      exact ⟨by rw [e2]; exact ih.1, fun h2 => by rw [e1] at h2; cases h2⟩

/-- C24 (bound of the first path). With a CBC cipher and a MAC outside
encrypt-then-MAC mode, `OUR_V2_PACKETLIMIT` a multiple of the effective block
size, and `packetlen` within the limit at the start: at every resume point
that the coroutine passes through from the top of the loop, `packetlen` is at
most `OUR_V2_PACKETLIMIT`; in the loop over the cipher blocks it is a
multiple of the block size below the limit, so that the block decrypted next
ends at an offset of at most `OUR_V2_PACKETLIMIT`, the buffer holds
`packetlen + maclen` bytes and the next read into it ends at an offset of at
most `OUR_V2_PACKETLIMIT + maclen`; the coroutine never crashes there, and
when it returns from the loop it waits for input, or the input has ended, or
the session is aborted with "No valid incoming packet found" at `packetlen =
OUR_V2_PACKETLIMIT`. -/
theorem C24_path_a_bound (unimpl : PktIn → Bool) (s a : ssh2_bpp_state)
    (hc : s.crState = cr_label.top) (hcfg : path_a_config s)
    (hlim : OUR_V2_PACKETLIMIT % in_cipherblk s = 0)
    (hp : s.packetlen ≤ (OUR_V2_PACKETLIMIT : Int))
    (hreach : input_reaches unimpl s a) :
    a.packetlen ≤ (OUR_V2_PACKETLIMIT : Int) ∧
    (a.crState = cr_label.a_block →
      0 ≤ a.packetlen ∧ a.packetlen % (a.cipherblk : Int) = 0 ∧
      a.packetlen < (OUR_V2_PACKETLIMIT : Int) ∧
      a.packetlen + (a.cipherblk : Int) ≤ (OUR_V2_PACKETLIMIT : Int) ∧
      (a.buf.length : Int) = a.packetlen + a.maclen ∧
      (a.buf.length : Int) + (a.cipherblk : Int) ≤ (OUR_V2_PACKETLIMIT : Int) + a.maclen) ∧
    (∀ T, ssh2_bpp_handle_input_step unimpl a = step_result.next T →
      T.packetlen ≤ (OUR_V2_PACKETLIMIT : Int)) ∧
    (∀ T, ssh2_bpp_handle_input_step unimpl a = step_result.yield T →
      T.packetlen ≤ (OUR_V2_PACKETLIMIT : Int)) ∧
    (∀ T sig, ssh2_bpp_handle_input_step unimpl a = step_result.signal T sig →
      T.packetlen ≤ (OUR_V2_PACKETLIMIT : Int) ∧
      (a.crState = cr_label.a_block → T = a ∨
        (sig = bpp_signal.sw_abort "No valid incoming packet found" ∧
          T.packetlen = (OUR_V2_PACKETLIMIT : Int)))) ∧
    ssh2_bpp_handle_input_step unimpl a ≠ step_result.crash := by
  obtain ⟨hle, hlt⟩ := path_a_bound_reach unimpl s a hc hcfg hlim hp hreach
  obtain ⟨hinv, _, hcba⟩ := path_a_inv_reach unimpl s a hc hcfg hreach
  have hroom : a.crState = cr_label.a_block →
      a.packetlen + (a.cipherblk : Int) ≤ (OUR_V2_PACKETLIMIT : Int) := by
    intro h
    obtain ⟨hcb, _⟩ := hinv.sizes (by rw [h]; decide)
    obtain ⟨h0, hmod, _, _⟩ := hinv.block h
    have h8 := in_cipherblk_ge a
    exact block_below_limit a.packetlen a.cipherblk (by omega) hmod
      (by rw [hcb, hcba]; exact hlim) (hlt h)
  refine ⟨hle, ?_, ?_, ?_, ?_, ?_⟩
  · intro h
    obtain ⟨h0, hmod, hbuf, _⟩ := hinv.block h
    have := hroom h
    exact ⟨h0, hmod, hlt h, this, hbuf, by omega⟩
  · intro T hT
    exact (path_a_bound_reach unimpl s T hc hcfg hlim hp
      (Relation.ReflTransGen.tail hreach hT)).1
  · intro T hT
    by_cases ht : a.crState = cr_label.tail
    · have h1 : ssh2_bpp_handle_input_step unimpl a = input_tail unimpl a := by
        simp only [ssh2_bpp_handle_input_step, ht]
      have h2 := input_tail_result unimpl a
      rw [← h1, hT] at h2
      rw [h2.packetlen]
      exact hle
    · rw [(path_a_stop unimpl a hinv ht).1 T hT]
      exact hle
  · intro T sig hT
    by_cases ht : a.crState = cr_label.tail
    · have h1 : ssh2_bpp_handle_input_step unimpl a = input_tail unimpl a := by
        simp only [ssh2_bpp_handle_input_step, ht]
      have h2 := input_tail_result unimpl a
      rw [← h1, hT] at h2
      refine ⟨by rw [h2.packetlen]; exact hle, fun h => ?_⟩
      rw [ht] at h
      cases h
    · rcases ((path_a_stop unimpl a hinv ht).2.1 T sig hT).2 with h | ⟨h1, h2, h3, h4⟩
      · rw [h]
        exact ⟨hle, fun _ => Or.inl rfl⟩
      · have := hroom h1
        have heq : T.packetlen = (OUR_V2_PACKETLIMIT : Int) := by omega
        exact ⟨by omega, fun _ => Or.inr ⟨h2, heq⟩⟩
  · by_cases ht : a.crState = cr_label.tail
    · have h1 : ssh2_bpp_handle_input_step unimpl a = input_tail unimpl a := by
        simp only [ssh2_bpp_handle_input_step, ht]
      have h2 := input_tail_result unimpl a
      intro hcr
      rw [← h1, hcr] at h2
      exact h2
    · exact (path_a_stop unimpl a hinv ht).2.2

/-- C24 on an engine with a CBC cipher of block size 8 and a MAC of 2 bytes,
at the entry to the loop over the blocks with two bytes in the buffer. -/
theorem C24_path_a_bound_witness :
    path_a_config cbc_example ∧ input_reaches (fun _ => false) cbc_example cbc_example_block ∧
    cbc_example_block.packetlen ≤ (OUR_V2_PACKETLIMIT : Int) ∧
    (cbc_example_block.buf.length : Int) + (cbc_example_block.cipherblk : Int) ≤
      (OUR_V2_PACKETLIMIT : Int) + cbc_example_block.maclen :=
  have hcfg : path_a_config cbc_example := ⟨⟨_, rfl, rfl⟩, ⟨_, rfl⟩, rfl⟩
  have hreach : input_reaches (fun _ => false) cbc_example cbc_example_block :=
    Relation.ReflTransGen.tail (Relation.ReflTransGen.tail Relation.ReflTransGen.refl
      (show input_goes_on _ cbc_example (input_path cbc_example cr_label.a_mac) from rfl))
      (show input_goes_on _ (input_path cbc_example cr_label.a_mac) cbc_example_block from rfl)
  have h := C24_path_a_bound (fun _ => false) cbc_example cbc_example_block rfl hcfg
    (by decide) (by decide) hreach
  ⟨hcfg, hreach, h.1, (h.2.1 rfl).2.2.2.2.2⟩

/-! ## The first input path: acceptance -/

/-- From a resume point of the first path with nothing queued yet, the next
one has nothing queued either and is not the common tail, unless the turn of
the loop just made accepted. -/
theorem path_a_quiet_next (unimpl : PktIn → Bool) (s b d : ssh2_bpp_state) (m : ssh2_mac)
    (hc : s.crState = cr_label.top) (hcfg : path_a_config s) (hm : s.inp.mac = some m)
    (hreach : input_reaches unimpl s b) (hq : b.in_pq = s.in_pq)
    (hl : b.crState ≠ cr_label.tail) (hstep : input_goes_on unimpl b d) :
    (d.in_pq = s.in_pq ∧ d.crState ≠ cr_label.tail) ∨
      ∃ a c T, path_a_accepted unimpl s m a T c := by
  obtain ⟨hinv, hmac, _⟩ := path_a_inv_reach unimpl s b hc hcfg hreach
  obtain ⟨_, _, _, n0, n1, _, n3, n4⟩ := path_a_next unimpl b d hinv hstep
  have hdq : d.in_pq = s.in_pq := (n0 hl).trans hq
  rcases hinv.label with h | h | h | h
  · exact Or.inl ⟨hdq, by rw [(n1 h).1]; decide⟩
  · exact Or.inl ⟨hdq, by rw [(n3 h).1]; decide⟩
  · obtain ⟨hlab, _, _, hacc⟩ := n4 h
    rcases hlab with h2 | h2
    · exact Or.inl ⟨hdq, by rw [h2]; decide⟩
    · obtain ⟨c, m1, hci, hmi, haft, hb⟩ := hacc h2
      have hmm : m1 = m := by
        rw [hmac, hm] at hmi
        exact (Option.some.inj hmi).symm
      subst hmm
      obtain ⟨_, _, hbuf, hfed⟩ := hinv.block h
      exact Or.inr ⟨b, c, d, ⟨hreach, hq, h, hci, hmi, hfed, hbuf, hstep, h2, haft, hb⟩⟩
  · exact absurd h hl

/-- At every resume point passed on the first path, nothing has been queued
and the point is not the common tail, unless a turn of the loop accepted. -/
theorem path_a_reach_queue (unimpl : PktIn → Bool) (s a : ssh2_bpp_state) (m : ssh2_mac)
    (hc : s.crState = cr_label.top) (hcfg : path_a_config s) (hm : s.inp.mac = some m)
    (hreach : input_reaches unimpl s a) :
    (a.in_pq = s.in_pq ∧ a.crState ≠ cr_label.tail) ∨
      ∃ a0 c T, path_a_accepted unimpl s m a0 T c := by
  have key : ∀ b, Relation.ReflTransGen (input_goes_on unimpl) s b →
      (b.in_pq = s.in_pq ∧ b.crState ≠ cr_label.tail) ∨
        ∃ a0 c T, path_a_accepted unimpl s m a0 T c := by
    intro b hb
    induction hb with
    | refl => exact Or.inl ⟨rfl, by rw [hc]; decide⟩
    | tail hsb hstep ih =>
      rcases ih with ⟨hq, hl⟩ | hacc
      · exact path_a_quiet_next unimpl s _ _ m hc hcfg hm hsb hq hl hstep
      · exact Or.inr hacc
  exact key a hreach

/-- A run on the first path returns with nothing queued unless a turn of the
loop accepted. -/
theorem path_a_run_queue (unimpl : PktIn → Bool) (s : ssh2_bpp_state) (m : ssh2_mac)
    (hc : s.crState = cr_label.top) (hcfg : path_a_config s) (hm : s.inp.mac = some m) :
    ∀ (fuel : Nat) (a : ssh2_bpp_state) (r : ssh2_bpp_state × Option bpp_signal),
      input_reaches unimpl s a →
      ssh2_bpp_handle_input_run unimpl fuel a = some r →
      r.1.in_pq = s.in_pq ∨ ∃ a0 c T, path_a_accepted unimpl s m a0 T c := by
  intro fuel
  induction fuel with
  | zero =>
    intro a r _ hrun
    simp [ssh2_bpp_handle_input_run] at hrun
  | succ f ih =>
    intro a r hreach hrun
    rcases path_a_reach_queue unimpl s a m hc hcfg hm hreach with ⟨hq, hl⟩ | hacc
    · obtain ⟨hinv, _, _⟩ := path_a_inv_reach unimpl s a hc hcfg hreach
      obtain ⟨hy, hsg, hcr⟩ := path_a_stop unimpl a hinv hl
      cases hs : ssh2_bpp_handle_input_step unimpl a with
      | next T =>
        rw [handle_input_run_next unimpl f a T hs] at hrun
        exact ih T r (Relation.ReflTransGen.tail hreach hs) hrun
      | yield T =>
        rw [handle_input_run_yield unimpl f a T hs] at hrun
        cases hrun
        left
        show T.in_pq = s.in_pq
        rw [hy T hs]
        exact hq
      | signal T sig =>
        rw [handle_input_run_signal unimpl f a T sig hs] at hrun
        cases hrun
        left
        show T.in_pq = s.in_pq
        rw [(hsg T sig hs).1]
        exact hq
      | crash => exact absurd hs hcr
    · exact Or.inr hacc

/-- When no turn of the loop accepts, a run from inside the loop returns
with nothing queued, within a number of stretches bounded by the input. -/
theorem path_a_never_loop (unimpl : PktIn → Bool) (s : ssh2_bpp_state) (m : ssh2_mac)
    (hc : s.crState = cr_label.top) (hcfg : path_a_config s) (hm : s.inp.mac = some m)
    (hnever : ∀ a c, input_reaches unimpl s a → a.crState = cr_label.a_block →
      a.inp.cipher = some c →
      ¬ boundary_accepts m a.inp.sequence (a_block_buf a c)
        (a.packetlen + (a.cipherblk : Int)).toNat) :
    ∀ (fuel : Nat) (a : ssh2_bpp_state), input_reaches unimpl s a →
      a.crState = cr_label.a_block → a.in_pq = s.in_pq → a.in_raw.length < 8 * fuel →
      ∃ r, ssh2_bpp_handle_input_run unimpl fuel a = some r ∧ r.1.in_pq = s.in_pq := by
  intro fuel
  induction fuel with
  | zero => intro a _ _ _ hlen; omega
  | succ f ih =>
    intro a hreach hl hq hlen
    obtain ⟨hinv, hmac, _⟩ := path_a_inv_reach unimpl s a hc hcfg hreach
    obtain ⟨c, hci, _⟩ := hinv.config.cipher
    have hmi : a.inp.mac = some m := by rw [hmac, hm]
    obtain ⟨hcb, hml⟩ := hinv.sizes (by rw [hl]; decide)
    obtain ⟨h0, _, hbuf, hfed⟩ := hinv.block hl
    have hm0 : 0 ≤ a.maclen := by rw [hml]; omega
    have h8 := in_cipherblk_ge a
    by_cases hread : a.input_eof = false ∧ a.cipherblk ≤ a.in_raw.length
    · obtain ⟨he, hin⟩ := hread
      obtain ⟨_, hrej⟩ := step_a_block unimpl a c m hl hci hmi he hin
      have hac := fun h => hnever a c hreach hl hci
        ((a_block_test_iff a c m h0 hm0 hbuf hfed hin).mp h)
      obtain ⟨habort, hgo⟩ := hrej hac
      by_cases hlim : a.packetlen + (a.cipherblk : Int) ≥ (OUR_V2_PACKETLIMIT : Int)
      · obtain ⟨T, hs, ha⟩ := habort hlim
        exact ⟨_, handle_input_run_signal unimpl f a T _ hs, ha.in_pq.trans hq⟩
      · obtain ⟨T, hs, ht, _, ha⟩ := hgo hlim
        rw [handle_input_run_next unimpl f a T hs]
        refine ih T (Relation.ReflTransGen.tail hreach hs) ht (ha.in_pq.trans hq) ?_
        rw [ha.in_raw, List.length_drop]
        omega
    · have hw : a.input_eof = true ∨ ¬ a.cipherblk ≤ a.in_raw.length := by
        by_cases he : a.input_eof = true
        · exact Or.inl he
        · right
          intro hin
          exact hread ⟨by simpa using he, hin⟩
      rcases step_a_block_wait unimpl a hl hw with h | ⟨sig, h⟩
      · exact ⟨_, handle_input_run_yield unimpl f a a h, hq⟩
      · exact ⟨_, handle_input_run_signal unimpl f a a sig h, hq⟩

/-- C23 (acceptance on the first path). With a CBC cipher and a MAC `m`
outside encrypt-then-MAC mode, from the top of the loop: a run of the
coroutine that returns with the input queue changed, and every resume point
passed at which the queue has changed, is preceded by an acceptance: at some
block boundary, reached with nothing queued, the MAC over the sequence number
followed by all blocks decrypted so far verified against the received bytes
behind them and the decrypted length field was `packetlen - 4`. When this
conjunction holds at no block boundary, the call returns and the input queue
is as it was. The buffer tested holds the blocks decrypted before, the block
just decrypted and behind it the received bytes as they came. -/
theorem C23_path_a_accept (unimpl : PktIn → Bool) (s : ssh2_bpp_state) (m : ssh2_mac)
    (hc : s.crState = cr_label.top) (hcfg : path_a_config s) (hm : s.inp.mac = some m) :
    (∀ fuel r, ssh2_bpp_handle_input_run unimpl fuel s = some r → r.1.in_pq ≠ s.in_pq →
      ∃ a c T, path_a_accepted unimpl s m a T c) ∧
    (∀ a, input_reaches unimpl s a → a.in_pq ≠ s.in_pq →
      ∃ a0 c T, path_a_accepted unimpl s m a0 T c) ∧
    ((∀ a c, input_reaches unimpl s a → a.crState = cr_label.a_block →
        a.inp.cipher = some c →
        ¬ boundary_accepts m a.inp.sequence (a_block_buf a c)
          (a.packetlen + (a.cipherblk : Int)).toNat) →
      ∃ r, ssh2_bpp_handle_input unimpl s = some r ∧ r.1.in_pq = s.in_pq) ∧
    (∀ a c, input_reaches unimpl s a → a.crState = cr_label.a_block →
      a.cipherblk ≤ a.in_raw.length →
      ((a_block_buf a c).length : Int) = a.packetlen + (a.cipherblk : Int) + a.maclen ∧
      (a_block_buf a c).take a.packetlen.toNat = a.buf.take a.packetlen.toNat ∧
      ((a_block_buf a c).drop a.packetlen.toNat).take a.cipherblk =
        in_place a.cipherblk (c.decrypt c.ctx
          ((a.buf.drop a.packetlen.toNat ++ a.in_raw.take a.cipherblk).take a.cipherblk)).2 ∧
      (a_block_buf a c).drop (a.packetlen + (a.cipherblk : Int)).toNat =
        (a.buf.drop a.packetlen.toNat ++ a.in_raw.take a.cipherblk).drop a.cipherblk) := by
  refine ⟨?_, ?_, ?_, ?_⟩
  · intro fuel r hrun hne
    rcases path_a_run_queue unimpl s m hc hcfg hm fuel s r Relation.ReflTransGen.refl hrun with
      h | h
    · exact absurd h hne
    · exact h
  · intro a hreach hne
    rcases path_a_reach_queue unimpl s a m hc hcfg hm hreach with h | h
    · exact absurd h.1 hne
    · exact h
  · intro hnever
    have hinv := path_a_inv_top s hc hcfg
    have h1 : ssh2_bpp_handle_input_step unimpl s =
        step_result.next (input_path s cr_label.a_mac) := by
      simp only [ssh2_bpp_handle_input_step, hc, input_select_a s hcfg]
    have hr1 : input_reaches unimpl s (input_path s cr_label.a_mac) :=
      Relation.ReflTransGen.tail Relation.ReflTransGen.refl h1
    unfold ssh2_bpp_handle_input
    have hfuel : 2 * s.in_raw.length + 4 = (2 * s.in_raw.length + 2) + 1 + 1 := by omega
    rw [hfuel, handle_input_run_next unimpl _ s _ h1]
    rcases step_a_mac unimpl (input_path s cr_label.a_mac) rfl with h | h | h
    · obtain ⟨sig, hs⟩ := h.2
      exact ⟨_, handle_input_run_signal unimpl _ _ _ sig hs, rfl⟩
    · exact ⟨_, handle_input_run_yield unimpl _ _ _ h.2.2, rfl⟩
    · obtain ⟨_, _, T, hs, t1, _, _, _, _, _, _, t8, t9, _⟩ := h
      rw [handle_input_run_next unimpl _ _ T hs]
      refine path_a_never_loop unimpl s m hc hcfg hm hnever _ T
        (Relation.ReflTransGen.tail hr1 hs) t1 t8 ?_
      rw [t9, List.length_drop]
      show s.in_raw.length - _ < _
      omega
  · intro a c hreach hl hin
    obtain ⟨hinv, _, _⟩ := path_a_inv_reach unimpl s a hc hcfg hreach
    obtain ⟨_, hml⟩ := hinv.sizes (by rw [hl]; decide)
    obtain ⟨h0, _, hbuf, _⟩ := hinv.block hl
    exact a_block_buf_spec a c h0 (by rw [hml]; omega) hbuf hin

/-- C23 on an engine with a CBC cipher of block size 8 and a MAC of 2 bytes
and 18 bytes of input that pass the test at no block boundary: the call
returns after two blocks, waiting for more input, with nothing queued. -/
theorem C23_path_a_accept_witness :
    path_a_config cbc_example ∧
    (∀ a, input_reaches (fun _ => false) cbc_example a → a.in_pq ≠ cbc_example.in_pq →
      ∃ a0 c T, path_a_accepted (fun _ => false) cbc_example (mac_example 2) a0 T c) ∧
    (ssh2_bpp_handle_input (fun _ => false) cbc_example).map
      (fun r => (r.1.in_pq, r.2, r.1.packetlen, r.1.in_raw)) = some ([], none, 16, []) :=
  ⟨⟨⟨_, rfl, rfl⟩, ⟨_, rfl⟩, rfl⟩,
    (C23_path_a_accept (fun _ => false) cbc_example (mac_example 2) rfl
      ⟨⟨_, rfl, rfl⟩, ⟨_, rfl⟩, rfl⟩ rfl).2.1, by decide⟩


/-! ## Encrypt-then-MAC with a cipher that encrypts the length field -/

/-- With a MAC in encrypt-then-MAC mode the top of the loop takes the second
path. -/
theorem input_select_b (s : ssh2_bpp_state) (m : ssh2_mac) (hm : s.inp.mac = some m)
    (he : s.inp.etm_mode = true) : input_select s = cr_label.b_len := by
  unfold input_select
  rw [hm]
  cases s.inp.cipher <;> simp [he]

/-- The first stretch of the second path with a cipher that has
`SSH_CIPHER_SEPARATE_LENGTH` and four bytes in the input: the length is read
from a decrypted copy of them, a bad length aborts, a good one goes on with
the four bytes in the packet as they were received. -/
theorem step_b_len (unimpl : PktIn → Bool) (p : ssh2_bpp_state) (c : ssh2_cipher)
    (hc : p.crState = cr_label.b_len) (hci : p.inp.cipher = some c)
    (hf : has_flag c.flags SSH_CIPHER_SEPARATE_LENGTH = true) (he : p.input_eof = false)
    (hin : 4 ≤ p.in_raw.length) :
    ((etm_length c p.inp.sequence p.in_raw < 0 ∨
        etm_length c p.inp.sequence p.in_raw > (OUR_V2_PACKETLIMIT : Int) ∨
        etm_length c p.inp.sequence p.in_raw % (p.cipherblk : Int) ≠ 0) →
      ∃ T, ssh2_bpp_handle_input_step unimpl p = step_result.signal T
          (bpp_signal.sw_abort "Incoming packet length field was garbled") ∧
        T.in_pq = p.in_pq) ∧
    (¬ (etm_length c p.inp.sequence p.in_raw < 0 ∨
        etm_length c p.inp.sequence p.in_raw > (OUR_V2_PACKETLIMIT : Int) ∨
        etm_length c p.inp.sequence p.in_raw % (p.cipherblk : Int) ≠ 0) →
      ∃ T, ssh2_bpp_handle_input_step unimpl p = step_result.next T ∧
        T.crState = cr_label.b_rest ∧ T.len = etm_length c p.inp.sequence p.in_raw ∧
        T.packetlen = etm_length c p.inp.sequence p.in_raw + 4 ∧
        T.data = p.in_raw.take 4 ∧ T.in_raw = p.in_raw.drop 4 ∧
        T.inp.mac = p.inp.mac ∧ T.inp.sequence = p.inp.sequence ∧
        T.maclen = p.maclen ∧ T.input_eof = false ∧ T.in_pq = p.in_pq) := by
  have h44 : (p.in_raw.take 4).take 4 = p.in_raw.take 4 := by
    rw [List.take_take, Nat.min_self]
  simp only [ssh2_bpp_handle_input_step, hc]
  rw [BPP_READ_ok _ _ _ he hin]
  simp only [hci, hf, if_true, etm_length, h44]
  constructor
  · intro hbad
    rw [if_pos hbad]
    exact ⟨_, rfl, rfl⟩
  · intro hgood
    rw [if_neg hgood]
    exact ⟨_, rfl, rfl, rfl, rfl, rfl, rfl, rfl, rfl, rfl, he, rfl⟩

/-- The second stretch of the second path with the rest of the packet and
its MAC in the input: the MAC is checked over the four bytes kept and the
bytes read, before anything is decrypted. -/
theorem step_b_rest (unimpl : PktIn → Bool) (S : ssh2_bpp_state) (m : ssh2_mac)
    (hc : S.crState = cr_label.b_rest) (hmi : S.inp.mac = some m) (he : S.input_eof = false)
    (hin : (S.packetlen + S.maclen - 4).toNat ≤ S.in_raw.length) :
    (ssh2_mac_verify m (S.data.take 4 ++ S.in_raw.take (S.packetlen + S.maclen - 4).toNat)
        (S.len + 4).toNat S.inp.sequence = false →
      ∃ T, ssh2_bpp_handle_input_step unimpl S = step_result.signal T
          (bpp_signal.sw_abort "Incorrect MAC received on packet") ∧
        T.in_pq = S.in_pq) ∧
    (ssh2_mac_verify m (S.data.take 4 ++ S.in_raw.take (S.packetlen + S.maclen - 4).toNat)
        (S.len + 4).toNat S.inp.sequence = true →
      ∃ T, ssh2_bpp_handle_input_step unimpl S = step_result.next T ∧
        T.crState = cr_label.tail ∧ T.in_pq = S.in_pq ∧ T.len = S.len ∧
        T.data = (in_decrypt S
          (S.data.take 4 ++ S.in_raw.take (S.packetlen + S.maclen - 4).toNat) 4
          (S.packetlen - 4).toNat).2) := by
  simp only [ssh2_bpp_handle_input_step, hc]
  rw [BPP_READ_ok _ _ _ he hin]
  simp only [in_mac_fails, hmi]
  constructor
  · intro hv
    simp only [hv, Bool.not_false, if_true]
    exact ⟨_, rfl, rfl⟩
  · intro hv
    simp only [hv, Bool.not_true, Bool.false_eq_true, if_false]
    refine ⟨_, rfl, rfl, ?_, ?_, ?_⟩
    · exact (in_decrypt_fields _ _ _ _).1
    · show (in_decrypt _ _ _ _).1.len = _
      unfold in_decrypt
      cases S.inp.cipher <;> rfl
    · exact in_decrypt_data_congr S _ _ _ _ rfl

/-- A cipher operation in place on the middle part of a buffer, whatever the
length of what the handle returns. -/
theorem cipher_apply_split (op : List Nat → List Nat → List Nat × List Nat) (c : ssh2_cipher)
    (a b t : List Nat) (lo n : Nat) (ha : a.length = lo) (hb : b.length = n) :
    cipher_apply op c (a ++ b ++ t) lo n =
      ({ c with ctx := (op c.ctx b).1 }, a ++ in_place n (op c.ctx b).2 ++ t) := by
  have h1 : ((a ++ b ++ t).drop lo).take n = b := by
    rw [List.append_assoc, List.drop_left' ha, List.take_left' hb]
  have h2 : (a ++ b ++ t).take lo = a := by
    rw [List.append_assoc, List.take_left' ha]
  have h3 : (a ++ b ++ t).drop (lo + n) = t := by
    rw [List.drop_left' (by rw [List.length_append, ha, hb])]
  unfold cipher_apply
  rw [h1, h2, h3, hb]

/-- The frame in encrypt-then-MAC mode with a cipher that encrypts the length
field: the encrypted length field, the encrypted body, and the MAC of the
sequence number and these bytes as they go on the wire. -/
theorem format_etm_wire (o : ssh2_bpp_state) (pkt : PktOut) (enc : ssh2_cipher) (m : ssh2_mac)
    (r : ssh2_bpp_state × PktOut)
    (hoc : o.out.cipher = some enc)
    (hof : has_flag enc.flags SSH_CIPHER_SEPARATE_LENGTH = true)
    (hom : o.out.mac = some m) (hoe : o.out.etm_mode = true)
    (h5 : 5 ≤ (format_compress o pkt).2.length)
    (hfmt : ssh2_bpp_format_packet_inner o pkt = some r) :
    r.2.data =
      (etm_wire_length enc o.out.sequence (out_cleartext o pkt) ++
        etm_wire_body enc o.out.sequence (out_cleartext o pkt)) ++
      mac_result m (PUT_32BIT (o.out.sequence % 4294967296) ++
        (etm_wire_length enc o.out.sequence (out_cleartext o pkt) ++
          etm_wire_body enc o.out.sequence (out_cleartext o pkt))) ∧
    (etm_wire_length enc o.out.sequence (out_cleartext o pkt) ++
        etm_wire_body enc o.out.sequence (out_cleartext o pkt)).length =
      (out_cleartext o pkt).length := by
  obtain ⟨_, hdata, _, _⟩ := format_packet_inner_frame o pkt r hfmt
  obtain ⟨_, hcl⟩ := out_cleartext_shape o pkt h5
  have h4 := (out_padding_spec o (format_compress o pkt).2.length (by
    have : out_unencrypted o ≤ 4 := by unfold out_unencrypted; split_ifs <;> omega
    omega)).1
  rw [← hcl] at hdata
  generalize out_cleartext o pkt = clear at *
  have hlen : 9 ≤ clear.length := by omega
  have hml : out_maclen o = m.len := by unfold out_maclen; rw [hom]
  have ht4 : (clear.take 4).length = 4 := by rw [List.length_take]; omega
  have hd4 : (clear.drop 4).length = clear.length - 4 := List.length_drop 4 clear
  have hs := cipher_apply_split (fun ctx b => enc.encrypt_length ctx b o.out.sequence) enc
    [] (clear.take 4) (clear.drop 4) 0 4 rfl ht4
  rw [List.nil_append, List.take_append_drop, List.nil_append] at hs
  have hwl : (etm_wire_length enc o.out.sequence clear).length = 4 := in_place_length _ _
  have hwb : (etm_wire_body enc o.out.sequence clear).length = clear.length - 4 :=
    in_place_length _ _
  have hX : (etm_wire_length enc o.out.sequence clear ++
      etm_wire_body enc o.out.sequence clear).length = clear.length := by
    rw [List.length_append, hwl, hwb]; omega
  refine ⟨?_, hX⟩
  rw [hdata]
  have hs2 := cipher_apply_split enc.encrypt
    { enc with ctx := (enc.encrypt_length enc.ctx (clear.take 4) o.out.sequence).1 }
    (etm_wire_length enc o.out.sequence clear) (clear.drop 4) (List.replicate m.len 0) 4
    (clear.length - 4) hwl hd4
  have hs3 : in_place 4 (enc.encrypt_length enc.ctx (clear.take 4) o.out.sequence).2 =
      etm_wire_length enc o.out.sequence clear := rfl
  simp only [format_encrypt_length, hoc, hof, if_true, ssh2_cipher_encrypt_length, hs, hs3,
    format_crypt, hom, hoe, ssh2_cipher_encrypt, hml, hs2]
  have hs4 : in_place (clear.length - 4)
      (enc.encrypt (enc.encrypt_length enc.ctx (clear.take 4) o.out.sequence).1
        (clear.drop 4)).2 = etm_wire_body enc o.out.sequence clear := rfl
  rw [hs4]
  have hgen := mac_generate_eq m (etm_wire_length enc o.out.sequence clear ++
    etm_wire_body enc o.out.sequence clear) o.out.sequence
  rw [hX] at hgen
  exact hgen

/-- The MAC check of the second path, on the four bytes kept as received and
the rest of the packet read behind them, is the check of the specification
on the received bytes. -/
theorem etm_verify_iff (m : ssh2_mac) (seq : Nat) (F : List Nat) (len : Nat) :
    ssh2_mac_verify m ((F.take 4).take 4 ++ (F.drop 4).take (len + m.len)) (len + 4) seq = true ↔
      etm_mac_ok m seq F len := by
  have hdata : (F.take 4).take 4 ++ (F.drop 4).take (len + m.len) = F.take (4 + (len + m.len)) := by
    rw [List.take_take, Nat.min_self, ← List.take_add]
  have htk : (F.take (4 + (len + m.len))).take (len + 4) = F.take (len + 4) := by
    rw [List.take_take, Nat.min_eq_left (by omega)]
  have hdr : ((F.take (4 + (len + m.len))).drop (len + 4)).take m.len =
      (F.drop (len + 4)).take m.len := by
    rw [List.drop_take, List.take_take]
    congr 1
    omega
  unfold ssh2_mac_verify etm_mac_ok
  rw [hdata, htk, hdr]
  exact beq_iff_eq

/-- Decryption in place from an offset leaves the bytes in front of it. -/
theorem in_decrypt_take (S : ssh2_bpp_state) (d : List Nat) (lo n : Nat) (h : lo ≤ d.length) :
    (in_decrypt S d lo n).2.take lo = d.take lo := by
  unfold in_decrypt
  cases S.inp.cipher with
  | none => rfl
  | some c =>
    simp only [ssh2_cipher_decrypt, cipher_apply]
    rw [List.append_assoc, List.take_left' (by rw [List.length_take]; omega)]

/-- C25 (encrypt-then-MAC with a cipher that encrypts the length field). On
output, with such a cipher and a MAC in encrypt-then-MAC mode, the frame is
the length field encrypted with the sequence number, the encrypted body, and
the MAC of the sequence number followed by exactly these bytes as they go on
the wire. On input on the second path (`len` is the length obtained by
decrypting a copy of the first four received bytes with the current sequence
number): a bad `len` aborts with "Incoming packet length field was garbled";
otherwise, with the packet and its MAC in the input, the MAC is verified over
the received bytes `[0, len + 4)` unmodified before anything is decrypted: if
it fails the session is aborted with "Incorrect MAC received on packet" and
nothing is queued, if it passes the packet goes on to the common tail with
the first four bytes still as received. When the input starts with the
sender's frame, the sequence numbers agree and `len` is the length the sender
framed, the bytes the receiver verifies are the bytes the sender
authenticated, and the check passes. -/
theorem C25_etm_separate_length (unimpl : PktIn → Bool) (o i : ssh2_bpp_state) (pkt : PktOut)
    (enc dec : ssh2_cipher) (m : ssh2_mac)
    (hoc : o.out.cipher = some enc)
    (hof : has_flag enc.flags SSH_CIPHER_SEPARATE_LENGTH = true)
    (hom : o.out.mac = some m) (hoe : o.out.etm_mode = true)
    (h5 : 5 ≤ (format_compress o pkt).2.length)
    (hpad : out_padding o (format_compress o pkt).2.length ≤ 255)
    (hic : i.inp.cipher = some dec)
    (hif : has_flag dec.flags SSH_CIPHER_SEPARATE_LENGTH = true)
    (him : i.inp.mac = some m) (hie : i.inp.etm_mode = true)
    (hc : i.crState = cr_label.top) (he : i.input_eof = false) (h4 : 4 ≤ i.in_raw.length) :
    (∃ r, ssh2_bpp_format_packet_inner o pkt = some r ∧
      r.2.data =
        (etm_wire_length enc o.out.sequence (out_cleartext o pkt) ++
          etm_wire_body enc o.out.sequence (out_cleartext o pkt)) ++
        mac_result m (PUT_32BIT (o.out.sequence % 4294967296) ++
          (etm_wire_length enc o.out.sequence (out_cleartext o pkt) ++
            etm_wire_body enc o.out.sequence (out_cleartext o pkt)))) ∧
    ((etm_length dec i.inp.sequence i.in_raw < 0 ∨
        etm_length dec i.inp.sequence i.in_raw > (OUR_V2_PACKETLIMIT : Int) ∨
        etm_length dec i.inp.sequence i.in_raw % (in_cipherblk i : Int) ≠ 0) →
      ∃ s1, ssh2_bpp_handle_input unimpl i = some (s1, some
          (bpp_signal.sw_abort "Incoming packet length field was garbled")) ∧
        s1.in_pq = i.in_pq) ∧
    (¬ (etm_length dec i.inp.sequence i.in_raw < 0 ∨
        etm_length dec i.inp.sequence i.in_raw > (OUR_V2_PACKETLIMIT : Int) ∨
        etm_length dec i.inp.sequence i.in_raw % (in_cipherblk i : Int) ≠ 0) →
      (etm_length dec i.inp.sequence i.in_raw).toNat + 4 + m.len ≤ i.in_raw.length →
      (etm_mac_ok m i.inp.sequence i.in_raw (etm_length dec i.inp.sequence i.in_raw).toNat →
        ∃ T, (∀ fuel, ssh2_bpp_handle_input_run unimpl (fuel + 3) i =
            ssh2_bpp_handle_input_run unimpl fuel T) ∧
          T.crState = cr_label.tail ∧ T.in_pq = i.in_pq ∧
          T.len = etm_length dec i.inp.sequence i.in_raw ∧
          T.data.take 4 = i.in_raw.take 4) ∧
      (¬ etm_mac_ok m i.inp.sequence i.in_raw (etm_length dec i.inp.sequence i.in_raw).toNat →
        ∃ s1, ssh2_bpp_handle_input unimpl i = some (s1, some
            (bpp_signal.sw_abort "Incorrect MAC received on packet")) ∧
          s1.in_pq = i.in_pq)) ∧
    (∀ rest : List Nat,
      i.in_raw = (etm_wire_length enc o.out.sequence (out_cleartext o pkt) ++
          etm_wire_body enc o.out.sequence (out_cleartext o pkt)) ++
        mac_result m (PUT_32BIT (o.out.sequence % 4294967296) ++
          (etm_wire_length enc o.out.sequence (out_cleartext o pkt) ++
            etm_wire_body enc o.out.sequence (out_cleartext o pkt))) ++ rest →
      i.inp.sequence = o.out.sequence →
      etm_length dec i.inp.sequence i.in_raw =
        ((etm_wire_length enc o.out.sequence (out_cleartext o pkt) ++
          etm_wire_body enc o.out.sequence (out_cleartext o pkt)).length : Int) - 4 →
      i.in_raw.take ((etm_length dec i.inp.sequence i.in_raw).toNat + 4) =
          etm_wire_length enc o.out.sequence (out_cleartext o pkt) ++
            etm_wire_body enc o.out.sequence (out_cleartext o pkt) ∧
        etm_mac_ok m i.inp.sequence i.in_raw (etm_length dec i.inp.sequence i.in_raw).toNat) := by
  obtain ⟨r, hr⟩ := format_packet_inner_some o pkt hpad
  obtain ⟨hdata, hX⟩ := format_etm_wire o pkt enc m r hoc hof hom hoe h5 hr
  obtain ⟨_, hcl⟩ := out_cleartext_shape o pkt h5
  have hp4 := (out_padding_spec o (format_compress o pkt).2.length (by
    have : out_unencrypted o ≤ 4 := by unfold out_unencrypted; split_ifs <;> omega
    omega)).1
  have htop : ssh2_bpp_handle_input_step unimpl i =
      step_result.next (input_path i cr_label.b_len) := by
    simp only [ssh2_bpp_handle_input_step, hc, input_select_b i m him hie]
  have hml : in_maclen i = m.len := by unfold in_maclen; rw [him]
  obtain ⟨hbad, hgood⟩ := step_b_len unimpl (input_path i cr_label.b_len) dec rfl hic hif he h4
  refine ⟨⟨r, hr, hdata⟩, ?_, ?_, ?_⟩
  · intro hb
    obtain ⟨T, hT, hq⟩ := hbad hb
    refine ⟨T, ?_, hq⟩
    unfold ssh2_bpp_handle_input
    have hfuel : 2 * i.in_raw.length + 4 = (2 * i.in_raw.length + 2) + 1 + 1 := by omega
    rw [hfuel, handle_input_run_next unimpl _ i _ htop, handle_input_run_signal unimpl _ _ T _ hT]
  · intro hg hall
    obtain ⟨S, hS, s1, s2, s3, s4, s5, s6, s7, s8, s9, s10⟩ := hgood hg
    have hl0 : 0 ≤ etm_length dec i.inp.sequence i.in_raw := by
      by_contra hneg
      exact hg (Or.inl (by omega))
    have hmi : S.inp.mac = some m := by rw [s6]; exact him
    have hs8 : S.maclen = (m.len : Int) := by rw [s8, ← hml]; rfl
    have hn : (S.packetlen + S.maclen - 4).toNat =
        (etm_length dec i.inp.sequence i.in_raw).toNat + m.len := by
      rw [s3, hs8]
      have : etm_length dec (input_path i cr_label.b_len).inp.sequence
          (input_path i cr_label.b_len).in_raw = etm_length dec i.inp.sequence i.in_raw := rfl
      rw [this]
      omega
    have hk : (S.len + 4).toNat = (etm_length dec i.inp.sequence i.in_raw).toNat + 4 := by
      rw [s2]
      have : etm_length dec (input_path i cr_label.b_len).inp.sequence
          (input_path i cr_label.b_len).in_raw = etm_length dec i.inp.sequence i.in_raw := rfl
      rw [this]
      omega
    have hin : (S.packetlen + S.maclen - 4).toNat ≤ S.in_raw.length := by
      rw [hn, s5, List.length_drop]
      show _ ≤ i.in_raw.length - 4
      omega
    obtain ⟨hfail, hok⟩ := step_b_rest unimpl S m s1 hmi s9 hin
    have hdat : S.data.take 4 ++ S.in_raw.take (S.packetlen + S.maclen - 4).toNat =
        (i.in_raw.take 4).take 4 ++
          (i.in_raw.drop 4).take ((etm_length dec i.inp.sequence i.in_raw).toNat + m.len) := by
      rw [hn, s4, s5]
      rfl
    have hseq : S.inp.sequence = i.inp.sequence := s7
    rw [hdat, hk, hseq] at hfail hok
    constructor
    · intro hmac
      obtain ⟨T, hT, t1, t2, t3, t4⟩ := hok ((etm_verify_iff m _ _ _).mpr hmac)
      refine ⟨T, ?_, t1, t2.trans s10, ?_, ?_⟩
      · intro fuel
        rw [handle_input_run_next unimpl (fuel + 2) i _ htop,
          handle_input_run_next unimpl (fuel + 1) _ S hS,
          handle_input_run_next unimpl fuel S T hT]
      · rw [t3, s2]
        rfl
      · rw [t4, in_decrypt_take _ _ _ _ (by
          rw [List.length_append, List.take_take, Nat.min_self, List.length_take]; omega),
          List.take_append_of_le_length (by
            rw [List.take_take, Nat.min_self, List.length_take]; omega),
          List.take_take, List.take_take, Nat.min_self, Nat.min_self]
    · intro hmac
      have hv : ssh2_mac_verify m ((i.in_raw.take 4).take 4 ++ (i.in_raw.drop 4).take
          ((etm_length dec i.inp.sequence i.in_raw).toNat + m.len))
          ((etm_length dec i.inp.sequence i.in_raw).toNat + 4) i.inp.sequence = false := by
        cases hh : ssh2_mac_verify m ((i.in_raw.take 4).take 4 ++ (i.in_raw.drop 4).take
          ((etm_length dec i.inp.sequence i.in_raw).toNat + m.len))
          ((etm_length dec i.inp.sequence i.in_raw).toNat + 4) i.inp.sequence
        · rfl
        · exact absurd ((etm_verify_iff m _ _ _).mp hh) hmac
      obtain ⟨T, hT, t1⟩ := hfail hv
      refine ⟨T, ?_, t1.trans s10⟩
      unfold ssh2_bpp_handle_input
      have hfuel : 2 * i.in_raw.length + 4 = (2 * i.in_raw.length + 1) + 1 + 1 + 1 := by omega
      rw [hfuel, handle_input_run_next unimpl _ i _ htop,
        handle_input_run_next unimpl _ _ S hS, handle_input_run_signal unimpl _ S T _ hT]
  · intro rest hF hseq hlen
    have hX9 : 9 ≤ (etm_wire_length enc o.out.sequence (out_cleartext o pkt) ++
        etm_wire_body enc o.out.sequence (out_cleartext o pkt)).length := by
      rw [hX, hcl]; omega
    generalize etm_wire_length enc o.out.sequence (out_cleartext o pkt) ++
        etm_wire_body enc o.out.sequence (out_cleartext o pkt) = X at *
    have hk : (etm_length dec i.inp.sequence i.in_raw).toNat + 4 = X.length := by
      rw [hlen]; omega
    have htag : (mac_result m (PUT_32BIT (o.out.sequence % 4294967296) ++ X)).length = m.len :=
      mac_result_length m _
    have htake : i.in_raw.take X.length = X := by
      rw [hF, List.append_assoc, List.take_left' rfl]
    refine ⟨by rw [hk]; exact htake, ?_⟩
    unfold etm_mac_ok
    rw [hk, htake, hseq, hF, List.append_assoc, List.drop_left' rfl, List.take_left' htag]

/-- C25 on the toy cipher with `SSH_CIPHER_SEPARATE_LENGTH` and the toy MAC:
the frame of the example packet is the wire bytes followed by their MAC. -/
theorem C25_etm_separate_length_witness :
    ∃ r, ssh2_bpp_format_packet_inner etm_example_out example_pkt = some r ∧
      r.2.data =
        (etm_wire_length (cipher_example 8 SSH_CIPHER_SEPARATE_LENGTH) etm_example_out.out.sequence
            (out_cleartext etm_example_out example_pkt) ++
          etm_wire_body (cipher_example 8 SSH_CIPHER_SEPARATE_LENGTH) etm_example_out.out.sequence
            (out_cleartext etm_example_out example_pkt)) ++
        mac_result (mac_example 2) (PUT_32BIT (etm_example_out.out.sequence % 4294967296) ++
          (etm_wire_length (cipher_example 8 SSH_CIPHER_SEPARATE_LENGTH)
              etm_example_out.out.sequence (out_cleartext etm_example_out example_pkt) ++
            etm_wire_body (cipher_example 8 SSH_CIPHER_SEPARATE_LENGTH)
              etm_example_out.out.sequence (out_cleartext etm_example_out example_pkt))) :=
  (C25_etm_separate_length (fun _ => false) etm_example_out etm_example_in example_pkt
    (cipher_example 8 SSH_CIPHER_SEPARATE_LENGTH) (cipher_example 8 SSH_CIPHER_SEPARATE_LENGTH)
    (mac_example 2) rfl rfl rfl rfl (by decide) (by decide) rfl rfl rfl rfl rfl rfl
    (by decide)).1

/-! ## The capacity of an outgoing SFTP packet -/

/-- The length of the example run. -/
theorem overflow_example_data_length : overflow_example_data.length = 858993460 :=
  List.length_replicate 858993460 0

/-- A write that grows the buffer: the assertion passes, the new length is the
sum, and the new capacity is `newlen * 5 / 4 + 256` in 32 bits. -/
theorem sftp_pkt_write_grown (pkt : sftp_pktout) (data : List Nat)
    (hl : pkt.length < 4294967296)
    (ha : data.length ≤ 4294967295 - pkt.length) (hg : pkt.maxlen < pkt.length + data.length) :
    sftp_pkt_BinarySink_write pkt data =
      some { data := pkt.data ++ data, length := pkt.length + data.length,
             maxlen := sftp_pkt_grow (pkt.length + data.length) } := by
  have hlt : pkt.length + data.length < 4294967296 := by omega
  unfold sftp_pkt_BinarySink_write
  rw [if_pos ha]
  simp only [Nat.mod_eq_of_lt hlt]
  rw [if_pos hg]

/-- The grown capacity holds the new length exactly when five times the new
length fits 32 bits, that is for new lengths up to 858,993,459. -/
theorem sftp_pkt_grow_fits (newlen : Nat) (h : newlen < 4294967296) :
    newlen ≤ sftp_pkt_grow newlen ↔ newlen ≤ 858993459 := by
  unfold sftp_pkt_grow
  have hb : newlen * 5 % 4294967296 / 4 + 256 < 4294967296 := by omega
  rw [Nat.mod_eq_of_lt hb]
  have hm := Nat.div_add_mod (newlen * 5) 4294967296
  have hq : newlen * 5 / 4294967296 ≤ 4 := by omega
  generalize newlen * 5 / 4294967296 = q at hm hq
  interval_cases q <;> omega

/-- Where a write grows the buffer and the new length is at most 858,993,459,
the bytes fit the new capacity. -/
theorem sftp_pkt_write_fits (pkt : sftp_pktout) (data : List Nat)
    (ha : data.length ≤ 4294967295 - pkt.length) (hg : pkt.maxlen < pkt.length + data.length)
    (hs : pkt.length + data.length ≤ 858993459) :
    ∃ p, sftp_pkt_BinarySink_write pkt data = some p ∧ p.length ≤ p.maxlen ∧
      p.data.length = pkt.data.length + data.length := by
  refine ⟨_, sftp_pkt_write_grown pkt data (by omega) ha hg, ?_, ?_⟩
  · exact (sftp_pkt_grow_fits (pkt.length + data.length) (by omega)).mpr hs
  · simp

/-- A first write of `n` bytes to a fresh packet: the capacity, the length and
the number of bytes in the buffer afterwards. -/
theorem sftp_pkt_write_first (data : List Nat) (n : Nat) (hn : data.length = n)
    (h0 : 0 < n) (h1 : n ≤ 4294967295) :
    data.length ≤ 4294967295 - sftp_pktout_empty.length ∧
    (sftp_pkt_BinarySink_write sftp_pktout_empty data).map
      (fun p => (p.maxlen, p.length, p.data.length)) = some (sftp_pkt_grow n, n, n) := by
  subst hn
  have ha : data.length ≤ 4294967295 - sftp_pktout_empty.length := h1
  refine ⟨ha, ?_⟩
  rw [sftp_pkt_write_grown sftp_pktout_empty data (by decide) ha
    (by show 0 < 0 + data.length; omega)]
  rw [Option.map_some', show sftp_pktout_empty.length = 0 from rfl,
    show sftp_pktout_empty.data = [] from rfl, Nat.zero_add, List.nil_append]

/-- C40 (failing input): a write of 858,993,460 bytes to a fresh packet
satisfies the assertion `length <= 0xFFFFFFFF - pkt->length`, and
`sftp_pkt_BinarySink_write` grows the buffer to a capacity of `maxlen = 257`
bytes (858,993,460 * 5 is 4 modulo 2^32), fewer than the 858,993,460 bytes
that it then copies into the buffer. -/
theorem C40_capacity_wraps :
    overflow_example_data.length ≤ 4294967295 - sftp_pktout_empty.length ∧
    (sftp_pkt_BinarySink_write sftp_pktout_empty overflow_example_data).map
      (fun p => (p.maxlen, p.length, p.data.length)) = some (257, 858993460, 858993460) :=
  sftp_pkt_write_first overflow_example_data 858993460 overflow_example_data_length
    (by norm_num) (by norm_num)

/-! ## The packet buffer of the second input path -/

/-- The first stretch of the second path without a cipher and with four bytes
in the input: the length is read from them as they are; a length that passes
the sanity check goes on to the read of the rest. -/
theorem step_b_len_clear (unimpl : PktIn → Bool) (p : ssh2_bpp_state)
    (hc : p.crState = cr_label.b_len) (hci : p.inp.cipher = none) (he : p.input_eof = false)
    (hin : 4 ≤ p.in_raw.length)
    (hgood : ¬ (toint (GET_32BIT p.in_raw) < 0 ∨
      toint (GET_32BIT p.in_raw) > (OUR_V2_PACKETLIMIT : Int) ∨
      toint (GET_32BIT p.in_raw) % (p.cipherblk : Int) ≠ 0)) :
    ∃ T, ssh2_bpp_handle_input_step unimpl p = step_result.next T ∧
      T.crState = cr_label.b_rest ∧ T.len = toint (GET_32BIT p.in_raw) ∧
      T.packetlen = toint (GET_32BIT p.in_raw) + 4 ∧
      T.data = p.in_raw.take 4 ∧ T.in_raw = p.in_raw.drop 4 ∧
      T.inp = p.inp ∧ T.maclen = p.maclen ∧ T.input_eof = false := by
  simp only [ssh2_bpp_handle_input_step, hc]
  rw [BPP_READ_ok _ _ _ he hin]
  simp only [hci, GET_32BIT_take p.in_raw 4 (le_refl 4)]
  rw [if_neg hgood]
  exact ⟨_, rfl, rfl, rfl, rfl, rfl, rfl, rfl, rfl, he⟩

/-- The second stretch of the second path without a cipher and with the
announced bytes in the input: they are read behind the four bytes kept before
the MAC is looked at, so whether the MAC check aborts or the packet goes on,
the data area holds `4 + (packetlen + maclen - 4)` bytes. -/
theorem step_b_rest_stored (unimpl : PktIn → Bool) (S : ssh2_bpp_state)
    (hc : S.crState = cr_label.b_rest) (hci : S.inp.cipher = none) (he : S.input_eof = false)
    (hd : S.data.length = 4)
    (hin : (S.packetlen + S.maclen - 4).toNat ≤ S.in_raw.length) :
    ∃ T, (ssh2_bpp_handle_input_step unimpl S = step_result.signal T
          (bpp_signal.sw_abort "Incorrect MAC received on packet") ∨
        ssh2_bpp_handle_input_step unimpl S = step_result.next T) ∧
      T.data.length = 4 + (S.packetlen + S.maclen - 4).toNat ∧
      T.in_raw = S.in_raw.drop (S.packetlen + S.maclen - 4).toNat := by
  have hlen : (S.data.take 4 ++ S.in_raw.take (S.packetlen + S.maclen - 4).toNat).length =
      4 + (S.packetlen + S.maclen - 4).toNat := by
    rw [List.length_append, List.length_take, List.length_take, hd]
    omega
  simp only [ssh2_bpp_handle_input_step, hc]
  rw [BPP_READ_ok _ _ _ he hin]
  simp only [in_decrypt, hci]
  split_ifs
  · exact ⟨_, Or.inl rfl, hlen, rfl⟩
  · exact ⟨_, Or.inr rfl, hlen, rfl⟩

/-- A frame whose length field is `OUR_V2_PACKETLIMIT` on the second path
without a cipher: the length passes the sanity check, and the bytes stored in
the data area are four more than were allocated for it. -/
theorem path_b_limit_frame (unimpl : PktIn → Bool) (p : ssh2_bpp_state) (rest : List Nat)
    (n : Nat) (hc : p.crState = cr_label.b_len) (hci : p.inp.cipher = none)
    (he : p.input_eof = false) (hin : p.in_raw = PUT_32BIT 262144 ++ rest)
    (hblk : p.cipherblk = 8) (hmac : p.maclen = (n : Int)) (hrest : rest.length = 262144 + n) :
    ∃ S T, ssh2_bpp_handle_input_step unimpl p = step_result.next S ∧
      S.crState = cr_label.b_rest ∧ S.len = 262144 ∧
      path_b_alloc S = 262144 + (n : Int) ∧ path_b_stored S = 262148 + (n : Int) ∧
      (ssh2_bpp_handle_input_step unimpl S = step_result.signal T
          (bpp_signal.sw_abort "Incorrect MAC received on packet") ∨
        ssh2_bpp_handle_input_step unimpl S = step_result.next T) ∧
      T.data.length = 262148 + n ∧ T.in_raw = [] := by
  have hg : GET_32BIT p.in_raw = 262144 := by
    rw [hin]; exact GET_PUT_32BIT 262144 rest (by norm_num)
  have ht : toint (GET_32BIT p.in_raw) = 262144 := by
    rw [hg]; exact toint_small 262144 (by norm_num)
  have hl : p.in_raw.length = 4 + (262144 + n) := by
    rw [hin, List.length_append, PUT_32BIT_length, hrest]
  obtain ⟨S, h1, h2, h3, h4, h5, h6, h7, h8, h9⟩ :=
    step_b_len_clear unimpl p hc hci he (by omega) (by
      rw [ht, hblk]
      simp only [OUR_V2_PACKETLIMIT]
      omega)
  rw [ht] at h3 h4
  have hrd : (S.packetlen + S.maclen - 4).toNat = 262144 + n := by
    rw [h4, h8, hmac]; omega
  have hSin : S.in_raw = rest := by
    rw [h6, hin, List.drop_append_of_le_length (by rw [PUT_32BIT_length]),
      List.drop_of_length_le (by rw [PUT_32BIT_length]), List.nil_append]
  obtain ⟨T, k1, k2, k3⟩ := step_b_rest_stored unimpl S h2 (by rw [h7]; exact hci) h9
    (by rw [h5, List.length_take, hl]; omega) (by rw [hrd, hSin, hrest])
  refine ⟨S, T, h1, h2, h3, ?_, ?_, k1, ?_, ?_⟩
  · unfold path_b_alloc
    rw [h8, hmac]; rfl
  · unfold path_b_stored
    rw [h4, h8, hmac]; omega
  · rw [k2, hrd]; omega
  · rw [k3, hrd, hSin, ← hrest, List.drop_length]

/-- The length of the example bytes. -/
theorem path_b_example_rest_length : path_b_example_rest.length = 262144 + 2 :=
  List.length_replicate 262146 0

/-- C35 (failing input): on the second input path (encrypt-then-MAC, no
cipher, MAC of 2 bytes, block size 8) a frame whose length field is
262,144 = `OUR_V2_PACKETLIMIT` passes the sanity check
(`0 <= len <= OUR_V2_PACKETLIMIT`, `len mod 8 = 0`); the data area is
allocated with `OUR_V2_PACKETLIMIT + maclen = 262,146` bytes and
`4 + (packetlen + maclen - 4) = 262,150` bytes are stored into it, before the
MAC is checked: whichever way the second stretch ends, the data area holds
262,150 bytes and the input is used up. -/
theorem C35_path_b_overflow :
    ssh2_bpp_handle_input_step (fun _ => false) path_b_start = step_result.next path_b_example ∧
    ∃ S T, ssh2_bpp_handle_input_step (fun _ => false) path_b_example = step_result.next S ∧
      S.crState = cr_label.b_rest ∧ S.len = 262144 ∧
      path_b_alloc S = 262146 ∧ path_b_stored S = 262150 ∧
      (ssh2_bpp_handle_input_step (fun _ => false) S = step_result.signal T
          (bpp_signal.sw_abort "Incorrect MAC received on packet") ∨
        ssh2_bpp_handle_input_step (fun _ => false) S = step_result.next T) ∧
      T.data.length = 262150 ∧ T.in_raw = [] := by
  obtain ⟨S, T, h1, h2, h3, h4, h5, h6, h7, h8⟩ :=
    path_b_limit_frame (fun _ => false) path_b_example path_b_example_rest 2 rfl rfl rfl rfl
      rfl rfl path_b_example_rest_length
  exact ⟨rfl, S, T, h1, h2, h3, by rw [h4]; rfl, by rw [h5]; rfl, h6, h7, h8⟩

/-! ## The CBC workaround flag -/

/-- The flag that `ssh2_bpp_new_outgoing_crypto` sets: a cipher is given, it
has `SSH_CIPHER_IS_CBC`, and the peer lacks `BUG_CHOKES_ON_SSH2_IGNORE`. The
MAC has no part in it. -/
theorem new_outgoing_crypto_flag (s : ssh2_bpp_state) (cipher : Option ssh2_cipher)
    (mac : Option ssh2_mac) (etm_mode : Bool) (comp : Option ssh_compressor) :
    ((ssh2_bpp_new_outgoing_crypto s cipher mac etm_mode comp).cbc_ignore_workaround = true ↔
      ∃ c, cipher = some c ∧ has_flag c.flags SSH_CIPHER_IS_CBC = true ∧
        has_flag s.remote_bugs BUG_CHOKES_ON_SSH2_IGNORE = false) ∧
    (ssh2_bpp_new_outgoing_crypto s cipher mac etm_mode comp).out.cipher = cipher ∧
    (ssh2_bpp_new_outgoing_crypto s cipher mac etm_mode comp).out.mac = mac := by
  refine ⟨?_, rfl, rfl⟩
  cases cipher with
  | none =>
    constructor
    · intro h; exact absurd h (by simp [ssh2_bpp_new_outgoing_crypto])
    · rintro ⟨c, h, _⟩; exact absurd h (by simp)
  | some c =>
    show (has_flag c.flags SSH_CIPHER_IS_CBC &&
      !has_flag s.remote_bugs BUG_CHOKES_ON_SSH2_IGNORE) = true ↔ _
    constructor
    · intro h
      rw [Bool.and_eq_true, Bool.not_eq_true'] at h
      exact ⟨c, rfl, h.1, h.2⟩
    · rintro ⟨c2, h, h1, h2⟩
      cases h
      rw [h1, h2]
      rfl

/-- With the flag set and no MAC installed, `ssh2_bpp_handle_output` has no
MAC to take `len` from: it crashes, whatever else the state holds. -/
theorem handle_output_without_mac (s : ssh2_bpp_state) (hf : s.cbc_ignore_workaround = true)
    (hm : s.out.mac = none) : ssh2_bpp_handle_output s = none := by
  unfold ssh2_bpp_handle_output
  rw [if_pos hf, hm]
  cases s.out.cipher <;> rfl

/-- C36 (failing input): `ssh2_bpp_new_outgoing_crypto` called with a CBC
cipher and `mac == NULL` for a peer without `BUG_CHOKES_ON_SSH2_IGNORE` sets
`cbc_ignore_workaround` with a cipher and no MAC installed, and the next
`ssh2_bpp_handle_output` crashes on `ssh2_mac_alg(s->out.mac)->len`. For every
call the flag is set exactly when a cipher is given that has
`SSH_CIPHER_IS_CBC` and the peer lacks `BUG_CHOKES_ON_SSH2_IGNORE`, so a set
flag has a cipher behind it; it says nothing of the MAC. -/
theorem C36_cbc_flag_without_mac :
    (cbc_no_mac_example.cbc_ignore_workaround = true ∧
      cbc_no_mac_example.out.cipher.isSome = true ∧ cbc_no_mac_example.out.mac.isNone = true ∧
      (ssh2_bpp_handle_output cbc_no_mac_example).isNone = true) ∧
    ∀ (s : ssh2_bpp_state) (cipher : Option ssh2_cipher) (mac : Option ssh2_mac)
      (etm_mode : Bool) (comp : Option ssh_compressor),
      ((ssh2_bpp_new_outgoing_crypto s cipher mac etm_mode comp).cbc_ignore_workaround =
        (cipher.isSome && cipher.any (fun c => has_flag c.flags SSH_CIPHER_IS_CBC) &&
          !has_flag s.remote_bugs BUG_CHOKES_ON_SSH2_IGNORE)) ∧
      (ssh2_bpp_new_outgoing_crypto s cipher mac etm_mode comp).out.cipher = cipher ∧
      (ssh2_bpp_new_outgoing_crypto s cipher mac etm_mode comp).out.mac = mac := by
  refine ⟨⟨rfl, rfl, rfl, ?_⟩, ?_⟩
  · rw [handle_output_without_mac cbc_no_mac_example rfl rfl]
    rfl
  · intro s cipher mac etm_mode comp
    refine ⟨?_, rfl, rfl⟩
    cases cipher with
    | none => rfl
    | some c => rfl

/-! ## Safety of the binary search -/

/-- The search from an interval inside the registry, `low` being -1 or below
`high`: with enough fuel for the width it returns, and every probe on the
way is an index of the registry strictly inside the interval it was computed
from. Nothing is asked of the content of the registry. -/
theorem alloc_search_safe (t : tree234) (hn : t.length < 2147483648) :
    ∀ (fuel low high : Nat), (low = 4294967295 ∨ low < high) → high ≤ t.length →
      high - (low + 1) % 4294967296 + 1 ≤ 2 ^ fuel →
      (∃ low2, alloc_search t (fuel + 1) low high = some low2) ∧
      (∀ p ∈ alloc_probes t (fuel + 1) low high,
        probe_ok t.length p ∧ (index234 t p.2.2).isSome = true) := by
  intro fuel
  induction fuel with
  | zero =>
    intro low high h1 h2 hd
    have hsub := usub32_eq high low (by omega) (by omega)
    have hc : ¬ usub32 high low > 1 := by
      rw [hsub]; simp at hd; omega
    constructor
    · exact ⟨low, by rw [alloc_search]; simp [hc]⟩
    · intro p hp
      rw [alloc_probes] at hp
      simp [hc] at hp
  | succ f ih =>
    intro low high h1 h2 hd
    have hsub := usub32_eq high low (by omega) (by omega)
    by_cases hc : usub32 high low > 1
    · have hc2 := hc
      rw [hsub] at hc2
      have hmidlt : (high + low) % 4294967296 / 2 < high := by omega
      have hmidge : low = 4294967295 ∨ low < (high + low) % 4294967296 / 2 := by omega
      have hmidn : (high + low) % 4294967296 / 2 < t.length := by omega
      obtain ⟨r, hr⟩ : ∃ r, t[(high + low) % 4294967296 / 2]? = some r :=
        ⟨t[(high + low) % 4294967296 / 2], List.getElem?_eq_getElem hmidn⟩
      have hpow : 2 ^ (f + 1) = 2 * 2 ^ f := by rw [pow_succ]; ring
      have hok : probe_ok t.length (low, high, (high + low) % 4294967296 / 2) := by
        refine ⟨hmidn, hmidge, hmidlt, ?_, ?_⟩
        · show usub32 high ((high + low) % 4294967296 / 2) < usub32 high low
          rw [hsub, usub32_eq high _ (by omega) (by omega)]
          omega
        · show usub32 ((high + low) % 4294967296 / 2) low < usub32 high low
          rw [hsub, usub32_eq _ low (by omega) (by omega)]
          omega
      have hidx : (index234 t ((high + low) % 4294967296 / 2)).isSome = true := by
        unfold index234; rw [hr]; rfl
      rw [alloc_search, alloc_probes]
      simp only [hc, if_true, index234, hr]
      by_cases hid : r.id = ((high + low) % 4294967296 / 2 + REQUEST_ID_OFFSET) % 4294967296
      · simp only [hid, if_true]
        obtain ⟨k1, k2⟩ := ih ((high + low) % 4294967296 / 2) high (Or.inr hmidlt) h2
          (by omega)
        refine ⟨k1, ?_⟩
        intro p hp
        rcases List.mem_cons.mp hp with h | h
        · rw [h]; exact ⟨hok, hidx⟩
        · exact k2 p h
      · simp only [hid, if_false]
        obtain ⟨k1, k2⟩ := ih low ((high + low) % 4294967296 / 2) hmidge (by omega)
          (by omega)
        refine ⟨k1, ?_⟩
        intro p hp
        rcases List.mem_cons.mp hp with h | h
        · rw [h]; exact ⟨hok, hidx⟩
        · exact k2 p h
    · constructor
      · exact ⟨low, by rw [alloc_search]; simp [hc]⟩
      · intro p hp
        rw [alloc_probes] at hp
        simp [hc] at hp

/-- C39 (binary search of `sftp_alloc_request`): for every registry of
`n < 2^31` entries, whatever its content, the loop started with
`low = 2^32 - 1` and `high = n` in 32-bit unsigned arithmetic returns (within
the 33 passes that `sftp_alloc_request` is modelled with), and every probe
`mid = (high + low) / 2` on the way satisfies `mid < n`, lies strictly between
`low` (with `2^32 - 1` read as -1) and `high`, finds an entry at `index234`,
and leaves an interval narrower than before whichever way the comparison
goes. -/
theorem C39_search_probes (t : tree234) (hn : t.length < 2147483648) :
    (∃ low, alloc_search t 33 4294967295 (count234 t % 4294967296) = some low) ∧
    ∀ p ∈ alloc_probes t 33 4294967295 (count234 t % 4294967296),
      p.2.2 < t.length ∧ (p.1 = 4294967295 ∨ p.1 < p.2.2) ∧ p.2.2 < p.2.1 ∧
      (index234 t p.2.2).isSome = true ∧
      usub32 p.2.1 p.2.2 < usub32 p.2.1 p.1 ∧ usub32 p.2.2 p.1 < usub32 p.2.1 p.1 := by
  have hcount : count234 t % 4294967296 = t.length := by
    unfold count234; omega
  rw [hcount]
  obtain ⟨h1, h2⟩ := alloc_search_safe t hn 32 4294967295 t.length (Or.inl rfl) (le_refl _)
    (by norm_num; omega)
  refine ⟨h1, ?_⟩
  intro p hp
  obtain ⟨⟨k1, k2, k3, k4, k5⟩, k6⟩ := h2 p hp
  exact ⟨k1, k2, k3, k6, k4, k5⟩

/-- C39 at a registry of five requests with the ids 256, 257, 258, 300, 301:
the probes are the indices 2 and 3, in this order; the search returns
`low = 2`. -/
theorem C39_search_probes_witness :
    probe_example_registry.length < 2147483648 ∧
    alloc_probes probe_example_registry 33 4294967295 5 =
      [(4294967295, 5, 2), (2, 5, 3)] ∧
    alloc_search probe_example_registry 33 4294967295 5 = some 2 ∧
    ((∃ low, alloc_search probe_example_registry 33 4294967295
        (count234 probe_example_registry % 4294967296) = some low) ∧
      ∀ p ∈ alloc_probes probe_example_registry 33 4294967295
          (count234 probe_example_registry % 4294967296),
        p.2.2 < probe_example_registry.length ∧ (p.1 = 4294967295 ∨ p.1 < p.2.2) ∧
        p.2.2 < p.2.1 ∧ (index234 probe_example_registry p.2.2).isSome = true ∧
        usub32 p.2.1 p.2.2 < usub32 p.2.1 p.1 ∧ usub32 p.2.2 p.1 < usub32 p.2.1 p.1) :=
  ⟨by decide, by decide, by decide, C39_search_probes probe_example_registry (by decide)⟩

/-! ## The registry invariant -/

/-- The elements of a registry after a write through a request pointer that
leaves the id alone: the ids are the same, in the same order. -/
theorem update_request_ids (t : tree234) (id : Nat) (f : sftp_request → sftp_request)
    (hf : ∀ r, (f r).id = r.id) :
    (update_request t id f).map (fun r => r.id) = t.map (fun r => r.id) := by
  unfold update_request
  rw [List.map_map]
  apply List.map_congr_left
  intro r _
  show (if r.id = id then f r else r).id = r.id
  split_ifs
  · exact hf r
  · rfl

/-- The tree order of a registry, read off its ids. -/
theorem pairwise_ids (t : tree234) :
    t.Pairwise (fun a b => a.id < b.id) ↔ (t.map (fun r => r.id)).Pairwise (fun a b => a < b) := by
  rw [List.pairwise_map]

/-- The invariant of the registry and its size after one call, when the
count of requests is still an `int`: the ids stay in strictly increasing
order and at least 256, and only an allocation adds a request. -/
theorem registry_step_inv (g g1 : sftp_globals) (c : registry_call)
    (hs : (registry_ids g).Pairwise (fun a b => a < b)) (hmin : ∀ i ∈ registry_ids g, 256 ≤ i)
    (hn : (registry_ids g).length < 2147483648) (h : registry_step g c = some g1) :
    (registry_ids g1).Pairwise (fun a b => a < b) ∧ (∀ i ∈ registry_ids g1, 256 ≤ i) ∧
      (registry_ids g1).length ≤ (registry_ids g).length + 1 := by
  have hs2 : (g.sftp_requests.getD []).Pairwise (fun a b => a.id < b.id) :=
    (pairwise_ids _).mpr hs
  have hmin2 : ∀ x ∈ g.sftp_requests.getD [], 256 ≤ x.id :=
    fun x hx => hmin x.id (List.mem_map_of_mem _ hx)
  have hn2 : (g.sftp_requests.getD []).length < 2147483648 := by
    unfold registry_ids at hn; rw [List.length_map] at hn; exact hn
  cases c with
  | alloc =>
    obtain ⟨k, _, hk, ha, h1, h2, _⟩ :=
      sftp_alloc_request_spec g (g.sftp_requests.getD []) rfl hs2 hmin2 hn2
    simp only [registry_step, ha, Option.map_some', Option.some.injEq] at h
    subst h
    have hsplit := List.take_append_drop k (g.sftp_requests.getD [])
    have hids : registry_ids
        { g with sftp_requests := some ((g.sftp_requests.getD []).take k ++
          { id := k + 256, registered := 0, userdata := none } ::
            (g.sftp_requests.getD []).drop k) } =
        ((g.sftp_requests.getD []).take k).map (fun r => r.id) ++
          (k + 256) :: ((g.sftp_requests.getD []).drop k).map (fun r => r.id) := by
      simp [registry_ids]
    rw [hids]
    have hs3 : (((g.sftp_requests.getD []).take k).map (fun r => r.id) ++
        ((g.sftp_requests.getD []).drop k).map (fun r => r.id)).Pairwise (fun a b => a < b) := by
      rw [← List.map_append, hsplit]; exact hs
    rw [List.pairwise_append] at hs3
    refine ⟨?_, ?_, ?_⟩
    · rw [List.pairwise_append]
      refine ⟨hs3.1, ?_, ?_⟩
      · rw [List.pairwise_cons]
        refine ⟨?_, hs3.2.1⟩
        intro b hb
        obtain ⟨x, hx, hxb⟩ := List.mem_map.mp hb
        rw [← hxb]; exact h2 x hx
      · intro a ha2 b hb
        obtain ⟨x, hx, hxa⟩ := List.mem_map.mp ha2
        rcases List.mem_cons.mp hb with hb1 | hb1
        · rw [hb1, ← hxa]; exact h1 x hx
        · exact hs3.2.2 a ha2 b hb1
    · intro i hi
      rcases List.mem_append.mp hi with h3 | h3
      · obtain ⟨x, hx, hxi⟩ := List.mem_map.mp h3
        rw [← hxi]; exact hmin2 x (List.mem_of_mem_take hx)
      · rcases List.mem_cons.mp h3 with h4 | h4
        · omega
        · obtain ⟨x, hx, hxi⟩ := List.mem_map.mp h4
          rw [← hxi]; exact hmin2 x (List.mem_of_mem_drop hx)
    · have hl := congrArg List.length hsplit
      simp only [List.length_append, List.length_cons, List.length_map, registry_ids] at hl ⊢
      omega
  | register id =>
    simp only [registry_step, Option.some.injEq] at h
    subst h
    have hids : registry_ids (sftp_register g id) = registry_ids g := by
      unfold registry_ids sftp_register
      cases g.sftp_requests with
      | none => rfl
      | some t => exact update_request_ids t id _ (fun _ => rfl)
    rw [hids]
    exact ⟨hs, hmin, by omega⟩
  | set_userdata id data =>
    simp only [registry_step, Option.some.injEq] at h
    subst h
    have hids : registry_ids (fxp_set_userdata g id data) = registry_ids g := by
      unfold registry_ids fxp_set_userdata
      cases g.sftp_requests with
      | none => rfl
      | some t => exact update_request_ids t id _ (fun _ => rfl)
    rw [hids]
    exact ⟨hs, hmin, by omega⟩
  | find pktin =>
    have hsub : (registry_ids g1).Sublist (registry_ids g) := by
      unfold registry_step sftp_find_request at h
      cases pktin with
      | none =>
        simp only [Option.map_some', Option.some.injEq] at h
        subst h
        exact List.Sublist.refl _
      | some pkt =>
        simp only at h
        split_ifs at h with he
        · simp only [Option.map_some', Option.some.injEq] at h
          subst h
          exact List.Sublist.refl _
        · cases ht : g.sftp_requests with
          | none => rw [ht] at h; simp at h
          | some t =>
            rw [ht] at h
            simp only at h
            cases hf : find234 t (get_uint32 pkt.src).1 with
            | none =>
              rw [hf] at h
              simp only [Option.map_some', Option.some.injEq] at h
              subst h
              unfold registry_ids fxp_internal_error
              rw [ht]
            | some req =>
              rw [hf] at h
              simp only at h
              split_ifs at h
              · simp only [Option.map_some', Option.some.injEq] at h
                subst h
                unfold registry_ids fxp_internal_error
                rw [ht]
              · simp only [Option.map_some', Option.some.injEq] at h
                subst h
                unfold registry_ids
                rw [ht, del234_eq_erase t _ req hf]
                exact List.Sublist.map _ (List.erase_sublist _ _)
    exact ⟨hs.sublist hsub, fun i hi => hmin i (hsub.subset hi), by
      have := hsub.length_le; omega⟩

/-- The invariant of the registry along a sequence of calls that starts in a
registry with room for one request per call below 2^31. -/
theorem registry_run_inv :
    ∀ (cs : List registry_call) (g g1 : sftp_globals),
      (registry_ids g).Pairwise (fun a b => a < b) → (∀ i ∈ registry_ids g, 256 ≤ i) →
      (registry_ids g).length + cs.length < 2147483648 → registry_run cs g = some g1 →
      (registry_ids g1).Pairwise (fun a b => a < b) ∧ (∀ i ∈ registry_ids g1, 256 ≤ i) ∧
        (registry_ids g1).length ≤ (registry_ids g).length + cs.length := by
  intro cs
  induction cs with
  | nil =>
    intro g g1 hs hmin _ h
    simp only [registry_run, Option.some.injEq] at h
    subst h
    exact ⟨hs, hmin, by simp⟩
  | cons c rest ih =>
    intro g g1 hs hmin hn h
    simp only [List.length_cons] at hn
    unfold registry_run at h
    cases hc : registry_step g c with
    | none => rw [hc] at h; simp at h
    | some g2 =>
      rw [hc] at h
      simp only at h
      obtain ⟨k1, k2, k3⟩ := registry_step_inv g g2 c hs hmin (by omega) hc
      obtain ⟨m1, m2, m3⟩ := ih g2 g1 k1 k2 (by omega) h
      exact ⟨m1, m2, by simp only [List.length_cons]; omega⟩

/-- C33 (registry invariant): in every state that a sequence of fewer than
2^31 calls of `sftp_alloc_request`, `sftp_register`, `fxp_set_userdata` and
`sftp_find_request` reaches from the empty registry, the ids in the registry
are in strictly increasing order, so pairwise distinct, and all at least 256;
and the next `sftp_alloc_request` returns: its search finds an entry at every
probe and the assertion that the id chosen is not in the registry holds. The
id it returns is at least 256 and not among those in the registry. -/
theorem C33_registry_invariant (cs : List registry_call) (g : sftp_globals)
    (hn : cs.length < 2147483648) (h : registry_run cs sftp_globals_init = some g) :
    (registry_ids g).Pairwise (fun a b => a < b) ∧ (registry_ids g).Nodup ∧
    (∀ i ∈ registry_ids g, 256 ≤ i) ∧
    ∃ r g2, sftp_alloc_request g = some (r, g2) ∧ 256 ≤ r.id ∧ r.id ∉ registry_ids g := by
  obtain ⟨h1, h2, h3⟩ := registry_run_inv cs sftp_globals_init g List.Pairwise.nil
    (fun i hi => absurd hi (List.not_mem_nil _)) (by simpa [registry_ids, sftp_globals_init] using hn) h
  have hl : (registry_ids sftp_globals_init).length = 0 := rfl
  rw [hl] at h3
  have hlen : (g.sftp_requests.getD []).length < 2147483648 := by
    unfold registry_ids at h3; rw [List.length_map] at h3; omega
  obtain ⟨k, _, hk, ha, k1, k2, _⟩ :=
    sftp_alloc_request_spec g (g.sftp_requests.getD []) rfl ((pairwise_ids _).mpr h1)
      (fun x hx => h2 x.id (List.mem_map_of_mem _ hx)) hlen
  refine ⟨h1, ?_, h2, _, _, ha, Nat.le_add_left 256 k, ?_⟩
  · exact h1.imp (fun hab => Nat.ne_of_lt hab)
  · intro hmem
    obtain ⟨x, hx, hxi⟩ := List.mem_map.mp hmem
    have hsplit := List.take_append_drop k (g.sftp_requests.getD [])
    rw [← hsplit] at hx
    rcases List.mem_append.mp hx with h4 | h4
    · have := k1 x h4
      simp only at hxi
      omega
    · have := k2 x h4
      simp only at hxi
      omega

/-- C33 at the sequence alloc, alloc, alloc, register 257, response to 257,
alloc, alloc: the registry holds the ids 256, 257, 258, 259, the freed id 257
having been handed out again, and the next allocation returns 260. -/
theorem C33_registry_invariant_witness :
    (registry_run registry_example_calls sftp_globals_init).map registry_ids =
      some [256, 257, 258, 259] ∧
    ∃ g, registry_run registry_example_calls sftp_globals_init = some g ∧
      ((registry_ids g).Pairwise (fun a b => a < b) ∧ (registry_ids g).Nodup ∧
        (∀ i ∈ registry_ids g, 256 ≤ i) ∧
        ∃ r g2, sftp_alloc_request g = some (r, g2) ∧ 256 ≤ r.id ∧ r.id ∉ registry_ids g) := by
  have h : (registry_run registry_example_calls sftp_globals_init).isSome = true := by decide
  obtain ⟨g, hg⟩ := Option.isSome_iff_exists.mp h
  exact ⟨by decide, g, hg, C33_registry_invariant registry_example_calls g (by decide) hg⟩

/-! ## A refused write -/

set_option maxRecDepth 100000 in
/-- C31 (counterexample): in an upload of three writes, the response
`SSH_FX_FAILURE` (code 4) to the first write makes `xfer_upload_gotpkt` return
-1, and the `err` flag of the transfer is still clear afterwards; `xfer_done`
is false, two writes being in flight. -/
theorem C31_err_not_set_counterexample :
    (xfer_upload_gotpkt upload_example_globals upload_example_xfer (status_packet 256 4)).map
      (fun r => (r.1, r.2.2.err, r.2.2.eof, xfer_done_mem r.2.2)) =
      some (-1, false, true, false) := by
  decide

/-- C31 (amended, `xfer_upload_gotpkt` and `xfer_done`): for a status response
with a code other than `SSH_FX_OK` to a registered write request attached to
a node of a well-formed queue, `xfer_upload_gotpkt` returns -1, unlinks the
node and leaves the flags `err` and `eof` of the transfer as they were: the
failure is reported by the return value, not in the transfer. `xfer_done` on
the result of an upload, whose `eof` flag `xfer_upload_init` has set, is true
exactly when no node is left in the queue. -/
theorem C31_write_nack (g : sftp_globals) (t : tree234) (x : fxp_xfer_mem)
    (pkt : sftp_packet) (l : List Nat) (req : sftp_request) (addr : Nat) (rr : req_cell)
    (c : Nat) (rest : List Nat) (ht : g.sftp_requests = some t)
    (hs : t.Pairwise (fun a b => a.id < b.id)) (hq : is_queue x l) (hreq : req ∈ t)
    (he : pkt.src.err = false) (hl : 4 ≤ pkt.src.data.length - pkt.src.pos)
    (hid : req.id = GET_32BIT (pkt.src.data.drop pkt.src.pos)) (hreg : req.registered ≠ 0)
    (hud : req.userdata = some addr) (hmem : addr ∈ l) (hcell : x.cells addr = some rr)
    (hty : pkt.type = SSH_FXP_STATUS) (hr : reads (after_id pkt).src (PUT_32BIT c ++ rest))
    (hc : c < 4294967296) (hnack : c ≠ 0) :
    ∃ (g1 : sftp_globals) (x1 : fxp_xfer_mem),
      xfer_upload_gotpkt g x pkt = some (-1, g1, x1) ∧
      x1.err = x.err ∧ x1.eof = x.eof ∧ is_queue x1 (l.erase addr) ∧
      (x.eof = true → (xfer_done_mem x1 = true ↔ l.erase addr = [])) ∧
      ∀ (fh : List Nat) (offset : Nat),
        (xfer_upload_init fh offset).eof = true ∧ (xfer_upload_init fh offset).err = false := by
  have hfound := sftp_find_request_found g t pkt ht hs req hreq he hl hid hreg
  obtain ⟨l1, l2, hsplit, herase⟩ := erase_split l addr hq.2.2.1 hmem
  have hq2 : is_queue x (l1 ++ addr :: l2) := by rw [← hsplit]; exact hq
  obtain ⟨x1, hun, hq1, _, _, _, _, heof, herr, _⟩ :=
    xfer_upload_unlink_spec x l1 l2 addr rr hq2 hcell
  have hval := upload_result_value { g with sftp_requests := some (t.erase req) } (after_id pkt)
  have hret : (if (fxp_write_recv { g with sftp_requests := some (t.erase req) }
      (after_id pkt)).1 = 0 then (-1 : Int) else 1) = -1 := by
    rw [hval.1, fxp_got_status_code _ (after_id pkt) c rest hty hr hc]
    by_cases h1 : c = 1
    · simp [h1]
    · simp [hnack, h1]
  refine ⟨(fxp_write_recv { g with sftp_requests := some (t.erase req) } (after_id pkt)).2, x1,
    ?_, herr, heof, by rw [herase]; exact hq1, ?_, fun _ _ => ⟨rfl, rfl⟩⟩
  · unfold xfer_upload_gotpkt
    rw [hfound]
    simp only [fxp_get_userdata, hud, hcell, hun]
    exact congrArg (fun v : Int => some (v,
      (fxp_write_recv { g with sftp_requests := some (t.erase req) } (after_id pkt)).2, x1)) hret
  · intro hx
    unfold xfer_done_mem
    rw [heof, hx, Bool.true_or, Bool.true_and, hq1.1, herase]
    cases l1 ++ l2 with
    | nil => simp
    | cons a tl => simp

/-- C31 at an upload of three writes (nodes 1, 2, 3 for the requests 256,
257, 258) and the response `SSH_FX_FAILURE` to the request 257: the result is
-1, the flags are as they were, and the nodes 1 and 3 are still queued. -/
theorem C31_write_nack_witness :
    ∃ (g1 : sftp_globals) (x1 : fxp_xfer_mem),
      xfer_upload_gotpkt upload_example_globals upload_example_xfer (status_packet 257 4) =
        some (-1, g1, x1) ∧
      x1.err = upload_example_xfer.err ∧ x1.eof = upload_example_xfer.eof ∧
      is_queue x1 ([1, 2, 3].erase 2) ∧
      (upload_example_xfer.eof = true → (xfer_done_mem x1 = true ↔ [1, 2, 3].erase 2 = [])) ∧
      ∀ (fh : List Nat) (offset : Nat),
        (xfer_upload_init fh offset).eof = true ∧ (xfer_upload_init fh offset).err = false :=
  C31_write_nack upload_example_globals
    [{ id := 256, registered := 1, userdata := some 1 },
     { id := 257, registered := 1, userdata := some 2 },
     { id := 258, registered := 1, userdata := some 3 }]
    upload_example_xfer (status_packet 257 4) [1, 2, 3]
    { id := 257, registered := 1, userdata := some 2 } 2
    { next := some 3, prev := some 1, buffer := none, len := 3, retlen := 0,
      complete := 0, offset := 2 } 4 []
    (by decide) (by decide) upload_example_queue (by decide) rfl (by decide) (by decide)
    (by decide) rfl (by decide) (by decide) rfl ⟨rfl, by decide⟩ (by decide) (by decide)

/-! ## Arcfour: the state array -/

/-- The state array holds every byte value: it has 256 entries and every
value below 256 is at one of its indices. -/
theorem arcfour_swap_onto (s : List Nat) (i j : Nat) (hi : i < 256) (hj : j < 256)
    (hl : s.length = 256) (hs : ∀ v, v < 256 → ∃ k, k < 256 ∧ s[k]? = some v) :
    (arcfour_swap s i j).length = 256 ∧
      ∀ v, v < 256 → ∃ k, k < 256 ∧ (arcfour_swap s i j)[k]? = some v := by
  have hgi : s[i]? = some (s.getD i 0) := by
    rw [List.getD_eq_getElem?_getD, List.getElem?_eq_getElem (by omega)]; rfl
  have hgj : s[j]? = some (s.getD j 0) := by
    rw [List.getD_eq_getElem?_getD, List.getElem?_eq_getElem (by omega)]; rfl
  constructor
  · unfold arcfour_swap
    rw [List.length_set, List.length_set, hl]
  · intro v hv
    obtain ⟨k, hk, hkv⟩ := hs v hv
    unfold arcfour_swap
    by_cases h1 : k = i
    · refine ⟨j, hj, ?_⟩
      rw [List.getElem?_set, if_pos rfl, if_pos (by rw [List.length_set]; omega)]
      rw [h1, hgi] at hkv
      exact hkv
    · by_cases h2 : k = j
      · refine ⟨i, hi, ?_⟩
        rw [List.getElem?_set]
        by_cases h3 : j = i
        · exact absurd (h2.trans h3) h1
        · rw [if_neg h3, List.getElem?_set, if_pos rfl, if_pos (by omega)]
          rw [h2, hgj] at hkv
          exact hkv
      · refine ⟨k, hk, ?_⟩
        rw [List.getElem?_set, if_neg (fun h => h2 h.symm), List.getElem?_set,
          if_neg (fun h => h1 h.symm)]
        exact hkv

/-- An array of 256 entries that holds every byte value is a permutation of
the byte values. -/
theorem perm_of_onto (s : List Nat) (hl : s.length = 256)
    (hs : ∀ v, v < 256 → ∃ k, k < 256 ∧ s[k]? = some v) : s.Perm (List.range 256) := by
  have hsub : List.range 256 ⊆ s := by
    intro v hv
    obtain ⟨k, _, hk⟩ := hs v (List.mem_range.mp hv)
    exact List.mem_iff_getElem?.mpr ⟨k, hk⟩
  have hsp : (List.range 256).Subperm s := List.subperm_of_subset (List.nodup_range 256) hsub
  exact (hsp.perm_of_length_le (by rw [hl, List.length_range])).symm

/-- A permutation of the byte values has 256 entries and holds every byte
value. -/
theorem onto_of_perm (s : List Nat) (h : s.Perm (List.range 256)) :
    s.length = 256 ∧ ∀ v, v < 256 → ∃ k, k < 256 ∧ s[k]? = some v := by
  have hl : s.length = 256 := by rw [h.length_eq, List.length_range]
  refine ⟨hl, ?_⟩
  intro v hv
  have hm : v ∈ s := h.symm.subset (List.mem_range.mpr hv)
  obtain ⟨k, hk, hkv⟩ := List.getElem_of_mem hm
  exact ⟨k, by omega, by rw [List.getElem?_eq_getElem hk, hkv]⟩

/-- The exchange of two entries of a permutation of the byte values gives a
permutation of the byte values. -/
theorem arcfour_swap_perm (s : List Nat) (i j : Nat) (hi : i < 256) (hj : j < 256)
    (h : s.Perm (List.range 256)) : (arcfour_swap s i j).Perm (List.range 256) := by
  obtain ⟨hl, hs⟩ := onto_of_perm s h
  obtain ⟨k1, k2⟩ := arcfour_swap_onto s i j hi hj hl hs
  exact perm_of_onto _ k1 k2

/-- One pass of the loop of `arcfour_block` keeps the state array a
permutation of the byte values. -/
theorem arcfour_byte_perm (ctx : ArcfourContext) (b : Nat)
    (h : ctx.s.Perm (List.range 256)) : (arcfour_byte ctx b).1.s.Perm (List.range 256) :=
  arcfour_swap_perm ctx.s _ _ (Nat.mod_lt _ (by norm_num)) (Nat.mod_lt _ (by norm_num)) h

/-- `arcfour_block` keeps the state array a permutation of the byte values. -/
theorem arcfour_block_perm (blk : List Nat) :
    ∀ ctx : ArcfourContext, ctx.s.Perm (List.range 256) →
      (arcfour_block ctx blk).1.s.Perm (List.range 256) := by
  induction blk with
  | nil => intro ctx h; exact h
  | cons b rest ih =>
    intro ctx h
    exact ih _ (arcfour_byte_perm ctx b h)

/-- Consecutive calls of `arcfour_block` keep the state array a permutation of
the byte values. -/
theorem arcfour_blocks_perm (ms : List (List Nat)) :
    ∀ ctx : ArcfourContext, ctx.s.Perm (List.range 256) →
      (arcfour_blocks ctx ms).1.s.Perm (List.range 256) := by
  induction ms with
  | nil => intro ctx h; exact h
  | cons m rest ih =>
    intro ctx h
    exact ih _ (arcfour_block_perm m ctx h)

/-- The second loop of `arcfour_setkey` keeps the array a permutation of the
byte values as long as its index stays below 256. -/
theorem arcfour_setkey_loop_perm (k : List Nat) :
    ∀ (n i j : Nat) (s : List Nat), i + n ≤ 256 → s.Perm (List.range 256) →
      (arcfour_setkey_loop k n i j s).Perm (List.range 256) := by
  intro n
  induction n with
  | zero => intro i j s _ h; exact h
  | succ m ih =>
    intro i j s hi h
    exact ih (i + 1) _ _ (by omega)
      (arcfour_swap_perm s i _ (by omega) (Nat.mod_lt _ (by norm_num)) h)

/-- `arcfour_setkey` with 1 to 256 key bytes returns a context whose array is
a permutation of the byte values. -/
theorem arcfour_setkey_perm (key : List Nat) (keybytes : Nat) (h1 : 1 ≤ keybytes)
    (h2 : keybytes ≤ 256) :
    ∃ ctx, arcfour_setkey key keybytes = some ctx ∧ ctx.i = 0 ∧ ctx.j = 0 ∧
      ctx.s.Perm (List.range 256) := by
  have hp := arcfour_setkey_loop_perm
    ((List.range 256).map (fun i => key.getD (i % keybytes) 0)) 256 0 0 (List.range 256)
    (by omega) (List.Perm.refl _)
  have he : arcfour_setkey key keybytes = some (ArcfourContext.mk 0 0 (arcfour_setkey_loop
      ((List.range 256).map (fun i => key.getD (i % keybytes) 0)) 256 0 0 (List.range 256))) := by
    unfold arcfour_setkey
    rw [if_pos ⟨h2, by omega⟩]
  refine ⟨_, he, rfl, rfl, ?_⟩
  dsimp only
  exact hp

/-- C37 (Arcfour state): `arcfour_setkey` with any key of 1 to 256 bytes
returns a context whose array `s` is a permutation of the byte values 0..255,
and after any sequence of `arcfour_block` calls on buffers of any lengths,
with or without the stir of `arcfour_stir` before them, the array is again a
permutation of the byte values 0..255. -/
theorem C37_arcfour_permutation (key : List Nat) (keybytes : Nat) (ms : List (List Nat))
    (h1 : 1 ≤ keybytes) (h2 : keybytes ≤ 256) :
    ∃ ctx, arcfour_setkey key keybytes = some ctx ∧ ctx.s.Perm (List.range 256) ∧
      (arcfour_blocks ctx ms).1.s.Perm (List.range 256) ∧
      (arcfour_stir ctx).s.Perm (List.range 256) ∧
      (arcfour_blocks (arcfour_stir ctx) ms).1.s.Perm (List.range 256) := by
  obtain ⟨ctx, hc, _, _, hp⟩ := arcfour_setkey_perm key keybytes h1 h2
  have hst : (arcfour_stir ctx).s.Perm (List.range 256) := arcfour_block_perm _ ctx hp
  exact ⟨ctx, hc, hp, arcfour_blocks_perm ms ctx hp, hst, arcfour_blocks_perm ms _ hst⟩

/-- C37 at the key "Key" of three bytes and the calls on a block of nine bytes
and a block of one byte. -/
theorem C37_arcfour_permutation_witness :
    1 ≤ 3 ∧ 3 ≤ 256 ∧
    ∃ ctx, arcfour_setkey [75, 101, 121] 3 = some ctx ∧ ctx.s.Perm (List.range 256) ∧
      (arcfour_blocks ctx [[80, 108, 97, 105, 110, 116, 101, 120, 116], [0]]).1.s.Perm
        (List.range 256) ∧
      (arcfour_stir ctx).s.Perm (List.range 256) ∧
      (arcfour_blocks (arcfour_stir ctx)
        [[80, 108, 97, 105, 110, 116, 101, 120, 116], [0]]).1.s.Perm (List.range 256) :=
  ⟨by decide, by decide,
    C37_arcfour_permutation [75, 101, 121] 3 [[80, 108, 97, 105, 110, 116, 101, 120, 116], [0]]
      (by decide) (by decide)⟩

/-! ## Arcfour: the key stream -/

set_option maxRecDepth 1000000 in
/-- The key schedule and key stream on the test vector with the key "Key" and
the text "Plaintext": the output is BB F3 16 E8 D9 40 AF 0A D3. -/
theorem arcfour_known_answer :
    (arcfour_setkey [75, 101, 121] 3).map
      (fun c => (arcfour_block c [80, 108, 97, 105, 110, 116, 101, 120, 116]).2) =
      some [187, 243, 22, 232, 217, 64, 175, 10, 211] := by
  decide

/-- One pass of the loop moves the context on without looking at the byte,
and XORs the byte with the key stream byte. -/
theorem arcfour_byte_stream (ctx : ArcfourContext) (b c : Nat) :
    (arcfour_byte ctx b).1 = (arcfour_byte ctx c).1 ∧
      (arcfour_byte ctx ((arcfour_byte ctx b).2)).2 = b := by
  refine ⟨rfl, ?_⟩
  show (b ^^^ _) ^^^ _ = b
  rw [Nat.xor_assoc, Nat.xor_self, Nat.xor_zero]

/-- A call on the output of a call from the same context gives the input
back and ends in the same context. -/
theorem arcfour_block_inverse (blk : List Nat) :
    ∀ ctx : ArcfourContext,
      arcfour_block ctx (arcfour_block ctx blk).2 = ((arcfour_block ctx blk).1, blk) := by
  induction blk with
  | nil => intro ctx; rfl
  | cons b rest ih =>
    intro ctx
    show ((arcfour_block (arcfour_byte ctx (arcfour_byte ctx b).2).1 _).1,
      (arcfour_byte ctx (arcfour_byte ctx b).2).2 ::
        (arcfour_block (arcfour_byte ctx (arcfour_byte ctx b).2).1 _).2) = _
    rw [(arcfour_byte_stream ctx b 0).2,
      show (arcfour_byte ctx (arcfour_byte ctx b).2).1 = (arcfour_byte ctx b).1 from rfl, ih]
    rfl

/-- A call on a buffer does what consecutive calls on its two parts do. -/
theorem arcfour_block_append (a b : List Nat) :
    ∀ ctx : ArcfourContext,
      arcfour_block ctx (a ++ b) =
        ((arcfour_block (arcfour_block ctx a).1 b).1,
          (arcfour_block ctx a).2 ++ (arcfour_block (arcfour_block ctx a).1 b).2) := by
  induction a with
  | nil => intro ctx; rfl
  | cons x rest ih =>
    intro ctx
    show ((arcfour_block (arcfour_byte ctx x).1 (rest ++ b)).1,
      (arcfour_byte ctx x).2 :: (arcfour_block (arcfour_byte ctx x).1 (rest ++ b)).2) = _
    rw [ih]
    rfl

/-- Consecutive calls on the outputs of consecutive calls from the same
context give the inputs back and end in the same context. -/
theorem arcfour_blocks_inverse (ms : List (List Nat)) :
    ∀ ctx : ArcfourContext,
      arcfour_blocks ctx (arcfour_blocks ctx ms).2 = ((arcfour_blocks ctx ms).1, ms) := by
  induction ms with
  | nil => intro ctx; rfl
  | cons m rest ih =>
    intro ctx
    show ((arcfour_blocks (arcfour_ssh2_block ctx (arcfour_ssh2_block ctx m).2).1 _).1,
      (arcfour_ssh2_block ctx (arcfour_ssh2_block ctx m).2).2 ::
        (arcfour_blocks (arcfour_ssh2_block ctx (arcfour_ssh2_block ctx m).2).1 _).2) = _
    unfold arcfour_ssh2_block
    rw [arcfour_block_inverse m ctx]
    simp only
    rw [ih]
    rfl

/-- C38 (Arcfour round trip): for each of the two algorithms and every key,
`arcfour_ssh2_setkey` returns a context; when the byte strings of a list are
encrypted in order from that context and the results are decrypted in order
from a context keyed in the same way, the outputs are the byte strings, and
both contexts end in the same state (encrypting and decrypting are the same
call). From any context, one call of `arcfour_block` on a buffer gives the
same bytes and the same final state as consecutive calls on its two parts. -/
theorem C38_arcfour_round_trip (key : List Nat) (ms : List (List Nat)) (a b : List Nat)
    (ctx0 : ArcfourContext) :
    (∃ c1, arcfour_ssh2_setkey ssh_arcfour128_ssh2 key = some c1 ∧
      arcfour_blocks c1 (arcfour_blocks c1 ms).2 = ((arcfour_blocks c1 ms).1, ms)) ∧
    (∃ c2, arcfour_ssh2_setkey ssh_arcfour256_ssh2 key = some c2 ∧
      arcfour_blocks c2 (arcfour_blocks c2 ms).2 = ((arcfour_blocks c2 ms).1, ms)) ∧
    arcfour_block ctx0 (a ++ b) =
      ((arcfour_block (arcfour_block ctx0 a).1 b).1,
        (arcfour_block ctx0 a).2 ++ (arcfour_block (arcfour_block ctx0 a).1 b).2) := by
  obtain ⟨k1, h1, _⟩ := arcfour_setkey_perm key 16 (by norm_num) (by norm_num)
  obtain ⟨k2, h2, _⟩ := arcfour_setkey_perm key 32 (by norm_num) (by norm_num)
  refine ⟨⟨arcfour_stir k1, ?_, arcfour_blocks_inverse ms _⟩,
    ⟨arcfour_stir k2, ?_, arcfour_blocks_inverse ms _⟩, arcfour_block_append a b ctx0⟩
  · show (arcfour_setkey key 16).map arcfour_stir = _
    rw [h1]; rfl
  · show (arcfour_setkey key 32).map arcfour_stir = _
    rw [h2]; rfl

/-! ## Directory listings -/

/-- The loop over `n` entries builds `n` entries. -/
theorem fxp_readdir_loop_length (fresh : Nat → fxp_attrs) :
    ∀ (n i : Nat) (src : BinarySource), (fxp_readdir_loop fresh n i src).1.length = n := by
  intro n
  induction n with
  | zero => intro i src; rfl
  | succ m ih =>
    intro i src
    show (_ :: (fxp_readdir_loop fresh m (i + 1) _).1).length = m + 1
    rw [List.length_cons, ih]

/-- `BinarySource_get_fxp_attrs` on the wire image of an attribute record
without extended pairs: the flags and the selected fields are read, and the
source is left behind the image in good standing. -/
theorem get_fxp_attrs_reads (src : BinarySource) (a0 b : fxp_attrs) (rest : List Nat)
    (hf : b.flags < 4294967296) (hs : b.size < 18446744073709551616)
    (hu : b.uid < 4294967296) (hg : b.gid < 4294967296) (hp : b.permissions < 4294967296)
    (ha : b.atime < 4294967296) (hm : b.mtime < 4294967296)
    (hext : has_flag b.flags SSH_FILEXFER_ATTR_EXTENDED = false)
    (hr : reads src (attrs_bytes b ++ rest)) :
    attrs_read (get_fxp_attrs src a0).1 b ∧ reads (get_fxp_attrs src a0).2 rest := by
  unfold attrs_bytes at hr
  simp only [List.append_assoc] at hr
  obtain ⟨h0, hr0, _⟩ := get_uint32_reads src b.flags _ hr hf
  rw [get_fxp_attrs_steps, h0, if_neg (by rw [hext]; decide)]
  obtain ⟨hr1, hs1, hf1⟩ := get_attr_size_reads b.flags
    ({ a0 with flags := b.flags }, (get_uint32 src).2) b.size _ hs hr0
  obtain ⟨hr2, hu2, hf2, hs2⟩ := get_attr_uidgid_reads b.flags _ b.uid b.gid _ hu hg hr1
  obtain ⟨hr3, hp3, hf3, hs3, hu3, hg3⟩ := get_attr_permissions_reads b.flags _
    b.permissions _ hp hr2
  obtain ⟨hr4, ht4, hf4, hs4, hu4, hg4, hp4⟩ := get_attr_acmodtime_reads b.flags _
    b.atime b.mtime rest ha hm hr3
  refine ⟨⟨?_, ?_, ?_, ?_, ht4⟩, hr4⟩
  · rw [hf4, hf3, hf2, hf1]
  · intro h
    rw [hs4, hs3, hs2]
    exact hs1 h
  · intro h
    rw [hu4, hg4, hu3, hg3]
    exact hu2 h
  · intro h
    rw [hp4]
    exact hp3 h

/-- The loop on the wire images of a list of entries, one behind the other:
the entries are read in this order, and the source is left behind them in
good standing. -/
theorem fxp_readdir_loop_reads (fresh : Nat → fxp_attrs) (es : List fxp_name) :
    ∀ (i : Nat) (src : BinarySource) (rest : List Nat), (∀ e ∈ es, name_ok e) →
      reads src (names_bytes es ++ rest) →
      List.Forall₂ name_read (fxp_readdir_loop fresh es.length i src).1 es ∧
        reads (fxp_readdir_loop fresh es.length i src).2 rest := by
  induction es with
  | nil =>
    intro i src rest _ hr
    exact ⟨List.Forall₂.nil, hr⟩
  | cons e tl ih =>
    intro i src rest hok hr
    obtain ⟨n1, n2, n3, n4, a1, a2, a3, a4, a5, a6, a7, a8⟩ := hok e (List.mem_cons_self _ _)
    have hb : names_bytes (e :: tl) ++ rest =
        PUT_32BIT e.filename.length ++ e.filename ++
          (PUT_32BIT e.longname.length ++ e.longname ++
            (attrs_bytes e.attrs ++ (names_bytes tl ++ rest))) := by
      unfold names_bytes name_bytes
      simp only [List.map_cons, List.flatten_cons, List.append_assoc]
    rw [hb] at hr
    obtain ⟨f1, f2⟩ := get_string_reads src e.filename _ hr n2
    obtain ⟨l1, l2⟩ := get_string_reads (get_string src).2 e.longname _ f2 n4
    obtain ⟨t1, t2⟩ := get_fxp_attrs_reads (get_string (get_string src).2).2 (fresh i) e.attrs
      _ a1 a2 a3 a4 a5 a6 a7 a8 l2
    obtain ⟨k1, k2⟩ := ih (i + 1) _ rest (fun x hx => hok x (List.mem_cons_of_mem _ hx)) t2
    refine ⟨List.Forall₂.cons ⟨?_, ?_, t1⟩ k1, k2⟩
    · show mkstr (get_string src).1 = e.filename
      rw [f1]; exact mkstr_eq _ n1
    · show mkstr (get_string (get_string src).2).1 = e.longname
      rw [l1]; exact mkstr_eq _ n3

/-- The wire image of an attribute record has at least the four bytes of the
flags. -/
theorem attrs_bytes_length (a : fxp_attrs) : 4 ≤ (attrs_bytes a).length := by
  unfold attrs_bytes
  rw [List.length_append, PUT_32BIT_length]
  omega

/-- Every entry takes at least 12 bytes on the wire. -/
theorem names_bytes_length (es : List fxp_name) : 12 * es.length ≤ (names_bytes es).length := by
  induction es with
  | nil => exact Nat.zero_le _
  | cons e tl ih =>
    have h := attrs_bytes_length e.attrs
    unfold names_bytes at ih ⊢
    simp only [List.map_cons, List.flatten_cons, List.length_append, List.length_cons, name_bytes,
      PUT_32BIT_length]
    omega

/-- `fxp_readdir_recv` when the count has been read: the checks and the
loop. -/
theorem fxp_readdir_recv_count (sz : Nat) (fresh : Nat → fxp_attrs) (g : sftp_globals)
    (pktin : sftp_packet) (count : Nat) (rest : List Nat) (hty : pktin.type = SSH_FXP_NAME)
    (hr : reads pktin.src (PUT_32BIT count ++ rest)) (hc : count < 4294967296) :
    fxp_readdir_recv sz fresh g pktin =
      if count > rest.length / 12 then (none, fxp_internal_error g "malformed FXP_NAME packet")
      else if count > INT_MAX / sz then
        (none, fxp_internal_error g "unreasonably large FXP_NAME packet")
      else if get_err (fxp_readdir_loop fresh count 0 (get_uint32 pktin.src).2).2 then
        (none, fxp_internal_error g "malformed FXP_NAME packet")
      else (some (fxp_readdir_loop fresh count 0 (get_uint32 pktin.src).2).1, g) := by
  obtain ⟨h1, h2, _⟩ := get_uint32_reads pktin.src count rest hr hc
  have hav : get_avail (get_uint32 pktin.src).2 = rest.length := reads_length _ _ h2
  have herr : get_err (get_uint32 pktin.src).2 = false := h2.1
  unfold fxp_readdir_recv
  rw [if_pos hty]
  simp only [h1, hav, herr, Bool.false_eq_true, false_or]

/-- C32 (`fxp_readdir_recv` on an `SSH_FXP_NAME` response). (1) A truncated
count, (2) a count above a twelfth of the bytes behind it, and (3) a count
above `INT_MAX / sizeof(struct fxp_name)` each make the function return NULL
with an internal error recorded, before the loop over the entries is entered.
(4) Whenever it returns a list, the list has exactly `count` entries, the
count has passed both checks and the globals are as they were. (5) For the
wire images of `count` entries one behind the other, each a file name, a long
name and an attribute record, with a count that passes check (3), the function
returns `count` entries that are, in wire order, these file names, long names
and attributes (flags and selected fields). -/
theorem C32_readdir_count (sz : Nat) (fresh : Nat → fxp_attrs) (g : sftp_globals)
    (pktin : sftp_packet) (hty : pktin.type = SSH_FXP_NAME) :
    ((pktin.src.err = true ∨ pktin.src.data.length - pktin.src.pos < 4) →
      fxp_readdir_recv sz fresh g pktin =
        (none, fxp_internal_error g "malformed FXP_NAME packet")) ∧
    (∀ (count : Nat) (rest : List Nat), reads pktin.src (PUT_32BIT count ++ rest) →
      count < 4294967296 → count > rest.length / 12 →
      fxp_readdir_recv sz fresh g pktin =
        (none, fxp_internal_error g "malformed FXP_NAME packet")) ∧
    (∀ (count : Nat) (rest : List Nat), reads pktin.src (PUT_32BIT count ++ rest) →
      count < 4294967296 → count ≤ rest.length / 12 → count > INT_MAX / sz →
      fxp_readdir_recv sz fresh g pktin =
        (none, fxp_internal_error g "unreasonably large FXP_NAME packet")) ∧
    (∀ (count : Nat) (rest : List Nat) (names : List fxp_name) (g1 : sftp_globals),
      reads pktin.src (PUT_32BIT count ++ rest) → count < 4294967296 →
      fxp_readdir_recv sz fresh g pktin = (some names, g1) →
      names.length = count ∧ count ≤ rest.length / 12 ∧ count ≤ INT_MAX / sz ∧ g1 = g) ∧
    (∀ (es : List fxp_name) (rest : List Nat), (∀ e ∈ es, name_ok e) →
      reads pktin.src (PUT_32BIT es.length ++ (names_bytes es ++ rest)) →
      es.length ≤ INT_MAX / sz →
      ∃ names, fxp_readdir_recv sz fresh g pktin = (some names, g) ∧
        names.length = es.length ∧ List.Forall₂ name_read names es) := by
  refine ⟨?_, ?_, ?_, ?_, ?_⟩
  · intro h
    have herr : get_err (get_uint32 pktin.src).2 = true := get_uint32_err pktin.src h
    unfold fxp_readdir_recv
    rw [if_pos hty]
    simp only [herr, true_or, if_true]
  · intro count rest hr hc h
    rw [fxp_readdir_recv_count sz fresh g pktin count rest hty hr hc, if_pos h]
  · intro count rest hr hc h1 h2
    rw [fxp_readdir_recv_count sz fresh g pktin count rest hty hr hc, if_neg (by omega),
      if_pos h2]
  · intro count rest names g1 hr hc h
    rw [fxp_readdir_recv_count sz fresh g pktin count rest hty hr hc] at h
    split_ifs at h with h1 h2 h3
    · exact absurd (congrArg Prod.fst h) (by simp)
    · exact absurd (congrArg Prod.fst h) (by simp)
    · exact absurd (congrArg Prod.fst h) (by simp)
    · have hn := Option.some.inj (congrArg Prod.fst h)
      refine ⟨?_, by omega, by omega, (congrArg Prod.snd h).symm⟩
      rw [← hn]
      exact fxp_readdir_loop_length fresh count 0 _
  · intro es rest hok hr hsz
    have hc : es.length < 4294967296 := by
      have : INT_MAX / sz ≤ INT_MAX := Nat.div_le_self _ _
      unfold INT_MAX at this hsz
      omega
    obtain ⟨_, h2, _⟩ := get_uint32_reads pktin.src es.length _ hr hc
    obtain ⟨k1, k2⟩ := fxp_readdir_loop_reads fresh es 0 _ rest hok h2
    have hlen := names_bytes_length es
    have h12 : ¬ es.length > (names_bytes es ++ rest).length / 12 := by
      rw [List.length_append]
      have : es.length ≤ ((names_bytes es).length + rest.length) / 12 := by
        rw [Nat.le_div_iff_mul_le (by norm_num)]
        omega
      omega
    refine ⟨_, ?_, fxp_readdir_loop_length fresh es.length 0 _, k1⟩
    rw [fxp_readdir_recv_count sz fresh g pktin es.length _ hty hr hc, if_neg h12,
      if_neg (by omega)]
    have herr : get_err (fxp_readdir_loop fresh es.length 0 (get_uint32 pktin.src).2).2 = false :=
      k2.1
    rw [herr]
    rfl

set_option maxRecDepth 100000 in
/-- C32 at a response with the two entries "a" (long name "-a", size 5) and
"bc" (no long name, no attributes), with `sizeof(struct fxp_name) = 40` and
fresh memory that holds zeros: the two entries are returned in this order. -/
theorem C32_readdir_count_witness :
    readdir_example_packet.type = SSH_FXP_NAME ∧
    (fxp_readdir_recv 40
      (fun _ => { flags := 0, size := 0, uid := 0, gid := 0, permissions := 0, atime := 0,
                  mtime := 0 }) sftp_globals_init readdir_example_packet).1 =
      some readdir_example_names ∧
    ∃ names, fxp_readdir_recv 40
        (fun _ => { flags := 0, size := 0, uid := 0, gid := 0, permissions := 0, atime := 0,
                    mtime := 0 }) sftp_globals_init readdir_example_packet =
        (some names, sftp_globals_init) ∧
      names.length = readdir_example_names.length ∧
      List.Forall₂ name_read names readdir_example_names :=
  ⟨rfl, by decide,
    (C32_readdir_count 40
      (fun _ => { flags := 0, size := 0, uid := 0, gid := 0, permissions := 0, atime := 0,
                  mtime := 0 }) sftp_globals_init readdir_example_packet rfl).2.2.2.2
      readdir_example_names []
      (by
        intro e he
        simp only [readdir_example_names, List.mem_cons, List.mem_singleton,
          List.not_mem_nil, or_false] at he
        rcases he with h | h <;> subst h <;>
          refine ⟨by decide, by decide, by decide, by decide, by decide, by decide, by decide,
            by decide, by decide, by decide, by decide, by decide⟩)
      ⟨rfl, by decide⟩ (by decide)⟩

/-! ## The window accounting invariant -/

/-- The sum over a queue in a memory that agrees on the lengths of its
nodes. -/
theorem queue_total_congr (cells cells2 : Nat → Option req_cell) (l : List Nat)
    (h : ∀ a ∈ l, (cells2 a).map (fun c => c.len) = (cells a).map (fun c => c.len)) :
    queue_total cells2 l = queue_total cells l := by
  unfold queue_total
  congr 1
  apply List.map_congr_left
  intro a ha
  rw [h a ha]

/-- The sum over two pieces of a queue. -/
theorem queue_total_append (cells : Nat → Option req_cell) (l1 l2 : List Nat) :
    queue_total cells (l1 ++ l2) = queue_total cells l1 + queue_total cells l2 := by
  unfold queue_total
  rw [List.map_append, List.sum_append]

/-- The sum over a queue that starts with the node at `a`. -/
theorem queue_total_cons (cells : Nat → Option req_cell) (a : Nat) (l : List Nat)
    (c : req_cell) (h : cells a = some c) :
    queue_total cells (a :: l) = c.len + queue_total cells l := by
  unfold queue_total
  rw [List.map_cons, List.sum_cons, h]
  rfl

/-- Nodes keep their lengths where they keep their fields. -/
theorem len_of_fields (c1 c2 : Option req_cell)
    (h : c1.map req_cell.fields = c2.map req_cell.fields) :
    c1.map (fun c => c.len) = c2.map (fun c => c.len) := by
  cases c1 with
  | none =>
    cases c2 with
    | none => rfl
    | some b => simp at h
  | some a =>
    cases c2 with
    | none => simp at h
    | some b =>
      simp only [Option.map_some', Option.some.injEq, req_cell.fields, Prod.mk.injEq] at h ⊢
      exact h.2.1

/-- Nodes stay where they keep their fields. -/
theorem isSome_of_fields (c1 c2 : Option req_cell)
    (h : c1.map req_cell.fields = c2.map req_cell.fields) : c1.isSome = c2.isSome := by
  cases c1 <;> cases c2 <;> simp at h ⊢

/-- Putting a node at the tail of a well-formed queue, at an address that is
not in the queue: the queue is the old one with the new node behind it, the
other nodes keep their fields, and nothing else of the transfer changes. -/
theorem xfer_link_tail_spec (x : fxp_xfer_mem) (l : List Nat) (a : Nat) (rr : req_cell)
    (hq : is_queue x l) (hfresh : a ∉ l) :
    ∃ x2, xfer_link_tail x a rr = some x2 ∧ is_queue x2 (l ++ [a]) ∧
      x2.cells a = some { rr with prev := x.tail, next := none } ∧
      (∀ b, b ≠ a → (x2.cells b).map req_cell.fields = (x.cells b).map req_cell.fields) ∧
      x2.req_totalsize = x.req_totalsize ∧ x2.req_maxsize = x.req_maxsize ∧
      x2.offset = x.offset ∧ x2.eof = x.eof ∧ x2.err = x.err ∧ x2.fh = x.fh := by
  obtain ⟨hhead, htail, hnd, hl⟩ := hq
  have hnd2 : (l ++ [a]).Nodup := by
    rw [List.nodup_append]
    refine ⟨hnd, List.nodup_singleton _, ?_⟩
    intro z hz hz2
    rw [List.mem_singleton] at hz2
    exact hfresh (hz2 ▸ hz)
  rcases List.eq_nil_or_concat l with h | ⟨l0, b, h⟩
  · subst h
    have ht : x.tail = none := htail
    simp only [xfer_link_tail, ht]
    refine ⟨_, rfl, ?_, ?_, ?_, rfl, rfl, rfl, rfl, rfl, rfl⟩
    · refine ⟨rfl, rfl, hnd2, ?_⟩
      refine ⟨⟨{ rr with prev := none, next := none }, ?_, rfl, rfl⟩, trivial⟩
      show (if a = a then _ else _) = _
      rw [if_pos rfl]
    · show (if a = a then _ else _) = _
      rw [if_pos rfl]
    · intro z hz
      show (if z = a then _ else x.cells z).map req_cell.fields = _
      rw [if_neg hz]
  · rw [List.concat_eq_append] at h
    subst h
    have ht : x.tail = some b := by rw [htail]; simp
    obtain ⟨cb, hcb⟩ := linked_mem x.cells _ _ _ hl b (by simp)
    have hbne : b ≠ a := by
      intro hb
      exact hfresh (by rw [← hb]; simp)
    have hl0 : ∀ z ∈ l0, z ≠ b := by
      intro z hz hzb
      exact (List.nodup_append.mp hnd).2.2 hz (by rw [hzb]; simp)
    simp only [xfer_link_tail, ht, cell_write, hcb, Option.map_some']
    refine ⟨_, rfl, ?_, ?_, ?_, rfl, rfl, rfl, rfl, rfl, rfl⟩
    · refine ⟨?_, ?_, hnd2, ?_⟩
      · show x.head = _
        rw [hhead]
        cases hh : (l0 ++ [b]).head? with
        | none => simp at hh
        | some v =>
          have := head_append_or (l0 ++ [b]) [a] none
          rw [option_or_none, hh] at this
          rw [this]
          rfl
      · show some a = _
        rw [getLast_append_or]
        rfl
      · rw [linked_append]
        constructor
        · apply linked_set_next x.cells _ l0 b cb none none (some a) hl hcb
          · intro z hz
            show (if z = a then _ else if z = b then _ else x.cells z) = x.cells z
            have hz1 : z ≠ a := by
              intro hzz
              exact hfresh (by rw [← hzz]; simp [hz])
            rw [if_neg hz1, if_neg (hl0 z hz)]
          · show (if b = a then _ else if b = b then _ else x.cells b) = _
            rw [if_neg hbne, if_pos rfl]
        · refine ⟨⟨{ rr with prev := some b, next := none }, ?_, ?_, rfl⟩, trivial⟩
          · show (if a = a then _ else _) = _
            rw [if_pos rfl]
          · show some b = _
            simp
    · show (if a = a then _ else _) = _
      rw [if_pos rfl]
    · intro z hz
      show (if z = a then _ else if z = b then _ else x.cells z).map req_cell.fields = _
      rw [if_neg hz]
      by_cases hzb : z = b
      · rw [if_pos hzb, hzb, hcb]
        rfl
      · rw [if_neg hzb]
/-- `sftp_alloc_request` hands out no node address. -/
theorem sftp_alloc_request_heap (g g1 : sftp_globals) (req : sftp_request)
    (h : sftp_alloc_request g = some (req, g1)) : g1.heap_next = g.heap_next := by
  unfold sftp_alloc_request at h
  simp only at h
  split at h
  · exact absurd h (by simp)
  · split_ifs at h
    simp only [Option.some.injEq, Prod.mk.injEq] at h
    rw [← h.2]

/-- `fxp_read_send` hands out no node address. -/
theorem fxp_read_send_heap (g g1 : sftp_globals) (req : sftp_request) (handle : List Nat)
    (offset : Nat) (len : Int) (h : fxp_read_send g handle offset len = some (req, g1)) :
    g1.heap_next = g.heap_next := by
  cases ha : sftp_alloc_request g with
  | none => unfold fxp_read_send at h; rw [ha] at h; simp at h
  | some r =>
    obtain ⟨req0, ga⟩ := r
    rw [fxp_read_send_eq g ga req0 handle offset len ha] at h
    simp only [Option.some.injEq, Prod.mk.injEq] at h
    rw [← h.2]
    exact sftp_alloc_request_heap g ga req0 ha

/-- `fxp_write_send` hands out no node address. -/
theorem fxp_write_send_heap (g g1 : sftp_globals) (req : sftp_request) (handle buffer : List Nat)
    (offset : Nat) (h : fxp_write_send g handle buffer offset = some (req, g1)) :
    g1.heap_next = g.heap_next := by
  cases ha : sftp_alloc_request g with
  | none => unfold fxp_write_send at h; rw [ha] at h; simp at h
  | some r =>
    obtain ⟨req0, ga⟩ := r
    rw [fxp_write_send_eq g ga req0 handle buffer offset ha] at h
    simp only [Option.some.injEq, Prod.mk.injEq] at h
    rw [← h.2]
    exact sftp_alloc_request_heap g ga req0 ha

/-- `sftp_find_request` hands out no node address. -/
theorem sftp_find_request_heap (g g1 : sftp_globals) (pktin : Option sftp_packet)
    (r : Option sftp_request) (p : Option sftp_packet)
    (h : sftp_find_request g pktin = some (r, p, g1)) : g1.heap_next = g.heap_next := by
  unfold sftp_find_request at h
  cases pktin with
  | none =>
    simp only [Option.some.injEq, Prod.mk.injEq] at h
    rw [← h.2.2]; rfl
  | some pkt =>
    simp only at h
    split_ifs at h with he
    · simp only [Option.some.injEq, Prod.mk.injEq] at h
      rw [← h.2.2]; rfl
    · cases ht : g.sftp_requests with
      | none => rw [ht] at h; simp at h
      | some t =>
        rw [ht] at h
        simp only at h
        cases hf : find234 t (get_uint32 pkt.src).1 with
        | none =>
          rw [hf] at h
          simp only [Option.some.injEq, Prod.mk.injEq] at h
          rw [← h.2.2]; rfl
        | some req =>
          rw [hf] at h
          simp only at h
          split_ifs at h
          · simp only [Option.some.injEq, Prod.mk.injEq] at h
            rw [← h.2.2]; rfl
          · simp only [Option.some.injEq, Prod.mk.injEq] at h
            rw [← h.2.2]

/-- `fxp_read_recv` hands out no node address. -/
theorem fxp_read_recv_heap (g : sftp_globals) (pktin : sftp_packet) (len : Int) :
    (fxp_read_recv g pktin len).2.2.heap_next = g.heap_next := by
  unfold fxp_read_recv
  split_ifs
  · simp only
    split_ifs <;> rfl
  · exact (fxp_got_status_frame g pktin).2.2

/-- The invariant after a node of length `len` has been put at the tail, at
the address `heap_next`, and accounted for. -/
theorem window_inv_push (g g1 : sftp_globals) (x : fxp_xfer_mem) (l : List Nat) (rr : req_cell)
    (hinv : window_inv g x l) (hg : g1.heap_next = g.heap_next + 1) :
    ∃ x2, xfer_link_tail x g.heap_next rr = some x2 ∧ x2.req_totalsize = x.req_totalsize ∧
      x2.req_maxsize = x.req_maxsize ∧
      ∀ off : Nat, window_inv g1
        { x2 with offset := off, req_totalsize := x2.req_totalsize + rr.len }
        (l ++ [g.heap_next]) := by
  have hfresh : g.heap_next ∉ l := fun h => Nat.lt_irrefl _ (hinv.heap _ h)
  obtain ⟨x2, h1, h2, h3, h4, h5, h6, _⟩ :=
    xfer_link_tail_spec x l g.heap_next rr hinv.queue hfresh
  refine ⟨x2, h1, h5, h6, fun off => ⟨h2, ?_, ?_, ?_⟩⟩
  · show x2.req_totalsize + rr.len = queue_total x2.cells (l ++ [g.heap_next])
    rw [queue_total_append, queue_total_cons _ _ _ _ h3, h5, hinv.total]
    have hc : queue_total x2.cells l = queue_total x.cells l := by
      apply queue_total_congr
      intro a ha
      exact len_of_fields _ _ (h4 a (fun h => hfresh (h ▸ ha)))
    rw [hc]
    show _ = _ + (rr.len + queue_total x2.cells [])
    have : queue_total x2.cells [] = 0 := rfl
    rw [this]
    omega
  · intro a ha
    by_cases hab : a = g.heap_next
    · rw [hab]; simp
    · have : (x.cells a).isSome = true := by
        rw [← isSome_of_fields _ _ (h4 a hab)]; exact ha
      exact List.mem_append_left _ (hinv.live a this)
  · intro a ha
    rw [hg]
    rcases List.mem_append.mp ha with h | h
    · exact Nat.lt_succ_of_lt (hinv.heap a h)
    · rw [List.mem_singleton] at h
      omega

/-- `xfer_upload_data` links its node as `xfer_link_tail` does. -/
theorem xfer_upload_data_link (g : sftp_globals) (x : fxp_xfer_mem) (buffer : List Nat) :
    xfer_upload_data g x buffer =
      match xfer_link_tail x g.heap_next
          (req_cell.mk none x.tail none (buffer.length : Int) 0 0 x.offset) with
      | none => none
      | some x2 =>
        match fxp_write_send { g with heap_next := g.heap_next + 1 } x2.fh buffer x.offset with
        | none => none
        | some (req, g1) =>
          some (fxp_set_userdata (sftp_register g1 req.id) req.id (some g.heap_next),
            { x2 with offset := uint64_add32 x2.offset (buffer.length : Int).toNat,
                      req_totalsize := x2.req_totalsize + (buffer.length : Int) }) := by
  unfold xfer_upload_data xfer_link_tail
  cases ht : x.tail with
  | none => rfl
  | some t =>
    simp only
    cases hc : cell_write x.cells t (fun c => { c with next := some g.heap_next }) with
    | none => rfl
    | some cells => rfl

/-- One pass of the loop of `xfer_download_queue` keeps the invariant: the new
node is behind the queue. -/
theorem xfer_download_queue_body_inv (g g1 : sftp_globals) (x x1 : fxp_xfer_mem) (l : List Nat)
    (hinv : window_inv g x l) (h : xfer_download_queue_body_mem g x = some (g1, x1)) :
    window_inv g1 x1 (l ++ [g.heap_next]) ∧ x1.req_totalsize = x.req_totalsize + 32768 ∧
      x1.req_maxsize = x.req_maxsize := by
  unfold xfer_download_queue_body_mem at h
  simp only at h
  cases hl : xfer_link_tail x g.heap_next
      { next := none, prev := x.tail, buffer := some [], len := 32768, retlen := 0,
        complete := 0, offset := x.offset } with
  | none => rw [hl] at h; simp at h
  | some x2 =>
    rw [hl] at h
    simp only at h
    cases hs : fxp_read_send { g with heap_next := g.heap_next + 1 } x2.fh x.offset 32768 with
    | none => rw [hs] at h; simp at h
    | some r =>
      obtain ⟨req, ga⟩ := r
      rw [hs] at h
      simp only [Option.some.injEq, Prod.mk.injEq] at h
      have hheap : g1.heap_next = g.heap_next + 1 := by
        rw [← h.1]
        exact fxp_read_send_heap _ ga req _ _ _ hs
      obtain ⟨x3, k1, q5, q6, k4⟩ := window_inv_push g g1 x l
        { next := none, prev := x.tail, buffer := some [], len := 32768, retlen := 0,
          complete := 0, offset := x.offset } hinv hheap
      rw [hl] at k1
      have hx : x2 = x3 := Option.some.inj k1
      subst hx
      rw [← h.2]
      exact ⟨k4 _, by show x2.req_totalsize + 32768 = _; rw [q5], q6⟩

/-- `xfer_upload_data` keeps the invariant: the new node is behind the
queue. -/
theorem xfer_upload_data_inv (g g1 : sftp_globals) (x x1 : fxp_xfer_mem) (buffer l : List Nat)
    (hinv : window_inv g x l) (h : xfer_upload_data g x buffer = some (g1, x1)) :
    window_inv g1 x1 (l ++ [g.heap_next]) := by
  rw [xfer_upload_data_link] at h
  cases hl : xfer_link_tail x g.heap_next
      (req_cell.mk none x.tail none (buffer.length : Int) 0 0 x.offset) with
  | none => rw [hl] at h; simp at h
  | some x2 =>
    rw [hl] at h
    simp only at h
    cases hs : fxp_write_send { g with heap_next := g.heap_next + 1 } x2.fh buffer x.offset with
    | none => rw [hs] at h; simp at h
    | some r =>
      obtain ⟨req, ga⟩ := r
      rw [hs] at h
      simp only [Option.some.injEq, Prod.mk.injEq] at h
      have hheap : g1.heap_next = g.heap_next + 1 := by
        rw [← h.1]
        exact fxp_write_send_heap _ ga req _ _ _ hs
      obtain ⟨x3, k1, _, _, k4⟩ := window_inv_push g g1 x l
        (req_cell.mk none x.tail none (buffer.length : Int) 0 0 x.offset) hinv hheap
      rw [hl] at k1
      have hx : x2 = x3 := Option.some.inj k1
      subst hx
      rw [← h.2]
      exact k4 _
/-- The loop of `xfer_download_queue` keeps the invariant. -/
theorem xfer_download_queue_loop_inv :
    ∀ (fuel : Nat) (g g1 : sftp_globals) (x x1 : fxp_xfer_mem) (l : List Nat),
      window_inv g x l → xfer_download_queue_loop_mem fuel g x = some (g1, x1) →
      ∃ l1, window_inv g1 x1 l1 := by
  intro fuel
  induction fuel with
  | zero => intro g g1 x x1 l _ h; simp [xfer_download_queue_loop_mem] at h
  | succ f ih =>
    intro g g1 x x1 l hinv h
    unfold xfer_download_queue_loop_mem at h
    split_ifs at h with hc
    · cases hb : xfer_download_queue_body_mem g x with
      | none => rw [hb] at h; simp at h
      | some r =>
        obtain ⟨g2, x2⟩ := r
        rw [hb] at h
        exact ih g2 g1 x2 x1 _ (xfer_download_queue_body_inv g g2 x x2 l hinv hb).1 h
    · simp only [Option.some.injEq, Prod.mk.injEq] at h
      rw [← h.1, ← h.2]
      exact ⟨l, hinv⟩

/-- A piece of list keeps its shape in a memory that agrees on the links of
every node. -/
theorem linked_links (cells cells2 : Nat → Option req_cell) (l : List Nat) :
    ∀ (p n : Option Nat),
      (∀ a, (cells2 a).map (fun c => (c.prev, c.next)) =
        (cells a).map (fun c => (c.prev, c.next))) →
      linked cells p l n → linked cells2 p l n := by
  induction l with
  | nil => intro p n _ _; trivial
  | cons a rest ih =>
    intro p n hag h
    obtain ⟨⟨c, hc, hp, hn⟩, hrest⟩ := h
    have ha := hag a
    rw [hc] at ha
    cases hc2 : cells2 a with
    | none => rw [hc2] at ha; simp at ha
    | some c2 =>
      rw [hc2] at ha
      simp only [Option.map_some', Option.some.injEq, Prod.mk.injEq] at ha
      exact ⟨⟨c2, hc2, by rw [ha.1]; exact hp, by rw [ha.2]; exact hn⟩, ih _ _ hag hrest⟩

/-- The invariant after a write through a node pointer that leaves the links
and the length of the node alone. -/
theorem window_inv_update (g g1 : sftp_globals) (x x1 : fxp_xfer_mem) (l : List Nat)
    (addr : Nat) (rr rr1 : req_cell) (hinv : window_inv g x l) (hc : x.cells addr = some rr)
    (hp : rr1.prev = rr.prev) (hn : rr1.next = rr.next) (hl : rr1.len = rr.len)
    (hg : g1.heap_next = g.heap_next) (hh : x1.head = x.head) (ht : x1.tail = x.tail)
    (hts : x1.req_totalsize = x.req_totalsize)
    (hcells : x1.cells = fun b => if b = addr then some rr1 else x.cells b) :
    window_inv g1 x1 l := by
  have hcell : ∀ b, x1.cells b = if b = addr then some rr1 else x.cells b := by
    intro b; rw [hcells]
  refine ⟨⟨by rw [hh]; exact hinv.queue.1, by rw [ht]; exact hinv.queue.2.1,
    hinv.queue.2.2.1, ?_⟩, ?_, ?_, ?_⟩
  · apply linked_links x.cells x1.cells l none none _ hinv.queue.2.2.2
    intro a
    rw [hcell a]
    by_cases ha : a = addr
    · rw [if_pos ha, ha, hc]
      simp only [Option.map_some', hp, hn]
    · rw [if_neg ha]
  · rw [hts, hinv.total]
    symm
    apply queue_total_congr
    intro a _
    rw [hcell a]
    by_cases ha : a = addr
    · rw [if_pos ha, ha, hc]
      simp only [Option.map_some', hl]
    · rw [if_neg ha]
  · intro a ha
    rw [hcell a] at ha
    by_cases hab : a = addr
    · apply hinv.live
      rw [hab, hc]; rfl
    · rw [if_neg hab] at ha
      exact hinv.live a ha
  · intro a ha
    rw [hg]
    exact hinv.heap a ha

/-- What the end of `xfer_download_gotpkt` changes: the node is written with
`complete = 1`; the pointers and `req_totalsize` stay. -/
theorem xfer_download_gotpkt_tail_mem_frame (g : sftp_globals) (x : fxp_xfer_mem) (addr : Nat)
    (rr : req_cell) :
    (xfer_download_gotpkt_tail_mem g x addr rr).2.1.heap_next = g.heap_next ∧
    (xfer_download_gotpkt_tail_mem g x addr rr).2.2.head = x.head ∧
    (xfer_download_gotpkt_tail_mem g x addr rr).2.2.tail = x.tail ∧
    (xfer_download_gotpkt_tail_mem g x addr rr).2.2.req_totalsize = x.req_totalsize ∧
    (xfer_download_gotpkt_tail_mem g x addr rr).2.2.cells =
      fun b => if b = addr then some { rr with complete := 1 } else x.cells b := by
  unfold xfer_download_gotpkt_tail_mem
  simp only
  split_ifs <;> exact ⟨rfl, rfl, rfl, rfl, rfl⟩

/-- `xfer_download_gotpkt` keeps the invariant, with the same queue. -/
theorem xfer_download_gotpkt_inv (g g1 : sftp_globals) (x x1 : fxp_xfer_mem) (l : List Nat)
    (pktin : sftp_packet) (ret : Int) (hinv : window_inv g x l)
    (h : xfer_download_gotpkt_mem g x pktin = some (ret, g1, x1)) : window_inv g1 x1 l := by
  unfold xfer_download_gotpkt_mem at h
  cases hf : sftp_find_request g (some pktin) with
  | none => rw [hf] at h; simp at h
  | some r =>
    obtain ⟨rq, p, g2⟩ := r
    have hheap := sftp_find_request_heap g g2 _ rq p hf
    rw [hf] at h
    cases rq with
    | none =>
      simp only [Option.some.injEq, Prod.mk.injEq] at h
      rw [← h.2.1, ← h.2.2]
      exact ⟨hinv.queue, hinv.total, hinv.live, fun a ha => by rw [hheap]; exact hinv.heap a ha⟩
    | some rreq =>
      cases p with
      | none => simp at h
      | some pkt1 =>
        simp only at h
        cases hu : fxp_get_userdata rreq with
        | none =>
          rw [hu] at h
          simp only [Option.some.injEq, Prod.mk.injEq] at h
          rw [← h.2.1, ← h.2.2]
          exact ⟨hinv.queue, hinv.total, hinv.live,
            fun a ha => by
              show a < g2.heap_next
              rw [hheap]; exact hinv.heap a ha⟩
        | some addr =>
          rw [hu] at h
          simp only at h
          cases hc : x.cells addr with
          | none => rw [hc] at h; simp at h
          | some rr =>
            rw [hc] at h
            simp only at h
            have hrh := fxp_read_recv_heap g2 pkt1 rr.len
            split_ifs at h with h0 h1 h2
            · simp only [Option.some.injEq] at h
              obtain ⟨f1, f2, f3, f4, f5⟩ := xfer_download_gotpkt_tail_mem_frame
                (fxp_read_recv g2 pkt1 rr.len).2.2 { x with eof := true } addr
                { rr with buffer := buffer_after rr.buffer (fxp_read_recv g2 pkt1 rr.len).2.1,
                          retlen := 0, complete := -1 }
              have e1 := congrArg (fun r => r.2.1) h
              have e2 := congrArg (fun r => r.2.2) h
              simp only at e1 e2
              rw [← e1, ← e2]
              exact window_inv_update g _ x _ l addr rr
                { rr with buffer := buffer_after rr.buffer (fxp_read_recv g2 pkt1 rr.len).2.1,
                          retlen := 0, complete := 1 }
                hinv hc rfl rfl rfl (by rw [f1, hrh, hheap]) f2 f3 f4 f5
            · simp only [Option.some.injEq, Prod.mk.injEq] at h
              rw [← h.2.1, ← h.2.2]
              exact window_inv_update g _ x _ l addr rr
                { rr with buffer := buffer_after rr.buffer (fxp_read_recv g2 pkt1 rr.len).2.1,
                          retlen := (fxp_read_recv g2 pkt1 rr.len).1, complete := -1 }
                hinv hc rfl rfl rfl (by rw [hrh, hheap]) rfl rfl rfl rfl
            · simp only [Option.some.injEq] at h
              obtain ⟨f1, f2, f3, f4, f5⟩ := xfer_download_gotpkt_tail_mem_frame
                (fxp_read_recv g2 pkt1 rr.len).2.2 x addr
                { rr with buffer := buffer_after rr.buffer (fxp_read_recv g2 pkt1 rr.len).2.1,
                          retlen := (fxp_read_recv g2 pkt1 rr.len).1 }
              have e1 := congrArg (fun r => r.2.1) h
              have e2 := congrArg (fun r => r.2.2) h
              simp only at e1 e2
              rw [← e1, ← e2]
              exact window_inv_update g _ x _ l addr rr
                { rr with buffer := buffer_after rr.buffer (fxp_read_recv g2 pkt1 rr.len).2.1,
                          retlen := (fxp_read_recv g2 pkt1 rr.len).1, complete := 1 }
                hinv hc rfl rfl rfl (by rw [f1, hrh, hheap]) f2 f3 f4 f5
/-- Unlinking a node of the queue keeps the invariant, with the queue less
that node. -/
theorem window_inv_unlink (g : sftp_globals) (x : fxp_xfer_mem) (l : List Nat) (addr : Nat)
    (rr : req_cell) (hinv : window_inv g x l) (hc : x.cells addr = some rr) :
    ∃ x1, xfer_upload_unlink x addr rr = some x1 ∧ window_inv g x1 (l.erase addr) ∧
      x1.eof = x.eof ∧ x1.err = x.err := by
  have hmem : addr ∈ l := hinv.live addr (by rw [hc]; rfl)
  obtain ⟨l1, l2, hsplit, herase⟩ := erase_split l addr hinv.queue.2.2.1 hmem
  have hq2 : is_queue x (l1 ++ addr :: l2) := by rw [← hsplit]; exact hinv.queue
  obtain ⟨x1, hun, hq1, hts, hfree, hfields, _, heof, herr, _⟩ :=
    xfer_upload_unlink_spec x l1 l2 addr rr hq2 hc
  have hnd := hinv.queue.2.2.1
  rw [hsplit] at hnd
  have ha1 : addr ∉ l1 := fun h =>
    (List.nodup_append.mp hnd).2.2 h (List.mem_cons_self _ _)
  have ha2 : addr ∉ l2 := (List.nodup_cons.mp (List.nodup_append.mp hnd).2.1).1
  refine ⟨x1, hun, ⟨by rw [herase]; exact hq1, ?_, ?_, ?_⟩, heof, herr⟩
  · rw [hts, hinv.total, herase, hsplit, queue_total_append, queue_total_append,
      queue_total_cons _ _ _ _ hc]
    have e1 : queue_total x1.cells l1 = queue_total x.cells l1 := by
      apply queue_total_congr
      intro a ha
      exact len_of_fields _ _ (hfields a (fun h => ha1 (h ▸ ha)))
    have e2 : queue_total x1.cells l2 = queue_total x.cells l2 := by
      apply queue_total_congr
      intro a ha
      exact len_of_fields _ _ (hfields a (fun h => ha2 (h ▸ ha)))
    rw [e1, e2]
    omega
  · intro a ha
    have hne : a ≠ addr := by
      intro h
      rw [h, hfree] at ha
      exact absurd ha (by simp)
    have : (x.cells a).isSome = true := by
      rw [← isSome_of_fields _ _ (hfields a hne)]; exact ha
    exact (List.mem_erase_of_ne hne).mpr (hinv.live a this)
  · intro a ha
    exact hinv.heap a (List.mem_of_mem_erase ha)

/-- `xfer_upload_gotpkt` keeps the invariant. -/
theorem xfer_upload_gotpkt_inv (g g1 : sftp_globals) (x x1 : fxp_xfer_mem) (l : List Nat)
    (pktin : sftp_packet) (ret : Int) (hinv : window_inv g x l)
    (h : xfer_upload_gotpkt g x pktin = some (ret, g1, x1)) : ∃ l1, window_inv g1 x1 l1 := by
  unfold xfer_upload_gotpkt at h
  cases hf : sftp_find_request g (some pktin) with
  | none => rw [hf] at h; simp at h
  | some r =>
    obtain ⟨rq, p, g2⟩ := r
    have hheap := sftp_find_request_heap g g2 _ rq p hf
    rw [hf] at h
    cases rq with
    | none =>
      simp only [Option.some.injEq, Prod.mk.injEq] at h
      rw [← h.2.1, ← h.2.2]
      exact ⟨l, hinv.queue, hinv.total, hinv.live,
        fun a ha => by rw [hheap]; exact hinv.heap a ha⟩
    | some rreq =>
      cases p with
      | none => simp at h
      | some pkt1 =>
        simp only at h
        cases hu : fxp_get_userdata rreq with
        | none =>
          rw [hu] at h
          simp only [Option.some.injEq, Prod.mk.injEq] at h
          rw [← h.2.1, ← h.2.2]
          exact ⟨l, hinv.queue, hinv.total, hinv.live,
            fun a ha => by
              show a < g2.heap_next
              rw [hheap]; exact hinv.heap a ha⟩
        | some addr =>
          rw [hu] at h
          simp only at h
          cases hc : x.cells addr with
          | none => rw [hc] at h; simp at h
          | some rr =>
            rw [hc] at h
            simp only at h
            obtain ⟨x2, hun, hinv2, _, _⟩ := window_inv_unlink g x l addr rr hinv hc
            rw [hun] at h
            simp only [Option.some.injEq, Prod.mk.injEq] at h
            rw [← h.2.1, ← h.2.2]
            refine ⟨l.erase addr, hinv2.queue, hinv2.total, hinv2.live, ?_⟩
            intro a ha
            have : (fxp_write_recv g2 pkt1).2.heap_next = g2.heap_next :=
              (fxp_got_status_frame g2 pkt1).2.2
            rw [this, hheap]
            exact hinv2.heap a ha

/-- On a node without a predecessor, the removal in `xfer_download_data` is
the unlinking of `xfer_upload_gotpkt`. -/
theorem xfer_download_data_pop_eq (x : fxp_xfer_mem) (h : Nat) (rr : req_cell)
    (hp : rr.prev = none) : xfer_download_data_pop x h rr = xfer_upload_unlink x h rr := by
  unfold xfer_download_data_pop xfer_upload_unlink
  rw [hp]
  rfl

/-- The head node of a well-formed queue has no predecessor. -/
theorem head_prev_none (x : fxp_xfer_mem) (h : Nat) (rest : List Nat) (rr : req_cell)
    (hq : is_queue x (h :: rest)) (hc : x.cells h = some rr) : rr.prev = none := by
  obtain ⟨⟨c, hcc, hp, _⟩, _⟩ := hq.2.2.2
  rw [hc] at hcc
  rw [Option.some.inj hcc]
  exact hp

/-- The loop of `xfer_download_data` keeps the invariant, and with fuel for
every node of the queue and one more it returns. -/
theorem xfer_download_data_loop_inv (g : sftp_globals) :
    ∀ (fuel : Nat) (x : fxp_xfer_mem) (l : List Nat) (retbuf : Option (List Nat))
      (retlen : Int), window_inv g x l → l.length < fuel →
      ∃ x1 rb rl l1, xfer_download_data_loop_mem fuel x retbuf retlen = some (x1, rb, rl) ∧
        window_inv g x1 l1 ∧ x1.eof = x.eof ∧ x1.err = x.err := by
  intro fuel
  induction fuel with
  | zero => intro x l _ _ _ hl; exact absurd hl (Nat.not_lt_zero _)
  | succ f ih =>
    intro x l retbuf retlen hinv hl
    unfold xfer_download_data_loop_mem
    cases l with
    | nil =>
      have hh : x.head = none := hinv.queue.1
      rw [hh]
      exact ⟨x, retbuf, retlen, [], rfl, hinv, rfl, rfl⟩
    | cons h rest =>
      have hh : x.head = some h := hinv.queue.1
      obtain ⟨rr, hc⟩ := linked_mem x.cells _ _ _ hinv.queue.2.2.2 h (List.mem_cons_self _ _)
      rw [hh]
      simp only [hc]
      split_ifs with hcond hpos
      · obtain ⟨x2, hun, hinv2, he2, hr2⟩ := window_inv_unlink g x (h :: rest) h rr hinv hc
        rw [xfer_download_data_pop_eq x h rr (head_prev_none x h rest rr hinv.queue hc), hun]
        simp only
        rw [List.erase_cons_head] at hinv2
        obtain ⟨x3, rb, rl, l3, k1, k2, k3, k4⟩ := ih x2 rest rr.buffer rr.retlen hinv2
          (by simp only [List.length_cons] at hl; omega)
        exact ⟨x3, rb, rl, l3, k1, k2, by rw [k3, he2], by rw [k4, hr2]⟩
      · obtain ⟨x2, hun, hinv2, he2, hr2⟩ := window_inv_unlink g x (h :: rest) h rr hinv hc
        rw [xfer_download_data_pop_eq x h rr (head_prev_none x h rest rr hinv.queue hc), hun]
        simp only
        rw [List.erase_cons_head] at hinv2
        obtain ⟨x3, rb, rl, l3, k1, k2, k3, k4⟩ := ih x2 rest retbuf retlen hinv2
          (by simp only [List.length_cons] at hl; omega)
        exact ⟨x3, rb, rl, l3, k1, k2, by rw [k3, he2], by rw [k4, hr2]⟩
      · exact ⟨x, retbuf, retlen, h :: rest, rfl, hinv, rfl, rfl⟩

/-- A queue of distinct addresses below `n` has at most `n` nodes. -/
theorem queue_length_le (l : List Nat) (n : Nat) (hnd : l.Nodup) (hlt : ∀ a ∈ l, a < n) :
    l.length ≤ n := by
  have hsub : l ⊆ List.range n := fun a ha => List.mem_range.mpr (hlt a ha)
  have := (List.subperm_of_subset hnd hsub).length_le
  rw [List.length_range] at this
  exact this

/-- `xfer_download_data` returns on a transfer that satisfies the invariant,
and keeps it. -/
theorem xfer_download_data_inv (g : sftp_globals) (x : fxp_xfer_mem) (l : List Nat)
    (hinv : window_inv g x l) :
    ∃ x1 ret out l1, xfer_download_data_mem g x = some (x1, ret, out) ∧ window_inv g x1 l1 := by
  have hlen := queue_length_le l g.heap_next hinv.queue.2.2.1 hinv.heap
  obtain ⟨x1, rb, rl, l1, k1, k2, _, _⟩ :=
    xfer_download_data_loop_inv g (g.heap_next + 1) x l none 0 hinv (by omega)
  unfold xfer_download_data_mem
  rw [k1]
  cases rb with
  | none => exact ⟨x1, 0, none, l1, rfl, k2⟩
  | some b => exact ⟨x1, 1, some (b, rl), l1, rfl, k2⟩
/-- Every call of the transfer engine keeps the invariant. -/
theorem xfer_step_inv (s s1 : sftp_globals × fxp_xfer_mem) (c : xfer_call) (l : List Nat)
    (hinv : window_inv s.1 s.2 l) (h : xfer_step s c = some s1) :
    ∃ l1, window_inv s1.1 s1.2 l1 := by
  cases c with
  | download_queue =>
    exact xfer_download_queue_loop_inv _ s.1 s1.1 s.2 s1.2 l hinv h
  | download_gotpkt pktin =>
    simp only [xfer_step] at h
    cases hr : xfer_download_gotpkt_mem s.1 s.2 pktin with
    | none => rw [hr] at h; simp at h
    | some r =>
      obtain ⟨ret, g1, x1⟩ := r
      rw [hr] at h
      simp only [Option.map_some', Option.some.injEq] at h
      rw [← h]
      exact ⟨l, xfer_download_gotpkt_inv s.1 g1 s.2 x1 l pktin ret hinv hr⟩
  | download_data =>
    simp only [xfer_step] at h
    obtain ⟨x1, ret, out, l1, k1, k2⟩ := xfer_download_data_inv s.1 s.2 l hinv
    rw [k1] at h
    simp only [Option.map_some', Option.some.injEq] at h
    rw [← h]
    exact ⟨l1, k2⟩
  | upload_data buffer =>
    exact ⟨_, xfer_upload_data_inv s.1 s1.1 s.2 s1.2 buffer l hinv h⟩
  | upload_gotpkt pktin =>
    simp only [xfer_step] at h
    cases hr : xfer_upload_gotpkt s.1 s.2 pktin with
    | none => rw [hr] at h; simp at h
    | some r =>
      obtain ⟨ret, g1, x1⟩ := r
      rw [hr] at h
      simp only [Option.map_some', Option.some.injEq] at h
      rw [← h]
      exact xfer_upload_gotpkt_inv s.1 g1 s.2 x1 l pktin ret hinv hr

/-- Every sequence of calls keeps the invariant. -/
theorem xfer_run_inv :
    ∀ (cs : List xfer_call) (s s1 : sftp_globals × fxp_xfer_mem) (l : List Nat),
      window_inv s.1 s.2 l → xfer_run cs s = some s1 → ∃ l1, window_inv s1.1 s1.2 l1 := by
  intro cs
  induction cs with
  | nil =>
    intro s s1 l hinv h
    simp only [xfer_run, Option.some.injEq] at h
    rw [← h]
    exact ⟨l, hinv⟩
  | cons c rest ih =>
    intro s s1 l hinv h
    unfold xfer_run at h
    cases hc : xfer_step s c with
    | none => rw [hc] at h; simp at h
    | some s2 =>
      rw [hc] at h
      obtain ⟨l2, hinv2⟩ := xfer_step_inv s s2 c l hinv hc
      exact ih s2 s1 l2 hinv2 h

/-- `xfer_init` gives a transfer that satisfies the invariant with the empty
queue, whatever the globals. -/
theorem xfer_init_inv (g : sftp_globals) (fh : List Nat) (offset : Nat) (eof0 : Bool) :
    window_inv g (xfer_init_mem fh offset eof0) [] :=
  ⟨⟨rfl, rfl, List.nodup_nil, trivial⟩, rfl, fun a ha => absurd ha (by simp [xfer_init_mem]),
    fun a ha => absurd ha (List.not_mem_nil _)⟩

/-- The `prev` pointer of a node of a piece of list is the pointer before the
piece or the address of a node of the piece. -/
theorem linked_prev_cases (cells : Nat → Option req_cell) (l : List Nat) :
    ∀ (p n : Option Nat), linked cells p l n → ∀ b ∈ l, ∀ cb, cells b = some cb →
      cb.prev = p ∨ ∃ v ∈ l, cb.prev = some v := by
  induction l with
  | nil => intro p n _ b hb; exact absurd hb (List.not_mem_nil _)
  | cons a rest ih =>
    intro p n h b hb cb hcb
    obtain ⟨⟨c, hc, hp, _⟩, hrest⟩ := h
    rcases List.mem_cons.mp hb with h1 | h1
    · rw [h1, hc] at hcb
      rw [← Option.some.inj hcb]
      exact Or.inl hp
    · rcases ih (some a) n hrest b h1 cb hcb with h2 | ⟨v, hv, h2⟩
      · exact Or.inr ⟨a, List.mem_cons_self _ _, h2⟩
      · exact Or.inr ⟨v, List.mem_cons_of_mem _ hv, h2⟩

/-- The `next` pointer of a node of a piece of list is the pointer behind the
piece or the address of a node of the piece other than the first. -/
theorem linked_next_cases (cells : Nat → Option req_cell) (l : List Nat) :
    ∀ (p n : Option Nat), linked cells p l n → ∀ b ∈ l, ∀ cb, cells b = some cb →
      cb.next = n ∨ ∃ v ∈ l.tail, cb.next = some v := by
  induction l with
  | nil => intro p n _ b hb; exact absurd hb (List.not_mem_nil _)
  | cons a rest ih =>
    intro p n h b hb cb hcb
    obtain ⟨⟨c, hc, _, hn⟩, hrest⟩ := h
    rcases List.mem_cons.mp hb with h1 | h1
    · rw [h1, hc] at hcb
      rw [← Option.some.inj hcb, hn]
      cases rest with
      | nil => exact Or.inl rfl
      | cons r tl => exact Or.inr ⟨r, List.mem_cons_self _ _, rfl⟩
    · rcases ih (some a) n hrest b h1 cb hcb with h2 | ⟨v, hv, h2⟩
      · exact Or.inl h2
      · exact Or.inr ⟨v, List.mem_of_mem_tail hv, h2⟩

/-- In a piece of list of distinct nodes whose outer pointers point at none of
them, `next` and `prev` are inverse to each other: the `next` pointer of a
node points at a node exactly when the `prev` pointer of that node points
back. -/
theorem linked_inverse (cells : Nat → Option req_cell) (l : List Nat) :
    ∀ (p n : Option Nat), linked cells p l n → l.Nodup →
      (∀ v, p = some v → v ∉ l) → (∀ v, n = some v → v ∉ l) →
      ∀ a ∈ l, ∀ b ∈ l, ∀ ca cb, cells a = some ca → cells b = some cb →
        (ca.next = some b ↔ cb.prev = some a) := by
  induction l with
  | nil => intro p n _ _ _ _ a ha; exact absurd ha (List.not_mem_nil _)
  | cons h rest ih =>
    intro p n hl hnd hp hn a ha b hb ca cb hca hcb
    have hl0 := hl
    obtain ⟨⟨c, hc, hcp, hcn⟩, hrest⟩ := hl
    have hh : h ∉ rest := (List.nodup_cons.mp hnd).1
    have hnd2 : rest.Nodup := (List.nodup_cons.mp hnd).2
    rcases List.mem_cons.mp ha with h1 | h1
    · subst h1
      rw [hc] at hca
      have hcac : c = ca := Option.some.inj hca
      subst hcac
      rcases List.mem_cons.mp hb with h2 | h2
      · subst h2
        rw [hc] at hcb
        have hcbc : c = cb := Option.some.inj hcb
        subst hcbc
        constructor
        · intro hx
          rcases linked_next_cases cells (b :: rest) p n hl0 b (List.mem_cons_self _ _) c hc
            with h3 | ⟨v, hv, h3⟩
          · rw [h3] at hx
            exact absurd (List.mem_cons_self _ _) (hn b hx)
          · rw [h3] at hx
            have : v = b := Option.some.inj hx
            rw [this] at hv
            exact absurd hv hh
        · intro hx
          rw [hcp] at hx
          exact absurd (List.mem_cons_self _ _) (hp b hx)
      · cases rest with
        | nil => exact absurd h2 (List.not_mem_nil _)
        | cons r tl =>
          obtain ⟨⟨cr, hcr, hrp, _⟩, hrest2⟩ := hrest
          have hcn2 : c.next = some r := hcn
          constructor
          · intro hx
            rw [hcn2] at hx
            have hrb : r = b := Option.some.inj hx
            subst hrb
            rw [hcr] at hcb
            rw [← Option.some.inj hcb]
            exact hrp
          · intro hx
            rw [hcn2]
            rcases List.mem_cons.mp h2 with h3 | h3
            · rw [h3]
            · rcases linked_prev_cases cells tl (some r) n hrest2 b h3 cb hcb with h4 | ⟨v, hv, h4⟩
              · rw [h4] at hx
                have : r = a := Option.some.inj hx
                exact absurd (this ▸ List.mem_cons_self r tl) hh
              · rw [h4] at hx
                have : v = a := Option.some.inj hx
                exact absurd (List.mem_cons_of_mem _ (this ▸ hv)) hh
    · rcases List.mem_cons.mp hb with h2 | h2
      · subst h2
        rw [hc] at hcb
        have hcbc : c = cb := Option.some.inj hcb
        subst hcbc
        constructor
        · intro hx
          rcases linked_next_cases cells rest (some b) n hrest a h1 ca hca with h3 | ⟨v, hv, h3⟩
          · rw [h3] at hx
            exact absurd (List.mem_cons_self _ _) (hn b hx)
          · rw [h3] at hx
            have : v = b := Option.some.inj hx
            exact absurd (List.mem_of_mem_tail (this ▸ hv)) hh
        · intro hx
          rw [hcp] at hx
          exact absurd (List.mem_cons_of_mem _ h1) (hp a hx)
      · exact ih (some h) n hrest hnd2
          (fun v hv => by rw [← Option.some.inj hv]; exact hh)
          (fun v hv hvr => hn v hv (List.mem_cons_of_mem _ hvr)) a h1 b h2 ca cb hca hcb

/-- The last node of a piece of list points at what lies behind the piece. -/
theorem linked_last_next (cells : Nat → Option req_cell) (l : List Nat) (t : Nat)
    (p n : Option Nat) (h : linked cells p l n) (ht : l.getLast? = some t) (c : req_cell)
    (hc : cells t = some c) : c.next = n := by
  rcases List.eq_nil_or_concat l with h1 | ⟨l0, b, h1⟩
  · rw [h1] at ht; simp at ht
  · rw [List.concat_eq_append] at h1
    subst h1
    have hb : b = t := by simpa using ht
    subst hb
    rw [linked_append] at h
    obtain ⟨_, ⟨c2, hc2, _, hn2⟩, _⟩ := h
    rw [hc] at hc2
    rw [Option.some.inj hc2]
    exact hn2

/-- The sum of the lengths over a queue that is not empty and whose nodes have
positive lengths is positive. -/
theorem queue_total_pos (cells : Nat → Option req_cell) (l : List Nat)
    (hpos : ∀ a ∈ l, ∃ c, cells a = some c ∧ 0 < c.len) :
    0 ≤ queue_total cells l ∧ (l ≠ [] → 0 < queue_total cells l) := by
  induction l with
  | nil => exact ⟨le_refl _, fun h => absurd rfl h⟩
  | cons a rest ih =>
    obtain ⟨c, hc, hlen⟩ := hpos a (List.mem_cons_self _ _)
    have h := (ih (fun b hb => hpos b (List.mem_cons_of_mem _ hb))).1
    rw [queue_total_cons cells a rest c hc]
    exact ⟨by omega, fun _ => by omega⟩
/-- C34 (window accounting): in every state that a sequence of calls of
`xfer_download_queue`, `xfer_download_gotpkt`, `xfer_download_data`,
`xfer_upload_data` and `xfer_upload_gotpkt` reaches from `xfer_init`, there is
a list `l` of distinct node addresses such that `head`, `tail` and the `next`
and `prev` pointers make the queue of exactly these nodes from head to tail,
memory holds no other node, and `req_totalsize` is the sum of their `len`
fields. The head has `prev = NULL`, the tail has `next = NULL`, the `next`
pointer of a node points at a node exactly when the `prev` pointer of that
node points back, `head` is NULL exactly when `tail` is, and where all nodes
have positive lengths `req_totalsize = 0` exactly when the queue is empty.
`xfer_download_data` returns in every such state. -/
theorem C34_window_accounting (cs : List xfer_call) (g0 g : sftp_globals) (fh : List Nat)
    (offset : Nat) (eof0 : Bool) (x : fxp_xfer_mem)
    (h : xfer_run cs (g0, xfer_init_mem fh offset eof0) = some (g, x)) :
    ∃ l : List Nat, is_queue x l ∧ x.req_totalsize = queue_total x.cells l ∧
      (∀ a, (x.cells a).isSome = true ↔ a ∈ l) ∧
      (∀ a c, x.head = some a → x.cells a = some c → c.prev = none) ∧
      (∀ a c, x.tail = some a → x.cells a = some c → c.next = none) ∧
      (∀ a b ca cb, x.cells a = some ca → x.cells b = some cb →
        (ca.next = some b ↔ cb.prev = some a)) ∧
      (x.head = none ↔ x.tail = none) ∧
      ((∀ a c, x.cells a = some c → 0 < c.len) → (x.req_totalsize = 0 ↔ x.head = none)) ∧
      ∃ r, xfer_download_data_mem g x = some r := by
  obtain ⟨l, hinv⟩ := xfer_run_inv cs (g0, xfer_init_mem fh offset eof0) (g, x) []
    (xfer_init_inv g0 fh offset eof0) h
  have hinv : window_inv g x l := hinv
  obtain ⟨hhead, htail, hnd, hl⟩ := hinv.queue
  have hmem : ∀ a c, x.cells a = some c → a ∈ l :=
    fun a c hc => hinv.live a (by rw [hc]; rfl)
  refine ⟨l, hinv.queue, hinv.total, ?_, ?_, ?_, ?_, ?_, ?_, ?_⟩
  · intro a
    constructor
    · exact hinv.live a
    · intro ha
      obtain ⟨c, hc⟩ := linked_mem x.cells l none none hl a ha
      rw [hc]; rfl
  · intro a c ha hc
    cases l with
    | nil => rw [hhead] at ha; simp at ha
    | cons b rest =>
      have hab : b = a := by rw [hhead] at ha; simpa using ha
      subst hab
      exact head_prev_none x b rest c hinv.queue hc
  · intro a c ha hc
    rw [htail] at ha
    exact linked_last_next x.cells l a none none hl ha c hc
  · intro a b ca cb hca hcb
    exact linked_inverse x.cells l none none hl hnd (fun v hv => by simp at hv)
      (fun v hv => by simp at hv) a (hmem a ca hca) b (hmem b cb hcb) ca cb hca hcb
  · rw [hhead, htail]
    cases l with
    | nil => simp
    | cons b rest =>
      constructor
      · intro hx; simp at hx
      · intro hx
        have := getLast_or_cons b rest none
        rw [option_or_none, hx] at this
        cases hr : rest.getLast? with
        | none => rw [hr] at this; simp at this
        | some v => rw [hr] at this; simp at this
  · intro hpos
    have hp := queue_total_pos x.cells l (fun a ha => by
      obtain ⟨c, hc⟩ := linked_mem x.cells l none none hl a ha
      exact ⟨c, hc, hpos a c hc⟩)
    rw [hinv.total, hhead]
    cases l with
    | nil => simp [queue_total]
    | cons b rest =>
      have := hp.2 (by simp)
      constructor
      · intro hx; omega
      · intro hx; simp at hx
  · obtain ⟨x1, ret, out, _, k1, _⟩ := xfer_download_data_inv g x l hinv
    exact ⟨_, k1⟩

set_option maxRecDepth 1000000 in
/-- The example session runs without a crash; at its end 30 reads are in
flight, `req_totalsize` is 30 times 32768, and the queue runs from the node at
address 3 to the node at address 32. -/
theorem window_example_runs :
    (xfer_run window_example_calls (sftp_globals_init, xfer_init_mem [1] 0 false)).map
      (fun s => (s.2.req_totalsize, s.2.head, s.2.tail, s.1.heap_next)) =
      some (983040, some 3, some 32, 34) := by
  decide

/-- C34 at the example session. -/
theorem C34_window_accounting_witness :
    ∃ (g : sftp_globals) (x : fxp_xfer_mem),
      xfer_run window_example_calls (sftp_globals_init, xfer_init_mem [1] 0 false) =
        some (g, x) ∧
      x.req_totalsize = 983040 ∧ x.head = some 3 ∧ x.tail = some 32 ∧
      ∃ l : List Nat, is_queue x l ∧ x.req_totalsize = queue_total x.cells l ∧
        (∀ a, (x.cells a).isSome = true ↔ a ∈ l) ∧
        (∀ a c, x.head = some a → x.cells a = some c → c.prev = none) ∧
        (∀ a c, x.tail = some a → x.cells a = some c → c.next = none) ∧
        (∀ a b ca cb, x.cells a = some ca → x.cells b = some cb →
          (ca.next = some b ↔ cb.prev = some a)) ∧
        (x.head = none ↔ x.tail = none) ∧
        ((∀ a c, x.cells a = some c → 0 < c.len) → (x.req_totalsize = 0 ↔ x.head = none)) ∧
        ∃ r, xfer_download_data_mem g x = some r := by
  have h := window_example_runs
  cases hr : xfer_run window_example_calls (sftp_globals_init, xfer_init_mem [1] 0 false) with
  | none => rw [hr] at h; simp at h
  | some s =>
    obtain ⟨g, x⟩ := s
    rw [hr] at h
    simp only [Option.map_some', Option.some.injEq, Prod.mk.injEq] at h
    exact ⟨g, x, rfl, h.1, h.2.1, h.2.2.1,
      C34_window_accounting window_example_calls sftp_globals_init g [1] 0 false x hr⟩

end Putty
